import Mathlib

/-! # YepLang: a shallow embedding of the type model, the validator, the tokenizer and the parser

The definitions below follow `src/include/Types.hpp`, `src/src/Types.cpp`,
`src/include/Expression.hpp`, `src/include/Function.hpp`,
`src/include/Validator.hpp`, `src/src/Validator.cpp`, `src/include/Token.hpp`,
`src/src/Tokenizer.cpp`, `src/include/Parser.hpp` and `src/src/Parser.cpp`.

Conventions of the embedding:

* a C++ function that mutates `Expression &expression` and the validator
  object takes the validator state and the expression and returns the new
  state together with the rewritten expression;
* a thrown C++ exception is an `Except.error`; the exception classes
  that the program can raise are kept apart in `Exception`;
* `std::vector` is a `List` in vector order (`push_back` appends at the end,
  `back` is the last element);
* `std::unordered_map<std::string, T>` is an association list with unique
  keys, see `unordered_map`;
* `std::int64_t` is an `Int`, `std::uint64_t` a `Nat`;
* a member function `ValidateX(Expression &expression)` that calls
  `ValidateExpression` on children takes the three members of `expression`
  as the arguments `kind`, `type` and `value`, so that all the functions of
  the validator recurse structurally on the expression tree: `expression`
  is `Expression.mk kind type value`;
* the line the tokenizer works on is the list of its `char`s, and the position of the
  parser is the list of the tokens from `_currentToken` on;
* a `while` loop whose end is not a matter of the shape of its argument gets a number of
  turns and answers `none` when they do not suffice; the function around it passes enough
  turns, which is proved for each such loop (`TokenizeLineLoop_isSome`,
  `ParseTypeLoop_isSome`);
* the member functions of the parser that call one another take a number `fuel`, the depth
  of calls that they may reach, and answer `none` when it does not suffice (`Fueled`); a
  result is stated for every depth from some depth on (`Fueled.Gives`), and more depth
  never changes a result (`Parser.deeper`).
-/

namespace YepLang

/-! ## Types.hpp -/

/-- The enum `BuiltinTypeEnum` of `Types.hpp`. -/
inductive BuiltinTypeEnum where
  | i32
  | i64
  | u64
  | boolean
  | character
  | void_t
  deriving DecidableEq, Repr

mutual
/-- The variant `Type` of `Types.hpp` (`Type` is a reserved word, hence `Ty`):
`std::variant<BuiltinType, Array, Struct, Pointer>`. The `shared_ptr` payloads
are never null in the program and are embedded as plain values. -/
inductive Ty where
  | BuiltinType (type : BuiltinTypeEnum)
  | Array (elementType : Ty) (size : Nat)
  | Struct (fields : List StructField)
  | Pointer (pointedType : Ty)
/-- The struct `StructField` of `Types.hpp`. -/
inductive StructField where
  | mk (name : String) (fieldType : Ty)
end

/-- Field `name` of `StructField`. -/
def StructField.name : StructField → String
  | .mk n _ => n

/-- Field `fieldType` of `StructField`. -/
def StructField.fieldType : StructField → Ty
  | .mk _ t => t

/-! ## Exceptions -/

/-- The exceptions the program can leave a function with.
`invalid_argument what` is the `std::invalid_argument` thrown by
`Validator::ValidatorError`, by the tokenizer and by the parser; `runtime_error what` is
the `std::runtime_error` thrown by the parser; `bad_variant_access` is raised by `std::get`
on a variant that holds another alternative; `bad_optional_access` is raised by
`std::optional::value` on an empty optional; `undefined_behavior` stands for
what C++ leaves undefined: `back()` on an empty vector, `front()` on an empty string, an
index past the end of a vector and reading through an iterator at the end. The size checks
of the source keep every call through `ValidateFunction` away from it. -/
inductive Exception where
  | invalid_argument (what : String)
  | runtime_error (what : String)
  | bad_variant_access
  | bad_optional_access
  | undefined_behavior
  deriving DecidableEq, Repr

/-- The call `std::optional::value()`: throws on an empty optional. -/
def optional_value {α : Type} : Option α → Except Exception α
  | some a => .ok a
  | none => .error .bad_optional_access

/-! ## Types.cpp -/

/-- Function `TypeIsSigned` of `Types.cpp`. -/
def TypeIsSigned : Ty → Bool
  | .BuiltinType .i32 => true
  | .BuiltinType .i64 => true
  | _ => false

/-- Function `TypeIsInteger` of `Types.cpp`. -/
def TypeIsInteger : Ty → Bool
  | .BuiltinType .i32 => true
  | .BuiltinType .i64 => true
  | .BuiltinType .u64 => true
  | _ => false

/-- Function `TypeIsArray` of `Types.cpp`. -/
def TypeIsArray : Ty → Bool
  | .Array _ _ => true
  | _ => false

/-- Function `TypeIsStruct` of `Types.cpp`. -/
def TypeIsStruct : Ty → Bool
  | .Struct _ => true
  | _ => false

/-- Function `TypeIsPointer` of `Types.cpp`. -/
def TypeIsPointer : Ty → Bool
  | .Pointer _ => true
  | _ => false

/-- The one-argument `TypeIsBuiltin` of `Types.cpp`. -/
def TypeIsBuiltin : Ty → Bool
  | .BuiltinType _ => true
  | _ => false

/-- The two-argument overload `TypeIsBuiltin(type, builtinType)` of `Types.cpp`. -/
def TypeIsBuiltinOf : Ty → BuiltinTypeEnum → Bool
  | .BuiltinType ty, builtinType => ty == builtinType
  | _, _ => false

/-- Function `TypeIsComparable` of `Types.cpp`. -/
def TypeIsComparable : Ty → Bool
  | .BuiltinType .i32 => true
  | .BuiltinType .i64 => true
  | .BuiltinType .u64 => true
  | .BuiltinType .character => true
  | .BuiltinType .boolean => false
  | .BuiltinType .void_t => false
  | .Pointer _ => true
  | _ => false

mutual
/-- Function `TypeIsSame` of `Types.cpp`. The Builtin and the Pointer branch test the
alternative held by `b` and return `false` on another one; the Array and the
Struct branch call `std::get` on `b` without such a test, which throws
`std::bad_variant_access` when `b` holds another alternative. -/
def TypeIsSame : Ty → Ty → Except Exception Bool
  | .BuiltinType builtinA, b =>
    match b with
    | .BuiltinType builtinB => if builtinA ≠ builtinB then .ok false else .ok true
    | _ => .ok false
  | .Array elementA sizeA, b =>
    match b with
    | .Array elementB sizeB =>
      match TypeIsSame elementA elementB with
      | .error e => .error e
      | .ok false => .ok false
      | .ok true => if sizeA ≠ sizeB then .ok false else .ok true
    | _ => .error .bad_variant_access
  | .Struct fieldsA, b =>
    match b with
    | .Struct fieldsB =>
      if fieldsA.length ≠ fieldsB.length then .ok false
      else TypeIsSameFields fieldsA fieldsB
    | _ => .error .bad_variant_access
  | .Pointer pointedA, b =>
    match b with
    | .Pointer pointedB =>
      match TypeIsSame pointedA pointedB with
      | .error e => .error e
      | .ok false => .ok false
      | .ok true => .ok true
    | _ => .ok false
/-- The loop `for (i = 0; i < structA.fields.size(); ++i)` of the Struct branch
of `TypeIsSame`, run on the remaining fields of both records (the caller has
checked that both have the same number of fields). -/
def TypeIsSameFields : List StructField → List StructField → Except Exception Bool
  | [], _ => .ok true
  | _ :: _, [] => .error .undefined_behavior
  | .mk _ typeA :: restA, .mk _ typeB :: restB =>
    match TypeIsSame typeA typeB with
    | .error e => .error e
    | .ok false => .ok false
    | .ok true => TypeIsSameFields restA restB
end

/-! ## Expression.hpp -/

/-- The enum `ExpressionKind` of `Expression.hpp`. -/
inductive ExpressionKind where
  | LITERAL
  | VARIABLE
  | VARIABLE_DECLARATION
  | VARIABLE_ASSIGNMENT
  | RETURN
  | CONDITIONAL
  | PLUS_OP
  | MINUS_OP
  | DIVIDE_OP
  | MULTIPLY_OP
  | LESS_THAN_OP
  | GREATER_THAN_OP
  | EQUAL_OP
  | NOT_EQUAL_OP
  | LOGICAL_AND
  | LOGICAL_OR
  | POST_INC_OP
  | FOR_LOOP
  | CONTINUE
  | BREAK
  | SCOPE
  | FUNCTION_CALL
  | CALLEE
  | POINTER_DEREFERENCE
  | ARRAY_SUBSCRIPT
  | NEGATE
  | ADDRESS_OF
  | MEMBER_ACCESS
  deriving DecidableEq, Repr

mutual
/-- The struct `Expression` of `Expression.hpp`: `kind`, `type`, `value`. -/
inductive Expression where
  | mk (kind : ExpressionKind) (type : Option Ty) (value : ExpressionValue)
/-- The variant `ExpressionValue` of `Expression.hpp`:
`std::variant<std::monostate, ExpressionChildren, std::int64_t, std::uint64_t,
std::string, char, bool>`. -/
inductive ExpressionValue where
  | monostate
  | ExpressionChildren (children : List Expression)
  | int64_t (value : Int)
  | uint64_t (value : Nat)
  | string (value : String)
  | char (value : Char)
  | bool (value : Bool)
end

/-- Field `kind` of `Expression`. -/
def Expression.kind : Expression → ExpressionKind
  | .mk k _ _ => k

/-- Field `type` of `Expression`. -/
def Expression.type : Expression → Option Ty
  | .mk _ t _ => t

/-- Field `value` of `Expression`. -/
def Expression.value : Expression → ExpressionValue
  | .mk _ _ v => v

/-- The call `ExpressionGet<std::string>`: `std::get` throws on another alternative. -/
def ExpressionValue.getString : ExpressionValue → Except Exception String
  | .string s => .ok s
  | _ => .error .bad_variant_access

/-- The call `ExpressionGet<std::int64_t>`: `std::get` throws on another alternative. -/
def ExpressionValue.getInt64 : ExpressionValue → Except Exception Int
  | .int64_t v => .ok v
  | _ => .error .bad_variant_access

/-- The call `ExpressionHolds<std::string>`. -/
def ExpressionValue.holdsString : ExpressionValue → Bool
  | .string _ => true
  | _ => false

/-- Unary minus on `std::int64_t`: the negated value, and for the one operand
whose negation is not representable (a signed overflow, which C++ leaves
undefined) the wrapped 64-bit result. -/
def negateInt64 (v : Int) : Int :=
  ((-v + 2 ^ 63) % 2 ^ 64) - 2 ^ 63

/-! ## Function.hpp -/

/-- The struct `FunctionArgument` of `Function.hpp`. -/
structure FunctionArgument where
  name : String
  type : Ty

/-- The struct `FunctionPrototype` of `Function.hpp`. -/
structure FunctionPrototype where
  name : String
  arguments : List FunctionArgument
  returnType : Ty

/-- The struct `Function` of `Function.hpp`. -/
structure Function where
  prototype : FunctionPrototype
  body : Expression

/-! ## std::unordered_map -/

/-- A `std::unordered_map<std::string, β>` as an association list whose keys
are pairwise different; only `find`, `emplace` and `assign` build or read
one. -/
abbrev unordered_map (β : Type) := List (String × β)

namespace unordered_map

/-- The call `map.find(key)` / `map.at(key)`: the value stored under `key`, if any. -/
def find {β : Type} : unordered_map β → String → Option β
  | [], _ => none
  | (k, b) :: rest, key => if k = key then some b else find rest key

/-- The call `map.contains(key)`. -/
def contains {β : Type} (m : unordered_map β) (key : String) : Bool :=
  (m.find key).isSome

/-- The call `map[key] = value`: overwrites the value of an existing key, inserts
otherwise. -/
def assign {β : Type} : unordered_map β → String → β → unordered_map β
  | [], key, value => [(key, value)]
  | (k, b) :: rest, key, value =>
    if k = key then (k, value) :: rest else (k, b) :: assign rest key value

/-- The call `map.emplace(key, value)`: inserts only when `key` is absent. -/
def emplace {β : Type} (m : unordered_map β) (key : String) (value : β) : unordered_map β :=
  if m.contains key then m else m ++ [(key, value)]

end unordered_map

/-! ## Validator.hpp -/

/-- The struct `ValidatorScope` of `Validator.hpp`; its member `variables` is
`vars` here, that name being a command word of the library. -/
structure ValidatorScope where
  vars : unordered_map Ty

/-- The data members of class `Validator`. -/
structure Validator where
  _currentFunction : FunctionPrototype
  _scopes : List ValidatorScope
  _definedFunctions : unordered_map FunctionPrototype

/-- The constructor `Validator::Validator()`: a value-initialised prototype
(empty name, no arguments, the first alternative of `Type` with the enumerator
of value zero), no scope, no function. -/
def Validator.new : Validator :=
  { _currentFunction := { name := "", arguments := [], returnType := .BuiltinType .i32 }
    _scopes := []
    _definedFunctions := [] }

/-- Function `KindIsIn(in, first, rest...)` of `Expression.hpp`. -/
def KindIsIn (kind : ExpressionKind) : List ExpressionKind → Bool
  | [] => false
  | first :: rest => kind == first || KindIsIn kind rest

/-! ## Validator.cpp -/

/-- The exception thrown by `Validator::ValidatorError`: the message prefixed
with the name of the current function and a colon. -/
def Validator.ValidatorError (self : Validator) (message : String) : Exception :=
  .invalid_argument (self._currentFunction.name ++ ": " ++ message)

/-- The preprocessor form `VERIFY(condition, message, expression)`. -/
def Validator.VERIFY (self : Validator) (condition : Bool) (message : String) :
    Except Exception Unit :=
  if condition then .ok () else .error (self.ValidatorError message)

/-- Member function `Validator::FindVariable`: the innermost scope (searched from the back of
the vector) that contains `name` decides. -/
def Validator.FindVariable (self : Validator) (name : String) : Option Ty :=
  match self._scopes.reverse.find? (fun scope => scope.vars.contains name) with
  | none => none
  | some it => it.vars.find name

/-- Member function `Validator::FindFunction`. -/
def Validator.FindFunction (self : Validator) (name : String) : Option FunctionPrototype :=
  self._definedFunctions.find name

/-- Member function `Validator::ValidateExternalFunction`. -/
def Validator.ValidateExternalFunction (self : Validator) (prototype : FunctionPrototype) :
    Validator :=
  { self with _definedFunctions := self._definedFunctions.assign prototype.name prototype }

/-- Member function `Validator::ValidateLiteral`. -/
def Validator.ValidateLiteral (self : Validator) (expression : Expression) :
    Except Exception (Validator × Expression) := do
  self.VERIFY expression.type.isSome "Literal has no type"
  return (self, expression)

/-- Member function `Validator::ValidateVariable`. -/
def Validator.ValidateVariable (self : Validator) (expression : Expression) :
    Except Exception (Validator × Expression) := do
  self.VERIFY (!expression.type.isSome) "Aw snap!"
  self.VERIFY expression.value.holdsString "Variable is not a string"
  let variableName ← expression.value.getString
  self.VERIFY (!variableName.isEmpty) "Variable is an empty string"
  let found := self.FindVariable variableName
  self.VERIFY found.isSome "Variable not found"
  let type ← optional_value found
  return (self, .mk expression.kind (some type) expression.value)

/-- The statement `_scopes.back().variables[variableName] = type` of
`ValidateVariableDeclaration`. -/
def Validator.assignInBackScope (self : Validator) (variableName : String) (type : Ty) :
    Except Exception Validator :=
  match self._scopes.getLast? with
  | none => .error .undefined_behavior
  | some back =>
    .ok { self with
      _scopes := self._scopes.dropLast ++ [{ vars := back.vars.assign variableName type }] }

/-- The loop over `structDef.fields` of `ValidateMemberAccess`: the first
field whose name is `fieldName`. -/
def findStructField (fieldName : String) : List StructField → Option StructField
  | [] => none
  | targetField :: rest =>
    if targetField.name = fieldName then some targetField else findStructField fieldName rest

mutual
/-- Member function `Validator::ValidateExpression`: the dispatch on `expression.kind`. -/
def Validator.ValidateExpression (self : Validator) :
    Expression → Except Exception (Validator × Expression)
  | .mk kind type value =>
    match kind with
    | .SCOPE => Validator.ValidateScope self kind type value
    | .LITERAL => self.ValidateLiteral (.mk kind type value)
    | .VARIABLE => self.ValidateVariable (.mk kind type value)
    | .VARIABLE_ASSIGNMENT => Validator.ValidateVariableAssignment self kind type value
    | .VARIABLE_DECLARATION => Validator.ValidateVariableDeclaration self kind type value
    | .RETURN => Validator.ValidateReturn self kind type value
    | .CONDITIONAL => Validator.ValidateConditional self kind type value
    | .PLUS_OP => Validator.ValidateArithmetic self kind type value
    | .MINUS_OP => Validator.ValidateArithmetic self kind type value
    | .DIVIDE_OP => Validator.ValidateArithmetic self kind type value
    | .MULTIPLY_OP => Validator.ValidateArithmetic self kind type value
    | .GREATER_THAN_OP => Validator.ValidateComparison self kind type value
    | .LESS_THAN_OP => Validator.ValidateComparison self kind type value
    | .EQUAL_OP => Validator.ValidateComparison self kind type value
    | .NOT_EQUAL_OP => Validator.ValidateComparison self kind type value
    | .LOGICAL_AND => Validator.ValidateLogical self kind type value
    | .LOGICAL_OR => Validator.ValidateLogical self kind type value
    | .POST_INC_OP => Validator.ValidatePostInc self kind type value
    | .POINTER_DEREFERENCE => Validator.ValidatePointerDereference self kind type value
    | .ARRAY_SUBSCRIPT => Validator.ValidateArraySubscript self kind type value
    | .FUNCTION_CALL => Validator.ValidateFunctionCall self kind type value
    | .FOR_LOOP => Validator.ValidateForLoop self kind type value
    | .NEGATE => Validator.ValidateNegate self kind type value
    | .ADDRESS_OF => Validator.ValidateAddressOf self kind type value
    | .CONTINUE => .ok (self, .mk kind type value)
    | .BREAK => .ok (self, .mk kind type value)
    | .CALLEE => .ok (self, .mk kind type value)
    | .MEMBER_ACCESS => Validator.ValidateMemberAccess self kind type value
/-- Member function `Validator::ValidateScope` on the expression `(kind, type, value)`. -/
def Validator.ValidateScope (self : Validator) (kind : ExpressionKind) (type : Option Ty) :
    ExpressionValue → Except Exception (Validator × Expression)
  | .ExpressionChildren children => do
    self.VERIFY (!type.isSome) "Scope should not have a type"
    let pushed : Validator := { self with _scopes := self._scopes ++ [{ vars := [] }] }
    let (inner, children) ← Validator.ValidateScopeLoop pushed children
    let popped : Validator := { inner with _scopes := inner._scopes.dropLast }
    return (popped, .mk kind type (.ExpressionChildren children))
  | _ => do
    self.VERIFY (!type.isSome) "Scope should not have a type"
    .error (self.ValidatorError "Scope body is not a list of expressions")
/-- The loop `for (auto &expr: children) ValidateExpression(expr)` of
`ValidateScope`. -/
def Validator.ValidateScopeLoop (self : Validator) :
    List Expression → Except Exception (Validator × List Expression)
  | [] => .ok (self, [])
  | expr :: rest => do
    let (self, expr) ← Validator.ValidateExpression self expr
    let (self, rest) ← Validator.ValidateScopeLoop self rest
    return (self, expr :: rest)
/-- Member function `Validator::ValidateVariableAssignment` on `(kind, type, value)`. -/
def Validator.ValidateVariableAssignment (self : Validator) (kind : ExpressionKind)
    (_type : Option Ty) : ExpressionValue → Except Exception (Validator × Expression)
  | .ExpressionChildren [LHS, RHS] => do
    self.VERIFY (KindIsIn LHS.kind [.VARIABLE, .POINTER_DEREFERENCE, .MEMBER_ACCESS])
      "Assignment LHS is not a variable or a pointer dereference"
    let (self, LHS) ← Validator.ValidateExpression self LHS
    let (self, RHS) ← Validator.ValidateExpression self RHS
    self.VERIFY RHS.type.isSome "Assignment RHS cannot be assigned"
    let lhsType ← optional_value LHS.type
    let rhsType ← optional_value RHS.type
    let same ← TypeIsSame lhsType rhsType
    self.VERIFY same "Assignment types mismatch"
    return (self, .mk kind (some lhsType) (.ExpressionChildren [LHS, RHS]))
  | .ExpressionChildren _ =>
    .error (self.ValidatorError "Assignment is not a pair of expressions")
  | _ => .error (self.ValidatorError "Assignment does not contain expressions")
/-- Member function `Validator::ValidateVariableDeclaration` on `(kind, type, value)`. -/
def Validator.ValidateVariableDeclaration (self : Validator) (kind : ExpressionKind)
    (_type : Option Ty) : ExpressionValue → Except Exception (Validator × Expression)
  | .ExpressionChildren [LHS, RHS] => do
    self.VERIFY (LHS.kind == .VARIABLE) "Variable declaration LHS is not a variable"
    self.VERIFY LHS.type.isSome "Variable declaration has no type"
    let lhsType ← optional_value LHS.type
    self.VERIFY (!TypeIsBuiltinOf lhsType .void_t) "Cannot create void variable"
    let (self, RHS) ← Validator.ValidateExpression self RHS
    self.VERIFY RHS.type.isSome "Variable initial value has no type"
    let rhsType ← optional_value RHS.type
    let same ← TypeIsSame lhsType rhsType
    self.VERIFY same "Variable declaration types mismatch"
    let variableName ← LHS.value.getString
    let self ← self.assignInBackScope variableName lhsType
    return (self, .mk kind (some lhsType) (.ExpressionChildren [LHS, RHS]))
  | .ExpressionChildren _ =>
    .error (self.ValidatorError "Variable declaration is not a pair of expressions")
  | _ => .error (self.ValidatorError "Variable declaration does not contain expressions")
/-- Member function `Validator::ValidateReturn` on `(kind, type, value)`. -/
def Validator.ValidateReturn (self : Validator) (kind : ExpressionKind) (_type : Option Ty) :
    ExpressionValue → Except Exception (Validator × Expression)
  | .ExpressionChildren [] => do
    self.VERIFY (TypeIsBuiltinOf self._currentFunction.returnType .void_t)
      "Return type does not match function type"
    return (self, .mk kind (some self._currentFunction.returnType) (.ExpressionChildren []))
  | .ExpressionChildren [expr] => do
    let (self, expr) ← Validator.ValidateExpression self expr
    self.VERIFY expr.type.isSome "Return does not return a value"
    let exprType ← optional_value expr.type
    let same ← TypeIsSame exprType self._currentFunction.returnType
    self.VERIFY same "Return type does not match function type"
    return (self, .mk kind expr.type (.ExpressionChildren [expr]))
  | .ExpressionChildren _ =>
    .error (self.ValidatorError "Return contains more than 1 expression")
  | _ => .error (self.ValidatorError "Return does not contain an expression")
/-- Member function `Validator::ValidateConditional` on `(kind, type, value)`. -/
def Validator.ValidateConditional (self : Validator) (kind : ExpressionKind) (type : Option Ty) :
    ExpressionValue → Except Exception (Validator × Expression)
  | .ExpressionChildren (conditionalExpression :: .mk trueKind trueType trueValue :: rest) => do
    let (self, conditionalExpression) ← Validator.ValidateExpression self conditionalExpression
    self.VERIFY conditionalExpression.type.isSome "Condition is not a boolean"
    let conditionType ← optional_value conditionalExpression.type
    self.VERIFY (TypeIsBuiltinOf conditionType .boolean) "Condition is not a boolean"
    self.VERIFY (trueKind == .SCOPE) "True branch is not a scope"
    let (self, trueExpression) ← Validator.ValidateScope self trueKind trueType trueValue
    let (self, rest) ← Validator.ValidateConditionalLoop self rest
    return (self, .mk kind type (.ExpressionChildren (conditionalExpression :: trueExpression :: rest)))
  | .ExpressionChildren _ =>
    .error (self.ValidatorError "Conditional requires at least 2 expressions")
  | _ => .error (self.ValidatorError "Conditional does not contain expressions")
/-- The loop `for (; ix < expressions.size() - 1; ix += 2)` of
`ValidateConditional` and the `if (ix == expressions.size() - 1)` after it, on
the expressions from index `ix` on. -/
def Validator.ValidateConditionalLoop (self : Validator) :
    List Expression → Except Exception (Validator × List Expression)
  | [] => .ok (self, [])
  | [.mk elseKind elseType elseValue] => do
    self.VERIFY (elseKind == .SCOPE) "Else branch is not a scope"
    let (self, elseBody) ← Validator.ValidateScope self elseKind elseType elseValue
    return (self, [elseBody])
  | elifCondition :: .mk bodyKind bodyType bodyValue :: rest => do
    let (self, elifCondition) ← Validator.ValidateExpression self elifCondition
    self.VERIFY elifCondition.type.isSome "Elif condition is not a boolean"
    let conditionType ← optional_value elifCondition.type
    self.VERIFY (TypeIsBuiltinOf conditionType .boolean) "Elif condition is not a boolean"
    self.VERIFY (bodyKind == .SCOPE) "Elif branch is not a scope"
    let (self, elifBody) ← Validator.ValidateScope self bodyKind bodyType bodyValue
    let (self, rest) ← Validator.ValidateConditionalLoop self rest
    return (self, elifCondition :: elifBody :: rest)
/-- Member function `Validator::ValidateArithmetic` on `(kind, type, value)`. -/
def Validator.ValidateArithmetic (self : Validator) (kind : ExpressionKind) (_type : Option Ty) :
    ExpressionValue → Except Exception (Validator × Expression)
  | .ExpressionChildren [LHS, RHS] => do
    let (self, LHS) ← Validator.ValidateExpression self LHS
    self.VERIFY LHS.type.isSome "Arithmetic operation LHS has no type"
    let lhsType ← optional_value LHS.type
    self.VERIFY (TypeIsInteger lhsType || TypeIsPointer lhsType)
      "Arithmetic operation LHS is not an integer type or a pointer"
    let (self, RHS) ← Validator.ValidateExpression self RHS
    self.VERIFY RHS.type.isSome "Arithmetic operation RHS has no type"
    let rhsType ← optional_value RHS.type
    self.VERIFY (TypeIsInteger rhsType) "Arithmetic operation RHS is not an integer type"
    if TypeIsPointer lhsType then
      self.VERIFY (KindIsIn kind [.MINUS_OP, .PLUS_OP])
        "Only + and - operations are allowed on pointers"
      return (self, .mk kind LHS.type (.ExpressionChildren [LHS, RHS]))
    else
      let same ← TypeIsSame lhsType rhsType
      self.VERIFY same "Arithmetic operation types mismatch"
      return (self, .mk kind LHS.type (.ExpressionChildren [LHS, RHS]))
  | .ExpressionChildren _ =>
    .error (self.ValidatorError "Arithmetic operation is not a pair of expressions")
  | _ => .error (self.ValidatorError "Arithmetic operation does not contain expressions")
/-- Member function `Validator::ValidateComparison` on `(kind, type, value)`. -/
def Validator.ValidateComparison (self : Validator) (kind : ExpressionKind) (_type : Option Ty) :
    ExpressionValue → Except Exception (Validator × Expression)
  | .ExpressionChildren [LHS, RHS] => do
    let (self, LHS) ← Validator.ValidateExpression self LHS
    let (self, RHS) ← Validator.ValidateExpression self RHS
    let lhsType ← optional_value LHS.type
    let rhsType ← optional_value RHS.type
    let same ← TypeIsSame lhsType rhsType
    self.VERIFY same "Comparison operation types mismatch"
    self.VERIFY (TypeIsComparable lhsType) "Comparison operand type is not comparable"
    return (self, .mk kind (some (.BuiltinType .boolean)) (.ExpressionChildren [LHS, RHS]))
  | .ExpressionChildren _ =>
    .error (self.ValidatorError "Comparison operation is not a pair of expressions")
  | _ => .error (self.ValidatorError "Comparison operation does not contain expressions")
/-- Member function `Validator::ValidateLogical` on `(kind, type, value)`. -/
def Validator.ValidateLogical (self : Validator) (kind : ExpressionKind) (_type : Option Ty) :
    ExpressionValue → Except Exception (Validator × Expression)
  | .ExpressionChildren [LHS, RHS] => do
    let (self, LHS) ← Validator.ValidateExpression self LHS
    let (self, RHS) ← Validator.ValidateExpression self RHS
    let lhsType ← optional_value LHS.type
    let rhsType ← optional_value RHS.type
    let same ← TypeIsSame lhsType rhsType
    self.VERIFY same "Logical operation types mismatch"
    self.VERIFY (TypeIsBuiltinOf lhsType .boolean) "Logical operation operand type is not a boolean"
    return (self, .mk kind LHS.type (.ExpressionChildren [LHS, RHS]))
  | .ExpressionChildren _ =>
    .error (self.ValidatorError "Logical operation is not a pair of expressions")
  | _ => .error (self.ValidatorError "Logical operation does not contain expressions")
/-- Member function `Validator::ValidatePostInc` on `(kind, type, value)`. -/
def Validator.ValidatePostInc (self : Validator) (kind : ExpressionKind) (_type : Option Ty) :
    ExpressionValue → Except Exception (Validator × Expression)
  | .ExpressionChildren [operand] => do
    self.VERIFY (KindIsIn operand.kind [.VARIABLE]) "Post increment operand is not a variable"
    let (self, operand) ← Validator.ValidateExpression self operand
    self.VERIFY operand.type.isSome "Post increment operand has no type"
    let operandType ← optional_value operand.type
    self.VERIFY (TypeIsInteger operandType || TypeIsPointer operandType)
      "Post increment operand is not an integer type or pointer"
    return (self, .mk kind operand.type (.ExpressionChildren [operand]))
  | .ExpressionChildren _ =>
    .error (self.ValidatorError "Post increment contains more than one expression")
  | _ => .error (self.ValidatorError "Post increment does not contain expressions")
/-- Member function `Validator::ValidatePointerDereference` on `(kind, type, value)`. -/
def Validator.ValidatePointerDereference (self : Validator) (kind : ExpressionKind)
    (_type : Option Ty) : ExpressionValue → Except Exception (Validator × Expression)
  | .ExpressionChildren [operand] => do
    let (self, operand) ← Validator.ValidateExpression self operand
    self.VERIFY operand.type.isSome "Pointer dereference operand has no type"
    let operandType ← optional_value operand.type
    match operandType with
    | .Pointer pointedType =>
      return (self, .mk kind (some pointedType) (.ExpressionChildren [operand]))
    | _ => .error (self.ValidatorError "Pointer dereference operand is not a pointer")
  | .ExpressionChildren _ =>
    .error (self.ValidatorError "Pointer dereference contains more than one expression")
  | _ => .error (self.ValidatorError "Pointer dereference does not contain expressions")
/-- Member function `Validator::ValidateArraySubscript` on `(kind, type, value)`. -/
def Validator.ValidateArraySubscript (self : Validator) (kind : ExpressionKind)
    (_type : Option Ty) : ExpressionValue → Except Exception (Validator × Expression)
  | .ExpressionChildren [target, index] => do
    let (self, target) ← Validator.ValidateExpression self target
    self.VERIFY target.type.isSome "Array subscript target has no type"
    let targetType ← optional_value target.type
    self.VERIFY (TypeIsPointer targetType || TypeIsArray targetType)
      "Array subscript target is not an array or a pointer"
    let (self, index) ← Validator.ValidateExpression self index
    self.VERIFY index.type.isSome "Array subscript index has no type"
    let indexType ← optional_value index.type
    self.VERIFY (TypeIsInteger indexType) "Array subscript target is not an integer"
    match targetType with
    | .Array elementType _ =>
      return (self, .mk kind (some elementType) (.ExpressionChildren [target, index]))
    | .Pointer pointedType =>
      return (self, .mk kind (some pointedType) (.ExpressionChildren [target, index]))
    | _ => .error .bad_variant_access
  | .ExpressionChildren _ =>
    .error (self.ValidatorError "Array subscript is not a pair of expressions")
  | _ => .error (self.ValidatorError "Array subscript does not contain expressions")
/-- Member function `Validator::ValidateFunctionCall` on `(kind, type, value)`. -/
def Validator.ValidateFunctionCall (self : Validator) (kind : ExpressionKind)
    (_type : Option Ty) : ExpressionValue → Except Exception (Validator × Expression)
  | .ExpressionChildren (calleeExpression :: arguments) => do
    let (self, calleeExpression) ← Validator.ValidateExpression self calleeExpression
    self.VERIFY (KindIsIn calleeExpression.kind [.CALLEE]) "Function call has no callee"
    let callee ← calleeExpression.value.getString
    match self.FindFunction callee with
    | none => .error (self.ValidatorError "Unknown function")
    | some prototype =>
      self.VERIFY (prototype.arguments.length == arguments.length) "Mismatched argument count"
      let (self, arguments) ← Validator.ValidateFunctionCallLoop self prototype.arguments arguments
      return (self, .mk kind (some prototype.returnType)
        (.ExpressionChildren (calleeExpression :: arguments)))
  | .ExpressionChildren [] => .error (self.ValidatorError "Call expression is empty")
  | _ => .error (self.ValidatorError "Function call does not contain expressions")
/-- The loop `for (i = 0; i < prototype->arguments.size(); ++i)` of
`ValidateFunctionCall`, on the parameters from index `i` on and the expressions
from index `i + 1` on (the caller has checked that both have the same
length). -/
def Validator.ValidateFunctionCallLoop (self : Validator) :
    List FunctionArgument → List Expression → Except Exception (Validator × List Expression)
  | [], rest => .ok (self, rest)
  | _ :: _, [] => .error .undefined_behavior
  | parameter :: parameters, argExpression :: rest => do
    let (self, argExpression) ← Validator.ValidateExpression self argExpression
    self.VERIFY argExpression.type.isSome "Function call argument has no type"
    let argType ← optional_value argExpression.type
    let same ← TypeIsSame argType parameter.type
    self.VERIFY same "Function call argument types mismatch"
    let (self, rest) ← Validator.ValidateFunctionCallLoop self parameters rest
    return (self, argExpression :: rest)
/-- Member function `Validator::ValidateForLoop` on `(kind, type, value)`. -/
def Validator.ValidateForLoop (self : Validator) (kind : ExpressionKind) (type : Option Ty) :
    ExpressionValue → Except Exception (Validator × Expression)
  | .ExpressionChildren [initExpression, conditionExpression, postExpression, bodyExpression] => do
    let (self, initExpression) ← Validator.ValidateExpression self initExpression
    let (self, conditionExpression) ← Validator.ValidateExpression self conditionExpression
    self.VERIFY conditionExpression.type.isSome "For loop condition expression has no type"
    let conditionType ← optional_value conditionExpression.type
    self.VERIFY (TypeIsBuiltinOf conditionType .boolean)
      "For loop condition expression is not a boolean"
    let (self, postExpression) ← Validator.ValidateExpression self postExpression
    let (self, bodyExpression) ← Validator.ValidateExpression self bodyExpression
    self.VERIFY (KindIsIn bodyExpression.kind [.SCOPE]) "For loop body is not a scope"
    return (self, .mk kind type
      (.ExpressionChildren [initExpression, conditionExpression, postExpression, bodyExpression]))
  | .ExpressionChildren _ => .error (self.ValidatorError "For loop requires 4 expressions")
  | _ => .error (self.ValidatorError "For loop does not contain expressions")
/-- Member function `Validator::ValidateNegate` on `(kind, type, value)`. -/
def Validator.ValidateNegate (self : Validator) (_kind : ExpressionKind) (_type : Option Ty) :
    ExpressionValue → Except Exception (Validator × Expression)
  | .ExpressionChildren [operand] => do
    self.VERIFY (KindIsIn operand.kind [.LITERAL]) "Negate operand is not a variable"
    let (self, operand) ← Validator.ValidateExpression self operand
    self.VERIFY operand.type.isSome "Negate operand has no type"
    let operandType ← optional_value operand.type
    self.VERIFY (TypeIsInteger operandType && TypeIsSigned operandType)
      "Negate operand is not an signed integer type"
    let operandValue ← operand.value.getInt64
    return (self, .mk .LITERAL operand.type (.int64_t (negateInt64 operandValue)))
  | .ExpressionChildren _ =>
    .error (self.ValidatorError "Negate contains more than one expression")
  | _ => .error (self.ValidatorError "Negate does not contain expressions")
/-- Member function `Validator::ValidateAddressOf` on `(kind, type, value)`. -/
def Validator.ValidateAddressOf (self : Validator) (kind : ExpressionKind) (_type : Option Ty) :
    ExpressionValue → Except Exception (Validator × Expression)
  | .ExpressionChildren [operand] => do
    self.VERIFY (KindIsIn operand.kind [.VARIABLE]) "Address of operand is not a variable"
    let (self, operand) ← Validator.ValidateExpression self operand
    self.VERIFY operand.type.isSome "Address of operand has no type"
    let operandType ← optional_value operand.type
    return (self, .mk kind (some (.Pointer operandType)) (.ExpressionChildren [operand]))
  | .ExpressionChildren _ =>
    .error (self.ValidatorError "Address of contains more than one expression")
  | _ => .error (self.ValidatorError "Address of does not contain expressions")
/-- Member function `Validator::ValidateMemberAccess` on `(kind, type, value)`. -/
def Validator.ValidateMemberAccess (self : Validator) (kind : ExpressionKind)
    (_type : Option Ty) : ExpressionValue → Except Exception (Validator × Expression)
  | .ExpressionChildren [target, field] => do
    let (self, target) ← Validator.ValidateExpression self target
    self.VERIFY target.type.isSome "Member access target has no type"
    let targetType ← optional_value target.type
    match targetType with
    | .Struct fields =>
      self.VERIFY (field.kind == .VARIABLE && field.value.holdsString)
        "Member access index is not a string"
      let fieldName ← field.value.getString
      match findStructField fieldName fields with
      | some targetField =>
        return (self, .mk kind (some targetField.fieldType)
          (.ExpressionChildren [target, .mk field.kind (some targetField.fieldType) field.value]))
      | none => .error (self.ValidatorError "Unknown struct field")
    | _ => .error (self.ValidatorError "Member access target is not a struct")
  | .ExpressionChildren _ =>
    .error (self.ValidatorError "Member access is not a pair of expressions")
  | _ => .error (self.ValidatorError "Member access does not contain expressions")
end

/-- The loop over `function.prototype.arguments` of `ValidateFunction` that
fills `functionScope` by `emplace`. -/
def functionScopeOf : List FunctionArgument → ValidatorScope → ValidatorScope
  | [], functionScope => functionScope
  | argument :: rest, functionScope =>
    functionScopeOf rest { vars := functionScope.vars.emplace argument.name argument.type }

/-- Member function `Validator::ValidateFunction`. -/
def Validator.ValidateFunction (self : Validator) (function : Function) :
    Except Exception (Validator × Function) := do
  let self : Validator := { self with _currentFunction := function.prototype }
  let functionScope := functionScopeOf function.prototype.arguments { vars := [] }
  let self : Validator := { self with _scopes := self._scopes ++ [functionScope] }
  let self : Validator :=
    { self with
      _definedFunctions := self._definedFunctions.assign function.prototype.name function.prototype }
  self.VERIFY (function.body.kind == .SCOPE) "Function body is not a scope"
  let (self, body) ← self.ValidateExpression function.body
  return (self, { prototype := function.prototype, body := body })


/-! ## Types.cpp: TypeToStr -/

/-- Function `TypeToStr` of `Types.cpp`. An element count is written by `operator<<` in
decimal. -/
def TypeToStr : Ty → String
  | .BuiltinType .i32 => "i32"
  | .BuiltinType .i64 => "i64"
  | .BuiltinType .boolean => "bool"
  | .BuiltinType .character => "char"
  | .BuiltinType .u64 => "u64"
  | .BuiltinType .void_t => "void"
  | .Array elementType size => TypeToStr elementType ++ "[" ++ toString size ++ "]"
  | .Struct _ => "TODO: Struct"
  | .Pointer _ => "pointer"

/-! ## Token.hpp -/

/-- The enum `TokenType` of `Token.hpp`. -/
inductive TokenType where
  | Function
  | VariableDeclaration
  | Identifier
  | LeftParen
  | RightParen
  | RightArrow
  | LeftChevron
  | RightChevron
  | LeftBracket
  | RightBracket
  | Equal
  | NotEqual
  | Colon
  | Comma
  | Return
  | I64Literal
  | U64Literal
  | StringLiteral
  | CharacterLiteral
  | PlusOp
  | PlusPlusOp
  | Minus
  | Asterisk
  | DivideOp
  | IndentPlus
  | IndentMinus
  | EndOfFile
  | EndOfLine
  | If
  | Else
  | Elif
  | Assignment
  | For
  | Continue
  | Break
  | LogicalAnd
  | LogicalOr
  | Ampersand
  | Struct
  | LeftBrace
  | RightBrace
  | Dot
  deriving DecidableEq, Repr

/-- The struct `Token` of `Token.hpp`. -/
structure Token where
  file : String
  line : Nat
  type : TokenType
  value : Option String
  deriving DecidableEq, Repr

/-! ## cctype -/

/-- The character `\t`. -/
def charTab : Char := Char.ofNat 9

/-- The character `\n`. -/
def charNewline : Char := Char.ofNat 10

/-- The character `\v`. -/
def charVerticalTab : Char := Char.ofNat 11

/-- The character `\f`. -/
def charFormFeed : Char := Char.ofNat 12

/-- The character `\r`. -/
def charReturn : Char := Char.ofNat 13

/-- The character `\0`. -/
def charNul : Char := Char.ofNat 0

/-- The double quote. -/
def charQuote : Char := Char.ofNat 34

/-- The single quote. -/
def charApostrophe : Char := Char.ofNat 39

/-- The backslash. -/
def charBackslash : Char := Char.ofNat 92

/-- The test `std::isspace` in the C locale: blank, `\t`, `\n`, `\v`, `\f` and `\r`. -/
def isspace (c : Char) : Bool :=
  c == ' ' || c == charTab || c == charNewline || c == charVerticalTab || c == charFormFeed ||
    c == charReturn

/-- The test `std::isdigit`. -/
def isdigit (c : Char) : Bool := c.isDigit

/-- The test `std::isalpha` in the C locale. -/
def isalpha (c : Char) : Bool := c.isAlpha

/-! ## Tokenizer.cpp

The members `_currentFile`, `_currentLine` and `_line` of the tokenizer are the arguments
`file`, `currentLine` and `line` of the functions; a function that consumes a part of
`_line` returns what is left of it. A `std::string` is the list of its `char`s where the
tokenizer walks through it. -/

/-- The map `_keywords` that the constructor `Tokenizer::Tokenizer()` fills. -/
def Tokenizer._keywords : List (String × TokenType) :=
  [("function", .Function),
   ("return", .Return),
   ("var", .VariableDeclaration),
   ("if", .If),
   ("else", .Else),
   ("elif", .Elif),
   ("for", .For),
   ("continue", .Continue),
   ("break", .Break),
   ("and", .LogicalAnd),
   ("or", .LogicalOr),
   ("struct", .Struct)]

/-- Member function `Tokenizer::IsSpecialCharacter`. -/
def Tokenizer.IsSpecialCharacter (c : Char) : Bool :=
  c == '(' || c == ')' || c == '-' || c == '>' || c == ':' || c == '+' || c == '*' || c == '/' ||
    c == '<' || c == '=' || c == '!' || c == ',' || c == '[' || c == ']' || c == '&' ||
    c == '\x7b' || c == '\x7d' || c == '.'

/-- The exception of `Tokenizer::UnknownToken`. -/
def Tokenizer.UnknownToken (file : String) (currentLine : Nat) (token : List Char) : Exception :=
  .invalid_argument (file ++ ":" ++ toString currentLine ++ " Invalid token: " ++ String.mk token)

/-- Member function `Tokenizer::IsKeyword`: a keyword that `line` starts with. The order in
which the loop walks through the `unordered_map` is not specified; no keyword is the
beginning of another one, so at most one keyword qualifies. -/
def Tokenizer.IsKeyword (line : List Char) : Option (String × TokenType) :=
  Tokenizer._keywords.find? (fun entry => entry.1.toList.isPrefixOf line)

/-- Member function `Tokenizer::Advance`: `_line.erase(0, count)`. -/
def Tokenizer.Advance (line : List Char) (count : Nat) : List Char :=
  line.drop count

/-- Member function `Tokenizer::SlurpKeyword`, on the entry of `_keywords` for the
keyword. -/
def Tokenizer.SlurpKeyword (file : String) (currentLine : Nat) (line : List Char)
    (keyword : String × TokenType) : Token × List Char :=
  ({ file := file, line := currentLine, type := keyword.2, value := none },
    Tokenizer.Advance line keyword.1.length)

/-- Member function `Tokenizer::SlurpSpecial`. -/
def Tokenizer.SlurpSpecial (file : String) (currentLine : Nat) (line : List Char) :
    Except Exception (Token × List Char) :=
  let token (type : TokenType) : Token :=
    { file := file, line := currentLine, type := type, value := none }
  match line with
  | [] => .error .undefined_behavior
  | firstChar :: _ =>
    if firstChar = '(' then .ok (token .LeftParen, Tokenizer.Advance line 1)
    else if firstChar = '*' then .ok (token .Asterisk, Tokenizer.Advance line 1)
    else if firstChar = '.' then .ok (token .Dot, Tokenizer.Advance line 1)
    else if firstChar = '&' then .ok (token .Ampersand, Tokenizer.Advance line 1)
    else if firstChar = '/' then .ok (token .DivideOp, Tokenizer.Advance line 1)
    else if firstChar = ')' then .ok (token .RightParen, Tokenizer.Advance line 1)
    else if firstChar = '[' then .ok (token .LeftBracket, Tokenizer.Advance line 1)
    else if firstChar = ']' then .ok (token .RightBracket, Tokenizer.Advance line 1)
    else if firstChar = '\x7b' then .ok (token .LeftBrace, Tokenizer.Advance line 1)
    else if firstChar = '\x7d' then .ok (token .RightBrace, Tokenizer.Advance line 1)
    else if firstChar = '-' then
      if "->".toList.isPrefixOf line then .ok (token .RightArrow, Tokenizer.Advance line 2)
      else .ok (token .Minus, Tokenizer.Advance line 1)
    else if firstChar = ':' then .ok (token .Colon, Tokenizer.Advance line 1)
    else if firstChar = ',' then .ok (token .Comma, Tokenizer.Advance line 1)
    else if firstChar = '+' then
      if "++".toList.isPrefixOf line then .ok (token .PlusPlusOp, Tokenizer.Advance line 2)
      else .ok (token .PlusOp, Tokenizer.Advance line 1)
    else if firstChar = '<' then .ok (token .LeftChevron, Tokenizer.Advance line 1)
    else if firstChar = '>' then .ok (token .RightChevron, Tokenizer.Advance line 1)
    else if firstChar = '=' then
      if "==".toList.isPrefixOf line then .ok (token .Equal, Tokenizer.Advance line 2)
      else .ok (token .Assignment, Tokenizer.Advance line 1)
    else if firstChar = '!' then
      if "!=".toList.isPrefixOf line then .ok (token .NotEqual, Tokenizer.Advance line 2)
      else .error (Tokenizer.UnknownToken file currentLine line)
    else .error (Tokenizer.UnknownToken file currentLine line)

/-- Member function `Tokenizer::SlurpIdentifier`. -/
def Tokenizer.SlurpIdentifier (file : String) (currentLine : Nat) (line : List Char) :
    Token × List Char :=
  let index := (line.takeWhile
    (fun c => !(Tokenizer.IsSpecialCharacter c || isspace c))).length
  let identifier := line.take index
  ({ file := file, line := currentLine, type := .Identifier, value := some (String.mk identifier) },
    Tokenizer.Advance line index)

/-- Member function `Tokenizer::SlurpNumeric`. -/
def Tokenizer.SlurpNumeric (file : String) (currentLine : Nat) (line : List Char) :
    Token × List Char :=
  let index := (line.takeWhile isdigit).length
  let value := line.take index
  let line := Tokenizer.Advance line index
  if "u64".toList.isPrefixOf line then
    ({ file := file, line := currentLine, type := .U64Literal, value := some (String.mk value) },
      Tokenizer.Advance line 3)
  else if "i64".toList.isPrefixOf line then
    ({ file := file, line := currentLine, type := .I64Literal, value := some (String.mk value) },
      Tokenizer.Advance line 3)
  else
    ({ file := file, line := currentLine, type := .I64Literal, value := some (String.mk value) },
      line)

/-- The character that `SlurpStringLiteral` pushes for the character `nextC` after a
backslash. -/
def Tokenizer.escaped (nextC : Char) : Char :=
  if nextC = 'r' then charReturn
  else if nextC = 'n' then charNewline
  else if nextC = charQuote then charQuote
  else nextC

/-- The loop `while (!_line.empty())` of `SlurpStringLiteral`, with the characters of the
literal so far: whether the closing quote was found, the literal and what is left of the
line. -/
def Tokenizer.SlurpStringLiteralLoop : List Char → List Char → Bool × List Char × List Char
  | [], literal => (false, literal, [])
  | [c], literal =>
    if c = charQuote then (true, literal, [])
    else if c = charBackslash then (false, literal, [])
    else (false, literal ++ [c], [])
  | c :: nextC :: rest, literal =>
    if c = charQuote then (true, literal, nextC :: rest)
    else if c = charBackslash then
      Tokenizer.SlurpStringLiteralLoop rest (literal ++ [Tokenizer.escaped nextC])
    else Tokenizer.SlurpStringLiteralLoop (nextC :: rest) (literal ++ [c])

/-- Member function `Tokenizer::SlurpStringLiteral`. -/
def Tokenizer.SlurpStringLiteral (file : String) (currentLine : Nat) (line : List Char) :
    Except Exception (Token × List Char) :=
  let line := Tokenizer.Advance line 1
  let (finished, literal, line) := Tokenizer.SlurpStringLiteralLoop line []
  if !finished then
    .error (.invalid_argument (file ++ ":" ++ toString currentLine ++ " Uncapped string"))
  else
    .ok ({ file := file, line := currentLine, type := .StringLiteral,
           value := some (String.mk literal) }, line)

/-- The call `_line.front()`: undefined on an empty string. -/
def Tokenizer.front : List Char → Except Exception Char
  | [] => .error .undefined_behavior
  | c :: _ => .ok c

/-- The literal that `SlurpCharacterLiteral` makes of the character `nextC` after a
backslash. -/
def Tokenizer.escapedCharacter (nextC : Char) : List Char :=
  if nextC = 'r' then [charReturn]
  else if nextC = 'n' then [charNewline]
  else if nextC = charApostrophe then [charApostrophe]
  else if nextC = '0' then [charNul]
  else [nextC]

/-- Member function `Tokenizer::SlurpCharacterLiteral`; the statements after the `if` are
written out in both of its branches. -/
def Tokenizer.SlurpCharacterLiteral (file : String) (currentLine : Nat) (line : List Char) :
    Except Exception (Token × List Char) := do
  let line := Tokenizer.Advance line 1
  let c ← Tokenizer.front line
  if c = charBackslash then do
    let line := Tokenizer.Advance line 1
    let nextC ← Tokenizer.front line
    let literal := Tokenizer.escapedCharacter nextC
    let line := Tokenizer.Advance line 1
    let line := Tokenizer.Advance line 1
    return ({ file := file, line := currentLine, type := .CharacterLiteral,
              value := some (String.mk literal) }, line)
  else do
    let line := Tokenizer.Advance line 1
    let literal := [c]
    let line := Tokenizer.Advance line 1
    return ({ file := file, line := currentLine, type := .CharacterLiteral,
              value := some (String.mk literal) }, line)

/-- One turn of the loop `while (!_line.empty())` of `TokenizeLine` on the non-empty
`line`: the token it pushes, if any, and what it leaves of the line. -/
def Tokenizer.TokenizeLineStep (file : String) (currentLine : Nat) (line : List Char) :
    Except Exception (Option Token × List Char) :=
  match Tokenizer.IsKeyword line with
  | some keyword =>
    let (token, line) := Tokenizer.SlurpKeyword file currentLine line keyword
    .ok (some token, line)
  | none =>
    match line with
    | [] => .error .undefined_behavior
    | front :: _ =>
      if front = '#' then .ok (none, Tokenizer.Advance line line.length)
      else if front = charQuote then do
        let (token, line) ← Tokenizer.SlurpStringLiteral file currentLine line
        return (some token, line)
      else if front = charApostrophe then do
        let (token, line) ← Tokenizer.SlurpCharacterLiteral file currentLine line
        return (some token, line)
      else if Tokenizer.IsSpecialCharacter front then do
        let (token, line) ← Tokenizer.SlurpSpecial file currentLine line
        return (some token, line)
      else if isdigit front then
        let (token, line) := Tokenizer.SlurpNumeric file currentLine line
        .ok (some token, line)
      else if isalpha front then
        let (token, line) := Tokenizer.SlurpIdentifier file currentLine line
        .ok (some token, line)
      else if isspace front then .ok (none, Tokenizer.Advance line 1)
      else .error (Tokenizer.UnknownToken file currentLine line)

/-- The loop `while (!_line.empty())` of `TokenizeLine`, for at most `fuel` turns: `none`
when the turns do not suffice. Every turn takes at least one character off the line, so
that as many turns as the line has characters suffice. -/
def Tokenizer.TokenizeLineLoop (file : String) (currentLine : Nat) :
    Nat → List Char → Option (Except Exception (List Token))
  | _, [] => some (.ok [])
  | 0, _ :: _ => none
  | fuel + 1, line =>
    match Tokenizer.TokenizeLineStep file currentLine line with
    | .error e => some (.error e)
    | .ok (token, line) =>
      match Tokenizer.TokenizeLineLoop file currentLine fuel line with
      | none => none
      | some (.error e) => some (.error e)
      | some (.ok tokens) => some (.ok (token.toList ++ tokens))

/-- Member function `Tokenizer::TokenizeLine`. The loop gets as many turns as the line
has characters; it always ends within them, and the value for the other case is never
taken. -/
def Tokenizer.TokenizeLine (file : String) (currentLine : Nat) (line : List Char) :
    Except Exception (List Token) :=
  match Tokenizer.TokenizeLineLoop file currentLine line.length line with
  | some result => result
  | none => .error .undefined_behavior

/-- Member function `Tokenizer::CountTabs`: the number of tabs the line begins with and
the line without them. The test `_line.front()` is undefined on the empty string that a line
of nothing but tabs leaves. -/
def Tokenizer.CountTabs : List Char → Except Exception (Nat × List Char)
  | [] => .error .undefined_behavior
  | c :: rest =>
    if c = charTab then do
      let (lineIndentation, line) ← Tokenizer.CountTabs rest
      return (lineIndentation + 1, line)
    else .ok (0, c :: rest)

/-- The lines that `std::getline` reads from a stream whose content is `input`: the
characters between the line feeds; after the last line feed there is a line only when
there are characters. -/
def getlines : List Char → List (List Char)
  | [] => []
  | c :: rest =>
    if c = charNewline then [] :: getlines rest
    else
      match getlines rest with
      | [] => [[c]]
      | line :: lines => (c :: line) :: lines

/-- The loop `while (true)` of `Tokenize` on the lines that are still to be read: `NextLine`
counts every line it reads and passes over the empty lines and the lines that begin with
`#`; at the end of the input the open indentation is closed and `EndOfFile` pushed. -/
def Tokenizer.TokenizeLoop (file : String) :
    List (List Char) → Nat → Nat → Except Exception (List Token)
  | [], currentLine, indentation =>
    .ok (List.replicate indentation
        { file := file, line := currentLine, type := .IndentMinus, value := none } ++
      [{ file := file, line := currentLine, type := .EndOfFile, value := none }])
  | line :: rest, currentLine, indentation =>
    let currentLine := currentLine + 1
    if line.isEmpty || line.head? = some '#' then
      Tokenizer.TokenizeLoop file rest currentLine indentation
    else do
      let (lineIndentation, line) ← Tokenizer.CountTabs line
      let indentChange : Int := (lineIndentation : Int) - (indentation : Int)
      let indentTokens : List Token := List.replicate indentChange.natAbs
        { file := file, line := currentLine,
          type := if indentChange > 0 then .IndentPlus else .IndentMinus, value := none }
      let lineTokens ← Tokenizer.TokenizeLine file currentLine line
      let tokens ← Tokenizer.TokenizeLoop file rest currentLine lineIndentation
      return indentTokens ++ lineTokens ++
        [{ file := file, line := currentLine, type := .EndOfLine, value := none }] ++ tokens

/-- Member function `Tokenizer::Tokenize` on a stream whose content is `input`. -/
def Tokenizer.Tokenize (input : String) (filename : String) : Except Exception (List Token) :=
  Tokenizer.TokenizeLoop filename (getlines input.toList) 0 0

/-! ## charconv -/

/-- The call `std::from_chars(first, last, value)` for a `std::int64_t` in base ten: an
optional minus sign and then as many decimal digits as there are; `none` stands for an error
code, which is set when there is no digit or when the number is not an `int64_t`. What
follows the digits is not looked at. -/
def from_chars_int64 (s : List Char) : Option Int :=
  let negative := s.head? = some '-'
  let digits := (if negative then s.drop 1 else s).takeWhile isdigit
  if digits.isEmpty then none
  else
    let magnitude : Nat := digits.foldl (fun value c => 10 * value + (c.toNat - '0'.toNat)) 0
    let value : Int := if negative then -(magnitude : Int) else (magnitude : Int)
    if -2 ^ 63 ≤ value ∧ value < 2 ^ 63 then some value else none

/-! ## Parser.hpp -/

/-- The data members of class `Parser` that the parsing of a type reads and writes:
`tokens` are the tokens from `_currentToken` up to `_endToken`. -/
structure Parser where
  tokens : List Token
  _declaredFunctions : List String
  _types : unordered_map Ty

/-! ## Parser.cpp -/

/-- The constructor `Parser::Parser()`: the builtin types are the types known by name. -/
def Parser.new : Parser :=
  { tokens := []
    _declaredFunctions := []
    _types :=
      [("i32", .BuiltinType .i32),
       ("i64", .BuiltinType .i64),
       ("u64", .BuiltinType .u64),
       ("char", .BuiltinType .character),
       ("bool", .BuiltinType .boolean),
       ("void", .BuiltinType .void_t)] }

/-- The first statements of `Parser::Parse`: `_currentToken` is set to the first of the
tokens and `_endToken` behind the last. -/
def Parser.begin (self : Parser) (tokens : List Token) : Parser :=
  { self with tokens := tokens }

/-- The expression `*_currentToken`: undefined when `_currentToken` is `_endToken`. -/
def Parser.currentToken (self : Parser) : Except Exception Token :=
  match self.tokens with
  | [] => .error .undefined_behavior
  | token :: _ => .ok token

/-- Member function `Parser::Advance`. -/
def Parser.Advance (self : Parser) : Except Exception Parser :=
  match self.tokens with
  | [] => .error (.invalid_argument "Parser ran out of tokens")
  | _ :: rest => .ok { self with tokens := rest }

/-- Member function `Parser::ExpectTokenType`: the expected token and the parser behind
it; the numbers in the message are the enumerators cast to `int`. -/
def Parser.ExpectTokenType (self : Parser) (type : TokenType) :
    Except Exception (Token × Parser) := do
  let current ← self.currentToken
  if current.type = type then
    let self ← self.Advance
    return (current, self)
  else
    .error (.runtime_error (current.file ++ ":" ++ toString current.line ++
      " Unexpected token: expected " ++ String.singleton charApostrophe ++
      toString type.toCtorIdx ++ String.singleton charApostrophe ++ ", but got " ++
      String.singleton charApostrophe ++ toString current.type.toCtorIdx ++
      String.singleton charApostrophe ++ String.mk [charReturn, charNewline]))

/-- The text of `__PRETTY_FUNCTION__` in `Parser::ParseIntegerLiteral`, as GCC writes
it. -/
def Parser.ParseIntegerLiteral.PRETTY_FUNCTION : String :=
  "YepLang::Expression YepLang::Parser::ParseIntegerLiteral()"

/-- The text of `__PRETTY_FUNCTION__` in `Parser::ParseType`, as GCC writes it. -/
def Parser.ParseType.PRETTY_FUNCTION : String :=
  "YepLang::Type YepLang::Parser::ParseType()"

/-- Member function `Parser::ParseIntegerLiteral`. -/
def Parser.ParseIntegerLiteral (self : Parser) : Except Exception (Expression × Parser) := do
  let current ← self.currentToken
  let tokenValue ← optional_value current.value
  match from_chars_int64 tokenValue.toList with
  | none => .error (.invalid_argument Parser.ParseIntegerLiteral.PRETTY_FUNCTION)
  | some result =>
    if current.type = .I64Literal then
      let self ← self.Advance
      return (.mk .LITERAL (some (.BuiltinType .i64)) (.int64_t result), self)
    else
      .error (.invalid_argument Parser.ParseIntegerLiteral.PRETTY_FUNCTION)

/-- The test `_currentToken->type == Asterisk || _currentToken->type == LeftBracket` of the
loop of `ParseType`. -/
def Parser.ParseTypeTest (self : Parser) : Except Exception Bool := do
  let current ← self.currentToken
  return current.type == .Asterisk || current.type == .LeftBracket

/-- The body of the loop of `ParseType`, the `switch` on the type of the current token: an
asterisk makes the pointer to `returnType`, a bracket the array of `returnType` with the
size that follows, cast from `std::int64_t` to `std::uint64_t`. -/
def Parser.ParseTypeBody (self : Parser) (returnType : Ty) : Except Exception (Ty × Parser) := do
  let current ← self.currentToken
  match current.type with
  | .Asterisk =>
    let (_, self) ← self.ExpectTokenType .Asterisk
    return (.Pointer returnType, self)
  | .LeftBracket =>
    let (_, self) ← self.ExpectTokenType .LeftBracket
    let current ← self.currentToken
    if current.type ≠ .I64Literal then
      .error (.invalid_argument Parser.ParseType.PRETTY_FUNCTION)
    else
      let (size, self) ← self.ParseIntegerLiteral
      let (_, self) ← self.ExpectTokenType .RightBracket
      let size ← size.value.getInt64
      return (.Array returnType (size % 2 ^ 64).toNat, self)
  | _ => .error (.invalid_argument Parser.ParseType.PRETTY_FUNCTION)

/-- The loop `while (_currentToken->type == Asterisk || _currentToken->type == LeftBracket)`
of `ParseType`, for at most `fuel` turns: `none` when the turns do not suffice. Every turn
takes at least one token, so that as many turns as there are tokens suffice. -/
def Parser.ParseTypeLoop : Nat → Parser → Ty → Option (Except Exception (Ty × Parser))
  | 0, self, returnType =>
    match self.ParseTypeTest with
    | .error e => some (.error e)
    | .ok false => some (.ok (returnType, self))
    | .ok true => none
  | fuel + 1, self, returnType =>
    match self.ParseTypeTest with
    | .error e => some (.error e)
    | .ok false => some (.ok (returnType, self))
    | .ok true =>
      match self.ParseTypeBody returnType with
      | .error e => some (.error e)
      | .ok (returnType, self) => Parser.ParseTypeLoop fuel self returnType

/-- Member function `Parser::ParseType`. The loop gets as many turns as there are tokens;
it always ends within them, and the value for the other case is never taken. -/
def Parser.ParseType (self : Parser) : Except Exception (Ty × Parser) := do
  let (token, self) ← self.ExpectTokenType .Identifier
  let type ← optional_value token.value
  match self._types.find type with
  | none => .error (.invalid_argument Parser.ParseType.PRETTY_FUNCTION)
  | some returnType =>
    match Parser.ParseTypeLoop self.tokens.length self returnType with
    | some result => result
    | none => .error .undefined_behavior

/-! ## Parser.cpp: literals, operators and the functions without recursion -/

/-- Member function `Parser::ParserError`: the `std::runtime_error` it throws. -/
def Parser.ParserError (identifier : Token) (message : String) : Exception :=
  .runtime_error (identifier.file ++ ":" ++ toString identifier.line ++ " " ++ message ++
    match identifier.value with
    | some value => ": " ++ value
    | none => "")

/-- The call `std::from_chars(first, last, value)` for a `std::uint64_t` in base ten: as
many decimal digits as there are, without a sign; `none` stands for an error code, which is
set when there is no digit or when the number is not a `uint64_t`. -/
def from_chars_uint64 (s : List Char) : Option Nat :=
  let digits := s.takeWhile isdigit
  if digits.isEmpty then none
  else
    let value : Nat := digits.foldl (fun value c => 10 * value + (c.toNat - '0'.toNat)) 0
    if value < 2 ^ 64 then some value else none

/-- The text of `__PRETTY_FUNCTION__` in `Parser::ParseUnsignedIntegerLiteral`, as GCC
writes it. -/
def Parser.ParseUnsignedIntegerLiteral.PRETTY_FUNCTION : String :=
  "YepLang::Expression YepLang::Parser::ParseUnsignedIntegerLiteral()"

/-- The text of `__PRETTY_FUNCTION__` in `Parser::ParseParenExpression`, as GCC writes
it. -/
def Parser.ParseParenExpression.PRETTY_FUNCTION : String :=
  "YepLang::Expression YepLang::Parser::ParseParenExpression()"

/-- The text of `__PRETTY_FUNCTION__` in `Parser::ParseExpressionRHS`, as GCC writes it. -/
def Parser.ParseExpressionRHS.PRETTY_FUNCTION : String :=
  "YepLang::Expression YepLang::Parser::ParseExpressionRHS(YepLang::Expression&&, int)"

/-- The text of `__PRETTY_FUNCTION__` in `Parser::BuildArithmeticExpression`, as GCC writes
it. -/
def Parser.BuildArithmeticExpression.PRETTY_FUNCTION : String :=
  "YepLang::Expression YepLang::Parser::BuildArithmeticExpression(YepLang::TokenType, " ++
    "YepLang::Expression&&, YepLang::Expression&&)"

/-- The text of `__PRETTY_FUNCTION__` in `Parser::BuildComparisonExpression`, as GCC writes
it. -/
def Parser.BuildComparisonExpression.PRETTY_FUNCTION : String :=
  "YepLang::Expression YepLang::Parser::BuildComparisonExpression(YepLang::TokenType, " ++
    "YepLang::Expression&&, YepLang::Expression&&)"

/-- The text of `__PRETTY_FUNCTION__` in `Parser::BuildLogicalExpression`, as GCC writes
it. -/
def Parser.BuildLogicalExpression.PRETTY_FUNCTION : String :=
  "YepLang::Expression YepLang::Parser::BuildLogicalExpression(YepLang::TokenType, " ++
    "YepLang::Expression&&, YepLang::Expression&&)"

/-- The text of `__PRETTY_FUNCTION__` in `Parser::ParseUnary`, as GCC writes it. -/
def Parser.ParseUnary.PRETTY_FUNCTION : String :=
  "YepLang::Expression YepLang::Parser::ParseUnary()"

/-- The text of `__PRETTY_FUNCTION__` in `Parser::ParseStruct`, as GCC writes it. -/
def Parser.ParseStruct.PRETTY_FUNCTION : String :=
  "std::pair<std::__cxx11::basic_string<char>, YepLang::Struct> " ++
    "YepLang::Parser::ParseStruct()"

/-- Member function `Parser::ParseUnsignedIntegerLiteral`. -/
def Parser.ParseUnsignedIntegerLiteral (self : Parser) :
    Except Exception (Expression × Parser) := do
  let current ← self.currentToken
  let tokenValue ← optional_value current.value
  match from_chars_uint64 tokenValue.toList with
  | none => .error (.invalid_argument Parser.ParseUnsignedIntegerLiteral.PRETTY_FUNCTION)
  | some result =>
    if current.type = .U64Literal then
      let self ← self.Advance
      return (.mk .LITERAL (some (.BuiltinType .u64)) (.uint64_t result), self)
    else
      .error (.invalid_argument Parser.ParseUnsignedIntegerLiteral.PRETTY_FUNCTION)

/-- Member function `Parser::ParseCharacterLiteral`; `front()` is undefined on the empty
string. -/
def Parser.ParseCharacterLiteral (self : Parser) : Except Exception (Expression × Parser) := do
  let current ← self.currentToken
  let value ← optional_value current.value
  let self ← self.Advance
  match value.toList with
  | [] => .error .undefined_behavior
  | front :: _ => return (.mk .LITERAL (some (.BuiltinType .character)) (.char front), self)

/-- Member function `Parser::ParseStringLiteral`. -/
def Parser.ParseStringLiteral (self : Parser) : Except Exception (Expression × Parser) := do
  let current ← self.currentToken
  let value ← optional_value current.value
  let self ← self.Advance
  return (.mk .LITERAL (some (.Pointer (.BuiltinType .character))) (.string value), self)

/-- Member function `Parser::ParseContinue`. -/
def Parser.ParseContinue (self : Parser) : Except Exception (Expression × Parser) := do
  let self ← self.Advance
  return (.mk .CONTINUE none .monostate, self)

/-- Member function `Parser::ParseBreak`. -/
def Parser.ParseBreak (self : Parser) : Except Exception (Expression × Parser) := do
  let self ← self.Advance
  return (.mk .BREAK none .monostate, self)

/-- The `switch` of `Parser::GetBinaryOperatorPrecedence` on the type of the current
token. -/
def Parser.GetBinaryOperatorPrecedence.switch : TokenType → Int
  | .Asterisk | .DivideOp => 120
  | .PlusOp | .Minus => 110
  | .LeftChevron | .RightChevron => 90
  | .Equal | .NotEqual => 80
  | .LogicalAnd => 40
  | .LogicalOr => 30
  | .Assignment => 10
  | _ => -1

/-- Member function `Parser::GetBinaryOperatorPrecedence`. -/
def Parser.GetBinaryOperatorPrecedence (self : Parser) : Except Exception Int := do
  let current ← self.currentToken
  return Parser.GetBinaryOperatorPrecedence.switch current.type

/-- The `switch` of `Parser::IsUnaryPrefix` on the type of the current token. -/
def Parser.IsUnaryPrefix.switch : TokenType → Bool
  | .Asterisk | .Minus | .Ampersand => true
  | _ => false

/-- The `switch` of `Parser::IsUnarySuffix` on the type of the current token. -/
def Parser.IsUnarySuffix.switch : TokenType → Bool
  | .PlusPlusOp | .LeftBracket | .Dot => true
  | _ => false

/-- Member function `Parser::IsUnarySuffix`. -/
def Parser.IsUnarySuffix (self : Parser) : Except Exception Bool := do
  let current ← self.currentToken
  return Parser.IsUnarySuffix.switch current.type

/-- Member function `Parser::BuildArithmeticExpression`. -/
def Parser.BuildArithmeticExpression (op : TokenType) (LHS RHS : Expression) :
    Except Exception Expression :=
  match op with
  | .Asterisk => .ok (.mk .MULTIPLY_OP none (.ExpressionChildren [LHS, RHS]))
  | .Minus => .ok (.mk .MINUS_OP none (.ExpressionChildren [LHS, RHS]))
  | .PlusOp => .ok (.mk .PLUS_OP none (.ExpressionChildren [LHS, RHS]))
  | .DivideOp => .ok (.mk .DIVIDE_OP none (.ExpressionChildren [LHS, RHS]))
  | _ => .error (.invalid_argument Parser.BuildArithmeticExpression.PRETTY_FUNCTION)

/-- Member function `Parser::BuildComparisonExpression`. -/
def Parser.BuildComparisonExpression (op : TokenType) (LHS RHS : Expression) :
    Except Exception Expression :=
  match op with
  | .LeftChevron => .ok (.mk .LESS_THAN_OP none (.ExpressionChildren [LHS, RHS]))
  | .RightChevron => .ok (.mk .GREATER_THAN_OP none (.ExpressionChildren [LHS, RHS]))
  | .Equal => .ok (.mk .EQUAL_OP none (.ExpressionChildren [LHS, RHS]))
  | .NotEqual => .ok (.mk .NOT_EQUAL_OP none (.ExpressionChildren [LHS, RHS]))
  | _ => .error (.invalid_argument Parser.BuildComparisonExpression.PRETTY_FUNCTION)

/-- Member function `Parser::BuildAssignmentExpression`. -/
def Parser.BuildAssignmentExpression (LHS RHS : Expression) : Expression :=
  .mk .VARIABLE_ASSIGNMENT none (.ExpressionChildren [LHS, RHS])

/-- Member function `Parser::BuildLogicalExpression`. -/
def Parser.BuildLogicalExpression (op : TokenType) (LHS RHS : Expression) :
    Except Exception Expression :=
  match op with
  | .LogicalAnd => .ok (.mk .LOGICAL_AND none (.ExpressionChildren [LHS, RHS]))
  | .LogicalOr => .ok (.mk .LOGICAL_OR none (.ExpressionChildren [LHS, RHS]))
  | _ => .error (.invalid_argument Parser.BuildLogicalExpression.PRETTY_FUNCTION)

/-- The `switch (op)` at the end of the loop of `Parser::ParseExpressionRHS`: the node
for the operator `op` between `LHS` and `RHS`. -/
def Parser.ParseExpressionRHS.switch (op : TokenType) (LHS RHS : Expression) :
    Except Exception Expression :=
  match op with
  | .Asterisk | .DivideOp | .Minus | .PlusOp => Parser.BuildArithmeticExpression op LHS RHS
  | .LeftChevron | .RightChevron | .Equal | .NotEqual =>
    Parser.BuildComparisonExpression op LHS RHS
  | .LogicalAnd | .LogicalOr => Parser.BuildLogicalExpression op LHS RHS
  | .Assignment => .ok (Parser.BuildAssignmentExpression LHS RHS)
  | _ => .error (.invalid_argument Parser.ParseExpressionRHS.PRETTY_FUNCTION)

/-- The first loop of `Parser::ParseUnary`, `while (IsUnaryPrefix())`, on the tokens from
`_currentToken` on: the token types pushed to `unaryPrefixes`, in the order of the source
text, and the tokens behind them. `IsUnaryPrefix` reads the current token, which is
undefined at the end of the tokens. -/
def Parser.ParseUnary.prefixes : List Token → Except Exception (List TokenType × List Token)
  | [] => .error .undefined_behavior
  | current :: rest =>
    if Parser.IsUnaryPrefix.switch current.type then do
      let (unaryPrefixes, tokens) ← Parser.ParseUnary.prefixes rest
      return (current.type :: unaryPrefixes, tokens)
    else .ok ([], current :: rest)

/-- The last loop of `Parser::ParseUnary`, `for (const auto &op: unaryPrefixes)`, which
runs over the reversed vector: every entry puts its node around `operand`. -/
def Parser.ParseUnary.applyPrefixes : List TokenType → Expression → Except Exception Expression
  | [], operand => .ok operand
  | op :: unaryPrefixes, operand =>
    if op = .Asterisk then
      Parser.ParseUnary.applyPrefixes unaryPrefixes
        (.mk .POINTER_DEREFERENCE none (.ExpressionChildren [operand]))
    else if op = .Minus then
      Parser.ParseUnary.applyPrefixes unaryPrefixes
        (.mk .NEGATE none (.ExpressionChildren [operand]))
    else if op = .Ampersand then
      Parser.ParseUnary.applyPrefixes unaryPrefixes
        (.mk .ADDRESS_OF none (.ExpressionChildren [operand]))
    else .error (.invalid_argument Parser.ParseUnary.PRETTY_FUNCTION)

/-- The call `_declaredFunctions.emplace(name)` on the `std::unordered_set`: the name is
added when it is not in the set. -/
def unordered_set_emplace (set : List String) (key : String) : List String :=
  if set.contains key then set else set ++ [key]

/-- Member function `Parser::ParseFunctionArgument`. -/
def Parser.ParseFunctionArgument (self : Parser) :
    Except Exception (FunctionArgument × Parser) := do
  let (token, self) ← self.ExpectTokenType .Identifier
  let argName ← optional_value token.value
  let (_, self) ← self.ExpectTokenType .Colon
  let (argType, self) ← self.ParseType
  return ({ name := argName, type := argType }, self)

/-! ## Parser.cpp: the functions that call one another

The member functions that parse statements and expressions call one another, and their
loops run as long as the tokens say. In the embedding each of them has a first argument
`fuel` that bounds the depth of the calls: a call and a turn of a loop take one unit, and
the result is `none` when the units do not suffice. What a function returns or throws is
what it gives with enough fuel; more fuel never changes a result (`Parser.deeper`). -/

/-- What a member function gives when the depth of its calls is bounded: `none` when the
bound does not suffice, otherwise what the function returns or throws. -/
def Fueled (α : Type) : Type := Option (Except Exception α)

/-- Sequencing of bounded calls: an exception and a bound that did not suffice end the
sequence. -/
def Fueled.bind {α β : Type} : Fueled α → (α → Fueled β) → Fueled β
  | none, _ => none
  | some (.error e), _ => some (.error e)
  | some (.ok a), f => f a

instance : Monad Fueled where
  pure a := some (.ok a)
  bind := Fueled.bind

instance : MonadLift (Except Exception) Fueled where
  monadLift x := some x

instance : MonadExcept Exception Fueled where
  throw e := some (.error e)
  tryCatch x handle :=
    match x with
    | some (.error e) => handle e
    | other => other

/-- One turn of the third loop of `Parser::ParseUnary`, `while (!unarySuffixes.empty())`,
on the deque with `front` before `unarySuffixes`: the entries of the suffix are taken from
the front and its node is put around `operand`. An entry is a token type or an expression,
as in `std::variant<TokenType, Expression>`; `std::get<TokenType>` throws on an expression
and `front()` is undefined on the empty deque. -/
def Parser.ParseUnary.applySuffix (front : TokenType ⊕ Expression)
    (unarySuffixes : List (TokenType ⊕ Expression)) (operand : Expression) :
    Except Exception (List (TokenType ⊕ Expression) × Expression) :=
  match front with
  | .inr _ => .error .bad_variant_access
  | .inl op =>
    if op = .PlusPlusOp then
      .ok (unarySuffixes, .mk .POST_INC_OP none (.ExpressionChildren [operand]))
    else if op = .LeftBracket then
      match unarySuffixes with
      | [] => .error .undefined_behavior
      | .inl _ :: _ => .error (.invalid_argument Parser.ParseUnary.PRETTY_FUNCTION)
      | .inr indexExpression :: unarySuffixes =>
        match unarySuffixes with
        | [] => .error .undefined_behavior
        | .inr _ :: _ => .error (.invalid_argument Parser.ParseUnary.PRETTY_FUNCTION)
        | .inl rightBracket :: unarySuffixes =>
          if rightBracket ≠ .RightBracket then
            .error (.invalid_argument Parser.ParseUnary.PRETTY_FUNCTION)
          else
            .ok (unarySuffixes,
              .mk .ARRAY_SUBSCRIPT none (.ExpressionChildren [operand, indexExpression]))
    else if op = .Dot then
      match unarySuffixes with
      | [] => .error .undefined_behavior
      | .inl _ :: _ => .error (.invalid_argument Parser.ParseUnary.PRETTY_FUNCTION)
      | .inr fieldName :: unarySuffixes =>
        .ok (unarySuffixes,
          .mk .MEMBER_ACCESS none (.ExpressionChildren [operand, fieldName]))
    else .error (.invalid_argument Parser.ParseUnary.PRETTY_FUNCTION)

/-- The third loop of `Parser::ParseUnary`, `while (!unarySuffixes.empty())`: a turn takes
the entries of one suffix from the front of the deque. -/
def Parser.ParseUnary.applySuffixes :
    Nat → List (TokenType ⊕ Expression) → Expression → Fueled Expression
  | 0, _, _ => none
  | _ + 1, [], operand => pure operand
  | fuel + 1, front :: unarySuffixes, operand => do
    let (unarySuffixes, operand) ← Parser.ParseUnary.applySuffix front unarySuffixes operand
    Parser.ParseUnary.applySuffixes fuel unarySuffixes operand

mutual

/-- Member function `Parser::ParseScope`. -/
def Parser.ParseScope : Nat → Parser → Fueled (Expression × Parser)
  | 0, _ => none
  | fuel + 1, self => do
    let (_, self) ← self.ExpectTokenType .IndentPlus
    let (body, self) ← Parser.ParseScopeLoop fuel self
    let (_, self) ← self.ExpectTokenType .IndentMinus
    return (.mk .SCOPE none (.ExpressionChildren body), self)

/-- The loop `while (_currentToken->type != IndentMinus)` of `ParseScope`: the expressions
it pushes to `body`. The keys of `_keywordParsers` are `Return`, `If`, `For`, `Continue`,
`Break`, `VariableDeclaration` and `IndentPlus`. -/
def Parser.ParseScopeLoop : Nat → Parser → Fueled (List Expression × Parser)
  | 0, _ => none
  | fuel + 1, self => do
    let current ← self.currentToken
    if current.type = .IndentMinus then
      return ([], self)
    else if current.type = .EndOfLine then
      let self ← self.Advance
      Parser.ParseScopeLoop fuel self
    else if current.type = .Return then
      let (expression, self) ← Parser.ParseReturn fuel self
      let (body, self) ← Parser.ParseScopeLoop fuel self
      return (expression :: body, self)
    else if current.type = .If then
      let (expression, self) ← Parser.ParseConditional fuel self
      let (body, self) ← Parser.ParseScopeLoop fuel self
      return (expression :: body, self)
    else if current.type = .For then
      let (expression, self) ← Parser.ParseForLoop fuel self
      let (body, self) ← Parser.ParseScopeLoop fuel self
      return (expression :: body, self)
    else if current.type = .Continue then
      let (expression, self) ← self.ParseContinue
      let (body, self) ← Parser.ParseScopeLoop fuel self
      return (expression :: body, self)
    else if current.type = .Break then
      let (expression, self) ← self.ParseBreak
      let (body, self) ← Parser.ParseScopeLoop fuel self
      return (expression :: body, self)
    else if current.type = .VariableDeclaration then
      let (expression, self) ← Parser.ParseVariableDeclaration fuel self
      let (body, self) ← Parser.ParseScopeLoop fuel self
      return (expression :: body, self)
    else if current.type = .IndentPlus then
      let (expression, self) ← Parser.ParseIndent fuel self
      let (body, self) ← Parser.ParseScopeLoop fuel self
      return (expression :: body, self)
    else
      let (expression, self) ← Parser.ParseExpression fuel self
      let (body, self) ← Parser.ParseScopeLoop fuel self
      return (expression :: body, self)

/-- Member function `Parser::ParseReturn`. -/
def Parser.ParseReturn : Nat → Parser → Fueled (Expression × Parser)
  | 0, _ => none
  | fuel + 1, self => do
    let self ← self.Advance
    let current ← self.currentToken
    if current.type ≠ .EndOfLine then
      let (expression, self) ← Parser.ParseExpression fuel self
      return (.mk .RETURN none (.ExpressionChildren [expression]), self)
    else
      return (.mk .RETURN none (.ExpressionChildren []), self)

/-- Member function `Parser::ParseConditional`. -/
def Parser.ParseConditional : Nat → Parser → Fueled (Expression × Parser)
  | 0, _ => none
  | fuel + 1, self => do
    let self ← self.Advance
    let (conditionalExpression, self) ← Parser.ParseExpression fuel self
    let (_, self) ← self.ExpectTokenType .Colon
    let (_, self) ← self.ExpectTokenType .EndOfLine
    let (trueBody, self) ← Parser.ParseScope fuel self
    let (elifs, self) ← Parser.ParseConditionalLoop fuel self
    let current ← self.currentToken
    if current.type = .Else then
      let self ← self.Advance
      let (_, self) ← self.ExpectTokenType .Colon
      let (_, self) ← self.ExpectTokenType .EndOfLine
      let (elseBody, self) ← Parser.ParseScope fuel self
      return (.mk .CONDITIONAL none
        (.ExpressionChildren (conditionalExpression :: trueBody :: elifs ++ [elseBody])), self)
    else
      return (.mk .CONDITIONAL none
        (.ExpressionChildren (conditionalExpression :: trueBody :: elifs)), self)

/-- The loop `while (_currentToken->type == Elif)` of `ParseConditional`: the conditions
and bodies it pushes to `children`. -/
def Parser.ParseConditionalLoop : Nat → Parser → Fueled (List Expression × Parser)
  | 0, _ => none
  | fuel + 1, self => do
    let current ← self.currentToken
    if current.type = .Elif then
      let self ← self.Advance
      let (elifCondition, self) ← Parser.ParseExpression fuel self
      let (_, self) ← self.ExpectTokenType .Colon
      let (_, self) ← self.ExpectTokenType .EndOfLine
      let (elifBody, self) ← Parser.ParseScope fuel self
      let (children, self) ← Parser.ParseConditionalLoop fuel self
      return (elifCondition :: elifBody :: children, self)
    else
      return ([], self)

/-- Member function `Parser::ParseForLoop`. -/
def Parser.ParseForLoop : Nat → Parser → Fueled (Expression × Parser)
  | 0, _ => none
  | fuel + 1, self => do
    let self ← self.Advance
    let current ← self.currentToken
    let (initBlock, self) ←
      (if current.type = .VariableDeclaration then Parser.ParseVariableDeclaration fuel self
       else Parser.ParseExpression fuel self)
    let (_, self) ← self.ExpectTokenType .Comma
    let (conditionBlock, self) ← Parser.ParseExpression fuel self
    let (_, self) ← self.ExpectTokenType .Comma
    let (postBlock, self) ← Parser.ParseExpression fuel self
    let (_, self) ← self.ExpectTokenType .Colon
    let (_, self) ← self.ExpectTokenType .EndOfLine
    let (forBody, self) ← Parser.ParseScope fuel self
    return (.mk .FOR_LOOP none
      (.ExpressionChildren [initBlock, conditionBlock, postBlock, forBody]), self)

/-- Member function `Parser::ParseVariableDeclaration`. -/
def Parser.ParseVariableDeclaration : Nat → Parser → Fueled (Expression × Parser)
  | 0, _ => none
  | fuel + 1, self => do
    let self ← self.Advance
    let (identifier, self) ← self.ExpectTokenType .Identifier
    let (_, self) ← self.ExpectTokenType .Colon
    let (type, self) ← self.ParseType
    let (_, self) ← self.ExpectTokenType .Assignment
    let (expression, self) ← Parser.ParseExpression fuel self
    let name ← optional_value identifier.value
    let variableExpression := Expression.mk .VARIABLE (some type) (.string name)
    return (.mk .VARIABLE_DECLARATION none
      (.ExpressionChildren [variableExpression, expression]), self)

/-- Member function `Parser::ParseIndent`. -/
def Parser.ParseIndent : Nat → Parser → Fueled (Expression × Parser)
  | 0, _ => none
  | fuel + 1, self => do
    let (scope, self) ← Parser.ParseScope fuel self
    return (.mk .SCOPE scope.type (.ExpressionChildren [scope]), self)

/-- Member function `Parser::ParseExpression`. -/
def Parser.ParseExpression : Nat → Parser → Fueled (Expression × Parser)
  | 0, _ => none
  | fuel + 1, self => do
    let (LHS, self) ← Parser.ParseUnary fuel self
    Parser.ParseExpressionRHS fuel LHS 0 self

/-- Member function `Parser::ParseExpressionRHS`; a turn of its loop `while (true)` is a
call of the function itself with the new `LHS`. -/
def Parser.ParseExpressionRHS : Nat → Expression → Int → Parser → Fueled (Expression × Parser)
  | 0, _, _, _ => none
  | fuel + 1, LHS, currentPrecedence, self => do
    let tokenPrecedence ← self.GetBinaryOperatorPrecedence
    if tokenPrecedence < currentPrecedence then
      return (LHS, self)
    else
      let current ← self.currentToken
      let op := current.type
      let self ← self.Advance
      let (RHS, self) ← Parser.ParseUnary fuel self
      let nextTokenPrecedence ← self.GetBinaryOperatorPrecedence
      if tokenPrecedence < nextTokenPrecedence then
        let (RHS, self) ← Parser.ParseExpressionRHS fuel RHS (tokenPrecedence + 1) self
        let LHS ← Parser.ParseExpressionRHS.switch op LHS RHS
        Parser.ParseExpressionRHS fuel LHS currentPrecedence self
      else
        let LHS ← Parser.ParseExpressionRHS.switch op LHS RHS
        Parser.ParseExpressionRHS fuel LHS currentPrecedence self

/-- Member function `Parser::ParsePrimary`. -/
def Parser.ParsePrimary : Nat → Parser → Fueled (Expression × Parser)
  | 0, _ => none
  | fuel + 1, self => do
    let current ← self.currentToken
    if current.type = .I64Literal then self.ParseIntegerLiteral
    else if current.type = .U64Literal then self.ParseUnsignedIntegerLiteral
    else if current.type = .LeftParen then Parser.ParseParenExpression fuel self
    else if current.type = .Identifier then Parser.ParseIdentifier fuel self
    else if current.type = .CharacterLiteral then self.ParseCharacterLiteral
    else if current.type = .StringLiteral then self.ParseStringLiteral
    else if current.type = .LeftBracket then Parser.ParseArrayLiteral fuel self
    else if current.type = .LeftBrace then Parser.ParseStructLiteral fuel self
    else throw (Parser.ParserError current "Invalid primary expression")

/-- Member function `Parser::ParseParenExpression`. -/
def Parser.ParseParenExpression : Nat → Parser → Fueled (Expression × Parser)
  | 0, _ => none
  | fuel + 1, self => do
    let self ← self.Advance
    let (expression, self) ← Parser.ParseExpression fuel self
    let current ← self.currentToken
    if current.type ≠ .RightParen then
      throw (.invalid_argument Parser.ParseParenExpression.PRETTY_FUNCTION)
    else
      let self ← self.Advance
      return (expression, self)

/-- Member function `Parser::ParseIdentifier`. -/
def Parser.ParseIdentifier : Nat → Parser → Fueled (Expression × Parser)
  | 0, _ => none
  | fuel + 1, self => do
    let current ← self.currentToken
    let identifier ← optional_value current.value
    if identifier = "true" ∨ identifier = "false" then
      let value := decide (identifier = "true")
      let self ← self.Advance
      return (.mk .LITERAL (some (.BuiltinType .boolean)) (.bool value), self)
    else if self._declaredFunctions.contains identifier then
      Parser.ParseCallExpression fuel identifier self
    else
      let expression := Expression.mk .VARIABLE none (.string identifier)
      let self ← self.Advance
      return (expression, self)

/-- Member function `Parser::ParseCallExpression`. -/
def Parser.ParseCallExpression : Nat → String → Parser → Fueled (Expression × Parser)
  | 0, _, _ => none
  | fuel + 1, callee, self => do
    let self ← self.Advance
    let params := [Expression.mk .CALLEE none (.string callee)]
    let (_, self) ← self.ExpectTokenType .LeftParen
    let current ← self.currentToken
    if current.type ≠ .RightParen then
      let (arguments, self) ← Parser.ParseCallExpressionLoop fuel self
      let (_, self) ← self.ExpectTokenType .RightParen
      return (.mk .FUNCTION_CALL none (.ExpressionChildren (params ++ arguments)), self)
    else
      let (_, self) ← self.ExpectTokenType .RightParen
      return (.mk .FUNCTION_CALL none (.ExpressionChildren params), self)

/-- The loop `while (true)` of `ParseCallExpression`: the argument expressions it pushes
to `params`. -/
def Parser.ParseCallExpressionLoop : Nat → Parser → Fueled (List Expression × Parser)
  | 0, _ => none
  | fuel + 1, self => do
    let (argExpression, self) ← Parser.ParseExpression fuel self
    let current ← self.currentToken
    if current.type = .Comma then
      let self ← self.Advance
      let (arguments, self) ← Parser.ParseCallExpressionLoop fuel self
      return (argExpression :: arguments, self)
    else
      return ([argExpression], self)

/-- Member function `Parser::ParseUnary`. -/
def Parser.ParseUnary : Nat → Parser → Fueled (Expression × Parser)
  | 0, _ => none
  | fuel + 1, self => do
    let (unaryPrefixes, tokens) ← Parser.ParseUnary.prefixes self.tokens
    let self := { self with tokens := tokens }
    let (operand, self) ← Parser.ParsePrimary fuel self
    let (unarySuffixes, self) ← Parser.ParseUnaryLoop fuel self
    let operand ← Parser.ParseUnary.applySuffixes fuel unarySuffixes operand
    let operand ← Parser.ParseUnary.applyPrefixes unaryPrefixes.reverse operand
    return (operand, self)

/-- The second loop of `Parser::ParseUnary`, `while (IsUnarySuffix())`: the entries it
puts at the back of the deque `unarySuffixes`. -/
def Parser.ParseUnaryLoop : Nat → Parser → Fueled (List (TokenType ⊕ Expression) × Parser)
  | 0, _ => none
  | fuel + 1, self => do
    let isUnarySuffix ← self.IsUnarySuffix
    if isUnarySuffix = false then
      return ([], self)
    else
      let current ← self.currentToken
      if current.type = .LeftBracket then
        let self ← self.Advance
        let (index, self) ← Parser.ParseExpression fuel self
        let closing ← self.currentToken
        if closing.type ≠ .RightBracket then
          throw (.invalid_argument Parser.ParseUnary.PRETTY_FUNCTION)
        else
          let self ← self.Advance
          let (unarySuffixes, self) ← Parser.ParseUnaryLoop fuel self
          return (.inl current.type :: .inr index :: .inl closing.type :: unarySuffixes, self)
      else if current.type = .Dot then
        let self ← self.Advance
        let (field, self) ← Parser.ParseUnary fuel self
        let (unarySuffixes, self) ← Parser.ParseUnaryLoop fuel self
        return (.inl current.type :: .inr field :: unarySuffixes, self)
      else
        let self ← self.Advance
        let (unarySuffixes, self) ← Parser.ParseUnaryLoop fuel self
        return (.inl current.type :: unarySuffixes, self)

/-- Member function `Parser::ParseArrayLiteral`; `front()` is undefined on the empty
vector and `value()` throws when the first element has no type. -/
def Parser.ParseArrayLiteral : Nat → Parser → Fueled (Expression × Parser)
  | 0, _ => none
  | fuel + 1, self => do
    let (elements, self) ← Parser.ParseArrayLiteralLoop fuel self
    let (_, self) ← self.ExpectTokenType .RightBracket
    match elements with
    | [] => throw .undefined_behavior
    | front :: _ =>
      let elementType ← optional_value front.type
      return (.mk .LITERAL (some (.Array elementType elements.length))
        (.ExpressionChildren elements), self)

/-- The loop `do ... while (_currentToken->type == Comma)` of `ParseArrayLiteral`: the
expressions it pushes to `elements`. -/
def Parser.ParseArrayLiteralLoop : Nat → Parser → Fueled (List Expression × Parser)
  | 0, _ => none
  | fuel + 1, self => do
    let self ← self.Advance
    let (element, self) ← Parser.ParseExpression fuel self
    let current ← self.currentToken
    if current.type = .Comma then
      let (elements, self) ← Parser.ParseArrayLiteralLoop fuel self
      return (element :: elements, self)
    else
      return ([element], self)

/-- Member function `Parser::ParseStructLiteral`. -/
def Parser.ParseStructLiteral : Nat → Parser → Fueled (Expression × Parser)
  | 0, _ => none
  | fuel + 1, self => do
    let (elements, fields, self) ← Parser.ParseStructLiteralLoop fuel self
    let (_, self) ← self.ExpectTokenType .RightBrace
    return (.mk .LITERAL (some (.Struct fields)) (.ExpressionChildren elements), self)

/-- The loop `do ... while (_currentToken->type == Comma)` of `ParseStructLiteral`: the
expressions it pushes to `elements` and the fields it pushes to `fields`; `value()` throws
on an element without type. -/
def Parser.ParseStructLiteralLoop :
    Nat → Parser → Fueled (List Expression × List StructField × Parser)
  | 0, _ => none
  | fuel + 1, self => do
    let self ← self.Advance
    let (element, self) ← Parser.ParseExpression fuel self
    let elementType ← optional_value element.type
    let current ← self.currentToken
    if current.type = .Comma then
      let (elements, fields, self) ← Parser.ParseStructLiteralLoop fuel self
      return (element :: elements, .mk "" elementType :: fields, self)
    else
      return ([element], [.mk "" elementType], self)

end

/-- The loop `while (_currentToken->type != RightParen)` of `ParseFunctionArguments`: the
arguments it pushes to `result`. -/
def Parser.ParseFunctionArgumentsLoop : Nat → Parser → Fueled (List FunctionArgument × Parser)
  | 0, _ => none
  | fuel + 1, self => do
    let current ← self.currentToken
    if current.type ≠ .RightParen then
      let (argument, self) ← self.ParseFunctionArgument
      let current ← self.currentToken
      if current.type = .Comma then
        let self ← self.Advance
        let (result, self) ← Parser.ParseFunctionArgumentsLoop fuel self
        return (argument :: result, self)
      else if current.type ≠ .RightParen then
        throw (Parser.ParserError current "Unexpected token, ')' expected")
      else
        let (result, self) ← Parser.ParseFunctionArgumentsLoop fuel self
        return (argument :: result, self)
    else
      return ([], self)

/-- Member function `Parser::ParseFunctionArguments`. -/
def Parser.ParseFunctionArguments (fuel : Nat) (self : Parser) :
    Fueled (List FunctionArgument × Parser) := do
  let (_, self) ← self.ExpectTokenType .LeftParen
  let (result, self) ← Parser.ParseFunctionArgumentsLoop fuel self
  let (_, self) ← self.ExpectTokenType .RightParen
  return (result, self)

/-- Member function `Parser::ParseFunction`. -/
def Parser.ParseFunction (fuel : Nat) (self : Parser) : Fueled (Function × Parser) := do
  let (token, self) ← self.ExpectTokenType .Identifier
  let name ← optional_value token.value
  let (arguments, self) ← Parser.ParseFunctionArguments fuel self
  let (_, self) ← self.ExpectTokenType .RightArrow
  let (returnType, self) ← self.ParseType
  let self :=
    { self with _declaredFunctions := unordered_set_emplace self._declaredFunctions name }
  let (_, self) ← self.ExpectTokenType .Colon
  let (_, self) ← self.ExpectTokenType .EndOfLine
  let (body, self) ← Parser.ParseScope fuel self
  return ({ prototype := { name := name, arguments := arguments, returnType := returnType }
            body := body }, self)

/-- The loop `while (_currentToken->type != IndentMinus)` of `ParseStruct`: the fields it
pushes to `s.fields`. -/
def Parser.ParseStructLoop : Nat → Parser → Fueled (List StructField × Parser)
  | 0, _ => none
  | fuel + 1, self => do
    let current ← self.currentToken
    if current.type ≠ .IndentMinus then
      if current.type ≠ .Identifier then
        throw (.invalid_argument Parser.ParseStruct.PRETTY_FUNCTION)
      else
        let memberName ← optional_value current.value
        let self ← self.Advance
        let (_, self) ← self.ExpectTokenType .Colon
        let (memberType, self) ← self.ParseType
        let (_, self) ← self.ExpectTokenType .EndOfLine
        let (fields, self) ← Parser.ParseStructLoop fuel self
        return (.mk memberName memberType :: fields, self)
    else
      return ([], self)

/-- Member function `Parser::ParseStruct`: the name and the fields of the `Struct`. -/
def Parser.ParseStruct (fuel : Nat) (self : Parser) :
    Fueled (String × List StructField × Parser) := do
  let (_, self) ← self.ExpectTokenType .Struct
  let current ← self.currentToken
  if current.type ≠ .Identifier then
    throw (.invalid_argument Parser.ParseStruct.PRETTY_FUNCTION)
  else
    let name ← optional_value current.value
    let self ← self.Advance
    let (_, self) ← self.ExpectTokenType .Colon
    let (_, self) ← self.ExpectTokenType .EndOfLine
    let (_, self) ← self.ExpectTokenType .IndentPlus
    let (fields, self) ← Parser.ParseStructLoop fuel self
    let (_, self) ← self.ExpectTokenType .IndentMinus
    return (name, fields, self)

/-- The loop `while (true)` of `Parser::Parse`: the functions it pushes to `result`. -/
def Parser.ParseLoop : Nat → Parser → Fueled (List Function × Parser)
  | 0, _ => none
  | fuel + 1, self => do
    let current ← self.currentToken
    if current.type = .Function then
      let self ← self.Advance
      let (function, self) ← Parser.ParseFunction fuel self
      let (result, self) ← Parser.ParseLoop fuel self
      return (function :: result, self)
    else if current.type = .Struct then
      let (name, type, self) ← Parser.ParseStruct fuel self
      let self := { self with _types := self._types.emplace name (.Struct type) }
      Parser.ParseLoop fuel self
    else
      let (_, self) ← self.ExpectTokenType .EndOfFile
      return ([], self)

/-- Member function `Parser::Parse`: the functions it returns and the parser as it leaves
it. -/
def Parser.Parse (fuel : Nat) (self : Parser) (tokens : List Token) :
    Fueled (List Function × Parser) :=
  Parser.ParseLoop fuel (self.begin tokens)

/-! ## main.cpp -/

/-- The loop `for (auto &f: functions) validator.ValidateFunction(f);` of
`main`: one validator validates the functions in order. -/
def ValidateFunctions (validator : Validator) :
    List Function → Except Exception (Validator × List Function)
  | [] => .ok (validator, [])
  | f :: rest => do
    let (validator, f) ← validator.ValidateFunction f
    let (validator, rest) ← ValidateFunctions validator rest
    return (validator, f :: rest)

/-! ## Structural equality, from the specification -/

mutual
/-- Structural equality of two types in the words of the specification: the
same variant and recursively equal payloads; for arrays also the same element
count; for records the same sequence of field types, position by position,
whatever the field names. -/
def StructurallyEqual : Ty → Ty → Bool
  | .BuiltinType a, .BuiltinType b => decide (a = b)
  | .Pointer a, .Pointer b => StructurallyEqual a b
  | .Array elementA sizeA, .Array elementB sizeB =>
    StructurallyEqual elementA elementB && decide (sizeA = sizeB)
  | .Struct fieldsA, .Struct fieldsB => StructurallyEqualFields fieldsA fieldsB
  | _, _ => false
/-- Two field sequences have the same length and structurally equal types at
every position. -/
def StructurallyEqualFields : List StructField → List StructField → Bool
  | [], [] => true
  | .mk _ typeA :: restA, .mk _ typeB :: restB =>
    StructurallyEqual typeA typeB && StructurallyEqualFields restA restB
  | _, _ => false
end


/-! ## Auxiliary definitions for the statements -/

/-- The children of a value that holds `ExpressionChildren`, no expression
otherwise. -/
def ExpressionValue.children : ExpressionValue → List Expression
  | .ExpressionChildren children => children
  | _ => []

/-- What the validation of an expression never changes: the current function,
the function table, all scopes but the innermost one, and the depth of the
scope stack. -/
def Validator.outer (self : Validator) :
    FunctionPrototype × unordered_map FunctionPrototype × List ValidatorScope × Nat :=
  (self._currentFunction, self._definedFunctions, self._scopes.dropLast, self._scopes.length)

/-- The frame property of one expression: a successful validation leaves
`Validator.outer` as it was, and a `Scope` leaves the whole state as it was. -/
def Framed (c : Expression) : Prop :=
  ∀ (self s : Validator) (e : Expression), self.ValidateExpression c = .ok (s, e) →
    s.outer = self.outer ∧ (c.kind = .SCOPE → s = self)

/-- A computation keeps the outer part of `self` in every successful
result. -/
def Keeps {α : Type} (self : Validator) (m : Except Exception (Validator × α)) : Prop :=
  ∀ (s : Validator) (a : α), m = .ok (s, a) → s.outer = self.outer

/-- Every successful result of a computation has an expression (or list of
expressions) with property `P`. -/
structure Yields {α : Type} (P : α → Prop) (m : Except Exception (Validator × α)) : Prop where
  out : ∀ (s : Validator) (a : α), m = .ok (s, a) → P a

/-- The expression has kind `kind` or is a Literal: what validation makes of
a node of kind `kind`. -/
def KeepsKind (kind : ExpressionKind) (e : Expression) : Prop :=
  e.kind = kind ∨ e.kind = .LITERAL

/-- The arguments of a call are accepted: starting in state `self`, each
argument expression validates, in order and threading the state, to a type
structurally equal to the type of the parameter at the same position; `s` is the final state and `out` the validated arguments. -/
def ArgumentsAccepted : Validator → List FunctionArgument → List Expression →
    Validator → List Expression → Prop
  | self, [], [], s, out => s = self ∧ out = []
  | self, parameter :: parameters, argument :: arguments, s, out =>
    ∃ s1 argument' argType rest,
      self.ValidateExpression argument = .ok (s1, argument') ∧
      argument'.type = some argType ∧
      StructurallyEqual argType parameter.type = true ∧
      ArgumentsAccepted s1 parameters arguments s rest ∧
      out = argument' :: rest
  | _, _, _, _, _ => False

/-! ## The scenarios of the specification, as the parser builds them -/

/-- The type `i64`. -/
def i64 : Ty := .BuiltinType .i64

/-- The type `bool`. -/
def bool : Ty := .BuiltinType .boolean

/-- An integer literal without suffix, as `ParseIntegerLiteral` builds it. -/
def intLiteral (v : Int) : Expression := .mk .LITERAL (some i64) (.int64_t v)

/-- An identifier that is not a declared function, as `ParseIdentifier` builds
it. -/
def variableRef (name : String) : Expression := .mk .VARIABLE none (.string name)

/-- A node with children and no type, as the parser builds every operator and
statement node. -/
def node (kind : ExpressionKind) (children : List Expression) : Expression :=
  .mk kind none (.ExpressionChildren children)

/-- The statement `var name: type = init`, as `ParseVariableDeclaration` builds it. -/
def varDeclaration (name : String) (type : Ty) (init : Expression) : Expression :=
  node .VARIABLE_DECLARATION [.mk .VARIABLE (some type) (.string name), init]

/-- Scenario S1: `function main() -> i64:` with body `return 0`. -/
def S1 : Function :=
  { prototype := { name := "main", arguments := [], returnType := i64 }
    body := node .SCOPE [node .RETURN [intLiteral 0]] }

/-- Scenario S2: `function f(x: i64) -> i64:` with body `var y: i64 = x + 1`,
`return y`. -/
def S2 : Function :=
  { prototype := { name := "f", arguments := [{ name := "x", type := i64 }], returnType := i64 }
    body := node .SCOPE [
      varDeclaration "y" i64 (node .PLUS_OP [variableRef "x", intLiteral 1]),
      node .RETURN [variableRef "y"]] }

/-- Scenario S3: `function f() -> i64:` with body `var y: i64 = true`,
`return y`. -/
def S3 : Function :=
  { prototype := { name := "f", arguments := [], returnType := i64 }
    body := node .SCOPE [
      varDeclaration "y" i64 (.mk .LITERAL (some bool) (.bool true)),
      node .RETURN [variableRef "y"]] }

/-- The record type `P` of scenario S4: `struct P:` with fields `x: i64`,
`y: i64`. -/
def S4_P : Ty := .Struct [.mk "x" i64, .mk "y" i64]

/-- Scenario S4: `function f(p: P) -> i64:` with body `return p.x`. -/
def S4 : Function :=
  { prototype := { name := "f", arguments := [{ name := "p", type := S4_P }], returnType := i64 }
    body := node .SCOPE [
      node .RETURN [node .MEMBER_ACCESS [variableRef "p", variableRef "x"]]] }

/-- The loop `for var i: i64 = 0, i < 10, i++:` with body `return i` of
scenario S5. -/
def S5_loop : Expression :=
  node .FOR_LOOP [
    varDeclaration "i" i64 (intLiteral 0),
    node .LESS_THAN_OP [variableRef "i", intLiteral 10],
    node .POST_INC_OP [variableRef "i"],
    node .SCOPE [node .RETURN [variableRef "i"]]]

/-- Scenario S5: `function f() -> i64:` with the loop `S5_loop` and then
`return 0`. -/
def S5 : Function :=
  { prototype := { name := "f", arguments := [], returnType := i64 }
    body := node .SCOPE [S5_loop, node .RETURN [intLiteral 0]] }

/-- Scenario S5 with a reference to the loop variable after the loop:
`function f() -> i64:` with the loop `S5_loop` and then `return i`. -/
def S5_after : Function :=
  { prototype := { name := "f", arguments := [], returnType := i64 }
    body := node .SCOPE [S5_loop, node .RETURN [variableRef "i"]] }

/-- Scenario S6: `function f(p: i64*) -> i64*:` with body `return p + 1`. -/
def S6 : Function :=
  { prototype :=
      { name := "f", arguments := [{ name := "p", type := .Pointer i64 }],
        returnType := .Pointer i64 }
    body := node .SCOPE [node .RETURN [node .PLUS_OP [variableRef "p", intLiteral 1]]] }

/-- The function `function f(x: i64) -> i64:` with body `return x`. -/
def leak_f : Function :=
  { prototype := { name := "f", arguments := [{ name := "x", type := i64 }], returnType := i64 }
    body := node .SCOPE [node .RETURN [variableRef "x"]] }

/-- The function `function g() -> i64:` with body `return x`: `x` is no
argument of `g` and no `var` of `g` declares it. -/
def leak_g : Function :=
  { prototype := { name := "g", arguments := [], returnType := i64 }
    body := node .SCOPE [node .RETURN [variableRef "x"]] }

/-- The state in which `ValidateFunction` validates the body of `function`:
the current function is set, the scope of the arguments is pushed and the
function is registered in the function table. -/
def Validator.enter (self : Validator) (function : Function) : Validator :=
  { _currentFunction := function.prototype
    _scopes := self._scopes ++ [functionScopeOf function.prototype.arguments { vars := [] }]
    _definedFunctions :=
      self._definedFunctions.assign function.prototype.name function.prototype }


/-! ## Properties of whole expression trees -/

/-- The conditions of a Conditional: the children at even indices that are
followed by a body. -/
def conditionsOf : List Expression → List Expression
  | condition :: _ :: rest => condition :: conditionsOf rest
  | _ => []

/-- The bodies of a Conditional: the children at odd indices, and a last child at an even
index (the else body). -/
def bodiesOf : List Expression → List Expression
  | _ :: body :: rest => body :: bodiesOf rest
  | [elseBody] => [elseBody]
  | [] => []

/-- The kinds of node whose children `ValidateExpression` does not look at: a Literal
(`ValidateLiteral` checks the type of the node only) and the three kinds that the dispatch
leaves as they are. -/
def childrenSkipped (kind : ExpressionKind) : Bool :=
  KindIsIn kind [.LITERAL, .CONTINUE, .BREAK, .CALLEE]

mutual
/-- The property `p` of kind and type holds at the node and at every node below it, not
going below a node whose kind is in `skip`. -/
def Expression.all (skip : ExpressionKind → Bool) (p : ExpressionKind → Option Ty → Bool) :
    Expression → Bool
  | .mk kind type value => p kind type && (skip kind || ExpressionValue.all skip p value)
/-- The property holds in every child held by the value. -/
def ExpressionValue.all (skip : ExpressionKind → Bool) (p : ExpressionKind → Option Ty → Bool) :
    ExpressionValue → Bool
  | .ExpressionChildren children => Expression.allList skip p children
  | _ => true
/-- The property holds in every expression of the list. -/
def Expression.allList (skip : ExpressionKind → Bool) (p : ExpressionKind → Option Ty → Bool) :
    List Expression → Bool
  | [] => true
  | e :: rest => Expression.all skip p e && Expression.allList skip p rest
end

/-- The node is a Negate whose operand is a Literal. -/
def isNegateOfLiteral : Expression → Bool
  | .mk .NEGATE _ (.ExpressionChildren [operand]) => operand.kind == .LITERAL
  | _ => false

mutual
/-- Some node of the expression, the elements of literals included, satisfies `q`. -/
def Expression.any (q : Expression → Bool) : Expression → Bool
  | .mk kind type value => q (.mk kind type value) || ExpressionValue.any q value
/-- Some node below the value satisfies `q`. -/
def ExpressionValue.any (q : Expression → Bool) : ExpressionValue → Bool
  | .ExpressionChildren children => Expression.anyList q children
  | _ => false
/-- Some node of the expressions of the list satisfies `q`. -/
def Expression.anyList (q : Expression → Bool) : List Expression → Bool
  | [] => false
  | e :: rest => Expression.any q e || Expression.anyList q rest
end

/-- The type is set, or the kind is one of Scope, Callee, Continue and Break. -/
def typeSet (kind : ExpressionKind) (type : Option Ty) : Bool :=
  KindIsIn kind [.SCOPE, .CALLEE, .CONTINUE, .BREAK] || type.isSome

/-- The type is set, or the kind is one of Scope, Callee, Continue, Break, Conditional and
ForLoop. -/
def typeSetOrStatement (kind : ExpressionKind) (type : Option Ty) : Bool :=
  KindIsIn kind [.SCOPE, .CALLEE, .CONTINUE, .BREAK, .CONDITIONAL, .FOR_LOOP] || type.isSome

/-- The kind is not Negate. -/
def notNegate (kind : ExpressionKind) (_type : Option Ty) : Bool :=
  kind != .NEGATE

/-- The properties of kind and type that validation establishes: they hold of every node
with a type that is not a Negate, and of every Scope, Callee, Continue, Break, Conditional
and ForLoop. -/
structure Established (p : ExpressionKind → Option Ty → Bool) : Prop where
  typed : ∀ kind t, kind ≠ .NEGATE → p kind (some t) = true
  statement : ∀ kind t,
    KindIsIn kind [.SCOPE, .CALLEE, .CONTINUE, .BREAK, .CONDITIONAL, .FOR_LOOP] = true →
    p kind t = true

/-- Whatever state the expression is validated in, `p` holds at every visited node of the
result. -/
def Deep (p : ExpressionKind → Option Ty → Bool) (c : Expression) : Prop :=
  ∀ (self s : Validator) (e : Expression), self.ValidateExpression c = .ok (s, e) →
    Expression.all childrenSkipped p e = true



/-! ## How failures are reported -/

/-- The exception is a report of the validator in the name of the function `name`, a
`std::invalid_argument` whose message is `name`, a colon, a blank and a text, or it is one
of the exceptions that the library throws on a wrong access. -/
def Prefixed (name : String) : Exception → Prop
  | .invalid_argument what => ∃ message : String, what = name ++ ": " ++ message
  | .runtime_error _ => False
  | .bad_variant_access => True
  | .bad_optional_access => True
  | .undefined_behavior => True

/-- A computation of the validator reports in the name of `name`: every failure is
`Prefixed`, and every successful result is a state whose current function has that name. -/
structure Reports {α : Type} (name : String) (m : Except Exception (Validator × α)) : Prop where
  failure : ∀ ex, m = .error ex → Prefixed name ex
  success : ∀ (s : Validator) (a : α), m = .ok (s, a) → s._currentFunction.name = name

/-- The validation of the expression reports in the name of the current function, whatever
the state. -/
def Reported (c : Expression) : Prop :=
  ∀ (self : Validator), Reports self._currentFunction.name (self.ValidateExpression c)

/-! ## Further functions, as the parser builds them -/

/-- The function `function f() -> i64:` with body `return -(-(5))`: `ParseUnary` puts a
Negate node without type around the operand for each prefix minus. -/
def doubleNegation : Function :=
  { prototype := { name := "f", arguments := [], returnType := i64 }
    body := node .SCOPE [node .RETURN [node .NEGATE [node .NEGATE [intLiteral 5]]]] }

/-- The function `function f() -> i64:` in which the body of a conditional declares `x`
again: `var x: i64 = 1`, `if x < 2:` with body `var x: bool = x < 2`, `var y: bool = x`,
then `return x`. -/
def shadowing : Function :=
  { prototype := { name := "f", arguments := [], returnType := i64 }
    body := node .SCOPE [
      varDeclaration "x" i64 (intLiteral 1),
      node .CONDITIONAL [node .LESS_THAN_OP [variableRef "x", intLiteral 2],
        node .SCOPE [
          varDeclaration "x" bool (node .LESS_THAN_OP [variableRef "x", intLiteral 2]),
          varDeclaration "y" bool (variableRef "x")]],
      node .RETURN [variableRef "x"]] }

/-- A reference to the variable `name` after validation: the type is set. -/
def typedVariable (name : String) (type : Ty) : Expression :=
  .mk .VARIABLE (some type) (.string name)

/-- The body of `shadowing` after validation: the `x` in `var y: bool = x` has the type
bool of the declaration in the body of the conditional, the `x` in `return x` the type i64
of the declaration before the conditional. -/
def shadowing_validated : Expression :=
  node .SCOPE [
    .mk .VARIABLE_DECLARATION (some i64) (.ExpressionChildren [typedVariable "x" i64, intLiteral 1]),
    node .CONDITIONAL [
      .mk .LESS_THAN_OP (some bool) (.ExpressionChildren [typedVariable "x" i64, intLiteral 2]),
      node .SCOPE [
        .mk .VARIABLE_DECLARATION (some bool) (.ExpressionChildren [typedVariable "x" bool,
          .mk .LESS_THAN_OP (some bool) (.ExpressionChildren [typedVariable "x" i64, intLiteral 2])]),
        .mk .VARIABLE_DECLARATION (some bool) (.ExpressionChildren [typedVariable "y" bool,
          typedVariable "x" bool])]],
    .mk .RETURN (some i64) (.ExpressionChildren [typedVariable "x" i64])]
/-- The array literal `[1, -2]`, as `ParseArrayLiteral` builds it: a Literal whose type is
the array of two elements of the type of the first element, with the element expressions
as children; the second element is the Negate node `ParseUnary` builds for `-2`. -/
def negativeElement : Expression :=
  .mk .LITERAL (some (.Array i64 2)) (.ExpressionChildren [intLiteral 1, node .NEGATE [intLiteral 2]])

/-- The function `function f() -> i64:` with body `var a: i64[2] = [1, -2]`, `return 0`. -/
def negateInArray : Function :=
  { prototype := { name := "f", arguments := [], returnType := i64 }
    body := node .SCOPE [varDeclaration "a" (.Array i64 2) negativeElement,
      node .RETURN [intLiteral 0]] }

/-- The function `function f(x: i64) -> i64:` with body `if x < 1:` `return 0` and then
`return 1`. -/
def conditionalFunction : Function :=
  { prototype := { name := "f", arguments := [{ name := "x", type := i64 }], returnType := i64 }
    body := node .SCOPE [
      node .CONDITIONAL [node .LESS_THAN_OP [variableRef "x", intLiteral 1],
        node .SCOPE [node .RETURN [intLiteral 0]]],
      node .RETURN [intLiteral 1]] }

/-- The function `function f(x: i64) -> i64:` with body `var a: i64[2] = [1, x]`,
`return 0`. -/
def variableInArray : Function :=
  { prototype := { name := "f", arguments := [{ name := "x", type := i64 }], returnType := i64 }
    body := node .SCOPE [
      varDeclaration "a" (.Array i64 2)
        (.mk .LITERAL (some (.Array i64 2)) (.ExpressionChildren [intLiteral 1, variableRef "x"])),
      node .RETURN [intLiteral 0]] }

/-- The function `function f() -> i64:` with body `var a: i64[1] = 1`, `return 0`. -/
def arrayFromInteger : Function :=
  { prototype := { name := "f", arguments := [], returnType := i64 }
    body := node .SCOPE [varDeclaration "a" (.Array i64 1) (intLiteral 1),
      node .RETURN [intLiteral 0]] }

/-- The function `function f() -> i64:` with body `var a: i64 = true`, `return 0`. -/
def integerFromBool : Function :=
  { prototype := { name := "f", arguments := [], returnType := i64 }
    body := node .SCOPE [varDeclaration "a" i64 (.mk .LITERAL (some bool) (.bool true)),
      node .RETURN [intLiteral 0]] }

/-- The function `function f() -> i64:` whose body declares `p` of the record type `P` of
scenario S4 with the record literal of `1` and `2` as initial value, and then has
`return p.x`. -/
def recordLiteralFunction : Function :=
  { prototype := { name := "f", arguments := [], returnType := i64 }
    body := node .SCOPE [
      varDeclaration "p" S4_P (.mk .LITERAL (some (.Struct [.mk "" i64, .mk "" i64]))
        (.ExpressionChildren [intLiteral 1, intLiteral 2])),
      node .RETURN [node .MEMBER_ACCESS [variableRef "p", variableRef "x"]]] }

/-- The function `function f() -> i64:` with body `if 1:` `return 0` and then
`return 1`: the condition is an integer. -/
def integerCondition : Function :=
  { prototype := { name := "f", arguments := [], returnType := i64 }
    body := node .SCOPE [
      node .CONDITIONAL [intLiteral 1, node .SCOPE [node .RETURN [intLiteral 0]]],
      node .RETURN [intLiteral 1]] }

/-- The function `function f() -> i64:` with the loop `for var i: i64 = 0, i, i++:` with
body `return i`, and then `return 0`: the condition of the loop is an integer. -/
def integerLoopCondition : Function :=
  { prototype := { name := "f", arguments := [], returnType := i64 }
    body := node .SCOPE [
      node .FOR_LOOP [
        varDeclaration "i" i64 (intLiteral 0),
        variableRef "i",
        node .POST_INC_OP [variableRef "i"],
        node .SCOPE [node .RETURN [variableRef "i"]]],
      node .RETURN [intLiteral 0]] }

/-! ## The round trip of a type through its rendering -/

/-- The round trip of the type `t`: the string `TypeToStr(t)` is tokenized as the content
of the file `filename`, a parser as its constructor leaves it parses a type from the first of
the tokens on, and the parsed type is compared with `t`. -/
def roundTrip (t : Ty) (filename : String) : Except Exception Bool := do
  let tokens ← Tokenizer.Tokenize (TypeToStr t) filename
  let (parsed, _) ← (Parser.new.begin tokens).ParseType
  TypeIsSame t parsed

/-- The type is built only from Builtin, Pointer and Array. -/
def builtFromBuiltinPointerArray : Ty → Bool
  | .BuiltinType _ => true
  | .Pointer pointedType => builtFromBuiltinPointerArray pointedType
  | .Array elementType _ => builtFromBuiltinPointerArray elementType
  | .Struct _ => false

/-- The type is built only from Builtin and Array, and every element count is below
`2 ^ 63`. -/
def builtFromBuiltinArray : Ty → Bool
  | .BuiltinType _ => true
  | .Array elementType size => builtFromBuiltinArray elementType && decide (size < 2 ^ 63)
  | _ => false

/-- The array type with the element counts `sizes`, the innermost first, around `base`:
`arrayOf base [2, 3]` is `base[2][3]`. -/
def arrayOf (base : Ty) : List Nat → Ty
  | [] => base
  | size :: sizes => arrayOf (.Array base size) sizes

/-- The characters of the suffixes `[size]` for the element counts `sizes`. -/
def suffixChars : List Nat → List Char
  | [] => []
  | size :: sizes => '[' :: (Nat.toDigits 10 size ++ ']' :: suffixChars sizes)

/-- The tokens of the suffixes `[size]` for the element counts `sizes`, on line
`currentLine` of `file`. -/
def suffixTokens (file : String) (currentLine : Nat) : List Nat → List Token
  | [] => []
  | size :: sizes =>
    { file := file, line := currentLine, type := .LeftBracket, value := none } ::
    { file := file, line := currentLine, type := .I64Literal, value := some (toString size) } ::
    { file := file, line := currentLine, type := .RightBracket, value := none } ::
    suffixTokens file currentLine sizes

/-! ## Progress of the loops -/

/-- A function of the tokenizer leaves less of the line than it found, whenever it
returns. -/
structure Shorter (line : List Char) (m : Except Exception (Token × List Char)) : Prop where
  out : ∀ (token : Token) (rest : List Char), m = .ok (token, rest) → rest.length < line.length

/-! ## Bounded calls and their fuel -/

/-- What `x` gives, `y` gives too: `y` is `x` with at least as much fuel. -/
structure Fueled.le {α : Type} (x y : Fueled α) : Prop where
  out : ∀ r, x = some r → y = some r

/-- One more unit of fuel: what each function of the parser gives with `fuel`, it gives
with `fuel + 1`. -/
structure Parser.Deeper (fuel : Nat) : Prop where
  ParseScope : ∀ (a : Parser),
    Fueled.le (Parser.ParseScope fuel a)
      (Parser.ParseScope (fuel + 1) a)
  ParseScopeLoop : ∀ (a : Parser),
    Fueled.le (Parser.ParseScopeLoop fuel a)
      (Parser.ParseScopeLoop (fuel + 1) a)
  ParseReturn : ∀ (a : Parser),
    Fueled.le (Parser.ParseReturn fuel a)
      (Parser.ParseReturn (fuel + 1) a)
  ParseConditional : ∀ (a : Parser),
    Fueled.le (Parser.ParseConditional fuel a)
      (Parser.ParseConditional (fuel + 1) a)
  ParseConditionalLoop : ∀ (a : Parser),
    Fueled.le (Parser.ParseConditionalLoop fuel a)
      (Parser.ParseConditionalLoop (fuel + 1) a)
  ParseForLoop : ∀ (a : Parser),
    Fueled.le (Parser.ParseForLoop fuel a)
      (Parser.ParseForLoop (fuel + 1) a)
  ParseVariableDeclaration : ∀ (a : Parser),
    Fueled.le (Parser.ParseVariableDeclaration fuel a)
      (Parser.ParseVariableDeclaration (fuel + 1) a)
  ParseIndent : ∀ (a : Parser),
    Fueled.le (Parser.ParseIndent fuel a)
      (Parser.ParseIndent (fuel + 1) a)
  ParseExpression : ∀ (a : Parser),
    Fueled.le (Parser.ParseExpression fuel a)
      (Parser.ParseExpression (fuel + 1) a)
  ParseExpressionRHS : ∀ (a : Expression) (b : Int) (c : Parser),
    Fueled.le (Parser.ParseExpressionRHS fuel a b c)
      (Parser.ParseExpressionRHS (fuel + 1) a b c)
  ParsePrimary : ∀ (a : Parser),
    Fueled.le (Parser.ParsePrimary fuel a)
      (Parser.ParsePrimary (fuel + 1) a)
  ParseParenExpression : ∀ (a : Parser),
    Fueled.le (Parser.ParseParenExpression fuel a)
      (Parser.ParseParenExpression (fuel + 1) a)
  ParseIdentifier : ∀ (a : Parser),
    Fueled.le (Parser.ParseIdentifier fuel a)
      (Parser.ParseIdentifier (fuel + 1) a)
  ParseCallExpression : ∀ (a : String) (b : Parser),
    Fueled.le (Parser.ParseCallExpression fuel a b)
      (Parser.ParseCallExpression (fuel + 1) a b)
  ParseCallExpressionLoop : ∀ (a : Parser),
    Fueled.le (Parser.ParseCallExpressionLoop fuel a)
      (Parser.ParseCallExpressionLoop (fuel + 1) a)
  ParseUnary : ∀ (a : Parser),
    Fueled.le (Parser.ParseUnary fuel a)
      (Parser.ParseUnary (fuel + 1) a)
  ParseUnaryLoop : ∀ (a : Parser),
    Fueled.le (Parser.ParseUnaryLoop fuel a)
      (Parser.ParseUnaryLoop (fuel + 1) a)
  ParseArrayLiteral : ∀ (a : Parser),
    Fueled.le (Parser.ParseArrayLiteral fuel a)
      (Parser.ParseArrayLiteral (fuel + 1) a)
  ParseArrayLiteralLoop : ∀ (a : Parser),
    Fueled.le (Parser.ParseArrayLiteralLoop fuel a)
      (Parser.ParseArrayLiteralLoop (fuel + 1) a)
  ParseStructLiteral : ∀ (a : Parser),
    Fueled.le (Parser.ParseStructLiteral fuel a)
      (Parser.ParseStructLiteral (fuel + 1) a)
  ParseStructLiteralLoop : ∀ (a : Parser),
    Fueled.le (Parser.ParseStructLiteralLoop fuel a)
      (Parser.ParseStructLiteralLoop (fuel + 1) a)
  applySuffixes : ∀ (a : List (TokenType ⊕ Expression)) (b : Expression),
    Fueled.le (Parser.ParseUnary.applySuffixes fuel a b)
      (Parser.ParseUnary.applySuffixes (fuel + 1) a b)

/-- The function `f`, whose first argument bounds the depth of its calls, gives `r`: with
every bound from some bound on it returns or throws `r`. -/
def Fueled.Gives {α : Type} (f : Nat → Fueled α) (r : Except Exception α) : Prop :=
  ∃ fuel, ∀ fuel', fuel ≤ fuel' → f fuel' = some r

/-! ## Binary operators -/

/-- The binary operators: the type of the token and the kind of the node that the
specification names for it (`*` Multiply, `/` Divide, `+` Plus, `-` Minus, `<` LessThan,
`>` GreaterThan, `==` Equal, `!=` NotEqual, `and`, `or`, `=` VariableAssignment). -/
def binaryOperators : List (TokenType × ExpressionKind) :=
  [(.Asterisk, .MULTIPLY_OP), (.DivideOp, .DIVIDE_OP), (.PlusOp, .PLUS_OP),
   (.Minus, .MINUS_OP), (.LeftChevron, .LESS_THAN_OP), (.RightChevron, .GREATER_THAN_OP),
   (.Equal, .EQUAL_OP), (.NotEqual, .NOT_EQUAL_OP), (.LogicalAnd, .LOGICAL_AND),
   (.LogicalOr, .LOGICAL_OR), (.Assignment, .VARIABLE_ASSIGNMENT)]

/-- The precedence table of the specification: `*` `/` 120; `+` `-` 110; `<` `>` 90;
`==` `!=` 80; `and` 40; `or` 30; `=` 10. -/
def precedenceTable : List (TokenType × Int) :=
  [(.Asterisk, 120), (.DivideOp, 120), (.PlusOp, 110), (.Minus, 110), (.LeftChevron, 90),
   (.RightChevron, 90), (.Equal, 80), (.NotEqual, 80), (.LogicalAnd, 40), (.LogicalOr, 30),
   (.Assignment, 10)]

/-- A token of type `type` with the lexeme `value`, on line 1 of the file `f`. -/
def tokenOf (type : TokenType) (value : Option String) : Token :=
  { file := "f", line := 1, type := type, value := value }

/-- The parser as its constructor leaves it, with the cursor on the first of `tokens`. -/
def parserAt (tokens : List Token) : Parser :=
  Parser.new.begin tokens

/-- The tokens of `a + b * c` and the end of the line. -/
def sumOfProduct : List Token :=
  [tokenOf .Identifier (some "a"), tokenOf .PlusOp none, tokenOf .Identifier (some "b"),
   tokenOf .Asterisk none, tokenOf .Identifier (some "c"), tokenOf .EndOfLine none]

/-- The tokens of `a * b + c` and the end of the line. -/
def productPlus : List Token :=
  [tokenOf .Identifier (some "a"), tokenOf .Asterisk none, tokenOf .Identifier (some "b"),
   tokenOf .PlusOp none, tokenOf .Identifier (some "c"), tokenOf .EndOfLine none]

/-- The tokens of `a = b = c` and the end of the line. -/
def chainedAssignment : List Token :=
  [tokenOf .Identifier (some "a"), tokenOf .Assignment none, tokenOf .Identifier (some "b"),
   tokenOf .Assignment none, tokenOf .Identifier (some "c"), tokenOf .EndOfLine none]

/-! ## Unary operators -/

/-- The prefix operators: the type of the token and the kind of the node that the
specification names for it (`*` PointerDereference, `-` Negate, `&` AddressOf). -/
def prefixOperators : List (TokenType × ExpressionKind) :=
  [(.Asterisk, .POINTER_DEREFERENCE), (.Minus, .NEGATE), (.Ampersand, .ADDRESS_OF)]

/-- The nodes of the kinds `k1, ..., kn` around `e`, the first outermost:
`k1[k2[... kn[e] ...]]`. -/
def stacked (kinds : List ExpressionKind) (e : Expression) : Expression :=
  kinds.foldr (fun kind operand => node kind [operand]) e

/-- The tokens of `-*p` and the end of the line. -/
def negatedDereference : List Token :=
  [tokenOf .Minus none, tokenOf .Asterisk none, tokenOf .Identifier (some "p"),
   tokenOf .EndOfLine none]

/-- The tokens of `*p++` and the end of the line. -/
def dereferencedIncrement : List Token :=
  [tokenOf .Asterisk none, tokenOf .Identifier (some "p"), tokenOf .PlusPlusOp none,
   tokenOf .EndOfLine none]

/-- A suffix of an operand as `ParseUnary` reads it: `++`, `[index]` with the expression
that `ParseExpression` returns between the brackets, or `.` with the expression that
`ParseUnary` returns behind the dot. -/
inductive Suffix where
  | postIncrement
  | subscript (index : Expression)
  | member (field : Expression)

/-- The node of the suffix around `operand`. -/
def Suffix.apply (operand : Expression) : Suffix → Expression
  | .postIncrement => node .POST_INC_OP [operand]
  | .subscript index => node .ARRAY_SUBSCRIPT [operand, index]
  | .member field => node .MEMBER_ACCESS [operand, field]

/-- The entries that the second loop of `ParseUnary` puts into the deque for the suffix. -/
def Suffix.entries : Suffix → List (TokenType ⊕ Expression)
  | .postIncrement => [.inl .PlusPlusOp]
  | .subscript index => [.inl .LeftBracket, .inr index, .inl .RightBracket]
  | .member field => [.inl .Dot, .inr field]

/-- The tokens from the cursor of `s` on are the suffixes `l`, one after the other, and
after them the parser is `s'`, on a token that begins no suffix. -/
inductive ReadsSuffixes : Parser → List Suffix → Parser → Prop where
  | done (s : Parser) (current : Token) (rest : List Token) :
    s.tokens = current :: rest → Parser.IsUnarySuffix.switch current.type = false →
    ReadsSuffixes s [] s
  | postIncrement (s s' : Parser) (current : Token) (rest : List Token) (l : List Suffix) :
    s.tokens = current :: rest → current.type = .PlusPlusOp →
    ReadsSuffixes { s with tokens := rest } l s' → ReadsSuffixes s (.postIncrement :: l) s'
  | subscript (s s1 s' : Parser) (current closing : Token) (rest rest1 : List Token)
      (index : Expression) (l : List Suffix) :
    s.tokens = current :: rest → current.type = .LeftBracket →
    Fueled.Gives (Parser.ParseExpression · { s with tokens := rest }) (.ok (index, s1)) →
    s1.tokens = closing :: rest1 → closing.type = .RightBracket →
    ReadsSuffixes { s1 with tokens := rest1 } l s' → ReadsSuffixes s (.subscript index :: l) s'
  | member (s s1 s' : Parser) (current : Token) (rest : List Token) (field : Expression)
      (l : List Suffix) :
    s.tokens = current :: rest → current.type = .Dot →
    Fueled.Gives (Parser.ParseUnary · { s with tokens := rest }) (.ok (field, s1)) →
    ReadsSuffixes s1 l s' → ReadsSuffixes s (.member field :: l) s'

/-- The tokens of `a[0].x` and the end of the line. -/
def subscriptMember : List Token :=
  [tokenOf .Identifier (some "a"), tokenOf .LeftBracket none, tokenOf .I64Literal (some "0"),
   tokenOf .RightBracket none, tokenOf .Dot none, tokenOf .Identifier (some "x"),
   tokenOf .EndOfLine none]

/-- The tokens of `a[1][2]` and the end of the line. -/
def subscriptSubscript : List Token :=
  [tokenOf .Identifier (some "a"), tokenOf .LeftBracket none, tokenOf .I64Literal (some "1"),
   tokenOf .RightBracket none, tokenOf .LeftBracket none, tokenOf .I64Literal (some "2"),
   tokenOf .RightBracket none, tokenOf .EndOfLine none]

/-- The tokens of `a.b.c` and the end of the line. -/
def memberMember : List Token :=
  [tokenOf .Identifier (some "a"), tokenOf .Dot none, tokenOf .Identifier (some "b"),
   tokenOf .Dot none, tokenOf .Identifier (some "c"), tokenOf .EndOfLine none]

/-- The tokens of `a.b++` and the end of the line. -/
def memberIncrement : List Token :=
  [tokenOf .Identifier (some "a"), tokenOf .Dot none, tokenOf .Identifier (some "b"),
   tokenOf .PlusPlusOp none, tokenOf .EndOfLine none]

/-! ## The suffixes of a type -/

/-- A suffix of the type grammar: `*` or `[count]`. -/
inductive TypeSuffix where
  | pointer
  | array (count : Nat)
  deriving DecidableEq

/-- The type that the suffix makes of `type`: `*` the pointer to it, `[count]` the array
of `count` elements of it. -/
def TypeSuffix.apply (type : Ty) : TypeSuffix → Ty
  | .pointer => .Pointer type
  | .array count => .Array type count

/-- The tokens of the suffix on line `currentLine` of `file`; the count is written as a
decimal numeral. -/
def TypeSuffix.tokens (file : String) (currentLine : Nat) : TypeSuffix → List Token
  | .pointer => [{ file := file, line := currentLine, type := .Asterisk, value := none }]
  | .array count =>
    [{ file := file, line := currentLine, type := .LeftBracket, value := none },
     { file := file, line := currentLine, type := .I64Literal, value := some (toString count) },
     { file := file, line := currentLine, type := .RightBracket, value := none }]

/-- The tokens from the cursor of `s` on are an opening bracket or a comma and then the
expressions `l` that `ParseExpression` returns, with a comma between one and the next, and
after them the parser is `s'`, on a token that is no comma. -/
inductive ReadsElements : Parser → List Expression → Parser → Prop where
  | last (s s1 : Parser) (current next : Token) (rest rest1 : List Token) (e : Expression) :
    s.tokens = current :: rest →
    Fueled.Gives (Parser.ParseExpression · { s with tokens := rest }) (.ok (e, s1)) →
    s1.tokens = next :: rest1 → next.type ≠ .Comma → ReadsElements s [e] s1
  | more (s s1 s' : Parser) (current comma : Token) (rest rest1 : List Token) (e : Expression)
      (l : List Expression) :
    s.tokens = current :: rest →
    Fueled.Gives (Parser.ParseExpression · { s with tokens := rest }) (.ok (e, s1)) →
    s1.tokens = comma :: rest1 → comma.type = .Comma →
    ReadsElements s1 l s' → ReadsElements s (e :: l) s'

/-- The tokens of `[1, x]` and the end of the line. -/
def literalFirst : List Token :=
  [tokenOf .LeftBracket none, tokenOf .I64Literal (some "1"), tokenOf .Comma none,
   tokenOf .Identifier (some "x"), tokenOf .RightBracket none, tokenOf .EndOfLine none]

/-- The tokens of `[x, 1]` and the end of the line. -/
def variableFirst : List Token :=
  [tokenOf .LeftBracket none, tokenOf .Identifier (some "x"), tokenOf .Comma none,
   tokenOf .I64Literal (some "1"), tokenOf .RightBracket none, tokenOf .EndOfLine none]

/-- The tokens of `[-1]` and the end of the line. -/
def negationFirst : List Token :=
  [tokenOf .LeftBracket none, tokenOf .Minus none, tokenOf .I64Literal (some "1"),
   tokenOf .RightBracket none, tokenOf .EndOfLine none]

/-- The tokens of `[f()]` and the end of the line. -/
def callFirst : List Token :=
  [tokenOf .LeftBracket none, tokenOf .Identifier (some "f"), tokenOf .LeftParen none,
   tokenOf .RightParen none, tokenOf .RightBracket none, tokenOf .EndOfLine none]

/-! ## What the functions of the parser leave unchanged -/

/-- The parser `s` is `self` further on in the tokens: it has the same declared functions
and the same types, and its tokens are an end piece of the tokens of `self`. -/
def Parser.Follows (self s : Parser) : Prop :=
  s._declaredFunctions = self._declaredFunctions ∧ s._types = self._types ∧
    List.IsSuffix s.tokens self.tokens

/-- Whenever the call `x` returns, the parser in what it returns follows `state`. -/
structure Fueled.Keeps {α : Type} (get : α → Parser) (state : Parser) (x : Fueled α) :
    Prop where
  out : ∀ a, x = some (.ok a) → state.Follows (get a)

/-- Every function of the parser that returns with `fuel` leaves a parser that follows
the one it was called with. -/
structure Parser.Frames (fuel : Nat) : Prop where
  ParseScope : ∀ (a : Parser),
    Fueled.Keeps Prod.snd a (Parser.ParseScope fuel a)
  ParseScopeLoop : ∀ (a : Parser),
    Fueled.Keeps Prod.snd a (Parser.ParseScopeLoop fuel a)
  ParseReturn : ∀ (a : Parser),
    Fueled.Keeps Prod.snd a (Parser.ParseReturn fuel a)
  ParseConditional : ∀ (a : Parser),
    Fueled.Keeps Prod.snd a (Parser.ParseConditional fuel a)
  ParseConditionalLoop : ∀ (a : Parser),
    Fueled.Keeps Prod.snd a (Parser.ParseConditionalLoop fuel a)
  ParseForLoop : ∀ (a : Parser),
    Fueled.Keeps Prod.snd a (Parser.ParseForLoop fuel a)
  ParseVariableDeclaration : ∀ (a : Parser),
    Fueled.Keeps Prod.snd a (Parser.ParseVariableDeclaration fuel a)
  ParseIndent : ∀ (a : Parser),
    Fueled.Keeps Prod.snd a (Parser.ParseIndent fuel a)
  ParseExpression : ∀ (a : Parser),
    Fueled.Keeps Prod.snd a (Parser.ParseExpression fuel a)
  ParseExpressionRHS : ∀ (a : Expression) (b : Int) (c : Parser),
    Fueled.Keeps Prod.snd c (Parser.ParseExpressionRHS fuel a b c)
  ParsePrimary : ∀ (a : Parser),
    Fueled.Keeps Prod.snd a (Parser.ParsePrimary fuel a)
  ParseParenExpression : ∀ (a : Parser),
    Fueled.Keeps Prod.snd a (Parser.ParseParenExpression fuel a)
  ParseIdentifier : ∀ (a : Parser),
    Fueled.Keeps Prod.snd a (Parser.ParseIdentifier fuel a)
  ParseCallExpression : ∀ (a : String) (b : Parser),
    Fueled.Keeps Prod.snd b (Parser.ParseCallExpression fuel a b)
  ParseCallExpressionLoop : ∀ (a : Parser),
    Fueled.Keeps Prod.snd a (Parser.ParseCallExpressionLoop fuel a)
  ParseUnary : ∀ (a : Parser),
    Fueled.Keeps Prod.snd a (Parser.ParseUnary fuel a)
  ParseUnaryLoop : ∀ (a : Parser),
    Fueled.Keeps Prod.snd a (Parser.ParseUnaryLoop fuel a)
  ParseArrayLiteral : ∀ (a : Parser),
    Fueled.Keeps Prod.snd a (Parser.ParseArrayLiteral fuel a)
  ParseArrayLiteralLoop : ∀ (a : Parser),
    Fueled.Keeps Prod.snd a (Parser.ParseArrayLiteralLoop fuel a)
  ParseStructLiteral : ∀ (a : Parser),
    Fueled.Keeps Prod.snd a (Parser.ParseStructLiteral fuel a)
  ParseStructLiteralLoop : ∀ (a : Parser),
    Fueled.Keeps (fun r => r.2.2) a (Parser.ParseStructLiteralLoop fuel a)

/-! ## The functions declared so far -/

/-- The set `_declaredFunctions` after the functions `functions` have been parsed one
after the other, when it was `declared` before. -/
def declaredAfter (declared : List String) (functions : List Function) : List String :=
  functions.foldl (fun set function => unordered_set_emplace set function.prototype.name)
    declared

/-- The tokens of the two functions
`function f(n: i64) -> i64:` with body `return f(g)` and
`function g() -> i64:` with body `return f(1) + h`. -/
def twoFunctions : List Token :=
  [tokenOf .Function none, tokenOf .Identifier (some "f"), tokenOf .LeftParen none,
   tokenOf .Identifier (some "n"), tokenOf .Colon none, tokenOf .Identifier (some "i64"),
   tokenOf .RightParen none, tokenOf .RightArrow none, tokenOf .Identifier (some "i64"),
   tokenOf .Colon none, tokenOf .EndOfLine none,
   tokenOf .IndentPlus none, tokenOf .Return none, tokenOf .Identifier (some "f"),
   tokenOf .LeftParen none, tokenOf .Identifier (some "g"), tokenOf .RightParen none,
   tokenOf .EndOfLine none,
   tokenOf .IndentMinus none, tokenOf .Function none, tokenOf .Identifier (some "g"),
   tokenOf .LeftParen none, tokenOf .RightParen none, tokenOf .RightArrow none,
   tokenOf .Identifier (some "i64"), tokenOf .Colon none, tokenOf .EndOfLine none,
   tokenOf .IndentPlus none, tokenOf .Return none, tokenOf .Identifier (some "f"),
   tokenOf .LeftParen none, tokenOf .I64Literal (some "1"), tokenOf .RightParen none,
   tokenOf .PlusOp none, tokenOf .Identifier (some "h"), tokenOf .EndOfLine none,
   tokenOf .IndentMinus none, tokenOf .EndOfFile none]

/-- The function `function f(n: i64) -> i64:` with body `return f(g)`, as the parser
builds it when `g` is declared later: `f` is a call and `g` a variable. -/
def callsItself : Function :=
  { prototype := { name := "f", arguments := [{ name := "n", type := i64 }], returnType := i64 }
    body := node .SCOPE [node .RETURN [node .FUNCTION_CALL
      [.mk .CALLEE none (.string "f"), variableRef "g"]]] }

/-- The function `function g() -> i64:` with body `return f(1) + h`, as the parser builds
it when `f` is declared earlier: `f` is a call and `h` a variable. -/
def callsEarlier : Function :=
  { prototype := { name := "g", arguments := [], returnType := i64 }
    body := node .SCOPE [node .RETURN [node .PLUS_OP
      [node .FUNCTION_CALL [.mk .CALLEE none (.string "f"), intLiteral 1],
       variableRef "h"]]] }

/-- The function `function true() -> bool:` with body `return true`, as the parser builds
it: the identifier `true` in the body is the literal. -/
def namedTrue : Function :=
  { prototype := { name := "true", arguments := [], returnType := bool }
    body := node .SCOPE [node .RETURN [.mk .LITERAL (some bool) (.bool true)]] }

/-- The tokens of `function true() -> bool:` with body `return true`. -/
def functionNamedTrue : List Token :=
  [tokenOf .Function none, tokenOf .Identifier (some "true"), tokenOf .LeftParen none,
   tokenOf .RightParen none, tokenOf .RightArrow none, tokenOf .Identifier (some "bool"),
   tokenOf .Colon none, tokenOf .EndOfLine none,
   tokenOf .IndentPlus none, tokenOf .Return none, tokenOf .Identifier (some "true"),
   tokenOf .EndOfLine none, tokenOf .IndentMinus none, tokenOf .EndOfFile none]

/-! ## A record with one field name twice -/

/-- The tokens of `struct S:` with the two fields `a: i64` and `a: bool`. -/
def twiceDeclared : List Token :=
  [tokenOf .Struct none, tokenOf .Identifier (some "S"), tokenOf .Colon none,
   tokenOf .EndOfLine none, tokenOf .IndentPlus none,
   tokenOf .Identifier (some "a"), tokenOf .Colon none, tokenOf .Identifier (some "i64"),
   tokenOf .EndOfLine none,
   tokenOf .Identifier (some "a"), tokenOf .Colon none, tokenOf .Identifier (some "bool"),
   tokenOf .EndOfLine none, tokenOf .IndentMinus none, tokenOf .EndOfFile none]

/-- No two fields of the list have the same name. -/
def uniqueFieldNames (fields : List StructField) : Prop :=
  (fields.map StructField.name).Nodup

/-! ## Lines and indentation, in the words of the specification -/

/-- The indentation level of a line: the number of tabs it begins with. -/
def leadingTabs (line : List Char) : Nat :=
  (line.takeWhile (fun c => c = charTab)).length

/-- What a line holds after its leading tabs. -/
def afterTabs (line : List Char) : List Char :=
  line.dropWhile (fun c => c = charTab)

/-- A significant line of the specification: after its leading tabs are stripped it is
neither empty nor does it begin with `#`. -/
def significant (line : List Char) : Bool :=
  !(afterTabs line).isEmpty && (afterTabs line).head? != some '#'

/-- The significant lines of `lines` with their numbers: the physical lines are counted
from `first`, the skipped ones included. -/
def significantLines (first : Nat) (lines : List (List Char)) : List (Nat × List Char) :=
  (List.enumFrom first lines).filter (fun numbered => significant numbered.2)

/-- The indentation tokens of the specification for a line of level `level` on line
`currentLine` that follows the level `previous`: as many `IndentPlus` as the level rises
when it rises, else as many `IndentMinus` as it falls. -/
def indentationTokens (file : String) (currentLine previous level : Nat) : List Token :=
  if level > previous then
    List.replicate (level - previous)
      { file := file, line := currentLine, type := .IndentPlus, value := none }
  else
    List.replicate (previous - level)
      { file := file, line := currentLine, type := .IndentMinus, value := none }

/-- The token list of the specification for the numbered significant lines that follow the
level `level`, in an input of `last` physical lines: for every line its indentation tokens,
its content tokens and one `EndOfLine`; at the end one `IndentMinus` for every level that
is open and one `EndOfFile`. The content tokens are those of `TokenizeLine`. -/
def indentedTokens (file : String) (last : Nat) :
    List (Nat × List Char) → Nat → Except Exception (List Token)
  | [], level =>
    .ok (List.replicate level
        { file := file, line := last, type := .IndentMinus, value := none } ++
      [{ file := file, line := last, type := .EndOfFile, value := none }])
  | (currentLine, line) :: rest, level => do
    let content ← Tokenizer.TokenizeLine file currentLine (afterTabs line)
    let tokens ← indentedTokens file last rest (leadingTabs line)
    return indentationTokens file currentLine level (leadingTabs line) ++ content ++
      [{ file := file, line := currentLine, type := .EndOfLine, value := none }] ++ tokens

/-- The input of three lines `a`, an indented `b` and `c`, the second one after a tab. -/
def threeLines : String :=
  String.mk ['a', charNewline, charTab, 'b', charNewline, 'c', charNewline]

/-! ## A comment after a tab -/

/-- The input of the one line that holds a tab and then `#`. -/
def indentedComment : String := String.mk [charTab, '#']

/-- The input of the three lines `a`, a tab and then `#`, and `b`. -/
def commentBetween : String :=
  String.mk ['a', charNewline, charTab, '#', charNewline, 'b', charNewline]

/-- The input `commentBetween` without its second line. -/
def commentRemoved : String :=
  String.mk ['a', charNewline, 'b', charNewline]

/-! ## Operators of one precedence in a row -/

/-- The tokens of `a - b - c` and the end of the line. -/
def differenceMinus : List Token :=
  [tokenOf .Identifier (some "a"), tokenOf .Minus none, tokenOf .Identifier (some "b"),
   tokenOf .Minus none, tokenOf .Identifier (some "c"), tokenOf .EndOfLine none]

/-- The tokens of `a / b * c` and the end of the line. -/
def quotientTimes : List Token :=
  [tokenOf .Identifier (some "a"), tokenOf .DivideOp none, tokenOf .Identifier (some "b"),
   tokenOf .Asterisk none, tokenOf .Identifier (some "c"), tokenOf .EndOfLine none]

/-! ## Declarations inside a Scope -/

/-- The statements `var x: i64 = 1` and, one level deeper, `var y: i64 = x`. -/
def nestedDeclarations : List Expression :=
  [varDeclaration "x" i64 (intLiteral 1),
   node .SCOPE [varDeclaration "y" i64 (variableRef "x")]]

/-- A validator whose scope stack holds one scope, with the variable `z` of type `bool`. -/
def oneScope : Validator :=
  { Validator.new with _scopes := [{ vars := [("z", bool)] }] }

/-! ## String literals, in the words of the specification -/

/-- What stands between the quotes of a string literal is a row of items: a character by
itself, or a backslash and the character after it. -/
inductive StringItem where
  | plain (c : Char)
  | escape (c : Char)

/-- The characters of an item in the source text. -/
def StringItem.source : StringItem → List Char
  | .plain c => [c]
  | .escape c => [charBackslash, c]

/-- The character an item contributes to the lexeme: behind a backslash `r` is the carriage
return and `n` the line feed, every other character, the double quote among them, is taken
as it is. -/
def StringItem.meaning : StringItem → Char
  | .plain c => c
  | .escape c => if c = 'r' then charReturn else if c = 'n' then charNewline else c

/-- A character by itself is neither the double quote, which closes the literal, nor the
backslash. -/
def StringItem.wellFormed : StringItem → Prop
  | .plain c => c ≠ charQuote ∧ c ≠ charBackslash
  | .escape _ => True

/-- The items of the literal with the text `a`, backslash `n`, backslash double quote,
`b`. -/
def sampleItems : List StringItem :=
  [.plain 'a', .escape 'n', .escape charQuote, .plain 'b']

/-! ## The balance of the indentation tokens -/

/-- The types of the tokens that the loop of `Tokenize` pushes for the layout of the input
and that no line contributes by its content. -/
def TokenType.isLayout : TokenType → Bool
  | .IndentPlus => true
  | .IndentMinus => true
  | .EndOfFile => true
  | _ => false

/-- Whenever a function of the tokenizer returns a token, it is no layout token. -/
structure Content (m : Except Exception (Token × List Char)) : Prop where
  out : ∀ (token : Token) (rest : List Char), m = .ok (token, rest) →
    token.type.isLayout = false

/-- The number of tokens of type `type` in `tokens`. -/
def countType (type : TokenType) (tokens : List Token) : Nat :=
  tokens.countP (fun token => token.type = type)

/-- The indentation level after the tokens, from the level `level` on: an `IndentPlus` opens
a level, an `IndentMinus` closes one, and there is no level after an `IndentMinus` at
level 0. -/
def levelAfter : Nat → List Token → Option Nat
  | level, [] => some level
  | level, token :: tokens =>
    if token.type = .IndentPlus then levelAfter (level + 1) tokens
    else if token.type = .IndentMinus then
      if level = 0 then none else levelAfter (level - 1) tokens
    else levelAfter level tokens

/-- The input of the four lines `a`, two tabs `b`, one tab `c` and two tabs `d`. -/
def stairs : String :=
  String.mk ['a', charNewline, charTab, charTab, 'b', charNewline, charTab, 'c', charNewline,
    charTab, charTab, 'd', charNewline]

/-! ## What validation changes in a tree -/

/-- The value of a Negate node over a Literal that holds the integer `v`, and the value of
the Literal that holds the negated integer. -/
def isFoldedNegation : ExpressionValue → ExpressionValue → Bool
  | .ExpressionChildren [.mk .LITERAL _ (.int64_t v)], .int64_t folded =>
    folded == negateInt64 v
  | _, _ => false

mutual
/-- The second expression is the first one with other types in the type slots and with
Negate nodes over an integer Literal replaced by the Literal of the negated integer: the
kind, the payload and the number and the order of the children of every other node are the
same. -/
def Expression.annotates : Expression → Expression → Bool
  | .mk kind _ value, .mk kind' _ value' =>
    (kind == kind' && ExpressionValue.annotates value value') ||
      (kind == .NEGATE && kind' == .LITERAL && isFoldedNegation value value')
/-- The second value is the first one: the same payload, or children that are related one
by one. -/
def ExpressionValue.annotates : ExpressionValue → ExpressionValue → Bool
  | .ExpressionChildren children, .ExpressionChildren children' =>
    Expression.annotatesList children children'
  | .monostate, .monostate => true
  | .int64_t v, .int64_t v' => v == v'
  | .uint64_t v, .uint64_t v' => v == v'
  | .string v, .string v' => v == v'
  | .char v, .char v' => v == v'
  | .bool v, .bool v' => v == v'
  | _, _ => false
/-- The two lists have the same length and their expressions are related one by one. -/
def Expression.annotatesList : List Expression → List Expression → Bool
  | [], [] => true
  | c :: rest, c' :: rest' =>
    Expression.annotates c c' && Expression.annotatesList rest rest'
  | _, _ => false
end

/-- Whatever state the expression is validated in, the result is the expression with types
filled in and negations folded. -/
def Faithful (c : Expression) : Prop :=
  ∀ (self s : Validator) (e : Expression), self.ValidateExpression c = .ok (s, e) →
    Expression.annotates c e = true

/-- The function `function f(x: i64) -> i64:` with body `var y: i64 = x + -5` and
`return y`, as the parser builds it. -/
def negatedSummand : Function :=
  { prototype := { name := "f", arguments := [{ name := "x", type := i64 }], returnType := i64 }
    body := node .SCOPE [
      varDeclaration "y" i64 (node .PLUS_OP [variableRef "x", node .NEGATE [intLiteral 5]]),
      node .RETURN [variableRef "y"]] }

/-- The body of `negatedSummand` after validation: the types are filled in and the Negate
is the Literal -5. -/
def negatedSummand_validated : Expression :=
  node .SCOPE [
    .mk .VARIABLE_DECLARATION (some i64) (.ExpressionChildren
      [.mk .VARIABLE (some i64) (.string "y"),
       .mk .PLUS_OP (some i64) (.ExpressionChildren
        [.mk .VARIABLE (some i64) (.string "x"), intLiteral (-5)])]),
    .mk .RETURN (some i64) (.ExpressionChildren [.mk .VARIABLE (some i64) (.string "y")])]

/-! ## The shape of the trees that the parser builds -/

/-- A node as validation expects to find it where it visits one: a Variable has no type yet
and holds its name. -/
def Expression.isFresh : Expression → Bool
  | .mk .VARIABLE type value => !type.isSome && value.holdsString
  | _ => true

/-- The children of a Conditional behind the first condition and its body: conditions, each
followed by a Scope, and at the end possibly one more Scope, the body of `else`. -/
def branchesShaped : List Expression → Bool
  | [] => true
  | [elseBody] => elseBody.kind == .SCOPE
  | condition :: body :: rest =>
    condition.isFresh && body.kind == .SCOPE && branchesShaped rest

/-- The shape of the children of a node of kind `kind`, for the kinds that have
children. -/
def childrenShaped (kind : ExpressionKind) (type : Option Ty) (children : List Expression) :
    Bool :=
  match kind with
  | .SCOPE => !type.isSome && children.all Expression.isFresh
  | .RETURN => decide (children.length ≤ 1) && children.all Expression.isFresh
  | .VARIABLE_DECLARATION =>
    match children with
    | [first, init] => first.kind == .VARIABLE && first.type.isSome && init.isFresh
    | _ => false
  | .CONDITIONAL =>
    match children with
    | condition :: body :: rest =>
      condition.isFresh && body.kind == .SCOPE && branchesShaped rest
    | _ => false
  | .FOR_LOOP =>
    match children with
    | [init, condition, post, body] =>
      init.isFresh && condition.isFresh && post.isFresh && body.kind == .SCOPE
    | _ => false
  | .FUNCTION_CALL =>
    match children with
    | first :: arguments => first.kind == .CALLEE && arguments.all Expression.isFresh
    | _ => false
  | .MEMBER_ACCESS =>
    match children with
    | [target, _] => target.isFresh
    | _ => false
  | .POST_INC_OP | .POINTER_DEREFERENCE | .ADDRESS_OF | .NEGATE =>
    match children with
    | [operand] => operand.isFresh
    | _ => false
  | _ =>
    match children with
    | [LHS, RHS] => LHS.isFresh && RHS.isFresh
    | _ => false

/-- The shape of one node. A Literal has a type. A Scope has no type. An arithmetic, a
comparison, a logical, a VariableAssignment, an ArraySubscript and a MemberAccess node has
two children, a PostIncrement, a PointerDereference, an AddressOf and a Negate node one, a
Return at most one, a ForLoop four of which the last is a Scope; the first child of a
VariableDeclaration is a Variable with a type; the first child of a FunctionCall is a
Callee; a Conditional has a condition, a Scope and then `branchesShaped` children. The
children that validation visits are `isFresh`. -/
def shapeOf (kind : ExpressionKind) (type : Option Ty) (value : ExpressionValue) : Bool :=
  if kind = .LITERAL then type.isSome
  else if kind = .VARIABLE ∨ kind = .CALLEE ∨ kind = .CONTINUE ∨ kind = .BREAK then true
  else
    match value with
    | .ExpressionChildren children => childrenShaped kind type children
    | _ => false

mutual
/-- Every node of the expression has the shape `shapeOf`. -/
def Expression.shaped : Expression → Bool
  | .mk kind type value => shapeOf kind type value && ExpressionValue.shaped value
/-- Every node below the value has the shape `shapeOf`. -/
def ExpressionValue.shaped : ExpressionValue → Bool
  | .ExpressionChildren children => Expression.shapedList children
  | _ => true
/-- Every node of the expressions of the list has the shape `shapeOf`. -/
def Expression.shapedList : List Expression → Bool
  | [] => true
  | e :: rest => Expression.shaped e && Expression.shapedList rest
end

/-- The expression is `shaped` and `isFresh`: what every function of the parser returns. -/
def Expression.good (e : Expression) : Bool := e.shaped && e.isFresh

/-- The expressions of the list are `good`. -/
def goodList (list : List Expression) : Bool :=
  Expression.shapedList list && list.all Expression.isFresh

/-- Whenever the call `x` returns, what it returns has the property `P`. -/
structure Fueled.Builds {α : Type} (P : α → Prop) (x : Fueled α) : Prop where
  out : ∀ a, x = some (.ok a) → P a

/-- The messages of the checks that the validator makes of the shape of a tree: that a node
holds children, how many they are, which of them is a Scope, a Callee or a typed Variable,
that a Literal has a type and a Scope none, that a Variable and the index of a MemberAccess
hold a string. -/
def shapeMessages : List String :=
  ["Function body is not a scope",
   "Scope should not have a type",
   "Scope body is not a list of expressions",
   "Literal has no type",
   "Assignment does not contain expressions",
   "Assignment is not a pair of expressions",
   "Variable declaration does not contain expressions",
   "Variable declaration is not a pair of expressions",
   "Variable declaration LHS is not a variable",
   "Variable declaration has no type",
   "Return does not contain an expression",
   "Return contains more than 1 expression",
   "Conditional does not contain expressions",
   "Conditional requires at least 2 expressions",
   "True branch is not a scope",
   "Elif branch is not a scope",
   "Else branch is not a scope",
   "Arithmetic operation does not contain expressions",
   "Arithmetic operation is not a pair of expressions",
   "Comparison operation does not contain expressions",
   "Comparison operation is not a pair of expressions",
   "Logical operation does not contain expressions",
   "Logical operation is not a pair of expressions",
   "Post increment does not contain expressions",
   "Post increment contains more than one expression",
   "Pointer dereference does not contain expressions",
   "Pointer dereference contains more than one expression",
   "Array subscript does not contain expressions",
   "Array subscript is not a pair of expressions",
   "Function call does not contain expressions",
   "Call expression is empty",
   "Function call has no callee",
   "For loop does not contain expressions",
   "For loop requires 4 expressions",
   "For loop body is not a scope",
   "Negate does not contain expressions",
   "Negate contains more than one expression",
   "Address of does not contain expressions",
   "Address of contains more than one expression",
   "Member access does not contain expressions",
   "Member access is not a pair of expressions",
   "Member access index is not a string",
   "Aw snap!",
   "Variable is not a string"]

/-- The exception is the report, in the name of the function `name`, of a check of the
shape of a tree. -/
def ShapeFailure (name : String) (ex : Exception) : Prop :=
  ∃ message ∈ shapeMessages, ex = .invalid_argument (name ++ ": " ++ message)

/-- The report, in the name of the function `name`, of the check that `ValidateMemberAccess`
makes of the index of a MemberAccess. -/
def memberIndexReport (name : String) : Exception :=
  .invalid_argument (name ++ ": " ++ "Member access index is not a string")

/-- A computation of the validator in the name of `name` fails with no check of the shape
but the one of the index of a MemberAccess: a failure that is a `ShapeFailure` is the
`memberIndexReport`, and every successful result is a state whose current function has that
name. -/
structure Sound {α : Type} (name : String) (m : Except Exception (Validator × α)) : Prop where
  failure : ∀ ex, m = .error ex → ShapeFailure name ex → ex = memberIndexReport name
  success : ∀ (s : Validator) (a : α), m = .ok (s, a) → s._currentFunction.name = name

/-- The validation of the expression, when it is shaped and fresh, fails with no check of
the shape but the one of the index of a MemberAccess, whatever the state. -/
def Proper (c : Expression) : Prop :=
  c.shaped = true → c.isFresh = true →
    ∀ (self : Validator), Sound self._currentFunction.name (self.ValidateExpression c)

/-- The exception is none that carries a message. -/
def Exception.isLibrary : Exception → Bool
  | .invalid_argument _ => false
  | .runtime_error _ => false
  | _ => true

/-- The expression is a shaped Scope without type: what `ParseScope` returns. -/
def Expression.goodScope (e : Expression) : Bool :=
  e.shaped && e.kind == .SCOPE && !e.type.isSome

/-- The list is a row of pairs of a fresh condition and a Scope: what the loop of
`ParseConditional` over the `elif` branches returns. -/
def pairsShaped : List Expression → Bool
  | [] => true
  | [_] => false
  | condition :: body :: rest =>
    condition.isFresh && body.kind == .SCOPE && pairsShaped rest

/-- The expressions among the entries of the deque of `ParseUnary` are `good`. -/
def goodEntries : List (TokenType ⊕ Expression) → Bool
  | [] => true
  | .inl _ :: rest => goodEntries rest
  | .inr e :: rest => e.good && goodEntries rest

/-- Every function of the parser that returns with `fuel` returns shaped expressions. -/
structure Parser.Shapes (fuel : Nat) : Prop where
  ParseScope : ∀ (a : Parser),
    Fueled.Builds (fun r => r.1.goodScope = true) (Parser.ParseScope fuel a)
  ParseScopeLoop : ∀ (a : Parser),
    Fueled.Builds (fun r => goodList r.1 = true) (Parser.ParseScopeLoop fuel a)
  ParseReturn : ∀ (a : Parser),
    Fueled.Builds (fun r => r.1.good = true) (Parser.ParseReturn fuel a)
  ParseConditional : ∀ (a : Parser),
    Fueled.Builds (fun r => r.1.good = true) (Parser.ParseConditional fuel a)
  ParseConditionalLoop : ∀ (a : Parser),
    Fueled.Builds (fun r => Expression.shapedList r.1 = true ∧ pairsShaped r.1 = true)
      (Parser.ParseConditionalLoop fuel a)
  ParseForLoop : ∀ (a : Parser),
    Fueled.Builds (fun r => r.1.good = true) (Parser.ParseForLoop fuel a)
  ParseVariableDeclaration : ∀ (a : Parser),
    Fueled.Builds (fun r => r.1.good = true) (Parser.ParseVariableDeclaration fuel a)
  ParseIndent : ∀ (a : Parser),
    Fueled.Builds (fun r => r.1.good = true) (Parser.ParseIndent fuel a)
  ParseExpression : ∀ (a : Parser),
    Fueled.Builds (fun r => r.1.good = true) (Parser.ParseExpression fuel a)
  ParseExpressionRHS : ∀ (a : Expression) (b : Int) (c : Parser), a.good = true →
    Fueled.Builds (fun r => r.1.good = true) (Parser.ParseExpressionRHS fuel a b c)
  ParsePrimary : ∀ (a : Parser),
    Fueled.Builds (fun r => r.1.good = true) (Parser.ParsePrimary fuel a)
  ParseParenExpression : ∀ (a : Parser),
    Fueled.Builds (fun r => r.1.good = true) (Parser.ParseParenExpression fuel a)
  ParseIdentifier : ∀ (a : Parser),
    Fueled.Builds (fun r => r.1.good = true) (Parser.ParseIdentifier fuel a)
  ParseCallExpression : ∀ (a : String) (b : Parser),
    Fueled.Builds (fun r => r.1.good = true) (Parser.ParseCallExpression fuel a b)
  ParseCallExpressionLoop : ∀ (a : Parser),
    Fueled.Builds (fun r => goodList r.1 = true) (Parser.ParseCallExpressionLoop fuel a)
  ParseUnary : ∀ (a : Parser),
    Fueled.Builds (fun r => r.1.good = true) (Parser.ParseUnary fuel a)
  ParseUnaryLoop : ∀ (a : Parser),
    Fueled.Builds (fun r => goodEntries r.1 = true) (Parser.ParseUnaryLoop fuel a)
  ParseArrayLiteral : ∀ (a : Parser),
    Fueled.Builds (fun r => r.1.good = true) (Parser.ParseArrayLiteral fuel a)
  ParseArrayLiteralLoop : ∀ (a : Parser),
    Fueled.Builds (fun r => goodList r.1 = true) (Parser.ParseArrayLiteralLoop fuel a)
  ParseStructLiteral : ∀ (a : Parser),
    Fueled.Builds (fun r => r.1.good = true) (Parser.ParseStructLiteral fuel a)
  ParseStructLiteralLoop : ∀ (a : Parser),
    Fueled.Builds (fun r => goodList r.1 = true) (Parser.ParseStructLiteralLoop fuel a)

/-! ## Token lists that end with the one `EndOfFile` -/

/-- The exception stands for undefined behaviour: a read through `_currentToken` when it is
`_endToken`, or `front()` on an empty container. -/
def Exception.isUndefined : Exception → Bool
  | .undefined_behavior => true
  | _ => false

/-- A token as the tokenizer makes it in this respect: the lexeme of a character literal is
not the empty string. -/
def Token.sound (token : Token) : Bool :=
  token.type != .CharacterLiteral || token.value != some ""

/-- The last token of the list is an `EndOfFile` and no other token is; the tokens before it
are `sound`. -/
def wellFormed : List Token → Bool
  | [] => false
  | token :: rest =>
    if rest.isEmpty then token.type == .EndOfFile
    else token.type != .EndOfFile && token.sound && wellFormed rest

/-- The parser stands at a token of a well-formed list. -/
@[reducible]
def Parser.Ready (self : Parser) : Prop := wellFormed self.tokens = true

/-- The parser stands at a token that is not the `EndOfFile`, in a well-formed list. -/
def Parser.Inside (self : Parser) : Prop :=
  ∃ current rest, self.tokens = current :: rest ∧ current.type ≠ .EndOfFile ∧
    current.sound = true ∧ wellFormed rest = true

/-- The parser `s` stands in a well-formed list that is shorter than the one of `self`. -/
@[reducible]
def Parser.Shorter (self s : Parser) : Prop :=
  wellFormed s.tokens = true ∧ s.tokens.length < self.tokens.length

/-- The parser `s` stands in a well-formed list that is not longer than the one of
`self`. -/
@[reducible]
def Parser.NotLonger (self s : Parser) : Prop :=
  wellFormed s.tokens = true ∧ s.tokens.length ≤ self.tokens.length

/-- What a function without fuel returns has the property `Q`, and what it throws is not
undefined behaviour. -/
def Safe {α : Type} (Q : α → Prop) : Except Exception α → Prop
  | .ok a => Q a
  | .error e => e.isUndefined = false

/-- The call ends with the fuel it has: it returns something with the property `Q`, or it
throws an exception that is not undefined behaviour. -/
def Fueled.Ends {α : Type} (Q : α → Prop) (x : Fueled α) : Prop :=
  ∃ r, x = some r ∧ Safe Q r

/-- The entries that the second loop of `ParseUnary` puts into the deque: a `++` by itself,
a dot with the expression behind it, a bracket with the index and the closing token. -/
inductive Entries : List (TokenType ⊕ Expression) → Prop where
  | nil : Entries []
  | plain (op : TokenType) (rest : List (TokenType ⊕ Expression)) :
    op ≠ .LeftBracket → op ≠ .Dot → Entries rest → Entries (.inl op :: rest)
  | dot (field : Expression) (rest : List (TokenType ⊕ Expression)) :
    Entries rest → Entries (.inl .Dot :: .inr field :: rest)
  | bracket (index : Expression) (closing : TokenType)
    (rest : List (TokenType ⊕ Expression)) :
    Entries rest → Entries (.inl .LeftBracket :: .inr index :: .inl closing :: rest)

/-- With fuel of seven units for every token and the units of its rank, every function of
the parser ends when it is called in a well-formed list, on a token that is not the
`EndOfFile` where it advances without looking: it returns in a well-formed list, further on
where it has read a token, or throws an exception that is not undefined behaviour. -/
structure Parser.Total (fuel : Nat) : Prop where
  ParseScope : ∀ (self : Parser), self.Ready → 7 * self.tokens.length ≤ fuel →
    Fueled.Ends (fun r => self.Shorter r.2) (Parser.ParseScope fuel self)
  ParseScopeLoop : ∀ (self : Parser), self.Ready → 7 * self.tokens.length + 5 ≤ fuel →
    Fueled.Ends (fun r => self.NotLonger r.2) (Parser.ParseScopeLoop fuel self)
  ParseReturn : ∀ (self : Parser), self.Inside → 7 * self.tokens.length ≤ fuel →
    Fueled.Ends (fun r => self.Shorter r.2) (Parser.ParseReturn fuel self)
  ParseConditional : ∀ (self : Parser), self.Inside → 7 * self.tokens.length ≤ fuel →
    Fueled.Ends (fun r => self.Shorter r.2) (Parser.ParseConditional fuel self)
  ParseConditionalLoop : ∀ (self : Parser), self.Ready → 7 * self.tokens.length ≤ fuel →
    Fueled.Ends (fun r => self.NotLonger r.2) (Parser.ParseConditionalLoop fuel self)
  ParseForLoop : ∀ (self : Parser), self.Inside → 7 * self.tokens.length ≤ fuel →
    Fueled.Ends (fun r => self.Shorter r.2) (Parser.ParseForLoop fuel self)
  ParseVariableDeclaration : ∀ (self : Parser), self.Inside →
    7 * self.tokens.length ≤ fuel →
    Fueled.Ends (fun r => self.Shorter r.2) (Parser.ParseVariableDeclaration fuel self)
  ParseIndent : ∀ (self : Parser), self.Ready → 7 * self.tokens.length + 1 ≤ fuel →
    Fueled.Ends (fun r => self.Shorter r.2) (Parser.ParseIndent fuel self)
  ParseExpression : ∀ (self : Parser), self.Ready → 7 * self.tokens.length + 4 ≤ fuel →
    Fueled.Ends (fun r => self.Shorter r.2) (Parser.ParseExpression fuel self)
  ParseExpressionRHS : ∀ (LHS : Expression) (currentPrecedence : Int) (self : Parser),
    self.Ready → 0 ≤ currentPrecedence → 7 * self.tokens.length ≤ fuel →
    Fueled.Ends (fun r => self.NotLonger r.2)
      (Parser.ParseExpressionRHS fuel LHS currentPrecedence self)
  ParsePrimary : ∀ (self : Parser), self.Ready → 7 * self.tokens.length + 2 ≤ fuel →
    Fueled.Ends (fun r => self.Shorter r.2) (Parser.ParsePrimary fuel self)
  ParseParenExpression : ∀ (self : Parser), self.Inside → 7 * self.tokens.length ≤ fuel →
    Fueled.Ends (fun r => self.Shorter r.2) (Parser.ParseParenExpression fuel self)
  ParseIdentifier : ∀ (self : Parser), self.Inside → 7 * self.tokens.length + 1 ≤ fuel →
    Fueled.Ends (fun r => self.Shorter r.2) (Parser.ParseIdentifier fuel self)
  ParseCallExpression : ∀ (callee : String) (self : Parser), self.Inside →
    7 * self.tokens.length ≤ fuel →
    Fueled.Ends (fun r => self.Shorter r.2) (Parser.ParseCallExpression fuel callee self)
  ParseCallExpressionLoop : ∀ (self : Parser), self.Ready →
    7 * self.tokens.length + 5 ≤ fuel →
    Fueled.Ends (fun r => self.Shorter r.2) (Parser.ParseCallExpressionLoop fuel self)
  ParseUnary : ∀ (self : Parser), self.Ready → 7 * self.tokens.length + 3 ≤ fuel →
    Fueled.Ends (fun r => self.Shorter r.2) (Parser.ParseUnary fuel self)
  ParseUnaryLoop : ∀ (self : Parser), self.Ready → 7 * self.tokens.length ≤ fuel →
    Fueled.Ends (fun r => Entries r.1 ∧ wellFormed r.2.tokens = true ∧
        r.1.length + r.2.tokens.length ≤ self.tokens.length)
      (Parser.ParseUnaryLoop fuel self)
  ParseArrayLiteral : ∀ (self : Parser), self.Inside → 7 * self.tokens.length + 1 ≤ fuel →
    Fueled.Ends (fun r => self.Shorter r.2) (Parser.ParseArrayLiteral fuel self)
  ParseArrayLiteralLoop : ∀ (self : Parser), self.Inside → 7 * self.tokens.length ≤ fuel →
    Fueled.Ends (fun r => r.1 ≠ [] ∧ self.Shorter r.2) (Parser.ParseArrayLiteralLoop fuel self)
  ParseStructLiteral : ∀ (self : Parser), self.Inside → 7 * self.tokens.length + 1 ≤ fuel →
    Fueled.Ends (fun r => self.Shorter r.2) (Parser.ParseStructLiteral fuel self)
  ParseStructLiteralLoop : ∀ (self : Parser), self.Inside → 7 * self.tokens.length ≤ fuel →
    Fueled.Ends (fun r => self.Shorter r.2.2) (Parser.ParseStructLiteralLoop fuel self)

/-- The source text of `function f() -> i64:` with the body `return [x]`. -/
def returnsArrayOfVariable : String :=
  String.mk ("function f() -> i64:".toList ++ [charNewline, charTab] ++ "return [x]".toList ++
    [charNewline])

/-- The tokens of `function f() -> char:` with the body `return` and a character literal
whose lexeme is the empty string, which the tokenizer never makes. -/
def returnsEmptyCharacter : List Token :=
  [tokenOf .Function none, tokenOf .Identifier (some "f"), tokenOf .LeftParen none,
   tokenOf .RightParen none, tokenOf .RightArrow none, tokenOf .Identifier (some "char"),
   tokenOf .Colon none, tokenOf .EndOfLine none,
   tokenOf .IndentPlus none, tokenOf .Return none, tokenOf .CharacterLiteral (some ""),
   tokenOf .EndOfLine none, tokenOf .IndentMinus none, tokenOf .EndOfFile none]

/-- The tokens of `returnsArrayOfVariable`. -/
def arrayOfVariableTokens : List Token :=
  [{ file := "f", line := 1, type := .Function, value := none },
   { file := "f", line := 1, type := .Identifier, value := some "f" },
   { file := "f", line := 1, type := .LeftParen, value := none },
   { file := "f", line := 1, type := .RightParen, value := none },
   { file := "f", line := 1, type := .RightArrow, value := none },
   { file := "f", line := 1, type := .Identifier, value := some "i64" },
   { file := "f", line := 1, type := .Colon, value := none },
   { file := "f", line := 1, type := .EndOfLine, value := none },
   { file := "f", line := 2, type := .IndentPlus, value := none },
   { file := "f", line := 2, type := .Return, value := none },
   { file := "f", line := 2, type := .LeftBracket, value := none },
   { file := "f", line := 2, type := .Identifier, value := some "x" },
   { file := "f", line := 2, type := .RightBracket, value := none },
   { file := "f", line := 2, type := .EndOfLine, value := none },
   { file := "f", line := 2, type := .IndentMinus, value := none },
   { file := "f", line := 2, type := .EndOfFile, value := none }]


/-! ## Declarations and comparisons of mixed variants -/

/-- The function `function f(a: i64[1]) -> bool:` with body `return a == 1`, as the parser
builds it. -/
def comparesArray : Function :=
  { prototype := { name := "f", arguments := [{ name := "a", type := .Array i64 1 }],
                   returnType := bool }
    body := node .SCOPE [node .RETURN [node .EQUAL_OP [variableRef "a", intLiteral 1]]] }

/-- The function `function f() -> bool:` with body `return [[1]] == [1]`, as the parser
builds it. -/
def comparesNestedArray : Function :=
  { prototype := { name := "f", arguments := [], returnType := bool }
    body := node .SCOPE [node .RETURN [node .EQUAL_OP
      [.mk .LITERAL (some (.Array (.Array i64 1) 1)) (.ExpressionChildren
        [.mk .LITERAL (some (.Array i64 1)) (.ExpressionChildren [intLiteral 1])]),
       .mk .LITERAL (some (.Array i64 1)) (.ExpressionChildren [intLiteral 1])]]] }

/-! ## Comment lines behind tabs and the indentation level -/

/-- The input of the three lines `a`, two tabs and then `#`, and a tab and then `b`. -/
def deepComment : String :=
  String.mk ['a', charNewline, charTab, charTab, '#', charNewline, charTab, 'b', charNewline]

/-- The input of the two lines `a` and a tab and then `#`. -/
def trailingComment : String :=
  String.mk ['a', charNewline, charTab, '#', charNewline]

/-! ## Record literals -/

/-- The tokens of `{1, 2}`, with an opening brace, and the end of the line. -/
def recordLiteralTokens : List Token :=
  [tokenOf .LeftBrace none, tokenOf .I64Literal (some "1"), tokenOf .Comma none,
   tokenOf .I64Literal (some "2"), tokenOf .RightBrace none, tokenOf .EndOfLine none]

/-- The tokens of `{1, x}` and the end of the line. -/
def recordOfVariableTokens : List Token :=
  [tokenOf .LeftBrace none, tokenOf .I64Literal (some "1"), tokenOf .Comma none,
   tokenOf .Identifier (some "x"), tokenOf .RightBrace none, tokenOf .EndOfLine none]

/-! ## A chain of two member accesses -/

/-- The record type `T` with the one field `y` of the type `i64`. -/
def innerRecord : Ty := .Struct [.mk "y" i64]

/-- The record type `S` with the one field `x` of the type `T`. -/
def outerRecord : Ty := .Struct [.mk "x" innerRecord]

/-- The source text of the records `struct T:` with `y: i64` and `struct S:` with `x: T` and
of `function f(p: S) -> i64:` with the body `return p.x.y`. -/
def memberChainSource : String :=
  String.mk ("struct T:".toList ++ [charNewline, charTab] ++ "y: i64".toList ++
    [charNewline] ++ "struct S:".toList ++ [charNewline, charTab] ++ "x: T".toList ++
    [charNewline] ++ "function f(p: S) -> i64:".toList ++ [charNewline, charTab] ++
    "return p.x.y".toList ++ [charNewline])

/-- The tokens of `memberChainSource`. -/
def memberChainTokens : List Token :=
  [{ file := "f", line := 1, type := .Struct, value := none },
   { file := "f", line := 1, type := .Identifier, value := some "T" },
   { file := "f", line := 1, type := .Colon, value := none },
   { file := "f", line := 1, type := .EndOfLine, value := none },
   { file := "f", line := 2, type := .IndentPlus, value := none },
   { file := "f", line := 2, type := .Identifier, value := some "y" },
   { file := "f", line := 2, type := .Colon, value := none },
   { file := "f", line := 2, type := .Identifier, value := some "i64" },
   { file := "f", line := 2, type := .EndOfLine, value := none },
   { file := "f", line := 3, type := .IndentMinus, value := none },
   { file := "f", line := 3, type := .Struct, value := none },
   { file := "f", line := 3, type := .Identifier, value := some "S" },
   { file := "f", line := 3, type := .Colon, value := none },
   { file := "f", line := 3, type := .EndOfLine, value := none },
   { file := "f", line := 4, type := .IndentPlus, value := none },
   { file := "f", line := 4, type := .Identifier, value := some "x" },
   { file := "f", line := 4, type := .Colon, value := none },
   { file := "f", line := 4, type := .Identifier, value := some "T" },
   { file := "f", line := 4, type := .EndOfLine, value := none },
   { file := "f", line := 5, type := .IndentMinus, value := none },
   { file := "f", line := 5, type := .Function, value := none },
   { file := "f", line := 5, type := .Identifier, value := some "f" },
   { file := "f", line := 5, type := .LeftParen, value := none },
   { file := "f", line := 5, type := .Identifier, value := some "p" },
   { file := "f", line := 5, type := .Colon, value := none },
   { file := "f", line := 5, type := .Identifier, value := some "S" },
   { file := "f", line := 5, type := .RightParen, value := none },
   { file := "f", line := 5, type := .RightArrow, value := none },
   { file := "f", line := 5, type := .Identifier, value := some "i64" },
   { file := "f", line := 5, type := .Colon, value := none },
   { file := "f", line := 5, type := .EndOfLine, value := none },
   { file := "f", line := 6, type := .IndentPlus, value := none },
   { file := "f", line := 6, type := .Return, value := none },
   { file := "f", line := 6, type := .Identifier, value := some "p" },
   { file := "f", line := 6, type := .Dot, value := none },
   { file := "f", line := 6, type := .Identifier, value := some "x" },
   { file := "f", line := 6, type := .Dot, value := none },
   { file := "f", line := 6, type := .Identifier, value := some "y" },
   { file := "f", line := 6, type := .EndOfLine, value := none },
   { file := "f", line := 6, type := .IndentMinus, value := none },
   { file := "f", line := 6, type := .EndOfFile, value := none }]

/-- The function `function f(p: S) -> i64:` with the body `return p.x.y`, as the parser
builds it: the second child of the MemberAccess is the MemberAccess of `x` and `y`. -/
def memberChain : Function :=
  { prototype := { name := "f", arguments := [{ name := "p", type := outerRecord }],
                   returnType := i64 }
    body := node .SCOPE [node .RETURN [node .MEMBER_ACCESS
      [variableRef "p", node .MEMBER_ACCESS [variableRef "x", variableRef "y"]]]] }

/-- The function `memberChain` with the tree that the specification gives `p.x.y`: the
first child of the MemberAccess is the MemberAccess of `p` and `x`. -/
def memberChainLeft : Function :=
  { memberChain with
    body := node .SCOPE [node .RETURN [node .MEMBER_ACCESS
      [node .MEMBER_ACCESS [variableRef "p", variableRef "x"], variableRef "y"]]] }

/-! # Theorems -/

/-! ## Basic facts about the exception monad -/

theorem bind_eq_ok {α β : Type} (x : Except Exception α) (f : α → Except Exception β) (b : β) :
    (x >>= f) = .ok b ↔ ∃ a, x = .ok a ∧ f a = .ok b := by
  cases x <;> simp [bind, Except.bind]

theorem pure_eq_ok {α : Type} (a b : α) : (pure a : Except Exception α) = .ok b ↔ a = b := by
  simp [pure, Except.pure]

theorem VERIFY_eq_ok (self : Validator) (condition : Bool) (message : String) (u : Unit) :
    self.VERIFY condition message = .ok u ↔ condition = true := by
  unfold Validator.VERIFY
  split <;> simp_all

theorem optional_value_eq_ok {α : Type} (o : Option α) (a : α) :
    optional_value o = .ok a ↔ o = some a := by
  cases o <;> simp [optional_value]

/-- Structural induction over expressions: a property holds of every
expression when it passes from the children of a node to the node. -/
theorem Expression.induction {P : Expression → Prop}
    (step : ∀ kind type value, (∀ c ∈ ExpressionValue.children value, P c) →
      P (.mk kind type value)) :
    ∀ e, P e := by
  intro e
  refine @Expression.rec P (fun v => ∀ c ∈ ExpressionValue.children v, P c)
    (fun l => ∀ c ∈ l, P c) ?_ ?_ ?_ ?_ ?_ ?_ ?_ ?_ ?_ ?_ e
  · intro kind type value ih
    exact step kind type value ih
  · intro c hc; simp [ExpressionValue.children] at hc
  · intro children ih c hc
    exact ih c (by simpa [ExpressionValue.children] using hc)
  · intro _ c hc; simp [ExpressionValue.children] at hc
  · intro _ c hc; simp [ExpressionValue.children] at hc
  · intro _ c hc; simp [ExpressionValue.children] at hc
  · intro _ c hc; simp [ExpressionValue.children] at hc
  · intro _ c hc; simp [ExpressionValue.children] at hc
  · intro c hc; simp at hc
  · intro head tail ihh iht c hc
    rcases List.mem_cons.mp hc with rfl | h
    · exact ihh
    · exact iht c h


/-! ## The frame property of validation

A successful validation of any expression keeps the current function, the
function table, the depth of the scope stack and all scopes but the innermost
one; a successful `ValidateScope` gives back the state it started in. -/

theorem Keeps_error {α : Type} (self : Validator) (e : Exception) :
    Keeps self (Except.error e : Except Exception (Validator × α)) := by
  intro s a h; cases h

theorem Keeps_pure {α : Type} (self s1 : Validator) (a : α) (h : s1.outer = self.outer) :
    Keeps self (Pure.pure (s1, a) : Except Exception (Validator × α)) := by
  intro s b hb
  simp only [pure_eq_ok, Prod.mk.injEq] at hb
  rw [← hb.1, h]

theorem Keeps_ok {α : Type} (self s1 : Validator) (a : α) (h : s1.outer = self.outer) :
    Keeps self (Except.ok (s1, a) : Except Exception (Validator × α)) :=
  Keeps_pure self s1 a h

theorem Keeps_bind_plain {α β : Type} (self : Validator) (x : Except Exception β)
    (f : β → Except Exception (Validator × α)) (h : ∀ b, Keeps self (f b)) :
    Keeps self (x >>= f) := by
  intro s a hs
  obtain ⟨b, -, hb⟩ := (bind_eq_ok x f (s, a)).mp hs
  exact h b s a hb

theorem Keeps_bind_VERIFY {α : Type} (self s1 : Validator) (condition : Bool) (message : String)
    (f : Unit → Except Exception (Validator × α)) (h : condition = true → Keeps self (f ())) :
    Keeps self (s1.VERIFY condition message >>= f) := by
  intro s a hs
  obtain ⟨u, hu, hb⟩ := (bind_eq_ok _ f (s, a)).mp hs
  exact h ((VERIFY_eq_ok _ _ _ _).mp hu) s a hb

theorem Keeps_bind_state {α β : Type} (self : Validator)
    (m : Except Exception (Validator × β)) (f : Validator × β → Except Exception (Validator × α))
    (hm : Keeps self m) (h : ∀ s1 b, s1.outer = self.outer → Keeps self (f (s1, b))) :
    Keeps self (m >>= f) := by
  intro s a hs
  obtain ⟨⟨s1, b⟩, h1, hb⟩ := (bind_eq_ok m f (s, a)).mp hs
  exact h s1 b (hm s1 b h1) s a hb

theorem Framed_keeps (c : Expression) (hc : Framed c) (self s1 : Validator)
    (h : s1.outer = self.outer) : Keeps self (s1.ValidateExpression c) := by
  intro s a hs
  rw [(hc s1 s a hs).1, h]

theorem Framed_keeps_scope (kind : ExpressionKind) (type : Option Ty) (value : ExpressionValue)
    (hc : Framed (.mk kind type value)) (hk : (kind == .SCOPE) = true) (self s1 : Validator)
    (h : s1.outer = self.outer) : Keeps self (s1.ValidateScope kind type value) := by
  have hk' : kind = .SCOPE := by simpa using hk
  subst hk'
  rw [← Validator.ValidateExpression.eq_1]
  exact Framed_keeps _ hc self s1 h

theorem assignInBackScope_outer (self s : Validator) (name : String) (type : Ty)
    (h : self.assignInBackScope name type = .ok s) : s.outer = self.outer := by
  unfold Validator.assignInBackScope at h
  split at h
  · cases h
  · rename_i back hb
    have hne : self._scopes ≠ [] := by
      intro hnil
      rw [hnil] at hb
      simp at hb
    have hlen : 0 < self._scopes.length := List.length_pos.mpr hne
    injection h with h
    subst h
    simp only [Validator.outer, List.dropLast_concat, List.length_append, List.length_dropLast,
      List.length_singleton]
    congr 3
    omega

theorem Keeps_bind_assign {α : Type} (self s1 : Validator) (name : String) (type : Ty)
    (f : Validator → Except Exception (Validator × α)) (h1 : s1.outer = self.outer)
    (h : ∀ s2, s2.outer = self.outer → Keeps self (f s2)) :
    Keeps self (s1.assignInBackScope name type >>= f) := by
  intro s a hs
  obtain ⟨s2, h2, hb⟩ := (bind_eq_ok _ f (s, a)).mp hs
  exact h s2 ((assignInBackScope_outer s1 s2 name type h2).trans h1) s a hb

theorem ValidateScopeLoop_keeps (l : List Expression) (ih : ∀ c ∈ l, Framed c) :
    ∀ (self s1 : Validator), s1.outer = self.outer → Keeps self (s1.ValidateScopeLoop l) := by
  induction l with
  | nil =>
    intro self s1 h
    rw [Validator.ValidateScopeLoop]
    exact Keeps_ok self s1 _ h
  | cons c rest ihl =>
    intro self s1 h
    rw [Validator.ValidateScopeLoop]
    apply Keeps_bind_state _ _ _ (Framed_keeps c (ih c (List.mem_cons_self _ _)) self s1 h)
    intro s2 c' h2
    apply Keeps_bind_state _ _ _ (ihl (fun d hd => ih d (List.mem_cons_of_mem _ hd)) self s2 h2)
    intro s3 r' h3
    exact Keeps_pure self s3 _ h3

theorem ValidateScope_restores (self s : Validator) (kind : ExpressionKind) (type : Option Ty)
    (value : ExpressionValue) (e : Expression)
    (ih : ∀ c ∈ ExpressionValue.children value, Framed c)
    (h : self.ValidateScope kind type value = .ok (s, e)) : s = self := by
  unfold Validator.ValidateScope at h
  split at h
  · rename_i children
    simp only [bind_eq_ok, pure_eq_ok, VERIFY_eq_ok, Prod.mk.injEq, exists_and_left,
      exists_const] at h
    obtain ⟨-, ⟨inner, children'⟩, hloop, hs, -⟩ := h
    have hk := ValidateScopeLoop_keeps children ih
      { self with _scopes := self._scopes ++ [{ vars := [] }] }
      { self with _scopes := self._scopes ++ [{ vars := [] }] } rfl inner children' hloop
    simp only [Validator.outer, List.dropLast_concat, Prod.mk.injEq] at hk
    rw [← hs]
    obtain ⟨h1, h2, h3, -⟩ := hk
    cases self
    simp_all
  · simp only [bind_eq_ok, VERIFY_eq_ok, exists_and_left, exists_const] at h
    simp at h


theorem list_two_step {α : Type} {P : List α → Prop} (h0 : P []) (h1 : ∀ a, P [a])
    (h2 : ∀ a b l, P l → P (a :: b :: l)) : ∀ l, P l := by
  have both : ∀ l, P l ∧ ∀ a, P (a :: l) := by
    intro l
    induction l with
    | nil => exact ⟨h0, h1⟩
    | cons b l ih => exact ⟨ih.2 b, fun a => h2 a b l ih.1⟩
  exact fun l => (both l).1

theorem ValidateConditionalLoop_keeps (l : List Expression) :
    (∀ c ∈ l, Framed c) →
    ∀ (self s1 : Validator), s1.outer = self.outer →
      Keeps self (s1.ValidateConditionalLoop l) := by
  induction l using list_two_step with
  | h0 =>
    intro _ self s1 h
    rw [Validator.ValidateConditionalLoop]
    exact Keeps_ok self s1 _ h
  | h1 c =>
    intro ih self s1 h
    obtain ⟨k, t, v⟩ := c
    rw [Validator.ValidateConditionalLoop]
    apply Keeps_bind_VERIFY
    intro hk
    apply Keeps_bind_state _ _ _
      (Framed_keeps_scope k t v (ih _ (List.mem_singleton_self _)) hk self s1 h)
    intro s2 b h2
    exact Keeps_pure self s2 _ h2
  | h2 c d rest ihl =>
    intro ih self s1 h
    obtain ⟨k, t, v⟩ := d
    rw [Validator.ValidateConditionalLoop]
    apply Keeps_bind_state _ _ _ (Framed_keeps c (ih c (List.mem_cons_self _ _)) self s1 h)
    intro s2 c' h2
    apply Keeps_bind_VERIFY; intro _
    apply Keeps_bind_plain; intro _
    apply Keeps_bind_VERIFY; intro _
    apply Keeps_bind_VERIFY; intro hk
    apply Keeps_bind_state _ _ _
      (Framed_keeps_scope k t v (ih _ (by simp)) hk self s2 h2)
    intro s3 b h3
    apply Keeps_bind_state _ _ _
      (ihl (fun x hx => ih x (by simp [hx])) self s3 h3)
    intro s4 r h4
    exact Keeps_pure self s4 _ h4

theorem ValidateFunctionCallLoop_keeps (l : List Expression) (ih : ∀ c ∈ l, Framed c) :
    ∀ (parameters : List FunctionArgument) (self s1 : Validator), s1.outer = self.outer →
      Keeps self (s1.ValidateFunctionCallLoop parameters l) := by
  induction l with
  | nil =>
    intro parameters self s1 h
    cases parameters with
    | nil => rw [Validator.ValidateFunctionCallLoop]; exact Keeps_ok self s1 _ h
    | cons p ps => rw [Validator.ValidateFunctionCallLoop]; exact Keeps_error self _
  | cons c rest ihl =>
    intro parameters self s1 h
    cases parameters with
    | nil => rw [Validator.ValidateFunctionCallLoop]; exact Keeps_ok self s1 _ h
    | cons p ps =>
      rw [Validator.ValidateFunctionCallLoop]
      apply Keeps_bind_state _ _ _ (Framed_keeps c (ih c (List.mem_cons_self _ _)) self s1 h)
      intro s2 c' h2
      apply Keeps_bind_VERIFY; intro _
      apply Keeps_bind_plain; intro _
      apply Keeps_bind_plain; intro _
      apply Keeps_bind_VERIFY; intro _
      apply Keeps_bind_state _ _ _
        (ihl (fun d hd => ih d (List.mem_cons_of_mem _ hd)) ps self s2 h2)
      intro s3 r h3
      exact Keeps_pure self s3 _ h3

theorem ValidateVariableAssignment_keeps (self : Validator) (kind : ExpressionKind) (type : Option Ty)
    (value : ExpressionValue) (ih : ∀ c ∈ ExpressionValue.children value, Framed c) :
    Keeps self (self.ValidateVariableAssignment kind type value) := by
  have hself : self.outer = self.outer := rfl
  unfold Validator.ValidateVariableAssignment
  split <;>
    (try simp only [ExpressionValue.children, List.mem_cons, List.mem_singleton,
      forall_eq_or_imp, forall_eq, List.not_mem_nil, false_imp_iff, implies_true,
      and_true] at ih) <;>
    repeat (first
      | apply Keeps_error
      | (apply Keeps_pure; assumption)
      | (apply Keeps_bind_state _ _ _
          (Framed_keeps _ (by simp only [ih]) _ _ (by assumption)); intro _ _ _)
      | (apply Keeps_bind_VERIFY; intro _)
      | (apply Keeps_bind_plain; intro _)
      | split)

theorem ValidateVariableDeclaration_keeps (self : Validator) (kind : ExpressionKind) (type : Option Ty)
    (value : ExpressionValue) (ih : ∀ c ∈ ExpressionValue.children value, Framed c) :
    Keeps self (self.ValidateVariableDeclaration kind type value) := by
  have hself : self.outer = self.outer := rfl
  unfold Validator.ValidateVariableDeclaration
  split <;>
    (try simp only [ExpressionValue.children, List.mem_cons, List.mem_singleton,
      forall_eq_or_imp, forall_eq, List.not_mem_nil, false_imp_iff, implies_true,
      and_true] at ih) <;>
    repeat (first
      | apply Keeps_error
      | (apply Keeps_pure; assumption)
      | (apply Keeps_bind_state _ _ _
          (Framed_keeps _ (by simp only [ih]) _ _ (by assumption)); intro _ _ _)
      | (apply Keeps_bind_assign _ _ _ _ _ (by assumption); intro _ _)
      | (apply Keeps_bind_VERIFY; intro _)
      | (apply Keeps_bind_plain; intro _)
      | split)

theorem ValidateReturn_keeps (self : Validator) (kind : ExpressionKind) (type : Option Ty)
    (value : ExpressionValue) (ih : ∀ c ∈ ExpressionValue.children value, Framed c) :
    Keeps self (self.ValidateReturn kind type value) := by
  have hself : self.outer = self.outer := rfl
  unfold Validator.ValidateReturn
  split <;>
    (try simp only [ExpressionValue.children, List.mem_cons, List.mem_singleton,
      forall_eq_or_imp, forall_eq, List.not_mem_nil, false_imp_iff, implies_true,
      and_true] at ih) <;>
    repeat (first
      | apply Keeps_error
      | (apply Keeps_pure; assumption)
      | (apply Keeps_bind_state _ _ _
          (Framed_keeps _ (by simp only [ih]) _ _ (by assumption)); intro _ _ _)
      | (apply Keeps_bind_VERIFY; intro _)
      | (apply Keeps_bind_plain; intro _)
      | split)

theorem ValidateConditional_keeps (self : Validator) (kind : ExpressionKind) (type : Option Ty)
    (value : ExpressionValue) (ih : ∀ c ∈ ExpressionValue.children value, Framed c) :
    Keeps self (self.ValidateConditional kind type value) := by
  have hself : self.outer = self.outer := rfl
  unfold Validator.ValidateConditional
  split <;>
    (try simp only [ExpressionValue.children, List.mem_cons, List.mem_singleton,
      forall_eq_or_imp, forall_eq, List.not_mem_nil, false_imp_iff, implies_true,
      and_true] at ih) <;>
    repeat (first
      | apply Keeps_error
      | (apply Keeps_pure; assumption)
      | (apply Keeps_bind_state _ _ _
          (Framed_keeps _ (by simp only [ih]) _ _ (by assumption)); intro _ _ _)
      | (apply Keeps_bind_VERIFY _ _ _ _ _; intro hk
         apply Keeps_bind_state _ _ _
          (Framed_keeps_scope _ _ _ (by simp only [ih]) hk _ _ (by assumption)); intro _ _ _)
      | (apply Keeps_bind_state _ _ _
          (ValidateConditionalLoop_keeps _ ih.2.2 _ _ (by assumption)); intro _ _ _)
      | (apply Keeps_bind_VERIFY; intro _)
      | (apply Keeps_bind_plain; intro _)
      | split)

theorem ValidateArithmetic_keeps (self : Validator) (kind : ExpressionKind) (type : Option Ty)
    (value : ExpressionValue) (ih : ∀ c ∈ ExpressionValue.children value, Framed c) :
    Keeps self (self.ValidateArithmetic kind type value) := by
  have hself : self.outer = self.outer := rfl
  unfold Validator.ValidateArithmetic
  split <;>
    (try simp only [ExpressionValue.children, List.mem_cons, List.mem_singleton,
      forall_eq_or_imp, forall_eq, List.not_mem_nil, false_imp_iff, implies_true,
      and_true] at ih) <;>
    repeat (first
      | apply Keeps_error
      | (apply Keeps_pure; assumption)
      | (apply Keeps_bind_state _ _ _
          (Framed_keeps _ (by simp only [ih]) _ _ (by assumption)); intro _ _ _)
      | (apply Keeps_bind_VERIFY; intro _)
      | (apply Keeps_bind_plain; intro _)
      | split)

theorem ValidateComparison_keeps (self : Validator) (kind : ExpressionKind) (type : Option Ty)
    (value : ExpressionValue) (ih : ∀ c ∈ ExpressionValue.children value, Framed c) :
    Keeps self (self.ValidateComparison kind type value) := by
  have hself : self.outer = self.outer := rfl
  unfold Validator.ValidateComparison
  split <;>
    (try simp only [ExpressionValue.children, List.mem_cons, List.mem_singleton,
      forall_eq_or_imp, forall_eq, List.not_mem_nil, false_imp_iff, implies_true,
      and_true] at ih) <;>
    repeat (first
      | apply Keeps_error
      | (apply Keeps_pure; assumption)
      | (apply Keeps_bind_state _ _ _
          (Framed_keeps _ (by simp only [ih]) _ _ (by assumption)); intro _ _ _)
      | (apply Keeps_bind_VERIFY; intro _)
      | (apply Keeps_bind_plain; intro _)
      | split)

theorem ValidateLogical_keeps (self : Validator) (kind : ExpressionKind) (type : Option Ty)
    (value : ExpressionValue) (ih : ∀ c ∈ ExpressionValue.children value, Framed c) :
    Keeps self (self.ValidateLogical kind type value) := by
  have hself : self.outer = self.outer := rfl
  unfold Validator.ValidateLogical
  split <;>
    (try simp only [ExpressionValue.children, List.mem_cons, List.mem_singleton,
      forall_eq_or_imp, forall_eq, List.not_mem_nil, false_imp_iff, implies_true,
      and_true] at ih) <;>
    repeat (first
      | apply Keeps_error
      | (apply Keeps_pure; assumption)
      | (apply Keeps_bind_state _ _ _
          (Framed_keeps _ (by simp only [ih]) _ _ (by assumption)); intro _ _ _)
      | (apply Keeps_bind_VERIFY; intro _)
      | (apply Keeps_bind_plain; intro _)
      | split)

theorem ValidatePostInc_keeps (self : Validator) (kind : ExpressionKind) (type : Option Ty)
    (value : ExpressionValue) (ih : ∀ c ∈ ExpressionValue.children value, Framed c) :
    Keeps self (self.ValidatePostInc kind type value) := by
  have hself : self.outer = self.outer := rfl
  unfold Validator.ValidatePostInc
  split <;>
    (try simp only [ExpressionValue.children, List.mem_cons, List.mem_singleton,
      forall_eq_or_imp, forall_eq, List.not_mem_nil, false_imp_iff, implies_true,
      and_true] at ih) <;>
    repeat (first
      | apply Keeps_error
      | (apply Keeps_pure; assumption)
      | (apply Keeps_bind_state _ _ _
          (Framed_keeps _ (by simp only [ih]) _ _ (by assumption)); intro _ _ _)
      | (apply Keeps_bind_VERIFY; intro _)
      | (apply Keeps_bind_plain; intro _)
      | split)

theorem ValidatePointerDereference_keeps (self : Validator) (kind : ExpressionKind) (type : Option Ty)
    (value : ExpressionValue) (ih : ∀ c ∈ ExpressionValue.children value, Framed c) :
    Keeps self (self.ValidatePointerDereference kind type value) := by
  have hself : self.outer = self.outer := rfl
  unfold Validator.ValidatePointerDereference
  split <;>
    (try simp only [ExpressionValue.children, List.mem_cons, List.mem_singleton,
      forall_eq_or_imp, forall_eq, List.not_mem_nil, false_imp_iff, implies_true,
      and_true] at ih) <;>
    repeat (first
      | apply Keeps_error
      | (apply Keeps_pure; assumption)
      | (apply Keeps_bind_state _ _ _
          (Framed_keeps _ (by simp only [ih]) _ _ (by assumption)); intro _ _ _)
      | (apply Keeps_bind_VERIFY; intro _)
      | (apply Keeps_bind_plain; intro _)
      | split)

theorem ValidateArraySubscript_keeps (self : Validator) (kind : ExpressionKind) (type : Option Ty)
    (value : ExpressionValue) (ih : ∀ c ∈ ExpressionValue.children value, Framed c) :
    Keeps self (self.ValidateArraySubscript kind type value) := by
  have hself : self.outer = self.outer := rfl
  unfold Validator.ValidateArraySubscript
  split <;>
    (try simp only [ExpressionValue.children, List.mem_cons, List.mem_singleton,
      forall_eq_or_imp, forall_eq, List.not_mem_nil, false_imp_iff, implies_true,
      and_true] at ih) <;>
    repeat (first
      | apply Keeps_error
      | (apply Keeps_pure; assumption)
      | (apply Keeps_bind_state _ _ _
          (Framed_keeps _ (by simp only [ih]) _ _ (by assumption)); intro _ _ _)
      | (apply Keeps_bind_VERIFY; intro _)
      | (apply Keeps_bind_plain; intro _)
      | split)

theorem ValidateFunctionCall_keeps (self : Validator) (kind : ExpressionKind) (type : Option Ty)
    (value : ExpressionValue) (ih : ∀ c ∈ ExpressionValue.children value, Framed c) :
    Keeps self (self.ValidateFunctionCall kind type value) := by
  have hself : self.outer = self.outer := rfl
  unfold Validator.ValidateFunctionCall
  split <;>
    (try simp only [ExpressionValue.children, List.mem_cons, List.mem_singleton,
      forall_eq_or_imp, forall_eq, List.not_mem_nil, false_imp_iff, implies_true,
      and_true] at ih) <;>
    repeat (first
      | apply Keeps_error
      | (apply Keeps_pure; assumption)
      | (apply Keeps_bind_state _ _ _
          (Framed_keeps _ (by simp only [ih]) _ _ (by assumption)); intro _ _ _)
      | (apply Keeps_bind_state _ _ _
          (ValidateFunctionCallLoop_keeps _ ih.2 _ _ _ (by assumption)); intro _ _ _)
      | (apply Keeps_bind_VERIFY; intro _)
      | (apply Keeps_bind_plain; intro _)
      | split)

theorem ValidateForLoop_keeps (self : Validator) (kind : ExpressionKind) (type : Option Ty)
    (value : ExpressionValue) (ih : ∀ c ∈ ExpressionValue.children value, Framed c) :
    Keeps self (self.ValidateForLoop kind type value) := by
  have hself : self.outer = self.outer := rfl
  unfold Validator.ValidateForLoop
  split <;>
    (try simp only [ExpressionValue.children, List.mem_cons, List.mem_singleton,
      forall_eq_or_imp, forall_eq, List.not_mem_nil, false_imp_iff, implies_true,
      and_true] at ih) <;>
    repeat (first
      | apply Keeps_error
      | (apply Keeps_pure; assumption)
      | (apply Keeps_bind_state _ _ _
          (Framed_keeps _ (by simp only [ih]) _ _ (by assumption)); intro _ _ _)
      | (apply Keeps_bind_VERIFY; intro _)
      | (apply Keeps_bind_plain; intro _)
      | split)

theorem ValidateNegate_keeps (self : Validator) (kind : ExpressionKind) (type : Option Ty)
    (value : ExpressionValue) (ih : ∀ c ∈ ExpressionValue.children value, Framed c) :
    Keeps self (self.ValidateNegate kind type value) := by
  have hself : self.outer = self.outer := rfl
  unfold Validator.ValidateNegate
  split <;>
    (try simp only [ExpressionValue.children, List.mem_cons, List.mem_singleton,
      forall_eq_or_imp, forall_eq, List.not_mem_nil, false_imp_iff, implies_true,
      and_true] at ih) <;>
    repeat (first
      | apply Keeps_error
      | (apply Keeps_pure; assumption)
      | (apply Keeps_bind_state _ _ _
          (Framed_keeps _ (by simp only [ih]) _ _ (by assumption)); intro _ _ _)
      | (apply Keeps_bind_VERIFY; intro _)
      | (apply Keeps_bind_plain; intro _)
      | split)

theorem ValidateAddressOf_keeps (self : Validator) (kind : ExpressionKind) (type : Option Ty)
    (value : ExpressionValue) (ih : ∀ c ∈ ExpressionValue.children value, Framed c) :
    Keeps self (self.ValidateAddressOf kind type value) := by
  have hself : self.outer = self.outer := rfl
  unfold Validator.ValidateAddressOf
  split <;>
    (try simp only [ExpressionValue.children, List.mem_cons, List.mem_singleton,
      forall_eq_or_imp, forall_eq, List.not_mem_nil, false_imp_iff, implies_true,
      and_true] at ih) <;>
    repeat (first
      | apply Keeps_error
      | (apply Keeps_pure; assumption)
      | (apply Keeps_bind_state _ _ _
          (Framed_keeps _ (by simp only [ih]) _ _ (by assumption)); intro _ _ _)
      | (apply Keeps_bind_VERIFY; intro _)
      | (apply Keeps_bind_plain; intro _)
      | split)

theorem ValidateMemberAccess_keeps (self : Validator) (kind : ExpressionKind) (type : Option Ty)
    (value : ExpressionValue) (ih : ∀ c ∈ ExpressionValue.children value, Framed c) :
    Keeps self (self.ValidateMemberAccess kind type value) := by
  have hself : self.outer = self.outer := rfl
  unfold Validator.ValidateMemberAccess
  split <;>
    (try simp only [ExpressionValue.children, List.mem_cons, List.mem_singleton,
      forall_eq_or_imp, forall_eq, List.not_mem_nil, false_imp_iff, implies_true,
      and_true] at ih) <;>
    repeat (first
      | apply Keeps_error
      | (apply Keeps_pure; assumption)
      | (apply Keeps_bind_state _ _ _
          (Framed_keeps _ (by simp only [ih]) _ _ (by assumption)); intro _ _ _)
      | (apply Keeps_bind_VERIFY; intro _)
      | (apply Keeps_bind_plain; intro _)
      | split)

theorem ValidateLiteral_keeps (self : Validator) (expression : Expression) :
    Keeps self (self.ValidateLiteral expression) := by
  unfold Validator.ValidateLiteral
  apply Keeps_bind_VERIFY; intro _
  exact Keeps_pure self self _ rfl

theorem ValidateVariable_keeps (self : Validator) (expression : Expression) :
    Keeps self (self.ValidateVariable expression) := by
  unfold Validator.ValidateVariable
  repeat (first
    | (apply Keeps_pure; rfl)
    | (apply Keeps_bind_VERIFY; intro _)
    | (apply Keeps_bind_plain; intro _))

theorem ValidateExpression_keeps (self : Validator) (kind : ExpressionKind) (type : Option Ty)
    (value : ExpressionValue) (ih : ∀ c ∈ ExpressionValue.children value, Framed c) :
    Keeps self (self.ValidateExpression (.mk kind type value)) := by
  cases kind <;> rw [Validator.ValidateExpression]
  case SCOPE =>
    intro s a h
    rw [ValidateScope_restores _ _ _ _ _ _ ih h]
  case LITERAL => exact ValidateLiteral_keeps _ _
  case VARIABLE => exact ValidateVariable_keeps _ _
  case VARIABLE_ASSIGNMENT => exact ValidateVariableAssignment_keeps _ _ _ _ ih
  case VARIABLE_DECLARATION => exact ValidateVariableDeclaration_keeps _ _ _ _ ih
  case RETURN => exact ValidateReturn_keeps _ _ _ _ ih
  case CONDITIONAL => exact ValidateConditional_keeps _ _ _ _ ih
  case PLUS_OP => exact ValidateArithmetic_keeps _ _ _ _ ih
  case MINUS_OP => exact ValidateArithmetic_keeps _ _ _ _ ih
  case DIVIDE_OP => exact ValidateArithmetic_keeps _ _ _ _ ih
  case MULTIPLY_OP => exact ValidateArithmetic_keeps _ _ _ _ ih
  case GREATER_THAN_OP => exact ValidateComparison_keeps _ _ _ _ ih
  case LESS_THAN_OP => exact ValidateComparison_keeps _ _ _ _ ih
  case EQUAL_OP => exact ValidateComparison_keeps _ _ _ _ ih
  case NOT_EQUAL_OP => exact ValidateComparison_keeps _ _ _ _ ih
  case LOGICAL_AND => exact ValidateLogical_keeps _ _ _ _ ih
  case LOGICAL_OR => exact ValidateLogical_keeps _ _ _ _ ih
  case POST_INC_OP => exact ValidatePostInc_keeps _ _ _ _ ih
  case POINTER_DEREFERENCE => exact ValidatePointerDereference_keeps _ _ _ _ ih
  case ARRAY_SUBSCRIPT => exact ValidateArraySubscript_keeps _ _ _ _ ih
  case FUNCTION_CALL => exact ValidateFunctionCall_keeps _ _ _ _ ih
  case FOR_LOOP => exact ValidateForLoop_keeps _ _ _ _ ih
  case NEGATE => exact ValidateNegate_keeps _ _ _ _ ih
  case ADDRESS_OF => exact ValidateAddressOf_keeps _ _ _ _ ih
  case CONTINUE => exact Keeps_ok _ _ _ rfl
  case BREAK => exact Keeps_ok _ _ _ rfl
  case CALLEE => exact Keeps_ok _ _ _ rfl
  case MEMBER_ACCESS => exact ValidateMemberAccess_keeps _ _ _ _ ih

/-- Every expression has the frame property. -/
theorem all_Framed : ∀ e, Framed e := by
  apply Expression.induction
  intro kind type value ih self s e h
  refine ⟨ValidateExpression_keeps self kind type value ih s e h, ?_⟩
  intro hk
  have hk' : kind = .SCOPE := hk
  subst hk'
  rw [Validator.ValidateExpression] at h
  exact ValidateScope_restores self s _ type value e ih h

/-! ## `TypeIsSame` and structural equality -/

theorem StructurallyEqualFields_length (fa : List StructField) :
    ∀ fb, StructurallyEqualFields fa fb = true → fa.length = fb.length := by
  induction fa with
  | nil =>
    intro fb h
    cases fb with
    | nil => rfl
    | cons b rb => simp [StructurallyEqualFields] at h
  | cons a ra ih =>
    intro fb h
    cases fb with
    | nil => simp [StructurallyEqualFields] at h
    | cons b rb =>
      obtain ⟨na, ta⟩ := a
      obtain ⟨nb, tb⟩ := b
      rw [StructurallyEqualFields] at h
      simp only [Bool.and_eq_true] at h
      simp [ih rb h.2]

/-- `TypeIsSame` returns `true` exactly on the pairs of types that are
structurally equal in the sense of the specification. -/
theorem TypeIsSame_eq_ok_true_iff (a : Ty) :
    ∀ b, TypeIsSame a b = .ok true ↔ StructurallyEqual a b = true := by
  refine @Ty.rec
    (fun a => ∀ b, TypeIsSame a b = .ok true ↔ StructurallyEqual a b = true)
    (fun f => ∀ b, TypeIsSame f.fieldType b = .ok true ↔ StructurallyEqual f.fieldType b = true)
    (fun fa => ∀ fb, fa.length = fb.length →
      (TypeIsSameFields fa fb = .ok true ↔ StructurallyEqualFields fa fb = true))
    ?_ ?_ ?_ ?_ ?_ ?_ ?_ a
  · intro x b
    cases b with
    | BuiltinType y =>
      rw [TypeIsSame, StructurallyEqual]
      by_cases h : x = y <;> simp [h]
    | Array e n => simp [TypeIsSame, StructurallyEqual]
    | Struct fs => simp [TypeIsSame, StructurallyEqual]
    | Pointer p => simp [TypeIsSame, StructurallyEqual]
  · intro ea na ih b
    cases b with
    | Array eb nb =>
      rw [TypeIsSame, StructurallyEqual]
      have := ih eb
      cases hsame : TypeIsSame ea eb with
      | error ex =>
        rw [hsame] at this
        have h2 : StructurallyEqual ea eb = false := by
          cases hq : StructurallyEqual ea eb with
          | false => rfl
          | true => exact absurd (this.mpr hq) (by simp)
        simp [h2]
      | ok r =>
        cases r with
        | false =>
          rw [hsame] at this
          have h2 : StructurallyEqual ea eb = false := by
            cases hq : StructurallyEqual ea eb with
            | false => rfl
            | true => exact absurd (this.mpr hq) (by simp)
          simp [h2]
        | true =>
          rw [hsame] at this
          have h2 : StructurallyEqual ea eb = true := this.mp rfl
          by_cases hn : na = nb <;> simp [h2, hn]
    | BuiltinType y => simp [TypeIsSame, StructurallyEqual]
    | Struct fs => simp [TypeIsSame, StructurallyEqual]
    | Pointer p => simp [TypeIsSame, StructurallyEqual]
  · intro fa ih b
    cases b with
    | Struct fb =>
      rw [TypeIsSame, StructurallyEqual]
      by_cases hlen : fa.length = fb.length
      · simp only [hlen, ne_eq, not_true_eq_false, if_false]
        exact ih fb hlen
      · simp only [hlen, ne_eq, not_false_eq_true, if_true]
        constructor
        · intro h; cases h
        · intro h; exact absurd (StructurallyEqualFields_length fa fb h) hlen
    | BuiltinType y => simp [TypeIsSame, StructurallyEqual]
    | Array e n => simp [TypeIsSame, StructurallyEqual]
    | Pointer p => simp [TypeIsSame, StructurallyEqual]
  · intro pa ih b
    cases b with
    | Pointer pb =>
      rw [TypeIsSame, StructurallyEqual]
      have := ih pb
      cases hsame : TypeIsSame pa pb with
      | error ex =>
        rw [hsame] at this
        simp only [reduceCtorEq, false_iff] at this
        simpa using this
      | ok r =>
        cases r with
        | false =>
          rw [hsame] at this
          simp only [Except.ok.injEq, Bool.false_eq_true, false_iff] at this
          simpa using this
        | true =>
          rw [hsame] at this
          simpa using this
    | BuiltinType y => simp [TypeIsSame, StructurallyEqual]
    | Array e n => simp [TypeIsSame, StructurallyEqual]
    | Struct fs => simp [TypeIsSame, StructurallyEqual]
  · intro name ty ih
    exact ih
  · intro fb hlen
    cases fb with
    | nil => simp [TypeIsSameFields, StructurallyEqualFields]
    | cons b rb => simp at hlen
  · intro f rest ihf ihr fb hlen
    cases fb with
    | nil => simp at hlen
    | cons b rb =>
      obtain ⟨na, ta⟩ := f
      obtain ⟨nb, tb⟩ := b
      have hlen' : rest.length = rb.length := by simpa using hlen
      rw [TypeIsSameFields, StructurallyEqualFields]
      have h1 := ihf tb
      have h2 := ihr rb hlen'
      simp only [StructField.fieldType] at h1
      cases hsame : TypeIsSame ta tb with
      | error ex =>
        rw [hsame] at h1
        have hq : StructurallyEqual ta tb = false := by
          cases hq : StructurallyEqual ta tb with
          | false => rfl
          | true => exact absurd (h1.mpr hq) (by simp)
        simp [hq]
      | ok r =>
        cases r with
        | false =>
          rw [hsame] at h1
          have hq : StructurallyEqual ta tb = false := by
            cases hq : StructurallyEqual ta tb with
            | false => rfl
            | true => exact absurd (h1.mpr hq) (by simp)
          simp [hq]
        | true =>
          rw [hsame] at h1
          have hq : StructurallyEqual ta tb = true := h1.mp rfl
          simp only [hq, Bool.true_and]
          exact h2

/-! ## Consequences of the frame property -/

theorem ValidateExpression_outer (self s : Validator) (e e' : Expression)
    (h : self.ValidateExpression e = .ok (s, e')) : s.outer = self.outer :=
  (all_Framed e self s e' h).1

theorem ValidateExpression_currentFunction (self s : Validator) (e e' : Expression)
    (h : self.ValidateExpression e = .ok (s, e')) : s._currentFunction = self._currentFunction :=
  congrArg (fun o => o.1) (ValidateExpression_outer self s e e' h)

theorem ValidateExpression_definedFunctions (self s : Validator) (e e' : Expression)
    (h : self.ValidateExpression e = .ok (s, e')) :
    s._definedFunctions = self._definedFunctions :=
  congrArg (fun o => o.2.1) (ValidateExpression_outer self s e e' h)

theorem ValidateExpression_dropLast (self s : Validator) (e e' : Expression)
    (h : self.ValidateExpression e = .ok (s, e')) :
    s._scopes.dropLast = self._scopes.dropLast :=
  congrArg (fun o => o.2.2.1) (ValidateExpression_outer self s e e' h)

theorem ValidateExpression_length (self s : Validator) (e e' : Expression)
    (h : self.ValidateExpression e = .ok (s, e')) :
    s._scopes.length = self._scopes.length :=
  congrArg (fun o => o.2.2.2) (ValidateExpression_outer self s e e' h)

theorem ValidateExpression_scope_restores (self s : Validator) (type : Option Ty)
    (value : ExpressionValue) (e' : Expression)
    (h : self.ValidateExpression (.mk .SCOPE type value) = .ok (s, e')) : s = self :=
  (all_Framed _ self s e' h).2 rfl

/-- A successful `ValidateFunction` ends in the state in which it started to
validate the body: the scope of the arguments is still on the stack. -/
theorem ValidateFunction_state (self s : Validator) (function function' : Function)
    (h : self.ValidateFunction function = .ok (s, function')) : s = self.enter function := by
  unfold Validator.ValidateFunction at h
  simp only [bind_eq_ok, pure_eq_ok, VERIFY_eq_ok, Prod.mk.injEq, exists_and_left,
    exists_const] at h
  obtain ⟨hk, ⟨s1, body⟩, hb, hs, -⟩ := h
  rcases hbody : function.body with ⟨k, t, v⟩
  rw [hbody] at hb hk
  have hk' : k = .SCOPE := by simpa [Expression.kind] using hk
  subst hk'
  have := ValidateExpression_scope_restores _ _ _ _ _ hb
  simp only at hs
  rw [← hs, this]
  rfl

/-- A successful `ValidateFunction` leaves the scope stack one scope deeper
than it found it. -/
theorem ValidateFunction_scopes_length (self s : Validator) (function function' : Function)
    (h : self.ValidateFunction function = .ok (s, function')) :
    s._scopes.length = self._scopes.length + 1 := by
  rw [ValidateFunction_state self s function function' h]
  simp [Validator.enter]


/-! ## Claims C1 to C3: the scope stack -/

/-- C1 (the code departs from it). Every successful `ValidateFunction` leaves the scope stack
one scope deeper than it found it: the scope of the arguments that it pushes is never popped.
After the successful `ValidateFunction` of scenario S1 by a new validator the stack has depth
1, while it had depth 0 before the call. -/
theorem C1_ValidateFunction_leaves_scope :
    (∀ (self s : Validator) (function validated : Function),
      self.ValidateFunction function = .ok (s, validated) →
      s._scopes.length = self._scopes.length + 1) ∧
    Validator.new._scopes.length = 0 ∧
    (Validator.new.ValidateFunction S1).map (fun r => r.1._scopes.length) = .ok 1 :=
  ⟨ValidateFunction_scopes_length, rfl, rfl⟩

/-- C2 (the code departs from it). One validator validates `leak_f`, which has the argument
`x`, and then `leak_g`, whose body refers to `x` without having it as argument or declaring it:
both validate, and the `x` in the body of `leak_g` gets the type of the argument of `leak_f`.
A new validator rejects `leak_g` with `g: Variable not found`. -/
theorem C2_argument_of_earlier_function_found :
    (ValidateFunctions Validator.new [leak_f, leak_g]).map
      (fun r => r.2.map (fun f => f.body)) = .ok [
        .mk .SCOPE none (.ExpressionChildren [
          .mk .RETURN (some i64) (.ExpressionChildren [
            .mk .VARIABLE (some i64) (.string "x")])]),
        .mk .SCOPE none (.ExpressionChildren [
          .mk .RETURN (some i64) (.ExpressionChildren [
            .mk .VARIABLE (some i64) (.string "x")])])] ∧
    (Validator.new.ValidateFunction leak_f >>= fun r => r.1.ValidateFunction leak_g).map
      (fun r => r.1._scopes) = .ok [{ vars := [("x", i64)] }, { vars := [] }] ∧
    Validator.new.ValidateFunction leak_g =
      .error (.invalid_argument "g: Variable not found") :=
  ⟨rfl, rfl, rfl⟩

/-- C3 (the code departs from it). The function `S5_after`, whose body is the loop
`for var i: i64 = 0, i < 10, i++:` of scenario S5 followed by `return i`, validates: the
reference to `i` after the loop is found and typed i64, because `ValidateForLoop` pushes no
scope and the declaration of `i` lands in the scope of the function body. -/
theorem C3_loop_variable_found_after_loop :
    (Validator.new.ValidateFunction S5_after).map (fun r => r.2.body) = .ok
      (.mk .SCOPE none (.ExpressionChildren [
        .mk .FOR_LOOP none (.ExpressionChildren [
          .mk .VARIABLE_DECLARATION (some i64) (.ExpressionChildren [
            .mk .VARIABLE (some i64) (.string "i"),
            .mk .LITERAL (some i64) (.int64_t 0)]),
          .mk .LESS_THAN_OP (some bool) (.ExpressionChildren [
            .mk .VARIABLE (some i64) (.string "i"),
            .mk .LITERAL (some i64) (.int64_t 10)]),
          .mk .POST_INC_OP (some i64) (.ExpressionChildren [
            .mk .VARIABLE (some i64) (.string "i")]),
          .mk .SCOPE none (.ExpressionChildren [
            .mk .RETURN (some i64) (.ExpressionChildren [
              .mk .VARIABLE (some i64) (.string "i")])])]),
        .mk .RETURN (some i64) (.ExpressionChildren [
          .mk .VARIABLE (some i64) (.string "i")])])) :=
  rfl


/-! ## Claim C4: variable declarations -/

/-! ### Facts about the association lists -/

theorem unordered_map.find_assign_self {β : Type} (m : unordered_map β) (key : String)
    (value : β) : (m.assign key value).find key = some value := by
  induction m with
  | nil => simp [unordered_map.assign, unordered_map.find]
  | cons p rest ih =>
    obtain ⟨k, b⟩ := p
    by_cases hk : k = key
    · simp [unordered_map.assign, unordered_map.find, hk]
    · simp [unordered_map.assign, unordered_map.find, hk, ih]

theorem unordered_map.find_assign_other {β : Type} (m : unordered_map β) (key other : String)
    (value : β) (h : other ≠ key) : (m.assign key value).find other = m.find other := by
  induction m with
  | nil =>
    simp only [unordered_map.assign, unordered_map.find]
    rw [if_neg (fun hk => h hk.symm)]
  | cons p rest ih =>
    obtain ⟨k, b⟩ := p
    by_cases hk : k = key
    · subst hk
      simp [unordered_map.assign, unordered_map.find, Ne.symm h]
    · by_cases ho : k = other
      · subst ho
        simp [unordered_map.assign, unordered_map.find, h]
      · simp [unordered_map.assign, unordered_map.find, hk, ho, ih]

theorem assignInBackScope_eq_ok (self s : Validator) (name : String) (type : Ty) :
    self.assignInBackScope name type = .ok s ↔
      ∃ back, self._scopes.getLast? = some back ∧
        s = { self with
          _scopes := self._scopes.dropLast ++ [{ vars := back.vars.assign name type }] } := by
  unfold Validator.assignInBackScope
  split
  · rename_i h; simp [h]
  · rename_i back h
    simp only [h, Except.ok.injEq, Option.some.injEq, exists_eq_left']
    exact eq_comm

theorem FindVariable_back (self : Validator) (outerScopes : List ValidatorScope)
    (back : ValidatorScope) (name : String) (type : Ty)
    (hs : self._scopes = outerScopes ++ [back]) (hb : back.vars.find name = some type) :
    self.FindVariable name = some type := by
  unfold Validator.FindVariable
  rw [hs]
  simp [List.find?, unordered_map.contains, hb]

theorem getLast?_isSome_of_length {α : Type} (l m : List α) (hl : l ≠ [])
    (h : m.length = l.length) : ∃ back, m.getLast? = some back := by
  cases m with
  | nil =>
    exfalso
    apply hl
    exact List.length_eq_zero.mp h.symm
  | cons a m => exact ⟨_, List.getLast?_eq_getLast _ (List.cons_ne_nil a m)⟩

theorem Expression.kind_mk (kind : ExpressionKind) (type : Option Ty) (value : ExpressionValue) :
    (Expression.mk kind type value).kind = kind := rfl

theorem Expression.type_mk (kind : ExpressionKind) (type : Option Ty) (value : ExpressionValue) :
    (Expression.mk kind type value).type = type := rfl

theorem Expression.value_mk (kind : ExpressionKind) (type : Option Ty) (value : ExpressionValue) :
    (Expression.mk kind type value).value = value := rfl

theorem TypeIsBuiltinOf_void (t : Ty) :
    (!TypeIsBuiltinOf t .void_t) = true ↔ t ≠ .BuiltinType .void_t := by
  cases t with
  | BuiltinType b => cases b <;> simp [TypeIsBuiltinOf]
  | _ => simp [TypeIsBuiltinOf]

theorem ValidateVariableDeclaration_eq_ok (self s : Validator) (kind : ExpressionKind)
    (type T : Option Ty) (name : String) (init e : Expression) :
    self.ValidateVariableDeclaration kind type
        (.ExpressionChildren [.mk .VARIABLE T (.string name), init]) = .ok (s, e) ↔
      ∃ t s1 init' t' back,
        T = some t ∧ t ≠ .BuiltinType .void_t ∧
        self.ValidateExpression init = .ok (s1, init') ∧ init'.type = some t' ∧
        TypeIsSame t t' = .ok true ∧
        s1._scopes.getLast? = some back ∧
        s = { s1 with
          _scopes := s1._scopes.dropLast ++ [{ vars := back.vars.assign name t }] } ∧
        e = .mk kind (some t) (.ExpressionChildren [.mk .VARIABLE T (.string name), init']) := by
  rw [Validator.ValidateVariableDeclaration]
  constructor
  · intro h
    simp only [bind_eq_ok, pure_eq_ok, VERIFY_eq_ok, optional_value_eq_ok, Prod.mk.injEq,
      exists_and_left, exists_const, Expression.kind_mk, Expression.type_mk,
      Expression.value_mk, ExpressionValue.getString, Except.ok.injEq,
      assignInBackScope_eq_ok, beq_self_eq_true, true_and, Prod.exists,
      TypeIsBuiltinOf_void] at h
    obtain ⟨hT, t, hTt, hvoid, s1, init', hinit, ht', t', hinit', same, hsame, rfl, nm, rfl,
      s2, ⟨back, hback, rfl⟩, rfl, rfl⟩ := h
    exact ⟨t, s1, init', t', back, hTt, hvoid, hinit, hinit', hsame, hback, rfl, by rw [hTt]⟩
  · rintro ⟨t, s1, init', t', back, hTt, hvoid, hinit, hinit', hsame, hback, rfl, rfl⟩
    simp only [bind_eq_ok, pure_eq_ok, VERIFY_eq_ok, optional_value_eq_ok, Prod.mk.injEq,
      exists_and_left, exists_const, Expression.kind_mk, Expression.type_mk,
      Expression.value_mk, ExpressionValue.getString, Except.ok.injEq,
      assignInBackScope_eq_ok, beq_self_eq_true, true_and, Prod.exists,
      TypeIsBuiltinOf_void]
    exact ⟨by simp [hTt], t, hTt, hvoid, s1, init', hinit, by simp [hinit'], t', hinit', true,
      hsame, rfl, name, rfl, _, ⟨back, hback, rfl⟩, rfl, by rw [hTt]⟩

theorem bind_ok {α β : Type} (a : α) (f : α → Except Exception β) :
    ((Except.ok a : Except Exception α) >>= f) = f a := rfl

theorem VERIFY_true (self : Validator) (message : String) :
    self.VERIFY true message = .ok () := rfl

theorem VERIFY_false (self : Validator) (message : String) :
    self.VERIFY false message = .error (self.ValidatorError message) := rfl

theorem bind_error {α β : Type} (e : Exception) (f : α → Except Exception β) :
    ((Except.error e : Except Exception α) >>= f) = .error e := rfl

/-- The contract of `ValidateVariableDeclaration` on `VariableDeclaration[Variable(name, T), init]`, in a
state with at least one scope (every state `ValidateFunction` validates a body in): it
succeeds iff `T` is present, is not void and `init` validates to a type structurally equal
to `T`; on success the node has type `T`, the innermost scope maps `name` to `T`
and keeps its other bindings, the outer scopes, the depth, the current function and the
function table are unchanged; when `TypeIsSame` answers `false` the error is the message
`Variable declaration types mismatch` prefixed with the current function, and scenario S3
fails with `f: Variable declaration types mismatch`. -/
theorem ValidateVariableDeclaration_spec (self : Validator) (kind : ExpressionKind)
    (type T : Option Ty) (name : String) (init : Expression) (hne : self._scopes ≠ []) :
    ((∃ r, self.ValidateVariableDeclaration kind type
        (.ExpressionChildren [.mk .VARIABLE T (.string name), init]) = .ok r) ↔
      ∃ t s1 init' t', T = some t ∧ t ≠ .BuiltinType .void_t ∧
        self.ValidateExpression init = .ok (s1, init') ∧ init'.type = some t' ∧
        StructurallyEqual t t' = true) ∧
    (∀ s e, self.ValidateVariableDeclaration kind type
        (.ExpressionChildren [.mk .VARIABLE T (.string name), init]) = .ok (s, e) →
      ∃ t s1 init' back back', T = some t ∧
        self.ValidateExpression init = .ok (s1, init') ∧
        e = .mk kind (some t) (.ExpressionChildren [.mk .VARIABLE T (.string name), init']) ∧
        e.type = T ∧
        s1._scopes = self._scopes.dropLast ++ [back] ∧
        s._scopes = self._scopes.dropLast ++ [back'] ∧
        back'.vars.find name = some t ∧
        (∀ other, other ≠ name → back'.vars.find other = back.vars.find other) ∧
        s.FindVariable name = some t ∧
        s._scopes.length = self._scopes.length ∧
        s._currentFunction = self._currentFunction ∧
        s._definedFunctions = self._definedFunctions) ∧
    (∀ t s1 init' t', T = some t → t ≠ .BuiltinType .void_t →
      self.ValidateExpression init = .ok (s1, init') → init'.type = some t' →
      TypeIsSame t t' = .ok false →
      self.ValidateVariableDeclaration kind type
        (.ExpressionChildren [.mk .VARIABLE T (.string name), init]) =
        .error (.invalid_argument
          (self._currentFunction.name ++ ": " ++ "Variable declaration types mismatch"))) ∧
    Validator.new.ValidateFunction S3 =
      .error (.invalid_argument "f: Variable declaration types mismatch") := by
  refine ⟨⟨?_, ?_⟩, ?_, ?_, rfl⟩
  · rintro ⟨⟨s, e⟩, h⟩
    obtain ⟨t, s1, init', t', back, hT, hvoid, hinit, hinit', hsame, -⟩ :=
      (ValidateVariableDeclaration_eq_ok self s kind type T name init e).mp h
    exact ⟨t, s1, init', t', hT, hvoid, hinit, hinit',
      (TypeIsSame_eq_ok_true_iff t t').mp hsame⟩
  · rintro ⟨t, s1, init', t', hT, hvoid, hinit, hinit', hsame⟩
    have hsame := (TypeIsSame_eq_ok_true_iff t t').mpr hsame
    obtain ⟨back, hback⟩ := getLast?_isSome_of_length self._scopes s1._scopes hne
      (ValidateExpression_length self s1 init init' hinit)
    exact ⟨_, (ValidateVariableDeclaration_eq_ok self _ kind type T name init _).mpr
      ⟨t, s1, init', t', back, hT, hvoid, hinit, hinit', hsame, hback, rfl, rfl⟩⟩
  · intro s e h
    obtain ⟨t, s1, init', t', back, hT, hvoid, hinit, hinit', hsame, hback, hs, he⟩ :=
      (ValidateVariableDeclaration_eq_ok self s kind type T name init e).mp h
    have hdrop := ValidateExpression_dropLast self s1 init init' hinit
    have hlen := ValidateExpression_length self s1 init init' hinit
    have hs1 : s1._scopes = self._scopes.dropLast ++ [back] := by
      rw [← hdrop]
      exact (List.dropLast_append_getLast? back hback).symm
    have hscopes : s._scopes =
        self._scopes.dropLast ++ [{ vars := back.vars.assign name t }] := by
      rw [hs, ← hdrop]
    refine ⟨t, s1, init', back, { vars := back.vars.assign name t }, hT, hinit, he, ?_, hs1,
      hscopes, unordered_map.find_assign_self _ _ _,
      fun other ho => unordered_map.find_assign_other _ _ _ _ ho, ?_, ?_, ?_, ?_⟩
    · rw [he, hT]; rfl
    · exact FindVariable_back s _ _ name t hscopes (unordered_map.find_assign_self _ _ _)
    · rw [hscopes, ← hlen, hs1]
      simp
    · rw [hs]
      exact ValidateExpression_currentFunction self s1 init init' hinit
    · rw [hs]
      exact ValidateExpression_definedFunctions self s1 init init' hinit
  · intro t s1 init' t' hT hvoid hinit hinit' hsame
    have hname := ValidateExpression_currentFunction self s1 init init' hinit
    rw [Validator.ValidateVariableDeclaration]
    simp only [Expression.kind_mk, Expression.type_mk, hT, beq_self_eq_true, Option.isSome_some,
      VERIFY_true, bind_ok, optional_value, (TypeIsBuiltinOf_void t).mpr hvoid, hinit, hinit',
      hsame, VERIFY_false, bind_error, Validator.ValidatorError, hname]


/-! ## Claim C5: arithmetic -/

theorem KindIsIn_minus_plus (kind : ExpressionKind) :
    KindIsIn kind [.MINUS_OP, .PLUS_OP] = true ↔ kind = .PLUS_OP ∨ kind = .MINUS_OP := by
  cases kind <;> simp [KindIsIn]

theorem TypeIsInteger_eq_true (t : Ty) :
    TypeIsInteger t = true ↔
      t = .BuiltinType .i32 ∨ t = .BuiltinType .i64 ∨ t = .BuiltinType .u64 := by
  cases t with
  | BuiltinType b => cases b <;> simp [TypeIsInteger]
  | Array e n => simp [TypeIsInteger]
  | Struct fs => simp [TypeIsInteger]
  | Pointer p => simp [TypeIsInteger]

theorem TypeIsPointer_eq_true (t : Ty) :
    TypeIsPointer t = true ↔ ∃ pointedType, t = .Pointer pointedType := by
  cases t <;> simp [TypeIsPointer]

theorem TypeIsInteger_not_pointer (t : Ty) (h : TypeIsInteger t = true) :
    TypeIsPointer t = false := by
  cases t <;> simp_all [TypeIsInteger, TypeIsPointer]

theorem ValidateArithmetic_eq_ok (self s : Validator) (kind : ExpressionKind)
    (type : Option Ty) (LHS RHS e : Expression) :
    self.ValidateArithmetic kind type (.ExpressionChildren [LHS, RHS]) = .ok (s, e) ↔
      ∃ s1 LHS' lhsType RHS' rhsType,
        self.ValidateExpression LHS = .ok (s1, LHS') ∧ LHS'.type = some lhsType ∧
        s1.ValidateExpression RHS = .ok (s, RHS') ∧ RHS'.type = some rhsType ∧
        TypeIsInteger rhsType = true ∧
        ((TypeIsPointer lhsType = true ∧ (kind = .PLUS_OP ∨ kind = .MINUS_OP)) ∨
          (TypeIsInteger lhsType = true ∧ TypeIsSame lhsType rhsType = .ok true)) ∧
        e = .mk kind (some lhsType) (.ExpressionChildren [LHS', RHS']) := by
  rw [Validator.ValidateArithmetic]
  constructor
  · intro h
    simp only [bind_eq_ok, VERIFY_eq_ok, optional_value_eq_ok, exists_and_left, exists_const,
      Prod.exists, Bool.or_eq_true] at h
    obtain ⟨s1, LHS', hl, -, lhsType, hlt, hip, s2, RHS', hr, -, rhsType, hrt, hri, h⟩ := h
    by_cases hp : TypeIsPointer lhsType = true
    · rw [if_pos hp] at h
      simp only [bind_eq_ok, VERIFY_eq_ok, pure_eq_ok, Prod.mk.injEq, exists_and_left,
        exists_const, KindIsIn_minus_plus] at h
      obtain ⟨hk, rfl, rfl⟩ := h
      exact ⟨s1, LHS', lhsType, RHS', rhsType, hl, hlt, hr, hrt, hri, Or.inl ⟨hp, hk⟩,
        by rw [hlt]⟩
    · rw [if_neg hp] at h
      simp only [bind_eq_ok, VERIFY_eq_ok, pure_eq_ok, Prod.mk.injEq, exists_and_left,
        exists_const] at h
      obtain ⟨same, hsame, rfl, rfl, rfl⟩ := h
      exact ⟨s1, LHS', lhsType, RHS', rhsType, hl, hlt, hr, hrt, hri,
        Or.inr ⟨hip.resolve_right hp, hsame⟩, by rw [hlt]⟩
  · rintro ⟨s1, LHS', lhsType, RHS', rhsType, hl, hlt, hr, hrt, hri, hcase, rfl⟩
    simp only [bind_eq_ok, VERIFY_eq_ok, optional_value_eq_ok, exists_and_left, exists_const,
      Prod.exists, Bool.or_eq_true]
    refine ⟨s1, LHS', hl, by simp [hlt], lhsType, hlt, ?_, s, RHS', hr, by simp [hrt], rhsType,
      hrt, hri, ?_⟩
    · rcases hcase with ⟨hp, -⟩ | ⟨hi, -⟩
      · exact Or.inr hp
      · exact Or.inl hi
    · rcases hcase with ⟨hp, hk⟩ | ⟨hi, hsame⟩
      · rw [if_pos hp]
        simp only [bind_eq_ok, VERIFY_eq_ok, pure_eq_ok, Prod.mk.injEq, exists_and_left,
          exists_const, KindIsIn_minus_plus, hlt, and_self, and_true]
        exact hk
      · rw [if_neg (by simp [TypeIsInteger_not_pointer lhsType hi])]
        simp only [bind_eq_ok, VERIFY_eq_ok, pure_eq_ok, Prod.mk.injEq, exists_and_left,
          exists_const, hlt, and_self, and_true]
        exact ⟨true, hsame, rfl⟩

/-- C5. `ValidateArithmetic` on a node with the operands `LHS` and `RHS` succeeds iff both
operands validate (the second in the state the first leaves) to a type, the type of `RHS` is
i32, i64 or u64, and either the type of `LHS` is a pointer and the kind is Plus or Minus, or the
type of `LHS` is i32, i64 or u64 and structurally equal to the type of `RHS`; on
success the node has the type of `LHS`. `ValidateExpression` sends Plus, Minus, Multiply and
Divide to it. In S6 `p + 1` gets type pointer to i64, in S2 `x + 1` gets type i64. -/
theorem C5_ValidateArithmetic (self : Validator) (kind : ExpressionKind) (type : Option Ty)
    (LHS RHS : Expression) :
    ((∃ r, self.ValidateArithmetic kind type (.ExpressionChildren [LHS, RHS]) = .ok r) ↔
      ∃ s1 LHS' lhsType s2 RHS' rhsType,
        self.ValidateExpression LHS = .ok (s1, LHS') ∧ LHS'.type = some lhsType ∧
        s1.ValidateExpression RHS = .ok (s2, RHS') ∧ RHS'.type = some rhsType ∧
        (rhsType = .BuiltinType .i32 ∨ rhsType = .BuiltinType .i64 ∨
          rhsType = .BuiltinType .u64) ∧
        (((∃ pointedType, lhsType = .Pointer pointedType) ∧
            (kind = .PLUS_OP ∨ kind = .MINUS_OP)) ∨
          ((lhsType = .BuiltinType .i32 ∨ lhsType = .BuiltinType .i64 ∨
              lhsType = .BuiltinType .u64) ∧
            StructurallyEqual lhsType rhsType = true))) ∧
    (∀ s e, self.ValidateArithmetic kind type (.ExpressionChildren [LHS, RHS]) = .ok (s, e) →
      ∃ s1 LHS' lhsType RHS',
        self.ValidateExpression LHS = .ok (s1, LHS') ∧ LHS'.type = some lhsType ∧
        s1.ValidateExpression RHS = .ok (s, RHS') ∧
        e = .mk kind (some lhsType) (.ExpressionChildren [LHS', RHS']) ∧
        e.type = LHS'.type) ∧
    (∀ value,
      self.ValidateExpression (.mk .PLUS_OP type value) =
        self.ValidateArithmetic .PLUS_OP type value ∧
      self.ValidateExpression (.mk .MINUS_OP type value) =
        self.ValidateArithmetic .MINUS_OP type value ∧
      self.ValidateExpression (.mk .MULTIPLY_OP type value) =
        self.ValidateArithmetic .MULTIPLY_OP type value ∧
      self.ValidateExpression (.mk .DIVIDE_OP type value) =
        self.ValidateArithmetic .DIVIDE_OP type value) ∧
    (Validator.new.ValidateFunction S6).map (fun r => r.2.body) = .ok
      (.mk .SCOPE none (.ExpressionChildren [
        .mk .RETURN (some (.Pointer i64)) (.ExpressionChildren [
          .mk .PLUS_OP (some (.Pointer i64)) (.ExpressionChildren [
            .mk .VARIABLE (some (.Pointer i64)) (.string "p"),
            .mk .LITERAL (some i64) (.int64_t 1)])])])) ∧
    (Validator.new.ValidateFunction S2).map (fun r => r.2.body) = .ok
      (.mk .SCOPE none (.ExpressionChildren [
        .mk .VARIABLE_DECLARATION (some i64) (.ExpressionChildren [
          .mk .VARIABLE (some i64) (.string "y"),
          .mk .PLUS_OP (some i64) (.ExpressionChildren [
            .mk .VARIABLE (some i64) (.string "x"),
            .mk .LITERAL (some i64) (.int64_t 1)])]),
        .mk .RETURN (some i64) (.ExpressionChildren [
          .mk .VARIABLE (some i64) (.string "y")])])) := by
  refine ⟨⟨?_, ?_⟩, ?_, ?_, rfl, rfl⟩
  · rintro ⟨⟨s, e⟩, h⟩
    obtain ⟨s1, LHS', lhsType, RHS', rhsType, hl, hlt, hr, hrt, hri, hcase, -⟩ :=
      (ValidateArithmetic_eq_ok self s kind type LHS RHS e).mp h
    refine ⟨s1, LHS', lhsType, s, RHS', rhsType, hl, hlt, hr, hrt,
      (TypeIsInteger_eq_true rhsType).mp hri, ?_⟩
    rcases hcase with ⟨hp, hk⟩ | ⟨hi, hsame⟩
    · exact Or.inl ⟨(TypeIsPointer_eq_true lhsType).mp hp, hk⟩
    · exact Or.inr ⟨(TypeIsInteger_eq_true lhsType).mp hi,
        (TypeIsSame_eq_ok_true_iff lhsType rhsType).mp hsame⟩
  · rintro ⟨s1, LHS', lhsType, s2, RHS', rhsType, hl, hlt, hr, hrt, hri, hcase⟩
    refine ⟨_, (ValidateArithmetic_eq_ok self s2 kind type LHS RHS _).mpr
      ⟨s1, LHS', lhsType, RHS', rhsType, hl, hlt, hr, hrt,
        (TypeIsInteger_eq_true rhsType).mpr hri, ?_, rfl⟩⟩
    rcases hcase with ⟨hp, hk⟩ | ⟨hi, hsame⟩
    · exact Or.inl ⟨(TypeIsPointer_eq_true lhsType).mpr hp, hk⟩
    · exact Or.inr ⟨(TypeIsInteger_eq_true lhsType).mpr hi,
        (TypeIsSame_eq_ok_true_iff lhsType rhsType).mpr hsame⟩
  · intro s e h
    obtain ⟨s1, LHS', lhsType, RHS', rhsType, hl, hlt, hr, -, -, -, he⟩ :=
      (ValidateArithmetic_eq_ok self s kind type LHS RHS e).mp h
    exact ⟨s1, LHS', lhsType, RHS', hl, hlt, hr, he, by rw [he, hlt]; rfl⟩
  · intro value
    refine ⟨?_, ?_, ?_, ?_⟩ <;> rw [Validator.ValidateExpression]

/-! ## Claim C6: comparisons -/

theorem TypeIsComparable_eq_true (t : Ty) :
    TypeIsComparable t = true ↔
      t = .BuiltinType .i32 ∨ t = .BuiltinType .i64 ∨ t = .BuiltinType .u64 ∨
      t = .BuiltinType .character ∨ ∃ pointedType, t = .Pointer pointedType := by
  cases t with
  | BuiltinType b => cases b <;> simp [TypeIsComparable]
  | Array e n => simp [TypeIsComparable]
  | Struct fs => simp [TypeIsComparable]
  | Pointer p => simp [TypeIsComparable]

theorem TypeIsComparable_eq_false (t : Ty) :
    TypeIsComparable t = false ↔
      t = .BuiltinType .boolean ∨ t = .BuiltinType .void_t ∨
      (∃ elementType size, t = .Array elementType size) ∨ ∃ fields, t = .Struct fields := by
  cases t with
  | BuiltinType b => cases b <;> simp [TypeIsComparable]
  | Array e n => simp [TypeIsComparable]
  | Struct fs => simp [TypeIsComparable]
  | Pointer p => simp [TypeIsComparable]

/-- Types that `TypeIsSame` finds equal are both comparable or both not. -/
theorem TypeIsSame_comparable (a b : Ty) (h : TypeIsSame a b = .ok true) :
    TypeIsComparable a = TypeIsComparable b := by
  cases a with
  | BuiltinType x =>
    cases b with
    | BuiltinType y =>
      rw [TypeIsSame] at h
      by_cases hxy : x = y
      · rw [hxy]
      · simp [hxy] at h
    | Array e n => simp [TypeIsSame] at h
    | Struct fs => simp [TypeIsSame] at h
    | Pointer p => simp [TypeIsSame] at h
  | Array ea na =>
    cases b with
    | Array eb nb => simp [TypeIsComparable]
    | BuiltinType y => simp [TypeIsSame] at h
    | Struct fs => simp [TypeIsSame] at h
    | Pointer p => simp [TypeIsSame] at h
  | Struct fa =>
    cases b with
    | Struct fb => simp [TypeIsComparable]
    | BuiltinType y => simp [TypeIsSame] at h
    | Array e n => simp [TypeIsSame] at h
    | Pointer p => simp [TypeIsSame] at h
  | Pointer pa =>
    cases b with
    | Pointer pb => simp [TypeIsComparable]
    | BuiltinType y => simp [TypeIsSame] at h
    | Array e n => simp [TypeIsSame] at h
    | Struct fs => simp [TypeIsSame] at h

theorem ValidateComparison_eq_ok (self s : Validator) (kind : ExpressionKind)
    (type : Option Ty) (LHS RHS e : Expression) :
    self.ValidateComparison kind type (.ExpressionChildren [LHS, RHS]) = .ok (s, e) ↔
      ∃ s1 LHS' lhsType RHS' rhsType,
        self.ValidateExpression LHS = .ok (s1, LHS') ∧
        s1.ValidateExpression RHS = .ok (s, RHS') ∧
        LHS'.type = some lhsType ∧ RHS'.type = some rhsType ∧
        TypeIsSame lhsType rhsType = .ok true ∧ TypeIsComparable lhsType = true ∧
        e = .mk kind (some (.BuiltinType .boolean)) (.ExpressionChildren [LHS', RHS']) := by
  rw [Validator.ValidateComparison]
  constructor
  · intro h
    simp only [bind_eq_ok, VERIFY_eq_ok, optional_value_eq_ok, pure_eq_ok, Prod.mk.injEq,
      exists_and_left, exists_const, Prod.exists] at h
    obtain ⟨s1, LHS', hl, s2, RHS', hr, lhsType, hlt, rhsType, hrt, same, hsame, rfl, hc,
      rfl, rfl⟩ := h
    exact ⟨s1, LHS', lhsType, RHS', rhsType, hl, hr, hlt, hrt, hsame, hc, rfl⟩
  · rintro ⟨s1, LHS', lhsType, RHS', rhsType, hl, hr, hlt, hrt, hsame, hc, rfl⟩
    simp only [hl, hr, hlt, hrt, hsame, hc, bind_ok, optional_value, VERIFY_true]
    rfl

/-- The contract of `ValidateComparison` on a node with the operands `LHS` and `RHS` succeeds iff both
operands validate (the second in the state the first leaves) to structurally equal types and
the type is comparable, that is i32, i64, u64, char or a pointer; on success the node
has type bool. When both operands validate and the type of one of them is bool, void, an array
or a record, the comparison is rejected with an exception of the validator, which is a
`ValidatorError` (a message prefixed with the current function) whenever `TypeIsSame` returns
an answer for the two types.
`ValidateExpression` sends LessThan, GreaterThan, Equal and NotEqual to it. In
`function f() -> bool:` the body `return 1 < 2` validates with type bool and the body
`return true == false` is rejected with `f: Comparison operand type is not comparable`. -/
theorem ValidateComparison_spec (self : Validator) (kind : ExpressionKind) (type : Option Ty)
    (LHS RHS : Expression) :
    ((∃ r, self.ValidateComparison kind type (.ExpressionChildren [LHS, RHS]) = .ok r) ↔
      ∃ s1 LHS' lhsType s2 RHS' rhsType,
        self.ValidateExpression LHS = .ok (s1, LHS') ∧
        s1.ValidateExpression RHS = .ok (s2, RHS') ∧
        LHS'.type = some lhsType ∧ RHS'.type = some rhsType ∧
        StructurallyEqual lhsType rhsType = true ∧
        (lhsType = .BuiltinType .i32 ∨ lhsType = .BuiltinType .i64 ∨
          lhsType = .BuiltinType .u64 ∨ lhsType = .BuiltinType .character ∨
          ∃ pointedType, lhsType = .Pointer pointedType)) ∧
    (∀ s e, self.ValidateComparison kind type (.ExpressionChildren [LHS, RHS]) = .ok (s, e) →
      e.type = some (.BuiltinType .boolean)) ∧
    (∀ s1 LHS' s2 RHS' lhsType rhsType,
      self.ValidateExpression LHS = .ok (s1, LHS') →
      s1.ValidateExpression RHS = .ok (s2, RHS') →
      LHS'.type = some lhsType → RHS'.type = some rhsType →
      (∃ t, (t = lhsType ∨ t = rhsType) ∧
        (t = .BuiltinType .boolean ∨ t = .BuiltinType .void_t ∨
        (∃ elementType size, t = .Array elementType size) ∨ ∃ fields, t = .Struct fields)) →
      (∃ exception,
        self.ValidateComparison kind type (.ExpressionChildren [LHS, RHS]) =
          .error exception) ∧
      (∀ answer, TypeIsSame lhsType rhsType = .ok answer →
        ∃ message,
          self.ValidateComparison kind type (.ExpressionChildren [LHS, RHS]) =
            .error (.invalid_argument (self._currentFunction.name ++ ": " ++ message)))) ∧
    (∀ value,
      self.ValidateExpression (.mk .LESS_THAN_OP type value) =
        self.ValidateComparison .LESS_THAN_OP type value ∧
      self.ValidateExpression (.mk .GREATER_THAN_OP type value) =
        self.ValidateComparison .GREATER_THAN_OP type value ∧
      self.ValidateExpression (.mk .EQUAL_OP type value) =
        self.ValidateComparison .EQUAL_OP type value ∧
      self.ValidateExpression (.mk .NOT_EQUAL_OP type value) =
        self.ValidateComparison .NOT_EQUAL_OP type value) ∧
    (Validator.new.ValidateFunction
      { prototype := { name := "f", arguments := [], returnType := bool }
        body := node .SCOPE [node .RETURN
          [node .LESS_THAN_OP [intLiteral 1, intLiteral 2]]] }).map (fun r => r.2.body) = .ok
      (.mk .SCOPE none (.ExpressionChildren [
        .mk .RETURN (some bool) (.ExpressionChildren [
          .mk .LESS_THAN_OP (some bool) (.ExpressionChildren [
            .mk .LITERAL (some i64) (.int64_t 1),
            .mk .LITERAL (some i64) (.int64_t 2)])])])) ∧
    Validator.new.ValidateFunction
      { prototype := { name := "f", arguments := [], returnType := bool }
        body := node .SCOPE [node .RETURN [node .EQUAL_OP
          [.mk .LITERAL (some bool) (.bool true), .mk .LITERAL (some bool) (.bool false)]]] } =
      .error (.invalid_argument "f: Comparison operand type is not comparable") := by
  refine ⟨⟨?_, ?_⟩, ?_, ?_, ?_, rfl, rfl⟩
  · rintro ⟨⟨s, e⟩, h⟩
    obtain ⟨s1, LHS', lhsType, RHS', rhsType, hl, hr, hlt, hrt, hsame, hc, -⟩ :=
      (ValidateComparison_eq_ok self s kind type LHS RHS e).mp h
    exact ⟨s1, LHS', lhsType, s, RHS', rhsType, hl, hr, hlt, hrt,
      (TypeIsSame_eq_ok_true_iff lhsType rhsType).mp hsame,
      (TypeIsComparable_eq_true lhsType).mp hc⟩
  · rintro ⟨s1, LHS', lhsType, s2, RHS', rhsType, hl, hr, hlt, hrt, hsame, hc⟩
    exact ⟨_, (ValidateComparison_eq_ok self s2 kind type LHS RHS _).mpr
      ⟨s1, LHS', lhsType, RHS', rhsType, hl, hr, hlt, hrt,
        (TypeIsSame_eq_ok_true_iff lhsType rhsType).mpr hsame,
        (TypeIsComparable_eq_true lhsType).mpr hc, rfl⟩⟩
  · intro s e h
    obtain ⟨s1, LHS', lhsType, RHS', rhsType, -, -, -, -, -, -, he⟩ :=
      (ValidateComparison_eq_ok self s kind type LHS RHS e).mp h
    rw [he]
    rfl
  · intro s1 LHS' s2 RHS' lhsType rhsType hl hr hlt hrt hnot
    have hname : s2._currentFunction = self._currentFunction :=
      (ValidateExpression_currentFunction s1 s2 RHS RHS' hr).trans
        (ValidateExpression_currentFunction self s1 LHS LHS' hl)
    obtain ⟨t, ht, hnot⟩ := hnot
    have htc : TypeIsComparable t = false := (TypeIsComparable_eq_false t).mpr hnot
    rw [Validator.ValidateComparison]
    simp only [hl, hr, hlt, hrt, bind_ok, optional_value]
    cases hsame : TypeIsSame lhsType rhsType with
    | error ex =>
      refine ⟨⟨ex, rfl⟩, ?_⟩
      intro answer ha
      cases ha
    | ok same =>
      cases same with
      | false =>
        refine ⟨⟨_, rfl⟩, fun _ _ => ⟨"Comparison operation types mismatch", ?_⟩⟩
        simp only [bind_ok, VERIFY_false, bind_error, Validator.ValidatorError, hname]
      | true =>
        have hlc : TypeIsComparable lhsType = false := by
          rcases ht with rfl | rfl
          · exact htc
          · rw [TypeIsSame_comparable _ _ hsame]
            exact htc
        simp only [bind_ok, VERIFY_true, hlc, VERIFY_false, bind_error,
          Validator.ValidatorError, hname]
        exact ⟨⟨_, rfl⟩, fun _ _ => ⟨"Comparison operand type is not comparable", rfl⟩⟩
  · intro value
    refine ⟨?_, ?_, ?_, ?_⟩ <;> rw [Validator.ValidateExpression]


/-! ## The kind of a validated expression

Validation keeps the kind of a node, except that `ValidateNegate` turns the node into a
Literal. -/

theorem Yields_error {α : Type} (P : α → Prop) (e : Exception) :
    Yields P (Except.error e : Except Exception (Validator × α)) := by
  constructor
  intro s a h; cases h

theorem Yields_pure {α : Type} (P : α → Prop) (s1 : Validator) (a : α) (h : P a) :
    Yields P (Pure.pure (s1, a) : Except Exception (Validator × α)) := by
  constructor
  intro s b hb
  simp only [pure_eq_ok, Prod.mk.injEq] at hb
  rw [← hb.2]
  exact h

theorem Yields_bind {α β : Type} (P : α → Prop) (x : Except Exception β)
    (f : β → Except Exception (Validator × α)) (h : ∀ b, Yields P (f b)) :
    Yields P (x >>= f) := by
  constructor
  intro s a hs
  obtain ⟨b, -, hb⟩ := (bind_eq_ok x f (s, a)).mp hs
  exact (h b).out s a hb

theorem ValidateScope_kind (self : Validator) (kind : ExpressionKind) (type : Option Ty)
    (value : ExpressionValue) :
    Yields (KeepsKind kind) (self.ValidateScope kind type value) := by
  unfold Validator.ValidateScope
  split <;>
    repeat (first
      | apply Yields_error
      | (apply Yields_pure; exact Or.inl rfl)
      | (apply Yields_bind; intro _)
      | split)

theorem ValidateVariableAssignment_kind (self : Validator) (kind : ExpressionKind) (type : Option Ty)
    (value : ExpressionValue) :
    Yields (KeepsKind kind) (self.ValidateVariableAssignment kind type value) := by
  unfold Validator.ValidateVariableAssignment
  split <;>
    repeat (first
      | apply Yields_error
      | (apply Yields_pure; exact Or.inl rfl)
      | (apply Yields_bind; intro _)
      | split)

theorem ValidateVariableDeclaration_kind (self : Validator) (kind : ExpressionKind) (type : Option Ty)
    (value : ExpressionValue) :
    Yields (KeepsKind kind) (self.ValidateVariableDeclaration kind type value) := by
  unfold Validator.ValidateVariableDeclaration
  split <;>
    repeat (first
      | apply Yields_error
      | (apply Yields_pure; exact Or.inl rfl)
      | (apply Yields_bind; intro _)
      | split)

theorem ValidateReturn_kind (self : Validator) (kind : ExpressionKind) (type : Option Ty)
    (value : ExpressionValue) :
    Yields (KeepsKind kind) (self.ValidateReturn kind type value) := by
  unfold Validator.ValidateReturn
  split <;>
    repeat (first
      | apply Yields_error
      | (apply Yields_pure; exact Or.inl rfl)
      | (apply Yields_bind; intro _)
      | split)

theorem ValidateConditional_kind (self : Validator) (kind : ExpressionKind) (type : Option Ty)
    (value : ExpressionValue) :
    Yields (KeepsKind kind) (self.ValidateConditional kind type value) := by
  unfold Validator.ValidateConditional
  split <;>
    repeat (first
      | apply Yields_error
      | (apply Yields_pure; exact Or.inl rfl)
      | (apply Yields_bind; intro _)
      | split)

theorem ValidateArithmetic_kind (self : Validator) (kind : ExpressionKind) (type : Option Ty)
    (value : ExpressionValue) :
    Yields (KeepsKind kind) (self.ValidateArithmetic kind type value) := by
  unfold Validator.ValidateArithmetic
  split <;>
    repeat (first
      | apply Yields_error
      | (apply Yields_pure; exact Or.inl rfl)
      | (apply Yields_bind; intro _)
      | split)

theorem ValidateComparison_kind (self : Validator) (kind : ExpressionKind) (type : Option Ty)
    (value : ExpressionValue) :
    Yields (KeepsKind kind) (self.ValidateComparison kind type value) := by
  unfold Validator.ValidateComparison
  split <;>
    repeat (first
      | apply Yields_error
      | (apply Yields_pure; exact Or.inl rfl)
      | (apply Yields_bind; intro _)
      | split)

theorem ValidateLogical_kind (self : Validator) (kind : ExpressionKind) (type : Option Ty)
    (value : ExpressionValue) :
    Yields (KeepsKind kind) (self.ValidateLogical kind type value) := by
  unfold Validator.ValidateLogical
  split <;>
    repeat (first
      | apply Yields_error
      | (apply Yields_pure; exact Or.inl rfl)
      | (apply Yields_bind; intro _)
      | split)

theorem ValidatePostInc_kind (self : Validator) (kind : ExpressionKind) (type : Option Ty)
    (value : ExpressionValue) :
    Yields (KeepsKind kind) (self.ValidatePostInc kind type value) := by
  unfold Validator.ValidatePostInc
  split <;>
    repeat (first
      | apply Yields_error
      | (apply Yields_pure; exact Or.inl rfl)
      | (apply Yields_bind; intro _)
      | split)

theorem ValidatePointerDereference_kind (self : Validator) (kind : ExpressionKind) (type : Option Ty)
    (value : ExpressionValue) :
    Yields (KeepsKind kind) (self.ValidatePointerDereference kind type value) := by
  unfold Validator.ValidatePointerDereference
  split <;>
    repeat (first
      | apply Yields_error
      | (apply Yields_pure; exact Or.inl rfl)
      | (apply Yields_bind; intro _)
      | split)

theorem ValidateArraySubscript_kind (self : Validator) (kind : ExpressionKind) (type : Option Ty)
    (value : ExpressionValue) :
    Yields (KeepsKind kind) (self.ValidateArraySubscript kind type value) := by
  unfold Validator.ValidateArraySubscript
  split <;>
    repeat (first
      | apply Yields_error
      | (apply Yields_pure; exact Or.inl rfl)
      | (apply Yields_bind; intro _)
      | split)

theorem ValidateFunctionCall_kind (self : Validator) (kind : ExpressionKind) (type : Option Ty)
    (value : ExpressionValue) :
    Yields (KeepsKind kind) (self.ValidateFunctionCall kind type value) := by
  unfold Validator.ValidateFunctionCall
  split <;>
    repeat (first
      | apply Yields_error
      | (apply Yields_pure; exact Or.inl rfl)
      | (apply Yields_bind; intro _)
      | split)

theorem ValidateForLoop_kind (self : Validator) (kind : ExpressionKind) (type : Option Ty)
    (value : ExpressionValue) :
    Yields (KeepsKind kind) (self.ValidateForLoop kind type value) := by
  unfold Validator.ValidateForLoop
  split <;>
    repeat (first
      | apply Yields_error
      | (apply Yields_pure; exact Or.inl rfl)
      | (apply Yields_bind; intro _)
      | split)

theorem ValidateNegate_kind (self : Validator) (kind : ExpressionKind) (type : Option Ty)
    (value : ExpressionValue) :
    Yields (KeepsKind kind) (self.ValidateNegate kind type value) := by
  unfold Validator.ValidateNegate
  split <;>
    repeat (first
      | apply Yields_error
      | (apply Yields_pure; exact Or.inr rfl)
      | (apply Yields_bind; intro _)
      | split)

theorem ValidateAddressOf_kind (self : Validator) (kind : ExpressionKind) (type : Option Ty)
    (value : ExpressionValue) :
    Yields (KeepsKind kind) (self.ValidateAddressOf kind type value) := by
  unfold Validator.ValidateAddressOf
  split <;>
    repeat (first
      | apply Yields_error
      | (apply Yields_pure; exact Or.inl rfl)
      | (apply Yields_bind; intro _)
      | split)

theorem ValidateMemberAccess_kind (self : Validator) (kind : ExpressionKind) (type : Option Ty)
    (value : ExpressionValue) :
    Yields (KeepsKind kind) (self.ValidateMemberAccess kind type value) := by
  unfold Validator.ValidateMemberAccess
  split <;>
    repeat (first
      | apply Yields_error
      | (apply Yields_pure; exact Or.inl rfl)
      | (apply Yields_bind; intro _)
      | split)

theorem ValidateLiteral_kind (self : Validator) (expression : Expression) :
    Yields (KeepsKind expression.kind) (self.ValidateLiteral expression) := by
  unfold Validator.ValidateLiteral
  repeat (first
    | (apply Yields_pure; exact Or.inl rfl)
    | (apply Yields_bind; intro _))

theorem ValidateVariable_kind (self : Validator) (expression : Expression) :
    Yields (KeepsKind expression.kind) (self.ValidateVariable expression) := by
  unfold Validator.ValidateVariable
  repeat (first
    | (apply Yields_pure; exact Or.inl rfl)
    | (apply Yields_bind; intro _))

theorem ValidateExpression_kind (self s : Validator) (e e' : Expression)
    (h : self.ValidateExpression e = .ok (s, e')) : e'.kind = e.kind ∨ e'.kind = .LITERAL := by
  obtain ⟨kind, type, value⟩ := e
  cases kind <;> rw [Validator.ValidateExpression] at h
  case SCOPE => exact (ValidateScope_kind _ _ _ _).out s e' h
  case LITERAL => exact (ValidateLiteral_kind _ _).out s e' h
  case VARIABLE => exact (ValidateVariable_kind _ _).out s e' h
  case VARIABLE_ASSIGNMENT => exact (ValidateVariableAssignment_kind _ _ _ _).out s e' h
  case VARIABLE_DECLARATION => exact (ValidateVariableDeclaration_kind _ _ _ _).out s e' h
  case RETURN => exact (ValidateReturn_kind _ _ _ _).out s e' h
  case CONDITIONAL => exact (ValidateConditional_kind _ _ _ _).out s e' h
  case PLUS_OP => exact (ValidateArithmetic_kind _ _ _ _).out s e' h
  case MINUS_OP => exact (ValidateArithmetic_kind _ _ _ _).out s e' h
  case DIVIDE_OP => exact (ValidateArithmetic_kind _ _ _ _).out s e' h
  case MULTIPLY_OP => exact (ValidateArithmetic_kind _ _ _ _).out s e' h
  case GREATER_THAN_OP => exact (ValidateComparison_kind _ _ _ _).out s e' h
  case LESS_THAN_OP => exact (ValidateComparison_kind _ _ _ _).out s e' h
  case EQUAL_OP => exact (ValidateComparison_kind _ _ _ _).out s e' h
  case NOT_EQUAL_OP => exact (ValidateComparison_kind _ _ _ _).out s e' h
  case LOGICAL_AND => exact (ValidateLogical_kind _ _ _ _).out s e' h
  case LOGICAL_OR => exact (ValidateLogical_kind _ _ _ _).out s e' h
  case POST_INC_OP => exact (ValidatePostInc_kind _ _ _ _).out s e' h
  case POINTER_DEREFERENCE => exact (ValidatePointerDereference_kind _ _ _ _).out s e' h
  case ARRAY_SUBSCRIPT => exact (ValidateArraySubscript_kind _ _ _ _).out s e' h
  case FUNCTION_CALL => exact (ValidateFunctionCall_kind _ _ _ _).out s e' h
  case FOR_LOOP => exact (ValidateForLoop_kind _ _ _ _).out s e' h
  case NEGATE => exact (ValidateNegate_kind _ _ _ _).out s e' h
  case ADDRESS_OF => exact (ValidateAddressOf_kind _ _ _ _).out s e' h
  case CONTINUE => cases h; exact Or.inl rfl
  case BREAK => cases h; exact Or.inl rfl
  case CALLEE => cases h; exact Or.inl rfl
  case MEMBER_ACCESS => exact (ValidateMemberAccess_kind _ _ _ _).out s e' h

/-- A Callee validates to itself in the same state, and only a Callee validates to a
Callee. -/
theorem ValidateExpression_callee (self s : Validator) (e e' : Expression)
    (h : self.ValidateExpression e = .ok (s, e')) :
    (e'.kind = .CALLEE ↔ e.kind = .CALLEE) ∧ (e.kind = .CALLEE → s = self ∧ e' = e) := by
  constructor
  · constructor
    · intro hk
      rcases ValidateExpression_kind self s e e' h with h1 | h1
      · rw [← h1]; exact hk
      · rw [hk] at h1; cases h1
    · intro hk
      obtain ⟨kind, type, value⟩ := e
      have hk' : kind = .CALLEE := hk
      subst hk'
      rw [Validator.ValidateExpression] at h
      cases h
      rfl
  · intro hk
    obtain ⟨kind, type, value⟩ := e
    have hk' : kind = .CALLEE := hk
    subst hk'
    rw [Validator.ValidateExpression] at h
    cases h
    exact ⟨rfl, rfl⟩

/-! ## Claim C7: function calls -/

theorem getString_eq_ok (value : ExpressionValue) (s : String) :
    value.getString = .ok s ↔ value = .string s := by
  cases value <;> simp [ExpressionValue.getString]

theorem KindIsIn_callee (kind : ExpressionKind) :
    KindIsIn kind [.CALLEE] = true ↔ kind = .CALLEE := by
  cases kind <;> simp [KindIsIn]

theorem ValidateFunctionCallLoop_eq_ok (parameters : List FunctionArgument) :
    ∀ (arguments : List Expression), parameters.length = arguments.length →
    ∀ (self s : Validator) (out : List Expression),
      (self.ValidateFunctionCallLoop parameters arguments = .ok (s, out) ↔
        ArgumentsAccepted self parameters arguments s out) := by
  induction parameters with
  | nil =>
    intro arguments hlen self s out
    cases arguments with
    | nil =>
      rw [Validator.ValidateFunctionCallLoop]
      simp only [ArgumentsAccepted, Except.ok.injEq, Prod.mk.injEq]
      constructor
      · rintro ⟨rfl, rfl⟩; exact ⟨rfl, rfl⟩
      · rintro ⟨rfl, rfl⟩; exact ⟨rfl, rfl⟩
    | cons a rest => simp at hlen
  | cons p ps ih =>
    intro arguments hlen self s out
    cases arguments with
    | nil => simp at hlen
    | cons a rest =>
      have hlen' : ps.length = rest.length := by simpa using hlen
      rw [Validator.ValidateFunctionCallLoop]
      simp only [ArgumentsAccepted]
      constructor
      · intro h
        simp only [bind_eq_ok, VERIFY_eq_ok, optional_value_eq_ok, pure_eq_ok, Prod.mk.injEq,
          exists_and_left, exists_const, Prod.exists] at h
        obtain ⟨s1, a', ha, -, argType, hty, same, hsame, rfl, s2, rest', hrest, rfl, rfl⟩ := h
        exact ⟨s1, a', argType, rest', ha, hty, (TypeIsSame_eq_ok_true_iff _ _).mp hsame,
          (ih rest hlen' s1 s2 rest').mp hrest, rfl⟩
      · rintro ⟨s1, a', argType, rest', ha, hty, hsame, hrest, rfl⟩
        have hsame := (TypeIsSame_eq_ok_true_iff _ _).mpr hsame
        have hloop := (ih rest hlen' s1 s rest').mpr hrest
        simp only [ha, hty, hsame, hloop, bind_ok, optional_value, VERIFY_true,
          Option.isSome_some]
        rfl

theorem ValidateFunctionCall_eq_ok (self s : Validator) (kind : ExpressionKind)
    (type : Option Ty) (first e : Expression) (arguments : List Expression) :
    self.ValidateFunctionCall kind type (.ExpressionChildren (first :: arguments)) =
        .ok (s, e) ↔
      ∃ callee prototype out,
        first.kind = .CALLEE ∧ first.value = .string callee ∧
        self.FindFunction callee = some prototype ∧
        arguments.length = prototype.arguments.length ∧
        ArgumentsAccepted self prototype.arguments arguments s out ∧
        e = .mk kind (some prototype.returnType) (.ExpressionChildren (first :: out)) := by
  rw [Validator.ValidateFunctionCall]
  constructor
  · intro h
    simp only [bind_eq_ok, VERIFY_eq_ok, exists_and_left, exists_const, Prod.exists,
      KindIsIn_callee, getString_eq_ok] at h
    obtain ⟨s1, first', hf, hk, callee, hv, h⟩ := h
    have hc := ValidateExpression_callee self s1 first first' hf
    have hk0 : first.kind = .CALLEE := hc.1.mp hk
    obtain ⟨rfl, rfl⟩ := hc.2 hk0
    cases hfind : s1.FindFunction callee with
    | none => rw [hfind] at h; cases h
    | some prototype =>
      rw [hfind] at h
      simp only [bind_eq_ok, VERIFY_eq_ok, pure_eq_ok, Prod.mk.injEq, exists_and_left,
        exists_const, Prod.exists, beq_iff_eq] at h
      obtain ⟨hlen, s2, out, hloop, rfl, rfl⟩ := h
      exact ⟨callee, prototype, out, hk0, hv, hfind, hlen.symm,
        (ValidateFunctionCallLoop_eq_ok prototype.arguments arguments hlen s1 s2 out).mp hloop,
        rfl⟩
  · rintro ⟨callee, prototype, out, hk, hv, hfind, hlen, hacc, rfl⟩
    obtain ⟨kind0, type0, value0⟩ := first
    have hk' : kind0 = .CALLEE := hk
    subst hk'
    have hv' : value0 = .string callee := hv
    subst hv'
    have hloop :=
      (ValidateFunctionCallLoop_eq_ok prototype.arguments arguments hlen.symm self s out).mpr
        hacc
    have hlen' : (prototype.arguments.length == arguments.length) = true := by
      rw [hlen]; exact beq_self_eq_true _
    rw [Validator.ValidateExpression]
    simp only [bind_ok, Expression.kind_mk, Expression.value_mk, KindIsIn, beq_self_eq_true,
      Bool.or_false, VERIFY_true, ExpressionValue.getString, hfind, hlen', hloop]
    rfl

theorem ValidateExternalFunction_FindFunction (self : Validator) (prototype : FunctionPrototype) :
    (self.ValidateExternalFunction prototype).FindFunction prototype.name = some prototype :=
  unordered_map.find_assign_self _ _ _

theorem enter_FindFunction (self : Validator) (function : Function) :
    (self.enter function).FindFunction function.prototype.name = some function.prototype :=
  unordered_map.find_assign_self _ _ _


/-- C7. `ValidateFunctionCall` on a node with the first child `first` and the further children
`arguments` succeeds iff `first` is a Callee that holds a name found in the function table, the
number of arguments equals the number of parameters of the prototype found, and every argument
validates, in order, to a type structurally equal to the type of the parameter at its
position; on success the call has the return type of the prototype. A call without
children is rejected. A name is in the table once `ValidateExternalFunction` has registered
it, while `ValidateFunction` validates the body of the function of that name, and after
`ValidateFunction` has succeeded on it. `ValidateExpression` sends FunctionCall to it. The
recursive `function f(n: i64) -> i64:` with body `return f(n)` validates, the call having type
i64. -/
theorem C7_ValidateFunctionCall (self : Validator) (kind : ExpressionKind) (type : Option Ty)
    (first : Expression) (arguments : List Expression) :
    ((∃ r, self.ValidateFunctionCall kind type (.ExpressionChildren (first :: arguments)) =
        .ok r) ↔
      ∃ callee prototype,
        first.kind = .CALLEE ∧ first.value = .string callee ∧
        self.FindFunction callee = some prototype ∧
        arguments.length = prototype.arguments.length ∧
        ∃ s out, ArgumentsAccepted self prototype.arguments arguments s out) ∧
    (∀ s e,
      self.ValidateFunctionCall kind type (.ExpressionChildren (first :: arguments)) =
        .ok (s, e) →
      ∃ callee prototype out,
        first.value = .string callee ∧ self.FindFunction callee = some prototype ∧
        ArgumentsAccepted self prototype.arguments arguments s out ∧
        e = .mk kind (some prototype.returnType) (.ExpressionChildren (first :: out)) ∧
        e.type = some prototype.returnType) ∧
    self.ValidateFunctionCall kind type (.ExpressionChildren []) =
      .error (.invalid_argument (self._currentFunction.name ++ ": " ++
        "Call expression is empty")) ∧
    (∀ prototype,
      (self.ValidateExternalFunction prototype).FindFunction prototype.name = some prototype) ∧
    (∀ function,
      (self.enter function).FindFunction function.prototype.name = some function.prototype ∧
      self.ValidateFunction function =
        ((self.enter function).VERIFY (function.body.kind == .SCOPE)
          "Function body is not a scope" >>= fun _ =>
        (self.enter function).ValidateExpression function.body >>= fun r =>
        pure (r.1, { prototype := function.prototype, body := r.2 }))) ∧
    (∀ function s validated, self.ValidateFunction function = .ok (s, validated) →
      s.FindFunction function.prototype.name = some function.prototype) ∧
    (∀ value, self.ValidateExpression (.mk .FUNCTION_CALL type value) =
      self.ValidateFunctionCall .FUNCTION_CALL type value) ∧
    (Validator.new.ValidateFunction
      { prototype :=
          { name := "f", arguments := [{ name := "n", type := i64 }], returnType := i64 }
        body := node .SCOPE [node .RETURN
          [node .FUNCTION_CALL [.mk .CALLEE none (.string "f"), variableRef "n"]]] }).map
      (fun r => r.2.body) = .ok
      (.mk .SCOPE none (.ExpressionChildren [
        .mk .RETURN (some i64) (.ExpressionChildren [
          .mk .FUNCTION_CALL (some i64) (.ExpressionChildren [
            .mk .CALLEE none (.string "f"),
            .mk .VARIABLE (some i64) (.string "n")])])])) := by
  refine ⟨⟨?_, ?_⟩, ?_, ?_, ?_, ?_, ?_, ?_, rfl⟩
  · rintro ⟨⟨s, e⟩, h⟩
    obtain ⟨callee, prototype, out, hk, hv, hfind, hlen, hacc, -⟩ :=
      (ValidateFunctionCall_eq_ok self s kind type first e arguments).mp h
    exact ⟨callee, prototype, hk, hv, hfind, hlen, s, out, hacc⟩
  · rintro ⟨callee, prototype, hk, hv, hfind, hlen, s, out, hacc⟩
    exact ⟨_, (ValidateFunctionCall_eq_ok self s kind type first _ arguments).mpr
      ⟨callee, prototype, out, hk, hv, hfind, hlen, hacc, rfl⟩⟩
  · intro s e h
    obtain ⟨callee, prototype, out, -, hv, hfind, -, hacc, he⟩ :=
      (ValidateFunctionCall_eq_ok self s kind type first e arguments).mp h
    exact ⟨callee, prototype, out, hv, hfind, hacc, he, by rw [he]; rfl⟩
  · rw [Validator.ValidateFunctionCall]
    rfl
  · exact ValidateExternalFunction_FindFunction self
  · intro function
    exact ⟨enter_FindFunction self function, rfl⟩
  · intro function s validated h
    rw [ValidateFunction_state self s function validated h]
    exact enter_FindFunction self function
  · intro value
    rw [Validator.ValidateExpression]


/-! ## Claim C8: assignments -/

theorem KindIsIn_assignable (kind : ExpressionKind) :
    KindIsIn kind [.VARIABLE, .POINTER_DEREFERENCE, .MEMBER_ACCESS] = true ↔
      kind = .VARIABLE ∨ kind = .POINTER_DEREFERENCE ∨ kind = .MEMBER_ACCESS := by
  cases kind <;> simp [KindIsIn]

theorem ValidateVariableAssignment_eq_ok (self s : Validator) (kind : ExpressionKind)
    (type : Option Ty) (LHS RHS e : Expression) :
    self.ValidateVariableAssignment kind type (.ExpressionChildren [LHS, RHS]) = .ok (s, e) ↔
      (LHS.kind = .VARIABLE ∨ LHS.kind = .POINTER_DEREFERENCE ∨ LHS.kind = .MEMBER_ACCESS) ∧
      ∃ s1 LHS' lhsType RHS' rhsType,
        self.ValidateExpression LHS = .ok (s1, LHS') ∧
        s1.ValidateExpression RHS = .ok (s, RHS') ∧
        LHS'.type = some lhsType ∧ RHS'.type = some rhsType ∧
        TypeIsSame lhsType rhsType = .ok true ∧
        e = .mk kind (some lhsType) (.ExpressionChildren [LHS', RHS']) := by
  rw [Validator.ValidateVariableAssignment]
  constructor
  · intro h
    simp only [bind_eq_ok, VERIFY_eq_ok, optional_value_eq_ok, pure_eq_ok, Prod.mk.injEq,
      exists_and_left, exists_const, Prod.exists, KindIsIn_assignable] at h
    obtain ⟨hk, s1, LHS', hl, s2, RHS', hr, -, lhsType, hlt, rhsType, hrt, same, hsame, rfl,
      rfl, rfl⟩ := h
    exact ⟨hk, s1, LHS', lhsType, RHS', rhsType, hl, hr, hlt, hrt, hsame, rfl⟩
  · rintro ⟨hk, s1, LHS', lhsType, RHS', rhsType, hl, hr, hlt, hrt, hsame, rfl⟩
    simp only [(KindIsIn_assignable LHS.kind).mpr hk, hl, hr, hlt, hrt, hsame, bind_ok,
      optional_value, VERIFY_true, Option.isSome_some]
    rfl

/-- C8. `ValidateVariableAssignment` on a node with the children `LHS` and `RHS` succeeds iff
the kind of `LHS` is Variable, PointerDereference or MemberAccess and both sides validate (the
right one in the state the left one leaves) to structurally equal types; the node
then has the type of the validated `LHS`; an `LHS` of any other kind is rejected with the
`ValidatorError` `Assignment LHS is not a variable or a pointer dereference`, as the
assignments `1 = 2` and `a[0] = 1` are. `ValidateExpression` sends VariableAssignment to
it. -/
theorem C8_ValidateVariableAssignment (self : Validator) (kind : ExpressionKind)
    (type : Option Ty) (LHS RHS : Expression) :
    ((∃ r, self.ValidateVariableAssignment kind type (.ExpressionChildren [LHS, RHS]) = .ok r) ↔
      (LHS.kind = .VARIABLE ∨ LHS.kind = .POINTER_DEREFERENCE ∨ LHS.kind = .MEMBER_ACCESS) ∧
      ∃ s1 LHS' lhsType s2 RHS' rhsType,
        self.ValidateExpression LHS = .ok (s1, LHS') ∧
        s1.ValidateExpression RHS = .ok (s2, RHS') ∧
        LHS'.type = some lhsType ∧ RHS'.type = some rhsType ∧
        StructurallyEqual lhsType rhsType = true) ∧
    (∀ s e,
      self.ValidateVariableAssignment kind type (.ExpressionChildren [LHS, RHS]) = .ok (s, e) →
      ∃ s1 LHS' lhsType, self.ValidateExpression LHS = .ok (s1, LHS') ∧
        LHS'.type = some lhsType ∧ e.type = some lhsType) ∧
    (¬ (LHS.kind = .VARIABLE ∨ LHS.kind = .POINTER_DEREFERENCE ∨ LHS.kind = .MEMBER_ACCESS) →
      self.ValidateVariableAssignment kind type (.ExpressionChildren [LHS, RHS]) =
        .error (.invalid_argument (self._currentFunction.name ++ ": " ++
          "Assignment LHS is not a variable or a pointer dereference"))) ∧
    (∀ value, self.ValidateExpression (.mk .VARIABLE_ASSIGNMENT type value) =
      self.ValidateVariableAssignment .VARIABLE_ASSIGNMENT type value) ∧
    Validator.new.ValidateFunction
      { prototype := { name := "f", arguments := [], returnType := .BuiltinType .void_t }
        body := node .SCOPE [node .VARIABLE_ASSIGNMENT [intLiteral 1, intLiteral 2]] } =
      .error (.invalid_argument "f: Assignment LHS is not a variable or a pointer dereference") ∧
    Validator.new.ValidateFunction
      { prototype :=
          { name := "f", arguments := [{ name := "a", type := .Pointer i64 }],
            returnType := .BuiltinType .void_t }
        body := node .SCOPE [node .VARIABLE_ASSIGNMENT
          [node .ARRAY_SUBSCRIPT [variableRef "a", intLiteral 0], intLiteral 1]] } =
      .error (.invalid_argument
        "f: Assignment LHS is not a variable or a pointer dereference") := by
  refine ⟨⟨?_, ?_⟩, ?_, ?_, ?_, rfl, rfl⟩
  · rintro ⟨⟨s, e⟩, h⟩
    obtain ⟨hk, s1, LHS', lhsType, RHS', rhsType, hl, hr, hlt, hrt, hsame, -⟩ :=
      (ValidateVariableAssignment_eq_ok self s kind type LHS RHS e).mp h
    exact ⟨hk, s1, LHS', lhsType, s, RHS', rhsType, hl, hr, hlt, hrt,
      (TypeIsSame_eq_ok_true_iff lhsType rhsType).mp hsame⟩
  · rintro ⟨hk, s1, LHS', lhsType, s2, RHS', rhsType, hl, hr, hlt, hrt, hsame⟩
    exact ⟨_, (ValidateVariableAssignment_eq_ok self s2 kind type LHS RHS _).mpr
      ⟨hk, s1, LHS', lhsType, RHS', rhsType, hl, hr, hlt, hrt,
        (TypeIsSame_eq_ok_true_iff lhsType rhsType).mpr hsame, rfl⟩⟩
  · intro s e h
    obtain ⟨-, s1, LHS', lhsType, RHS', rhsType, hl, -, hlt, -, -, he⟩ :=
      (ValidateVariableAssignment_eq_ok self s kind type LHS RHS e).mp h
    exact ⟨s1, LHS', lhsType, hl, hlt, by rw [he]; rfl⟩
  · intro hk
    have hk' : KindIsIn LHS.kind [.VARIABLE, .POINTER_DEREFERENCE, .MEMBER_ACCESS] = false := by
      rw [← Bool.not_eq_true, KindIsIn_assignable]
      exact hk
    rw [Validator.ValidateVariableAssignment]
    simp only [hk', VERIFY_false, bind_error, Validator.ValidatorError]
  · intro value
    rw [Validator.ValidateExpression]

/-- Witness of C8: the assignment `1 = 2`, whose left side is a Literal, validated by a new
validator. -/
theorem C8_ValidateVariableAssignment_witness :
    Validator.new.ValidateVariableAssignment .VARIABLE_ASSIGNMENT none
        (.ExpressionChildren [intLiteral 1, intLiteral 2]) =
      .error (.invalid_argument (Validator.new._currentFunction.name ++ ": " ++
        "Assignment LHS is not a variable or a pointer dereference")) :=
  (C8_ValidateVariableAssignment Validator.new .VARIABLE_ASSIGNMENT none (intLiteral 1)
    (intLiteral 2)).2.2.1 (by decide)


/-! ## Claim C9: return -/

theorem TypeIsBuiltinOf_eq_true (t : Ty) (b : BuiltinTypeEnum) :
    TypeIsBuiltinOf t b = true ↔ t = .BuiltinType b := by
  cases t with
  | BuiltinType x => simp [TypeIsBuiltinOf]
  | Array e n => simp [TypeIsBuiltinOf]
  | Struct fs => simp [TypeIsBuiltinOf]
  | Pointer p => simp [TypeIsBuiltinOf]

theorem ValidateReturn_one_eq_ok (self s : Validator) (kind : ExpressionKind)
    (type : Option Ty) (expr e : Expression) :
    self.ValidateReturn kind type (.ExpressionChildren [expr]) = .ok (s, e) ↔
      ∃ expr' exprType,
        self.ValidateExpression expr = .ok (s, expr') ∧ expr'.type = some exprType ∧
        TypeIsSame exprType self._currentFunction.returnType = .ok true ∧
        e = .mk kind (some exprType) (.ExpressionChildren [expr']) := by
  rw [Validator.ValidateReturn]
  constructor
  · intro h
    simp only [bind_eq_ok, VERIFY_eq_ok, optional_value_eq_ok, pure_eq_ok, Prod.mk.injEq,
      exists_and_left, exists_const, Prod.exists] at h
    obtain ⟨s1, expr', hx, -, exprType, hty, same, hsame, rfl, rfl, rfl⟩ := h
    rw [ValidateExpression_currentFunction self s1 expr expr' hx] at hsame
    exact ⟨expr', exprType, hx, hty, hsame, by rw [hty]⟩
  · rintro ⟨expr', exprType, hx, hty, hsame, rfl⟩
    rw [← ValidateExpression_currentFunction self s expr expr' hx] at hsame
    simp only [hx, hty, hsame, bind_ok, optional_value, VERIFY_true, Option.isSome_some]
    rfl

/-- C9. `ValidateReturn`: a Return without child validates iff the return type of the current
function is void, and then has that type and leaves the state as it is; a Return with one child
validates iff the child validates to a type structurally equal to the return type of the
current function, and then has the type of the child; a Return with more than one child is
rejected with a `ValidatorError`. `ValidateExpression` sends Return to it. In S1 `return 0`
validates with the i64 Literal 0 as the single child. -/
theorem C9_ValidateReturn (self : Validator) (kind : ExpressionKind) (type : Option Ty) :
    ((∃ r, self.ValidateReturn kind type (.ExpressionChildren []) = .ok r) ↔
      self._currentFunction.returnType = .BuiltinType .void_t) ∧
    (∀ s e, self.ValidateReturn kind type (.ExpressionChildren []) = .ok (s, e) →
      s = self ∧ e = .mk kind (some (.BuiltinType .void_t)) (.ExpressionChildren [])) ∧
    (∀ expr, (∃ r, self.ValidateReturn kind type (.ExpressionChildren [expr]) = .ok r) ↔
      ∃ s1 expr' exprType,
        self.ValidateExpression expr = .ok (s1, expr') ∧ expr'.type = some exprType ∧
        StructurallyEqual exprType self._currentFunction.returnType = true) ∧
    (∀ expr s e, self.ValidateReturn kind type (.ExpressionChildren [expr]) = .ok (s, e) →
      ∃ expr', self.ValidateExpression expr = .ok (s, expr') ∧
        e = .mk kind expr'.type (.ExpressionChildren [expr'])) ∧
    (∀ first second rest,
      self.ValidateReturn kind type (.ExpressionChildren (first :: second :: rest)) =
        .error (.invalid_argument (self._currentFunction.name ++ ": " ++
          "Return contains more than 1 expression"))) ∧
    (∀ value, self.ValidateExpression (.mk .RETURN type value) =
      self.ValidateReturn .RETURN type value) ∧
    (Validator.new.ValidateFunction S1).map (fun r => r.2.body) = .ok
      (.mk .SCOPE none (.ExpressionChildren [
        .mk .RETURN (some i64) (.ExpressionChildren [
          .mk .LITERAL (some i64) (.int64_t 0)])])) := by
  refine ⟨⟨?_, ?_⟩, ?_, ?_, ?_, ?_, ?_, rfl⟩
  · rintro ⟨⟨s, e⟩, h⟩
    rw [Validator.ValidateReturn] at h
    simp only [bind_eq_ok, VERIFY_eq_ok, exists_and_left, exists_const,
      TypeIsBuiltinOf_eq_true] at h
    exact h.1
  · intro hv
    rw [Validator.ValidateReturn]
    simp only [(TypeIsBuiltinOf_eq_true _ _).mpr hv, VERIFY_true, bind_ok]
    exact ⟨_, rfl⟩
  · intro s e h
    rw [Validator.ValidateReturn] at h
    simp only [bind_eq_ok, VERIFY_eq_ok, pure_eq_ok, Prod.mk.injEq, exists_and_left,
      exists_const, TypeIsBuiltinOf_eq_true] at h
    obtain ⟨hv, rfl, rfl⟩ := h
    rw [hv]
    exact ⟨rfl, rfl⟩
  · intro expr
    constructor
    · rintro ⟨⟨s, e⟩, h⟩
      obtain ⟨expr', exprType, hx, hty, hsame, -⟩ :=
        (ValidateReturn_one_eq_ok self s kind type expr e).mp h
      exact ⟨s, expr', exprType, hx, hty, (TypeIsSame_eq_ok_true_iff _ _).mp hsame⟩
    · rintro ⟨s1, expr', exprType, hx, hty, hsame⟩
      exact ⟨_, (ValidateReturn_one_eq_ok self s1 kind type expr _).mpr
        ⟨expr', exprType, hx, hty, (TypeIsSame_eq_ok_true_iff _ _).mpr hsame, rfl⟩⟩
  · intro expr s e h
    obtain ⟨expr', exprType, hx, hty, -, he⟩ :=
      (ValidateReturn_one_eq_ok self s kind type expr e).mp h
    exact ⟨expr', hx, by rw [he, hty]⟩
  · intro first second rest
    rw [Validator.ValidateReturn]
    · rfl
    · intro h; cases h
    · intro expr h; cases h
  · intro value
    rw [Validator.ValidateExpression]


/-! ## Claim C10: member access -/

/-- The loop of `ValidateMemberAccess` returns the first field whose name is the one looked
for. -/
theorem findStructField_eq_find? (fieldName : String) (fields : List StructField) :
    findStructField fieldName fields =
      fields.find? (fun targetField => decide (targetField.name = fieldName)) := by
  induction fields with
  | nil => rfl
  | cons f rest ih =>
    by_cases h : f.name = fieldName
    · simp [findStructField, List.find?, h]
    · simp [findStructField, List.find?, h, ih]

theorem findStructField_isSome (fieldName : String) (fields : List StructField) :
    (∃ targetField, findStructField fieldName fields = some targetField) ↔
      ∃ targetField ∈ fields, targetField.name = fieldName := by
  rw [findStructField_eq_find?]
  constructor
  · rintro ⟨f, hf⟩
    exact ⟨f, List.mem_of_find?_eq_some hf, by simpa using List.find?_some hf⟩
  · rintro ⟨f, hf, hn⟩
    cases hfind : fields.find? (fun targetField => decide (targetField.name = fieldName)) with
    | some g => exact ⟨g, rfl⟩
    | none =>
      have := List.find?_eq_none.mp hfind f hf
      simp [hn] at this

theorem ValidateMemberAccess_eq_ok (self s : Validator) (kind : ExpressionKind)
    (type : Option Ty) (target field e : Expression) :
    self.ValidateMemberAccess kind type (.ExpressionChildren [target, field]) = .ok (s, e) ↔
      ∃ target' fields fieldName targetField,
        self.ValidateExpression target = .ok (s, target') ∧
        target'.type = some (.Struct fields) ∧
        field.kind = .VARIABLE ∧ field.value = .string fieldName ∧
        findStructField fieldName fields = some targetField ∧
        e = .mk kind (some targetField.fieldType) (.ExpressionChildren
          [target', .mk field.kind (some targetField.fieldType) field.value]) := by
  rw [Validator.ValidateMemberAccess]
  constructor
  · intro h
    simp only [bind_eq_ok, VERIFY_eq_ok, optional_value_eq_ok, exists_and_left, exists_const,
      Prod.exists] at h
    obtain ⟨s1, target', ht, -, targetType, hty, h⟩ := h
    cases targetType with
    | Struct fields =>
      simp only [bind_eq_ok, VERIFY_eq_ok, exists_and_left, exists_const, Bool.and_eq_true,
        beq_iff_eq] at h
      obtain ⟨⟨hk, hholds⟩, fieldName, hname, h⟩ := h
      cases hv : field.value with
      | string nm =>
        rw [hv] at hname
        simp only [ExpressionValue.getString, Except.ok.injEq] at hname
        subst hname
        cases hf : findStructField nm fields with
        | none => rw [hf] at h; cases h
        | some targetField =>
          rw [hf] at h
          simp only [pure_eq_ok, Prod.mk.injEq] at h
          obtain ⟨rfl, rfl⟩ := h
          exact ⟨target', fields, nm, targetField, ht, hty, hk, rfl, hf, by rw [hv]⟩
      | _ => rw [hv] at hholds; simp [ExpressionValue.holdsString] at hholds
    | BuiltinType b => cases h
    | Array el n => cases h
    | Pointer p => cases h
  · rintro ⟨target', fields, fieldName, targetField, ht, hty, hk, hv, hf, rfl⟩
    simp only [ht, hty, hk, hv, hf, bind_ok, optional_value, VERIFY_true, Option.isSome_some,
      ExpressionValue.holdsString, ExpressionValue.getString, beq_self_eq_true, Bool.and_self]
    rfl

/-- C10. `ValidateMemberAccess` on a node with the children `target` and `field` succeeds iff
`target` validates to a record type, `field` is a Variable node that holds a string, and some
field of the record has that string as its name; on success the node and its field child both
get the type of the first field of the record with that name (in S4 `p.x` and `x` get i64).
When `target` validates to a type that is no record the error is
`Member access target is not a struct`, and when no field of the record has the name it is
`Unknown struct field`. `ValidateExpression` sends MemberAccess to it. -/
theorem C10_ValidateMemberAccess (self : Validator) (kind : ExpressionKind) (type : Option Ty)
    (target field : Expression) :
    ((∃ r, self.ValidateMemberAccess kind type (.ExpressionChildren [target, field]) = .ok r) ↔
      ∃ s1 target' fields fieldName,
        self.ValidateExpression target = .ok (s1, target') ∧
        target'.type = some (.Struct fields) ∧
        field.kind = .VARIABLE ∧ field.value = .string fieldName ∧
        ∃ targetField ∈ fields, targetField.name = fieldName) ∧
    (∀ s e,
      self.ValidateMemberAccess kind type (.ExpressionChildren [target, field]) = .ok (s, e) →
      ∃ target' fields fieldName targetField field',
        self.ValidateExpression target = .ok (s, target') ∧
        target'.type = some (.Struct fields) ∧ field.value = .string fieldName ∧
        fields.find? (fun f => decide (f.name = fieldName)) = some targetField ∧
        e = .mk kind (some targetField.fieldType) (.ExpressionChildren [target', field']) ∧
        field' = .mk field.kind (some targetField.fieldType) field.value ∧
        e.type = some targetField.fieldType ∧ field'.type = some targetField.fieldType) ∧
    (∀ s1 target' targetType, self.ValidateExpression target = .ok (s1, target') →
      target'.type = some targetType → TypeIsStruct targetType = false →
      self.ValidateMemberAccess kind type (.ExpressionChildren [target, field]) =
        .error (.invalid_argument (self._currentFunction.name ++ ": " ++
          "Member access target is not a struct"))) ∧
    (∀ s1 target' fields fieldName, self.ValidateExpression target = .ok (s1, target') →
      target'.type = some (.Struct fields) → field.kind = .VARIABLE →
      field.value = .string fieldName → (∀ targetField ∈ fields, targetField.name ≠ fieldName) →
      self.ValidateMemberAccess kind type (.ExpressionChildren [target, field]) =
        .error (.invalid_argument (self._currentFunction.name ++ ": " ++
          "Unknown struct field"))) ∧
    (∀ value, self.ValidateExpression (.mk .MEMBER_ACCESS type value) =
      self.ValidateMemberAccess .MEMBER_ACCESS type value) ∧
    (Validator.new.ValidateFunction S4).map (fun r => r.2.body) = .ok
      (.mk .SCOPE none (.ExpressionChildren [
        .mk .RETURN (some i64) (.ExpressionChildren [
          .mk .MEMBER_ACCESS (some i64) (.ExpressionChildren [
            .mk .VARIABLE (some S4_P) (.string "p"),
            .mk .VARIABLE (some i64) (.string "x")])])])) := by
  refine ⟨⟨?_, ?_⟩, ?_, ?_, ?_, ?_, rfl⟩
  · rintro ⟨⟨s, e⟩, h⟩
    obtain ⟨target', fields, fieldName, targetField, ht, hty, hk, hv, hf, -⟩ :=
      (ValidateMemberAccess_eq_ok self s kind type target field e).mp h
    exact ⟨s, target', fields, fieldName, ht, hty, hk, hv,
      (findStructField_isSome fieldName fields).mp ⟨targetField, hf⟩⟩
  · rintro ⟨s1, target', fields, fieldName, ht, hty, hk, hv, hex⟩
    obtain ⟨targetField, hf⟩ := (findStructField_isSome fieldName fields).mpr hex
    exact ⟨_, (ValidateMemberAccess_eq_ok self s1 kind type target field _).mpr
      ⟨target', fields, fieldName, targetField, ht, hty, hk, hv, hf, rfl⟩⟩
  · intro s e h
    obtain ⟨target', fields, fieldName, targetField, ht, hty, hk, hv, hf, he⟩ :=
      (ValidateMemberAccess_eq_ok self s kind type target field e).mp h
    rw [findStructField_eq_find?] at hf
    exact ⟨target', fields, fieldName, targetField, _, ht, hty, hv, hf, he, rfl,
      by rw [he]; rfl, rfl⟩
  · intro s1 target' targetType ht hty hns
    have hname := ValidateExpression_currentFunction self s1 target target' ht
    rw [Validator.ValidateMemberAccess]
    simp only [ht, hty, bind_ok, optional_value, VERIFY_true, Option.isSome_some]
    cases targetType with
    | Struct fields => simp [TypeIsStruct] at hns
    | BuiltinType b => simp only [Validator.ValidatorError, hname]
    | Array el n => simp only [Validator.ValidatorError, hname]
    | Pointer p => simp only [Validator.ValidatorError, hname]
  · intro s1 target' fields fieldName ht hty hk hv hnone
    have hname := ValidateExpression_currentFunction self s1 target target' ht
    have hf : findStructField fieldName fields = none := by
      cases hfind : findStructField fieldName fields with
      | none => rfl
      | some g =>
        obtain ⟨f, hf, hn⟩ := (findStructField_isSome fieldName fields).mp ⟨g, hfind⟩
        exact absurd hn (hnone f hf)
    rw [Validator.ValidateMemberAccess]
    simp only [ht, hty, hk, hv, hf, bind_ok, optional_value, VERIFY_true, Option.isSome_some,
      ExpressionValue.holdsString, ExpressionValue.getString, beq_self_eq_true, Bool.and_self,
      Validator.ValidatorError, hname]
  · intro value
    rw [Validator.ValidateExpression]


/-! ## Claim C11 -/

theorem ValidateScope_kind_eq (self s : Validator) (kind : ExpressionKind) (type : Option Ty)
    (value : ExpressionValue) (e : Expression)
    (h : self.ValidateScope kind type value = .ok (s, e)) : e.kind = kind := by
  unfold Validator.ValidateScope at h
  split at h
  · simp only [bind_eq_ok, pure_eq_ok, Prod.mk.injEq, Prod.exists] at h
    obtain ⟨_, _, _, _, _, -, rfl⟩ := h
    rfl
  · simp only [bind_eq_ok] at h
    obtain ⟨_, _, h⟩ := h
    cases h

theorem ValidateConditionalLoop_eq_ok :
    ∀ (rest : List Expression) (self s : Validator) (out : List Expression),
      self.ValidateConditionalLoop rest = .ok (s, out) →
      (∀ c ∈ conditionsOf out, c.type = some (.BuiltinType .boolean)) ∧
      (∀ b ∈ bodiesOf rest, b.kind = .SCOPE) ∧
      List.Forall₂ (fun c c' => ∃ s1 s2 : Validator, s1.ValidateExpression c = .ok (s2, c'))
        (conditionsOf rest) (conditionsOf out) := by
  intro rest
  induction rest using list_two_step with
  | h0 =>
    intro self s out h
    rw [Validator.ValidateConditionalLoop] at h
    cases h
    simp [conditionsOf, bodiesOf]
  | h1 a =>
    intro self s out h
    obtain ⟨k, t, v⟩ := a
    rw [Validator.ValidateConditionalLoop] at h
    simp only [bind_eq_ok, pure_eq_ok, VERIFY_eq_ok, Prod.mk.injEq, Prod.exists, beq_iff_eq] at h
    obtain ⟨_, hk, s1, body, -, -, rfl⟩ := h
    simp [conditionsOf, bodiesOf, hk, Expression.kind]
  | h2 a b l ih =>
    intro self s out h
    obtain ⟨k, t, v⟩ := b
    rw [Validator.ValidateConditionalLoop] at h
    simp only [bind_eq_ok, pure_eq_ok, VERIFY_eq_ok, optional_value_eq_ok, Prod.mk.injEq,
      Prod.exists, beq_iff_eq, TypeIsBuiltinOf_eq_true] at h
    obtain ⟨s1, c', hc, _, -, ty, hty, _, hbool, _, hk, s2, body, -, s3, out', hrest, -, rfl⟩ := h
    obtain ⟨h1, h2, h3⟩ := ih s2 s3 out' hrest
    subst hbool
    refine ⟨?_, ?_, ?_⟩
    · intro c hc'
      simp only [conditionsOf, List.mem_cons] at hc'
      rcases hc' with rfl | hc'
      · exact hty
      · exact h1 c hc'
    · intro b hb
      simp only [bodiesOf, List.mem_cons] at hb
      rcases hb with rfl | hb
      · exact hk
      · exact h2 b hb
    · simp only [conditionsOf]
      exact List.Forall₂.cons ⟨self, s1, hc⟩ h3

theorem ValidateConditional_eq_ok (self s : Validator) (kind : ExpressionKind) (type : Option Ty)
    (children : List Expression) (e : Expression)
    (h : self.ValidateConditional kind type (.ExpressionChildren children) = .ok (s, e)) :
    2 ≤ children.length ∧
    ∃ out, e = .mk kind type (.ExpressionChildren out) ∧
      (∀ c ∈ conditionsOf out, c.type = some (.BuiltinType .boolean)) ∧
      (∀ b ∈ bodiesOf children, b.kind = .SCOPE) ∧
      List.Forall₂ (fun c c' => ∃ s1 s2 : Validator, s1.ValidateExpression c = .ok (s2, c'))
        (conditionsOf children) (conditionsOf out) := by
  have step := ValidateConditionalLoop_eq_ok children self s
  match children, h, step with
  | [], h, _ => simp [Validator.ValidateConditional] at h
  | [_], h, _ => simp [Validator.ValidateConditional] at h
  | a :: .mk k t v :: l, h, step =>
    refine ⟨by simp, ?_⟩
    rw [Validator.ValidateConditional] at h
    rw [Validator.ValidateConditionalLoop] at step
    simp only [bind_eq_ok, pure_eq_ok, VERIFY_eq_ok, Prod.mk.injEq, Prod.exists] at h
    obtain ⟨s1, c', hc, u1, h1, ty, hty, u2, h2, u3, h3, s2, body, hbody, s3, out', hrest, rfl, rfl⟩ := h
    refine ⟨c' :: body :: out', rfl, ?_⟩
    apply step (c' :: body :: out')
    simp only [bind_eq_ok, pure_eq_ok, VERIFY_eq_ok, Prod.mk.injEq, Prod.exists]
    exact ⟨s1, c', hc, u1, h1, ty, hty, u2, h2, u3, h3, s2, body, hbody, s3, out', hrest, rfl, rfl⟩

theorem KindIsIn_scope (kind : ExpressionKind) :
    KindIsIn kind [.SCOPE] = true ↔ kind = .SCOPE := by
  cases kind <;> simp [KindIsIn]

theorem ValidateExpression_scope_kind (self s : Validator) (e e' : Expression)
    (h : self.ValidateExpression e = .ok (s, e')) : e'.kind = .SCOPE ↔ e.kind = .SCOPE := by
  constructor
  · intro hk
    rcases ValidateExpression_kind self s e e' h with h1 | h1
    · rw [← h1]; exact hk
    · rw [h1] at hk; cases hk
  · intro hk
    obtain ⟨k, t, v⟩ := e
    simp only [Expression.kind] at hk
    subst hk
    rw [Validator.ValidateExpression] at h
    exact ValidateScope_kind_eq _ _ _ _ _ _ h

theorem ValidateForLoop_eq_ok (self s : Validator) (kind : ExpressionKind) (type : Option Ty)
    (children : List Expression) (e : Expression) :
    self.ValidateForLoop kind type (.ExpressionChildren children) = .ok (s, e) ↔
    ∃ init cond post body init' cond' post' body' s1 s2 s3,
      children = [init, cond, post, body] ∧
      self.ValidateExpression init = .ok (s1, init') ∧
      s1.ValidateExpression cond = .ok (s2, cond') ∧
      cond'.type = some (.BuiltinType .boolean) ∧
      s2.ValidateExpression post = .ok (s3, post') ∧
      s3.ValidateExpression body = .ok (s, body') ∧
      body.kind = .SCOPE ∧
      e = .mk kind type (.ExpressionChildren [init', cond', post', body']) := by
  constructor
  · intro h
    unfold Validator.ValidateForLoop at h
    split at h
    · rename_i init cond post body heq
      cases heq
      simp only [bind_eq_ok, pure_eq_ok, VERIFY_eq_ok, optional_value_eq_ok, Prod.mk.injEq,
        Prod.exists, TypeIsBuiltinOf_eq_true, KindIsIn_scope] at h
      obtain ⟨s1, init', hi, s2, cond', hc, _, -, ty, hty, _, hb, s3, post', hp, s4, body',
        hbody, _, hk, rfl, rfl⟩ := h
      subst hb
      exact ⟨init, cond, post, body, init', cond', post', body', s1, s2, s3, rfl, hi, hc, hty, hp,
        hbody, (ValidateExpression_scope_kind _ _ _ _ hbody).mp hk, rfl⟩
    · cases h
    · rename_i hne
      exact absurd rfl (hne children)
  · rintro ⟨init, cond, post, body, init', cond', post', body', s1, s2, s3, rfl, hi, hc, hty, hp,
      hbody, hk, rfl⟩
    rw [Validator.ValidateForLoop]
    simp only [bind_eq_ok, pure_eq_ok, VERIFY_eq_ok, optional_value_eq_ok, Prod.mk.injEq,
      Prod.exists, TypeIsBuiltinOf_eq_true, KindIsIn_scope]
    exact ⟨s1, init', hi, s2, cond', hc, (), by simp [hty], _, hty, (), rfl, s3, post', hp, s, body',
      hbody, (), (ValidateExpression_scope_kind _ _ _ _ hbody).mpr hk, rfl, rfl⟩

/-- C11. Conditions must be boolean. When a Conditional validates, it has at least two
children, every condition (the children at even indices that are followed by a body) has
been validated to type bool, and every body (the else body included) is a Scope. A ForLoop
validates exactly when it has four children that validate in order, the condition to type
bool, and the body is a Scope. A first condition or loop condition that validates to any
other type, or to none, is rejected with an error of the validator. The functions
`conditionalFunction` and `S5` validate; `if 1:` and a loop with the condition `i` of
type i64 are rejected. -/
theorem C11_conditions_must_be_boolean (self : Validator) (type : Option Ty) :
    (∀ (children : List Expression) (s : Validator) (e : Expression),
      self.ValidateExpression (.mk .CONDITIONAL type (.ExpressionChildren children)) = .ok (s, e) →
      2 ≤ children.length ∧
      ∃ out, e = .mk .CONDITIONAL type (.ExpressionChildren out) ∧
        (∀ c ∈ conditionsOf out, c.type = some (.BuiltinType .boolean)) ∧
        (∀ b ∈ bodiesOf children, b.kind = .SCOPE) ∧
        List.Forall₂ (fun c c' => ∃ s1 s2 : Validator, s1.ValidateExpression c = .ok (s2, c'))
          (conditionsOf children) (conditionsOf out)) ∧
    (∀ (children : List Expression) (s : Validator) (e : Expression),
      self.ValidateExpression (.mk .FOR_LOOP type (.ExpressionChildren children)) = .ok (s, e) ↔
      ∃ init cond post body init' cond' post' body' s1 s2 s3,
        children = [init, cond, post, body] ∧
        self.ValidateExpression init = .ok (s1, init') ∧
        s1.ValidateExpression cond = .ok (s2, cond') ∧
        cond'.type = some (.BuiltinType .boolean) ∧
        s2.ValidateExpression post = .ok (s3, post') ∧
        s3.ValidateExpression body = .ok (s, body') ∧
        body.kind = .SCOPE ∧
        e = .mk .FOR_LOOP type (.ExpressionChildren [init', cond', post', body'])) ∧
    (∀ (cond body : Expression) (rest : List Expression) (s1 : Validator) (cond' : Expression),
      self.ValidateExpression cond = .ok (s1, cond') →
      cond'.type ≠ some (.BuiltinType .boolean) →
      self.ValidateExpression (.mk .CONDITIONAL type (.ExpressionChildren (cond :: body :: rest))) =
        .error (s1.ValidatorError "Condition is not a boolean")) ∧
    (∀ (init cond post body : Expression) (s1 s2 : Validator) (init' cond' : Expression),
      self.ValidateExpression init = .ok (s1, init') →
      s1.ValidateExpression cond = .ok (s2, cond') →
      cond'.type ≠ some (.BuiltinType .boolean) →
      ∃ message, self.ValidateExpression
        (.mk .FOR_LOOP type (.ExpressionChildren [init, cond, post, body])) =
        .error (s2.ValidatorError message)) ∧
    (Validator.new.ValidateFunction conditionalFunction).toBool = true ∧
    (Validator.new.ValidateFunction S5).toBool = true ∧
    Validator.new.ValidateFunction integerCondition =
      .error (.invalid_argument "f: Condition is not a boolean") ∧
    Validator.new.ValidateFunction integerLoopCondition =
      .error (.invalid_argument "f: For loop condition expression is not a boolean") := by
  refine ⟨?_, ?_, ?_, ?_, rfl, rfl, rfl, rfl⟩
  · intro children s e h
    rw [Validator.ValidateExpression] at h
    exact ValidateConditional_eq_ok self s _ type children e h
  · intro children s e
    rw [Validator.ValidateExpression]
    exact ValidateForLoop_eq_ok self s _ type children e
  · intro cond body rest s1 cond' hc hty
    obtain ⟨k, t, v⟩ := body
    rw [Validator.ValidateExpression, Validator.ValidateConditional, hc]
    simp only [bind_ok]
    rcases hct : cond'.type with _ | ty
    · rfl
    · have hb : TypeIsBuiltinOf ty .boolean = false := by
        cases hx : TypeIsBuiltinOf ty .boolean
        · rfl
        · rw [TypeIsBuiltinOf_eq_true] at hx
          exact absurd (hct.trans (congrArg some hx)) hty
      simp only [Option.isSome, VERIFY_true, bind_ok, optional_value, hb, VERIFY_false, bind_error]
  · intro init cond post body s1 s2 init' cond' hi hc hty
    rw [Validator.ValidateExpression, Validator.ValidateForLoop, hi]
    simp only [bind_ok, hc]
    rcases hct : cond'.type with _ | ty
    · exact ⟨_, rfl⟩
    · have hb : TypeIsBuiltinOf ty .boolean = false := by
        cases hx : TypeIsBuiltinOf ty .boolean
        · rfl
        · rw [TypeIsBuiltinOf_eq_true] at hx
          exact absurd (hct.trans (congrArg some hx)) hty
      simp only [Option.isSome, VERIFY_true, bind_ok, optional_value, hb, VERIFY_false, bind_error]
      exact ⟨_, rfl⟩

/-! ## Claims C12 and C13 -/

theorem negateInt64_eq_neg (v : Int) (hlo : -2 ^ 63 < v) (hhi : v < 2 ^ 63) :
    negateInt64 v = -v := by
  unfold negateInt64
  have h : (-v + 2 ^ 63) % 2 ^ 64 = -v + 2 ^ 63 := Int.emod_eq_of_lt (by omega) (by omega)
  omega

theorem KindIsIn_literal (kind : ExpressionKind) :
    KindIsIn kind [.LITERAL] = true ↔ kind = .LITERAL := by
  cases kind <;> simp [KindIsIn]

/-- C12. Negation folding. Validating `Negate[Literal v]` with the literal of type i64
succeeds, leaves the state as it is and rewrites the node to a Literal of type i64 whose
value is the 64-bit negation of `v`, which is `-v` for every `v` whose negation is an
`int64_t`. A Negate whose operand is not a Literal is rejected before the operand is looked
at, and a Negate of a Literal whose type is not a signed integer is rejected; the types u64,
bool, char, pointer to char, every array and every record are not signed integers. -/
theorem C12_negation_folding (self : Validator) (type : Option Ty) :
    (∀ v : Int, self.ValidateExpression (.mk .NEGATE type (.ExpressionChildren
        [.mk .LITERAL (some (.BuiltinType .i64)) (.int64_t v)])) =
      .ok (self, .mk .LITERAL (some (.BuiltinType .i64)) (.int64_t (negateInt64 v)))) ∧
    (∀ v : Int, -2 ^ 63 < v → v < 2 ^ 63 → negateInt64 v = -v) ∧
    (∀ operand : Expression, operand.kind ≠ .LITERAL →
      self.ValidateExpression (.mk .NEGATE type (.ExpressionChildren [operand])) =
        .error (self.ValidatorError "Negate operand is not a variable")) ∧
    (∀ (t : Ty) (value : ExpressionValue), (TypeIsInteger t && TypeIsSigned t) = false →
      self.ValidateExpression (.mk .NEGATE type (.ExpressionChildren
        [.mk .LITERAL (some t) value])) =
        .error (self.ValidatorError "Negate operand is not an signed integer type")) ∧
    (∀ (elementType : Ty) (size : Nat) (fields : List StructField),
      ∀ t ∈ [Ty.BuiltinType .u64, .BuiltinType .boolean, .BuiltinType .character,
          .Pointer (.BuiltinType .character), .Array elementType size, .Struct fields],
        (TypeIsInteger t && TypeIsSigned t) = false) := by
  refine ⟨?_, negateInt64_eq_neg, ?_, ?_, ?_⟩
  · intro v
    rfl
  · intro operand hk
    have hf : KindIsIn operand.kind [.LITERAL] = false := by
      cases hx : KindIsIn operand.kind [.LITERAL]
      · rfl
      · exact absurd ((KindIsIn_literal _).mp hx) hk
    rw [Validator.ValidateExpression, Validator.ValidateNegate]
    simp only [hf, VERIFY_false, bind_error]
  · intro t value ht
    rw [Validator.ValidateExpression, Validator.ValidateNegate]
    simp only [Expression.kind, KindIsIn, beq_self_eq_true, Bool.true_or, VERIFY_true, bind_ok]
    rw [Validator.ValidateExpression]
    simp only [Validator.ValidateLiteral, Expression.type, Option.isSome, VERIFY_true, bind_ok,
      pure, Except.pure, optional_value, ht, VERIFY_false, bind_error]
  · intro elementType size fields t ht
    simp only [List.mem_cons, List.mem_singleton, List.not_mem_nil, or_false] at ht
    rcases ht with rfl | rfl | rfl | rfl | rfl | rfl <;> rfl

/-- C13, at the expression the parser builds for `-(-(5))`: in every state the validation
of `Negate[Negate[Literal i64 5]]` is rejected, because the operand of the outer Negate is
a Negate when its kind is checked, before it has been validated; so the function
`doubleNegation` is rejected. Each of the two negations alone is folded. -/
theorem C13_double_negation_rejected (self : Validator) :
    self.ValidateExpression (node .NEGATE [node .NEGATE [intLiteral 5]]) =
      .error (self.ValidatorError "Negate operand is not a variable") ∧
    Validator.new.ValidateFunction doubleNegation =
      .error (.invalid_argument "f: Negate operand is not a variable") ∧
    self.ValidateExpression (node .NEGATE [intLiteral 5]) = .ok (self, intLiteral (-5)) ∧
    self.ValidateExpression (node .NEGATE [intLiteral (-5)]) = .ok (self, intLiteral 5) :=
  ⟨rfl, rfl, rfl, rfl⟩

/-! ## What validation establishes at every node it visits

A property of kind and type that holds of every typed node other than a Negate, and of
the statement nodes whatever their type, holds after validation at every node that
`ValidateExpression` has visited. -/

theorem all_mk (skip : ExpressionKind → Bool) (p : ExpressionKind → Option Ty → Bool)
    (kind : ExpressionKind) (type : Option Ty) (children : List Expression)
    (hp : p kind type = true) (hc : Expression.allList skip p children = true) :
    Expression.all skip p (.mk kind type (.ExpressionChildren children)) = true := by
  rw [Expression.all, ExpressionValue.all, hp, hc]
  simp

theorem all_skipped (skip : ExpressionKind → Bool) (p : ExpressionKind → Option Ty → Bool)
    (kind : ExpressionKind) (type : Option Ty) (value : ExpressionValue)
    (hp : p kind type = true) (hs : skip kind = true) :
    Expression.all skip p (.mk kind type value) = true := by
  rw [Expression.all, hp, hs]
  simp

theorem allList_cons (skip : ExpressionKind → Bool) (p : ExpressionKind → Option Ty → Bool)
    (e : Expression) (rest : List Expression) (he : Expression.all skip p e = true)
    (hr : Expression.allList skip p rest = true) :
    Expression.allList skip p (e :: rest) = true := by
  rw [Expression.allList, he, hr]
  rfl

theorem allList_nil (skip : ExpressionKind → Bool) (p : ExpressionKind → Option Ty → Bool) :
    Expression.allList skip p [] = true := by
  rw [Expression.allList]

theorem ValidateScopeLoop_all (p : ExpressionKind → Option Ty → Bool) :
    ∀ (children : List Expression), (∀ c ∈ children, Deep p c) →
    ∀ (self s : Validator) (out : List Expression),
      self.ValidateScopeLoop children = .ok (s, out) →
      Expression.allList childrenSkipped p out = true := by
  intro children
  induction children with
  | nil =>
    intro _ self s out h
    rw [Validator.ValidateScopeLoop] at h
    cases h
    exact allList_nil _ _
  | cons c rest ih =>
    intro hd self s out h
    rw [Validator.ValidateScopeLoop] at h
    simp only [bind_eq_ok, pure_eq_ok, Prod.mk.injEq, Prod.exists] at h
    obtain ⟨s1, c', hc, s2, rest', hrest, -, rfl⟩ := h
    exact allList_cons _ _ _ _ (hd c (List.mem_cons_self _ _) self s1 c' hc)
      (ih (fun x hx => hd x (List.mem_cons_of_mem _ hx)) s1 s2 rest' hrest)

theorem ValidateScope_all (p : ExpressionKind → Option Ty → Bool) (hp : Established p)
    (self s : Validator) (kind : ExpressionKind) (type : Option Ty) (value : ExpressionValue)
    (e : Expression) (hk : kind = .SCOPE)
    (ih : ∀ c ∈ ExpressionValue.children value, Deep p c)
    (h : self.ValidateScope kind type value = .ok (s, e)) :
    Expression.all childrenSkipped p e = true := by
  subst hk
  unfold Validator.ValidateScope at h
  split at h
  · simp only [bind_eq_ok, pure_eq_ok, Prod.mk.injEq, Prod.exists] at h
    obtain ⟨_, _, s1, out, hloop, -, rfl⟩ := h
    exact all_mk _ _ _ _ _ (hp.statement _ _ rfl) (ValidateScopeLoop_all p _ ih _ _ _ hloop)
  · simp only [bind_eq_ok] at h
    obtain ⟨_, _, h⟩ := h
    cases h

theorem Deep_scope (p : ExpressionKind → Option Ty → Bool) (type : Option Ty)
    (value : ExpressionValue) (h : Deep p (.mk .SCOPE type value)) (self s : Validator)
    (e : Expression) (hv : self.ValidateScope .SCOPE type value = .ok (s, e)) :
    Expression.all childrenSkipped p e = true := by
  apply h self s e
  rw [Validator.ValidateExpression]
  exact hv

theorem ValidateConditionalLoop_all (p : ExpressionKind → Option Ty → Bool) :
    ∀ (rest : List Expression), (∀ c ∈ rest, Deep p c) →
    ∀ (self s : Validator) (out : List Expression),
      self.ValidateConditionalLoop rest = .ok (s, out) →
      Expression.allList childrenSkipped p out = true := by
  intro rest
  induction rest using list_two_step with
  | h0 =>
    intro _ self s out h
    rw [Validator.ValidateConditionalLoop] at h
    cases h
    exact allList_nil _ _
  | h1 a =>
    intro hd self s out h
    obtain ⟨k, t, v⟩ := a
    rw [Validator.ValidateConditionalLoop] at h
    simp only [bind_eq_ok, pure_eq_ok, VERIFY_eq_ok, Prod.mk.injEq, Prod.exists, beq_iff_eq] at h
    obtain ⟨_, hk, s1, body, hbody, -, rfl⟩ := h
    subst hk
    exact allList_cons _ _ _ _ (Deep_scope p t v (hd _ (List.mem_cons_self _ _)) _ _ _ hbody)
      (allList_nil _ _)
  | h2 a b l ih =>
    intro hd self s out h
    obtain ⟨k, t, v⟩ := b
    rw [Validator.ValidateConditionalLoop] at h
    simp only [bind_eq_ok, pure_eq_ok, VERIFY_eq_ok, optional_value_eq_ok, Prod.mk.injEq,
      Prod.exists, beq_iff_eq] at h
    obtain ⟨s1, c', hc, _, -, ty, -, _, -, _, hk, s2, body, hbody, s3, out', hrest, -, rfl⟩ := h
    subst hk
    have hb : Deep p (.mk .SCOPE t v) := hd _ (List.mem_cons_of_mem _ (List.mem_cons_self _ _))
    exact allList_cons _ _ _ _ (hd a (List.mem_cons_self _ _) self s1 c' hc)
      (allList_cons _ _ _ _ (Deep_scope p t v hb _ _ _ hbody)
        (ih (fun x hx => hd x (List.mem_cons_of_mem _ (List.mem_cons_of_mem _ hx))) _ _ _ hrest))

theorem ArgumentsAccepted_all (p : ExpressionKind → Option Ty → Bool) :
    ∀ (parameters : List FunctionArgument) (arguments : List Expression),
    (∀ c ∈ arguments, Deep p c) →
    ∀ (self s : Validator) (out : List Expression),
      ArgumentsAccepted self parameters arguments s out →
      Expression.allList childrenSkipped p out = true := by
  intro parameters
  induction parameters with
  | nil =>
    intro arguments _ self s out h
    cases arguments with
    | nil =>
      obtain ⟨-, rfl⟩ := h
      exact allList_nil _ _
    | cons a rest => exact absurd h (by simp [ArgumentsAccepted])
  | cons q qs ih =>
    intro arguments hd self s out h
    cases arguments with
    | nil => exact absurd h (by simp [ArgumentsAccepted])
    | cons a rest =>
      obtain ⟨s1, a', _, rest', ha, -, -, hrest, rfl⟩ := h
      exact allList_cons _ _ _ _ (hd a (List.mem_cons_self _ _) self s1 a' ha)
        (ih rest (fun x hx => hd x (List.mem_cons_of_mem _ hx)) s1 s rest' hrest)

theorem all_skipped_value (p : ExpressionKind → Option Ty → Bool)
    (kind : ExpressionKind) (type : Option Ty) (value : ExpressionValue)
    (hp : p kind type = true) (hv : ExpressionValue.children value = []) :
    Expression.all childrenSkipped p (.mk kind type value) = true := by
  cases value with
  | ExpressionChildren children =>
    simp only [ExpressionValue.children] at hv
    subst hv
    exact all_mk _ _ _ _ _ hp (allList_nil _ _)
  | _ => simp [Expression.all, ExpressionValue.all, hp]

theorem all_two (p : ExpressionKind → Option Ty → Bool) (kind : ExpressionKind)
    (type : Option Ty) (a b : Expression) (hp : p kind type = true)
    (ha : Expression.all childrenSkipped p a = true)
    (hb : Expression.all childrenSkipped p b = true) :
    Expression.all childrenSkipped p (.mk kind type (.ExpressionChildren [a, b])) = true :=
  all_mk _ _ _ _ _ hp (allList_cons _ _ _ _ ha (allList_cons _ _ _ _ hb (allList_nil _ _)))

theorem all_one (p : ExpressionKind → Option Ty → Bool) (kind : ExpressionKind)
    (type : Option Ty) (a : Expression) (hp : p kind type = true)
    (ha : Expression.all childrenSkipped p a = true) :
    Expression.all childrenSkipped p (.mk kind type (.ExpressionChildren [a])) = true :=
  all_mk _ _ _ _ _ hp (allList_cons _ _ _ _ ha (allList_nil _ _))

theorem ValidateVariableAssignment_all (p : ExpressionKind → Option Ty → Bool)
    (hp : Established p) (self s : Validator) (kind : ExpressionKind) (type : Option Ty)
    (value : ExpressionValue) (e : Expression) (hk : kind ≠ .NEGATE)
    (ih : ∀ c ∈ ExpressionValue.children value, Deep p c)
    (h : self.ValidateVariableAssignment kind type value = .ok (s, e)) :
    Expression.all childrenSkipped p e = true := by
  unfold Validator.ValidateVariableAssignment at h
  split at h
  · rename_i LHS RHS
    simp only [bind_eq_ok, pure_eq_ok, VERIFY_eq_ok, optional_value_eq_ok, Prod.mk.injEq,
      Prod.exists] at h
    obtain ⟨_, -, s1, LHS', hl, s2, RHS', hr, _, -, lhsType, -, rhsType, -, same, -, _, -, -, rfl⟩ := h
    exact all_two p _ _ _ _ (hp.typed _ _ hk) (ih LHS (by simp [ExpressionValue.children]) _ _ _ hl)
      (ih RHS (by simp [ExpressionValue.children]) _ _ _ hr)
  · cases h
  · cases h

theorem ValidateVariableDeclaration_all (p : ExpressionKind → Option Ty → Bool)
    (hp : Established p) (self s : Validator) (kind : ExpressionKind) (type : Option Ty)
    (value : ExpressionValue) (e : Expression) (hk : kind ≠ .NEGATE)
    (ih : ∀ c ∈ ExpressionValue.children value, Deep p c)
    (h : self.ValidateVariableDeclaration kind type value = .ok (s, e)) :
    Expression.all childrenSkipped p e = true := by
  unfold Validator.ValidateVariableDeclaration at h
  split at h
  · rename_i LHS RHS
    simp only [bind_eq_ok, pure_eq_ok, VERIFY_eq_ok, optional_value_eq_ok, Prod.mk.injEq,
      Prod.exists, beq_iff_eq, getString_eq_ok] at h
    obtain ⟨_, hlk, _, -, lhsType, hlt, _, -, s1, RHS', hr, _, -, rhsType, -, same, -, _, -,
      name, hname, s2, -, -, rfl⟩ := h
    obtain ⟨k, t, v⟩ := LHS
    simp only [Expression.kind, Expression.type, Expression.value] at hlk hlt hname
    subst hlk hlt hname
    refine all_two p _ _ _ _ (hp.typed _ _ hk) ?_ (ih RHS (by simp [ExpressionValue.children]) _ _ _ hr)
    exact all_skipped_value p _ _ _ (hp.typed _ _ (by decide)) rfl
  · cases h
  · cases h

theorem ValidateReturn_all (p : ExpressionKind → Option Ty → Bool)
    (hp : Established p) (self s : Validator) (kind : ExpressionKind) (type : Option Ty)
    (value : ExpressionValue) (e : Expression) (hk : kind ≠ .NEGATE)
    (ih : ∀ c ∈ ExpressionValue.children value, Deep p c)
    (h : self.ValidateReturn kind type value = .ok (s, e)) :
    Expression.all childrenSkipped p e = true := by
  unfold Validator.ValidateReturn at h
  split at h
  · simp only [bind_eq_ok, pure_eq_ok, VERIFY_eq_ok, Prod.mk.injEq] at h
    obtain ⟨_, -, -, rfl⟩ := h
    exact all_mk _ _ _ _ _ (hp.typed _ _ hk) (allList_nil _ _)
  · rename_i expr
    simp only [bind_eq_ok, pure_eq_ok, VERIFY_eq_ok, optional_value_eq_ok, Prod.mk.injEq,
      Prod.exists] at h
    obtain ⟨s1, expr', hx, _, -, exprType, hty, same, -, _, -, -, rfl⟩ := h
    rw [hty]
    exact all_one p _ _ _ (hp.typed _ _ hk) (ih expr (by simp [ExpressionValue.children]) _ _ _ hx)
  · cases h
  · cases h

theorem ValidateConditional_all (p : ExpressionKind → Option Ty → Bool)
    (hp : Established p) (self s : Validator) (kind : ExpressionKind) (type : Option Ty)
    (value : ExpressionValue) (e : Expression) (hk : kind = .CONDITIONAL)
    (ih : ∀ c ∈ ExpressionValue.children value, Deep p c)
    (h : self.ValidateConditional kind type value = .ok (s, e)) :
    Expression.all childrenSkipped p e = true := by
  subst hk
  unfold Validator.ValidateConditional at h
  split at h
  · rename_i cond k t v rest
    simp only [bind_eq_ok, pure_eq_ok, VERIFY_eq_ok, optional_value_eq_ok, Prod.mk.injEq,
      Prod.exists, beq_iff_eq] at h
    obtain ⟨s1, c', hc, _, -, ty, -, _, -, _, hks, s2, body, hbody, s3, out', hrest, -, rfl⟩ := h
    subst hks
    have hb : Deep p (.mk .SCOPE t v) := ih _ (by simp [ExpressionValue.children])
    exact all_mk _ _ _ _ _ (hp.statement _ _ rfl)
      (allList_cons _ _ _ _ (ih cond (by simp [ExpressionValue.children]) self s1 c' hc)
        (allList_cons _ _ _ _ (Deep_scope p t v hb _ _ _ hbody)
          (ValidateConditionalLoop_all p rest
            (fun x hx => ih x (by simp [ExpressionValue.children, hx])) _ _ _ hrest)))
  · cases h
  · cases h

theorem ValidateArithmetic_all (p : ExpressionKind → Option Ty → Bool)
    (hp : Established p) (self s : Validator) (kind : ExpressionKind) (type : Option Ty)
    (value : ExpressionValue) (e : Expression) (hk : kind ≠ .NEGATE)
    (ih : ∀ c ∈ ExpressionValue.children value, Deep p c)
    (h : self.ValidateArithmetic kind type value = .ok (s, e)) :
    Expression.all childrenSkipped p e = true := by
  unfold Validator.ValidateArithmetic at h
  split at h
  · rename_i LHS RHS
    have h' : self.ValidateArithmetic kind type (.ExpressionChildren [LHS, RHS]) = .ok (s, e) := by
      rw [Validator.ValidateArithmetic]; exact h
    rw [ValidateArithmetic_eq_ok] at h'
    obtain ⟨s1, LHS', lhsType, RHS', rhsType, hl, -, hr, -, -, -, rfl⟩ := h'
    exact all_two p _ _ _ _ (hp.typed _ _ hk) (ih LHS (by simp [ExpressionValue.children]) _ _ _ hl)
      (ih RHS (by simp [ExpressionValue.children]) _ _ _ hr)
  · cases h
  · cases h

theorem ValidateComparison_all (p : ExpressionKind → Option Ty → Bool)
    (hp : Established p) (self s : Validator) (kind : ExpressionKind) (type : Option Ty)
    (value : ExpressionValue) (e : Expression) (hk : kind ≠ .NEGATE)
    (ih : ∀ c ∈ ExpressionValue.children value, Deep p c)
    (h : self.ValidateComparison kind type value = .ok (s, e)) :
    Expression.all childrenSkipped p e = true := by
  unfold Validator.ValidateComparison at h
  split at h
  · rename_i LHS RHS
    simp only [bind_eq_ok, pure_eq_ok, VERIFY_eq_ok, optional_value_eq_ok, Prod.mk.injEq,
      Prod.exists] at h
    obtain ⟨s1, LHS', hl, s2, RHS', hr, lhsType, -, rhsType, -, same, -, _, -, _, -, -, rfl⟩ := h
    exact all_two p _ _ _ _ (hp.typed _ _ hk) (ih LHS (by simp [ExpressionValue.children]) _ _ _ hl)
      (ih RHS (by simp [ExpressionValue.children]) _ _ _ hr)
  · cases h
  · cases h

theorem ValidateLogical_all (p : ExpressionKind → Option Ty → Bool)
    (hp : Established p) (self s : Validator) (kind : ExpressionKind) (type : Option Ty)
    (value : ExpressionValue) (e : Expression) (hk : kind ≠ .NEGATE)
    (ih : ∀ c ∈ ExpressionValue.children value, Deep p c)
    (h : self.ValidateLogical kind type value = .ok (s, e)) :
    Expression.all childrenSkipped p e = true := by
  unfold Validator.ValidateLogical at h
  split at h
  · rename_i LHS RHS
    simp only [bind_eq_ok, pure_eq_ok, VERIFY_eq_ok, optional_value_eq_ok, Prod.mk.injEq,
      Prod.exists] at h
    obtain ⟨s1, LHS', hl, s2, RHS', hr, lhsType, hlt, rhsType, -, same, -, _, -, _, -, -, rfl⟩ := h
    rw [hlt]
    exact all_two p _ _ _ _ (hp.typed _ _ hk) (ih LHS (by simp [ExpressionValue.children]) _ _ _ hl)
      (ih RHS (by simp [ExpressionValue.children]) _ _ _ hr)
  · cases h
  · cases h

theorem ValidatePostInc_all (p : ExpressionKind → Option Ty → Bool)
    (hp : Established p) (self s : Validator) (kind : ExpressionKind) (type : Option Ty)
    (value : ExpressionValue) (e : Expression) (hk : kind ≠ .NEGATE)
    (ih : ∀ c ∈ ExpressionValue.children value, Deep p c)
    (h : self.ValidatePostInc kind type value = .ok (s, e)) :
    Expression.all childrenSkipped p e = true := by
  unfold Validator.ValidatePostInc at h
  split at h
  · rename_i operand
    simp only [bind_eq_ok, pure_eq_ok, VERIFY_eq_ok, optional_value_eq_ok, Prod.mk.injEq,
      Prod.exists] at h
    obtain ⟨_, -, s1, operand', ho, _, -, operandType, hty, _, -, -, rfl⟩ := h
    rw [hty]
    exact all_one p _ _ _ (hp.typed _ _ hk) (ih operand (by simp [ExpressionValue.children]) _ _ _ ho)
  · cases h
  · cases h

theorem ValidatePointerDereference_all (p : ExpressionKind → Option Ty → Bool)
    (hp : Established p) (self s : Validator) (kind : ExpressionKind) (type : Option Ty)
    (value : ExpressionValue) (e : Expression) (hk : kind ≠ .NEGATE)
    (ih : ∀ c ∈ ExpressionValue.children value, Deep p c)
    (h : self.ValidatePointerDereference kind type value = .ok (s, e)) :
    Expression.all childrenSkipped p e = true := by
  unfold Validator.ValidatePointerDereference at h
  split at h
  · rename_i operand
    simp only [bind_eq_ok, VERIFY_eq_ok, optional_value_eq_ok, Prod.exists] at h
    obtain ⟨s1, operand', ho, _, -, operandType, hty, h⟩ := h
    split at h
    · simp only [pure_eq_ok, Prod.mk.injEq] at h
      obtain ⟨-, rfl⟩ := h
      exact all_one p _ _ _ (hp.typed _ _ hk)
        (ih operand (by simp [ExpressionValue.children]) _ _ _ ho)
    · cases h
  · cases h
  · cases h

theorem ValidateArraySubscript_all (p : ExpressionKind → Option Ty → Bool)
    (hp : Established p) (self s : Validator) (kind : ExpressionKind) (type : Option Ty)
    (value : ExpressionValue) (e : Expression) (hk : kind ≠ .NEGATE)
    (ih : ∀ c ∈ ExpressionValue.children value, Deep p c)
    (h : self.ValidateArraySubscript kind type value = .ok (s, e)) :
    Expression.all childrenSkipped p e = true := by
  unfold Validator.ValidateArraySubscript at h
  split at h
  · rename_i target index
    simp only [bind_eq_ok, VERIFY_eq_ok, optional_value_eq_ok, Prod.exists] at h
    obtain ⟨s1, target', ht, _, -, targetType, -, _, -, s2, index', hi, _, -, indexType, -,
      _, -, h⟩ := h
    have ha := ih target (by simp [ExpressionValue.children]) _ _ _ ht
    have hb := ih index (by simp [ExpressionValue.children]) _ _ _ hi
    split at h
    · simp only [pure_eq_ok, Prod.mk.injEq] at h
      obtain ⟨-, rfl⟩ := h
      exact all_two p _ _ _ _ (hp.typed _ _ hk) ha hb
    · simp only [pure_eq_ok, Prod.mk.injEq] at h
      obtain ⟨-, rfl⟩ := h
      exact all_two p _ _ _ _ (hp.typed _ _ hk) ha hb
    · cases h
  · cases h
  · cases h

theorem ValidateFunctionCall_all (p : ExpressionKind → Option Ty → Bool)
    (hp : Established p) (self s : Validator) (kind : ExpressionKind) (type : Option Ty)
    (value : ExpressionValue) (e : Expression) (hk : kind ≠ .NEGATE)
    (ih : ∀ c ∈ ExpressionValue.children value, Deep p c)
    (h : self.ValidateFunctionCall kind type value = .ok (s, e)) :
    Expression.all childrenSkipped p e = true := by
  unfold Validator.ValidateFunctionCall at h
  split at h
  · rename_i first arguments
    have h' : self.ValidateFunctionCall kind type (.ExpressionChildren (first :: arguments)) = .ok (s, e) := by
      rw [Validator.ValidateFunctionCall]; exact h
    rw [ValidateFunctionCall_eq_ok] at h'
    obtain ⟨callee, prototype, out, hfk, -, -, -, hacc, rfl⟩ := h'
    obtain ⟨k, t, v⟩ := first
    simp only [Expression.kind] at hfk
    subst hfk
    exact all_mk _ _ _ _ _ (hp.typed _ _ hk)
      (allList_cons _ _ _ _ (all_skipped _ _ _ _ _ (hp.statement _ _ rfl) rfl)
        (ArgumentsAccepted_all p _ _
          (fun x hx => ih x (by simp [ExpressionValue.children, hx])) _ _ _ hacc))
  · cases h
  · cases h

theorem ValidateForLoop_all (p : ExpressionKind → Option Ty → Bool)
    (hp : Established p) (self s : Validator) (kind : ExpressionKind) (type : Option Ty)
    (value : ExpressionValue) (e : Expression) (hk : kind = .FOR_LOOP)
    (ih : ∀ c ∈ ExpressionValue.children value, Deep p c)
    (h : self.ValidateForLoop kind type value = .ok (s, e)) :
    Expression.all childrenSkipped p e = true := by
  subst hk
  unfold Validator.ValidateForLoop at h
  split at h
  · rename_i init cond post body
    have h' : self.ValidateForLoop .FOR_LOOP type (.ExpressionChildren [init, cond, post, body]) = .ok (s, e) := by
      rw [Validator.ValidateForLoop]; exact h
    rw [ValidateForLoop_eq_ok] at h'
    obtain ⟨i, c, q, b, i', c', q', b', s1, s2, s3, heq, hi, hc, -, hq, hb, -, rfl⟩ := h'
    simp only [List.cons.injEq, and_true] at heq
    obtain ⟨rfl, rfl, rfl, rfl⟩ := heq
    exact all_mk _ _ _ _ _ (hp.statement _ _ rfl)
      (allList_cons _ _ _ _ (ih _ (by simp [ExpressionValue.children]) _ _ _ hi)
        (allList_cons _ _ _ _ (ih _ (by simp [ExpressionValue.children]) _ _ _ hc)
          (allList_cons _ _ _ _ (ih _ (by simp [ExpressionValue.children]) _ _ _ hq)
            (allList_cons _ _ _ _ (ih _ (by simp [ExpressionValue.children]) _ _ _ hb)
              (allList_nil _ _)))))
  · cases h
  · cases h

theorem ValidateNegate_all (p : ExpressionKind → Option Ty → Bool)
    (hp : Established p) (self s : Validator) (kind : ExpressionKind) (type : Option Ty)
    (value : ExpressionValue) (e : Expression)
    (h : self.ValidateNegate kind type value = .ok (s, e)) :
    Expression.all childrenSkipped p e = true := by
  unfold Validator.ValidateNegate at h
  split at h
  · rename_i operand
    simp only [bind_eq_ok, pure_eq_ok, VERIFY_eq_ok, optional_value_eq_ok, Prod.mk.injEq,
      Prod.exists] at h
    obtain ⟨_, -, s1, operand', -, _, -, operandType, hty, _, -, v, -, -, rfl⟩ := h
    rw [hty]
    exact all_skipped _ _ _ _ _ (hp.typed _ _ (by decide)) rfl
  · cases h
  · cases h

theorem ValidateAddressOf_all (p : ExpressionKind → Option Ty → Bool)
    (hp : Established p) (self s : Validator) (kind : ExpressionKind) (type : Option Ty)
    (value : ExpressionValue) (e : Expression) (hk : kind ≠ .NEGATE)
    (ih : ∀ c ∈ ExpressionValue.children value, Deep p c)
    (h : self.ValidateAddressOf kind type value = .ok (s, e)) :
    Expression.all childrenSkipped p e = true := by
  unfold Validator.ValidateAddressOf at h
  split at h
  · rename_i operand
    simp only [bind_eq_ok, pure_eq_ok, VERIFY_eq_ok, optional_value_eq_ok, Prod.mk.injEq,
      Prod.exists] at h
    obtain ⟨_, -, s1, operand', ho, _, -, operandType, -, -, rfl⟩ := h
    exact all_one p _ _ _ (hp.typed _ _ hk) (ih operand (by simp [ExpressionValue.children]) _ _ _ ho)
  · cases h
  · cases h

theorem ValidateMemberAccess_all (p : ExpressionKind → Option Ty → Bool)
    (hp : Established p) (self s : Validator) (kind : ExpressionKind) (type : Option Ty)
    (value : ExpressionValue) (e : Expression) (hk : kind ≠ .NEGATE)
    (ih : ∀ c ∈ ExpressionValue.children value, Deep p c)
    (h : self.ValidateMemberAccess kind type value = .ok (s, e)) :
    Expression.all childrenSkipped p e = true := by
  unfold Validator.ValidateMemberAccess at h
  split at h
  · rename_i target field
    have h' : self.ValidateMemberAccess kind type (.ExpressionChildren [target, field]) = .ok (s, e) := by
      rw [Validator.ValidateMemberAccess]; exact h
    rw [ValidateMemberAccess_eq_ok] at h'
    obtain ⟨target', fields, fieldName, targetField, ht, -, hfk, hfv, -, rfl⟩ := h'
    refine all_two p _ _ _ _ (hp.typed _ _ hk)
      (ih target (by simp [ExpressionValue.children]) _ _ _ ht) ?_
    rw [hfk, hfv]
    exact all_skipped_value p _ _ _ (hp.typed _ _ (by decide)) rfl
  · cases h
  · cases h

theorem ValidateLiteral_all (p : ExpressionKind → Option Ty → Bool)
    (hp : Established p) (self s : Validator) (type : Option Ty)
    (value : ExpressionValue) (e : Expression)
    (h : self.ValidateLiteral (.mk .LITERAL type value) = .ok (s, e)) :
    Expression.all childrenSkipped p e = true := by
  unfold Validator.ValidateLiteral at h
  simp only [bind_eq_ok, pure_eq_ok, VERIFY_eq_ok, Prod.mk.injEq, Expression.type] at h
  obtain ⟨_, hty, -, rfl⟩ := h
  obtain ⟨t, rfl⟩ := Option.isSome_iff_exists.mp hty
  exact all_skipped _ _ _ _ _ (hp.typed _ _ (by decide)) rfl

theorem ValidateVariable_all (p : ExpressionKind → Option Ty → Bool)
    (hp : Established p) (self s : Validator) (type : Option Ty)
    (value : ExpressionValue) (e : Expression)
    (h : self.ValidateVariable (.mk .VARIABLE type value) = .ok (s, e)) :
    Expression.all childrenSkipped p e = true := by
  unfold Validator.ValidateVariable at h
  simp only [bind_eq_ok, pure_eq_ok, VERIFY_eq_ok, optional_value_eq_ok, Prod.mk.injEq,
    Expression.type, Expression.value, Expression.kind, getString_eq_ok] at h
  obtain ⟨_, -, _, -, name, hname, _, -, _, -, t, -, -, rfl⟩ := h
  subst hname
  exact all_skipped_value p _ _ _ (hp.typed _ _ (by decide)) rfl

/-- Validation establishes at every visited node of its result every property that
holds of the typed nodes other than Negate and of the statement nodes. -/
theorem ValidateExpression_all (p : ExpressionKind → Option Ty → Bool) (hp : Established p) :
    ∀ e, Deep p e := by
  apply Expression.induction
  intro kind type value ih self s e h
  cases kind <;> rw [Validator.ValidateExpression] at h
  case SCOPE => exact ValidateScope_all p hp _ _ _ _ _ _ rfl ih h
  case LITERAL => exact ValidateLiteral_all p hp _ _ _ _ _ h
  case VARIABLE => exact ValidateVariable_all p hp _ _ _ _ _ h
  case VARIABLE_ASSIGNMENT =>
    exact ValidateVariableAssignment_all p hp _ _ _ _ _ _ (by decide) ih h
  case VARIABLE_DECLARATION =>
    exact ValidateVariableDeclaration_all p hp _ _ _ _ _ _ (by decide) ih h
  case RETURN => exact ValidateReturn_all p hp _ _ _ _ _ _ (by decide) ih h
  case CONDITIONAL => exact ValidateConditional_all p hp _ _ _ _ _ _ rfl ih h
  case PLUS_OP => exact ValidateArithmetic_all p hp _ _ _ _ _ _ (by decide) ih h
  case MINUS_OP => exact ValidateArithmetic_all p hp _ _ _ _ _ _ (by decide) ih h
  case DIVIDE_OP => exact ValidateArithmetic_all p hp _ _ _ _ _ _ (by decide) ih h
  case MULTIPLY_OP => exact ValidateArithmetic_all p hp _ _ _ _ _ _ (by decide) ih h
  case GREATER_THAN_OP => exact ValidateComparison_all p hp _ _ _ _ _ _ (by decide) ih h
  case LESS_THAN_OP => exact ValidateComparison_all p hp _ _ _ _ _ _ (by decide) ih h
  case EQUAL_OP => exact ValidateComparison_all p hp _ _ _ _ _ _ (by decide) ih h
  case NOT_EQUAL_OP => exact ValidateComparison_all p hp _ _ _ _ _ _ (by decide) ih h
  case LOGICAL_AND => exact ValidateLogical_all p hp _ _ _ _ _ _ (by decide) ih h
  case LOGICAL_OR => exact ValidateLogical_all p hp _ _ _ _ _ _ (by decide) ih h
  case POST_INC_OP => exact ValidatePostInc_all p hp _ _ _ _ _ _ (by decide) ih h
  case POINTER_DEREFERENCE =>
    exact ValidatePointerDereference_all p hp _ _ _ _ _ _ (by decide) ih h
  case ARRAY_SUBSCRIPT => exact ValidateArraySubscript_all p hp _ _ _ _ _ _ (by decide) ih h
  case FUNCTION_CALL => exact ValidateFunctionCall_all p hp _ _ _ _ _ _ (by decide) ih h
  case FOR_LOOP => exact ValidateForLoop_all p hp _ _ _ _ _ _ rfl ih h
  case NEGATE => exact ValidateNegate_all p hp _ _ _ _ _ _ h
  case ADDRESS_OF => exact ValidateAddressOf_all p hp _ _ _ _ _ _ (by decide) ih h
  case MEMBER_ACCESS => exact ValidateMemberAccess_all p hp _ _ _ _ _ _ (by decide) ih h
  case CONTINUE =>
    cases h
    exact all_skipped _ _ _ _ _ (hp.statement _ _ rfl) rfl
  case BREAK =>
    cases h
    exact all_skipped _ _ _ _ _ (hp.statement _ _ rfl) rfl
  case CALLEE =>
    cases h
    exact all_skipped _ _ _ _ _ (hp.statement _ _ rfl) rfl

theorem ValidateFunction_all (p : ExpressionKind → Option Ty → Bool) (hp : Established p)
    (self s : Validator) (function validated : Function)
    (h : self.ValidateFunction function = .ok (s, validated)) :
    Expression.all childrenSkipped p validated.body = true := by
  unfold Validator.ValidateFunction at h
  simp only [bind_eq_ok, pure_eq_ok, VERIFY_eq_ok, Prod.mk.injEq, Prod.exists] at h
  obtain ⟨_, -, s1, body, hbody, -, rfl⟩ := h
  exact ValidateExpression_all p hp _ _ _ _ hbody

theorem Established_typeSetOrStatement : Established typeSetOrStatement := by
  constructor
  · intro kind t _
    simp [typeSetOrStatement]
  · intro kind t h
    simp [typeSetOrStatement, h]

theorem Established_notNegate : Established notNegate := by
  constructor
  · intro kind t h
    simpa [notNegate] using h
  · intro kind t h
    cases kind <;> simp [notNegate, KindIsIn] at h ⊢

/-! ## Claims C14 and C15 -/

/-- C14, at the function `negateInArray` (`var a: i64[2] = [1, -2]`): it validates, and the
Negate with a literal operand that is the second element of the array literal is still in
the validated body, because `ValidateLiteral` does not validate the elements of a literal.
At the nodes that validation visits, no Negate remains, whatever the function. -/
theorem C14_negate_survives_in_array_literal :
    (Validator.new.ValidateFunction negateInArray).map
      (fun r => (Expression.any isNegateOfLiteral r.2.body,
        Expression.all childrenSkipped notNegate r.2.body)) = .ok (true, true) ∧
    (∀ (self s : Validator) (function validated : Function),
      self.ValidateFunction function = .ok (s, validated) →
      Expression.all childrenSkipped notNegate validated.body = true) :=
  ⟨rfl, fun self s function validated h =>
    ValidateFunction_all notNegate Established_notNegate self s function validated h⟩

/-- C15 fails for Conditional and ForLoop nodes: the functions `conditionalFunction` and
`S5` validate, and in the validated body the Conditional node, or the ForLoop node, has no
type, so that not every node outside of Scope, Callee, Continue and Break has its type
set. -/
theorem C15_conditional_and_for_loop_untyped :
    (Validator.new.ValidateFunction conditionalFunction).map
      (fun r => Expression.all (fun _ => false) typeSet r.2.body) = .ok false ∧
    (Validator.new.ValidateFunction S5).map
      (fun r => Expression.all (fun _ => false) typeSet r.2.body) = .ok false ∧
    (Validator.new.ValidateFunction conditionalFunction).map
      (fun r => Expression.all (fun _ => false) typeSetOrStatement r.2.body) = .ok true ∧
    (Validator.new.ValidateFunction S5).map
      (fun r => Expression.all (fun _ => false) typeSetOrStatement r.2.body) = .ok true :=
  ⟨rfl, rfl, rfl, rfl⟩

/-- C15, amended. After a function validates, every node of its body that is not below a
Literal, Callee, Continue or Break node has its type set, except nodes of kind Scope,
Callee, Continue, Break, Conditional and ForLoop. A validated VariableDeclaration has the
declared type of its variable, and a validated Return without value has the return type of
the current function, which is void. -/
theorem C15_visited_nodes_typed :
    (∀ (self s : Validator) (function validated : Function),
      self.ValidateFunction function = .ok (s, validated) →
      Expression.all childrenSkipped typeSetOrStatement validated.body = true) ∧
    (∀ (self s : Validator) (type T : Option Ty) (name : String) (init e : Expression),
      self.ValidateExpression (.mk .VARIABLE_DECLARATION type
        (.ExpressionChildren [.mk .VARIABLE T (.string name), init])) = .ok (s, e) →
      T.isSome = true ∧ e.type = T) ∧
    (∀ (self s : Validator) (type : Option Ty) (e : Expression),
      self.ValidateExpression (.mk .RETURN type (.ExpressionChildren [])) = .ok (s, e) →
      e.type = some self._currentFunction.returnType ∧
      self._currentFunction.returnType = .BuiltinType .void_t) := by
  refine ⟨?_, ?_, ?_⟩
  · intro self s function validated h
    exact ValidateFunction_all typeSetOrStatement Established_typeSetOrStatement self s function
      validated h
  · intro self s type T name init e h
    rw [Validator.ValidateExpression, ValidateVariableDeclaration_eq_ok] at h
    obtain ⟨t, s1, init', t', back, hT, -, -, -, -, -, -, rfl⟩ := h
    rw [hT]
    exact ⟨rfl, rfl⟩
  · intro self s type e h
    rw [Validator.ValidateExpression, Validator.ValidateReturn] at h
    simp only [bind_eq_ok, pure_eq_ok, VERIFY_eq_ok, Prod.mk.injEq, TypeIsBuiltinOf_eq_true] at h
    obtain ⟨_, hv, -, rfl⟩ := h
    exact ⟨rfl, hv⟩

/-- The elements of a literal are not validated: `variableInArray` (`var a: i64[2] = [1, x]`)
validates, and the Variable `x` in the array literal still has no type. -/
theorem variableInArray_untyped :
    (Validator.new.ValidateFunction variableInArray).map
      (fun r => (Expression.all (fun _ => false) typeSetOrStatement r.2.body,
        Expression.all childrenSkipped typeSetOrStatement r.2.body)) = .ok (false, true) :=
  rfl

/-! ## Claims C18 and C19 -/

theorem StructurallyEqualFields_of_length_ne (fa fb : List StructField)
    (h : fa.length ≠ fb.length) : StructurallyEqualFields fa fb = false := by
  cases hq : StructurallyEqualFields fa fb with
  | false => rfl
  | true => exact absurd (StructurallyEqualFields_length fa fb hq) h

/-- Wherever `TypeIsSame` returns, it returns structural equality; it does not return
when `std::get` throws. -/
theorem TypeIsSame_ok_or_throws (a : Ty) :
    ∀ b, TypeIsSame a b = .ok (StructurallyEqual a b) ∨
      TypeIsSame a b = .error .bad_variant_access := by
  refine @Ty.rec
    (fun a => ∀ b, TypeIsSame a b = .ok (StructurallyEqual a b) ∨
      TypeIsSame a b = .error .bad_variant_access)
    (fun f => ∀ b, TypeIsSame f.fieldType b = .ok (StructurallyEqual f.fieldType b) ∨
      TypeIsSame f.fieldType b = .error .bad_variant_access)
    (fun fa => ∀ fb, fa.length = fb.length →
      (TypeIsSameFields fa fb = .ok (StructurallyEqualFields fa fb) ∨
        TypeIsSameFields fa fb = .error .bad_variant_access))
    ?_ ?_ ?_ ?_ ?_ ?_ ?_ a
  · intro x b
    cases b with
    | BuiltinType y =>
      rw [TypeIsSame, StructurallyEqual]
      by_cases h : x = y <;> simp [h]
    | Array e n => simp [TypeIsSame, StructurallyEqual]
    | Struct fs => simp [TypeIsSame, StructurallyEqual]
    | Pointer p => simp [TypeIsSame, StructurallyEqual]
  · intro ea na ih b
    cases b with
    | Array eb nb =>
      rw [TypeIsSame, StructurallyEqual]
      rcases ih eb with h | h
      · rw [h]
        cases StructurallyEqual ea eb
        · simp
        · by_cases hn : na = nb <;> simp [hn]
      · rw [h]
        simp
    | BuiltinType y => simp [TypeIsSame]
    | Struct fs => simp [TypeIsSame]
    | Pointer p => simp [TypeIsSame]
  · intro fa ih b
    cases b with
    | Struct fb =>
      rw [TypeIsSame, StructurallyEqual]
      by_cases hlen : fa.length = fb.length
      · simp only [hlen, ne_eq, not_true_eq_false, if_false]
        exact ih fb hlen
      · simp only [hlen, ne_eq, not_false_eq_true, if_true]
        rw [StructurallyEqualFields_of_length_ne fa fb hlen]
        exact Or.inl rfl
    | BuiltinType y => simp [TypeIsSame]
    | Array e n => simp [TypeIsSame]
    | Pointer p => simp [TypeIsSame]
  · intro pa ih b
    cases b with
    | Pointer pb =>
      rw [TypeIsSame, StructurallyEqual]
      rcases ih pb with h | h
      · rw [h]
        cases StructurallyEqual pa pb <;> simp
      · rw [h]
        simp
    | BuiltinType y => simp [TypeIsSame, StructurallyEqual]
    | Array e n => simp [TypeIsSame, StructurallyEqual]
    | Struct fs => simp [TypeIsSame, StructurallyEqual]
  · intro name ty ih
    exact ih
  · intro fb hlen
    cases fb with
    | nil => simp [TypeIsSameFields, StructurallyEqualFields]
    | cons b rb => simp at hlen
  · intro f rest ihf ihr fb hlen
    cases fb with
    | nil => simp at hlen
    | cons b rb =>
      obtain ⟨na, ta⟩ := f
      obtain ⟨nb, tb⟩ := b
      have hlen' : rest.length = rb.length := by simpa using hlen
      rw [TypeIsSameFields, StructurallyEqualFields]
      have h1 := ihf tb
      simp only [StructField.fieldType] at h1
      rcases h1 with h | h
      · rw [h]
        cases StructurallyEqual ta tb
        · simp
        · simpa using ihr rb hlen'
      · rw [h]
        simp

theorem TypeIsSameFields_of_forall₂ (fa fb : List StructField)
    (h : List.Forall₂ (fun f g => TypeIsSame f.fieldType g.fieldType = .ok true) fa fb) :
    TypeIsSameFields fa fb = .ok true := by
  induction h with
  | nil => simp [TypeIsSameFields]
  | @cons f g ra rb hfg _ ih =>
    obtain ⟨na, ta⟩ := f
    obtain ⟨nb, tb⟩ := g
    simp only [StructField.fieldType] at hfg
    rw [TypeIsSameFields, hfg]
    exact ih

/-- C18, at the types `i64[1]` and `i64`, and in general. `TypeIsSame` returns `true`
exactly on the structurally equal pairs, and whenever it returns it returns structural
equality; but with an Array or a Record on the left and another variant on the right it
does not return `false`: `std::get` throws `bad_variant_access`. With the variants the other
way round it returns `false`. -/
theorem C18_TypeIsSame_throws_on_mixed_variants :
    TypeIsSame (.Array i64 1) i64 = .error .bad_variant_access ∧
    TypeIsSame i64 (.Array i64 1) = .ok false ∧
    (∀ (elementType : Ty) (size : Nat) (b : Ty), TypeIsArray b = false →
      TypeIsSame (.Array elementType size) b = .error .bad_variant_access) ∧
    (∀ (fields : List StructField) (b : Ty), TypeIsStruct b = false →
      TypeIsSame (.Struct fields) b = .error .bad_variant_access) ∧
    (∀ a b : Ty, TypeIsSame a b = .ok true ↔ StructurallyEqual a b = true) ∧
    (∀ a b : Ty, TypeIsSame a b = .ok (StructurallyEqual a b) ∨
      TypeIsSame a b = .error .bad_variant_access) := by
  refine ⟨rfl, rfl, ?_, ?_, TypeIsSame_eq_ok_true_iff, TypeIsSame_ok_or_throws⟩
  · intro elementType size b hb
    cases b <;> simp [TypeIsSame, TypeIsArray] at hb ⊢
  · intro fields b hb
    cases b <;> simp [TypeIsSame, TypeIsStruct] at hb ⊢


/-! ## Claim C16: how failures are reported -/

theorem Reports_error {α : Type} (name : String) (s1 : Validator)
    (h : s1._currentFunction.name = name) (message : String) :
    Reports name (Except.error (s1.ValidatorError message) : Except Exception (Validator × α)) := by
  constructor
  · intro ex hex
    cases hex
    exact ⟨message, by rw [h]⟩
  · intro s a hs; cases hs

theorem Reports_error_library {α : Type} (name : String) (ex : Exception)
    (h : Prefixed name ex) :
    Reports name (Except.error ex : Except Exception (Validator × α)) := by
  constructor
  · intro ex' hex
    cases hex
    exact h
  · intro s a hs; cases hs

theorem Reports_pure {α : Type} (name : String) (s1 : Validator) (a : α)
    (h : s1._currentFunction.name = name) :
    Reports name (Pure.pure (s1, a) : Except Exception (Validator × α)) := by
  constructor
  · intro ex hex; cases hex
  · intro s b hb
    simp only [pure_eq_ok, Prod.mk.injEq] at hb
    rw [← hb.1, h]

theorem Reports_ok {α : Type} (name : String) (s1 : Validator) (a : α)
    (h : s1._currentFunction.name = name) :
    Reports name (Except.ok (s1, a) : Except Exception (Validator × α)) :=
  Reports_pure name s1 a h

theorem bind_eq_error {α β : Type} (x : Except Exception α) (f : α → Except Exception β)
    (ex : Exception) :
    (x >>= f) = .error ex ↔ x = .error ex ∨ ∃ a, x = .ok a ∧ f a = .error ex := by
  cases x <;> simp [bind, Except.bind]

theorem Reports_bind_state {α β : Type} (name : String)
    (m : Except Exception (Validator × β)) (f : Validator × β → Except Exception (Validator × α))
    (hm : Reports name m)
    (h : ∀ s1 b, s1._currentFunction.name = name → Reports name (f (s1, b))) :
    Reports name (m >>= f) := by
  constructor
  · intro ex hex
    rcases (bind_eq_error m f ex).mp hex with h1 | ⟨⟨s1, b⟩, h1, h2⟩
    · exact hm.failure ex h1
    · exact (h s1 b (hm.success s1 b h1)).failure ex h2
  · intro s a hs
    obtain ⟨⟨s1, b⟩, h1, h2⟩ := (bind_eq_ok m f (s, a)).mp hs
    exact (h s1 b (hm.success s1 b h1)).success s a h2

theorem Reports_bind_plain {α β : Type} (name : String) (x : Except Exception β)
    (f : β → Except Exception (Validator × α))
    (hx : ∀ ex, x = .error ex → Prefixed name ex) (h : ∀ b, Reports name (f b)) :
    Reports name (x >>= f) := by
  constructor
  · intro ex hex
    rcases (bind_eq_error x f ex).mp hex with h1 | ⟨b, -, h2⟩
    · exact hx ex h1
    · exact (h b).failure ex h2
  · intro s a hs
    obtain ⟨b, -, h2⟩ := (bind_eq_ok x f (s, a)).mp hs
    exact (h b).success s a h2

theorem VERIFY_prefixed (name : String) (s1 : Validator) (h : s1._currentFunction.name = name)
    (condition : Bool) (message : String) :
    ∀ ex, s1.VERIFY condition message = .error ex → Prefixed name ex := by
  intro ex hex
  cases condition
  · cases hex
    exact ⟨message, by rw [h]⟩
  · cases hex

theorem Reports_bind_VERIFY {α : Type} (name : String) (s1 : Validator)
    (h1 : s1._currentFunction.name = name) (condition : Bool) (message : String)
    (f : Unit → Except Exception (Validator × α)) (h : condition = true → Reports name (f ())) :
    Reports name (s1.VERIFY condition message >>= f) := by
  cases condition
  · rw [VERIFY_false, bind_error]
    exact Reports_error name s1 h1 message
  · rw [VERIFY_true, bind_ok]
    exact h rfl

theorem optional_value_prefixed {α : Type} (name : String) (o : Option α) :
    ∀ ex, optional_value o = .error ex → Prefixed name ex := by
  intro ex hex
  cases o
  · cases hex; trivial
  · cases hex

theorem TypeIsSame_prefixed (name : String) (a b : Ty) :
    ∀ ex, TypeIsSame a b = .error ex → Prefixed name ex := by
  intro ex hex
  rcases TypeIsSame_ok_or_throws a b with h | h
  · rw [h] at hex; cases hex
  · rw [h] at hex; cases hex; trivial

theorem getString_prefixed (name : String) (value : ExpressionValue) :
    ∀ ex, value.getString = .error ex → Prefixed name ex := by
  intro ex hex
  cases value <;> simp only [ExpressionValue.getString] at hex <;> cases hex <;> trivial

theorem getInt64_prefixed (name : String) (value : ExpressionValue) :
    ∀ ex, value.getInt64 = .error ex → Prefixed name ex := by
  intro ex hex
  cases value <;> simp only [ExpressionValue.getInt64] at hex <;> cases hex <;> trivial

theorem Reports_bind_assign {α : Type} (name : String) (s1 : Validator)
    (h1 : s1._currentFunction.name = name) (variableName : String) (type : Ty)
    (f : Validator → Except Exception (Validator × α))
    (h : ∀ s2, s2._currentFunction.name = name → Reports name (f s2)) :
    Reports name (s1.assignInBackScope variableName type >>= f) := by
  have hs : ∀ s2, s1.assignInBackScope variableName type = .ok s2 →
      s2._currentFunction.name = name := by
    intro s2 h2
    rw [assignInBackScope_eq_ok] at h2
    obtain ⟨back, -, rfl⟩ := h2
    exact h1
  constructor
  · intro ex hex
    rcases (bind_eq_error _ f ex).mp hex with h2 | ⟨s2, h2, h3⟩
    · unfold Validator.assignInBackScope at h2
      split at h2
      · cases h2; trivial
      · cases h2
    · exact (h s2 (hs s2 h2)).failure ex h3
  · intro s a hsa
    obtain ⟨s2, h2, h3⟩ := (bind_eq_ok _ f (s, a)).mp hsa
    exact (h s2 (hs s2 h2)).success s a h3

theorem Reported_at (c : Expression) (hc : Reported c) (name : String) (s1 : Validator)
    (h : s1._currentFunction.name = name) : Reports name (s1.ValidateExpression c) := by
  subst h
  exact hc s1

theorem Reported_at_scope (kind : ExpressionKind) (type : Option Ty) (value : ExpressionValue)
    (hc : Reported (.mk kind type value)) (hk : (kind == .SCOPE) = true) (name : String)
    (s1 : Validator) (h : s1._currentFunction.name = name) :
    Reports name (s1.ValidateScope kind type value) := by
  have hk' : kind = .SCOPE := by simpa using hk
  subst hk'
  rw [← Validator.ValidateExpression.eq_1]
  exact Reported_at _ hc name s1 h

theorem ValidateScopeLoop_reports (l : List Expression) (ih : ∀ c ∈ l, Reported c) :
    ∀ (name : String) (s1 : Validator), s1._currentFunction.name = name →
      Reports name (s1.ValidateScopeLoop l) := by
  induction l with
  | nil =>
    intro name s1 h
    rw [Validator.ValidateScopeLoop]
    exact Reports_ok name s1 _ h
  | cons c rest ihl =>
    intro name s1 h
    rw [Validator.ValidateScopeLoop]
    apply Reports_bind_state _ _ _ (Reported_at c (ih c (List.mem_cons_self _ _)) name s1 h)
    intro s2 c' h2
    apply Reports_bind_state _ _ _ (ihl (fun d hd => ih d (List.mem_cons_of_mem _ hd)) name s2 h2)
    intro s3 r' h3
    exact Reports_pure name s3 _ h3

theorem ValidateScope_reports (self : Validator) (kind : ExpressionKind) (type : Option Ty)
    (value : ExpressionValue) (ih : ∀ c ∈ ExpressionValue.children value, Reported c) :
    Reports self._currentFunction.name (self.ValidateScope kind type value) := by
  unfold Validator.ValidateScope
  split
  · rename_i children
    apply Reports_bind_VERIFY _ _ rfl; intro _
    show Reports self._currentFunction.name
      (Validator.ValidateScopeLoop { self with _scopes := self._scopes ++ [{ vars := [] }] }
        children >>= _)
    apply Reports_bind_state _ _ _ (ValidateScopeLoop_reports children ih
      self._currentFunction.name { self with _scopes := self._scopes ++ [{ vars := [] }] } rfl)
    intro s2 out h2
    exact Reports_pure _ _ _ h2
  · apply Reports_bind_VERIFY _ _ rfl; intro _
    exact Reports_error _ _ rfl _

theorem ValidateConditionalLoop_reports (l : List Expression) :
    (∀ c ∈ l, Reported c) →
    ∀ (name : String) (s1 : Validator), s1._currentFunction.name = name →
      Reports name (s1.ValidateConditionalLoop l) := by
  induction l using list_two_step with
  | h0 =>
    intro _ name s1 h
    rw [Validator.ValidateConditionalLoop]
    exact Reports_ok name s1 _ h
  | h1 c =>
    intro ih name s1 h
    obtain ⟨k, t, v⟩ := c
    rw [Validator.ValidateConditionalLoop]
    apply Reports_bind_VERIFY _ _ h
    intro hk
    apply Reports_bind_state _ _ _
      (Reported_at_scope k t v (ih _ (List.mem_singleton_self _)) hk name s1 h)
    intro s2 b h2
    exact Reports_pure name s2 _ h2
  | h2 c d rest ihl =>
    intro ih name s1 h
    obtain ⟨k, t, v⟩ := d
    rw [Validator.ValidateConditionalLoop]
    apply Reports_bind_state _ _ _ (Reported_at c (ih c (List.mem_cons_self _ _)) name s1 h)
    intro s2 c' h2
    apply Reports_bind_VERIFY _ _ h2; intro _
    apply Reports_bind_plain _ _ _ (optional_value_prefixed _ _); intro _
    apply Reports_bind_VERIFY _ _ h2; intro _
    apply Reports_bind_VERIFY _ _ h2; intro hk
    apply Reports_bind_state _ _ _
      (Reported_at_scope k t v (ih _ (by simp)) hk name s2 h2)
    intro s3 b h3
    apply Reports_bind_state _ _ _
      (ihl (fun x hx => ih x (by simp [hx])) name s3 h3)
    intro s4 r h4
    exact Reports_pure name s4 _ h4

theorem ValidateFunctionCallLoop_reports (l : List Expression) (ih : ∀ c ∈ l, Reported c) :
    ∀ (parameters : List FunctionArgument) (name : String) (s1 : Validator),
      s1._currentFunction.name = name →
      Reports name (s1.ValidateFunctionCallLoop parameters l) := by
  induction l with
  | nil =>
    intro parameters name s1 h
    cases parameters with
    | nil => rw [Validator.ValidateFunctionCallLoop]; exact Reports_ok name s1 _ h
    | cons p ps =>
      rw [Validator.ValidateFunctionCallLoop]
      exact Reports_error_library name _ trivial
  | cons c rest ihl =>
    intro parameters name s1 h
    cases parameters with
    | nil => rw [Validator.ValidateFunctionCallLoop]; exact Reports_ok name s1 _ h
    | cons p ps =>
      rw [Validator.ValidateFunctionCallLoop]
      apply Reports_bind_state _ _ _ (Reported_at c (ih c (List.mem_cons_self _ _)) name s1 h)
      intro s2 c' h2
      apply Reports_bind_VERIFY _ _ h2; intro _
      apply Reports_bind_plain _ _ _ (optional_value_prefixed _ _); intro _
      apply Reports_bind_plain _ _ _ (TypeIsSame_prefixed _ _ _); intro _
      apply Reports_bind_VERIFY _ _ h2; intro _
      apply Reports_bind_state _ _ _
        (ihl (fun d hd => ih d (List.mem_cons_of_mem _ hd)) ps name s2 h2)
      intro s3 r h3
      exact Reports_pure name s3 _ h3

theorem ValidateVariableAssignment_reports (self : Validator) (kind : ExpressionKind) (type : Option Ty)
    (value : ExpressionValue) (ih : ∀ c ∈ ExpressionValue.children value, Reported c) :
    Reports self._currentFunction.name (self.ValidateVariableAssignment kind type value) := by
  have hself : self._currentFunction.name = self._currentFunction.name := rfl
  unfold Validator.ValidateVariableAssignment
  split <;>
    (try simp only [ExpressionValue.children, List.mem_cons, List.mem_singleton,
      forall_eq_or_imp, forall_eq, List.not_mem_nil, false_imp_iff, implies_true,
      and_true] at ih) <;>
    repeat (first
      | (apply Reports_error _ _ (by assumption))
      | (apply Reports_pure; assumption)
      | (apply Reports_bind_state _ _ _
          (Reported_at _ (by simp only [ih]) _ _ (by assumption)); intro _ _ _)
      | (apply Reports_bind_VERIFY _ _ (by assumption); intro _)
      | (apply Reports_bind_plain _ _ _ (optional_value_prefixed _ _); intro _)
      | (apply Reports_bind_plain _ _ _ (TypeIsSame_prefixed _ _ _); intro _)
      | split)

theorem ValidateVariableDeclaration_reports (self : Validator) (kind : ExpressionKind) (type : Option Ty)
    (value : ExpressionValue) (ih : ∀ c ∈ ExpressionValue.children value, Reported c) :
    Reports self._currentFunction.name (self.ValidateVariableDeclaration kind type value) := by
  have hself : self._currentFunction.name = self._currentFunction.name := rfl
  unfold Validator.ValidateVariableDeclaration
  split <;>
    (try simp only [ExpressionValue.children, List.mem_cons, List.mem_singleton,
      forall_eq_or_imp, forall_eq, List.not_mem_nil, false_imp_iff, implies_true,
      and_true] at ih) <;>
    repeat (first
      | (apply Reports_error _ _ (by assumption))
      | (apply Reports_pure; assumption)
      | (apply Reports_bind_state _ _ _
          (Reported_at _ (by simp only [ih]) _ _ (by assumption)); intro _ _ _)
      | (apply Reports_bind_assign _ _ (by assumption); intro _ _)
      | (apply Reports_bind_VERIFY _ _ (by assumption); intro _)
      | (apply Reports_bind_plain _ _ _ (optional_value_prefixed _ _); intro _)
      | (apply Reports_bind_plain _ _ _ (TypeIsSame_prefixed _ _ _); intro _)
      | (apply Reports_bind_plain _ _ _ (getString_prefixed _ _); intro _)
      | split)

theorem ValidateReturn_reports (self : Validator) (kind : ExpressionKind) (type : Option Ty)
    (value : ExpressionValue) (ih : ∀ c ∈ ExpressionValue.children value, Reported c) :
    Reports self._currentFunction.name (self.ValidateReturn kind type value) := by
  have hself : self._currentFunction.name = self._currentFunction.name := rfl
  unfold Validator.ValidateReturn
  split <;>
    (try simp only [ExpressionValue.children, List.mem_cons, List.mem_singleton,
      forall_eq_or_imp, forall_eq, List.not_mem_nil, false_imp_iff, implies_true,
      and_true] at ih) <;>
    repeat (first
      | (apply Reports_error _ _ (by assumption))
      | (apply Reports_pure; assumption)
      | (apply Reports_bind_state _ _ _
          (Reported_at _ (by simp only [ih]) _ _ (by assumption)); intro _ _ _)
      | (apply Reports_bind_VERIFY _ _ (by assumption); intro _)
      | (apply Reports_bind_plain _ _ _ (optional_value_prefixed _ _); intro _)
      | (apply Reports_bind_plain _ _ _ (TypeIsSame_prefixed _ _ _); intro _)
      | split)

theorem ValidateConditional_reports (self : Validator) (kind : ExpressionKind) (type : Option Ty)
    (value : ExpressionValue) (ih : ∀ c ∈ ExpressionValue.children value, Reported c) :
    Reports self._currentFunction.name (self.ValidateConditional kind type value) := by
  have hself : self._currentFunction.name = self._currentFunction.name := rfl
  unfold Validator.ValidateConditional
  split <;>
    (try simp only [ExpressionValue.children, List.mem_cons, List.mem_singleton,
      forall_eq_or_imp, forall_eq, List.not_mem_nil, false_imp_iff, implies_true,
      and_true] at ih) <;>
    repeat (first
      | (apply Reports_error _ _ (by assumption))
      | (apply Reports_pure; assumption)
      | (apply Reports_bind_state _ _ _
          (Reported_at _ (by simp only [ih]) _ _ (by assumption)); intro _ _ _)
      | (apply Reports_bind_VERIFY _ _ (by assumption) _ _ _; intro hk
         apply Reports_bind_state _ _ _
          (Reported_at_scope _ _ _ (by simp only [ih]) hk _ _ (by assumption)); intro _ _ _)
      | (apply Reports_bind_state _ _ _
          (ValidateConditionalLoop_reports _ ih.2.2 _ _ (by assumption)); intro _ _ _)
      | (apply Reports_bind_VERIFY _ _ (by assumption); intro _)
      | (apply Reports_bind_plain _ _ _ (optional_value_prefixed _ _); intro _)
      | split)

theorem ValidateArithmetic_reports (self : Validator) (kind : ExpressionKind) (type : Option Ty)
    (value : ExpressionValue) (ih : ∀ c ∈ ExpressionValue.children value, Reported c) :
    Reports self._currentFunction.name (self.ValidateArithmetic kind type value) := by
  have hself : self._currentFunction.name = self._currentFunction.name := rfl
  unfold Validator.ValidateArithmetic
  split <;>
    (try simp only [ExpressionValue.children, List.mem_cons, List.mem_singleton,
      forall_eq_or_imp, forall_eq, List.not_mem_nil, false_imp_iff, implies_true,
      and_true] at ih) <;>
    repeat (first
      | (apply Reports_error _ _ (by assumption))
      | (apply Reports_pure; assumption)
      | (apply Reports_bind_state _ _ _
          (Reported_at _ (by simp only [ih]) _ _ (by assumption)); intro _ _ _)
      | (apply Reports_bind_VERIFY _ _ (by assumption); intro _)
      | (apply Reports_bind_plain _ _ _ (optional_value_prefixed _ _); intro _)
      | (apply Reports_bind_plain _ _ _ (TypeIsSame_prefixed _ _ _); intro _)
      | split)

theorem ValidateComparison_reports (self : Validator) (kind : ExpressionKind) (type : Option Ty)
    (value : ExpressionValue) (ih : ∀ c ∈ ExpressionValue.children value, Reported c) :
    Reports self._currentFunction.name (self.ValidateComparison kind type value) := by
  have hself : self._currentFunction.name = self._currentFunction.name := rfl
  unfold Validator.ValidateComparison
  split <;>
    (try simp only [ExpressionValue.children, List.mem_cons, List.mem_singleton,
      forall_eq_or_imp, forall_eq, List.not_mem_nil, false_imp_iff, implies_true,
      and_true] at ih) <;>
    repeat (first
      | (apply Reports_error _ _ (by assumption))
      | (apply Reports_pure; assumption)
      | (apply Reports_bind_state _ _ _
          (Reported_at _ (by simp only [ih]) _ _ (by assumption)); intro _ _ _)
      | (apply Reports_bind_VERIFY _ _ (by assumption); intro _)
      | (apply Reports_bind_plain _ _ _ (optional_value_prefixed _ _); intro _)
      | (apply Reports_bind_plain _ _ _ (TypeIsSame_prefixed _ _ _); intro _)
      | split)

theorem ValidateLogical_reports (self : Validator) (kind : ExpressionKind) (type : Option Ty)
    (value : ExpressionValue) (ih : ∀ c ∈ ExpressionValue.children value, Reported c) :
    Reports self._currentFunction.name (self.ValidateLogical kind type value) := by
  have hself : self._currentFunction.name = self._currentFunction.name := rfl
  unfold Validator.ValidateLogical
  split <;>
    (try simp only [ExpressionValue.children, List.mem_cons, List.mem_singleton,
      forall_eq_or_imp, forall_eq, List.not_mem_nil, false_imp_iff, implies_true,
      and_true] at ih) <;>
    repeat (first
      | (apply Reports_error _ _ (by assumption))
      | (apply Reports_pure; assumption)
      | (apply Reports_bind_state _ _ _
          (Reported_at _ (by simp only [ih]) _ _ (by assumption)); intro _ _ _)
      | (apply Reports_bind_VERIFY _ _ (by assumption); intro _)
      | (apply Reports_bind_plain _ _ _ (optional_value_prefixed _ _); intro _)
      | (apply Reports_bind_plain _ _ _ (TypeIsSame_prefixed _ _ _); intro _)
      | split)

theorem ValidatePostInc_reports (self : Validator) (kind : ExpressionKind) (type : Option Ty)
    (value : ExpressionValue) (ih : ∀ c ∈ ExpressionValue.children value, Reported c) :
    Reports self._currentFunction.name (self.ValidatePostInc kind type value) := by
  have hself : self._currentFunction.name = self._currentFunction.name := rfl
  unfold Validator.ValidatePostInc
  split <;>
    (try simp only [ExpressionValue.children, List.mem_cons, List.mem_singleton,
      forall_eq_or_imp, forall_eq, List.not_mem_nil, false_imp_iff, implies_true,
      and_true] at ih) <;>
    repeat (first
      | (apply Reports_error _ _ (by assumption))
      | (apply Reports_pure; assumption)
      | (apply Reports_bind_state _ _ _
          (Reported_at _ (by simp only [ih]) _ _ (by assumption)); intro _ _ _)
      | (apply Reports_bind_VERIFY _ _ (by assumption); intro _)
      | (apply Reports_bind_plain _ _ _ (optional_value_prefixed _ _); intro _)
      | split)

theorem ValidatePointerDereference_reports (self : Validator) (kind : ExpressionKind) (type : Option Ty)
    (value : ExpressionValue) (ih : ∀ c ∈ ExpressionValue.children value, Reported c) :
    Reports self._currentFunction.name (self.ValidatePointerDereference kind type value) := by
  have hself : self._currentFunction.name = self._currentFunction.name := rfl
  unfold Validator.ValidatePointerDereference
  split <;>
    (try simp only [ExpressionValue.children, List.mem_cons, List.mem_singleton,
      forall_eq_or_imp, forall_eq, List.not_mem_nil, false_imp_iff, implies_true,
      and_true] at ih) <;>
    repeat (first
      | (apply Reports_error _ _ (by assumption))
      | (apply Reports_pure; assumption)
      | (apply Reports_bind_state _ _ _
          (Reported_at _ (by simp only [ih]) _ _ (by assumption)); intro _ _ _)
      | (apply Reports_bind_VERIFY _ _ (by assumption); intro _)
      | (apply Reports_bind_plain _ _ _ (optional_value_prefixed _ _); intro _)
      | split)

theorem ValidateArraySubscript_reports (self : Validator) (kind : ExpressionKind) (type : Option Ty)
    (value : ExpressionValue) (ih : ∀ c ∈ ExpressionValue.children value, Reported c) :
    Reports self._currentFunction.name (self.ValidateArraySubscript kind type value) := by
  have hself : self._currentFunction.name = self._currentFunction.name := rfl
  unfold Validator.ValidateArraySubscript
  split <;>
    (try simp only [ExpressionValue.children, List.mem_cons, List.mem_singleton,
      forall_eq_or_imp, forall_eq, List.not_mem_nil, false_imp_iff, implies_true,
      and_true] at ih) <;>
    repeat (first
      | (apply Reports_error _ _ (by assumption))
      | (apply Reports_error_library; trivial)
      | (apply Reports_pure; assumption)
      | (apply Reports_bind_state _ _ _
          (Reported_at _ (by simp only [ih]) _ _ (by assumption)); intro _ _ _)
      | (apply Reports_bind_VERIFY _ _ (by assumption); intro _)
      | (apply Reports_bind_plain _ _ _ (optional_value_prefixed _ _); intro _)
      | split)

theorem ValidateFunctionCall_reports (self : Validator) (kind : ExpressionKind) (type : Option Ty)
    (value : ExpressionValue) (ih : ∀ c ∈ ExpressionValue.children value, Reported c) :
    Reports self._currentFunction.name (self.ValidateFunctionCall kind type value) := by
  have hself : self._currentFunction.name = self._currentFunction.name := rfl
  unfold Validator.ValidateFunctionCall
  split <;>
    (try simp only [ExpressionValue.children, List.mem_cons, List.mem_singleton,
      forall_eq_or_imp, forall_eq, List.not_mem_nil, false_imp_iff, implies_true,
      and_true] at ih) <;>
    repeat (first
      | (apply Reports_error _ _ (by assumption))
      | (apply Reports_pure; assumption)
      | (apply Reports_bind_state _ _ _
          (Reported_at _ (by simp only [ih]) _ _ (by assumption)); intro _ _ _)
      | (apply Reports_bind_state _ _ _
          (ValidateFunctionCallLoop_reports _ ih.2 _ _ _ (by assumption)); intro _ _ _)
      | (apply Reports_bind_VERIFY _ _ (by assumption); intro _)
      | (apply Reports_bind_plain _ _ _ (getString_prefixed _ _); intro _)
      | split)

theorem ValidateForLoop_reports (self : Validator) (kind : ExpressionKind) (type : Option Ty)
    (value : ExpressionValue) (ih : ∀ c ∈ ExpressionValue.children value, Reported c) :
    Reports self._currentFunction.name (self.ValidateForLoop kind type value) := by
  have hself : self._currentFunction.name = self._currentFunction.name := rfl
  unfold Validator.ValidateForLoop
  split <;>
    (try simp only [ExpressionValue.children, List.mem_cons, List.mem_singleton,
      forall_eq_or_imp, forall_eq, List.not_mem_nil, false_imp_iff, implies_true,
      and_true] at ih) <;>
    repeat (first
      | (apply Reports_error _ _ (by assumption))
      | (apply Reports_pure; assumption)
      | (apply Reports_bind_state _ _ _
          (Reported_at _ (by simp only [ih]) _ _ (by assumption)); intro _ _ _)
      | (apply Reports_bind_VERIFY _ _ (by assumption); intro _)
      | (apply Reports_bind_plain _ _ _ (optional_value_prefixed _ _); intro _)
      | split)

theorem ValidateNegate_reports (self : Validator) (kind : ExpressionKind) (type : Option Ty)
    (value : ExpressionValue) (ih : ∀ c ∈ ExpressionValue.children value, Reported c) :
    Reports self._currentFunction.name (self.ValidateNegate kind type value) := by
  have hself : self._currentFunction.name = self._currentFunction.name := rfl
  unfold Validator.ValidateNegate
  split <;>
    (try simp only [ExpressionValue.children, List.mem_cons, List.mem_singleton,
      forall_eq_or_imp, forall_eq, List.not_mem_nil, false_imp_iff, implies_true,
      and_true] at ih) <;>
    repeat (first
      | (apply Reports_error _ _ (by assumption))
      | (apply Reports_pure; assumption)
      | (apply Reports_bind_state _ _ _
          (Reported_at _ (by simp only [ih]) _ _ (by assumption)); intro _ _ _)
      | (apply Reports_bind_VERIFY _ _ (by assumption); intro _)
      | (apply Reports_bind_plain _ _ _ (optional_value_prefixed _ _); intro _)
      | (apply Reports_bind_plain _ _ _ (getInt64_prefixed _ _); intro _)
      | split)

theorem ValidateAddressOf_reports (self : Validator) (kind : ExpressionKind) (type : Option Ty)
    (value : ExpressionValue) (ih : ∀ c ∈ ExpressionValue.children value, Reported c) :
    Reports self._currentFunction.name (self.ValidateAddressOf kind type value) := by
  have hself : self._currentFunction.name = self._currentFunction.name := rfl
  unfold Validator.ValidateAddressOf
  split <;>
    (try simp only [ExpressionValue.children, List.mem_cons, List.mem_singleton,
      forall_eq_or_imp, forall_eq, List.not_mem_nil, false_imp_iff, implies_true,
      and_true] at ih) <;>
    repeat (first
      | (apply Reports_error _ _ (by assumption))
      | (apply Reports_pure; assumption)
      | (apply Reports_bind_state _ _ _
          (Reported_at _ (by simp only [ih]) _ _ (by assumption)); intro _ _ _)
      | (apply Reports_bind_VERIFY _ _ (by assumption); intro _)
      | (apply Reports_bind_plain _ _ _ (optional_value_prefixed _ _); intro _)
      | split)

theorem ValidateMemberAccess_reports (self : Validator) (kind : ExpressionKind) (type : Option Ty)
    (value : ExpressionValue) (ih : ∀ c ∈ ExpressionValue.children value, Reported c) :
    Reports self._currentFunction.name (self.ValidateMemberAccess kind type value) := by
  have hself : self._currentFunction.name = self._currentFunction.name := rfl
  unfold Validator.ValidateMemberAccess
  split <;>
    (try simp only [ExpressionValue.children, List.mem_cons, List.mem_singleton,
      forall_eq_or_imp, forall_eq, List.not_mem_nil, false_imp_iff, implies_true,
      and_true] at ih) <;>
    repeat (first
      | (apply Reports_error _ _ (by assumption))
      | (apply Reports_pure; assumption)
      | (apply Reports_bind_state _ _ _
          (Reported_at _ (by simp only [ih]) _ _ (by assumption)); intro _ _ _)
      | (apply Reports_bind_VERIFY _ _ (by assumption); intro _)
      | (apply Reports_bind_plain _ _ _ (optional_value_prefixed _ _); intro _)
      | (apply Reports_bind_plain _ _ _ (getString_prefixed _ _); intro _)
      | split)

theorem ValidateLiteral_reports (self : Validator) (expression : Expression) :
    Reports self._currentFunction.name (self.ValidateLiteral expression) := by
  unfold Validator.ValidateLiteral
  apply Reports_bind_VERIFY _ _ rfl; intro _
  exact Reports_pure _ _ _ rfl

theorem ValidateVariable_reports (self : Validator) (expression : Expression) :
    Reports self._currentFunction.name (self.ValidateVariable expression) := by
  unfold Validator.ValidateVariable
  apply Reports_bind_VERIFY _ _ rfl; intro _
  apply Reports_bind_VERIFY _ _ rfl; intro _
  apply Reports_bind_plain _ _ _ (getString_prefixed _ _); intro _
  apply Reports_bind_VERIFY _ _ rfl; intro _
  apply Reports_bind_VERIFY _ _ rfl; intro _
  apply Reports_bind_plain _ _ _ (optional_value_prefixed _ _); intro _
  exact Reports_pure _ _ _ rfl

/-- Every validation reports in the name of the current function. -/
theorem all_Reported : ∀ e, Reported e := by
  apply Expression.induction
  intro kind type value ih self
  cases kind <;> rw [Validator.ValidateExpression]
  case SCOPE => exact ValidateScope_reports _ _ _ _ ih
  case LITERAL => exact ValidateLiteral_reports _ _
  case VARIABLE => exact ValidateVariable_reports _ _
  case VARIABLE_ASSIGNMENT => exact ValidateVariableAssignment_reports _ _ _ _ ih
  case VARIABLE_DECLARATION => exact ValidateVariableDeclaration_reports _ _ _ _ ih
  case RETURN => exact ValidateReturn_reports _ _ _ _ ih
  case CONDITIONAL => exact ValidateConditional_reports _ _ _ _ ih
  case PLUS_OP => exact ValidateArithmetic_reports _ _ _ _ ih
  case MINUS_OP => exact ValidateArithmetic_reports _ _ _ _ ih
  case DIVIDE_OP => exact ValidateArithmetic_reports _ _ _ _ ih
  case MULTIPLY_OP => exact ValidateArithmetic_reports _ _ _ _ ih
  case GREATER_THAN_OP => exact ValidateComparison_reports _ _ _ _ ih
  case LESS_THAN_OP => exact ValidateComparison_reports _ _ _ _ ih
  case EQUAL_OP => exact ValidateComparison_reports _ _ _ _ ih
  case NOT_EQUAL_OP => exact ValidateComparison_reports _ _ _ _ ih
  case LOGICAL_AND => exact ValidateLogical_reports _ _ _ _ ih
  case LOGICAL_OR => exact ValidateLogical_reports _ _ _ _ ih
  case POST_INC_OP => exact ValidatePostInc_reports _ _ _ _ ih
  case POINTER_DEREFERENCE => exact ValidatePointerDereference_reports _ _ _ _ ih
  case ARRAY_SUBSCRIPT => exact ValidateArraySubscript_reports _ _ _ _ ih
  case FUNCTION_CALL => exact ValidateFunctionCall_reports _ _ _ _ ih
  case FOR_LOOP => exact ValidateForLoop_reports _ _ _ _ ih
  case NEGATE => exact ValidateNegate_reports _ _ _ _ ih
  case ADDRESS_OF => exact ValidateAddressOf_reports _ _ _ _ ih
  case MEMBER_ACCESS => exact ValidateMemberAccess_reports _ _ _ _ ih
  case CONTINUE => exact Reports_ok _ _ _ rfl
  case BREAK => exact Reports_ok _ _ _ rfl
  case CALLEE => exact Reports_ok _ _ _ rfl

theorem Prefixed_cases (name : String) (ex : Exception) (h : Prefixed name ex) :
    (∃ message : String, ex = .invalid_argument (name ++ ": " ++ message)) ∨
      ex = .bad_variant_access ∨ ex = .bad_optional_access ∨ ex = .undefined_behavior := by
  cases ex with
  | invalid_argument what =>
    obtain ⟨message, rfl⟩ := h
    exact Or.inl ⟨message, rfl⟩
  | runtime_error what => exact absurd h (by simp [Prefixed])
  | bad_variant_access => exact Or.inr (Or.inl rfl)
  | bad_optional_access => exact Or.inr (Or.inr (Or.inl rfl))
  | undefined_behavior => exact Or.inr (Or.inr (Or.inr rfl))

theorem ValidateFunction_reports (self : Validator) (function : Function) (ex : Exception)
    (h : self.ValidateFunction function = .error ex) : Prefixed function.prototype.name ex := by
  unfold Validator.ValidateFunction at h
  have step : Reports function.prototype.name
      (Validator.ValidateExpression
        { _currentFunction := function.prototype
          _scopes := self._scopes ++ [functionScopeOf function.prototype.arguments { vars := [] }]
          _definedFunctions :=
            self._definedFunctions.assign function.prototype.name function.prototype }
        function.body) :=
    Reported_at function.body (all_Reported function.body) _ _ rfl
  simp only [bind_eq_error, VERIFY_eq_ok, pure, Except.pure, Prod.exists] at h
  rcases h with h | ⟨_, -, h⟩
  · exact VERIFY_prefixed _ _ rfl _ _ ex h
  · rcases h with h | ⟨s, body, -, h⟩
    · exact step.failure ex h
    · cases h

/-- C16, at the function `arrayFromInteger` (`var a: i64[1] = 1`) and in general. The
validation of `arrayFromInteger` fails with the `bad_variant_access` that `std::get` throws
in `TypeIsSame`, not with a message of the validator; the mismatch in `var a: i64 = true`
is reported with the name of the function in front. Every failure of `ValidateFunction`
is either a message that begins with the name of the function, a colon and a blank, or
one of the exceptions that the library throws. -/
theorem C16_failure_without_function_name :
    Validator.new.ValidateFunction arrayFromInteger = .error .bad_variant_access ∧
    Validator.new.ValidateFunction integerFromBool =
      .error (.invalid_argument "f: Variable declaration types mismatch") ∧
    (∀ (self : Validator) (function : Function) (ex : Exception),
      self.ValidateFunction function = .error ex →
      (∃ message : String,
        ex = .invalid_argument (function.prototype.name ++ ": " ++ message)) ∨
      ex = .bad_variant_access ∨ ex = .bad_optional_access ∨ ex = .undefined_behavior) :=
  ⟨rfl, rfl, fun self function ex h =>
    Prefixed_cases _ ex (ValidateFunction_reports self function ex h)⟩

/-! ## Claim C17 -/

theorem find?_reverse_innermost (outer inner : List ValidatorScope) (scope : ValidatorScope)
    (name : String) (hb : scope.vars.contains name = true)
    (hi : ∀ s ∈ inner, s.vars.contains name = false) :
    (outer ++ scope :: inner).reverse.find? (fun s => s.vars.contains name) = some scope := by
  rw [List.reverse_append, List.reverse_cons, List.append_assoc, List.find?_append]
  have h1 : inner.reverse.find? (fun s => s.vars.contains name) = none := by
    rw [List.find?_eq_none]
    intro s hs
    rw [hi s (List.mem_reverse.mp hs)]
    simp
  rw [h1]
  simp [List.find?, hb]

/-- C17. Variable lookup walks the scope stack innermost-first. When `scope` binds `name`
to the type `t` and no scope further in binds `name`, whatever the scopes further out
bind, `FindVariable` answers `t` and validating a Variable with that name gives it the type
`t` and leaves the state as it is. Validating a Scope restores the state, so that a reference
after the Scope gets the type `t` again, whatever the Scope has declared; the function
`shadowing` validates to `shadowing_validated`. -/
theorem C17_innermost_binding_decides (self : Validator) (outer inner : List ValidatorScope)
    (scope : ValidatorScope) (name : String) (t : Ty)
    (hs : self._scopes = outer ++ scope :: inner)
    (hb : scope.vars.find name = some t)
    (hi : ∀ s ∈ inner, s.vars.contains name = false)
    (hn : name ≠ "") :
    self.FindVariable name = some t ∧
    self.ValidateExpression (variableRef name) = .ok (self, typedVariable name t) ∧
    (∀ (type : Option Ty) (value : ExpressionValue) (s : Validator) (e : Expression),
      self.ValidateExpression (.mk .SCOPE type value) = .ok (s, e) →
      s.ValidateExpression (variableRef name) = .ok (s, typedVariable name t)) ∧
    (Validator.new.ValidateFunction shadowing).map (fun r => r.2.body) =
      .ok shadowing_validated := by
  have hfind : self.FindVariable name = some t := by
    unfold Validator.FindVariable
    rw [hs, find?_reverse_innermost outer inner scope name
      (by simp [unordered_map.contains, hb]) hi]
    exact hb
  have hvalidate : self.ValidateExpression (variableRef name) =
      .ok (self, typedVariable name t) := by
    have he : name.isEmpty = false := by
      cases h : name.isEmpty
      · rfl
      · exact absurd ((String.isEmpty_iff name).mp h) hn
    rw [variableRef, Validator.ValidateExpression, Validator.ValidateVariable]
    simp only [Expression.type, Expression.value, Expression.kind, Option.isSome,
      Bool.not_false, VERIFY_true, bind_ok, ExpressionValue.holdsString,
      ExpressionValue.getString, he, hfind, optional_value]
    rfl
  refine ⟨hfind, hvalidate, ?_, rfl⟩
  intro type value s e h
  rw [ValidateExpression_scope_restores self s type value e h]
  exact hvalidate

/-- Witness of C17: a stack of two scopes that both bind `x`, the outer one to i64 and the
inner one to bool. -/
theorem C17_innermost_binding_decides_witness :
    ({ Validator.new with
        _scopes := [{ vars := [("x", i64)] }, { vars := [("x", bool)] }] } : Validator).FindVariable
      "x" = some bool :=
  (C17_innermost_binding_decides
    { Validator.new with _scopes := [{ vars := [("x", i64)] }, { vars := [("x", bool)] }] }
    [{ vars := [("x", i64)] }] [] { vars := [("x", bool)] } "x" bool rfl rfl
    (by simp) (by decide)).1

/-! ## Decimal numerals

What `operator<<` writes for an unsigned number, `std::from_chars` reads back. -/

theorem digitChar_isdigit (d : Nat) (h : d < 10) :
    isdigit (Nat.digitChar d) = true ∧ (Nat.digitChar d).toNat - '0'.toNat = d := by
  interval_cases d <;> exact ⟨rfl, rfl⟩

theorem toDigitsCore_isdigit :
    ∀ (fuel n : Nat) (ds : List Char), (∀ c ∈ ds, isdigit c = true) →
      ∀ c ∈ Nat.toDigitsCore 10 fuel n ds, isdigit c = true := by
  intro fuel
  induction fuel with
  | zero =>
    intro n ds h
    simpa [Nat.toDigitsCore] using h
  | succ fuel ih =>
    intro n ds h
    have hd : ∀ c ∈ Nat.digitChar (n % 10) :: ds, isdigit c = true := by
      intro c hc
      rcases List.mem_cons.mp hc with rfl | hc
      · exact (digitChar_isdigit _ (Nat.mod_lt _ (by decide))).1
      · exact h c hc
    rw [Nat.toDigitsCore]
    split
    · exact hd
    · exact ih _ _ hd

theorem toDigitsCore_ne_nil :
    ∀ (fuel n : Nat) (ds : List Char), ds ≠ [] → Nat.toDigitsCore 10 fuel n ds ≠ [] := by
  intro fuel
  induction fuel with
  | zero =>
    intro n ds h
    simpa [Nat.toDigitsCore] using h
  | succ fuel ih =>
    intro n ds _
    rw [Nat.toDigitsCore]
    split
    · simp
    · exact ih _ _ (by simp)

/-- The value `std::from_chars` accumulates over decimal digits. -/
theorem toDigitsCore_foldl :
    ∀ (fuel n : Nat) (ds : List Char), n < fuel →
      (Nat.toDigitsCore 10 fuel n ds).foldl
          (fun value c => 10 * value + (c.toNat - '0'.toNat)) 0 =
        ds.foldl (fun value c => 10 * value + (c.toNat - '0'.toNat)) n := by
  intro fuel
  induction fuel with
  | zero => intro n ds h; omega
  | succ fuel ih =>
    intro n ds h
    have hd := (digitChar_isdigit (n % 10) (Nat.mod_lt _ (by decide))).2
    rw [Nat.toDigitsCore]
    split
    · rename_i h0
      simp only [List.foldl_cons, hd]
      congr 1
      omega
    · rename_i h0
      rw [ih (n / 10) _ (by omega)]
      simp only [List.foldl_cons, hd]
      congr 1
      omega

theorem toDigits_isdigit (n : Nat) : ∀ c ∈ Nat.toDigits 10 n, isdigit c = true :=
  toDigitsCore_isdigit _ _ _ (by simp)

theorem toDigits_ne_nil (n : Nat) : Nat.toDigits 10 n ≠ [] := by
  unfold Nat.toDigits
  rw [Nat.toDigitsCore]
  split
  · simp
  · exact toDigitsCore_ne_nil _ _ _ (by simp)

theorem toString_toList (n : Nat) : (toString n).toList = Nat.toDigits 10 n := rfl

theorem from_chars_int64_toDigits (n : Nat) (h : n < 2 ^ 63) :
    from_chars_int64 (Nat.toDigits 10 n) = some (n : Int) := by
  have hall := toDigits_isdigit n
  have hne := toDigits_ne_nil n
  have hhead : (Nat.toDigits 10 n).head? ≠ some '-' := by
    intro hh
    have := hall '-' (List.mem_of_mem_head? hh)
    exact absurd this (by decide)
  have htake : (Nat.toDigits 10 n).takeWhile isdigit = Nat.toDigits 10 n :=
    List.takeWhile_eq_self_iff.mpr hall
  unfold from_chars_int64
  simp only [hhead, decide_False, Bool.false_eq_true, if_false, htake]
  have hempty : (Nat.toDigits 10 n).isEmpty = false := by
    cases hl : Nat.toDigits 10 n with
    | nil => exact absurd hl hne
    | cons c cs => rfl
  rw [hempty]
  simp only [Bool.false_eq_true, if_false]
  have hval : (Nat.toDigits 10 n).foldl
      (fun value c => 10 * value + (c.toNat - '0'.toNat)) 0 = n := by
    unfold Nat.toDigits
    rw [toDigitsCore_foldl _ _ _ (Nat.lt_succ_self n)]
    rfl
  rw [hval]
  have h2 : n < 9223372036854775808 := by
    have : (2 : Nat) ^ 63 = 9223372036854775808 := by norm_num
    omega
  have h1 : (-9223372036854775808 : Int) ≤ (n : Int) := by omega
  simp [h1, h2]

/-! ## The loops end within their turns

Every turn of the loop of `TokenizeLine` takes at least one character off the line, and
every turn of the loop of `ParseType` at least one token. -/

theorem keyword_length (keyword : String × TokenType) (h : keyword ∈ Tokenizer._keywords) :
    1 ≤ keyword.1.length := by
  have hall : ∀ k ∈ Tokenizer._keywords, 1 ≤ k.1.length := by decide
  exact hall keyword h

theorem Advance_length (line : List Char) (count : Nat) :
    (Tokenizer.Advance line count).length = line.length - count := by
  simp [Tokenizer.Advance]

theorem Shorter_ite (line : List Char) (condition : Prop) [Decidable condition]
    (a b : Except Exception (Token × List Char)) (ha : Shorter line a) (hb : Shorter line b) :
    Shorter line (if condition then a else b) := by
  split
  · exact ha
  · exact hb

theorem Shorter_error (line : List Char) (e : Exception) :
    Shorter line (.error e) := by
  constructor
  intro token rest h
  cases h

theorem Shorter_Advance (c : Char) (tail : List Char) (token : Token) (count : Nat)
    (h : 1 ≤ count) :
    Shorter (c :: tail) (.ok (token, Tokenizer.Advance (c :: tail) count)) := by
  constructor
  intro token rest h
  injection h with h
  injection h with _ h
  rw [← h, Advance_length, List.length_cons]
  omega

theorem SlurpSpecial_shorter (file : String) (currentLine : Nat) (line : List Char) :
    Shorter line (Tokenizer.SlurpSpecial file currentLine line) := by
  unfold Tokenizer.SlurpSpecial
  cases line with
  | nil => exact Shorter_error _ _
  | cons c tail =>
    simp only
    repeat (first
      | apply Shorter_ite
      | exact Shorter_Advance _ _ _ _ (by decide)
      | exact Shorter_error _ _)

theorem SlurpStringLiteralLoop_length :
    ∀ (n : Nat) (line literal : List Char), line.length ≤ n →
      (Tokenizer.SlurpStringLiteralLoop line literal).2.2.length ≤ line.length := by
  intro n
  induction n with
  | zero =>
    intro line literal h
    cases line with
    | nil => simp [Tokenizer.SlurpStringLiteralLoop]
    | cons c rest => simp at h
  | succ n ih =>
    intro line literal h
    match line, h with
    | [], _ => simp [Tokenizer.SlurpStringLiteralLoop]
    | [c], _ =>
      rw [Tokenizer.SlurpStringLiteralLoop]
      split_ifs <;> simp
    | c :: d :: rest, h =>
      have hrest : rest.length + 1 ≤ n := by simpa using h
      rw [Tokenizer.SlurpStringLiteralLoop]
      split_ifs
      · simp
      · have := ih rest (literal ++ [Tokenizer.escaped d]) (by omega)
        simp only [List.length_cons]
        omega
      · have := ih (d :: rest) (literal ++ [c]) (by simpa using hrest)
        simp only [List.length_cons] at this ⊢
        omega

theorem SlurpStringLiteral_shorter (file : String) (currentLine : Nat) (c : Char)
    (line rest : List Char) (token : Token)
    (h : Tokenizer.SlurpStringLiteral file currentLine (c :: line) = .ok (token, rest)) :
    rest.length < (c :: line).length := by
  unfold Tokenizer.SlurpStringLiteral at h
  have hlen := SlurpStringLiteralLoop_length _ (Tokenizer.Advance (c :: line) 1) [] (le_refl _)
  rw [Advance_length] at hlen
  rcases hloop : Tokenizer.SlurpStringLiteralLoop (Tokenizer.Advance (c :: line) 1) [] with
    ⟨finished, literal, left⟩
  rw [hloop] at hlen
  simp only [hloop] at h
  split at h
  · cases h
  · injection h with h
    injection h with _ h
    rw [← h]
    simp only [List.length_cons] at hlen ⊢
    omega

theorem SlurpCharacterLiteral_shorter (file : String) (currentLine : Nat) (c : Char)
    (line rest : List Char) (token : Token)
    (h : Tokenizer.SlurpCharacterLiteral file currentLine (c :: line) = .ok (token, rest)) :
    rest.length < (c :: line).length := by
  unfold Tokenizer.SlurpCharacterLiteral at h
  simp only [bind_eq_ok] at h
  obtain ⟨first, -, h⟩ := h
  split at h
  · simp only [bind_eq_ok, pure_eq_ok, Prod.mk.injEq] at h
    obtain ⟨_, -, -, rfl⟩ := h
    simp only [Advance_length, List.length_cons]
    omega
  · simp only [pure_eq_ok, Prod.mk.injEq] at h
    obtain ⟨-, rfl⟩ := h
    simp only [Advance_length, List.length_cons]
    omega

theorem isalpha_not_special (c : Char) (h : isalpha c = true) :
    Tokenizer.IsSpecialCharacter c = false := by
  cases hs : Tokenizer.IsSpecialCharacter c with
  | false => rfl
  | true =>
    simp only [Tokenizer.IsSpecialCharacter, Bool.or_eq_true, beq_iff_eq] at hs
    rcases hs with ((((((((((((((((( rfl | rfl) | rfl) | rfl) | rfl) | rfl) | rfl) | rfl) | rfl) |
      rfl) | rfl) | rfl) | rfl) | rfl) | rfl) | rfl) | rfl) | rfl) <;>
      exact absurd h (by decide)

theorem isalpha_not_space (c : Char) (h : isalpha c = true) : isspace c = false := by
  cases hs : isspace c with
  | false => rfl
  | true =>
    simp only [isspace, Bool.or_eq_true, beq_iff_eq] at hs
    rcases hs with ((((rfl | rfl) | rfl) | rfl) | rfl) | rfl <;>
      exact absurd h (by decide)

theorem SlurpNumeric_shorter (file : String) (currentLine : Nat) (c : Char) (tail : List Char)
    (h : isdigit c = true) :
    (Tokenizer.SlurpNumeric file currentLine (c :: tail)).2.length < (c :: tail).length := by
  unfold Tokenizer.SlurpNumeric
  have hindex : 1 ≤ ((c :: tail).takeWhile isdigit).length := by
    simp [List.takeWhile, h]
  simp only
  split_ifs <;> simp only [Advance_length, List.length_cons] at hindex ⊢ <;> omega

theorem SlurpIdentifier_shorter (file : String) (currentLine : Nat) (c : Char)
    (tail : List Char) (h : isalpha c = true) :
    (Tokenizer.SlurpIdentifier file currentLine (c :: tail)).2.length < (c :: tail).length := by
  unfold Tokenizer.SlurpIdentifier
  have hindex : 1 ≤ ((c :: tail).takeWhile
      (fun c => !(Tokenizer.IsSpecialCharacter c || isspace c))).length := by
    simp [List.takeWhile, isalpha_not_special c h, isalpha_not_space c h]
  simp only [Advance_length, List.length_cons] at hindex ⊢
  omega

theorem SlurpKeyword_shorter (file : String) (currentLine : Nat) (c : Char) (tail : List Char)
    (keyword : String × TokenType) (h : Tokenizer.IsKeyword (c :: tail) = some keyword) :
    (Tokenizer.SlurpKeyword file currentLine (c :: tail) keyword).2.length <
      (c :: tail).length := by
  have hmem : keyword ∈ Tokenizer._keywords := List.mem_of_find?_eq_some h
  have := keyword_length keyword hmem
  simp only [Tokenizer.SlurpKeyword, Advance_length, List.length_cons]
  omega

theorem TokenizeLineStep_shorter (file : String) (currentLine : Nat) (c : Char)
    (tail rest : List Char) (token : Option Token)
    (h : Tokenizer.TokenizeLineStep file currentLine (c :: tail) = .ok (token, rest)) :
    rest.length < (c :: tail).length := by
  unfold Tokenizer.TokenizeLineStep at h
  split at h
  · rename_i keyword hk
    have := SlurpKeyword_shorter file currentLine c tail keyword hk
    simp only [Except.ok.injEq, Prod.mk.injEq] at h
    rw [← h.2]
    exact this
  · simp only at h
    split_ifs at h with h1 h2 h3 h4 h5 h6 h7
    · simp only [Except.ok.injEq, Prod.mk.injEq] at h
      rw [← h.2, Advance_length]
      simp
    · simp only [bind_eq_ok, pure_eq_ok, Prod.mk.injEq, Prod.exists] at h
      obtain ⟨tok, line', hs, -, rfl⟩ := h
      exact SlurpStringLiteral_shorter _ _ _ _ _ _ hs
    · simp only [bind_eq_ok, pure_eq_ok, Prod.mk.injEq, Prod.exists] at h
      obtain ⟨tok, line', hs, -, rfl⟩ := h
      exact SlurpCharacterLiteral_shorter _ _ _ _ _ _ hs
    · simp only [bind_eq_ok, pure_eq_ok, Prod.mk.injEq, Prod.exists] at h
      obtain ⟨tok, line', hs, -, rfl⟩ := h
      exact (SlurpSpecial_shorter _ _ _).out _ _ hs
    · have := SlurpNumeric_shorter file currentLine c tail h5
      simp only [Except.ok.injEq, Prod.mk.injEq] at h
      rw [← h.2]
      exact this
    · have := SlurpIdentifier_shorter file currentLine c tail h6
      simp only [Except.ok.injEq, Prod.mk.injEq] at h
      rw [← h.2]
      exact this
    · simp only [Except.ok.injEq, Prod.mk.injEq] at h
      rw [← h.2, Advance_length]
      simp

/-- The loop of `TokenizeLine` ends within as many turns as the line has characters. -/
theorem TokenizeLineLoop_isSome (file : String) (currentLine : Nat) :
    ∀ (fuel : Nat) (line : List Char), line.length ≤ fuel →
      (Tokenizer.TokenizeLineLoop file currentLine fuel line).isSome = true := by
  intro fuel
  induction fuel with
  | zero =>
    intro line h
    cases line with
    | nil => rfl
    | cons c tail => simp at h
  | succ fuel ih =>
    intro line h
    cases line with
    | nil => rfl
    | cons c tail =>
      rw [Tokenizer.TokenizeLineLoop]
      · cases hstep : Tokenizer.TokenizeLineStep file currentLine (c :: tail) with
        | error e => rfl
        | ok r =>
          obtain ⟨token, rest⟩ := r
          have hshort := TokenizeLineStep_shorter file currentLine c tail rest token hstep
          have hsome := ih rest (by simp only [List.length_cons] at h hshort; omega)
          simp only
          cases hloop : Tokenizer.TokenizeLineLoop file currentLine fuel rest with
          | none => rw [hloop] at hsome; cases hsome
          | some r => cases r <;> rfl
      · intro hnil
        cases hnil

/-- Member function `TokenizeLine` returns what its loop returns: the loop ends within the
turns it gets. -/
theorem TokenizeLine_eq (file : String) (currentLine : Nat) (line : List Char) :
    some (Tokenizer.TokenizeLine file currentLine line) =
      Tokenizer.TokenizeLineLoop file currentLine line.length line := by
  unfold Tokenizer.TokenizeLine
  have := TokenizeLineLoop_isSome file currentLine line.length line (le_refl _)
  cases h : Tokenizer.TokenizeLineLoop file currentLine line.length line with
  | none => rw [h] at this; cases this
  | some r => rfl

theorem Advance_eq_ok (self s : Parser) (h : self.Advance = .ok s) :
    s.tokens.length + 1 = self.tokens.length := by
  unfold Parser.Advance at h
  split at h
  · cases h
  · rename_i token rest heq
    cases h
    simp [heq]

theorem ExpectTokenType_eq_ok (self s : Parser) (type : TokenType) (token : Token)
    (h : self.ExpectTokenType type = .ok (token, s)) :
    s.tokens.length + 1 = self.tokens.length := by
  unfold Parser.ExpectTokenType at h
  simp only [bind_eq_ok] at h
  obtain ⟨current, -, h⟩ := h
  split at h
  · simp only [bind_eq_ok, pure_eq_ok, Prod.mk.injEq] at h
    obtain ⟨s1, hs1, -, rfl⟩ := h
    exact Advance_eq_ok self s1 hs1
  · cases h

theorem ParseIntegerLiteral_eq_ok (self s : Parser) (literal : Expression)
    (h : self.ParseIntegerLiteral = .ok (literal, s)) :
    s.tokens.length + 1 = self.tokens.length := by
  unfold Parser.ParseIntegerLiteral at h
  simp only [bind_eq_ok] at h
  obtain ⟨current, -, value, -, h⟩ := h
  split at h
  · cases h
  · split at h
    · simp only [bind_eq_ok, pure_eq_ok, Prod.mk.injEq] at h
      obtain ⟨s1, hs1, -, rfl⟩ := h
      exact Advance_eq_ok self s1 hs1
    · cases h

theorem ParseTypeBody_shorter (self s : Parser) (returnType type : Ty)
    (h : self.ParseTypeBody returnType = .ok (type, s)) :
    s.tokens.length < self.tokens.length := by
  unfold Parser.ParseTypeBody at h
  simp only [bind_eq_ok] at h
  obtain ⟨current, -, h⟩ := h
  split at h
  · simp only [bind_eq_ok, pure_eq_ok, Prod.mk.injEq, Prod.exists] at h
    obtain ⟨_, s1, h1, -, rfl⟩ := h
    have := ExpectTokenType_eq_ok _ _ _ _ h1
    omega
  · simp only [bind_eq_ok, Prod.exists] at h
    obtain ⟨_, s1, h1, current', -, h⟩ := h
    split at h
    · cases h
    · simp only [bind_eq_ok, pure_eq_ok, Prod.mk.injEq, Prod.exists] at h
      obtain ⟨_, s2, h2, _, s3, h3, _, -, -, rfl⟩ := h
      have := ExpectTokenType_eq_ok _ _ _ _ h1
      have := ParseIntegerLiteral_eq_ok _ _ _ h2
      have := ExpectTokenType_eq_ok _ _ _ _ h3
      omega
  · cases h

/-- The loop of `ParseType` ends within as many turns as there are tokens. -/
theorem ParseTypeLoop_isSome :
    ∀ (fuel : Nat) (self : Parser) (returnType : Ty), self.tokens.length ≤ fuel →
      (Parser.ParseTypeLoop fuel self returnType).isSome = true := by
  intro fuel
  induction fuel with
  | zero =>
    intro self returnType h
    have hnil : self.tokens = [] := List.eq_nil_of_length_eq_zero (Nat.le_zero.mp h)
    have htest : self.ParseTypeTest = .error .undefined_behavior := by
      simp [Parser.ParseTypeTest, Parser.currentToken, hnil, bind, Except.bind]
    rw [Parser.ParseTypeLoop, htest]
    rfl
  | succ fuel ih =>
    intro self returnType h
    rw [Parser.ParseTypeLoop]
    cases htest : self.ParseTypeTest with
    | error e => rfl
    | ok continues =>
      cases continues with
      | false => rfl
      | true =>
        simp only
        cases hbody : self.ParseTypeBody returnType with
        | error e => rfl
        | ok r =>
          obtain ⟨type, s⟩ := r
          have := ParseTypeBody_shorter self s returnType type hbody
          exact ih s type (by omega)

/-- No keyword is the beginning of another one, so that at most one keyword is the
beginning of a line: the order in which `IsKeyword` tries the keywords does not matter. -/
theorem keyword_unique (line : List Char) (k1 k2 : String × TokenType)
    (h1 : k1 ∈ Tokenizer._keywords) (h2 : k2 ∈ Tokenizer._keywords)
    (p1 : k1.1.toList.isPrefixOf line = true) (p2 : k2.1.toList.isPrefixOf line = true) :
    k1 = k2 := by
  have hall : ∀ a ∈ Tokenizer._keywords, ∀ b ∈ Tokenizer._keywords,
      a.1.toList.isPrefixOf b.1.toList = true → a = b := by decide
  rw [List.isPrefixOf_iff_prefix] at p1 p2
  rcases Nat.le_total k1.1.toList.length k2.1.toList.length with hle | hle
  · exact hall k1 h1 k2 h2
      (List.isPrefixOf_iff_prefix.mpr (List.prefix_of_prefix_length_le p1 p2 hle))
  · exact (hall k2 h2 k1 h1
      (List.isPrefixOf_iff_prefix.mpr (List.prefix_of_prefix_length_le p2 p1 hle))).symm

/-! ## Tokenizing the rendering of a type -/

theorem IsKeyword_of_not_initial (c : Char) (rest : List Char)
    (h : c ∉ ['f', 'r', 'v', 'i', 'e', 'c', 'b', 'a', 'o', 's']) :
    Tokenizer.IsKeyword (c :: rest) = none := by
  simp only [List.mem_cons, List.mem_singleton, List.not_mem_nil, or_false, not_or] at h
  obtain ⟨h1, h2, h3, h4, h5, h6, h7, h8, h9, h10⟩ := h
  have e1 : ('f' == c) = false := by simpa using fun h => h1 h.symm
  have e2 : ('r' == c) = false := by simpa using fun h => h2 h.symm
  have e3 : ('v' == c) = false := by simpa using fun h => h3 h.symm
  have e4 : ('i' == c) = false := by simpa using fun h => h4 h.symm
  have e5 : ('e' == c) = false := by simpa using fun h => h5 h.symm
  have e6 : ('c' == c) = false := by simpa using fun h => h6 h.symm
  have e7 : ('b' == c) = false := by simpa using fun h => h7 h.symm
  have e8 : ('a' == c) = false := by simpa using fun h => h8 h.symm
  have e9 : ('o' == c) = false := by simpa using fun h => h9 h.symm
  have e10 : ('s' == c) = false := by simpa using fun h => h10 h.symm
  simp [Tokenizer.IsKeyword, Tokenizer._keywords, List.find?, List.isPrefixOf, String.toList,
    e1, e2, e3, e4, e5, e6, e7, e8, e9, e10]

theorem TokenizeLineLoop_step (file : String) (currentLine fuel : Nat) (c : Char)
    (line rest : List Char) (token : Option Token)
    (hstep : Tokenizer.TokenizeLineStep file currentLine (c :: line) = .ok (token, rest)) :
    Tokenizer.TokenizeLineLoop file currentLine (fuel + 1) (c :: line) =
      match Tokenizer.TokenizeLineLoop file currentLine fuel rest with
      | none => none
      | some (.error e) => some (.error e)
      | some (.ok tokens) => some (.ok (token.toList ++ tokens)) := by
  rw [Tokenizer.TokenizeLineLoop, hstep]
  intro h
  cases h

theorem isdigit_not_special (c : Char) (h : isdigit c = true) :
    Tokenizer.IsSpecialCharacter c = false := by
  cases hs : Tokenizer.IsSpecialCharacter c with
  | false => rfl
  | true =>
    simp only [Tokenizer.IsSpecialCharacter, Bool.or_eq_true, beq_iff_eq] at hs
    rcases hs with ((((((((((((((((( rfl | rfl) | rfl) | rfl) | rfl) | rfl) | rfl) | rfl) | rfl) |
      rfl) | rfl) | rfl) | rfl) | rfl) | rfl) | rfl) | rfl) | rfl) <;>
      exact absurd h (by decide)

theorem isdigit_not_keyword (c : Char) (rest : List Char) (h : isdigit c = true) :
    Tokenizer.IsKeyword (c :: rest) = none := by
  apply IsKeyword_of_not_initial
  simp only [List.mem_cons, List.mem_singleton, List.not_mem_nil, or_false, not_or]
  refine ⟨?_, ?_, ?_, ?_, ?_, ?_, ?_, ?_, ?_, ?_⟩ <;>
    (intro hc; rw [hc] at h; exact absurd h (by decide))

theorem takeWhile_append_stop {p : Char → Bool} (ds : List Char) (x : Char) (rest : List Char)
    (hall : ∀ c ∈ ds, p c = true) (hx : p x = false) :
    (ds ++ x :: rest).takeWhile p = ds := by
  induction ds with
  | nil => simp [List.takeWhile, hx]
  | cons d ds ih =>
    have ih' := ih (fun c hc => hall c (List.mem_cons_of_mem _ hc))
    simp only [List.cons_append, List.takeWhile, hall d (List.mem_cons_self _ _)]
    exact congrArg (List.cons d) ih'

theorem TokenizeLineStep_bracket (file : String) (currentLine : Nat) (rest : List Char) :
    Tokenizer.TokenizeLineStep file currentLine ('[' :: rest) =
      .ok (some { file := file, line := currentLine, type := .LeftBracket, value := none },
        rest) := by
  have hk : Tokenizer.IsKeyword ('[' :: rest) = none :=
    IsKeyword_of_not_initial _ _ (by decide)
  simp [Tokenizer.TokenizeLineStep, hk, Tokenizer.SlurpSpecial, Tokenizer.IsSpecialCharacter,
    Tokenizer.Advance, charQuote, charApostrophe, bind, Except.bind, pure, Except.pure]

theorem TokenizeLineStep_closing (file : String) (currentLine : Nat) (rest : List Char) :
    Tokenizer.TokenizeLineStep file currentLine (']' :: rest) =
      .ok (some { file := file, line := currentLine, type := .RightBracket, value := none },
        rest) := by
  have hk : Tokenizer.IsKeyword (']' :: rest) = none :=
    IsKeyword_of_not_initial _ _ (by decide)
  simp [Tokenizer.TokenizeLineStep, hk, Tokenizer.SlurpSpecial, Tokenizer.IsSpecialCharacter,
    Tokenizer.Advance, charQuote, charApostrophe, bind, Except.bind, pure, Except.pure]

theorem TokenizeLineStep_digits (file : String) (currentLine : Nat) (d : Char)
    (ds rest : List Char) (hall : ∀ c ∈ d :: ds, isdigit c = true) :
    Tokenizer.TokenizeLineStep file currentLine (d :: (ds ++ ']' :: rest)) =
      .ok (some { file := file, line := currentLine, type := .I64Literal,
                  value := some (String.mk (d :: ds)) }, ']' :: rest) := by
  have hd : isdigit d = true := hall d (List.mem_cons_self _ _)
  have hk : Tokenizer.IsKeyword (d :: (ds ++ ']' :: rest)) = none := isdigit_not_keyword _ _ hd
  have h1 : d ≠ '#' := by intro hc; rw [hc] at hd; exact absurd hd (by decide)
  have h2 : d ≠ charQuote := by intro hc; rw [hc] at hd; exact absurd hd (by decide)
  have h3 : d ≠ charApostrophe := by intro hc; rw [hc] at hd; exact absurd hd (by decide)
  have htake : (d :: ds ++ ']' :: rest).takeWhile isdigit = d :: ds :=
    takeWhile_append_stop (d :: ds) ']' rest hall (by decide)
  have hlen : (d :: ds).length = ds.length + 1 := rfl
  simp only [Tokenizer.TokenizeLineStep, hk, h1, h2, h3, if_false,
    isdigit_not_special d hd, Bool.false_eq_true, hd, if_true, Tokenizer.SlurpNumeric]
  rw [show d :: (ds ++ ']' :: rest) = (d :: ds) ++ ']' :: rest from rfl, htake]
  simp [Tokenizer.Advance, List.take_left', List.drop_left', String.toList, List.isPrefixOf]

theorem TokenizeLineLoop_suffix (file : String) (currentLine : Nat) :
    ∀ (sizes : List Nat) (fuel : Nat), (suffixChars sizes).length ≤ fuel →
      Tokenizer.TokenizeLineLoop file currentLine fuel (suffixChars sizes) =
        some (.ok (suffixTokens file currentLine sizes)) := by
  intro sizes
  induction sizes with
  | nil =>
    intro fuel _
    cases fuel <;> rfl
  | cons size sizes ih =>
    intro fuel hfuel
    have hne := toDigits_ne_nil size
    have hall := toDigits_isdigit size
    cases hds : Nat.toDigits 10 size with
    | nil => exact absurd hds hne
    | cons d ds =>
      rw [hds] at hall
      simp only [suffixChars, hds, List.length_cons, List.length_append] at hfuel
      obtain ⟨fuel, rfl⟩ : ∃ f, fuel = f + 1 + 1 + 1 := ⟨fuel - 3, by omega⟩
      have hrest : (suffixChars sizes).length ≤ fuel := by omega
      have s1 := TokenizeLineLoop_step file currentLine (fuel + 1 + 1) _ _ _ _
        (TokenizeLineStep_bracket file currentLine (d :: (ds ++ ']' :: suffixChars sizes)))
      have s2 := TokenizeLineLoop_step file currentLine (fuel + 1) _ _ _ _
        (TokenizeLineStep_digits file currentLine d ds (suffixChars sizes) hall)
      have s3 := TokenizeLineLoop_step file currentLine fuel _ _ _ _
        (TokenizeLineStep_closing file currentLine (suffixChars sizes))
      rw [ih fuel hrest] at s3
      rw [s3] at s2
      rw [s2] at s1
      rw [suffixChars, hds, List.cons_append, s1]
      simp only [suffixTokens, Option.toList, List.singleton_append, toString, Nat.repr, hds,
        List.asString]

theorem TokenizeLineStep_builtin (file : String) (currentLine : Nat) (b : BuiltinTypeEnum)
    (rest : List Char) (h : rest = [] ∨ ∃ tail, rest = '[' :: tail) :
    Tokenizer.TokenizeLineStep file currentLine ((TypeToStr (.BuiltinType b)).toList ++ rest) =
      .ok (some { file := file, line := currentLine, type := .Identifier,
                  value := some (TypeToStr (.BuiltinType b)) }, rest) := by
  rcases h with rfl | ⟨tail, rfl⟩
  · cases b <;> rfl
  · cases b <;>
      simp [TypeToStr, String.toList, Tokenizer.TokenizeLineStep, Tokenizer.IsKeyword,
        Tokenizer._keywords, List.find?, List.isPrefixOf, charQuote, charApostrophe,
        Tokenizer.IsSpecialCharacter, isdigit, isalpha, isspace, Tokenizer.SlurpIdentifier,
        List.takeWhile, Tokenizer.Advance, charTab, charNewline, charVerticalTab, charFormFeed,
        charReturn, Char.isDigit, Char.isAlpha, Char.isUpper, Char.isLower]

theorem TypeToStr_arrayOf (sizes : List Nat) :
    ∀ base : Ty, (TypeToStr (arrayOf base sizes)).toList =
      (TypeToStr base).toList ++ suffixChars sizes := by
  induction sizes with
  | nil => intro base; simp [arrayOf, suffixChars]
  | cons size sizes ih =>
    intro base
    rw [arrayOf, ih, TypeToStr, suffixChars]
    simp only [String.toList, String.data_append, List.append_assoc, List.cons_append,
      List.nil_append]
    rfl

theorem getlines_single (line : List Char) (hne : line ≠ [])
    (hnl : ∀ c ∈ line, c ≠ charNewline) : getlines line = [line] := by
  induction line with
  | nil => exact absurd rfl hne
  | cons c rest ih =>
    have hc : c ≠ charNewline := hnl c (List.mem_cons_self _ _)
    rw [getlines, if_neg hc]
    cases rest with
    | nil => rfl
    | cons d rest =>
      rw [ih (by simp) (fun x hx => hnl x (List.mem_cons_of_mem _ hx))]

theorem suffixChars_head (sizes : List Nat) :
    suffixChars sizes = [] ∨ ∃ tail, suffixChars sizes = '[' :: tail := by
  cases sizes with
  | nil => exact Or.inl rfl
  | cons size sizes => exact Or.inr ⟨_, rfl⟩

theorem suffixChars_no_newline (sizes : List Nat) :
    ∀ c ∈ suffixChars sizes, c ≠ charNewline := by
  induction sizes with
  | nil => intro c hc; simp [suffixChars] at hc
  | cons size sizes ih =>
    intro c hc
    simp only [suffixChars, List.mem_cons, List.mem_append] at hc
    rcases hc with rfl | hc | rfl | hc
    · decide
    · intro h
      have := toDigits_isdigit size c hc
      rw [h] at this
      exact absurd this (by decide)
    · decide
    · exact ih c hc

theorem TokenizeLine_rendering (file : String) (currentLine : Nat) (b : BuiltinTypeEnum)
    (sizes : List Nat) :
    Tokenizer.TokenizeLine file currentLine
        ((TypeToStr (.BuiltinType b)).toList ++ suffixChars sizes) =
      .ok ({ file := file, line := currentLine, type := .Identifier,
             value := some (TypeToStr (.BuiltinType b)) } ::
        suffixTokens file currentLine sizes) := by
  have hstep := TokenizeLineStep_builtin file currentLine b (suffixChars sizes)
    (suffixChars_head sizes)
  obtain ⟨c, name, hname⟩ : ∃ c name, (TypeToStr (.BuiltinType b)).toList = c :: name := by
    cases b <;> exact ⟨_, _, rfl⟩
  rw [hname, List.cons_append] at hstep ⊢
  have hloop := TokenizeLineLoop_step file currentLine
    (name.length + (suffixChars sizes).length) c (name ++ suffixChars sizes) _ _ hstep
  rw [TokenizeLineLoop_suffix file currentLine sizes _ (by omega)] at hloop
  unfold Tokenizer.TokenizeLine
  have hlen : (c :: (name ++ suffixChars sizes)).length =
      (name.length + (suffixChars sizes).length) + 1 := by
    simp only [List.length_cons, List.length_append]
  rw [hlen, hloop]
  rfl

theorem Tokenize_single_line (filename : String) (c : Char) (rest : List Char)
    (tokens : List Token) (h1 : c ≠ '#') (h2 : c ≠ charTab)
    (hnl : ∀ x ∈ c :: rest, x ≠ charNewline)
    (htokens : Tokenizer.TokenizeLine filename 1 (c :: rest) = .ok tokens) :
    Tokenizer.TokenizeLoop filename (getlines (c :: rest)) 0 0 =
      .ok (tokens ++
        [{ file := filename, line := 1, type := .EndOfLine, value := none },
         { file := filename, line := 1, type := .EndOfFile, value := none }]) := by
  rw [getlines_single _ (by simp) hnl, Tokenizer.TokenizeLoop]
  have hcount : Tokenizer.CountTabs (c :: rest) = .ok (0, c :: rest) := by
    rw [Tokenizer.CountTabs, if_neg h2]
  simp only [List.isEmpty_cons, List.head?_cons, Option.some.injEq, h1, decide_False,
    Bool.or_self, Bool.false_eq_true, if_false, hcount, bind_ok, Nat.zero_add, htokens]
  rw [Tokenizer.TokenizeLoop]
  simp [pure, Except.pure, bind, Except.bind]

theorem Tokenize_rendering (filename : String) (b : BuiltinTypeEnum) (sizes : List Nat) :
    Tokenizer.Tokenize (TypeToStr (arrayOf (.BuiltinType b) sizes)) filename =
      .ok ({ file := filename, line := 1, type := .Identifier,
             value := some (TypeToStr (.BuiltinType b)) } ::
        (suffixTokens filename 1 sizes ++
          [{ file := filename, line := 1, type := .EndOfLine, value := none },
           { file := filename, line := 1, type := .EndOfFile, value := none }])) := by
  obtain ⟨c, name, hname, hc1, hc2, hc3⟩ :
      ∃ c name, (TypeToStr (.BuiltinType b)).toList = c :: name ∧ c ≠ '#' ∧ c ≠ charTab ∧
        ∀ x ∈ c :: name, x ≠ charNewline := by
    cases b <;> exact ⟨_, _, rfl, by decide, by decide, by decide⟩
  have hline := TokenizeLine_rendering filename 1 b sizes
  unfold Tokenizer.Tokenize
  rw [TypeToStr_arrayOf]
  rw [hname, List.cons_append] at hline ⊢
  have hnl : ∀ x ∈ c :: (name ++ suffixChars sizes), x ≠ charNewline := by
    intro x hx
    rcases List.mem_cons.mp hx with rfl | hx
    · exact hc3 x (List.mem_cons_self _ _)
    · rcases List.mem_append.mp hx with hx | hx
      · exact hc3 x (List.mem_cons_of_mem _ hx)
      · exact suffixChars_no_newline sizes x hx
  rw [Tokenize_single_line filename c _ _ hc1 hc2 hnl hline]
  rfl

/-! ## Parsing the tokens of the rendering of a type -/

theorem ParseTypeBody_suffix (file : String) (currentLine size : Nat) (hsize : size < 2 ^ 63)
    (rest : List Token) (declared : List String) (types : unordered_map Ty) (base : Ty) :
    Parser.ParseTypeBody
        { tokens :=
            { file := file, line := currentLine, type := .LeftBracket, value := none } ::
            { file := file, line := currentLine, type := .I64Literal,
              value := some (toString size) } ::
            { file := file, line := currentLine, type := .RightBracket, value := none } :: rest
          _declaredFunctions := declared
          _types := types } base =
      .ok (.Array base size,
        { tokens := rest, _declaredFunctions := declared, _types := types }) := by
  have hconv : from_chars_int64 (toString size).toList = some (size : Int) := by
    rw [toString_toList]
    exact from_chars_int64_toDigits size hsize
  have hcast : ((size : Int) % 2 ^ 64).toNat = size := by
    have h2 : size < 9223372036854775808 := by
      have : (2 : Nat) ^ 63 = 9223372036854775808 := by norm_num
      omega
    have : (size : Int) % 2 ^ 64 = (size : Int) := Int.emod_eq_of_lt (by omega) (by omega)
    rw [this]
    rfl
  simp only [Parser.ParseTypeBody, Parser.ExpectTokenType, Parser.currentToken, Parser.Advance,
    Parser.ParseIntegerLiteral, bind_ok, if_true, pure, Except.pure, ne_eq, not_true_eq_false,
    if_false, optional_value, hconv, ExpressionValue.getInt64, Expression.value, hcast]

theorem ParseTypeLoop_suffix (file : String) (currentLine : Nat) (stop : Token)
    (rest : List Token) (hstop1 : stop.type ≠ .Asterisk) (hstop2 : stop.type ≠ .LeftBracket)
    (declared : List String) (types : unordered_map Ty) :
    ∀ (sizes : List Nat), (∀ size ∈ sizes, size < 2 ^ 63) →
    ∀ (base : Ty) (fuel : Nat), sizes.length ≤ fuel →
      Parser.ParseTypeLoop fuel
          { tokens := suffixTokens file currentLine sizes ++ stop :: rest
            _declaredFunctions := declared
            _types := types } base =
        some (.ok (arrayOf base sizes,
          { tokens := stop :: rest, _declaredFunctions := declared, _types := types })) := by
  intro sizes
  induction sizes with
  | nil =>
    intro _ base fuel _
    have htest : Parser.ParseTypeTest
        { tokens := stop :: rest, _declaredFunctions := declared, _types := types } =
        .ok false := by
      simp [Parser.ParseTypeTest, Parser.currentToken, hstop1, hstop2, bind, Except.bind, pure,
        Except.pure]
    cases fuel <;> simp [Parser.ParseTypeLoop, suffixTokens, htest, arrayOf]
  | cons size sizes ih =>
    intro hsizes base fuel hfuel
    obtain ⟨fuel, rfl⟩ : ∃ f, fuel = f + 1 := ⟨fuel - 1, by simp at hfuel; omega⟩
    have harray := ParseTypeBody_suffix file currentLine size
      (hsizes size (List.mem_cons_self _ _))
      (suffixTokens file currentLine sizes ++ stop :: rest) declared types base
    have htest : Parser.ParseTypeTest
        { tokens := suffixTokens file currentLine (size :: sizes) ++ stop :: rest,
          _declaredFunctions := declared, _types := types } = .ok true := rfl
    rw [Parser.ParseTypeLoop, htest]
    simp only [suffixTokens, List.cons_append, harray]
    rw [arrayOf]
    exact ih (fun s hs => hsizes s (List.mem_cons_of_mem _ hs)) _ fuel
      (by simp at hfuel; omega)

theorem find_builtin (b : BuiltinTypeEnum) :
    Parser.new._types.find (TypeToStr (.BuiltinType b)) = some (.BuiltinType b) := by
  cases b <;> rfl

theorem ParseType_rendering (filename : String) (b : BuiltinTypeEnum) (sizes : List Nat)
    (hsizes : ∀ size ∈ sizes, size < 2 ^ 63) (stop : Token) (rest : List Token)
    (hstop1 : stop.type ≠ .Asterisk) (hstop2 : stop.type ≠ .LeftBracket) :
    (Parser.new.begin
        ({ file := filename, line := 1, type := .Identifier,
           value := some (TypeToStr (.BuiltinType b)) } ::
          (suffixTokens filename 1 sizes ++ stop :: rest))).ParseType =
      .ok (arrayOf (.BuiltinType b) sizes, Parser.new.begin (stop :: rest)) := by
  have hloop := ParseTypeLoop_suffix filename 1 stop rest hstop1 hstop2
    Parser.new._declaredFunctions Parser.new._types sizes hsizes (.BuiltinType b)
    (suffixTokens filename 1 sizes ++ stop :: rest).length (by
      have : ∀ l : List Nat, (suffixTokens filename 1 l).length = 3 * l.length := by
        intro l
        induction l with
        | nil => rfl
        | cons a l ih => simp only [suffixTokens, List.length_cons, ih]; omega
      simp only [List.length_append, this]
      omega)
  simp only [Parser.ParseType, Parser.begin, Parser.ExpectTokenType, Parser.currentToken,
    Parser.Advance, bind_ok, if_true, pure, Except.pure, optional_value, find_builtin]
  rw [hloop]

/-! ## Claim C20 -/

theorem arrayOf_append (sizes : List Nat) :
    ∀ (base : Ty) (size : Nat), arrayOf base (sizes ++ [size]) = .Array (arrayOf base sizes) size := by
  induction sizes with
  | nil => intro base size; rfl
  | cons s sizes ih =>
    intro base size
    rw [List.cons_append, arrayOf, ih, arrayOf]

theorem builtFromBuiltinArray_eq_arrayOf (t : Ty) :
    builtFromBuiltinArray t = true →
      ∃ b sizes, t = arrayOf (.BuiltinType b) sizes ∧ ∀ size ∈ sizes, size < 2 ^ 63 := by
  refine @Ty.rec
    (fun t => builtFromBuiltinArray t = true →
      ∃ b sizes, t = arrayOf (.BuiltinType b) sizes ∧ ∀ size ∈ sizes, size < 2 ^ 63)
    (fun _ => True) (fun _ => True) ?_ ?_ ?_ ?_ ?_ ?_ ?_ t
  · intro b _
    exact ⟨b, [], rfl, by simp⟩
  · intro elementType size ih h
    rw [builtFromBuiltinArray] at h
    simp only [Bool.and_eq_true, decide_eq_true_eq] at h
    obtain ⟨b, sizes, rfl, hs⟩ := ih h.1
    refine ⟨b, sizes ++ [size], (arrayOf_append sizes _ size).symm, ?_⟩
    intro s hmem
    rcases List.mem_append.mp hmem with hmem | hmem
    · exact hs s hmem
    · rw [List.mem_singleton.mp hmem]
      exact h.2
  · intro fields _ h
    simp [builtFromBuiltinArray] at h
  · intro pointedType _ h
    simp [builtFromBuiltinArray] at h
  · intro _ _ _
    trivial
  · trivial
  · intro _ _ _ _
    trivial

theorem TypeIsSame_arrayOf (sizes : List Nat) :
    ∀ base : Ty, TypeIsSame base base = .ok true →
      TypeIsSame (arrayOf base sizes) (arrayOf base sizes) = .ok true := by
  induction sizes with
  | nil => intro base h; exact h
  | cons size sizes ih =>
    intro base h
    rw [arrayOf]
    apply ih
    rw [TypeIsSame, h]
    simp

theorem roundTrip_arrayOf (filename : String) (b : BuiltinTypeEnum) (sizes : List Nat)
    (hsizes : ∀ size ∈ sizes, size < 2 ^ 63) :
    roundTrip (arrayOf (.BuiltinType b) sizes) filename = .ok true ∧
    ∃ tokens rest, Tokenizer.Tokenize (TypeToStr (arrayOf (.BuiltinType b) sizes)) filename =
        .ok tokens ∧
      (Parser.new.begin tokens).ParseType = .ok (arrayOf (.BuiltinType b) sizes, rest) := by
  have htok := Tokenize_rendering filename b sizes
  have hparse := ParseType_rendering filename b sizes hsizes
    { file := filename, line := 1, type := .EndOfLine, value := none }
    [{ file := filename, line := 1, type := .EndOfFile, value := none }]
    (by simp) (by simp)
  have hsame : TypeIsSame (arrayOf (.BuiltinType b) sizes) (arrayOf (.BuiltinType b) sizes) =
      .ok true :=
    TypeIsSame_arrayOf sizes _ (by rw [TypeIsSame]; simp)
  refine ⟨?_, _, _, htok, hparse⟩
  unfold roundTrip
  rw [htok, bind_ok, hparse, bind_ok]
  exact hsame

/-- The rendering of a pointer type is the word `pointer`, whatever it points to, and that
word is not the name of a type. -/
theorem roundTrip_Pointer (pointedType : Ty) (filename : String) :
    roundTrip (.Pointer pointedType) filename =
      .error (.invalid_argument Parser.ParseType.PRETTY_FUNCTION) :=
  rfl

/-- C20 fails: the types `i64*` and `i64[9223372036854775808]` are built from Builtin,
Pointer and Array, and their round trip does not succeed. `TypeToStr` renders the pointer
as the word `pointer`, which `ParseType` does not find among the names of types; the element
count `2 ^ 63` is rendered in full and `ParseIntegerLiteral` reads a count into a
`std::int64_t`, which does not hold it. -/
theorem C20_round_trip_fails :
    builtFromBuiltinPointerArray (.Pointer i64) = true ∧
    TypeToStr (.Pointer i64) = "pointer" ∧
    roundTrip (.Pointer i64) "t" =
      .error (.invalid_argument Parser.ParseType.PRETTY_FUNCTION) ∧
    builtFromBuiltinPointerArray (.Array i64 (2 ^ 63)) = true ∧
    TypeToStr (.Array i64 (2 ^ 63)) = "i64[9223372036854775808]" ∧
    roundTrip (.Array i64 (2 ^ 63)) "t" =
      .error (.invalid_argument Parser.ParseIntegerLiteral.PRETTY_FUNCTION) :=
  ⟨rfl, rfl, rfl, rfl, rfl, rfl⟩

/-- C20, amended. Round trip on types: for every type `t` built only from Builtin and
Array in which every element count is below `2 ^ 63`, tokenizing the string `TypeToStr(t)`
and parsing it with `ParseType` succeeds and yields `t` itself, and `TypeIsSame` of `t`
and the parsed type is `true`. -/
theorem C20_round_trip_of_builtin_and_array_types (t : Ty) (filename : String)
    (h : builtFromBuiltinArray t = true) :
    roundTrip t filename = .ok true ∧
    ∃ tokens rest, Tokenizer.Tokenize (TypeToStr t) filename = .ok tokens ∧
      (Parser.new.begin tokens).ParseType = .ok (t, rest) := by
  obtain ⟨b, sizes, rfl, hsizes⟩ := builtFromBuiltinArray_eq_arrayOf t h
  exact roundTrip_arrayOf filename b sizes hsizes

/-- Witness of C20, amended: the type `i64[2][3]`. -/
theorem C20_round_trip_of_builtin_and_array_types_witness :
    builtFromBuiltinArray (.Array (.Array i64 2) 3) = true ∧
    roundTrip (.Array (.Array i64 2) 3) "t" = .ok true :=
  ⟨rfl, (C20_round_trip_of_builtin_and_array_types (.Array (.Array i64 2) 3) "t" rfl).1⟩

/-! ## Bounded calls: more fuel never changes a result -/

theorem Fueled.monadLift_eq {α : Type} (x : Except Exception α) :
    (monadLift x : Fueled α) = some x := rfl

theorem Fueled.pure_eq {α : Type} (a : α) : (pure a : Fueled α) = some (.ok a) := rfl

theorem Fueled.throw_eq {α : Type} (e : Exception) : (throw e : Fueled α) = some (.error e) :=
  rfl

theorem Fueled.bind_of_ok {α β : Type} {x : Fueled α} {a : α} (h : x = some (.ok a))
    (f : α → Fueled β) : (x >>= f) = f a := by
  subst h
  rfl

theorem Fueled.bind_of_error {α β : Type} {x : Fueled α} {e : Exception}
    (h : x = some (.error e)) (f : α → Fueled β) : (x >>= f) = some (.error e) := by
  subst h
  rfl

theorem Fueled.bind_of_none {α β : Type} {x : Fueled α} (h : x = none) (f : α → Fueled β) :
    (x >>= f) = none := by
  subst h
  rfl


theorem Fueled.le_refl {α : Type} (x : Fueled α) : Fueled.le x x := ⟨fun _ h => h⟩

theorem Fueled.le_trans {α : Type} {x y z : Fueled α} (h : Fueled.le x y)
    (h' : Fueled.le y z) : Fueled.le x z := ⟨fun r e => h'.out r (h.out r e)⟩

theorem Fueled.none_le {α : Type} (y : Fueled α) : Fueled.le none y :=
  ⟨fun _ h => by cases h⟩

theorem Fueled.le_bind {α β : Type} {x y : Fueled α} {f g : α → Fueled β}
    (h : Fueled.le x y) (h' : ∀ a, Fueled.le (f a) (g a)) :
    Fueled.le (x >>= f) (y >>= g) := by
  constructor
  intro r e
  match x, h, e with
  | some (.ok a), h, e =>
    rw [h.out _ rfl]
    exact (h' a).out r e
  | some (.error err), h, e =>
    rw [h.out _ rfl]
    exact e
  | none, _, e => cases e

theorem Fueled.le_ite {α : Type} {c : Prop} [Decidable c] {x y x' y' : Fueled α}
    (h : Fueled.le x x') (h' : Fueled.le y y') :
    Fueled.le (if c then x else y) (if c then x' else y') := by
  split
  · exact h
  · exact h'

theorem Parser.deeper (fuel : Nat) : Parser.Deeper fuel := by
  induction fuel with
  | zero =>
    constructor
    · intros
      rw [Parser.ParseScope]
      exact Fueled.none_le _
    · intros
      rw [Parser.ParseScopeLoop]
      exact Fueled.none_le _
    · intros
      rw [Parser.ParseReturn]
      exact Fueled.none_le _
    · intros
      rw [Parser.ParseConditional]
      exact Fueled.none_le _
    · intros
      rw [Parser.ParseConditionalLoop]
      exact Fueled.none_le _
    · intros
      rw [Parser.ParseForLoop]
      exact Fueled.none_le _
    · intros
      rw [Parser.ParseVariableDeclaration]
      exact Fueled.none_le _
    · intros
      rw [Parser.ParseIndent]
      exact Fueled.none_le _
    · intros
      rw [Parser.ParseExpression]
      exact Fueled.none_le _
    · intros
      rw [Parser.ParseExpressionRHS]
      exact Fueled.none_le _
    · intros
      rw [Parser.ParsePrimary]
      exact Fueled.none_le _
    · intros
      rw [Parser.ParseParenExpression]
      exact Fueled.none_le _
    · intros
      rw [Parser.ParseIdentifier]
      exact Fueled.none_le _
    · intros
      rw [Parser.ParseCallExpression]
      exact Fueled.none_le _
    · intros
      rw [Parser.ParseCallExpressionLoop]
      exact Fueled.none_le _
    · intros
      rw [Parser.ParseUnary]
      exact Fueled.none_le _
    · intros
      rw [Parser.ParseUnaryLoop]
      exact Fueled.none_le _
    · intros
      rw [Parser.ParseArrayLiteral]
      exact Fueled.none_le _
    · intros
      rw [Parser.ParseArrayLiteralLoop]
      exact Fueled.none_le _
    · intros
      rw [Parser.ParseStructLiteral]
      exact Fueled.none_le _
    · intros
      rw [Parser.ParseStructLiteralLoop]
      exact Fueled.none_le _
    · intros
      rw [Parser.ParseUnary.applySuffixes]
      exact Fueled.none_le _
  | succ fuel ih =>
    constructor
    · intros
      rw [Parser.ParseScope, Parser.ParseScope]
      repeat (first
        | with_reducible exact Fueled.le_refl _
        | exact ih.ParseScopeLoop _
        | apply Fueled.le_bind
        | (intro p; cases p; dsimp only)
        | intro p)
    · intros
      rw [Parser.ParseScopeLoop, Parser.ParseScopeLoop]
      repeat (first
        | with_reducible exact Fueled.le_refl _
        | exact ih.ParseConditional _
        | exact ih.ParseExpression _
        | exact ih.ParseForLoop _
        | exact ih.ParseIndent _
        | exact ih.ParseReturn _
        | exact ih.ParseScopeLoop _
        | exact ih.ParseVariableDeclaration _
        | apply Fueled.le_bind
        | apply Fueled.le_ite
        | (intro p; cases p; dsimp only)
        | intro p)
    · intros
      rw [Parser.ParseReturn, Parser.ParseReturn]
      repeat (first
        | with_reducible exact Fueled.le_refl _
        | exact ih.ParseExpression _
        | apply Fueled.le_bind
        | apply Fueled.le_ite
        | (intro p; cases p; dsimp only)
        | intro p)
    · intros
      rw [Parser.ParseConditional, Parser.ParseConditional]
      repeat (first
        | with_reducible exact Fueled.le_refl _
        | exact ih.ParseConditionalLoop _
        | exact ih.ParseExpression _
        | exact ih.ParseScope _
        | apply Fueled.le_bind
        | apply Fueled.le_ite
        | (intro p; cases p; dsimp only)
        | intro p)
    · intros
      rw [Parser.ParseConditionalLoop, Parser.ParseConditionalLoop]
      repeat (first
        | with_reducible exact Fueled.le_refl _
        | exact ih.ParseConditionalLoop _
        | exact ih.ParseExpression _
        | exact ih.ParseScope _
        | apply Fueled.le_bind
        | apply Fueled.le_ite
        | (intro p; cases p; dsimp only)
        | intro p)
    · intros
      rw [Parser.ParseForLoop, Parser.ParseForLoop]
      repeat (first
        | with_reducible exact Fueled.le_refl _
        | exact ih.ParseExpression _
        | exact ih.ParseScope _
        | exact ih.ParseVariableDeclaration _
        | apply Fueled.le_bind
        | apply Fueled.le_ite
        | (intro p; cases p; dsimp only)
        | intro p)
    · intros
      rw [Parser.ParseVariableDeclaration, Parser.ParseVariableDeclaration]
      repeat (first
        | with_reducible exact Fueled.le_refl _
        | exact ih.ParseExpression _
        | apply Fueled.le_bind
        | (intro p; cases p; dsimp only)
        | intro p)
    · intros
      rw [Parser.ParseIndent, Parser.ParseIndent]
      repeat (first
        | with_reducible exact Fueled.le_refl _
        | exact ih.ParseScope _
        | apply Fueled.le_bind
        | (intro p; cases p; dsimp only)
        | intro p)
    · intros
      rw [Parser.ParseExpression, Parser.ParseExpression]
      repeat (first
        | with_reducible exact Fueled.le_refl _
        | exact ih.ParseExpressionRHS _ _ _
        | exact ih.ParseUnary _
        | apply Fueled.le_bind
        | (intro p; cases p; dsimp only)
        | intro p)
    · intros
      rw [Parser.ParseExpressionRHS, Parser.ParseExpressionRHS]
      repeat (first
        | with_reducible exact Fueled.le_refl _
        | exact ih.ParseExpressionRHS _ _ _
        | exact ih.ParseUnary _
        | apply Fueled.le_bind
        | apply Fueled.le_ite
        | (intro p; cases p; dsimp only)
        | intro p)
    · intros
      rw [Parser.ParsePrimary, Parser.ParsePrimary]
      repeat (first
        | with_reducible exact Fueled.le_refl _
        | exact ih.ParseArrayLiteral _
        | exact ih.ParseIdentifier _
        | exact ih.ParseParenExpression _
        | exact ih.ParseStructLiteral _
        | apply Fueled.le_bind
        | apply Fueled.le_ite
        | (intro p; cases p; dsimp only)
        | intro p)
    · intros
      rw [Parser.ParseParenExpression, Parser.ParseParenExpression]
      repeat (first
        | with_reducible exact Fueled.le_refl _
        | exact ih.ParseExpression _
        | apply Fueled.le_bind
        | apply Fueled.le_ite
        | (intro p; cases p; dsimp only)
        | intro p)
    · intros
      rw [Parser.ParseIdentifier, Parser.ParseIdentifier]
      repeat (first
        | with_reducible exact Fueled.le_refl _
        | exact ih.ParseCallExpression _ _
        | apply Fueled.le_bind
        | apply Fueled.le_ite
        | (intro p; cases p; dsimp only)
        | intro p)
    · intros
      rw [Parser.ParseCallExpression, Parser.ParseCallExpression]
      repeat (first
        | with_reducible exact Fueled.le_refl _
        | exact ih.ParseCallExpressionLoop _
        | apply Fueled.le_bind
        | apply Fueled.le_ite
        | (intro p; cases p; dsimp only)
        | intro p)
    · intros
      rw [Parser.ParseCallExpressionLoop, Parser.ParseCallExpressionLoop]
      repeat (first
        | with_reducible exact Fueled.le_refl _
        | exact ih.ParseCallExpressionLoop _
        | exact ih.ParseExpression _
        | apply Fueled.le_bind
        | apply Fueled.le_ite
        | (intro p; cases p; dsimp only)
        | intro p)
    · intros
      rw [Parser.ParseUnary, Parser.ParseUnary]
      repeat (first
        | with_reducible exact Fueled.le_refl _
        | exact ih.applySuffixes _ _
        | exact ih.ParsePrimary _
        | exact ih.ParseUnaryLoop _
        | apply Fueled.le_bind
        | (intro p; cases p; dsimp only)
        | intro p)
    · intros
      rw [Parser.ParseUnaryLoop, Parser.ParseUnaryLoop]
      repeat (first
        | with_reducible exact Fueled.le_refl _
        | exact ih.ParseExpression _
        | exact ih.ParseUnary _
        | exact ih.ParseUnaryLoop _
        | apply Fueled.le_bind
        | apply Fueled.le_ite
        | (intro p; cases p; dsimp only)
        | intro p)
    · intros
      rw [Parser.ParseArrayLiteral, Parser.ParseArrayLiteral]
      repeat (first
        | with_reducible exact Fueled.le_refl _
        | exact ih.ParseArrayLiteralLoop _
        | apply Fueled.le_bind
        | (intro p; cases p; dsimp only)
        | intro p)
    · intros
      rw [Parser.ParseArrayLiteralLoop, Parser.ParseArrayLiteralLoop]
      repeat (first
        | with_reducible exact Fueled.le_refl _
        | exact ih.ParseArrayLiteralLoop _
        | exact ih.ParseExpression _
        | apply Fueled.le_bind
        | apply Fueled.le_ite
        | (intro p; cases p; dsimp only)
        | intro p)
    · intros
      rw [Parser.ParseStructLiteral, Parser.ParseStructLiteral]
      repeat (first
        | with_reducible exact Fueled.le_refl _
        | exact ih.ParseStructLiteralLoop _
        | apply Fueled.le_bind
        | (intro p; cases p; dsimp only)
        | intro p)
    · intros
      rw [Parser.ParseStructLiteralLoop, Parser.ParseStructLiteralLoop]
      repeat (first
        | with_reducible exact Fueled.le_refl _
        | exact ih.ParseExpression _
        | exact ih.ParseStructLiteralLoop _
        | apply Fueled.le_bind
        | apply Fueled.le_ite
        | (intro p; cases p; dsimp only)
        | intro p)
    · intro a b
      cases a with
      | nil => exact Fueled.le_refl _
      | cons front unarySuffixes =>
        rw [Parser.ParseUnary.applySuffixes, Parser.ParseUnary.applySuffixes]
        exact Fueled.le_bind (Fueled.le_refl _) (fun p => ih.applySuffixes _ _)

/-! ## Claim C21: binary operators group by precedence -/

theorem Fueled.ok_bind {α β : Type} (a : α) (f : α → Fueled β) :
    @Bind.bind Fueled _ α β (some (Except.ok a)) f = f a := rfl

theorem Fueled.error_bind {α β : Type} (e : Exception) (f : α → Fueled β) :
    @Bind.bind Fueled _ α β (some (Except.error e)) f = some (Except.error e) := rfl

theorem Fueled.none_bind {α β : Type} (f : α → Fueled β) :
    @Bind.bind Fueled _ α β none f = none := rfl

theorem Fueled.le_of_le {α : Type} (f : Nat → Fueled α)
    (step : ∀ n, Fueled.le (f n) (f (n + 1))) {n m : Nat} (h : n ≤ m) :
    Fueled.le (f n) (f m) := by
  induction h with
  | refl => exact Fueled.le_refl _
  | step _ ih => exact Fueled.le_trans ih (step _)

theorem Fueled.gives_of_eq {α : Type} (f : Nat → Fueled α)
    (step : ∀ n, Fueled.le (f n) (f (n + 1))) {n : Nat} {r : Except Exception α}
    (h : f n = some r) : Fueled.Gives f r :=
  ⟨n, fun _ hm => (Fueled.le_of_le f step hm).out r h⟩

theorem ParseUnary_gives (fuel : Nat) {self : Parser}
    {r : Except Exception (Expression × Parser)}
    (h : Parser.ParseUnary fuel self = some r) : Fueled.Gives (Parser.ParseUnary · self) r :=
  Fueled.gives_of_eq (Parser.ParseUnary · self) (fun n => (Parser.deeper n).ParseUnary self) h

theorem ParseExpression_gives (fuel : Nat) {self : Parser}
    {r : Except Exception (Expression × Parser)}
    (h : Parser.ParseExpression fuel self = some r) :
    Fueled.Gives (Parser.ParseExpression · self) r :=
  Fueled.gives_of_eq (Parser.ParseExpression · self)
    (fun n => (Parser.deeper n).ParseExpression self) h

theorem switch_of_mem {op : TokenType} {k : ExpressionKind} (h : (op, k) ∈ binaryOperators)
    (LHS RHS : Expression) :
    Parser.ParseExpressionRHS.switch op LHS RHS = .ok (node k [LHS, RHS]) := by
  simp only [binaryOperators, List.mem_cons, Prod.mk.injEq, List.mem_singleton,
    List.not_mem_nil, or_false] at h
  rcases h with h | h | h | h | h | h | h | h | h | h | h <;> obtain ⟨rfl, rfl⟩ := h <;> rfl

theorem precedence_of_mem {op : TokenType} {k : ExpressionKind}
    (h : (op, k) ∈ binaryOperators) : 10 ≤ Parser.GetBinaryOperatorPrecedence.switch op := by
  simp only [binaryOperators, List.mem_cons, Prod.mk.injEq, List.mem_singleton,
    List.not_mem_nil, or_false] at h
  rcases h with h | h | h | h | h | h | h | h | h | h | h <;> obtain ⟨rfl, rfl⟩ := h <;> decide

theorem precedence_of_not_mem {op : TokenType} (h : ∀ k, (op, k) ∉ binaryOperators) :
    Parser.GetBinaryOperatorPrecedence.switch op = -1 := by
  cases op <;> first | rfl | (exfalso; revert h; simp [binaryOperators])

theorem ParseExpressionRHS_return (fuel : Nat) (LHS : Expression) (p : Int) (self : Parser)
    (current : Token) (rest : List Token) (ht : self.tokens = current :: rest)
    (hp : Parser.GetBinaryOperatorPrecedence.switch current.type < p) :
    Parser.ParseExpressionRHS (fuel + 1) LHS p self = some (.ok (LHS, self)) := by
  rw [Parser.ParseExpressionRHS]
  simp [Parser.GetBinaryOperatorPrecedence, Parser.currentToken, ht, hp, Fueled.monadLift_eq,
    Fueled.pure_eq, Fueled.ok_bind]

theorem ParseExpressionRHS_plain (fuel : Nat) (LHS RHS built : Expression) (p : Int)
    (self s2 : Parser) (op next : Token) (rest rest2 : List Token)
    (ht : self.tokens = op :: rest)
    (hp : ¬ Parser.GetBinaryOperatorPrecedence.switch op.type < p)
    (hu : Parser.ParseUnary fuel { self with tokens := rest } = some (.ok (RHS, s2)))
    (ht2 : s2.tokens = next :: rest2)
    (hn : ¬ Parser.GetBinaryOperatorPrecedence.switch op.type <
      Parser.GetBinaryOperatorPrecedence.switch next.type)
    (hs : Parser.ParseExpressionRHS.switch op.type LHS RHS = .ok built) :
    Parser.ParseExpressionRHS (fuel + 1) LHS p self =
      Parser.ParseExpressionRHS fuel built p s2 := by
  rw [Parser.ParseExpressionRHS]
  simp [Parser.GetBinaryOperatorPrecedence, Parser.currentToken, Parser.Advance, ht, hp, hu,
    ht2, hn, hs, Fueled.monadLift_eq, Fueled.ok_bind]

theorem ParseExpressionRHS_deeper (fuel : Nat) (LHS RHS RHS2 built : Expression) (p : Int)
    (self s2 s3 : Parser) (op next : Token) (rest rest2 : List Token)
    (ht : self.tokens = op :: rest)
    (hp : ¬ Parser.GetBinaryOperatorPrecedence.switch op.type < p)
    (hu : Parser.ParseUnary fuel { self with tokens := rest } = some (.ok (RHS, s2)))
    (ht2 : s2.tokens = next :: rest2)
    (hn : Parser.GetBinaryOperatorPrecedence.switch op.type <
      Parser.GetBinaryOperatorPrecedence.switch next.type)
    (hr : Parser.ParseExpressionRHS fuel RHS
      (Parser.GetBinaryOperatorPrecedence.switch op.type + 1) s2 = some (.ok (RHS2, s3)))
    (hs : Parser.ParseExpressionRHS.switch op.type LHS RHS2 = .ok built) :
    Parser.ParseExpressionRHS (fuel + 1) LHS p self =
      Parser.ParseExpressionRHS fuel built p s3 := by
  rw [Parser.ParseExpressionRHS]
  simp [Parser.GetBinaryOperatorPrecedence, Parser.currentToken, Parser.Advance, ht, hp, hu,
    ht2, hn, hr, hs, Fueled.monadLift_eq, Fueled.ok_bind]

theorem ParseExpression_of_unary (fuel : Nat) (self s1 : Parser) (a : Expression)
    (ha : Parser.ParseUnary fuel self = some (.ok (a, s1))) :
    Parser.ParseExpression (fuel + 1) self = Parser.ParseExpressionRHS fuel a 0 s1 := by
  rw [Parser.ParseExpression]
  simp [ha, Fueled.ok_bind]

/-- The precedence of every token type is the one of the table, and `-1` for a type that
is not in the table. -/
theorem precedence_eq_table (type : TokenType) :
    Parser.GetBinaryOperatorPrecedence.switch type = (precedenceTable.lookup type).getD (-1) := by
  cases type <;> rfl

/-- Claim C21: binary operators group by the precedence table, the higher precedence
binding tighter. For all operands `a`, `b`, `c` that `ParseUnary` returns and all binary
operators `op1`, `op2`, with no binary operator behind `c`: when the precedence of `op1` is
below that of `op2`, `ParseExpression` parses `a op1 b op2 c` to `op1[a, op2[b, c]]`; when it
is above, to `op2[op1[a, b], c]`. The precedence that `GetBinaryOperatorPrecedence` gives is
the one of the table of the specification. -/
theorem C21_precedence_groups (self s1 s2 s3 : Parser) (a b c : Expression)
    (op1 op2 next : Token) (rest1 rest2 rest3 : List Token) (k1 k2 : ExpressionKind)
    (h1 : (op1.type, k1) ∈ binaryOperators) (h2 : (op2.type, k2) ∈ binaryOperators)
    (ha : Fueled.Gives (Parser.ParseUnary · self) (.ok (a, s1)))
    (t1 : s1.tokens = op1 :: rest1)
    (hb : Fueled.Gives (Parser.ParseUnary · { s1 with tokens := rest1 }) (.ok (b, s2)))
    (t2 : s2.tokens = op2 :: rest2)
    (hc : Fueled.Gives (Parser.ParseUnary · { s2 with tokens := rest2 }) (.ok (c, s3)))
    (t3 : s3.tokens = next :: rest3)
    (hnext : ∀ k, (next.type, k) ∉ binaryOperators) :
    (Parser.GetBinaryOperatorPrecedence.switch op1.type <
        Parser.GetBinaryOperatorPrecedence.switch op2.type →
      Fueled.Gives (Parser.ParseExpression · self)
        (.ok (node k1 [a, node k2 [b, c]], s3))) ∧
    (Parser.GetBinaryOperatorPrecedence.switch op2.type <
        Parser.GetBinaryOperatorPrecedence.switch op1.type →
      Fueled.Gives (Parser.ParseExpression · self)
        (.ok (node k2 [node k1 [a, b], c], s3))) ∧
    (∀ type, Parser.GetBinaryOperatorPrecedence.switch type =
      (precedenceTable.lookup type).getD (-1)) ∧
    precedenceTable.map (·.1) = binaryOperators.map (·.1) := by
  obtain ⟨na, ha⟩ := ha
  obtain ⟨nb, hb⟩ := hb
  obtain ⟨nc, hc⟩ := hc
  have p1 := precedence_of_mem h1
  have p2 := precedence_of_mem h2
  have pn := precedence_of_not_mem hnext
  refine ⟨fun hlt => ⟨na + nb + nc + 4, fun fuel hfuel => ?_⟩,
    fun hlt => ⟨na + nb + nc + 4, fun fuel hfuel => ?_⟩, precedence_eq_table, rfl⟩
  · obtain ⟨m, rfl⟩ : ∃ m, fuel = m + 4 := ⟨fuel - 4, by omega⟩
    show Parser.ParseExpression (m + 3 + 1) self = _
    rw [ParseExpression_of_unary _ _ _ _ (ha (m + 3) (by omega))]
    have inner : Parser.ParseExpressionRHS (m + 2) b
        (Parser.GetBinaryOperatorPrecedence.switch op1.type + 1) s2 =
        some (.ok (node k2 [b, c], s3)) := by
      rw [ParseExpressionRHS_plain (m + 1) b c (node k2 [b, c]) _ s2 s3 op2 next rest2 rest3 t2
        (by omega) (hc (m + 1) (by omega)) t3 (by omega) (switch_of_mem h2 b c)]
      exact ParseExpressionRHS_return m _ _ s3 next rest3 t3 (by omega)
    rw [ParseExpressionRHS_deeper (m + 2) a b (node k2 [b, c]) (node k1 [a, node k2 [b, c]]) 0
      s1 s2 s3 op1 op2 rest1 rest2 t1 (by omega) (hb (m + 2) (by omega)) t2 hlt inner
      (switch_of_mem h1 _ _)]
    exact ParseExpressionRHS_return (m + 1) _ _ s3 next rest3 t3 (by omega)
  · obtain ⟨m, rfl⟩ : ∃ m, fuel = m + 4 := ⟨fuel - 4, by omega⟩
    show Parser.ParseExpression (m + 3 + 1) self = _
    rw [ParseExpression_of_unary _ _ _ _ (ha (m + 3) (by omega))]
    rw [ParseExpressionRHS_plain (m + 2) a b (node k1 [a, b]) 0 s1 s2 op1 op2 rest1 rest2 t1
      (by omega) (hb (m + 2) (by omega)) t2 (by omega) (switch_of_mem h1 a b)]
    rw [ParseExpressionRHS_plain (m + 1) (node k1 [a, b]) c (node k2 [node k1 [a, b], c]) 0
      s2 s3 op2 next rest2 rest3 t2 (by omega) (hc (m + 1) (by omega)) t3 (by omega)
      (switch_of_mem h2 _ c)]
    exact ParseExpressionRHS_return m _ _ s3 next rest3 t3 (by omega)

/-- Claim C21 on `a + b * c`: the tree is Plus[a, Multiply[b, c]]. -/
theorem C21_precedence_groups_witness :
    Fueled.Gives (Parser.ParseExpression · (parserAt sumOfProduct))
      (.ok (node .PLUS_OP
        [variableRef "a", node .MULTIPLY_OP [variableRef "b", variableRef "c"]],
        parserAt [tokenOf .EndOfLine none])) :=
  (C21_precedence_groups (parserAt sumOfProduct) (parserAt (sumOfProduct.drop 1))
    (parserAt (sumOfProduct.drop 3)) (parserAt (sumOfProduct.drop 5))
    (variableRef "a") (variableRef "b") (variableRef "c")
    (tokenOf .PlusOp none) (tokenOf .Asterisk none) (tokenOf .EndOfLine none)
    (sumOfProduct.drop 2) (sumOfProduct.drop 4) [] .PLUS_OP .MULTIPLY_OP
    (by decide) (by decide)
    (ParseUnary_gives 3 rfl) rfl (ParseUnary_gives 3 rfl) rfl (ParseUnary_gives 3 rfl) rfl
    (by intro k; simp [binaryOperators, tokenOf])).1 (by decide)

/-! ## Claim C22: assignments in a row -/

theorem Fueled.Gives_unique {α : Type} {f : Nat → Fueled α} {r r' : Except Exception α}
    (h : Fueled.Gives f r) (h' : Fueled.Gives f r') : r = r' := by
  obtain ⟨n, h⟩ := h
  obtain ⟨n', h'⟩ := h'
  have e := h (n + n') (by omega)
  rw [h' (n + n') (by omega)] at e
  exact (Option.some.inj e).symm

/-- Two binary operators in a row of which the second does not bind tighter than the
first: `a op1 b op2 c` is parsed to `op2[op1[a, b], c]`. -/
theorem ParseExpression_groups_left (self s1 s2 s3 : Parser) (a b c : Expression)
    (op1 op2 next : Token) (rest1 rest2 rest3 : List Token) (k1 k2 : ExpressionKind)
    (h1 : (op1.type, k1) ∈ binaryOperators) (h2 : (op2.type, k2) ∈ binaryOperators)
    (ha : Fueled.Gives (Parser.ParseUnary · self) (.ok (a, s1)))
    (t1 : s1.tokens = op1 :: rest1)
    (hb : Fueled.Gives (Parser.ParseUnary · { s1 with tokens := rest1 }) (.ok (b, s2)))
    (t2 : s2.tokens = op2 :: rest2)
    (hc : Fueled.Gives (Parser.ParseUnary · { s2 with tokens := rest2 }) (.ok (c, s3)))
    (t3 : s3.tokens = next :: rest3)
    (hnext : ∀ k, (next.type, k) ∉ binaryOperators)
    (hle : Parser.GetBinaryOperatorPrecedence.switch op2.type ≤
      Parser.GetBinaryOperatorPrecedence.switch op1.type) :
    Fueled.Gives (Parser.ParseExpression · self) (.ok (node k2 [node k1 [a, b], c], s3)) := by
  obtain ⟨na, ha⟩ := ha
  obtain ⟨nb, hb⟩ := hb
  obtain ⟨nc, hc⟩ := hc
  have p1 := precedence_of_mem h1
  have p2 := precedence_of_mem h2
  have pn := precedence_of_not_mem hnext
  refine ⟨na + nb + nc + 4, fun fuel hfuel => ?_⟩
  obtain ⟨m, rfl⟩ : ∃ m, fuel = m + 4 := ⟨fuel - 4, by omega⟩
  show Parser.ParseExpression (m + 3 + 1) self = _
  rw [ParseExpression_of_unary _ _ _ _ (ha (m + 3) (by omega))]
  rw [ParseExpressionRHS_plain (m + 2) a b (node k1 [a, b]) 0 s1 s2 op1 op2 rest1 rest2 t1
    (by omega) (hb (m + 2) (by omega)) t2 (by omega) (switch_of_mem h1 a b)]
  rw [ParseExpressionRHS_plain (m + 1) (node k1 [a, b]) c (node k2 [node k1 [a, b], c]) 0
    s2 s3 op2 next rest2 rest3 t2 (by omega) (hc (m + 1) (by omega)) t3 (by omega)
    (switch_of_mem h2 _ c)]
  exact ParseExpressionRHS_return m _ _ s3 next rest3 t3 (by omega)

theorem chainedAssignment_gives :
    Fueled.Gives (Parser.ParseExpression · (parserAt chainedAssignment))
      (.ok (node .VARIABLE_ASSIGNMENT
        [node .VARIABLE_ASSIGNMENT [variableRef "a", variableRef "b"], variableRef "c"],
        parserAt [tokenOf .EndOfLine none])) :=
  ParseExpression_gives 6 rfl

/-- Claim C22, as the specification states it, fails: `a = b = c` is not parsed to
VariableAssignment[a, VariableAssignment[b, c]], whatever the parser is left with; the tree
is VariableAssignment[VariableAssignment[a, b], c]. -/
theorem C22_assignment_not_right_associative :
    (∀ s, ¬ Fueled.Gives (Parser.ParseExpression · (parserAt chainedAssignment))
      (.ok (node .VARIABLE_ASSIGNMENT
        [variableRef "a", node .VARIABLE_ASSIGNMENT [variableRef "b", variableRef "c"]], s))) ∧
    Fueled.Gives (Parser.ParseExpression · (parserAt chainedAssignment))
      (.ok (node .VARIABLE_ASSIGNMENT
        [node .VARIABLE_ASSIGNMENT [variableRef "a", variableRef "b"], variableRef "c"],
        parserAt [tokenOf .EndOfLine none])) := by
  refine ⟨fun s h => ?_, chainedAssignment_gives⟩
  have e := Fueled.Gives_unique h chainedAssignment_gives
  simp [node, variableRef] at e

/-- Claim C22, amended: assignment associates to the left. For all operands `a`, `b`, `c`
that `ParseUnary` returns, with no binary operator behind `c`, `ParseExpression` parses
`a = b = c` to VariableAssignment[VariableAssignment[a, b], c]. -/
theorem C22_assignment_left_associative (self s1 s2 s3 : Parser) (a b c : Expression)
    (op1 op2 next : Token) (rest1 rest2 rest3 : List Token)
    (h1 : op1.type = .Assignment) (h2 : op2.type = .Assignment)
    (ha : Fueled.Gives (Parser.ParseUnary · self) (.ok (a, s1)))
    (t1 : s1.tokens = op1 :: rest1)
    (hb : Fueled.Gives (Parser.ParseUnary · { s1 with tokens := rest1 }) (.ok (b, s2)))
    (t2 : s2.tokens = op2 :: rest2)
    (hc : Fueled.Gives (Parser.ParseUnary · { s2 with tokens := rest2 }) (.ok (c, s3)))
    (t3 : s3.tokens = next :: rest3)
    (hnext : ∀ k, (next.type, k) ∉ binaryOperators) :
    Fueled.Gives (Parser.ParseExpression · self)
      (.ok (node .VARIABLE_ASSIGNMENT [node .VARIABLE_ASSIGNMENT [a, b], c], s3)) :=
  ParseExpression_groups_left self s1 s2 s3 a b c op1 op2 next rest1 rest2 rest3
    .VARIABLE_ASSIGNMENT .VARIABLE_ASSIGNMENT (by rw [h1]; decide) (by rw [h2]; decide)
    ha t1 hb t2 hc t3 hnext (by rw [h1, h2])

/-- Claim C22, amended, on `a = b = c`. -/
theorem C22_assignment_left_associative_witness :
    Fueled.Gives (Parser.ParseExpression · (parserAt chainedAssignment))
      (.ok (node .VARIABLE_ASSIGNMENT
        [node .VARIABLE_ASSIGNMENT [variableRef "a", variableRef "b"], variableRef "c"],
        parserAt [tokenOf .EndOfLine none])) :=
  C22_assignment_left_associative (parserAt chainedAssignment)
    (parserAt (chainedAssignment.drop 1)) (parserAt (chainedAssignment.drop 3))
    (parserAt (chainedAssignment.drop 5))
    (variableRef "a") (variableRef "b") (variableRef "c")
    (tokenOf .Assignment none) (tokenOf .Assignment none) (tokenOf .EndOfLine none)
    (chainedAssignment.drop 2) (chainedAssignment.drop 4) [] rfl rfl
    (ParseUnary_gives 3 rfl) rfl (ParseUnary_gives 3 rfl) rfl (ParseUnary_gives 3 rfl) rfl
    (by intro k; simp [binaryOperators, tokenOf])

/-! ## Claim C23: prefix operators -/

theorem Fueled.ok_of_bind {α β : Type} {x : Fueled α} {f : α → Fueled β} {b : β} :
    (x >>= f) = some (.ok b) ↔ ∃ a, x = some (.ok a) ∧ f a = some (.ok b) := by
  constructor
  · intro h
    match x, h with
    | some (.ok a), h => exact ⟨a, rfl, h⟩
    | some (.error _), h => cases h
    | none, h => cases h
  · rintro ⟨a, rfl, h⟩
    exact h

theorem Fueled.some_inj {α : Type} {x y : Except Exception α} :
    @Eq (Fueled α) (some x) (some y) ↔ x = y :=
  ⟨fun h => Option.some.inj h, fun h => by rw [h]⟩

theorem prefixes_cons (current : Token) (rest : List Token)
    (h : Parser.IsUnaryPrefix.switch current.type = true) :
    Parser.ParseUnary.prefixes (current :: rest) =
      (Parser.ParseUnary.prefixes rest >>= fun r => pure (current.type :: r.1, r.2)) := by
  rw [Parser.ParseUnary.prefixes]
  simp [h]

theorem applyPrefixes_append (l : List TokenType) (op : TokenType) (operand : Expression) :
    Parser.ParseUnary.applyPrefixes (l ++ [op]) operand =
      (Parser.ParseUnary.applyPrefixes l operand >>= fun o =>
        Parser.ParseUnary.applyPrefixes [op] o) := by
  induction l generalizing operand with
  | nil => rfl
  | cons first l ih =>
    rw [List.cons_append, Parser.ParseUnary.applyPrefixes, Parser.ParseUnary.applyPrefixes]
    split
    · exact ih _
    · split
      · exact ih _
      · split
        · exact ih _
        · rfl

theorem applyPrefixes_single {op : TokenType} {k : ExpressionKind}
    (h : (op, k) ∈ prefixOperators) (operand : Expression) :
    Parser.ParseUnary.applyPrefixes [op] operand = .ok (node k [operand]) := by
  simp only [prefixOperators, List.mem_cons, Prod.mk.injEq, List.mem_singleton,
    List.not_mem_nil, or_false] at h
  rcases h with h | h | h <;> obtain ⟨rfl, rfl⟩ := h <;> rfl

theorem isUnaryPrefix_of_mem {op : TokenType} {k : ExpressionKind}
    (h : (op, k) ∈ prefixOperators) : Parser.IsUnaryPrefix.switch op = true := by
  simp only [prefixOperators, List.mem_cons, Prod.mk.injEq, List.mem_singleton,
    List.not_mem_nil, or_false] at h
  rcases h with h | h | h <;> obtain ⟨rfl, rfl⟩ := h <;> rfl

theorem ParseUnary_cons (fuel : Nat) (self s1 : Parser) (current : Token) (rest : List Token)
    (k : ExpressionKind) (e : Expression) (hk : (current.type, k) ∈ prefixOperators)
    (h : Parser.ParseUnary fuel { self with tokens := rest } = some (.ok (e, s1))) :
    Parser.ParseUnary fuel { self with tokens := current :: rest } =
      some (.ok (node k [e], s1)) := by
  cases fuel with
  | zero => rw [Parser.ParseUnary] at h; cases h
  | succ fuel =>
    rw [Parser.ParseUnary] at h
    rw [Parser.ParseUnary]
    simp only [Fueled.ok_of_bind, Fueled.monadLift_eq, Fueled.some_inj, Fueled.pure_eq,
      Except.ok.injEq, Prod.mk.injEq] at h
    obtain ⟨⟨ps, toks⟩, hp, ⟨operand, s2⟩, hprimary, ⟨suffixes, s3⟩, hloop, o1, hs, o2, ha,
      rfl, rfl⟩ := h
    dsimp only at hprimary hloop hs ha
    have hp' : Parser.ParseUnary.prefixes (current :: rest) = .ok (current.type :: ps, toks) := by
      rw [prefixes_cons _ _ (isUnaryPrefix_of_mem hk), hp]
      rfl
    have ha' : Parser.ParseUnary.applyPrefixes (current.type :: ps).reverse o1 =
        .ok (node k [o2]) := by
      rw [List.reverse_cons, applyPrefixes_append, ha]
      exact applyPrefixes_single hk o2
    simp only [hp', Fueled.monadLift_eq, Fueled.ok_bind, hprimary, hloop, hs, ha',
      Fueled.pure_eq]

theorem ParseUnary_stacked (fuel : Nat) (self s1 : Parser) (e : Expression)
    (he : Parser.ParseUnary fuel self = some (.ok (e, s1))) :
    ∀ ops : List (Token × ExpressionKind), (∀ p ∈ ops, (p.1.type, p.2) ∈ prefixOperators) →
      Parser.ParseUnary fuel { self with tokens := ops.map (·.1) ++ self.tokens } =
        some (.ok (stacked (ops.map (·.2)) e, s1))
  | [], _ => he
  | p :: ops, hops =>
    ParseUnary_cons fuel self s1 p.1 (ops.map (·.1) ++ self.tokens) p.2 _
      (hops p (List.mem_cons_self _ _))
      (ParseUnary_stacked fuel self s1 e he ops
        (fun q hq => hops q (List.mem_cons_of_mem _ hq)))

/-- Claim C23: prefix operators stack and are applied from the innermost outwards, after
the suffixes of the operand. When `ParseUnary` returns `e` for the tokens of an operand with
its suffixes, it returns `K(t1)[K(t2)[... K(tn)[e] ...]]` for the same tokens behind the
prefix tokens `t1 ... tn`, where `K` is PointerDereference for `*`, Negate for `-` and
AddressOf for `&`. -/
theorem C23_prefix_operators_stack (self s1 : Parser) (e : Expression)
    (ops : List (Token × ExpressionKind))
    (hops : ∀ p ∈ ops, (p.1.type, p.2) ∈ prefixOperators)
    (he : Fueled.Gives (Parser.ParseUnary · self) (.ok (e, s1))) :
    Fueled.Gives (Parser.ParseUnary · { self with tokens := ops.map (·.1) ++ self.tokens })
      (.ok (stacked (ops.map (·.2)) e, s1)) := by
  obtain ⟨n, he⟩ := he
  exact ⟨n, fun fuel hfuel => ParseUnary_stacked fuel self s1 e (he fuel hfuel) ops hops⟩

/-- Claim C23 on `*p++` and on `-*p`: the trees are PointerDereference[PostIncrement[p]]
and Negate[PointerDereference[p]]. -/
theorem C23_prefix_operators_stack_witness :
    Fueled.Gives (Parser.ParseUnary · (parserAt dereferencedIncrement))
      (.ok (node .POINTER_DEREFERENCE [node .POST_INC_OP [variableRef "p"]],
        parserAt [tokenOf .EndOfLine none])) ∧
    Fueled.Gives (Parser.ParseUnary · (parserAt negatedDereference))
      (.ok (node .NEGATE [node .POINTER_DEREFERENCE [variableRef "p"]],
        parserAt [tokenOf .EndOfLine none])) :=
  ⟨C23_prefix_operators_stack (parserAt (dereferencedIncrement.drop 1))
      (parserAt [tokenOf .EndOfLine none]) (node .POST_INC_OP [variableRef "p"])
      [(tokenOf .Asterisk none, .POINTER_DEREFERENCE)] (by decide) (ParseUnary_gives 3 rfl),
    C23_prefix_operators_stack (parserAt (negatedDereference.drop 2))
      (parserAt [tokenOf .EndOfLine none]) (variableRef "p")
      [(tokenOf .Minus none, .NEGATE), (tokenOf .Asterisk none, .POINTER_DEREFERENCE)]
      (by decide) (ParseUnary_gives 3 rfl)⟩

/-! ## Claim C24: suffix operators -/

theorem applySuffixes_entries (l : List Suffix) :
    ∀ (fuel : Nat) (operand : Expression), l.length < fuel →
      Parser.ParseUnary.applySuffixes fuel (l.flatMap Suffix.entries) operand =
        some (.ok (l.foldl Suffix.apply operand)) := by
  induction l with
  | nil =>
    intro fuel operand h
    obtain ⟨m, rfl⟩ : ∃ m, fuel = m + 1 := ⟨fuel - 1, by simp at h; omega⟩
    rfl
  | cons suffix l ih =>
    intro fuel operand h
    obtain ⟨m, rfl⟩ : ∃ m, fuel = m + 1 := ⟨fuel - 1, by omega⟩
    have hm : l.length < m := by simp at h; omega
    cases suffix with
    | postIncrement =>
      simp only [List.flatMap_cons, Suffix.entries, List.singleton_append, List.foldl_cons]
      rw [Parser.ParseUnary.applySuffixes]
      simp only [Parser.ParseUnary.applySuffix, if_true, Fueled.monadLift_eq, Fueled.ok_bind]
      exact ih m _ hm
    | subscript index =>
      simp only [List.flatMap_cons, Suffix.entries, List.cons_append, List.nil_append,
        List.foldl_cons]
      rw [Parser.ParseUnary.applySuffixes]
      simp [Parser.ParseUnary.applySuffix, Fueled.monadLift_eq, Fueled.ok_bind]
      exact ih m _ hm
    | member field =>
      simp only [List.flatMap_cons, Suffix.entries, List.cons_append, List.nil_append,
        List.foldl_cons]
      rw [Parser.ParseUnary.applySuffixes]
      simp [Parser.ParseUnary.applySuffix, Fueled.monadLift_eq, Fueled.ok_bind]
      exact ih m _ hm

theorem ParseExpression_le (self : Parser) {n m : Nat} (h : n ≤ m) :
    Fueled.le (Parser.ParseExpression n self) (Parser.ParseExpression m self) :=
  Fueled.le_of_le (Parser.ParseExpression · self)
    (fun n => (Parser.deeper n).ParseExpression self) h

theorem ParseUnaryLoop_entries {s s' : Parser} {l : List Suffix} (h : ReadsSuffixes s l s') :
    ∃ n, ∀ fuel, n ≤ fuel →
      Parser.ParseUnaryLoop fuel s = some (.ok (l.flatMap Suffix.entries, s')) := by
  induction h with
  | done s current rest ht hs =>
    refine ⟨1, fun fuel hfuel => ?_⟩
    obtain ⟨m, rfl⟩ : ∃ m, fuel = m + 1 := ⟨fuel - 1, by omega⟩
    rw [Parser.ParseUnaryLoop]
    simp [Parser.IsUnarySuffix, Parser.currentToken, ht, hs, Fueled.monadLift_eq,
      Fueled.ok_bind, Fueled.pure_eq]
  | postIncrement s s' current rest l ht hc _ ih =>
    obtain ⟨n, ih⟩ := ih
    refine ⟨n + 1, fun fuel hfuel => ?_⟩
    obtain ⟨m, rfl⟩ : ∃ m, fuel = m + 1 := ⟨fuel - 1, by omega⟩
    rw [Parser.ParseUnaryLoop]
    simp [Parser.IsUnarySuffix, Parser.currentToken, Parser.Advance, ht, hc,
      Parser.IsUnarySuffix.switch, Fueled.monadLift_eq, Fueled.ok_bind, Fueled.pure_eq,
      ih m (by omega), Suffix.entries]
  | subscript s s1 s' current closing rest rest1 index l ht hc hindex ht1 hc1 _ ih =>
    obtain ⟨n, ih⟩ := ih
    obtain ⟨k, hindex⟩ := hindex
    refine ⟨n + k + 1, fun fuel hfuel => ?_⟩
    obtain ⟨m, rfl⟩ : ∃ m, fuel = m + 1 := ⟨fuel - 1, by omega⟩
    rw [Parser.ParseUnaryLoop]
    simp [Parser.IsUnarySuffix, Parser.currentToken, Parser.Advance, ht, hc,
      Parser.IsUnarySuffix.switch, Fueled.monadLift_eq, Fueled.ok_bind, Fueled.pure_eq,
      ih m (by omega), hindex m (by omega), ht1, hc1, Suffix.entries]
  | member s s1 s' current rest field l ht hc hfield _ ih =>
    obtain ⟨n, ih⟩ := ih
    obtain ⟨k, hfield⟩ := hfield
    refine ⟨n + k + 1, fun fuel hfuel => ?_⟩
    obtain ⟨m, rfl⟩ : ∃ m, fuel = m + 1 := ⟨fuel - 1, by omega⟩
    rw [Parser.ParseUnaryLoop]
    simp [Parser.IsUnarySuffix, Parser.currentToken, Parser.Advance, ht, hc,
      Parser.IsUnarySuffix.switch, Fueled.monadLift_eq, Fueled.ok_bind, Fueled.pure_eq,
      ih m (by omega), hfield m (by omega), Suffix.entries]

theorem ParsePrimary_first {fuel : Nat} {self s1 : Parser} {p : Expression}
    (h : Parser.ParsePrimary fuel self = some (.ok (p, s1))) :
    ∃ current rest, self.tokens = current :: rest ∧
      Parser.IsUnaryPrefix.switch current.type = false := by
  cases fuel with
  | zero => rw [Parser.ParsePrimary] at h; cases h
  | succ fuel =>
    rw [Parser.ParsePrimary] at h
    match ht : self.tokens with
    | [] =>
      simp [Parser.currentToken, ht, Fueled.monadLift_eq, Fueled.error_bind] at h
      cases h
    | current :: rest =>
      refine ⟨current, rest, rfl, ?_⟩
      simp only [Parser.currentToken, ht, Fueled.monadLift_eq, Fueled.ok_bind] at h
      split_ifs at h with h1 h2 h3 h4 h5 h6 h7 h8
      · rw [h1]; rfl
      · rw [h2]; rfl
      · rw [h3]; rfl
      · rw [h4]; rfl
      · rw [h5]; rfl
      · rw [h6]; rfl
      · rw [h7]; rfl
      · rw [h8]; rfl
      · cases h

/-- The suffixes of an operand are put around it one after the other, the first
innermost. -/
theorem ParseUnary_suffixes (self s1 s2 : Parser) (p : Expression) (l : List Suffix)
    (hp : Fueled.Gives (Parser.ParsePrimary · self) (.ok (p, s1)))
    (hl : ReadsSuffixes s1 l s2) :
    Fueled.Gives (Parser.ParseUnary · self) (.ok (l.foldl Suffix.apply p, s2)) := by
  obtain ⟨k, hp⟩ := hp
  obtain ⟨n, hl⟩ := ParseUnaryLoop_entries hl
  refine ⟨n + k + l.length + 2, fun fuel hfuel => ?_⟩
  obtain ⟨m, rfl⟩ : ∃ m, fuel = m + 1 := ⟨fuel - 1, by omega⟩
  obtain ⟨current, rest, ht, hc⟩ := ParsePrimary_first (hp m (by omega))
  have hself : ({ self with tokens := current :: rest } : Parser) = self := by
    rw [← ht]
  show Parser.ParseUnary (m + 1) self = _
  rw [Parser.ParseUnary]
  simp [ht, Parser.ParseUnary.prefixes, hc, Fueled.monadLift_eq, Fueled.ok_bind, hself,
    hp m (by omega), hl m (by omega), applySuffixes_entries l m _ (by omega),
    Parser.ParseUnary.applyPrefixes, Fueled.pure_eq]

theorem memberMember_gives :
    Fueled.Gives (Parser.ParseUnary · (parserAt memberMember))
      (.ok (node .MEMBER_ACCESS
        [variableRef "a", node .MEMBER_ACCESS [variableRef "b", variableRef "c"]],
        parserAt [tokenOf .EndOfLine none])) :=
  ParseUnary_gives 8 rfl

theorem memberIncrement_gives :
    Fueled.Gives (Parser.ParseUnary · (parserAt memberIncrement))
      (.ok (node .MEMBER_ACCESS [variableRef "a", node .POST_INC_OP [variableRef "b"]],
        parserAt [tokenOf .EndOfLine none])) :=
  ParseUnary_gives 8 rfl

/-- Claim C24 fails on `a.b.c`: `ParseUnary` reads what follows a dot with a call of itself,
which takes the suffixes that follow the field name, so `a.b.c` is parsed to
MemberAccess[a, MemberAccess[b, c]] and not to MemberAccess[MemberAccess[a, b], c], and
`a.b++` to MemberAccess[a, PostIncrement[b]]. The suffixes as `ParseUnary` reads them, with
the whole expression behind a dot as the field, are put around the primary from left to
right; `a[0].x` is MemberAccess[ArraySubscript[a, 0], x] and `a[1][2]` is
ArraySubscript[ArraySubscript[a, 1], 2]. -/
theorem C24_member_suffix_takes_what_follows :
    (Fueled.Gives (Parser.ParseUnary · (parserAt memberMember))
      (.ok (node .MEMBER_ACCESS
        [variableRef "a", node .MEMBER_ACCESS [variableRef "b", variableRef "c"]],
        parserAt [tokenOf .EndOfLine none]))) ∧
    (∀ s, ¬ Fueled.Gives (Parser.ParseUnary · (parserAt memberMember))
      (.ok (node .MEMBER_ACCESS
        [node .MEMBER_ACCESS [variableRef "a", variableRef "b"], variableRef "c"], s))) ∧
    (Fueled.Gives (Parser.ParseUnary · (parserAt memberIncrement))
      (.ok (node .MEMBER_ACCESS [variableRef "a", node .POST_INC_OP [variableRef "b"]],
        parserAt [tokenOf .EndOfLine none]))) ∧
    (∀ s, ¬ Fueled.Gives (Parser.ParseUnary · (parserAt memberIncrement))
      (.ok (node .POST_INC_OP [node .MEMBER_ACCESS [variableRef "a", variableRef "b"]], s))) ∧
    (Fueled.Gives (Parser.ParseUnary · (parserAt subscriptMember))
      (.ok (node .MEMBER_ACCESS
        [node .ARRAY_SUBSCRIPT [variableRef "a", intLiteral 0], variableRef "x"],
        parserAt [tokenOf .EndOfLine none]))) ∧
    (Fueled.Gives (Parser.ParseUnary · (parserAt subscriptSubscript))
      (.ok (node .ARRAY_SUBSCRIPT
        [node .ARRAY_SUBSCRIPT [variableRef "a", intLiteral 1], intLiteral 2],
        parserAt [tokenOf .EndOfLine none]))) ∧
    (∀ (self s1 s2 : Parser) (p : Expression) (l : List Suffix),
      Fueled.Gives (Parser.ParsePrimary · self) (.ok (p, s1)) → ReadsSuffixes s1 l s2 →
      Fueled.Gives (Parser.ParseUnary · self) (.ok (l.foldl Suffix.apply p, s2))) := by
  refine ⟨memberMember_gives, fun s h => ?_, memberIncrement_gives, fun s h => ?_,
    ParseUnary_gives 8 rfl, ParseUnary_gives 10 rfl, ParseUnary_suffixes⟩
  · have e := Fueled.Gives_unique h memberMember_gives
    simp [node, variableRef] at e
  · have e := Fueled.Gives_unique h memberIncrement_gives
    simp [node, variableRef] at e

/-! ## Claim C25: the suffixes of a type -/

theorem Parser.Follows_refl (self : Parser) : self.Follows self :=
  ⟨rfl, rfl, List.suffix_refl _⟩

theorem Parser.Follows_trans {a b c : Parser} (h : a.Follows b) (h' : b.Follows c) :
    a.Follows c :=
  ⟨h'.1.trans h.1, h'.2.1.trans h.2.1, h'.2.2.trans h.2.2⟩

theorem Advance_follows (self s : Parser) (h : self.Advance = .ok s) : self.Follows s := by
  unfold Parser.Advance at h
  split at h
  · cases h
  · rename_i token rest heq
    cases h
    exact ⟨rfl, rfl, by rw [heq]; exact List.suffix_cons _ _⟩

theorem ExpectTokenType_follows (self s : Parser) (type : TokenType) (token : Token)
    (h : self.ExpectTokenType type = .ok (token, s)) : self.Follows s := by
  unfold Parser.ExpectTokenType at h
  simp only [bind_eq_ok] at h
  obtain ⟨current, -, h⟩ := h
  split at h
  · simp only [bind_eq_ok, pure_eq_ok, Prod.mk.injEq] at h
    obtain ⟨s1, hs1, -, rfl⟩ := h
    exact Advance_follows self s1 hs1
  · cases h

theorem ParseIntegerLiteral_follows (self s : Parser) (literal : Expression)
    (h : self.ParseIntegerLiteral = .ok (literal, s)) : self.Follows s := by
  unfold Parser.ParseIntegerLiteral at h
  simp only [bind_eq_ok] at h
  obtain ⟨current, -, value, -, h⟩ := h
  split at h
  · cases h
  · split at h
    · simp only [bind_eq_ok, pure_eq_ok, Prod.mk.injEq] at h
      obtain ⟨s1, hs1, -, rfl⟩ := h
      exact Advance_follows self s1 hs1
    · cases h

theorem ParseUnsignedIntegerLiteral_follows (self s : Parser) (literal : Expression)
    (h : self.ParseUnsignedIntegerLiteral = .ok (literal, s)) : self.Follows s := by
  unfold Parser.ParseUnsignedIntegerLiteral at h
  simp only [bind_eq_ok] at h
  obtain ⟨current, -, value, -, h⟩ := h
  split at h
  · cases h
  · split at h
    · simp only [bind_eq_ok, pure_eq_ok, Prod.mk.injEq] at h
      obtain ⟨s1, hs1, -, rfl⟩ := h
      exact Advance_follows self s1 hs1
    · cases h

theorem ParseCharacterLiteral_follows (self s : Parser) (literal : Expression)
    (h : self.ParseCharacterLiteral = .ok (literal, s)) : self.Follows s := by
  unfold Parser.ParseCharacterLiteral at h
  simp only [bind_eq_ok] at h
  obtain ⟨current, -, value, -, s1, hs1, h⟩ := h
  split at h
  · cases h
  · simp only [pure_eq_ok, Prod.mk.injEq] at h
    obtain ⟨-, rfl⟩ := h
    exact Advance_follows self s1 hs1

theorem ParseStringLiteral_follows (self s : Parser) (literal : Expression)
    (h : self.ParseStringLiteral = .ok (literal, s)) : self.Follows s := by
  unfold Parser.ParseStringLiteral at h
  simp only [bind_eq_ok, pure_eq_ok, Prod.mk.injEq] at h
  obtain ⟨current, -, value, -, s1, hs1, -, rfl⟩ := h
  exact Advance_follows self s1 hs1

theorem ParseContinue_follows (self s : Parser) (e : Expression)
    (h : self.ParseContinue = .ok (e, s)) : self.Follows s := by
  unfold Parser.ParseContinue at h
  simp only [bind_eq_ok, pure_eq_ok, Prod.mk.injEq] at h
  obtain ⟨s1, hs1, -, rfl⟩ := h
  exact Advance_follows self s1 hs1

theorem ParseBreak_follows (self s : Parser) (e : Expression)
    (h : self.ParseBreak = .ok (e, s)) : self.Follows s := by
  unfold Parser.ParseBreak at h
  simp only [bind_eq_ok, pure_eq_ok, Prod.mk.injEq] at h
  obtain ⟨s1, hs1, -, rfl⟩ := h
  exact Advance_follows self s1 hs1

theorem ParseTypeBody_follows (self s : Parser) (returnType type : Ty)
    (h : self.ParseTypeBody returnType = .ok (type, s)) : self.Follows s := by
  unfold Parser.ParseTypeBody at h
  simp only [bind_eq_ok] at h
  obtain ⟨current, -, h⟩ := h
  split at h
  · simp only [bind_eq_ok, pure_eq_ok, Prod.mk.injEq, Prod.exists] at h
    obtain ⟨_, s1, h1, -, rfl⟩ := h
    exact ExpectTokenType_follows _ _ _ _ h1
  · simp only [bind_eq_ok, Prod.exists] at h
    obtain ⟨_, s1, h1, current', -, h⟩ := h
    split at h
    · cases h
    · simp only [bind_eq_ok, pure_eq_ok, Prod.mk.injEq, Prod.exists] at h
      obtain ⟨_, s2, h2, _, s3, h3, _, -, -, rfl⟩ := h
      exact Parser.Follows_trans (Parser.Follows_trans (ExpectTokenType_follows _ _ _ _ h1)
        (ParseIntegerLiteral_follows _ _ _ h2)) (ExpectTokenType_follows _ _ _ _ h3)
  · cases h

theorem ParseTypeLoop_follows :
    ∀ (fuel : Nat) (self s : Parser) (returnType type : Ty),
      Parser.ParseTypeLoop fuel self returnType = some (.ok (type, s)) → self.Follows s := by
  intro fuel
  induction fuel with
  | zero =>
    intro self s returnType type h
    rw [Parser.ParseTypeLoop] at h
    split at h
    · cases h
    · cases h
      exact Parser.Follows_refl _
    · cases h
  | succ fuel ih =>
    intro self s returnType type h
    rw [Parser.ParseTypeLoop] at h
    split at h
    · cases h
    · cases h
      exact Parser.Follows_refl _
    · split at h
      · cases h
      · rename_i hbody
        exact Parser.Follows_trans (ParseTypeBody_follows _ _ _ _ hbody) (ih _ _ _ _ h)

theorem ParseType_follows (self s : Parser) (type : Ty)
    (h : self.ParseType = .ok (type, s)) : self.Follows s := by
  unfold Parser.ParseType at h
  simp only [bind_eq_ok, Prod.exists] at h
  obtain ⟨token, s1, h1, name, -, h⟩ := h
  split at h
  · cases h
  · split at h
    · rename_i hloop
      rw [h] at hloop
      exact Parser.Follows_trans (ExpectTokenType_follows _ _ _ _ h1)
        (ParseTypeLoop_follows _ _ _ _ _ hloop)
    · cases h

theorem prefixes_suffix :
    ∀ (tokens rest : List Token) (unaryPrefixes : List TokenType),
      Parser.ParseUnary.prefixes tokens = .ok (unaryPrefixes, rest) →
      List.IsSuffix rest tokens := by
  intro tokens
  induction tokens with
  | nil =>
    intro rest unaryPrefixes h
    rw [Parser.ParseUnary.prefixes] at h
    cases h
  | cons current tokens ih =>
    intro rest unaryPrefixes h
    rw [Parser.ParseUnary.prefixes] at h
    split at h
    · simp only [bind_eq_ok, pure_eq_ok, Prod.mk.injEq, Prod.exists] at h
      obtain ⟨ps, toks, hp, -, rfl⟩ := h
      exact (ih _ _ hp).trans (List.suffix_cons _ _)
    · cases h
      exact List.suffix_refl _

theorem Fueled.Keeps_none {α : Type} (get : α → Parser) (self : Parser) :
    Fueled.Keeps get self none :=
  ⟨fun _ h => by cases h⟩

theorem Fueled.Keeps_throw {α : Type} (get : α → Parser) (self : Parser) (e : Exception) :
    Fueled.Keeps get self (throw e) :=
  ⟨fun _ h => by cases h⟩

theorem Fueled.Keeps_return {α : Type} {get : α → Parser} {self : Parser} {a : α}
    (h : self.Follows (get a)) : Fueled.Keeps get self (pure a) :=
  ⟨fun b e => by cases e; exact h⟩

theorem Fueled.Keeps_bind {α β : Type} {get : α → Parser} {get₁ : β → Parser}
    {self s₁ : Parser} {x : Fueled β} {f : β → Fueled α}
    (hx : Fueled.Keeps get₁ s₁ x) (hs : self.Follows s₁)
    (hf : ∀ b, Fueled.Keeps get (get₁ b) (f b)) : Fueled.Keeps get self (x >>= f) := by
  constructor
  intro a h
  rw [Fueled.ok_of_bind] at h
  obtain ⟨b, hb, ha⟩ := h
  exact Parser.Follows_trans hs (Parser.Follows_trans (hx.out b hb) ((hf b).out a ha))

theorem Fueled.Keeps_ite {α : Type} {get : α → Parser} {self : Parser} {c : Prop}
    [Decidable c] {x y : Fueled α} (hx : Fueled.Keeps get self x)
    (hy : Fueled.Keeps get self y) : Fueled.Keeps get self (if c then x else y) := by
  split
  · exact hx
  · exact hy

theorem Fueled.Keeps_bind_lift {α β : Type} {get : α → Parser} {self : Parser}
    (x : Except Exception β) {f : β → Fueled α} (hf : ∀ b, Fueled.Keeps get self (f b)) :
    Fueled.Keeps get self (liftM x >>= f) := by
  constructor
  intro a h
  rw [Fueled.ok_of_bind] at h
  obtain ⟨b, -, ha⟩ := h
  exact (hf b).out a ha

theorem Fueled.Keeps_Advance (self : Parser) : Fueled.Keeps id self (liftM self.Advance) :=
  ⟨fun _ h => Advance_follows _ _ (Fueled.some_inj.mp h)⟩

theorem Fueled.Keeps_ExpectTokenType (self : Parser) (type : TokenType) :
    Fueled.Keeps Prod.snd self (liftM (self.ExpectTokenType type)) :=
  ⟨fun _ h => ExpectTokenType_follows _ _ _ _ (Fueled.some_inj.mp h)⟩

theorem Fueled.Keeps_ParseType (self : Parser) :
    Fueled.Keeps Prod.snd self (liftM self.ParseType) :=
  ⟨fun _ h => ParseType_follows _ _ _ (Fueled.some_inj.mp h)⟩

theorem Fueled.Keeps_ParseIntegerLiteral (self : Parser) :
    Fueled.Keeps Prod.snd self (liftM self.ParseIntegerLiteral) :=
  ⟨fun _ h => ParseIntegerLiteral_follows _ _ _ (Fueled.some_inj.mp h)⟩

theorem Fueled.Keeps_ParseUnsignedIntegerLiteral (self : Parser) :
    Fueled.Keeps Prod.snd self (liftM self.ParseUnsignedIntegerLiteral) :=
  ⟨fun _ h => ParseUnsignedIntegerLiteral_follows _ _ _ (Fueled.some_inj.mp h)⟩

theorem Fueled.Keeps_ParseCharacterLiteral (self : Parser) :
    Fueled.Keeps Prod.snd self (liftM self.ParseCharacterLiteral) :=
  ⟨fun _ h => ParseCharacterLiteral_follows _ _ _ (Fueled.some_inj.mp h)⟩

theorem Fueled.Keeps_ParseStringLiteral (self : Parser) :
    Fueled.Keeps Prod.snd self (liftM self.ParseStringLiteral) :=
  ⟨fun _ h => ParseStringLiteral_follows _ _ _ (Fueled.some_inj.mp h)⟩

theorem Fueled.Keeps_ParseContinue (self : Parser) :
    Fueled.Keeps Prod.snd self (liftM self.ParseContinue) :=
  ⟨fun _ h => ParseContinue_follows _ _ _ (Fueled.some_inj.mp h)⟩

theorem Fueled.Keeps_ParseBreak (self : Parser) :
    Fueled.Keeps Prod.snd self (liftM self.ParseBreak) :=
  ⟨fun _ h => ParseBreak_follows _ _ _ (Fueled.some_inj.mp h)⟩

theorem ParseUnary_keeps (fuel : Nat) (self : Parser) (ih : Parser.Frames fuel) :
    Fueled.Keeps Prod.snd self (Parser.ParseUnary (fuel + 1) self) := by
  constructor
  rintro ⟨e, s⟩ h
  rw [Parser.ParseUnary] at h
  simp only [Fueled.ok_of_bind, Fueled.monadLift_eq, Fueled.some_inj, Fueled.pure_eq,
    Except.ok.injEq, Prod.mk.injEq] at h
  obtain ⟨⟨ps, toks⟩, hp, ⟨operand, s2⟩, hprimary, ⟨suffixes, s3⟩, hloop, o1, -, o2, -,
    -, rfl⟩ := h
  have h1 : self.Follows { self with tokens := toks } :=
    ⟨rfl, rfl, prefixes_suffix _ _ _ hp⟩
  exact Parser.Follows_trans h1 (Parser.Follows_trans ((ih.ParsePrimary _).out _ hprimary)
    ((ih.ParseUnaryLoop _).out _ hloop))
theorem Parser.frames (fuel : Nat) : Parser.Frames fuel := by
  induction fuel with
  | zero =>
    constructor
    · intros
      rw [Parser.ParseScope]
      exact Fueled.Keeps_none _ _
    · intros
      rw [Parser.ParseScopeLoop]
      exact Fueled.Keeps_none _ _
    · intros
      rw [Parser.ParseReturn]
      exact Fueled.Keeps_none _ _
    · intros
      rw [Parser.ParseConditional]
      exact Fueled.Keeps_none _ _
    · intros
      rw [Parser.ParseConditionalLoop]
      exact Fueled.Keeps_none _ _
    · intros
      rw [Parser.ParseForLoop]
      exact Fueled.Keeps_none _ _
    · intros
      rw [Parser.ParseVariableDeclaration]
      exact Fueled.Keeps_none _ _
    · intros
      rw [Parser.ParseIndent]
      exact Fueled.Keeps_none _ _
    · intros
      rw [Parser.ParseExpression]
      exact Fueled.Keeps_none _ _
    · intros
      rw [Parser.ParseExpressionRHS]
      exact Fueled.Keeps_none _ _
    · intros
      rw [Parser.ParsePrimary]
      exact Fueled.Keeps_none _ _
    · intros
      rw [Parser.ParseParenExpression]
      exact Fueled.Keeps_none _ _
    · intros
      rw [Parser.ParseIdentifier]
      exact Fueled.Keeps_none _ _
    · intros
      rw [Parser.ParseCallExpression]
      exact Fueled.Keeps_none _ _
    · intros
      rw [Parser.ParseCallExpressionLoop]
      exact Fueled.Keeps_none _ _
    · intros
      rw [Parser.ParseUnary]
      exact Fueled.Keeps_none _ _
    · intros
      rw [Parser.ParseUnaryLoop]
      exact Fueled.Keeps_none _ _
    · intros
      rw [Parser.ParseArrayLiteral]
      exact Fueled.Keeps_none _ _
    · intros
      rw [Parser.ParseArrayLiteralLoop]
      exact Fueled.Keeps_none _ _
    · intros
      rw [Parser.ParseStructLiteral]
      exact Fueled.Keeps_none _ _
    · intros
      rw [Parser.ParseStructLiteralLoop]
      exact Fueled.Keeps_none _ _
  | succ fuel ih =>
    constructor
    · intros
      rw [Parser.ParseScope]
      repeat (first
        | exact Fueled.Keeps_return (Parser.Follows_refl _)
        | exact ih.ParseScopeLoop _
        | exact Fueled.Keeps_ExpectTokenType _ _
        | refine Fueled.Keeps_bind (ih.ParseScopeLoop _) (Parser.Follows_refl _) ?_
        | refine Fueled.Keeps_bind (Fueled.Keeps_ExpectTokenType _ _) (Parser.Follows_refl _) ?_
        | apply Fueled.Keeps_bind_lift
        | (intro p; cases p; dsimp only)
        | intro p)
    · intros
      rw [Parser.ParseScopeLoop]
      repeat (first
        | exact Fueled.Keeps_return (Parser.Follows_refl _)
        | exact ih.ParseConditional _
        | exact ih.ParseExpression _
        | exact ih.ParseForLoop _
        | exact ih.ParseIndent _
        | exact ih.ParseReturn _
        | exact ih.ParseScopeLoop _
        | exact ih.ParseVariableDeclaration _
        | exact Fueled.Keeps_Advance _
        | exact Fueled.Keeps_ParseContinue _
        | exact Fueled.Keeps_ParseBreak _
        | refine Fueled.Keeps_bind (ih.ParseConditional _) (Parser.Follows_refl _) ?_
        | refine Fueled.Keeps_bind (ih.ParseExpression _) (Parser.Follows_refl _) ?_
        | refine Fueled.Keeps_bind (ih.ParseForLoop _) (Parser.Follows_refl _) ?_
        | refine Fueled.Keeps_bind (ih.ParseIndent _) (Parser.Follows_refl _) ?_
        | refine Fueled.Keeps_bind (ih.ParseReturn _) (Parser.Follows_refl _) ?_
        | refine Fueled.Keeps_bind (ih.ParseScopeLoop _) (Parser.Follows_refl _) ?_
        | refine Fueled.Keeps_bind (ih.ParseVariableDeclaration _) (Parser.Follows_refl _) ?_
        | refine Fueled.Keeps_bind (Fueled.Keeps_Advance _) (Parser.Follows_refl _) ?_
        | refine Fueled.Keeps_bind (Fueled.Keeps_ParseContinue _) (Parser.Follows_refl _) ?_
        | refine Fueled.Keeps_bind (Fueled.Keeps_ParseBreak _) (Parser.Follows_refl _) ?_
        | apply Fueled.Keeps_bind_lift
        | apply Fueled.Keeps_ite
        | (intro p; cases p; dsimp only)
        | intro p)
    · intros
      rw [Parser.ParseReturn]
      repeat (first
        | exact Fueled.Keeps_return (Parser.Follows_refl _)
        | exact ih.ParseExpression _
        | exact Fueled.Keeps_Advance _
        | refine Fueled.Keeps_bind (ih.ParseExpression _) (Parser.Follows_refl _) ?_
        | refine Fueled.Keeps_bind (Fueled.Keeps_Advance _) (Parser.Follows_refl _) ?_
        | apply Fueled.Keeps_bind_lift
        | apply Fueled.Keeps_ite
        | (intro p; cases p; dsimp only)
        | intro p)
    · intros
      rw [Parser.ParseConditional]
      repeat (first
        | exact Fueled.Keeps_return (Parser.Follows_refl _)
        | exact ih.ParseConditionalLoop _
        | exact ih.ParseExpression _
        | exact ih.ParseScope _
        | exact Fueled.Keeps_Advance _
        | exact Fueled.Keeps_ExpectTokenType _ _
        | refine Fueled.Keeps_bind (ih.ParseConditionalLoop _) (Parser.Follows_refl _) ?_
        | refine Fueled.Keeps_bind (ih.ParseExpression _) (Parser.Follows_refl _) ?_
        | refine Fueled.Keeps_bind (ih.ParseScope _) (Parser.Follows_refl _) ?_
        | refine Fueled.Keeps_bind (Fueled.Keeps_Advance _) (Parser.Follows_refl _) ?_
        | refine Fueled.Keeps_bind (Fueled.Keeps_ExpectTokenType _ _) (Parser.Follows_refl _) ?_
        | apply Fueled.Keeps_bind_lift
        | apply Fueled.Keeps_ite
        | (intro p; cases p; dsimp only)
        | intro p)
    · intros
      rw [Parser.ParseConditionalLoop]
      repeat (first
        | exact Fueled.Keeps_return (Parser.Follows_refl _)
        | exact ih.ParseConditionalLoop _
        | exact ih.ParseExpression _
        | exact ih.ParseScope _
        | exact Fueled.Keeps_Advance _
        | exact Fueled.Keeps_ExpectTokenType _ _
        | refine Fueled.Keeps_bind (ih.ParseConditionalLoop _) (Parser.Follows_refl _) ?_
        | refine Fueled.Keeps_bind (ih.ParseExpression _) (Parser.Follows_refl _) ?_
        | refine Fueled.Keeps_bind (ih.ParseScope _) (Parser.Follows_refl _) ?_
        | refine Fueled.Keeps_bind (Fueled.Keeps_Advance _) (Parser.Follows_refl _) ?_
        | refine Fueled.Keeps_bind (Fueled.Keeps_ExpectTokenType _ _) (Parser.Follows_refl _) ?_
        | apply Fueled.Keeps_bind_lift
        | apply Fueled.Keeps_ite
        | (intro p; cases p; dsimp only)
        | intro p)
    · intros
      rw [Parser.ParseForLoop]
      repeat (first
        | exact Fueled.Keeps_return (Parser.Follows_refl _)
        | exact ih.ParseExpression _
        | exact ih.ParseScope _
        | exact ih.ParseVariableDeclaration _
        | exact Fueled.Keeps_Advance _
        | exact Fueled.Keeps_ExpectTokenType _ _
        | refine Fueled.Keeps_bind (Fueled.Keeps_ite (ih.ParseVariableDeclaration _)
            (ih.ParseExpression _)) (Parser.Follows_refl _) ?_
        | refine Fueled.Keeps_bind (ih.ParseExpression _) (Parser.Follows_refl _) ?_
        | refine Fueled.Keeps_bind (ih.ParseScope _) (Parser.Follows_refl _) ?_
        | refine Fueled.Keeps_bind (ih.ParseVariableDeclaration _) (Parser.Follows_refl _) ?_
        | refine Fueled.Keeps_bind (Fueled.Keeps_Advance _) (Parser.Follows_refl _) ?_
        | refine Fueled.Keeps_bind (Fueled.Keeps_ExpectTokenType _ _) (Parser.Follows_refl _) ?_
        | apply Fueled.Keeps_bind_lift
        | apply Fueled.Keeps_ite
        | (intro p; cases p; dsimp only)
        | intro p)
    · intros
      rw [Parser.ParseVariableDeclaration]
      repeat (first
        | exact Fueled.Keeps_return (Parser.Follows_refl _)
        | exact ih.ParseExpression _
        | exact Fueled.Keeps_Advance _
        | exact Fueled.Keeps_ExpectTokenType _ _
        | exact Fueled.Keeps_ParseType _
        | refine Fueled.Keeps_bind (ih.ParseExpression _) (Parser.Follows_refl _) ?_
        | refine Fueled.Keeps_bind (Fueled.Keeps_Advance _) (Parser.Follows_refl _) ?_
        | refine Fueled.Keeps_bind (Fueled.Keeps_ExpectTokenType _ _) (Parser.Follows_refl _) ?_
        | refine Fueled.Keeps_bind (Fueled.Keeps_ParseType _) (Parser.Follows_refl _) ?_
        | apply Fueled.Keeps_bind_lift
        | (intro p; cases p; dsimp only)
        | intro p)
    · intros
      rw [Parser.ParseIndent]
      repeat (first
        | exact Fueled.Keeps_return (Parser.Follows_refl _)
        | exact ih.ParseScope _
        | refine Fueled.Keeps_bind (ih.ParseScope _) (Parser.Follows_refl _) ?_
        | apply Fueled.Keeps_bind_lift
        | (intro p; cases p; dsimp only)
        | intro p)
    · intros
      rw [Parser.ParseExpression]
      repeat (first
        | exact ih.ParseExpressionRHS _ _ _
        | exact ih.ParseUnary _
        | refine Fueled.Keeps_bind (ih.ParseExpressionRHS _ _ _) (Parser.Follows_refl _) ?_
        | refine Fueled.Keeps_bind (ih.ParseUnary _) (Parser.Follows_refl _) ?_
        | apply Fueled.Keeps_bind_lift
        | (intro p; cases p; dsimp only)
        | intro p)
    · intros
      rw [Parser.ParseExpressionRHS]
      repeat (first
        | exact Fueled.Keeps_return (Parser.Follows_refl _)
        | exact ih.ParseExpressionRHS _ _ _
        | exact ih.ParseUnary _
        | exact Fueled.Keeps_Advance _
        | refine Fueled.Keeps_bind (ih.ParseExpressionRHS _ _ _) (Parser.Follows_refl _) ?_
        | refine Fueled.Keeps_bind (ih.ParseUnary _) (Parser.Follows_refl _) ?_
        | refine Fueled.Keeps_bind (Fueled.Keeps_Advance _) (Parser.Follows_refl _) ?_
        | apply Fueled.Keeps_bind_lift
        | apply Fueled.Keeps_ite
        | (intro p; cases p; dsimp only)
        | intro p)
    · intros
      rw [Parser.ParsePrimary]
      repeat (first
        | exact Fueled.Keeps_throw _ _ _
        | exact ih.ParseArrayLiteral _
        | exact ih.ParseIdentifier _
        | exact ih.ParseParenExpression _
        | exact ih.ParseStructLiteral _
        | exact Fueled.Keeps_ParseIntegerLiteral _
        | exact Fueled.Keeps_ParseUnsignedIntegerLiteral _
        | exact Fueled.Keeps_ParseCharacterLiteral _
        | exact Fueled.Keeps_ParseStringLiteral _
        | refine Fueled.Keeps_bind (ih.ParseArrayLiteral _) (Parser.Follows_refl _) ?_
        | refine Fueled.Keeps_bind (ih.ParseIdentifier _) (Parser.Follows_refl _) ?_
        | refine Fueled.Keeps_bind (ih.ParseParenExpression _) (Parser.Follows_refl _) ?_
        | refine Fueled.Keeps_bind (ih.ParseStructLiteral _) (Parser.Follows_refl _) ?_
        | refine Fueled.Keeps_bind (Fueled.Keeps_ParseIntegerLiteral _) (Parser.Follows_refl _) ?_
        | refine Fueled.Keeps_bind (Fueled.Keeps_ParseUnsignedIntegerLiteral _) (Parser.Follows_refl _) ?_
        | refine Fueled.Keeps_bind (Fueled.Keeps_ParseCharacterLiteral _) (Parser.Follows_refl _) ?_
        | refine Fueled.Keeps_bind (Fueled.Keeps_ParseStringLiteral _) (Parser.Follows_refl _) ?_
        | apply Fueled.Keeps_bind_lift
        | apply Fueled.Keeps_ite
        | (intro p; cases p; dsimp only)
        | intro p)
    · intros
      rw [Parser.ParseParenExpression]
      repeat (first
        | exact Fueled.Keeps_return (Parser.Follows_refl _)
        | exact Fueled.Keeps_throw _ _ _
        | exact ih.ParseExpression _
        | exact Fueled.Keeps_Advance _
        | refine Fueled.Keeps_bind (ih.ParseExpression _) (Parser.Follows_refl _) ?_
        | refine Fueled.Keeps_bind (Fueled.Keeps_Advance _) (Parser.Follows_refl _) ?_
        | apply Fueled.Keeps_bind_lift
        | apply Fueled.Keeps_ite
        | (intro p; cases p; dsimp only)
        | intro p)
    · intros
      rw [Parser.ParseIdentifier]
      repeat (first
        | exact Fueled.Keeps_return (Parser.Follows_refl _)
        | exact ih.ParseCallExpression _ _
        | exact Fueled.Keeps_Advance _
        | refine Fueled.Keeps_bind (ih.ParseCallExpression _ _) (Parser.Follows_refl _) ?_
        | refine Fueled.Keeps_bind (Fueled.Keeps_Advance _) (Parser.Follows_refl _) ?_
        | apply Fueled.Keeps_bind_lift
        | apply Fueled.Keeps_ite
        | (intro p; cases p; dsimp only)
        | intro p)
    · intros
      rw [Parser.ParseCallExpression]
      repeat (first
        | exact Fueled.Keeps_return (Parser.Follows_refl _)
        | exact ih.ParseCallExpressionLoop _
        | exact Fueled.Keeps_Advance _
        | exact Fueled.Keeps_ExpectTokenType _ _
        | refine Fueled.Keeps_bind (ih.ParseCallExpressionLoop _) (Parser.Follows_refl _) ?_
        | refine Fueled.Keeps_bind (Fueled.Keeps_Advance _) (Parser.Follows_refl _) ?_
        | refine Fueled.Keeps_bind (Fueled.Keeps_ExpectTokenType _ _) (Parser.Follows_refl _) ?_
        | apply Fueled.Keeps_bind_lift
        | apply Fueled.Keeps_ite
        | (intro p; cases p; dsimp only)
        | intro p)
    · intros
      rw [Parser.ParseCallExpressionLoop]
      repeat (first
        | exact Fueled.Keeps_return (Parser.Follows_refl _)
        | exact ih.ParseCallExpressionLoop _
        | exact ih.ParseExpression _
        | exact Fueled.Keeps_Advance _
        | refine Fueled.Keeps_bind (ih.ParseCallExpressionLoop _) (Parser.Follows_refl _) ?_
        | refine Fueled.Keeps_bind (ih.ParseExpression _) (Parser.Follows_refl _) ?_
        | refine Fueled.Keeps_bind (Fueled.Keeps_Advance _) (Parser.Follows_refl _) ?_
        | apply Fueled.Keeps_bind_lift
        | apply Fueled.Keeps_ite
        | (intro p; cases p; dsimp only)
        | intro p)
    · intro self
      exact ParseUnary_keeps fuel self ih
    · intros
      rw [Parser.ParseUnaryLoop]
      repeat (first
        | exact Fueled.Keeps_return (Parser.Follows_refl _)
        | exact Fueled.Keeps_throw _ _ _
        | exact ih.ParseExpression _
        | exact ih.ParseUnary _
        | exact ih.ParseUnaryLoop _
        | exact Fueled.Keeps_Advance _
        | refine Fueled.Keeps_bind (ih.ParseExpression _) (Parser.Follows_refl _) ?_
        | refine Fueled.Keeps_bind (ih.ParseUnary _) (Parser.Follows_refl _) ?_
        | refine Fueled.Keeps_bind (ih.ParseUnaryLoop _) (Parser.Follows_refl _) ?_
        | refine Fueled.Keeps_bind (Fueled.Keeps_Advance _) (Parser.Follows_refl _) ?_
        | apply Fueled.Keeps_bind_lift
        | apply Fueled.Keeps_ite
        | (intro p; cases p; dsimp only)
        | intro p)
    · intros
      rw [Parser.ParseArrayLiteral]
      repeat (first
        | exact Fueled.Keeps_return (Parser.Follows_refl _)
        | exact Fueled.Keeps_throw _ _ _
        | exact ih.ParseArrayLiteralLoop _
        | exact Fueled.Keeps_ExpectTokenType _ _
        | refine Fueled.Keeps_bind (ih.ParseArrayLiteralLoop _) (Parser.Follows_refl _) ?_
        | refine Fueled.Keeps_bind (Fueled.Keeps_ExpectTokenType _ _) (Parser.Follows_refl _) ?_
        | apply Fueled.Keeps_bind_lift
        | split
        | (intro p; cases p; dsimp only)
        | intro p)
    · intros
      rw [Parser.ParseArrayLiteralLoop]
      repeat (first
        | exact Fueled.Keeps_return (Parser.Follows_refl _)
        | exact ih.ParseArrayLiteralLoop _
        | exact ih.ParseExpression _
        | exact Fueled.Keeps_Advance _
        | refine Fueled.Keeps_bind (ih.ParseArrayLiteralLoop _) (Parser.Follows_refl _) ?_
        | refine Fueled.Keeps_bind (ih.ParseExpression _) (Parser.Follows_refl _) ?_
        | refine Fueled.Keeps_bind (Fueled.Keeps_Advance _) (Parser.Follows_refl _) ?_
        | apply Fueled.Keeps_bind_lift
        | apply Fueled.Keeps_ite
        | (intro p; cases p; dsimp only)
        | intro p)
    · intros
      rw [Parser.ParseStructLiteral]
      repeat (first
        | exact Fueled.Keeps_return (Parser.Follows_refl _)
        | exact Fueled.Keeps_throw _ _ _
        | exact ih.ParseStructLiteralLoop _
        | exact Fueled.Keeps_ExpectTokenType _ _
        | refine Fueled.Keeps_bind (ih.ParseStructLiteralLoop _) (Parser.Follows_refl _) ?_
        | refine Fueled.Keeps_bind (Fueled.Keeps_ExpectTokenType _ _) (Parser.Follows_refl _) ?_
        | apply Fueled.Keeps_bind_lift
        | (intro p; cases p; dsimp only)
        | intro p)
    · intros
      rw [Parser.ParseStructLiteralLoop]
      repeat (first
        | exact Fueled.Keeps_return (Parser.Follows_refl _)
        | exact ih.ParseExpression _
        | exact ih.ParseStructLiteralLoop _
        | exact Fueled.Keeps_Advance _
        | refine Fueled.Keeps_bind (ih.ParseExpression _) (Parser.Follows_refl _) ?_
        | refine Fueled.Keeps_bind (ih.ParseStructLiteralLoop _) (Parser.Follows_refl _) ?_
        | refine Fueled.Keeps_bind (Fueled.Keeps_Advance _) (Parser.Follows_refl _) ?_
        | apply Fueled.Keeps_bind_lift
        | apply Fueled.Keeps_ite
        | (intro p; cases p; dsimp only)
        | intro p)

/-! ## Claim C27: array literals -/

theorem ParseArrayLiteralLoop_elements {s s' : Parser} {l : List Expression}
    (h : ReadsElements s l s') :
    ∃ n, ∀ fuel, n ≤ fuel → Parser.ParseArrayLiteralLoop fuel s = some (.ok (l, s')) := by
  induction h with
  | last s s1 current next rest rest1 e ht he ht1 hn =>
    obtain ⟨k, he⟩ := he
    refine ⟨k + 1, fun fuel hfuel => ?_⟩
    obtain ⟨m, rfl⟩ : ∃ m, fuel = m + 1 := ⟨fuel - 1, by omega⟩
    rw [Parser.ParseArrayLiteralLoop]
    simp [Parser.currentToken, Parser.Advance, ht, Fueled.monadLift_eq, Fueled.ok_bind,
      Fueled.pure_eq, he m (by omega), ht1, hn]
  | more s s1 s' current comma rest rest1 e l ht he ht1 hc _ ih =>
    obtain ⟨k, he⟩ := he
    obtain ⟨n, ih⟩ := ih
    refine ⟨n + k + 1, fun fuel hfuel => ?_⟩
    obtain ⟨m, rfl⟩ : ∃ m, fuel = m + 1 := ⟨fuel - 1, by omega⟩
    rw [Parser.ParseArrayLiteralLoop]
    simp [Parser.currentToken, Parser.Advance, ht, Fueled.monadLift_eq, Fueled.ok_bind,
      Fueled.pure_eq, he m (by omega), ht1, hc, ih m (by omega)]

theorem ParseArrayLiteral_gives (fuel : Nat) {self : Parser}
    {r : Except Exception (Expression × Parser)}
    (h : Parser.ParseArrayLiteral fuel self = some r) :
    Fueled.Gives (Parser.ParseArrayLiteral · self) r :=
  Fueled.gives_of_eq (Parser.ParseArrayLiteral · self)
    (fun n => (Parser.deeper n).ParseArrayLiteral self) h

/-- The array literal whose first element has a type. -/
theorem ParseArrayLiteral_typed (s s1 : Parser) (front : Expression) (elements : List Expression)
    (closing : Token) (rest : List Token) (elementType : Ty)
    (h : ReadsElements s (front :: elements) s1) (ht : s1.tokens = closing :: rest)
    (hc : closing.type = .RightBracket) (hfront : front.type = some elementType) :
    Fueled.Gives (Parser.ParseArrayLiteral · s)
      (.ok (.mk .LITERAL (some (.Array elementType (front :: elements).length))
        (.ExpressionChildren (front :: elements)), { s1 with tokens := rest })) := by
  obtain ⟨n, h⟩ := ParseArrayLiteralLoop_elements h
  refine ⟨n + 1, fun fuel hfuel => ?_⟩
  obtain ⟨m, rfl⟩ : ∃ m, fuel = m + 1 := ⟨fuel - 1, by omega⟩
  show Parser.ParseArrayLiteral (m + 1) s = _
  rw [Parser.ParseArrayLiteral]
  simp [h m (by omega), Fueled.ok_bind, Parser.ExpectTokenType, Parser.currentToken,
    Parser.Advance, ht, hc, Fueled.monadLift_eq, Fueled.pure_eq, hfront, optional_value,
    bind_ok, pure, Except.pure]

/-- The array literal whose first element has no type. -/
theorem ParseArrayLiteral_untyped (s s1 : Parser) (front : Expression)
    (elements : List Expression) (closing : Token) (rest : List Token)
    (h : ReadsElements s (front :: elements) s1) (ht : s1.tokens = closing :: rest)
    (hc : closing.type = .RightBracket) (hfront : front.type = none) :
    Fueled.Gives (Parser.ParseArrayLiteral · s) (.error .bad_optional_access) := by
  obtain ⟨n, h⟩ := ParseArrayLiteralLoop_elements h
  refine ⟨n + 1, fun fuel hfuel => ?_⟩
  obtain ⟨m, rfl⟩ : ∃ m, fuel = m + 1 := ⟨fuel - 1, by omega⟩
  show Parser.ParseArrayLiteral (m + 1) s = _
  rw [Parser.ParseArrayLiteral]
  simp [h m (by omega), Fueled.ok_bind, Parser.ExpectTokenType, Parser.currentToken,
    Parser.Advance, ht, hc, Fueled.monadLift_eq, Fueled.pure_eq, hfront, optional_value,
    bind_ok, pure, Except.pure, Fueled.error_bind]

/-- Claim C27 fails on `[x, 1]`: `ParseArrayLiteral` takes the element type with
`elements.front().type.value()`, and the parser leaves the type of a variable, of a call and
of a negation unset, so the array literal that begins with one of them is left with
`std::bad_optional_access` instead of a Literal. When the first element has a type, as a
literal has, the result is the Literal of the claim: the parsed elements in order, of the
type Array(type of the first, number of elements). -/
theorem C27_array_literal_needs_typed_first_element :
    Fueled.Gives (Parser.ParseArrayLiteral · (parserAt variableFirst))
      (.error .bad_optional_access) ∧
    Fueled.Gives (Parser.ParseArrayLiteral · (parserAt negationFirst))
      (.error .bad_optional_access) ∧
    Fueled.Gives
      (Parser.ParseArrayLiteral · { parserAt callFirst with _declaredFunctions := ["f"] })
      (.error .bad_optional_access) ∧
    Fueled.Gives (Parser.ParseArrayLiteral · (parserAt literalFirst))
      (.ok (.mk .LITERAL (some (.Array i64 2))
        (.ExpressionChildren [intLiteral 1, variableRef "x"]),
        parserAt [tokenOf .EndOfLine none])) ∧
    (∀ (s s1 : Parser) (front : Expression) (elements : List Expression) (closing : Token)
      (rest : List Token), ReadsElements s (front :: elements) s1 →
      s1.tokens = closing :: rest → closing.type = .RightBracket →
      (∀ elementType, front.type = some elementType →
        Fueled.Gives (Parser.ParseArrayLiteral · s)
          (.ok (.mk .LITERAL (some (.Array elementType (front :: elements).length))
            (.ExpressionChildren (front :: elements)), { s1 with tokens := rest }))) ∧
      (front.type = none →
        Fueled.Gives (Parser.ParseArrayLiteral · s) (.error .bad_optional_access))) :=
  ⟨ParseArrayLiteral_gives 8 rfl, ParseArrayLiteral_gives 8 rfl, ParseArrayLiteral_gives 10 rfl,
    ParseArrayLiteral_gives 8 rfl,
    fun s s1 front elements closing rest h ht hc =>
      ⟨fun elementType hfront =>
          ParseArrayLiteral_typed s s1 front elements closing rest elementType h ht hc hfront,
        ParseArrayLiteral_untyped s s1 front elements closing rest h ht hc⟩⟩

/-! ## The functions above the statements: more fuel never changes a result -/

theorem ParseFunctionArgumentsLoop_deeper (fuel : Nat) :
    ∀ self, Fueled.le (Parser.ParseFunctionArgumentsLoop fuel self)
      (Parser.ParseFunctionArgumentsLoop (fuel + 1) self) := by
  induction fuel with
  | zero =>
    intro self
    rw [Parser.ParseFunctionArgumentsLoop]
    exact Fueled.none_le _
  | succ fuel ih =>
    intro self
    rw [Parser.ParseFunctionArgumentsLoop, Parser.ParseFunctionArgumentsLoop]
    repeat (first
      | with_reducible exact Fueled.le_refl _
      | exact ih _
      | apply Fueled.le_bind
      | apply Fueled.le_ite
      | (intro p; cases p; dsimp only)
      | intro p)

theorem ParseFunctionArguments_deeper (fuel : Nat) (self : Parser) :
    Fueled.le (Parser.ParseFunctionArguments fuel self)
      (Parser.ParseFunctionArguments (fuel + 1) self) := by
  rw [Parser.ParseFunctionArguments, Parser.ParseFunctionArguments]
  repeat (first
    | with_reducible exact Fueled.le_refl _
    | exact ParseFunctionArgumentsLoop_deeper _ _
    | apply Fueled.le_bind
    | (intro p; cases p; dsimp only))

theorem ParseFunction_deeper (fuel : Nat) (self : Parser) :
    Fueled.le (Parser.ParseFunction fuel self) (Parser.ParseFunction (fuel + 1) self) := by
  rw [Parser.ParseFunction, Parser.ParseFunction]
  repeat (first
    | with_reducible exact Fueled.le_refl _
    | exact ParseFunctionArguments_deeper _ _
    | exact (Parser.deeper _).ParseScope _
    | apply Fueled.le_bind
    | (intro p; cases p; dsimp only)
    | intro p)

theorem ParseStructLoop_deeper (fuel : Nat) :
    ∀ self, Fueled.le (Parser.ParseStructLoop fuel self)
      (Parser.ParseStructLoop (fuel + 1) self) := by
  induction fuel with
  | zero =>
    intro self
    rw [Parser.ParseStructLoop]
    exact Fueled.none_le _
  | succ fuel ih =>
    intro self
    rw [Parser.ParseStructLoop, Parser.ParseStructLoop]
    repeat (first
      | with_reducible exact Fueled.le_refl _
      | exact ih _
      | apply Fueled.le_bind
      | apply Fueled.le_ite
      | (intro p; cases p; dsimp only)
      | intro p)

theorem ParseStruct_deeper (fuel : Nat) (self : Parser) :
    Fueled.le (Parser.ParseStruct fuel self) (Parser.ParseStruct (fuel + 1) self) := by
  rw [Parser.ParseStruct, Parser.ParseStruct]
  repeat (first
    | with_reducible exact Fueled.le_refl _
    | exact ParseStructLoop_deeper _ _
    | apply Fueled.le_bind
    | apply Fueled.le_ite
    | (intro p; cases p; dsimp only)
    | intro p)

theorem ParseLoop_deeper (fuel : Nat) :
    ∀ self, Fueled.le (Parser.ParseLoop fuel self) (Parser.ParseLoop (fuel + 1) self) := by
  induction fuel with
  | zero =>
    intro self
    rw [Parser.ParseLoop]
    exact Fueled.none_le _
  | succ fuel ih =>
    intro self
    rw [Parser.ParseLoop, Parser.ParseLoop]
    repeat (first
      | with_reducible exact Fueled.le_refl _
      | exact ih _
      | exact ParseFunction_deeper _ _
      | exact ParseStruct_deeper _ _
      | apply Fueled.le_bind
      | apply Fueled.le_ite
      | (intro p; cases p; dsimp only)
      | intro p)

theorem Parse_gives (fuel : Nat) {self : Parser} {tokens : List Token}
    {r : Except Exception (List Function × Parser)}
    (h : Parser.Parse fuel self tokens = some r) :
    Fueled.Gives (Parser.Parse · self tokens) r :=
  Fueled.gives_of_eq (Parser.Parse · self tokens)
    (fun n => ParseLoop_deeper n (self.begin tokens)) h

/-! ## Claim C26: call or variable -/

theorem ParseIdentifier_declared (fuel : Nat) (self : Parser) (current : Token)
    (rest : List Token) (name : String) (ht : self.tokens = current :: rest)
    (hv : current.value = some name) (h1 : name ≠ "true") (h2 : name ≠ "false")
    (hd : name ∈ self._declaredFunctions) :
    Parser.ParseIdentifier (fuel + 1) self = Parser.ParseCallExpression fuel name self := by
  rw [Parser.ParseIdentifier]
  simp [Parser.currentToken, ht, hv, optional_value, Fueled.monadLift_eq, Fueled.ok_bind, h1,
    h2, hd]

theorem ParseIdentifier_undeclared (fuel : Nat) (self : Parser) (current : Token)
    (rest : List Token) (name : String) (ht : self.tokens = current :: rest)
    (hv : current.value = some name) (h1 : name ≠ "true") (h2 : name ≠ "false")
    (hd : name ∉ self._declaredFunctions) :
    Parser.ParseIdentifier (fuel + 1) self =
      some (.ok (variableRef name, { self with tokens := rest })) := by
  rw [Parser.ParseIdentifier]
  simp [Parser.currentToken, ht, hv, optional_value, Fueled.monadLift_eq, Fueled.ok_bind, h1,
    h2, hd, Parser.Advance, Fueled.pure_eq, variableRef]

theorem ParseCallExpressionLoop_elements {s s' : Parser} {l : List Expression}
    (h : ReadsElements s l s') :
    ∃ n, ∀ fuel, n ≤ fuel →
      Parser.ParseCallExpressionLoop fuel { s with tokens := s.tokens.tail } =
        some (.ok (l, s')) := by
  induction h with
  | last s s1 current next rest rest1 e ht he ht1 hn =>
    obtain ⟨k, he⟩ := he
    refine ⟨k + 1, fun fuel hfuel => ?_⟩
    obtain ⟨m, rfl⟩ : ∃ m, fuel = m + 1 := ⟨fuel - 1, by omega⟩
    rw [Parser.ParseCallExpressionLoop]
    simp [Parser.currentToken, ht, Fueled.monadLift_eq, Fueled.ok_bind,
      Fueled.pure_eq, he m (by omega), ht1, hn]
  | more s s1 s' current comma rest rest1 e l ht he ht1 hc _ ih =>
    obtain ⟨k, he⟩ := he
    obtain ⟨n, ih⟩ := ih
    refine ⟨n + k + 1, fun fuel hfuel => ?_⟩
    obtain ⟨m, rfl⟩ : ∃ m, fuel = m + 1 := ⟨fuel - 1, by omega⟩
    have ih' := ih m (by omega)
    rw [ht1] at ih'
    rw [Parser.ParseCallExpressionLoop]
    simp [Parser.currentToken, Parser.Advance, ht, Fueled.monadLift_eq, Fueled.ok_bind,
      Fueled.pure_eq, he m (by omega), ht1, hc]
    simp only [List.tail_cons] at ih'
    rw [ih']
    rfl

theorem ParsePrimary_not_RightParen {fuel : Nat} {self s1 : Parser} {p : Expression}
    {current : Token} {rest : List Token} (ht : self.tokens = current :: rest)
    (h : Parser.ParsePrimary fuel self = some (.ok (p, s1))) :
    current.type ≠ .RightParen := by
  cases fuel with
  | zero => rw [Parser.ParsePrimary] at h; cases h
  | succ fuel =>
    rw [Parser.ParsePrimary] at h
    simp only [Parser.currentToken, ht, Fueled.monadLift_eq, Fueled.ok_bind] at h
    split_ifs at h with h1 h2 h3 h4 h5 h6 h7 h8
    · rw [h1]; decide
    · rw [h2]; decide
    · rw [h3]; decide
    · rw [h4]; decide
    · rw [h5]; decide
    · rw [h6]; decide
    · rw [h7]; decide
    · rw [h8]; decide
    · cases h

theorem ParseExpression_not_RightParen {fuel : Nat} {self s1 : Parser} {e : Expression}
    {current : Token} {rest : List Token} (ht : self.tokens = current :: rest)
    (h : Parser.ParseExpression fuel self = some (.ok (e, s1))) :
    current.type ≠ .RightParen := by
  intro hc
  cases fuel with
  | zero => rw [Parser.ParseExpression] at h; cases h
  | succ fuel =>
    rw [Parser.ParseExpression] at h
    rw [Fueled.ok_of_bind] at h
    obtain ⟨⟨LHS, s2⟩, hu, -⟩ := h
    cases fuel with
    | zero => rw [Parser.ParseUnary] at hu; cases hu
    | succ fuel =>
      rw [Parser.ParseUnary] at hu
      have hp : Parser.ParseUnary.prefixes self.tokens = .ok ([], current :: rest) := by
        rw [ht, Parser.ParseUnary.prefixes]
        simp [hc, Parser.IsUnaryPrefix.switch]
      simp only [hp, Fueled.monadLift_eq, Fueled.ok_bind, Fueled.ok_of_bind] at hu
      obtain ⟨⟨operand, s3⟩, hprimary, -⟩ := hu
      exact ParsePrimary_not_RightParen rfl hprimary hc

theorem ParseExpression_second (s s1 : Parser) (current : Token) (rest : List Token)
    (e : Expression) (ht : s.tokens = current :: rest)
    (he : Fueled.Gives (Parser.ParseExpression · { s with tokens := rest }) (.ok (e, s1))) :
    ∃ current first rest, s.tokens = current :: first :: rest ∧ first.type ≠ .RightParen := by
  obtain ⟨n, he⟩ := he
  have he : Parser.ParseExpression n { s with tokens := rest } = some (.ok (e, s1)) :=
    he n (Nat.le_refl _)
  match rest, he with
  | [], he =>
    exfalso
    cases n with
    | zero => rw [Parser.ParseExpression] at he; cases he
    | succ n =>
      rw [Parser.ParseExpression, Fueled.ok_of_bind] at he
      obtain ⟨_, hu, -⟩ := he
      cases n with
      | zero => rw [Parser.ParseUnary] at hu; cases hu
      | succ n =>
        rw [Parser.ParseUnary] at hu
        simp [Parser.ParseUnary.prefixes, Fueled.monadLift_eq, Fueled.error_bind] at hu
        cases hu
  | first :: rest, he =>
    exact ⟨current, first, rest, ht, ParseExpression_not_RightParen rfl he⟩

theorem ReadsElements_first {s s' : Parser} {l : List Expression} (h : ReadsElements s l s') :
    ∃ current first rest, s.tokens = current :: first :: rest ∧ first.type ≠ .RightParen := by
  induction h with
  | last s s1 current next rest rest1 e ht he _ _ =>
    exact ParseExpression_second s s1 current rest e ht he
  | more s s1 _ current comma rest rest1 e l ht he _ _ _ _ =>
    exact ParseExpression_second s s1 current rest e ht he

theorem ParseCallExpression_no_arguments (fuel : Nat) (callee : String) (self : Parser)
    (identifier paren closing : Token) (rest : List Token)
    (ht : self.tokens = identifier :: paren :: closing :: rest)
    (hp : paren.type = .LeftParen) (hc : closing.type = .RightParen) :
    Parser.ParseCallExpression (fuel + 1) callee self =
      some (.ok (node .FUNCTION_CALL [.mk .CALLEE none (.string callee)],
        { self with tokens := rest })) := by
  rw [Parser.ParseCallExpression]
  simp [Parser.Advance, Parser.ExpectTokenType, Parser.currentToken, ht, hp, hc,
    Fueled.monadLift_eq, Fueled.ok_bind, Fueled.pure_eq, bind_ok, pure, Except.pure, node]

theorem ParseCallExpression_arguments (callee : String) (self s1 : Parser)
    (identifier paren closing : Token) (rest rest1 : List Token) (arguments : List Expression)
    (ht : self.tokens = identifier :: paren :: rest) (hp : paren.type = .LeftParen)
    (h : ReadsElements { self with tokens := paren :: rest } arguments s1)
    (ht1 : s1.tokens = closing :: rest1) (hc : closing.type = .RightParen) :
    Fueled.Gives (Parser.ParseCallExpression · callee self)
      (.ok (node .FUNCTION_CALL (.mk .CALLEE none (.string callee) :: arguments),
        { s1 with tokens := rest1 })) := by
  obtain ⟨current, first, rest2, hfirst, hne⟩ := ReadsElements_first h
  obtain ⟨n, hloop⟩ := ParseCallExpressionLoop_elements h
  simp only at hfirst
  obtain ⟨rfl, rfl⟩ := List.cons.inj hfirst
  refine ⟨n + 1, fun fuel hfuel => ?_⟩
  obtain ⟨m, rfl⟩ : ∃ m, fuel = m + 1 := ⟨fuel - 1, by omega⟩
  show Parser.ParseCallExpression (m + 1) callee self = _
  rw [Parser.ParseCallExpression]
  have hloop' := hloop m (by omega)
  simp only [List.tail_cons] at hloop'
  simp [Parser.Advance, Parser.ExpectTokenType, Parser.currentToken, ht, hp, hc, hne,
    Fueled.monadLift_eq, Fueled.ok_bind, Fueled.pure_eq, bind_ok, pure, Except.pure, node,
    hloop', ht1]

theorem ParseFunctionArgument_follows (self s : Parser) (argument : FunctionArgument)
    (h : self.ParseFunctionArgument = .ok (argument, s)) : self.Follows s := by
  unfold Parser.ParseFunctionArgument at h
  simp only [bind_eq_ok, pure_eq_ok, Prod.mk.injEq, Prod.exists] at h
  obtain ⟨_, s1, h1, _, -, _, s2, h2, _, s3, h3, -, rfl⟩ := h
  exact Parser.Follows_trans (Parser.Follows_trans (ExpectTokenType_follows _ _ _ _ h1)
    (ExpectTokenType_follows _ _ _ _ h2)) (ParseType_follows _ _ _ h3)

theorem Fueled.Keeps_ParseFunctionArgument (self : Parser) :
    Fueled.Keeps Prod.snd self (liftM self.ParseFunctionArgument) :=
  ⟨fun _ h => ParseFunctionArgument_follows _ _ _ (Fueled.some_inj.mp h)⟩

theorem ParseFunctionArgumentsLoop_keeps (fuel : Nat) :
    ∀ self, Fueled.Keeps Prod.snd self (Parser.ParseFunctionArgumentsLoop fuel self) := by
  induction fuel with
  | zero =>
    intro self
    rw [Parser.ParseFunctionArgumentsLoop]
    exact Fueled.Keeps_none _ _
  | succ fuel ih =>
    intro self
    rw [Parser.ParseFunctionArgumentsLoop]
    repeat (first
      | exact Fueled.Keeps_return (Parser.Follows_refl _)
      | exact Fueled.Keeps_throw _ _ _
      | refine Fueled.Keeps_bind (ih _) (Parser.Follows_refl _) ?_
      | refine Fueled.Keeps_bind (Fueled.Keeps_Advance _) (Parser.Follows_refl _) ?_
      | refine Fueled.Keeps_bind (Fueled.Keeps_ParseFunctionArgument _)
          (Parser.Follows_refl _) ?_
      | apply Fueled.Keeps_bind_lift
      | apply Fueled.Keeps_ite
      | (intro p; cases p; dsimp only)
      | intro p)

theorem ParseFunctionArguments_keeps (fuel : Nat) (self : Parser) :
    Fueled.Keeps Prod.snd self (Parser.ParseFunctionArguments fuel self) := by
  rw [Parser.ParseFunctionArguments]
  repeat (first
    | exact Fueled.Keeps_return (Parser.Follows_refl _)
    | refine Fueled.Keeps_bind (ParseFunctionArgumentsLoop_keeps _ _) (Parser.Follows_refl _) ?_
    | refine Fueled.Keeps_bind (Fueled.Keeps_ExpectTokenType _ _) (Parser.Follows_refl _) ?_
    | (intro p; cases p; dsimp only))

theorem ParseStructLoop_keeps (fuel : Nat) :
    ∀ self, Fueled.Keeps Prod.snd self (Parser.ParseStructLoop fuel self) := by
  induction fuel with
  | zero =>
    intro self
    rw [Parser.ParseStructLoop]
    exact Fueled.Keeps_none _ _
  | succ fuel ih =>
    intro self
    rw [Parser.ParseStructLoop]
    repeat (first
      | exact Fueled.Keeps_return (Parser.Follows_refl _)
      | exact Fueled.Keeps_throw _ _ _
      | refine Fueled.Keeps_bind (ih _) (Parser.Follows_refl _) ?_
      | refine Fueled.Keeps_bind (Fueled.Keeps_Advance _) (Parser.Follows_refl _) ?_
      | refine Fueled.Keeps_bind (Fueled.Keeps_ExpectTokenType _ _) (Parser.Follows_refl _) ?_
      | refine Fueled.Keeps_bind (Fueled.Keeps_ParseType _) (Parser.Follows_refl _) ?_
      | apply Fueled.Keeps_bind_lift
      | apply Fueled.Keeps_ite
      | (intro p; cases p; dsimp only)
      | intro p)

theorem ParseStruct_keeps (fuel : Nat) (self : Parser) :
    Fueled.Keeps (fun r => r.2.2) self (Parser.ParseStruct fuel self) := by
  rw [Parser.ParseStruct]
  repeat (first
    | exact Fueled.Keeps_return (Parser.Follows_refl _)
    | exact Fueled.Keeps_throw _ _ _
    | refine Fueled.Keeps_bind (ParseStructLoop_keeps _ _) (Parser.Follows_refl _) ?_
    | refine Fueled.Keeps_bind (Fueled.Keeps_Advance _) (Parser.Follows_refl _) ?_
    | refine Fueled.Keeps_bind (Fueled.Keeps_ExpectTokenType _ _) (Parser.Follows_refl _) ?_
    | apply Fueled.Keeps_bind_lift
    | apply Fueled.Keeps_ite
    | (intro p; cases p; dsimp only)
    | intro p)

/-- What `ParseFunction` does before the body and with it: the name of the function is
put into the set of the declared functions, and the body is what `ParseScope` returns for
the parser with that set. -/
theorem ParseFunction_body (fuel : Nat) (self s' : Parser) (function : Function)
    (h : Parser.ParseFunction fuel self = some (.ok (function, s'))) :
    ∃ header : Parser,
      header._declaredFunctions =
        unordered_set_emplace self._declaredFunctions function.prototype.name ∧
      header._types = self._types ∧
      Parser.ParseScope fuel header = some (.ok (function.body, s')) ∧
      s'._declaredFunctions = header._declaredFunctions ∧ s'._types = self._types := by
  rw [Parser.ParseFunction] at h
  simp only [Fueled.ok_of_bind, Fueled.monadLift_eq, Fueled.some_inj, Fueled.pure_eq,
    Except.ok.injEq, Prod.mk.injEq] at h
  obtain ⟨⟨token, s1⟩, h1, name, -, ⟨arguments, s2⟩, h2, ⟨_, s3⟩, h3, ⟨returnType, s4⟩, h4,
    ⟨_, s5⟩, h5, ⟨_, s6⟩, h6, ⟨body, s7⟩, h7, rfl, rfl⟩ := h
  dsimp only at h2 h3 h4 h5 h6 h7
  have f1 := ExpectTokenType_follows _ _ _ _ h1
  have f2 := (ParseFunctionArguments_keeps _ _).out _ h2
  have f3 := ExpectTokenType_follows _ _ _ _ h3
  have f4 := ParseType_follows _ _ _ h4
  have f5 := ExpectTokenType_follows _ _ _ _ h5
  have f6 := ExpectTokenType_follows _ _ _ _ h6
  have f7 := ((Parser.frames fuel).ParseScope _).out _ h7
  have d4 : s4._declaredFunctions = self._declaredFunctions :=
    (Parser.Follows_trans (Parser.Follows_trans (Parser.Follows_trans f1 f2) f3) f4).1
  have t4 : s4._types = self._types :=
    (Parser.Follows_trans (Parser.Follows_trans (Parser.Follows_trans f1 f2) f3) f4).2.1
  have f56 := Parser.Follows_trans f5 f6
  refine ⟨s6, ?_, ?_, h7, f7.1, ?_⟩
  · rw [f56.1, d4]
  · rw [f56.2.1, t4]
  · rw [f7.2.1, f56.2.1, t4]

theorem ParseFunction_parts (fuel : Nat) (self s1 s2 s3 : Parser) (identifier arrow colon eol : Token)
    (rest rest1 rest2 : List Token) (name : String) (arguments : List FunctionArgument)
    (returnType : Ty) (body : Expression)
    (ht : self.tokens = identifier :: rest) (hi : identifier.type = .Identifier)
    (hv : identifier.value = some name)
    (ha : Parser.ParseFunctionArguments fuel { self with tokens := rest } =
      some (.ok (arguments, s1)))
    (ht1 : s1.tokens = arrow :: rest1) (harrow : arrow.type = .RightArrow)
    (hr : Parser.ParseType { s1 with tokens := rest1 } = .ok (returnType, s2))
    (ht2 : s2.tokens = colon :: eol :: rest2) (hcolon : colon.type = .Colon)
    (heol : eol.type = .EndOfLine)
    (hb : Parser.ParseScope fuel
      { tokens := rest2
        _declaredFunctions := unordered_set_emplace s2._declaredFunctions name
        _types := s2._types } = some (.ok (body, s3))) :
    Parser.ParseFunction fuel self =
      some (.ok ({ prototype := { name := name, arguments := arguments, returnType := returnType }
                   body := body }, s3)) := by
  rw [Parser.ParseFunction]
  simp only [Parser.ExpectTokenType, Parser.currentToken, Parser.Advance, ht, hi, hv, ha, ht1,
    harrow, hr, ht2, hcolon, heol, hb, if_true, Fueled.monadLift_eq, Fueled.ok_bind, bind_ok,
    pure, Except.pure, optional_value, Fueled.pure_eq]

theorem ParseLoop_function (fuel : Nat) (self s1 s2 : Parser) (current : Token)
    (rest : List Token) (function : Function) (functions : List Function)
    (ht : self.tokens = current :: rest) (hc : current.type = .Function)
    (hf : Parser.ParseFunction fuel { self with tokens := rest } = some (.ok (function, s1)))
    (hl : Parser.ParseLoop fuel s1 = some (.ok (functions, s2))) :
    Parser.ParseLoop (fuel + 1) self = some (.ok (function :: functions, s2)) := by
  rw [Parser.ParseLoop]
  simp only [Parser.currentToken, Parser.Advance, ht, hc, hf, hl, if_true, Fueled.monadLift_eq,
    Fueled.ok_bind, Fueled.pure_eq]

theorem ParseLoop_struct (fuel : Nat) (self s1 s2 : Parser) (current : Token)
    (rest : List Token) (name : String) (type : List StructField) (functions : List Function)
    (ht : self.tokens = current :: rest) (hc : current.type = .Struct)
    (hs : Parser.ParseStruct fuel self = some (.ok (name, type, s1)))
    (hl : Parser.ParseLoop fuel { s1 with _types := s1._types.emplace name (.Struct type) } =
      some (.ok (functions, s2))) :
    Parser.ParseLoop (fuel + 1) self = some (.ok (functions, s2)) := by
  rw [Parser.ParseLoop]
  simp only [Parser.currentToken, ht, hc, hs, hl, Fueled.monadLift_eq, Fueled.ok_bind,
    reduceCtorEq, if_false, if_true]

theorem ParseLoop_end (fuel : Nat) (self : Parser) (current : Token) (rest : List Token)
    (ht : self.tokens = current :: rest) (hc : current.type = .EndOfFile) :
    Parser.ParseLoop (fuel + 1) self = some (.ok ([], { self with tokens := rest })) := by
  rw [Parser.ParseLoop]
  simp only [Parser.currentToken, Parser.ExpectTokenType, Parser.Advance, ht, hc,
    Fueled.monadLift_eq, Fueled.ok_bind, reduceCtorEq, if_false, if_true, bind_ok, pure,
    Except.pure, Fueled.pure_eq]

set_option maxRecDepth 4000 in
theorem twoFunctions_parsed :
    Parser.Parse 21 Parser.new twoFunctions =
      some (.ok ([callsItself, callsEarlier],
        { parserAt [] with _declaredFunctions := ["f", "g"] })) :=
  ParseLoop_function 20 (parserAt twoFunctions)
    { parserAt (twoFunctions.drop 19) with _declaredFunctions := ["f"] } _
    (tokenOf .Function none) (twoFunctions.drop 1) callsItself [callsEarlier] rfl rfl
    (ParseFunction_parts 20 (parserAt (twoFunctions.drop 1)) (parserAt (twoFunctions.drop 7))
      (parserAt (twoFunctions.drop 9)) _ (tokenOf .Identifier (some "f"))
      (tokenOf .RightArrow none) (tokenOf .Colon none) (tokenOf .EndOfLine none)
      (twoFunctions.drop 2) (twoFunctions.drop 8) (twoFunctions.drop 11) "f"
      [{ name := "n", type := i64 }] i64 callsItself.body rfl rfl rfl rfl rfl rfl rfl rfl rfl
      rfl rfl)
    (ParseLoop_function 19
      { parserAt (twoFunctions.drop 19) with _declaredFunctions := ["f"] }
      { parserAt (twoFunctions.drop 37) with _declaredFunctions := ["f", "g"] } _
      (tokenOf .Function none) (twoFunctions.drop 20) callsEarlier [] rfl rfl
      (ParseFunction_parts 19
        { parserAt (twoFunctions.drop 20) with _declaredFunctions := ["f"] }
        { parserAt (twoFunctions.drop 23) with _declaredFunctions := ["f"] }
        { parserAt (twoFunctions.drop 25) with _declaredFunctions := ["f"] } _
        (tokenOf .Identifier (some "g")) (tokenOf .RightArrow none) (tokenOf .Colon none)
        (tokenOf .EndOfLine none) (twoFunctions.drop 21) (twoFunctions.drop 24)
        (twoFunctions.drop 27) "g" [] i64 callsEarlier.body rfl rfl rfl rfl rfl rfl rfl rfl rfl
        rfl rfl)
      (ParseLoop_end 18 _ (tokenOf .EndOfFile none) [] rfl rfl))

theorem declaredAfter_cons (declared : List String) (function : Function)
    (functions : List Function) :
    declaredAfter declared (function :: functions) =
      declaredAfter (unordered_set_emplace declared function.prototype.name) functions := rfl

theorem mem_unordered_set_emplace (set : List String) (key name : String) :
    name ∈ unordered_set_emplace set key ↔ name ∈ set ∨ name = key := by
  unfold unordered_set_emplace
  split
  · rename_i h
    constructor
    · exact Or.inl
    · rintro (h' | rfl)
      · exact h'
      · simpa using h
  · simp

theorem mem_declaredAfter (functions : List Function) :
    ∀ (declared : List String) (name : String),
      name ∈ declaredAfter declared functions ↔
        name ∈ declared ∨ ∃ function ∈ functions, function.prototype.name = name := by
  induction functions with
  | nil => intro declared name; simp [declaredAfter]
  | cons function functions ih =>
    intro declared name
    rw [declaredAfter_cons, ih, mem_unordered_set_emplace]
    simp only [List.mem_cons, exists_eq_or_imp]
    constructor
    · rintro ((h | h) | h)
      · exact Or.inl h
      · exact Or.inr (Or.inl h.symm)
      · exact Or.inr (Or.inr h)
    · rintro (h | h | h)
      · exact Or.inl (Or.inl h)
      · exact Or.inl (Or.inr h.symm)
      · exact Or.inr h

/-- The functions that `Parse` returns have been parsed one after the other, each from a
parser whose set of declared functions holds the names of the functions before it. -/
theorem ParseLoop_declared (fuel : Nat) :
    ∀ (self s' : Parser) (functions : List Function),
      Parser.ParseLoop fuel self = some (.ok (functions, s')) →
      s'._declaredFunctions = declaredAfter self._declaredFunctions functions ∧
      ∀ before function after, functions = before ++ function :: after →
        ∃ (start s'' : Parser),
          start._declaredFunctions = declaredAfter self._declaredFunctions before ∧
          Parser.ParseFunction fuel start = some (.ok (function, s'')) := by
  induction fuel with
  | zero =>
    intro self s' functions h
    rw [Parser.ParseLoop] at h
    cases h
  | succ fuel ih =>
    intro self s' functions h
    rw [Parser.ParseLoop] at h
    rw [Fueled.ok_of_bind] at h
    obtain ⟨current, -, h⟩ := h
    split_ifs at h with hf hs
    · simp only [Fueled.ok_of_bind, Fueled.monadLift_eq, Fueled.some_inj, Fueled.pure_eq,
        Except.ok.injEq, Prod.mk.injEq] at h
      obtain ⟨s1, h1, ⟨function, s2⟩, h2, ⟨result, s3⟩, h3, rfl, rfl⟩ := h
      dsimp only at h3
      have f1 := Advance_follows _ _ h1
      obtain ⟨header, hd, -, -, hd', -⟩ := ParseFunction_body _ _ _ _ h2
      have d2 : s2._declaredFunctions =
          unordered_set_emplace self._declaredFunctions function.prototype.name := by
        rw [hd', hd, f1.1]
      obtain ⟨ih1, ih2⟩ := ih s2 s3 result h3
      refine ⟨by rw [ih1, d2, declaredAfter_cons], ?_⟩
      intro before g after hsplit
      cases before with
      | nil =>
        simp only [List.nil_append, List.cons.injEq] at hsplit
        obtain ⟨rfl, rfl⟩ := hsplit
        exact ⟨s1, s2, f1.1, (ParseFunction_deeper _ _).out _ h2⟩
      | cons first before =>
        simp only [List.cons_append, List.cons.injEq] at hsplit
        obtain ⟨rfl, rfl⟩ := hsplit
        obtain ⟨start, s'', hstart, hparse⟩ := ih2 before g after rfl
        refine ⟨start, s'', ?_, (ParseFunction_deeper _ _).out _ hparse⟩
        rw [hstart, d2, declaredAfter_cons]
    · simp only [Fueled.ok_of_bind] at h
      obtain ⟨⟨name, type, s1⟩, h1, h⟩ := h
      dsimp only at h
      have f1 := (ParseStruct_keeps _ _).out _ h1
      obtain ⟨ih1, ih2⟩ := ih _ s' functions h
      dsimp only at ih1 ih2 f1
      refine ⟨by rw [ih1, f1.1], ?_⟩
      intro before g after hsplit
      obtain ⟨start, s'', hstart, hparse⟩ := ih2 before g after hsplit
      exact ⟨start, s'', by rw [hstart, f1.1], (ParseFunction_deeper _ _).out _ hparse⟩
    · simp only [Fueled.ok_of_bind, Fueled.monadLift_eq, Fueled.some_inj, Fueled.pure_eq,
        Except.ok.injEq, Prod.mk.injEq] at h
      obtain ⟨⟨_, s1⟩, h1, rfl, rfl⟩ := h
      have f1 := ExpectTokenType_follows _ _ _ _ h1
      refine ⟨f1.1, ?_⟩
      intro before g after hsplit
      cases before <;> cases hsplit

theorem ParseIdentifier_gives (fuel : Nat) {self : Parser}
    {r : Except Exception (Expression × Parser)}
    (h : Parser.ParseIdentifier fuel self = some r) :
    Fueled.Gives (Parser.ParseIdentifier · self) r :=
  Fueled.gives_of_eq (Parser.ParseIdentifier · self)
    (fun n => (Parser.deeper n).ParseIdentifier self) h

/-- Claim C26, as the specification states it, fails for a function that is named `true`:
`function true() -> bool:` with body `return true` is parsed, and the identifier `true` in
the body, which is the name of the function and in the set of the declared functions, is
the boolean Literal and no FunctionCall. -/
theorem C26_function_named_true :
    Fueled.Gives (Parser.Parse · Parser.new functionNamedTrue)
      (.ok ([namedTrue], { parserAt [] with _declaredFunctions := ["true"] })) ∧
    "true" ∈ ({ parserAt (functionNamedTrue.drop 10) with
      _declaredFunctions := ["true"] } : Parser)._declaredFunctions ∧
    Fueled.Gives
      (Parser.ParseIdentifier ·
        { parserAt (functionNamedTrue.drop 10) with _declaredFunctions := ["true"] })
      (.ok (.mk .LITERAL (some bool) (.bool true),
        { parserAt (functionNamedTrue.drop 11) with _declaredFunctions := ["true"] })) :=
  ⟨Parse_gives 12 rfl, by decide, ParseIdentifier_gives 2 rfl⟩

/-- Claim C26, amended: call or variable. An identifier other than `true` and `false` that
is in the set of the declared functions is parsed by `ParseCallExpression`, which returns
the FunctionCall whose first child is Callee(name), followed by the argument expressions in
the order of the source; every other identifier except `true` and `false` is parsed to the
Variable of that name without type. The set is the one that decides: `ParseFunction` puts
the name of the function into it before it parses the body, no function that parses
statements or expressions changes it (`Parser.Frames`), and `Parse` parses the functions one
after the other from the empty set, so that while the body of a function is parsed the set
holds the name of this function and the names of the functions before it and no name of a
function declared later. The two functions `f` with body `return f(g)` and `g` with body
`return f(1) + h` are parsed to the call of `f` with the variable `g` and to the call of `f`
plus the variable `h`. -/
theorem C26_call_or_variable :
    (∀ (fuel : Nat) (self : Parser) (current : Token) (rest : List Token) (name : String),
      self.tokens = current :: rest → current.value = some name →
      name ≠ "true" → name ≠ "false" →
      (name ∈ self._declaredFunctions →
        Parser.ParseIdentifier (fuel + 1) self = Parser.ParseCallExpression fuel name self) ∧
      (name ∉ self._declaredFunctions →
        Parser.ParseIdentifier (fuel + 1) self =
          some (.ok (variableRef name, { self with tokens := rest })))) ∧
    (∀ (fuel : Nat) (callee : String) (self : Parser) (identifier paren closing : Token)
      (rest : List Token), self.tokens = identifier :: paren :: closing :: rest →
      paren.type = .LeftParen → closing.type = .RightParen →
      Parser.ParseCallExpression (fuel + 1) callee self =
        some (.ok (node .FUNCTION_CALL [.mk .CALLEE none (.string callee)],
          { self with tokens := rest }))) ∧
    (∀ (callee : String) (self s1 : Parser) (identifier paren closing : Token)
      (rest rest1 : List Token) (arguments : List Expression),
      self.tokens = identifier :: paren :: rest → paren.type = .LeftParen →
      ReadsElements { self with tokens := paren :: rest } arguments s1 →
      s1.tokens = closing :: rest1 → closing.type = .RightParen →
      Fueled.Gives (Parser.ParseCallExpression · callee self)
        (.ok (node .FUNCTION_CALL (.mk .CALLEE none (.string callee) :: arguments),
          { s1 with tokens := rest1 }))) ∧
    (∀ (fuel : Nat) (self s' : Parser) (function : Function),
      Parser.ParseFunction fuel self = some (.ok (function, s')) →
      ∃ header : Parser,
        header._declaredFunctions =
          unordered_set_emplace self._declaredFunctions function.prototype.name ∧
        header._types = self._types ∧
        Parser.ParseScope fuel header = some (.ok (function.body, s')) ∧
        s'._declaredFunctions = header._declaredFunctions ∧ s'._types = self._types) ∧
    (∀ fuel, Parser.Frames fuel) ∧
    (∀ (fuel : Nat) (tokens : List Token) (s' : Parser) (functions : List Function),
      Parser.Parse fuel Parser.new tokens = some (.ok (functions, s')) →
      ∀ before function after, functions = before ++ function :: after →
        ∃ (start s'' : Parser),
          start._declaredFunctions = declaredAfter [] before ∧
          Parser.ParseFunction fuel start = some (.ok (function, s''))) ∧
    (∀ (declared : List String) (functions : List Function) (name : String),
      name ∈ declaredAfter declared functions ↔
        name ∈ declared ∨ ∃ function ∈ functions, function.prototype.name = name) ∧
    Fueled.Gives (Parser.Parse · Parser.new twoFunctions)
      (.ok ([callsItself, callsEarlier],
        { parserAt [] with _declaredFunctions := ["f", "g"] })) :=
  ⟨fun fuel self current rest name ht hv h1 h2 =>
      ⟨ParseIdentifier_declared fuel self current rest name ht hv h1 h2,
        ParseIdentifier_undeclared fuel self current rest name ht hv h1 h2⟩,
    ParseCallExpression_no_arguments, ParseCallExpression_arguments, ParseFunction_body,
    Parser.frames,
    fun fuel _ s' functions h => (ParseLoop_declared fuel _ s' functions h).2,
    fun declared functions name => mem_declaredAfter functions declared name,
    Parse_gives 21 twoFunctions_parsed⟩

/-! ## Claim C28: field names of a record -/

set_option maxRecDepth 4000 in
theorem twiceDeclared_parsed :
    Parser.Parse 12 Parser.new twiceDeclared =
      some (.ok ([], { parserAt [] with
        _types := Parser.new._types ++ [("S", .Struct [.mk "a" i64, .mk "a" bool])] })) :=
  rfl

/-- Claim C28 fails on `struct S:` with the fields `a: i64` and `a: bool`: `ParseStruct`
pushes every field it reads and compares no names, and `Parse` puts the record with the two
fields named `a` into the type environment under `S`. -/
theorem C28_duplicate_field_names_accepted :
    Fueled.Gives (Parser.Parse · Parser.new twiceDeclared)
      (.ok ([], { parserAt [] with
        _types := Parser.new._types ++ [("S", .Struct [.mk "a" i64, .mk "a" bool])] })) ∧
    unordered_map.find
      (Parser.new._types ++ [("S", Ty.Struct [.mk "a" i64, .mk "a" bool])]) "S" =
      some (.Struct [.mk "a" i64, .mk "a" bool]) ∧
    ¬ uniqueFieldNames [.mk "a" i64, .mk "a" bool] :=
  ⟨Parse_gives 12 twiceDeclared_parsed, rfl, by simp [uniqueFieldNames, StructField.name]⟩
/-! ## Claim C29: indentation tokens -/

theorem CountTabs_afterTabs (line : List Char) (h : afterTabs line ≠ []) :
    Tokenizer.CountTabs line = .ok (leadingTabs line, afterTabs line) := by
  induction line with
  | nil => exact absurd rfl h
  | cons c rest ih =>
    rw [Tokenizer.CountTabs]
    by_cases hc : c = charTab
    · have hrest : afterTabs rest ≠ [] := by
        simpa [afterTabs, List.dropWhile_cons, hc] using h
      rw [if_pos hc, ih hrest]
      simp [leadingTabs, afterTabs, List.takeWhile_cons, List.dropWhile_cons, hc, bind,
        Except.bind, pure, Except.pure]
    · rw [if_neg hc]
      simp [leadingTabs, afterTabs, List.takeWhile_cons, List.dropWhile_cons, hc]

theorem indentationTokens_eq (file : String) (currentLine previous level : Nat) :
    List.replicate ((level : Int) - (previous : Int)).natAbs
        ({ file := file, line := currentLine,
           type := if (level : Int) - (previous : Int) > 0 then .IndentPlus else .IndentMinus,
           value := none } : Token) =
      indentationTokens file currentLine previous level := by
  unfold indentationTokens
  by_cases h : level > previous
  · have h1 : (level : Int) - (previous : Int) > 0 := by omega
    have h2 : ((level : Int) - (previous : Int)).natAbs = level - previous := by omega
    rw [if_pos h, if_pos h1, h2]
  · have h1 : ¬ (level : Int) - (previous : Int) > 0 := by omega
    have h2 : ((level : Int) - (previous : Int)).natAbs = previous - level := by omega
    rw [if_neg h, if_neg h1, h2]

theorem significant_of_not_tab (c : Char) (rest : List Char) (h1 : c ≠ charTab)
    (h2 : c ≠ '#') : significant (c :: rest) = true := by
  simp [significant, afterTabs, List.dropWhile_cons, h1, h2]

theorem not_significant_comment (rest : List Char) : significant ('#' :: rest) = false := by
  have h : ('#' : Char) ≠ charTab := by decide
  simp [significant, afterTabs, List.dropWhile_cons, h]

theorem afterTabs_of_significant (line : List Char) (h : significant line = true) :
    afterTabs line ≠ [] := by
  intro he
  simp [significant, he] at h

theorem TokenizeLoop_skip (file : String) (line : List Char) (rest : List (List Char))
    (currentLine indentation : Nat) (h : line = [] ∨ line.head? = some '#') :
    Tokenizer.TokenizeLoop file (line :: rest) currentLine indentation =
      Tokenizer.TokenizeLoop file rest (currentLine + 1) indentation := by
  rw [Tokenizer.TokenizeLoop]
  have hc : (line.isEmpty || decide (line.head? = some '#')) = true := by
    rcases h with h | h
    · simp [h]
    · simp [h]
  simp only [hc, if_true]

theorem TokenizeLoop_line (file : String) (line : List Char) (rest : List (List Char))
    (currentLine indentation : Nat) (h1 : line.head? ≠ some '#')
    (h2 : afterTabs line ≠ []) :
    Tokenizer.TokenizeLoop file (line :: rest) currentLine indentation = (do
      let content ← Tokenizer.TokenizeLine file (currentLine + 1) (afterTabs line)
      let tokens ← Tokenizer.TokenizeLoop file rest (currentLine + 1) (leadingTabs line)
      return indentationTokens file (currentLine + 1) indentation (leadingTabs line) ++
        content ++
        [{ file := file, line := currentLine + 1, type := .EndOfLine, value := none }] ++
        tokens) := by
  rw [Tokenizer.TokenizeLoop]
  have hne : line ≠ [] := by
    intro he
    rw [he] at h2
    exact h2 rfl
  have hc : (line.isEmpty || decide (line.head? = some '#')) = false := by
    simp [hne, h1]
  simp only [hc, Bool.false_eq_true, if_false, CountTabs_afterTabs line h2, bind_ok,
    indentationTokens_eq]

theorem TokenizeLoop_significant (file : String) (lines : List (List Char)) :
    ∀ (currentLine indentation : Nat),
      (∀ line ∈ lines, line.head? = some charTab → significant line = true) →
      Tokenizer.TokenizeLoop file lines currentLine indentation =
        indentedTokens file (currentLine + lines.length)
          (significantLines (currentLine + 1) lines) indentation := by
  induction lines with
  | nil =>
    intro currentLine indentation _
    rfl
  | cons line rest ih =>
    intro currentLine indentation h
    have hrest := fun level => ih (currentLine + 1) level
      (fun l hl => h l (List.mem_cons_of_mem _ hl))
    have hlen : currentLine + (line :: rest).length = currentLine + 1 + rest.length := by
      simp only [List.length_cons]; omega
    rw [hlen]
    by_cases hs : significant line = true
    · have hsl : significantLines (currentLine + 1) (line :: rest) =
          (currentLine + 1, line) :: significantLines (currentLine + 1 + 1) rest := by
        simp [significantLines, List.enumFrom_cons, List.filter_cons, hs]
      have h1 : line.head? ≠ some '#' := by
        intro he
        cases line with
        | nil => cases he
        | cons c tail =>
          simp only [List.head?_cons, Option.some.injEq] at he
          rw [he, not_significant_comment] at hs
          cases hs
      rw [hsl, TokenizeLoop_line file line rest _ _ h1 (afterTabs_of_significant line hs),
        indentedTokens]
      simp only [hrest]
    · have hsl : significantLines (currentLine + 1) (line :: rest) =
          significantLines (currentLine + 1 + 1) rest := by
        simp [significantLines, List.enumFrom_cons, List.filter_cons, hs]
      have hskip : line = [] ∨ line.head? = some '#' := by
        cases line with
        | nil => exact Or.inl rfl
        | cons c tail =>
          right
          by_cases hc : c = charTab
          · exact absurd (h _ (List.mem_cons_self _ _) (by simp [hc])) hs
          · by_cases hc2 : c = '#'
            · simp [hc2]
            · exact absurd (significant_of_not_tab c tail hc hc2) hs
      rw [hsl, TokenizeLoop_skip file line rest _ _ hskip, hrest]

theorem TokenizeLoop_getLast (file : String) (lines : List (List Char)) :
    ∀ (currentLine indentation : Nat) (tokens : List Token),
      Tokenizer.TokenizeLoop file lines currentLine indentation = .ok tokens →
      tokens.getLast? = some { file := file, line := currentLine + lines.length,
                               type := .EndOfFile, value := none } := by
  induction lines with
  | nil =>
    intro currentLine indentation tokens h
    rw [Tokenizer.TokenizeLoop] at h
    cases h
    simp
  | cons line rest ih =>
    intro currentLine indentation tokens h
    have hlen : currentLine + (line :: rest).length = currentLine + 1 + rest.length := by
      simp only [List.length_cons]; omega
    rw [hlen]
    rw [Tokenizer.TokenizeLoop] at h
    dsimp only at h
    split at h
    · exact ih _ _ _ h
    · cases hcount : Tokenizer.CountTabs line with
      | error e => rw [hcount] at h; cases h
      | ok counted =>
        obtain ⟨lineIndentation, content⟩ := counted
        rw [hcount] at h
        simp only [bind_ok] at h
        cases hline : Tokenizer.TokenizeLine file (currentLine + 1) content with
        | error e => rw [hline] at h; cases h
        | ok lineTokens =>
          rw [hline] at h
          simp only [bind_ok] at h
          cases hloop : Tokenizer.TokenizeLoop file rest (currentLine + 1) lineIndentation with
          | error e => rw [hloop] at h; cases h
          | ok tail =>
            rw [hloop] at h
            cases h
            have htail := ih _ _ _ hloop
            have hne : tail ≠ [] := by
              intro he
              rw [he] at htail
              cases htail
            rw [List.getLast?_append_of_ne_nil _ hne, htail]
/-! ## Claim C30: the lines that are skipped -/

theorem TokenizeLine_comment (file : String) (currentLine : Nat) (comment : List Char) :
    Tokenizer.TokenizeLine file currentLine ('#' :: comment) = .ok [] := by
  have hstep : Tokenizer.TokenizeLineStep file currentLine ('#' :: comment) =
      .ok (none, []) := by
    rw [Tokenizer.TokenizeLineStep, IsKeyword_of_not_initial '#' comment (by decide)]
    simp [Tokenizer.Advance]
  have hloop := TokenizeLineLoop_step file currentLine comment.length '#' comment [] none hstep
  have heq := TokenizeLine_eq file currentLine ('#' :: comment)
  rw [List.length_cons, hloop] at heq
  have hnil : Tokenizer.TokenizeLineLoop file currentLine comment.length [] = some (.ok []) := by
    cases comment.length <;> rfl
  rw [hnil] at heq
  exact Option.some.inj heq

theorem CountTabs_tabs (line : List Char) (h : afterTabs line = []) :
    Tokenizer.CountTabs line = .error .undefined_behavior := by
  induction line with
  | nil => rfl
  | cons c rest ih =>
    rw [Tokenizer.CountTabs]
    by_cases hc : c = charTab
    · have hrest : afterTabs rest = [] := by
        simpa [afterTabs, List.dropWhile_cons, hc] using h
      rw [if_pos hc, ih hrest]
      rfl
    · simp [afterTabs, List.dropWhile_cons, hc] at h

theorem TokenizeLoop_indented_comment (file : String) (line comment : List Char)
    (rest : List (List Char)) (currentLine indentation : Nat)
    (h1 : line.head? = some charTab) (h2 : afterTabs line = '#' :: comment) :
    Tokenizer.TokenizeLoop file (line :: rest) currentLine indentation = (do
      let tokens ← Tokenizer.TokenizeLoop file rest (currentLine + 1) (leadingTabs line)
      return indentationTokens file (currentLine + 1) indentation (leadingTabs line) ++
        [{ file := file, line := currentLine + 1, type := .EndOfLine, value := none }] ++
        tokens) := by
  have hhead : line.head? ≠ some '#' := by
    rw [h1]
    decide
  rw [TokenizeLoop_line file line rest _ _ hhead (by rw [h2]; simp), h2, TokenizeLine_comment]
  simp [bind, Except.bind, pure, Except.pure]

theorem TokenizeLoop_tabs (file : String) (line : List Char) (rest : List (List Char))
    (currentLine indentation : Nat) (h1 : line ≠ []) (h2 : afterTabs line = []) :
    Tokenizer.TokenizeLoop file (line :: rest) currentLine indentation =
      .error .undefined_behavior := by
  rw [Tokenizer.TokenizeLoop]
  have hhead : line.head? ≠ some '#' := by
    cases line with
    | nil => exact absurd rfl h1
    | cons c tail =>
      intro he
      simp only [List.head?_cons, Option.some.injEq] at he
      have hc : ('#' : Char) ≠ charTab := by decide
      simp [afterTabs, List.dropWhile_cons, he, hc] at h2
  have hc : (line.isEmpty || decide (line.head? = some '#')) = false := by
    simp [h1, hhead]
  simp only [hc, Bool.false_eq_true, if_false, CountTabs_tabs line h2]
  rfl

/-- Claim C30 holds for the empty lines and the lines that begin with `#`: they add no token
and leave the indentation level. It fails for a line in which tabs come before the `#`: such
a line adds the indentation tokens of its level and an `EndOfLine` and sets the level, so
that `a`, tab `#`, `b` on three lines has an `IndentPlus`, an `EndOfLine` and an
`IndentMinus` that the input without the second line has not. On a line of nothing but tabs
`CountTabs` reads the front of the empty string. -/
theorem C30_indented_comment_is_tokenized :
    (∀ (file : String) (line : List Char) (rest : List (List Char))
        (currentLine indentation : Nat), line = [] ∨ line.head? = some '#' →
        Tokenizer.TokenizeLoop file (line :: rest) currentLine indentation =
          Tokenizer.TokenizeLoop file rest (currentLine + 1) indentation) ∧
    (∀ (file : String) (line comment : List Char) (rest : List (List Char))
        (currentLine indentation : Nat),
        line.head? = some charTab → afterTabs line = '#' :: comment →
        Tokenizer.TokenizeLoop file (line :: rest) currentLine indentation = (do
          let tokens ← Tokenizer.TokenizeLoop file rest (currentLine + 1) (leadingTabs line)
          return indentationTokens file (currentLine + 1) indentation (leadingTabs line) ++
            [{ file := file, line := currentLine + 1, type := .EndOfLine, value := none }] ++
            tokens)) ∧
    (∀ (file : String) (line : List Char) (rest : List (List Char))
        (currentLine indentation : Nat), line ≠ [] → afterTabs line = [] →
        Tokenizer.TokenizeLoop file (line :: rest) currentLine indentation =
          .error .undefined_behavior) ∧
    significant (String.toList indentedComment) = false ∧
    Tokenizer.Tokenize commentBetween "f" =
      .ok [{ file := "f", line := 1, type := .Identifier, value := some "a" },
           { file := "f", line := 1, type := .EndOfLine, value := none },
           { file := "f", line := 2, type := .IndentPlus, value := none },
           { file := "f", line := 2, type := .EndOfLine, value := none },
           { file := "f", line := 3, type := .IndentMinus, value := none },
           { file := "f", line := 3, type := .Identifier, value := some "b" },
           { file := "f", line := 3, type := .EndOfLine, value := none },
           { file := "f", line := 3, type := .EndOfFile, value := none }] ∧
    Tokenizer.Tokenize commentRemoved "f" =
      .ok [{ file := "f", line := 1, type := .Identifier, value := some "a" },
           { file := "f", line := 1, type := .EndOfLine, value := none },
           { file := "f", line := 2, type := .Identifier, value := some "b" },
           { file := "f", line := 2, type := .EndOfLine, value := none },
           { file := "f", line := 2, type := .EndOfFile, value := none }] ∧
    Tokenizer.Tokenize indentedComment "f" =
      .ok [{ file := "f", line := 1, type := .IndentPlus, value := none },
           { file := "f", line := 1, type := .EndOfLine, value := none },
           { file := "f", line := 1, type := .IndentMinus, value := none },
           { file := "f", line := 1, type := .EndOfFile, value := none }] :=
  ⟨TokenizeLoop_skip, TokenizeLoop_indented_comment, TokenizeLoop_tabs, by decide, by rfl,
    by rfl, by rfl⟩
/-! ## Claim C36: operators of equal precedence -/

/-- Claim C36: operators of equal precedence associate to the left. For all operands `a`,
`b`, `c` that `ParseUnary` returns and all binary operators `op1`, `op2` of the same
precedence, with no binary operator behind `c`, `ParseExpression` parses `a op1 b op2 c` to
`op2[op1[a, b], c]`. This holds at every level of the table, 10 included. -/
theorem C36_equal_precedence_groups_left (self s1 s2 s3 : Parser) (a b c : Expression)
    (op1 op2 next : Token) (rest1 rest2 rest3 : List Token) (k1 k2 : ExpressionKind)
    (h1 : (op1.type, k1) ∈ binaryOperators) (h2 : (op2.type, k2) ∈ binaryOperators)
    (hsame : precedenceTable.lookup op1.type = precedenceTable.lookup op2.type)
    (ha : Fueled.Gives (Parser.ParseUnary · self) (.ok (a, s1)))
    (t1 : s1.tokens = op1 :: rest1)
    (hb : Fueled.Gives (Parser.ParseUnary · { s1 with tokens := rest1 }) (.ok (b, s2)))
    (t2 : s2.tokens = op2 :: rest2)
    (hc : Fueled.Gives (Parser.ParseUnary · { s2 with tokens := rest2 }) (.ok (c, s3)))
    (t3 : s3.tokens = next :: rest3)
    (hnext : ∀ k, (next.type, k) ∉ binaryOperators) :
    Fueled.Gives (Parser.ParseExpression · self) (.ok (node k2 [node k1 [a, b], c], s3)) :=
  ParseExpression_groups_left self s1 s2 s3 a b c op1 op2 next rest1 rest2 rest3 k1 k2 h1 h2
    ha t1 hb t2 hc t3 hnext (by rw [precedence_eq_table, precedence_eq_table, hsame])

/-- Claim C36 on `a - b - c`, which is Minus[Minus[a, b], c], and on `a / b * c`, which is
Multiply[Divide[a, b], c]. -/
theorem C36_equal_precedence_groups_left_witness :
    Fueled.Gives (Parser.ParseExpression · (parserAt differenceMinus))
      (.ok (node .MINUS_OP
        [node .MINUS_OP [variableRef "a", variableRef "b"], variableRef "c"],
        parserAt [tokenOf .EndOfLine none])) ∧
    Fueled.Gives (Parser.ParseExpression · (parserAt quotientTimes))
      (.ok (node .MULTIPLY_OP
        [node .DIVIDE_OP [variableRef "a", variableRef "b"], variableRef "c"],
        parserAt [tokenOf .EndOfLine none])) :=
  ⟨C36_equal_precedence_groups_left (parserAt differenceMinus)
      (parserAt (differenceMinus.drop 1)) (parserAt (differenceMinus.drop 3))
      (parserAt (differenceMinus.drop 5))
      (variableRef "a") (variableRef "b") (variableRef "c")
      (tokenOf .Minus none) (tokenOf .Minus none) (tokenOf .EndOfLine none)
      (differenceMinus.drop 2) (differenceMinus.drop 4) [] .MINUS_OP .MINUS_OP
      (by decide) (by decide) rfl
      (ParseUnary_gives 3 rfl) rfl (ParseUnary_gives 3 rfl) rfl (ParseUnary_gives 3 rfl) rfl
      (by intro k; simp [binaryOperators, tokenOf]),
    C36_equal_precedence_groups_left (parserAt quotientTimes)
      (parserAt (quotientTimes.drop 1)) (parserAt (quotientTimes.drop 3))
      (parserAt (quotientTimes.drop 5))
      (variableRef "a") (variableRef "b") (variableRef "c")
      (tokenOf .DivideOp none) (tokenOf .Asterisk none) (tokenOf .EndOfLine none)
      (quotientTimes.drop 2) (quotientTimes.drop 4) [] .DIVIDE_OP .MULTIPLY_OP
      (by decide) (by decide) rfl
      (ParseUnary_gives 3 rfl) rfl (ParseUnary_gives 3 rfl) rfl (ParseUnary_gives 3 rfl) rfl
      (by intro k; simp [binaryOperators, tokenOf])⟩
/-! ## Claim C38: a Scope restores the scope stack -/

/-- Claim C38: `ValidateScope` restores the scope stack exactly. Whenever `ValidateScope`
succeeds, on whatever expression and in whatever state, the state after it is the state
before it: the scope stack has the same depth and the same bindings in every scope, and
`FindVariable` finds after the Scope what it found before it, so that no declaration made
inside, at any depth, is visible afterwards. -/
theorem C38_ValidateScope_restores_scope_stack (self s : Validator) (kind : ExpressionKind)
    (type : Option Ty) (value : ExpressionValue) (e : Expression)
    (h : self.ValidateScope kind type value = .ok (s, e)) :
    s._scopes = self._scopes ∧ s = self ∧
      ∀ name, s.FindVariable name = self.FindVariable name := by
  have hs : s = self :=
    ValidateScope_restores self s kind type value e (fun c _ => all_Framed c) h
  subst hs
  exact ⟨rfl, rfl, fun _ => rfl⟩

/-- Claim C38 on the Scope with `var x: i64 = 1` and, one level deeper, `var y: i64 = x`,
validated below one scope that holds `z`: neither `x` nor `y` is found afterwards, `z`
is. -/
theorem C38_ValidateScope_restores_scope_stack_witness :
    ∃ s e, oneScope.ValidateScope .SCOPE none (.ExpressionChildren nestedDeclarations) =
        .ok (s, e) ∧
      s._scopes = oneScope._scopes ∧ s.FindVariable "x" = none ∧
      s.FindVariable "y" = none ∧ s.FindVariable "z" = some bool :=
  ⟨_, _, rfl,
    (C38_ValidateScope_restores_scope_stack oneScope _ .SCOPE none
      (.ExpressionChildren nestedDeclarations) _ rfl).1, rfl, rfl, rfl⟩
/-! ## Claim C32: keywords -/

theorem IsKeyword_of_mem (keyword : String × TokenType) (rest : List Char)
    (h : keyword ∈ Tokenizer._keywords) :
    Tokenizer.IsKeyword (keyword.1.toList ++ rest) = some keyword := by
  have hp : keyword.1.toList.isPrefixOf (keyword.1.toList ++ rest) = true :=
    List.isPrefixOf_iff_prefix.mpr (List.prefix_append _ _)
  unfold Tokenizer.IsKeyword
  cases hf : Tokenizer._keywords.find?
      (fun entry => entry.1.toList.isPrefixOf (keyword.1.toList ++ rest)) with
  | none =>
    have := List.find?_eq_none.mp hf keyword h
    simp [hp] at this
  | some found =>
    have hmem : found ∈ Tokenizer._keywords := List.mem_of_find?_eq_some hf
    have hfound := List.find?_some hf
    rw [keyword_unique _ found keyword hmem h hfound hp]

/-- Claim C32: keyword recognition is a raw prefix test that is tried first. Whenever the
line of a turn of `TokenizeLine` begins with one of the twelve keywords, whatever follows
it, `IsKeyword` finds that keyword, whatever the order of the map, and the turn pushes the
token of the keyword without lexeme and takes the characters of the keyword off the line
and no more. -/
theorem C32_keyword_is_prefix_test (file : String) (currentLine : Nat)
    (keyword : String × TokenType) (rest : List Char) (h : keyword ∈ Tokenizer._keywords) :
    Tokenizer.IsKeyword (keyword.1.toList ++ rest) = some keyword ∧
      Tokenizer.TokenizeLineStep file currentLine (keyword.1.toList ++ rest) =
        .ok (some { file := file, line := currentLine, type := keyword.2, value := none },
          rest) := by
  have hk := IsKeyword_of_mem keyword rest h
  refine ⟨hk, ?_⟩
  have hlen : keyword.1.length = keyword.1.toList.length := rfl
  unfold Tokenizer.TokenizeLineStep
  rw [hk]
  simp only [Tokenizer.SlurpKeyword, Tokenizer.Advance, hlen, List.drop_left]

/-- Claim C32 on the line `forward`: the tokens are `For`, the identifier `ward` and
`EndOfLine`, and `EndOfFile` for the end of the input; the keywords are the twelve of the
specification. -/
theorem C32_keyword_is_prefix_test_witness :
    Tokenizer._keywords.map (fun entry => entry.1) =
      ["function", "return", "var", "if", "else", "elif", "for", "continue", "break", "and",
       "or", "struct"] ∧
    Tokenizer.TokenizeLineStep "f" 1 ("for".toList ++ "ward".toList) =
      .ok (some { file := "f", line := 1, type := .For, value := none }, "ward".toList) ∧
    Tokenizer.Tokenize "forward" "f" =
      .ok [{ file := "f", line := 1, type := .For, value := none },
           { file := "f", line := 1, type := .Identifier, value := some "ward" },
           { file := "f", line := 1, type := .EndOfLine, value := none },
           { file := "f", line := 1, type := .EndOfFile, value := none }] :=
  ⟨rfl, (C32_keyword_is_prefix_test "f" 1 ("for", .For) "ward".toList (by decide)).2, by rfl⟩
/-! ## Claim C33: numeric literals -/

theorem takeWhile_append_head {p : Char → Bool} (ds rest : List Char)
    (hall : ∀ c ∈ ds, p c = true) (hstop : ∀ c, rest.head? = some c → p c = false) :
    (ds ++ rest).takeWhile p = ds := by
  cases rest with
  | nil => simpa using hall
  | cons x rest => exact takeWhile_append_stop ds x rest hall (hstop x rfl)

theorem TokenizeLineStep_numeric (file : String) (currentLine : Nat) (d : Char)
    (ds rest : List Char) (hall : ∀ c ∈ d :: ds, isdigit c = true)
    (hstop : ∀ c, rest.head? = some c → isdigit c = false) :
    Tokenizer.TokenizeLineStep file currentLine (d :: ds ++ rest) =
      .ok (if "u64".toList.isPrefixOf rest then
          (some { file := file, line := currentLine, type := .U64Literal,
                  value := some (String.mk (d :: ds)) }, rest.drop 3)
        else if "i64".toList.isPrefixOf rest then
          (some { file := file, line := currentLine, type := .I64Literal,
                  value := some (String.mk (d :: ds)) }, rest.drop 3)
        else
          (some { file := file, line := currentLine, type := .I64Literal,
                  value := some (String.mk (d :: ds)) }, rest)) := by
  have hd : isdigit d = true := hall d (List.mem_cons_self _ _)
  have hk : Tokenizer.IsKeyword (d :: (ds ++ rest)) = none := isdigit_not_keyword _ _ hd
  have h1 : d ≠ '#' := by intro hc; rw [hc] at hd; exact absurd hd (by decide)
  have h2 : d ≠ charQuote := by intro hc; rw [hc] at hd; exact absurd hd (by decide)
  have h3 : d ≠ charApostrophe := by intro hc; rw [hc] at hd; exact absurd hd (by decide)
  have htake : (d :: ds ++ rest).takeWhile isdigit = d :: ds :=
    takeWhile_append_head (d :: ds) rest hall hstop
  rw [List.cons_append]
  simp only [Tokenizer.TokenizeLineStep, hk, h1, h2, h3, if_false,
    isdigit_not_special d hd, Bool.false_eq_true, hd, if_true, Tokenizer.SlurpNumeric]
  rw [show d :: (ds ++ rest) = (d :: ds) ++ rest from rfl, htake]
  simp only [Tokenizer.Advance, List.take_left', List.drop_left']
  by_cases hu : "u64".toList.isPrefixOf rest = true
  · simp only [hu, if_true]
  · by_cases hi : "i64".toList.isPrefixOf rest = true
    · simp only [hu, hi, if_true, if_false, Bool.false_eq_true]
    · simp only [hu, hi, if_false, Bool.false_eq_true]

/-- Claim C33: a numeric literal is the longest run of decimal digits at the start of a
token with, directly behind it, the suffix `u64` or `i64` or none. For a run of digits that
is not empty and what follows it, which does not begin with a digit: behind the suffix `u64`
the token is the `U64Literal`, behind `i64` or without suffix the `I64Literal`; the lexeme
is the run of digits, and the line is left behind the suffix. -/
theorem C33_numeric_literal (file : String) (currentLine : Nat) (d : Char)
    (ds rest : List Char) (hall : ∀ c ∈ d :: ds, isdigit c = true)
    (hstop : ∀ c, rest.head? = some c → isdigit c = false) :
    (∀ tail, rest = "u64".toList ++ tail →
      Tokenizer.TokenizeLineStep file currentLine (d :: ds ++ rest) =
        .ok (some { file := file, line := currentLine, type := .U64Literal,
                    value := some (String.mk (d :: ds)) }, tail)) ∧
    (∀ tail, rest = "i64".toList ++ tail →
      Tokenizer.TokenizeLineStep file currentLine (d :: ds ++ rest) =
        .ok (some { file := file, line := currentLine, type := .I64Literal,
                    value := some (String.mk (d :: ds)) }, tail)) ∧
    (¬ "u64".toList <+: rest → ¬ "i64".toList <+: rest →
      Tokenizer.TokenizeLineStep file currentLine (d :: ds ++ rest) =
        .ok (some { file := file, line := currentLine, type := .I64Literal,
                    value := some (String.mk (d :: ds)) }, rest)) := by
  have h := TokenizeLineStep_numeric file currentLine d ds rest hall hstop
  refine ⟨?_, ?_, ?_⟩
  · intro tail ht
    subst ht
    rw [h]
    simp [String.toList, List.isPrefixOf]
  · intro tail ht
    subst ht
    rw [h]
    simp [String.toList, List.isPrefixOf]
  · intro hu hi
    rw [h, if_neg (by rwa [List.isPrefixOf_iff_prefix]),
      if_neg (by rwa [List.isPrefixOf_iff_prefix])]

/-- Claim C33 on `42u64)`, `42i64)`, `42)` and on `42u6`, where `u6` is no suffix. -/
theorem C33_numeric_literal_witness :
    Tokenizer.TokenizeLineStep "f" 1 ("42u64)".toList) =
      .ok (some { file := "f", line := 1, type := .U64Literal, value := some "42" }, [')']) ∧
    Tokenizer.TokenizeLineStep "f" 1 ("42i64)".toList) =
      .ok (some { file := "f", line := 1, type := .I64Literal, value := some "42" }, [')']) ∧
    Tokenizer.TokenizeLineStep "f" 1 ("42)".toList) =
      .ok (some { file := "f", line := 1, type := .I64Literal, value := some "42" }, [')']) ∧
    Tokenizer.TokenizeLineStep "f" 1 ("42u6".toList) =
      .ok (some { file := "f", line := 1, type := .I64Literal, value := some "42" },
        ['u', '6']) :=
  ⟨(C33_numeric_literal "f" 1 '4' ['2'] "u64)".toList (by decide) (by decide)).1 [')'] rfl,
    (C33_numeric_literal "f" 1 '4' ['2'] "i64)".toList (by decide) (by decide)).2.1 [')'] rfl,
    (C33_numeric_literal "f" 1 '4' ['2'] [')'] (by decide) (by decide)).2.2
      (by decide) (by decide),
    (C33_numeric_literal "f" 1 '4' ['2'] ['u', '6'] (by decide) (by decide)).2.2
      (by decide) (by decide)⟩
/-! ## Claim C34: string literals -/

theorem escaped_eq_meaning (c : Char) : Tokenizer.escaped c = (StringItem.escape c).meaning := by
  unfold Tokenizer.escaped StringItem.meaning
  by_cases h1 : c = 'r'
  · simp [h1]
  · by_cases h2 : c = 'n'
    · simp [h2]
    · by_cases h3 : c = charQuote
      · simp [h3]
      · simp [h1, h2, h3]

theorem SlurpStringLiteralLoop_plain (c x : Char) (xs literal : List Char)
    (h : (StringItem.plain c).wellFormed) :
    Tokenizer.SlurpStringLiteralLoop (c :: x :: xs) literal =
      Tokenizer.SlurpStringLiteralLoop (x :: xs) (literal ++ [c]) := by
  rw [Tokenizer.SlurpStringLiteralLoop, if_neg h.1, if_neg h.2]

theorem SlurpStringLiteralLoop_escape (c : Char) (tail literal : List Char) :
    Tokenizer.SlurpStringLiteralLoop (charBackslash :: c :: tail) literal =
      Tokenizer.SlurpStringLiteralLoop tail (literal ++ [(StringItem.escape c).meaning]) := by
  have h : charBackslash ≠ charQuote := by decide
  rw [Tokenizer.SlurpStringLiteralLoop, if_neg h, if_pos rfl, escaped_eq_meaning]

theorem SlurpStringLiteralLoop_closed (rest : List Char) :
    ∀ (items : List StringItem) (literal : List Char),
      (∀ item ∈ items, item.wellFormed) →
      Tokenizer.SlurpStringLiteralLoop
          (items.flatMap StringItem.source ++ charQuote :: rest) literal =
        (true, literal ++ items.map StringItem.meaning, rest) := by
  intro items
  induction items with
  | nil =>
    intro literal _
    cases rest with
    | nil => simp [Tokenizer.SlurpStringLiteralLoop]
    | cons x xs => simp [Tokenizer.SlurpStringLiteralLoop]
  | cons item items ih =>
    intro literal hwf
    have hrest := ih (literal ++ [item.meaning])
      (fun i hi => hwf i (List.mem_cons_of_mem _ hi))
    have hitem := hwf item (List.mem_cons_self _ _)
    rw [List.flatMap_cons, List.map_cons]
    cases item with
    | plain c =>
      obtain ⟨x, xs, hx⟩ : ∃ x xs,
          items.flatMap StringItem.source ++ charQuote :: rest = x :: xs := by
        cases items.flatMap StringItem.source with
        | nil => exact ⟨_, _, rfl⟩
        | cons y ys => exact ⟨_, _, rfl⟩
      have hm : (StringItem.plain c).meaning = c := rfl
      rw [hm] at hrest
      rw [show (StringItem.plain c).source = [c] from rfl, List.append_assoc,
        List.singleton_append, hx, SlurpStringLiteralLoop_plain c x xs literal hitem, ← hx,
        hrest, hm]
      simp
    | escape c =>
      rw [show (StringItem.escape c).source = [charBackslash, c] from rfl]
      simp only [List.cons_append, List.nil_append]
      rw [SlurpStringLiteralLoop_escape, hrest]
      simp

theorem SlurpStringLiteralLoop_open (tail : List Char) (htail : tail = [] ∨ tail = [charBackslash]) :
    ∀ (items : List StringItem) (literal : List Char),
      (∀ item ∈ items, item.wellFormed) →
      Tokenizer.SlurpStringLiteralLoop (items.flatMap StringItem.source ++ tail) literal =
        (false, literal ++ items.map StringItem.meaning, []) := by
  intro items
  induction items with
  | nil =>
    intro literal _
    rcases htail with rfl | rfl
    · simp [Tokenizer.SlurpStringLiteralLoop]
    · have h : charBackslash ≠ charQuote := by decide
      simp [Tokenizer.SlurpStringLiteralLoop, h]
  | cons item items ih =>
    intro literal hwf
    have hrest := ih (literal ++ [item.meaning])
      (fun i hi => hwf i (List.mem_cons_of_mem _ hi))
    have hitem := hwf item (List.mem_cons_self _ _)
    rw [List.flatMap_cons, List.map_cons]
    cases item with
    | plain c =>
      have hm : (StringItem.plain c).meaning = c := rfl
      rw [hm] at hrest
      rw [show (StringItem.plain c).source = [c] from rfl, List.append_assoc,
        List.singleton_append, hm]
      cases hx : items.flatMap StringItem.source ++ tail with
      | nil =>
        have hnil : items = [] := by
          cases items with
          | nil => rfl
          | cons i is =>
            exfalso
            rw [List.flatMap_cons] at hx
            cases i <;> simp [StringItem.source] at hx
        subst hnil
        rw [Tokenizer.SlurpStringLiteralLoop, if_neg hitem.1, if_neg hitem.2]
        simp
      | cons x xs =>
        rw [SlurpStringLiteralLoop_plain c x xs literal hitem, ← hx, hrest]
        simp
    | escape c =>
      rw [show (StringItem.escape c).source = [charBackslash, c] from rfl]
      simp only [List.cons_append, List.nil_append]
      rw [SlurpStringLiteralLoop_escape, hrest]
      simp

theorem TokenizeLineStep_quote (file : String) (currentLine : Nat) (line : List Char) :
    Tokenizer.TokenizeLineStep file currentLine (charQuote :: line) = (do
      let (token, line) ← Tokenizer.SlurpStringLiteral file currentLine (charQuote :: line)
      return (some token, line)) := by
  have hk : Tokenizer.IsKeyword (charQuote :: line) = none :=
    IsKeyword_of_not_initial _ _ (by decide)
  have h1 : charQuote ≠ '#' := by decide
  simp only [Tokenizer.TokenizeLineStep, hk, h1, if_false, if_true]

/-- Every text is a row of well-formed items that is followed by the closing double quote
and what comes after it, or by the end of the line, or by a backslash and the end of the
line. -/
theorem stringItems_cover : ∀ (n : Nat) (line : List Char), line.length ≤ n →
    ∃ items : List StringItem, (∀ item ∈ items, item.wellFormed) ∧
      ((∃ rest, line = items.flatMap StringItem.source ++ charQuote :: rest) ∨
        line = items.flatMap StringItem.source ∨
        line = items.flatMap StringItem.source ++ [charBackslash]) := by
  intro n
  induction n with
  | zero =>
    intro line h
    have hl : line = [] := List.length_eq_zero.mp (Nat.le_zero.mp h)
    exact ⟨[], by simp, Or.inr (Or.inl (by simp [hl]))⟩
  | succ n ih =>
    intro line h
    cases line with
    | nil => exact ⟨[], by simp, Or.inr (Or.inl (by simp))⟩
    | cons c tail =>
      by_cases hq : c = charQuote
      · exact ⟨[], by simp, Or.inl ⟨tail, by simp [hq]⟩⟩
      · by_cases hb : c = charBackslash
        · cases tail with
          | nil => exact ⟨[], by simp, Or.inr (Or.inr (by simp [hb]))⟩
          | cons x tail =>
            obtain ⟨items, hwf, hitems⟩ := ih tail (by simp only [List.length_cons] at h; omega)
            refine ⟨.escape x :: items, ?_, ?_⟩
            · intro item hi
              rcases List.mem_cons.mp hi with rfl | hi
              · exact trivial
              · exact hwf item hi
            · rcases hitems with ⟨rest, hr⟩ | hr | hr
              · exact Or.inl ⟨rest, by simp [StringItem.source, hb, hr]⟩
              · exact Or.inr (Or.inl (by simp [StringItem.source, hb, ← hr]))
              · exact Or.inr (Or.inr (by simp [StringItem.source, hb, hr]))
        · obtain ⟨items, hwf, hitems⟩ := ih tail (by simp only [List.length_cons] at h; omega)
          refine ⟨.plain c :: items, ?_, ?_⟩
          · intro item hi
            rcases List.mem_cons.mp hi with rfl | hi
            · exact ⟨hq, hb⟩
            · exact hwf item hi
          · rcases hitems with ⟨rest, hr⟩ | hr | hr
            · exact Or.inl ⟨rest, by simp [StringItem.source, hr]⟩
            · exact Or.inr (Or.inl (by simp [StringItem.source, ← hr]))
            · exact Or.inr (Or.inr (by simp [StringItem.source, hr]))

/-- Claim C34: string literals. For every row of items between the quotes (a character by
itself that is neither the double quote nor the backslash, or a backslash with the
character after it): when the closing double quote follows, the turn of `TokenizeLine`
pushes one `StringLiteral` whose lexeme holds the characters the items stand for, and leaves
the line behind the closing quote; when the line ends instead, or ends with one more
backslash, the tokenizer throws `file:line Uncapped string`. -/
theorem C34_string_literal (file : String) (currentLine : Nat) (items : List StringItem)
    (hwf : ∀ item ∈ items, item.wellFormed) :
    (∀ rest, Tokenizer.TokenizeLineStep file currentLine
        (charQuote :: (items.flatMap StringItem.source ++ charQuote :: rest)) =
      .ok (some { file := file, line := currentLine, type := .StringLiteral,
                  value := some (String.mk (items.map StringItem.meaning)) }, rest)) ∧
    Tokenizer.TokenizeLineStep file currentLine
        (charQuote :: items.flatMap StringItem.source) =
      .error (.invalid_argument (file ++ ":" ++ toString currentLine ++ " Uncapped string")) ∧
    Tokenizer.TokenizeLineStep file currentLine
        (charQuote :: (items.flatMap StringItem.source ++ [charBackslash])) =
      .error (.invalid_argument (file ++ ":" ++ toString currentLine ++ " Uncapped string")) := by
  refine ⟨fun rest => ?_, ?_, ?_⟩
  · rw [TokenizeLineStep_quote]
    simp only [Tokenizer.SlurpStringLiteral, Tokenizer.Advance, List.drop_succ_cons,
      List.drop_zero, SlurpStringLiteralLoop_closed rest items [] hwf]
    rfl
  · rw [TokenizeLineStep_quote]
    have h := SlurpStringLiteralLoop_open [] (Or.inl rfl) items [] hwf
    rw [List.append_nil] at h
    simp only [Tokenizer.SlurpStringLiteral, Tokenizer.Advance, List.drop_succ_cons,
      List.drop_zero, h]
    rfl
  · rw [TokenizeLineStep_quote]
    simp only [Tokenizer.SlurpStringLiteral, Tokenizer.Advance, List.drop_succ_cons,
      List.drop_zero, SlurpStringLiteralLoop_open [charBackslash] (Or.inr rfl) items [] hwf]
    rfl

/-- Claim C34 on the literal with the text `a`, backslash `n`, backslash double quote, `b`,
whose lexeme is `a`, line feed, double quote, `b`, and on the same text without the closing
quote. -/
theorem C34_string_literal_witness :
    (∀ item ∈ sampleItems, item.wellFormed) ∧
    Tokenizer.TokenizeLineStep "f" 7
        (charQuote :: ['a', charBackslash, 'n', charBackslash, charQuote, 'b', charQuote,
          ')']) =
      .ok (some { file := "f", line := 7, type := .StringLiteral,
                  value := some (String.mk ['a', charNewline, charQuote, 'b']) }, [')']) ∧
    Tokenizer.TokenizeLineStep "f" 7
        (charQuote :: ['a', charBackslash, 'n', charBackslash, charQuote, 'b']) =
      .error (.invalid_argument "f:7 Uncapped string") :=
  have hwf : ∀ item ∈ sampleItems, item.wellFormed := by
    intro item hi
    simp only [sampleItems, List.mem_cons, List.mem_singleton, List.not_mem_nil,
      or_false] at hi
    rcases hi with rfl | rfl | rfl | rfl
    · exact ⟨by decide, by decide⟩
    · exact trivial
    · exact trivial
    · exact ⟨by decide, by decide⟩
  ⟨hwf, (C34_string_literal "f" 7 sampleItems hwf).1 [')'],
    (C34_string_literal "f" 7 sampleItems hwf).2.1⟩
/-! ## Claim C37: the indentation tokens are balanced -/

theorem Content_ite (condition : Prop) [Decidable condition]
    (a b : Except Exception (Token × List Char)) (ha : Content a) (hb : Content b) :
    Content (if condition then a else b) := by
  split
  · exact ha
  · exact hb

theorem Content_error (e : Exception) : Content (.error e) := by
  constructor
  intro token rest h
  cases h

theorem Content_ok (token : Token) (line : List Char) (h : token.type.isLayout = false) :
    Content (.ok (token, line)) := by
  constructor
  intro token' rest he
  injection he with he
  injection he with he _
  rw [← he]
  exact h

theorem SlurpSpecial_content (file : String) (currentLine : Nat) (line : List Char) :
    Content (Tokenizer.SlurpSpecial file currentLine line) := by
  unfold Tokenizer.SlurpSpecial
  cases line with
  | nil => exact Content_error _
  | cons c tail =>
    simp only
    repeat (first
      | apply Content_ite
      | exact Content_ok _ _ rfl
      | exact Content_error _)

theorem SlurpStringLiteral_content (file : String) (currentLine : Nat) (line : List Char) :
    Content (Tokenizer.SlurpStringLiteral file currentLine line) := by
  unfold Tokenizer.SlurpStringLiteral
  simp only
  split
  · exact Content_error _
  · exact Content_ok _ _ rfl

theorem SlurpCharacterLiteral_content (file : String) (currentLine : Nat) (line : List Char) :
    Content (Tokenizer.SlurpCharacterLiteral file currentLine line) := by
  constructor
  intro token rest h
  unfold Tokenizer.SlurpCharacterLiteral at h
  simp only [bind_eq_ok] at h
  obtain ⟨first, -, h⟩ := h
  split at h
  · simp only [bind_eq_ok, pure_eq_ok, Prod.mk.injEq] at h
    obtain ⟨_, -, rfl, -⟩ := h
    rfl
  · simp only [pure_eq_ok, Prod.mk.injEq] at h
    obtain ⟨rfl, -⟩ := h
    rfl

theorem keyword_content (keyword : String × TokenType) (h : keyword ∈ Tokenizer._keywords) :
    keyword.2.isLayout = false := by
  have hall : ∀ k ∈ Tokenizer._keywords, k.2.isLayout = false := by decide
  exact hall keyword h

theorem TokenizeLineStep_content (file : String) (currentLine : Nat) (line rest : List Char)
    (token : Token)
    (h : Tokenizer.TokenizeLineStep file currentLine line = .ok (some token, rest)) :
    token.type.isLayout = false := by
  unfold Tokenizer.TokenizeLineStep at h
  split at h
  · rename_i keyword hk
    have hmem : keyword ∈ Tokenizer._keywords := List.mem_of_find?_eq_some hk
    simp only [Except.ok.injEq, Prod.mk.injEq, Option.some.injEq] at h
    rw [← h.1]
    exact keyword_content keyword hmem
  · split at h
    · cases h
    · simp only at h
      split_ifs at h with h1 h2 h3 h4 h5 h6 h7
      · simp only [Except.ok.injEq, Prod.mk.injEq] at h
        exact absurd h.1 (by simp)
      · simp only [bind_eq_ok, pure_eq_ok, Prod.mk.injEq, Prod.exists, Option.some.injEq] at h
        obtain ⟨tok, line', hs, rfl, -⟩ := h
        exact (SlurpStringLiteral_content _ _ _).out _ _ hs
      · simp only [bind_eq_ok, pure_eq_ok, Prod.mk.injEq, Prod.exists, Option.some.injEq] at h
        obtain ⟨tok, line', hs, rfl, -⟩ := h
        exact (SlurpCharacterLiteral_content _ _ _).out _ _ hs
      · simp only [bind_eq_ok, pure_eq_ok, Prod.mk.injEq, Prod.exists, Option.some.injEq] at h
        obtain ⟨tok, line', hs, rfl, -⟩ := h
        exact (SlurpSpecial_content _ _ _).out _ _ hs
      · simp only [Except.ok.injEq, Prod.mk.injEq, Option.some.injEq] at h
        rw [← h.1]
        unfold Tokenizer.SlurpNumeric
        simp only
        split_ifs <;> rfl
      · simp only [Except.ok.injEq, Prod.mk.injEq, Option.some.injEq] at h
        rw [← h.1]
        rfl
      · simp only [Except.ok.injEq, Prod.mk.injEq] at h
        exact absurd h.1 (by simp)

theorem TokenizeLineLoop_content (file : String) (currentLine : Nat) :
    ∀ (fuel : Nat) (line : List Char) (tokens : List Token),
      Tokenizer.TokenizeLineLoop file currentLine fuel line = some (.ok tokens) →
      ∀ token ∈ tokens, token.type.isLayout = false := by
  intro fuel
  induction fuel with
  | zero =>
    intro line tokens h
    cases line with
    | nil =>
      rw [Tokenizer.TokenizeLineLoop] at h
      cases h
      intro token ht
      cases ht
    | cons c tail =>
      rw [Tokenizer.TokenizeLineLoop] at h
      cases h
  | succ fuel ih =>
    intro line tokens h
    cases line with
    | nil =>
      rw [Tokenizer.TokenizeLineLoop] at h
      cases h
      intro token ht
      cases ht
    | cons c tail =>
      rw [Tokenizer.TokenizeLineLoop] at h
      · cases hstep : Tokenizer.TokenizeLineStep file currentLine (c :: tail) with
        | error e =>
          rw [hstep] at h
          cases h
        | ok result =>
          obtain ⟨first, rest⟩ := result
          rw [hstep] at h
          simp only at h
          cases hloop : Tokenizer.TokenizeLineLoop file currentLine fuel rest with
          | none => rw [hloop] at h; cases h
          | some r =>
            cases r with
            | error e => rw [hloop] at h; cases h
            | ok others =>
              rw [hloop] at h
              simp only [Option.some.injEq, Except.ok.injEq] at h
              intro token ht
              rw [← h] at ht
              rcases List.mem_append.mp ht with hf | ho
              · cases first with
                | none => cases hf
                | some t =>
                  simp only [Option.toList, List.mem_singleton] at hf
                  rw [hf]
                  exact TokenizeLineStep_content file currentLine _ rest t hstep
              · exact ih rest others hloop token ho
      · intro hnil
        cases hnil

theorem TokenizeLine_content (file : String) (currentLine : Nat) (line : List Char)
    (tokens : List Token) (h : Tokenizer.TokenizeLine file currentLine line = .ok tokens) :
    ∀ token ∈ tokens, token.type.isLayout = false := by
  have heq := TokenizeLine_eq file currentLine line
  rw [h] at heq
  exact TokenizeLineLoop_content file currentLine _ line tokens heq.symm

theorem levelAfter_append (a b : List Token) :
    ∀ level, levelAfter level (a ++ b) = (levelAfter level a).bind (fun l => levelAfter l b) := by
  induction a with
  | nil => intro level; rfl
  | cons token a ih =>
    intro level
    simp only [List.cons_append, levelAfter]
    split_ifs
    · exact ih _
    · rfl
    · exact ih _
    · exact ih _

theorem levelAfter_content (tokens : List Token)
    (h : ∀ token ∈ tokens, token.type.isLayout = false) :
    ∀ level, levelAfter level tokens = some level := by
  induction tokens with
  | nil => intro level; rfl
  | cons token tokens ih =>
    intro level
    have ht := h token (List.mem_cons_self _ _)
    have h1 : token.type ≠ .IndentPlus := by
      intro he; rw [he] at ht; cases ht
    have h2 : token.type ≠ .IndentMinus := by
      intro he; rw [he] at ht; cases ht
    rw [levelAfter, if_neg h1, if_neg h2]
    exact ih (fun t hm => h t (List.mem_cons_of_mem _ hm)) level

theorem levelAfter_plus (token : Token) (h : token.type = .IndentPlus) :
    ∀ (count level : Nat),
      levelAfter level (List.replicate count token) = some (level + count) := by
  intro count
  induction count with
  | zero => intro level; rfl
  | succ count ih =>
    intro level
    rw [List.replicate_succ, levelAfter, if_pos h, ih]
    congr 1
    omega

theorem levelAfter_minus (token : Token) (h : token.type = .IndentMinus) :
    ∀ (count level : Nat),
      levelAfter (level + count) (List.replicate count token) = some level := by
  intro count
  induction count with
  | zero => intro level; rfl
  | succ count ih =>
    intro level
    have h1 : token.type ≠ .IndentPlus := by rw [h]; decide
    rw [List.replicate_succ, levelAfter, if_neg h1, if_pos h, if_neg (by omega)]
    exact ih level

theorem levelAfter_indentationTokens (file : String) (currentLine previous level : Nat) :
    levelAfter previous (indentationTokens file currentLine previous level) = some level := by
  unfold indentationTokens
  split
  · rename_i h
    rw [levelAfter_plus _ rfl]
    congr 1
    omega
  · rename_i h
    have hp : previous = level + (previous - level) := by omega
    rw [show levelAfter previous = levelAfter (level + (previous - level)) from by rw [← hp]]
    exact levelAfter_minus _ rfl _ _

theorem TokenizeLoop_levelAfter (file : String) (lines : List (List Char)) :
    ∀ (currentLine indentation : Nat) (tokens : List Token),
      Tokenizer.TokenizeLoop file lines currentLine indentation = .ok tokens →
      levelAfter indentation tokens = some 0 ∧
      ∃ front last, tokens = front ++ [last] ∧ last.type = .EndOfFile ∧
        ∀ token ∈ front, token.type ≠ .EndOfFile := by
  induction lines with
  | nil =>
    intro currentLine indentation tokens h
    rw [Tokenizer.TokenizeLoop] at h
    cases h
    refine ⟨?_, _, _, rfl, rfl, ?_⟩
    · rw [levelAfter_append]
      have := levelAfter_minus
        ({ file := file, line := currentLine, type := .IndentMinus, value := none } : Token)
        rfl indentation 0
      rw [Nat.zero_add] at this
      rw [this]
      rfl
    · intro token ht
      rw [List.eq_of_mem_replicate ht]
      simp
  | cons line rest ih =>
    intro currentLine indentation tokens h
    rw [Tokenizer.TokenizeLoop] at h
    dsimp only at h
    split at h
    · exact ih _ _ _ h
    · cases hcount : Tokenizer.CountTabs line with
      | error e => rw [hcount] at h; cases h
      | ok counted =>
        obtain ⟨lineIndentation, content⟩ := counted
        rw [hcount] at h
        simp only [bind_ok] at h
        cases hline : Tokenizer.TokenizeLine file (currentLine + 1) content with
        | error e => rw [hline] at h; cases h
        | ok lineTokens =>
          rw [hline] at h
          simp only [bind_ok] at h
          cases hloop : Tokenizer.TokenizeLoop file rest (currentLine + 1) lineIndentation with
          | error e => rw [hloop] at h; cases h
          | ok tail =>
            rw [hloop] at h
            cases h
            obtain ⟨hlevel, front, last, htail, hlast, hfront⟩ := ih _ _ _ hloop
            have hcontent := TokenizeLine_content file (currentLine + 1) content lineTokens hline
            rw [indentationTokens_eq]
            refine ⟨?_, ?_⟩
            · have heol : levelAfter lineIndentation
                  [({ file := file, line := currentLine + 1, type := .EndOfLine,
                      value := none } : Token)] = some lineIndentation := rfl
              simp only [levelAfter_append, levelAfter_indentationTokens, Option.some_bind,
                levelAfter_content lineTokens hcontent, heol]
              exact hlevel
            · refine ⟨indentationTokens file (currentLine + 1) indentation lineIndentation ++
                lineTokens ++
                [{ file := file, line := currentLine + 1, type := .EndOfLine, value := none }] ++
                front, last, ?_, hlast, ?_⟩
              · rw [htail]
                simp only [List.append_assoc]
              · intro token ht
                simp only [List.mem_append, List.mem_singleton] at ht
                rcases ht with ((hi | hl) | he) | hf
                · unfold indentationTokens at hi
                  split at hi
                  · rw [List.eq_of_mem_replicate hi]
                    simp
                  · rw [List.eq_of_mem_replicate hi]
                    simp
                · intro he
                  have := hcontent token hl
                  rw [he] at this
                  cases this
                · rw [he]
                  simp
                · exact hfront token hf

theorem levelAfter_counts (tokens : List Token) :
    ∀ (level after : Nat), levelAfter level tokens = some after →
      countType .IndentPlus tokens + level = countType .IndentMinus tokens + after ∧
      ∀ count, countType .IndentMinus (tokens.take count) ≤
        countType .IndentPlus (tokens.take count) + level := by
  induction tokens with
  | nil =>
    intro level after h
    rw [levelAfter] at h
    cases h
    exact ⟨rfl, fun count => by simp [countType]⟩
  | cons token tokens ih =>
    intro level after h
    rw [levelAfter] at h
    by_cases h1 : token.type = .IndentPlus
    · have h2 : token.type ≠ .IndentMinus := by rw [h1]; decide
      rw [if_pos h1] at h
      obtain ⟨hsum, hprefix⟩ := ih _ _ h
      have cp : countType .IndentPlus (token :: tokens) = countType .IndentPlus tokens + 1 := by
        simp [countType, List.countP_cons, h1]
      have cm : countType .IndentMinus (token :: tokens) = countType .IndentMinus tokens := by
        simp [countType, List.countP_cons, h2]
      refine ⟨by omega, fun count => ?_⟩
      cases count with
      | zero => simp [countType]
      | succ count =>
        have := hprefix count
        have cp' : countType .IndentPlus (token :: tokens.take count) =
            countType .IndentPlus (tokens.take count) + 1 := by
          simp [countType, List.countP_cons, h1]
        have cm' : countType .IndentMinus (token :: tokens.take count) =
            countType .IndentMinus (tokens.take count) := by
          simp [countType, List.countP_cons, h2]
        rw [List.take_succ_cons, cp', cm']
        omega
    · rw [if_neg h1] at h
      have cp : countType .IndentPlus (token :: tokens) = countType .IndentPlus tokens := by
        simp [countType, List.countP_cons, h1]
      by_cases h2 : token.type = .IndentMinus
      · rw [if_pos h2] at h
        by_cases h0 : level = 0
        · rw [if_pos h0] at h
          cases h
        · rw [if_neg h0] at h
          obtain ⟨hsum, hprefix⟩ := ih _ _ h
          have cm : countType .IndentMinus (token :: tokens) =
              countType .IndentMinus tokens + 1 := by
            simp [countType, List.countP_cons, h2]
          refine ⟨by omega, fun count => ?_⟩
          cases count with
          | zero => simp [countType]
          | succ count =>
            have := hprefix count
            have cp' : countType .IndentPlus (token :: tokens.take count) =
                countType .IndentPlus (tokens.take count) := by
              simp [countType, List.countP_cons, h1]
            have cm' : countType .IndentMinus (token :: tokens.take count) =
                countType .IndentMinus (tokens.take count) + 1 := by
              simp [countType, List.countP_cons, h2]
            rw [List.take_succ_cons, cp', cm']
            omega
      · rw [if_neg h2] at h
        obtain ⟨hsum, hprefix⟩ := ih _ _ h
        have cm : countType .IndentMinus (token :: tokens) = countType .IndentMinus tokens := by
          simp [countType, List.countP_cons, h2]
        refine ⟨by omega, fun count => ?_⟩
        cases count with
        | zero => simp [countType]
        | succ count =>
          have := hprefix count
          have cp' : countType .IndentPlus (token :: tokens.take count) =
              countType .IndentPlus (tokens.take count) := by
            simp [countType, List.countP_cons, h1]
          have cm' : countType .IndentMinus (token :: tokens.take count) =
              countType .IndentMinus (tokens.take count) := by
            simp [countType, List.countP_cons, h2]
          rw [List.take_succ_cons, cp', cm']
          omega

/-- Claim C37: the indentation tokens are balanced. In the tokens of every input that
`Tokenize` accepts there is one `EndOfFile`, which is the last token, there are as many
`IndentPlus` as `IndentMinus`, and no beginning of the list has more `IndentMinus` than
`IndentPlus`. -/
theorem C37_indentation_balanced (input file : String) (tokens : List Token)
    (h : Tokenizer.Tokenize input file = .ok tokens) :
    countType .EndOfFile tokens = 1 ∧
    (∃ last, tokens.getLast? = some last ∧ last.type = .EndOfFile) ∧
    countType .IndentPlus tokens = countType .IndentMinus tokens ∧
    ∀ count, countType .IndentMinus (tokens.take count) ≤
      countType .IndentPlus (tokens.take count) := by
  obtain ⟨hlevel, front, last, htokens, hlast, hfront⟩ :=
    TokenizeLoop_levelAfter file (getlines input.toList) 0 0 tokens h
  obtain ⟨hsum, hprefix⟩ := levelAfter_counts tokens 0 0 hlevel
  refine ⟨?_, ⟨last, ?_, hlast⟩, by omega, fun count => by have := hprefix count; omega⟩
  · rw [htokens, countType, List.countP_append]
    have hzero : List.countP (fun token => decide (token.type = TokenType.EndOfFile)) front = 0 := by
      rw [List.countP_eq_zero]
      intro token ht
      simpa using hfront token ht
    rw [hzero]
    simp [List.countP_cons, hlast]
  · rw [htokens]
    simp

/-- Claim C37 on the four lines `a`, two tabs `b`, one tab `c`, two tabs `d`: the levels are
0, 2, 1, 2, and the tokens hold three `IndentPlus` and three `IndentMinus`. -/
theorem C37_indentation_balanced_witness :
    ∃ tokens, Tokenizer.Tokenize stairs "f" = .ok tokens ∧
      tokens.map (fun token => token.type) =
        [.Identifier, .EndOfLine, .IndentPlus, .IndentPlus, .Identifier, .EndOfLine,
         .IndentMinus, .Identifier, .EndOfLine, .IndentPlus, .Identifier, .EndOfLine,
         .IndentMinus, .IndentMinus, .EndOfFile] ∧
      countType .EndOfFile tokens = 1 ∧
      (∃ last, tokens.getLast? = some last ∧ last.type = .EndOfFile) ∧
      countType .IndentPlus tokens = countType .IndentMinus tokens ∧
      ∀ count, countType .IndentMinus (tokens.take count) ≤
        countType .IndentPlus (tokens.take count) :=
  ⟨_, rfl, rfl, C37_indentation_balanced stairs "f" _ rfl⟩
/-! ## Claim C31: a comment in the middle of a line -/

theorem isalpha_not_digit (c : Char) (h : isalpha c = true) : isdigit c = false := by
  cases hd : isdigit c with
  | false => rfl
  | true =>
    exfalso
    simp only [isalpha, isdigit, Char.isAlpha, Char.isDigit, Char.isUpper, Char.isLower,
      Bool.or_eq_true, Bool.and_eq_true, decide_eq_true_eq, UInt32.le_def, BitVec.le_def] at h hd
    have e1 : (UInt32.toBitVec 48).toNat = 48 := rfl
    have e2 : (UInt32.toBitVec 57).toNat = 57 := rfl
    have e3 : (UInt32.toBitVec 65).toNat = 65 := rfl
    have e4 : (UInt32.toBitVec 90).toNat = 90 := rfl
    have e5 : (UInt32.toBitVec 97).toNat = 97 := rfl
    have e6 : (UInt32.toBitVec 122).toNat = 122 := rfl
    rw [e3, e4, e5, e6] at h
    rw [e1, e2] at hd
    omega

theorem TokenizeLineLoop_comment (file : String) (currentLine fuel : Nat)
    (comment : List Char) :
    Tokenizer.TokenizeLineLoop file currentLine (fuel + 1) ('#' :: comment) = some (.ok []) := by
  have hstep : Tokenizer.TokenizeLineStep file currentLine ('#' :: comment) =
      .ok (none, []) := by
    rw [Tokenizer.TokenizeLineStep, IsKeyword_of_not_initial '#' comment (by decide)]
    simp [Tokenizer.Advance]
  rw [TokenizeLineLoop_step file currentLine fuel '#' comment [] none hstep]
  have hnil : Tokenizer.TokenizeLineLoop file currentLine fuel [] = some (.ok []) := by
    cases fuel <;> rfl
  rw [hnil]
  rfl

theorem TokenizeLine_before_comment (file : String) (currentLine : Nat)
    (line comment : List Char) (token : Option Token)
    (h : Tokenizer.TokenizeLineStep file currentLine line = .ok (token, '#' :: comment)) :
    Tokenizer.TokenizeLine file currentLine line = .ok token.toList := by
  cases line with
  | nil =>
    rw [Tokenizer.TokenizeLineStep] at h
    simp [Tokenizer.IsKeyword, Tokenizer._keywords, List.find?, List.isPrefixOf,
      String.toList] at h
  | cons c tail =>
    have hshort := TokenizeLineStep_shorter file currentLine c tail _ _ h
    simp only [List.length_cons] at hshort
    obtain ⟨fuel, hfuel⟩ : ∃ fuel, tail.length = fuel + 1 := ⟨tail.length - 1, by omega⟩
    have heq := TokenizeLine_eq file currentLine (c :: tail)
    rw [List.length_cons, TokenizeLineLoop_step file currentLine tail.length c tail _ _ h, hfuel,
      TokenizeLineLoop_comment] at heq
    simp only [List.append_nil] at heq
    exact Option.some.inj heq

theorem TokenizeLine_identifier_with_comment (file : String) (currentLine : Nat) (c : Char)
    (name comment : List Char) (hc : isalpha c = true)
    (hk : Tokenizer.IsKeyword (c :: (name ++ '#' :: comment)) = none)
    (hall : ∀ x ∈ name ++ comment,
      Tokenizer.IsSpecialCharacter x = false ∧ isspace x = false) :
    Tokenizer.TokenizeLine file currentLine (c :: (name ++ '#' :: comment)) =
      .ok [{ file := file, line := currentLine, type := .Identifier,
             value := some (String.mk (c :: (name ++ '#' :: comment))) }] := by
  have h1 : c ≠ '#' := by intro he; rw [he] at hc; exact absurd hc (by decide)
  have h2 : c ≠ charQuote := by intro he; rw [he] at hc; exact absurd hc (by decide)
  have h3 : c ≠ charApostrophe := by intro he; rw [he] at hc; exact absurd hc (by decide)
  have hwhole : ∀ x ∈ c :: (name ++ '#' :: comment),
      (!(Tokenizer.IsSpecialCharacter x || isspace x)) = true := by
    intro x hx
    rcases List.mem_cons.mp hx with rfl | hx
    · simp [isalpha_not_special x hc, isalpha_not_space x hc]
    · rcases List.mem_append.mp hx with hn | hx
      · simp [(hall x (List.mem_append_left _ hn)).1, (hall x (List.mem_append_left _ hn)).2]
      · rcases List.mem_cons.mp hx with rfl | hx
        · decide
        · simp [(hall x (List.mem_append_right _ hx)).1,
            (hall x (List.mem_append_right _ hx)).2]
  have htake : (c :: (name ++ '#' :: comment)).takeWhile
      (fun x => !(Tokenizer.IsSpecialCharacter x || isspace x)) =
        c :: (name ++ '#' :: comment) :=
    List.takeWhile_eq_self_iff.mpr hwhole
  have hstep : Tokenizer.TokenizeLineStep file currentLine (c :: (name ++ '#' :: comment)) =
      .ok (some { file := file, line := currentLine, type := .Identifier,
                  value := some (String.mk (c :: (name ++ '#' :: comment))) }, []) := by
    simp only [Tokenizer.TokenizeLineStep, hk, h1, h2, h3, if_false,
      isalpha_not_special c hc, isalpha_not_digit c hc, Bool.false_eq_true, hc, if_true,
      Tokenizer.SlurpIdentifier, htake, Tokenizer.Advance, List.take_length, List.drop_length]
  have heq := TokenizeLine_eq file currentLine (c :: (name ++ '#' :: comment))
  rw [List.length_cons, TokenizeLineLoop_step file currentLine _ c _ _ _ hstep] at heq
  have hnil : ∀ fuel, Tokenizer.TokenizeLineLoop file currentLine fuel [] = some (.ok []) := by
    intro fuel
    cases fuel <;> rfl
  rw [hnil] at heq
  exact Option.some.inj heq

/-- Claim C31 fails on `x#c`: `SlurpIdentifier` reads on to the next white space or special
character, and `#` is neither, so the `#` and what follows it become part of the identifier;
`x = y# set` has the identifiers `y#` and `set`. A `#` cuts the line where a turn of
`TokenizeLine` begins with it: behind white space, a special character, a number or a
keyword. -/
theorem C31_identifier_takes_comment :
    (∀ (file : String) (currentLine : Nat) (comment : List Char),
      Tokenizer.TokenizeLine file currentLine ('#' :: comment) = .ok []) ∧
    (∀ (file : String) (currentLine : Nat) (line comment : List Char) (token : Option Token),
      Tokenizer.TokenizeLineStep file currentLine line = .ok (token, '#' :: comment) →
      Tokenizer.TokenizeLine file currentLine line = .ok token.toList) ∧
    (∀ (file : String) (currentLine : Nat) (c : Char) (name comment : List Char),
      isalpha c = true → Tokenizer.IsKeyword (c :: (name ++ '#' :: comment)) = none →
      (∀ x ∈ name ++ comment, Tokenizer.IsSpecialCharacter x = false ∧ isspace x = false) →
      Tokenizer.TokenizeLine file currentLine (c :: (name ++ '#' :: comment)) =
        .ok [{ file := file, line := currentLine, type := .Identifier,
               value := some (String.mk (c :: (name ++ '#' :: comment))) }]) ∧
    Tokenizer.TokenizeLine "f" 1 "x#c".toList =
      .ok [{ file := "f", line := 1, type := .Identifier, value := some "x#c" }] ∧
    Tokenizer.TokenizeLine "f" 1 "x".toList =
      .ok [{ file := "f", line := 1, type := .Identifier, value := some "x" }] ∧
    Tokenizer.TokenizeLine "f" 1 "x #c".toList =
      .ok [{ file := "f", line := 1, type := .Identifier, value := some "x" }] ∧
    Tokenizer.TokenizeLine "f" 1 "1#c".toList =
      .ok [{ file := "f", line := 1, type := .I64Literal, value := some "1" }] ∧
    Tokenizer.TokenizeLine "f" 1 "x = y# set".toList =
      .ok [{ file := "f", line := 1, type := .Identifier, value := some "x" },
           { file := "f", line := 1, type := .Assignment, value := none },
           { file := "f", line := 1, type := .Identifier, value := some "y#" },
           { file := "f", line := 1, type := .Identifier, value := some "set" }] :=
  ⟨TokenizeLine_comment, TokenizeLine_before_comment, TokenizeLine_identifier_with_comment,
    by rfl, by rfl, by rfl, by rfl, by rfl⟩
/-! ## Claim C39: what validation changes -/

theorem annotates_mk (kind : ExpressionKind) (type type' : Option Ty)
    (children children' : List Expression)
    (h : Expression.annotatesList children children' = true) :
    Expression.annotates (.mk kind type (.ExpressionChildren children))
      (.mk kind type' (.ExpressionChildren children')) = true := by
  rw [Expression.annotates, ExpressionValue.annotates, h]
  simp

theorem annotatesList_cons (c c' : Expression) (rest rest' : List Expression)
    (hc : Expression.annotates c c' = true)
    (hr : Expression.annotatesList rest rest' = true) :
    Expression.annotatesList (c :: rest) (c' :: rest') = true := by
  rw [Expression.annotatesList, hc, hr]
  rfl

theorem annotatesList_nil : Expression.annotatesList [] [] = true := by
  rw [Expression.annotatesList]

theorem annotates_refl : ∀ e : Expression, Expression.annotates e e = true := by
  intro e
  refine @Expression.rec (fun e => Expression.annotates e e = true)
    (fun v => ExpressionValue.annotates v v = true)
    (fun l => Expression.annotatesList l l = true) ?_ ?_ ?_ ?_ ?_ ?_ ?_ ?_ ?_ ?_ e
  · intro kind type value ih
    rw [Expression.annotates, ih]
    simp
  · simp [ExpressionValue.annotates]
  · intro children ih
    rw [ExpressionValue.annotates, ih]
  · intro v; simp [ExpressionValue.annotates]
  · intro v; simp [ExpressionValue.annotates]
  · intro v; simp [ExpressionValue.annotates]
  · intro v; simp [ExpressionValue.annotates]
  · intro v; simp [ExpressionValue.annotates]
  · exact annotatesList_nil
  · intro c rest hc hr
    exact annotatesList_cons _ _ _ _ hc hr

theorem annotates_type (kind : ExpressionKind) (type type' : Option Ty)
    (value : ExpressionValue) :
    Expression.annotates (.mk kind type value) (.mk kind type' value) = true := by
  have h := annotates_refl (.mk kind type value)
  rw [Expression.annotates] at h ⊢
  exact h

theorem annotates_two (kind : ExpressionKind) (type type' : Option Ty)
    (a b a' b' : Expression) (ha : Expression.annotates a a' = true)
    (hb : Expression.annotates b b' = true) :
    Expression.annotates (.mk kind type (.ExpressionChildren [a, b]))
      (.mk kind type' (.ExpressionChildren [a', b'])) = true :=
  annotates_mk _ _ _ _ _
    (annotatesList_cons _ _ _ _ ha (annotatesList_cons _ _ _ _ hb annotatesList_nil))

theorem annotates_one (kind : ExpressionKind) (type type' : Option Ty)
    (a a' : Expression) (ha : Expression.annotates a a' = true) :
    Expression.annotates (.mk kind type (.ExpressionChildren [a]))
      (.mk kind type' (.ExpressionChildren [a'])) = true :=
  annotates_mk _ _ _ _ _ (annotatesList_cons _ _ _ _ ha annotatesList_nil)

theorem ValidateScopeLoop_annotates :
    ∀ (children : List Expression), (∀ c ∈ children, Faithful c) →
    ∀ (self s : Validator) (out : List Expression),
      self.ValidateScopeLoop children = .ok (s, out) →
      Expression.annotatesList children out = true := by
  intro children
  induction children with
  | nil =>
    intro _ self s out h
    rw [Validator.ValidateScopeLoop] at h
    cases h
    exact annotatesList_nil
  | cons c rest ih =>
    intro hd self s out h
    rw [Validator.ValidateScopeLoop] at h
    simp only [bind_eq_ok, pure_eq_ok, Prod.mk.injEq, Prod.exists] at h
    obtain ⟨s1, c', hc, s2, rest', hrest, -, rfl⟩ := h
    exact annotatesList_cons _ _ _ _ (hd c (List.mem_cons_self _ _) self s1 c' hc)
      (ih (fun x hx => hd x (List.mem_cons_of_mem _ hx)) s1 s2 rest' hrest)

theorem ValidateScope_annotates (self s : Validator) (kind : ExpressionKind)
    (type : Option Ty) (value : ExpressionValue) (e : Expression)
    (ih : ∀ c ∈ ExpressionValue.children value, Faithful c)
    (h : self.ValidateScope kind type value = .ok (s, e)) :
    Expression.annotates (.mk kind type value) e = true := by
  unfold Validator.ValidateScope at h
  split at h
  · simp only [bind_eq_ok, pure_eq_ok, Prod.mk.injEq, Prod.exists] at h
    obtain ⟨_, _, s1, out, hloop, -, rfl⟩ := h
    exact annotates_mk _ _ _ _ _ (ValidateScopeLoop_annotates _ ih _ _ _ hloop)
  · simp only [bind_eq_ok] at h
    obtain ⟨_, _, h⟩ := h
    cases h

theorem Faithful_scope (type : Option Ty) (value : ExpressionValue)
    (h : Faithful (.mk .SCOPE type value)) (self s : Validator) (e : Expression)
    (hv : self.ValidateScope .SCOPE type value = .ok (s, e)) :
    Expression.annotates (.mk .SCOPE type value) e = true := by
  apply h self s e
  rw [Validator.ValidateExpression]
  exact hv

theorem ValidateConditionalLoop_annotates :
    ∀ (rest : List Expression), (∀ c ∈ rest, Faithful c) →
    ∀ (self s : Validator) (out : List Expression),
      self.ValidateConditionalLoop rest = .ok (s, out) →
      Expression.annotatesList rest out = true := by
  intro rest
  induction rest using list_two_step with
  | h0 =>
    intro _ self s out h
    rw [Validator.ValidateConditionalLoop] at h
    cases h
    exact annotatesList_nil
  | h1 a =>
    intro hd self s out h
    obtain ⟨k, t, v⟩ := a
    rw [Validator.ValidateConditionalLoop] at h
    simp only [bind_eq_ok, pure_eq_ok, VERIFY_eq_ok, Prod.mk.injEq, Prod.exists, beq_iff_eq] at h
    obtain ⟨_, hk, s1, body, hbody, -, rfl⟩ := h
    subst hk
    exact annotatesList_cons _ _ _ _ (Faithful_scope t v (hd _ (List.mem_cons_self _ _)) _ _ _ hbody)
      annotatesList_nil
  | h2 a b l ih =>
    intro hd self s out h
    obtain ⟨k, t, v⟩ := b
    rw [Validator.ValidateConditionalLoop] at h
    simp only [bind_eq_ok, pure_eq_ok, VERIFY_eq_ok, optional_value_eq_ok, Prod.mk.injEq,
      Prod.exists, beq_iff_eq] at h
    obtain ⟨s1, c', hc, _, -, ty, -, _, -, _, hk, s2, body, hbody, s3, out', hrest, -, rfl⟩ := h
    subst hk
    have hb : Faithful (.mk .SCOPE t v) := hd _ (List.mem_cons_of_mem _ (List.mem_cons_self _ _))
    exact annotatesList_cons _ _ _ _ (hd a (List.mem_cons_self _ _) self s1 c' hc)
      (annotatesList_cons _ _ _ _ (Faithful_scope t v hb _ _ _ hbody)
        (ih (fun x hx => hd x (List.mem_cons_of_mem _ (List.mem_cons_of_mem _ hx))) _ _ _ hrest))

theorem ArgumentsAccepted_annotates :
    ∀ (parameters : List FunctionArgument) (arguments : List Expression),
    (∀ c ∈ arguments, Faithful c) →
    ∀ (self s : Validator) (out : List Expression),
      ArgumentsAccepted self parameters arguments s out →
      Expression.annotatesList arguments out = true := by
  intro parameters
  induction parameters with
  | nil =>
    intro arguments _ self s out h
    cases arguments with
    | nil =>
      obtain ⟨-, rfl⟩ := h
      exact annotatesList_nil
    | cons a rest => exact absurd h (by simp [ArgumentsAccepted])
  | cons q qs ih =>
    intro arguments hd self s out h
    cases arguments with
    | nil => exact absurd h (by simp [ArgumentsAccepted])
    | cons a rest =>
      obtain ⟨s1, a', _, rest', ha, -, -, hrest, rfl⟩ := h
      exact annotatesList_cons _ _ _ _ (hd a (List.mem_cons_self _ _) self s1 a' ha)
        (ih rest (fun x hx => hd x (List.mem_cons_of_mem _ hx)) s1 s rest' hrest)

theorem ValidateVariableAssignment_annotates (self s : Validator) (kind : ExpressionKind)
    (type : Option Ty) (value : ExpressionValue) (e : Expression)
    (ih : ∀ c ∈ ExpressionValue.children value, Faithful c)
    (h : self.ValidateVariableAssignment kind type value = .ok (s, e)) :
    Expression.annotates (.mk kind type value) e = true := by
  unfold Validator.ValidateVariableAssignment at h
  split at h
  · rename_i LHS RHS
    simp only [bind_eq_ok, pure_eq_ok, VERIFY_eq_ok, optional_value_eq_ok, Prod.mk.injEq,
      Prod.exists] at h
    obtain ⟨_, -, s1, LHS', hl, s2, RHS', hr, _, -, lhsType, -, rhsType, -, same, -, _, -, -, rfl⟩ := h
    exact annotates_two _ _ _ _ _ _ _ (ih LHS (by simp [ExpressionValue.children]) _ _ _ hl)
      (ih RHS (by simp [ExpressionValue.children]) _ _ _ hr)
  · cases h
  · cases h

theorem ValidateVariableDeclaration_annotates (self s : Validator) (kind : ExpressionKind)
    (type : Option Ty) (value : ExpressionValue) (e : Expression)
    (ih : ∀ c ∈ ExpressionValue.children value, Faithful c)
    (h : self.ValidateVariableDeclaration kind type value = .ok (s, e)) :
    Expression.annotates (.mk kind type value) e = true := by
  unfold Validator.ValidateVariableDeclaration at h
  split at h
  · rename_i LHS RHS
    simp only [bind_eq_ok, pure_eq_ok, VERIFY_eq_ok, optional_value_eq_ok, Prod.mk.injEq,
      Prod.exists, beq_iff_eq, getString_eq_ok] at h
    obtain ⟨_, hlk, _, -, lhsType, hlt, _, -, s1, RHS', hr, _, -, rhsType, -, same, -, _, -,
      name, hname, s2, -, -, rfl⟩ := h
    exact annotates_two _ _ _ _ _ _ _ (annotates_refl LHS)
      (ih RHS (by simp [ExpressionValue.children]) _ _ _ hr)
  · cases h
  · cases h

theorem ValidateReturn_annotates (self s : Validator) (kind : ExpressionKind)
    (type : Option Ty) (value : ExpressionValue) (e : Expression)
    (ih : ∀ c ∈ ExpressionValue.children value, Faithful c)
    (h : self.ValidateReturn kind type value = .ok (s, e)) :
    Expression.annotates (.mk kind type value) e = true := by
  unfold Validator.ValidateReturn at h
  split at h
  · simp only [bind_eq_ok, pure_eq_ok, VERIFY_eq_ok, Prod.mk.injEq] at h
    obtain ⟨_, -, -, rfl⟩ := h
    exact annotates_mk _ _ _ _ _ annotatesList_nil
  · rename_i expr
    simp only [bind_eq_ok, pure_eq_ok, VERIFY_eq_ok, optional_value_eq_ok, Prod.mk.injEq,
      Prod.exists] at h
    obtain ⟨s1, expr', hx, _, -, exprType, hty, same, -, _, -, -, rfl⟩ := h
    exact annotates_one _ _ _ _ _ (ih expr (by simp [ExpressionValue.children]) _ _ _ hx)
  · cases h
  · cases h

theorem ValidateConditional_annotates (self s : Validator) (kind : ExpressionKind)
    (type : Option Ty) (value : ExpressionValue) (e : Expression)
    (ih : ∀ c ∈ ExpressionValue.children value, Faithful c)
    (h : self.ValidateConditional kind type value = .ok (s, e)) :
    Expression.annotates (.mk kind type value) e = true := by
  unfold Validator.ValidateConditional at h
  split at h
  · rename_i cond k t v rest
    simp only [bind_eq_ok, pure_eq_ok, VERIFY_eq_ok, optional_value_eq_ok, Prod.mk.injEq,
      Prod.exists, beq_iff_eq] at h
    obtain ⟨s1, c', hc, _, -, ty, -, _, -, _, hks, s2, body, hbody, s3, out', hrest, -, rfl⟩ := h
    subst hks
    have hb : Faithful (.mk .SCOPE t v) := ih _ (by simp [ExpressionValue.children])
    exact annotates_mk _ _ _ _ _
      (annotatesList_cons _ _ _ _ (ih cond (by simp [ExpressionValue.children]) self s1 c' hc)
        (annotatesList_cons _ _ _ _ (Faithful_scope t v hb _ _ _ hbody)
          (ValidateConditionalLoop_annotates rest
            (fun x hx => ih x (by simp [ExpressionValue.children, hx])) _ _ _ hrest)))
  · cases h
  · cases h

theorem ValidateArithmetic_annotates (self s : Validator) (kind : ExpressionKind)
    (type : Option Ty) (value : ExpressionValue) (e : Expression)
    (ih : ∀ c ∈ ExpressionValue.children value, Faithful c)
    (h : self.ValidateArithmetic kind type value = .ok (s, e)) :
    Expression.annotates (.mk kind type value) e = true := by
  unfold Validator.ValidateArithmetic at h
  split at h
  · rename_i LHS RHS
    have h' : self.ValidateArithmetic kind type (.ExpressionChildren [LHS, RHS]) = .ok (s, e) := by
      rw [Validator.ValidateArithmetic]; exact h
    rw [ValidateArithmetic_eq_ok] at h'
    obtain ⟨s1, LHS', lhsType, RHS', rhsType, hl, -, hr, -, -, -, rfl⟩ := h'
    exact annotates_two _ _ _ _ _ _ _ (ih LHS (by simp [ExpressionValue.children]) _ _ _ hl)
      (ih RHS (by simp [ExpressionValue.children]) _ _ _ hr)
  · cases h
  · cases h

theorem ValidateComparison_annotates (self s : Validator) (kind : ExpressionKind)
    (type : Option Ty) (value : ExpressionValue) (e : Expression)
    (ih : ∀ c ∈ ExpressionValue.children value, Faithful c)
    (h : self.ValidateComparison kind type value = .ok (s, e)) :
    Expression.annotates (.mk kind type value) e = true := by
  unfold Validator.ValidateComparison at h
  split at h
  · rename_i LHS RHS
    simp only [bind_eq_ok, pure_eq_ok, VERIFY_eq_ok, optional_value_eq_ok, Prod.mk.injEq,
      Prod.exists] at h
    obtain ⟨s1, LHS', hl, s2, RHS', hr, lhsType, -, rhsType, -, same, -, _, -, _, -, -, rfl⟩ := h
    exact annotates_two _ _ _ _ _ _ _ (ih LHS (by simp [ExpressionValue.children]) _ _ _ hl)
      (ih RHS (by simp [ExpressionValue.children]) _ _ _ hr)
  · cases h
  · cases h

theorem ValidateLogical_annotates (self s : Validator) (kind : ExpressionKind)
    (type : Option Ty) (value : ExpressionValue) (e : Expression)
    (ih : ∀ c ∈ ExpressionValue.children value, Faithful c)
    (h : self.ValidateLogical kind type value = .ok (s, e)) :
    Expression.annotates (.mk kind type value) e = true := by
  unfold Validator.ValidateLogical at h
  split at h
  · rename_i LHS RHS
    simp only [bind_eq_ok, pure_eq_ok, VERIFY_eq_ok, optional_value_eq_ok, Prod.mk.injEq,
      Prod.exists] at h
    obtain ⟨s1, LHS', hl, s2, RHS', hr, lhsType, hlt, rhsType, -, same, -, _, -, _, -, -, rfl⟩ := h
    exact annotates_two _ _ _ _ _ _ _ (ih LHS (by simp [ExpressionValue.children]) _ _ _ hl)
      (ih RHS (by simp [ExpressionValue.children]) _ _ _ hr)
  · cases h
  · cases h

theorem ValidatePostInc_annotates (self s : Validator) (kind : ExpressionKind)
    (type : Option Ty) (value : ExpressionValue) (e : Expression)
    (ih : ∀ c ∈ ExpressionValue.children value, Faithful c)
    (h : self.ValidatePostInc kind type value = .ok (s, e)) :
    Expression.annotates (.mk kind type value) e = true := by
  unfold Validator.ValidatePostInc at h
  split at h
  · rename_i operand
    simp only [bind_eq_ok, pure_eq_ok, VERIFY_eq_ok, optional_value_eq_ok, Prod.mk.injEq,
      Prod.exists] at h
    obtain ⟨_, -, s1, operand', ho, _, -, operandType, hty, _, -, -, rfl⟩ := h
    exact annotates_one _ _ _ _ _ (ih operand (by simp [ExpressionValue.children]) _ _ _ ho)
  · cases h
  · cases h

theorem ValidatePointerDereference_annotates (self s : Validator) (kind : ExpressionKind)
    (type : Option Ty) (value : ExpressionValue) (e : Expression)
    (ih : ∀ c ∈ ExpressionValue.children value, Faithful c)
    (h : self.ValidatePointerDereference kind type value = .ok (s, e)) :
    Expression.annotates (.mk kind type value) e = true := by
  unfold Validator.ValidatePointerDereference at h
  split at h
  · rename_i operand
    simp only [bind_eq_ok, VERIFY_eq_ok, optional_value_eq_ok, Prod.exists] at h
    obtain ⟨s1, operand', ho, _, -, operandType, hty, h⟩ := h
    split at h
    · simp only [pure_eq_ok, Prod.mk.injEq] at h
      obtain ⟨-, rfl⟩ := h
      exact annotates_one _ _ _ _ _
        (ih operand (by simp [ExpressionValue.children]) _ _ _ ho)
    · cases h
  · cases h
  · cases h

theorem ValidateArraySubscript_annotates (self s : Validator) (kind : ExpressionKind)
    (type : Option Ty) (value : ExpressionValue) (e : Expression)
    (ih : ∀ c ∈ ExpressionValue.children value, Faithful c)
    (h : self.ValidateArraySubscript kind type value = .ok (s, e)) :
    Expression.annotates (.mk kind type value) e = true := by
  unfold Validator.ValidateArraySubscript at h
  split at h
  · rename_i target index
    simp only [bind_eq_ok, VERIFY_eq_ok, optional_value_eq_ok, Prod.exists] at h
    obtain ⟨s1, target', ht, _, -, targetType, -, _, -, s2, index', hi, _, -, indexType, -,
      _, -, h⟩ := h
    have ha := ih target (by simp [ExpressionValue.children]) _ _ _ ht
    have hb := ih index (by simp [ExpressionValue.children]) _ _ _ hi
    split at h
    · simp only [pure_eq_ok, Prod.mk.injEq] at h
      obtain ⟨-, rfl⟩ := h
      exact annotates_two _ _ _ _ _ _ _ ha hb
    · simp only [pure_eq_ok, Prod.mk.injEq] at h
      obtain ⟨-, rfl⟩ := h
      exact annotates_two _ _ _ _ _ _ _ ha hb
    · cases h
  · cases h
  · cases h

theorem ValidateFunctionCall_annotates (self s : Validator) (kind : ExpressionKind)
    (type : Option Ty) (value : ExpressionValue) (e : Expression)
    (ih : ∀ c ∈ ExpressionValue.children value, Faithful c)
    (h : self.ValidateFunctionCall kind type value = .ok (s, e)) :
    Expression.annotates (.mk kind type value) e = true := by
  unfold Validator.ValidateFunctionCall at h
  split at h
  · rename_i first arguments
    have h' : self.ValidateFunctionCall kind type (.ExpressionChildren (first :: arguments)) = .ok (s, e) := by
      rw [Validator.ValidateFunctionCall]; exact h
    rw [ValidateFunctionCall_eq_ok] at h'
    obtain ⟨callee, prototype, out, hfk, -, -, -, hacc, rfl⟩ := h'
    exact annotates_mk _ _ _ _ _
      (annotatesList_cons _ _ _ _ (annotates_refl first)
        (ArgumentsAccepted_annotates _ _
          (fun x hx => ih x (by simp [ExpressionValue.children, hx])) _ _ _ hacc))
  · cases h
  · cases h

theorem ValidateForLoop_annotates (self s : Validator) (kind : ExpressionKind)
    (type : Option Ty) (value : ExpressionValue) (e : Expression)
    (ih : ∀ c ∈ ExpressionValue.children value, Faithful c)
    (h : self.ValidateForLoop kind type value = .ok (s, e)) :
    Expression.annotates (.mk kind type value) e = true := by
  unfold Validator.ValidateForLoop at h
  split at h
  · rename_i init cond post body
    have h' : self.ValidateForLoop kind type (.ExpressionChildren [init, cond, post, body]) = .ok (s, e) := by
      rw [Validator.ValidateForLoop]; exact h
    rw [ValidateForLoop_eq_ok] at h'
    obtain ⟨i, c, q, b, i', c', q', b', s1, s2, s3, heq, hi, hc, -, hq, hb, -, rfl⟩ := h'
    simp only [List.cons.injEq, and_true] at heq
    obtain ⟨rfl, rfl, rfl, rfl⟩ := heq
    exact annotates_mk _ _ _ _ _
      (annotatesList_cons _ _ _ _ (ih _ (by simp [ExpressionValue.children]) _ _ _ hi)
        (annotatesList_cons _ _ _ _ (ih _ (by simp [ExpressionValue.children]) _ _ _ hc)
          (annotatesList_cons _ _ _ _ (ih _ (by simp [ExpressionValue.children]) _ _ _ hq)
            (annotatesList_cons _ _ _ _ (ih _ (by simp [ExpressionValue.children]) _ _ _ hb)
              annotatesList_nil))))
  · cases h
  · cases h

theorem ValidateLiteral_same (self s : Validator) (expression e : Expression)
    (h : self.ValidateLiteral expression = .ok (s, e)) : e = expression := by
  unfold Validator.ValidateLiteral at h
  simp only [bind_eq_ok, pure_eq_ok, VERIFY_eq_ok, Prod.mk.injEq] at h
  obtain ⟨_, -, -, rfl⟩ := h
  rfl

theorem ValidateNegate_annotates (self s : Validator) (kind : ExpressionKind)
    (type : Option Ty) (value : ExpressionValue) (e : Expression) (hk : kind = .NEGATE)
    (h : self.ValidateNegate kind type value = .ok (s, e)) :
    Expression.annotates (.mk kind type value) e = true := by
  subst hk
  unfold Validator.ValidateNegate at h
  split at h
  · rename_i operand
    simp only [bind_eq_ok, pure_eq_ok, VERIFY_eq_ok, optional_value_eq_ok, Prod.mk.injEq,
      Prod.exists] at h
    obtain ⟨_, hlit, s1, operand', ho, _, -, operandType, hty, _, -, v, hv, -, rfl⟩ := h
    obtain ⟨k, t, value⟩ := operand
    have hkind : k = .LITERAL := (KindIsIn_literal k).mp hlit
    subst hkind
    rw [Validator.ValidateExpression] at ho
    have hsame := ValidateLiteral_same _ _ _ _ ho
    subst hsame
    cases value <;> simp [Expression.value, ExpressionValue.getInt64] at hv
    subst hv
    simp [Expression.annotates, isFoldedNegation]
  · cases h
  · cases h

theorem ValidateAddressOf_annotates (self s : Validator) (kind : ExpressionKind)
    (type : Option Ty) (value : ExpressionValue) (e : Expression)
    (ih : ∀ c ∈ ExpressionValue.children value, Faithful c)
    (h : self.ValidateAddressOf kind type value = .ok (s, e)) :
    Expression.annotates (.mk kind type value) e = true := by
  unfold Validator.ValidateAddressOf at h
  split at h
  · rename_i operand
    simp only [bind_eq_ok, pure_eq_ok, VERIFY_eq_ok, optional_value_eq_ok, Prod.mk.injEq,
      Prod.exists] at h
    obtain ⟨_, -, s1, operand', ho, _, -, operandType, -, -, rfl⟩ := h
    exact annotates_one _ _ _ _ _ (ih operand (by simp [ExpressionValue.children]) _ _ _ ho)
  · cases h
  · cases h

theorem ValidateMemberAccess_annotates (self s : Validator) (kind : ExpressionKind)
    (type : Option Ty) (value : ExpressionValue) (e : Expression)
    (ih : ∀ c ∈ ExpressionValue.children value, Faithful c)
    (h : self.ValidateMemberAccess kind type value = .ok (s, e)) :
    Expression.annotates (.mk kind type value) e = true := by
  unfold Validator.ValidateMemberAccess at h
  split at h
  · rename_i target field
    have h' : self.ValidateMemberAccess kind type (.ExpressionChildren [target, field]) = .ok (s, e) := by
      rw [Validator.ValidateMemberAccess]; exact h
    rw [ValidateMemberAccess_eq_ok] at h'
    obtain ⟨target', fields, fieldName, targetField, ht, -, hfk, hfv, -, rfl⟩ := h'
    refine annotates_two _ _ _ _ _ _ _
      (ih target (by simp [ExpressionValue.children]) _ _ _ ht) ?_
    obtain ⟨fk, ft, fv⟩ := field
    exact annotates_type _ _ _ _
  · cases h
  · cases h

theorem ValidateVariable_annotates (self s : Validator) (expression e : Expression)
    (h : self.ValidateVariable expression = .ok (s, e)) :
    Expression.annotates expression e = true := by
  unfold Validator.ValidateVariable at h
  simp only [bind_eq_ok, pure_eq_ok, VERIFY_eq_ok, optional_value_eq_ok, Prod.mk.injEq,
    getString_eq_ok] at h
  obtain ⟨_, -, _, -, name, hname, _, -, _, -, t, -, -, rfl⟩ := h
  obtain ⟨k, ty, v⟩ := expression
  exact annotates_type _ _ _ _

/-- Validation leaves of every expression the kinds, the payloads and the children as they
are, up to the types and the folded negations. -/
theorem ValidateExpression_annotates : ∀ e, Faithful e := by
  apply Expression.induction
  intro kind type value ih self s e h
  cases kind <;> rw [Validator.ValidateExpression] at h
  case SCOPE => exact ValidateScope_annotates _ _ _ _ _ _ ih h
  case LITERAL =>
    rw [ValidateLiteral_same _ _ _ _ h]
    exact annotates_refl _
  case VARIABLE => exact ValidateVariable_annotates _ _ _ _ h
  case VARIABLE_ASSIGNMENT => exact ValidateVariableAssignment_annotates _ _ _ _ _ _ ih h
  case VARIABLE_DECLARATION => exact ValidateVariableDeclaration_annotates _ _ _ _ _ _ ih h
  case RETURN => exact ValidateReturn_annotates _ _ _ _ _ _ ih h
  case CONDITIONAL => exact ValidateConditional_annotates _ _ _ _ _ _ ih h
  case PLUS_OP => exact ValidateArithmetic_annotates _ _ _ _ _ _ ih h
  case MINUS_OP => exact ValidateArithmetic_annotates _ _ _ _ _ _ ih h
  case DIVIDE_OP => exact ValidateArithmetic_annotates _ _ _ _ _ _ ih h
  case MULTIPLY_OP => exact ValidateArithmetic_annotates _ _ _ _ _ _ ih h
  case GREATER_THAN_OP => exact ValidateComparison_annotates _ _ _ _ _ _ ih h
  case LESS_THAN_OP => exact ValidateComparison_annotates _ _ _ _ _ _ ih h
  case EQUAL_OP => exact ValidateComparison_annotates _ _ _ _ _ _ ih h
  case NOT_EQUAL_OP => exact ValidateComparison_annotates _ _ _ _ _ _ ih h
  case LOGICAL_AND => exact ValidateLogical_annotates _ _ _ _ _ _ ih h
  case LOGICAL_OR => exact ValidateLogical_annotates _ _ _ _ _ _ ih h
  case POST_INC_OP => exact ValidatePostInc_annotates _ _ _ _ _ _ ih h
  case POINTER_DEREFERENCE => exact ValidatePointerDereference_annotates _ _ _ _ _ _ ih h
  case ARRAY_SUBSCRIPT => exact ValidateArraySubscript_annotates _ _ _ _ _ _ ih h
  case FUNCTION_CALL => exact ValidateFunctionCall_annotates _ _ _ _ _ _ ih h
  case FOR_LOOP => exact ValidateForLoop_annotates _ _ _ _ _ _ ih h
  case NEGATE => exact ValidateNegate_annotates _ _ _ _ _ _ rfl h
  case ADDRESS_OF => exact ValidateAddressOf_annotates _ _ _ _ _ _ ih h
  case MEMBER_ACCESS => exact ValidateMemberAccess_annotates _ _ _ _ _ _ ih h
  case CONTINUE =>
    cases h
    exact annotates_refl _
  case BREAK =>
    cases h
    exact annotates_refl _
  case CALLEE =>
    cases h
    exact annotates_refl _

/-- Claim C39: validation changes nothing but type annotations and folded negations. For
every function that validates, the prototype is the one it was, and the validated body is
the body with the type slots as validation sets them and with Negate nodes over an integer
Literal replaced by the Literal of the negated integer: every other node has the kind and
the payload it had and its children in the same number and order. No node that validation
visits is a Negate afterwards. -/
theorem C39_validation_only_annotates (self s : Validator) (function validated : Function)
    (h : self.ValidateFunction function = .ok (s, validated)) :
    validated.prototype = function.prototype ∧
    Expression.annotates function.body validated.body = true ∧
    Expression.all childrenSkipped notNegate validated.body = true := by
  refine ⟨?_, ?_, ValidateFunction_all notNegate Established_notNegate self s _ _ h⟩
  · unfold Validator.ValidateFunction at h
    simp only [bind_eq_ok, pure_eq_ok, VERIFY_eq_ok, Prod.mk.injEq, Prod.exists] at h
    obtain ⟨_, -, s1, body, -, -, rfl⟩ := h
    rfl
  · unfold Validator.ValidateFunction at h
    simp only [bind_eq_ok, pure_eq_ok, VERIFY_eq_ok, Prod.mk.injEq, Prod.exists] at h
    obtain ⟨_, -, s1, body, hbody, -, rfl⟩ := h
    exact ValidateExpression_annotates _ _ _ _ hbody

/-- Claim C39 on `function f(x: i64) -> i64:` with body `var y: i64 = x + -5` and
`return y`: the validated body has the types filled in and the Literal -5 for the
Negate. -/
theorem C39_validation_only_annotates_witness :
    ∃ s validated, Validator.new.ValidateFunction negatedSummand = .ok (s, validated) ∧
      validated.body = negatedSummand_validated ∧
      validated.prototype = negatedSummand.prototype ∧
      Expression.annotates negatedSummand.body validated.body = true ∧
      Expression.all childrenSkipped notNegate validated.body = true :=
  ⟨_, _, rfl, rfl, C39_validation_only_annotates Validator.new _ negatedSummand _ rfl⟩
/-! ## Claim C35: the checks of the shape on a shaped tree -/

theorem ShapeFailure_message (name message : String) :
    ShapeFailure name (.invalid_argument (name ++ ": " ++ message)) ↔
      message ∈ shapeMessages := by
  constructor
  · rintro ⟨m, hm, heq⟩
    injection heq with heq
    have hdata := congrArg String.data heq
    simp only [String.data_append, List.append_cancel_left_eq] at hdata
    have : message = m := String.ext hdata
    rw [this]
    exact hm
  · intro h
    exact ⟨message, h, rfl⟩

theorem not_ShapeFailure_of_library (name : String) (ex : Exception)
    (h : ex.isLibrary = true) : ¬ ShapeFailure name ex := by
  rintro ⟨m, -, rfl⟩
  cases h

theorem Sound_error {α : Type} (name : String) (s1 : Validator)
    (h : s1._currentFunction.name = name) (message : String)
    (hm : message ∉ shapeMessages) :
    Sound name (Except.error (s1.ValidatorError message) :
      Except Exception (Validator × α)) := by
  constructor
  · intro ex hex hshape
    cases hex
    rw [Validator.ValidatorError, h, ShapeFailure_message] at hshape
    exact absurd hshape hm
  · intro s a hs; cases hs

theorem Sound_error_library {α : Type} (name : String) (ex : Exception)
    (h : ex.isLibrary = true) :
    Sound name (Except.error ex : Except Exception (Validator × α)) := by
  constructor
  · intro ex' hex hshape
    cases hex
    exact absurd hshape (not_ShapeFailure_of_library name ex h)
  · intro s a hs; cases hs

theorem Sound_error_member {α : Type} (name : String) (s1 : Validator)
    (h : s1._currentFunction.name = name) :
    Sound name (Except.error (s1.ValidatorError "Member access index is not a string") :
      Except Exception (Validator × α)) := by
  constructor
  · intro ex hex _
    cases hex
    rw [Validator.ValidatorError, h, memberIndexReport]
  · intro s a hs; cases hs

theorem Sound_pure {α : Type} (name : String) (s1 : Validator) (a : α)
    (h : s1._currentFunction.name = name) :
    Sound name (Pure.pure (s1, a) : Except Exception (Validator × α)) := by
  constructor
  · intro ex hex; cases hex
  · intro s b hb
    simp only [pure_eq_ok, Prod.mk.injEq] at hb
    rw [← hb.1, h]

theorem Sound_ok {α : Type} (name : String) (s1 : Validator) (a : α)
    (h : s1._currentFunction.name = name) :
    Sound name (Except.ok (s1, a) : Except Exception (Validator × α)) :=
  Sound_pure name s1 a h

theorem Sound_bind_state {α β : Type} (name : String)
    (m : Except Exception (Validator × β)) (f : Validator × β → Except Exception (Validator × α))
    (hm : Sound name m)
    (h : ∀ s1 b, m = .ok (s1, b) → s1._currentFunction.name = name → Sound name (f (s1, b))) :
    Sound name (m >>= f) := by
  constructor
  · intro ex hex
    rcases (bind_eq_error m f ex).mp hex with h1 | ⟨⟨s1, b⟩, h1, h2⟩
    · exact hm.failure ex h1
    · exact (h s1 b h1 (hm.success s1 b h1)).failure ex h2
  · intro s a hs
    obtain ⟨⟨s1, b⟩, h1, h2⟩ := (bind_eq_ok m f (s, a)).mp hs
    exact (h s1 b h1 (hm.success s1 b h1)).success s a h2

theorem Sound_bind_plain {α β : Type} (name : String) (x : Except Exception β)
    (f : β → Except Exception (Validator × α))
    (hx : ∀ ex, x = .error ex → ex.isLibrary = true) (h : ∀ b, Sound name (f b)) :
    Sound name (x >>= f) := by
  constructor
  · intro ex hex
    rcases (bind_eq_error x f ex).mp hex with h1 | ⟨b, -, h2⟩
    · exact fun hshape => absurd hshape (not_ShapeFailure_of_library name ex (hx ex h1))
    · exact (h b).failure ex h2
  · intro s a hs
    obtain ⟨b, -, h2⟩ := (bind_eq_ok x f (s, a)).mp hs
    exact (h b).success s a h2

theorem Sound_bind_VERIFY {α : Type} (name : String) (s1 : Validator)
    (h1 : s1._currentFunction.name = name) (condition : Bool) (message : String)
    (f : Unit → Except Exception (Validator × α)) (hm : message ∉ shapeMessages)
    (h : condition = true → Sound name (f ())) :
    Sound name (s1.VERIFY condition message >>= f) := by
  cases condition
  · rw [VERIFY_false, bind_error]
    exact Sound_error name s1 h1 message hm
  · rw [VERIFY_true, bind_ok]
    exact h rfl

theorem Sound_bind_VERIFY_member {α : Type} (name : String) (s1 : Validator)
    (h1 : s1._currentFunction.name = name) (condition : Bool)
    (f : Unit → Except Exception (Validator × α))
    (h : condition = true → Sound name (f ())) :
    Sound name (s1.VERIFY condition "Member access index is not a string" >>= f) := by
  cases condition
  · rw [VERIFY_false, bind_error]
    exact Sound_error_member name s1 h1
  · rw [VERIFY_true, bind_ok]
    exact h rfl

theorem Sound_bind_VERIFY_true {α : Type} (name : String) (s1 : Validator)
    (condition : Bool) (message : String)
    (f : Unit → Except Exception (Validator × α)) (hc : condition = true)
    (h : Sound name (f ())) :
    Sound name (s1.VERIFY condition message >>= f) := by
  rw [hc, VERIFY_true, bind_ok]
  exact h

theorem optional_value_library {α : Type} (o : Option α) :
    ∀ ex, optional_value o = .error ex → ex.isLibrary = true := by
  intro ex hex
  cases o
  · cases hex; rfl
  · cases hex

theorem TypeIsSame_library (a b : Ty) :
    ∀ ex, TypeIsSame a b = .error ex → ex.isLibrary = true := by
  intro ex hex
  rcases TypeIsSame_ok_or_throws a b with h | h
  · rw [h] at hex; cases hex
  · rw [h] at hex; cases hex; rfl

theorem getString_library (value : ExpressionValue) :
    ∀ ex, value.getString = .error ex → ex.isLibrary = true := by
  intro ex hex
  cases value <;> simp only [ExpressionValue.getString] at hex <;> cases hex <;> rfl

theorem getInt64_library (value : ExpressionValue) :
    ∀ ex, value.getInt64 = .error ex → ex.isLibrary = true := by
  intro ex hex
  cases value <;> simp only [ExpressionValue.getInt64] at hex <;> cases hex <;> rfl

theorem Sound_bind_next {α β : Type} (name : String)
    (m : Except Exception (Validator × β)) (f : Validator × β → Except Exception (Validator × α))
    (hm : Sound name m)
    (h : ∀ s1 b, s1._currentFunction.name = name → Sound name (f (s1, b))) :
    Sound name (m >>= f) :=
  Sound_bind_state name m f hm (fun s1 b _ h1 => h s1 b h1)

theorem Sound_bind_assign {α : Type} (name : String) (s1 : Validator)
    (h1 : s1._currentFunction.name = name) (variableName : String) (type : Ty)
    (f : Validator → Except Exception (Validator × α))
    (h : ∀ s2, s2._currentFunction.name = name → Sound name (f s2)) :
    Sound name (s1.assignInBackScope variableName type >>= f) := by
  have hs : ∀ s2, s1.assignInBackScope variableName type = .ok s2 →
      s2._currentFunction.name = name := by
    intro s2 h2
    rw [assignInBackScope_eq_ok] at h2
    obtain ⟨back, -, rfl⟩ := h2
    exact h1
  constructor
  · intro ex hex
    rcases (bind_eq_error _ f ex).mp hex with h2 | ⟨s2, h2, h3⟩
    · unfold Validator.assignInBackScope at h2
      split at h2
      · cases h2
        exact fun hshape => absurd hshape (not_ShapeFailure_of_library name _ rfl)
      · cases h2
    · exact (h s2 (hs s2 h2)).failure ex h3
  · intro s a hsa
    obtain ⟨s2, h2, h3⟩ := (bind_eq_ok _ f (s, a)).mp hsa
    exact (h s2 (hs s2 h2)).success s a h3

/-- The validation of the expression is `Sound` in whatever state, under the name of the
current function of the state. -/
theorem Sound_at (c : Expression)
    (hc : ∀ self : Validator, Sound self._currentFunction.name (self.ValidateExpression c))
    (name : String) (s1 : Validator) (h : s1._currentFunction.name = name) :
    Sound name (s1.ValidateExpression c) := by
  subst h
  exact hc s1

theorem Sound_at_scope (kind : ExpressionKind) (type : Option Ty) (value : ExpressionValue)
    (hc : ∀ self : Validator,
      Sound self._currentFunction.name (self.ValidateExpression (.mk kind type value)))
    (hk : (kind == .SCOPE) = true) (name : String)
    (s1 : Validator) (h : s1._currentFunction.name = name) :
    Sound name (s1.ValidateScope kind type value) := by
  have hk' : kind = .SCOPE := by simpa using hk
  subst hk'
  rw [← Validator.ValidateExpression.eq_1]
  exact Sound_at _ hc name s1 h

theorem shaped_mk (kind : ExpressionKind) (type : Option Ty) (value : ExpressionValue) :
    (Expression.mk kind type value).shaped =
      (shapeOf kind type value && ExpressionValue.shaped value) := by
  rw [Expression.shaped]

theorem shapedList_cons (e : Expression) (rest : List Expression) :
    Expression.shapedList (e :: rest) = (e.shaped && Expression.shapedList rest) := by
  rw [Expression.shapedList]

theorem shapedList_nil : Expression.shapedList [] = true := by
  rw [Expression.shapedList]

theorem shaped_of_children (children : List Expression) :
    (ExpressionValue.ExpressionChildren children).shaped = Expression.shapedList children := by
  rw [ExpressionValue.shaped]

theorem shapedList_mem (l : List Expression) (h : Expression.shapedList l = true) :
    ∀ c ∈ l, c.shaped = true := by
  induction l with
  | nil => intro c hc; cases hc
  | cons e rest ih =>
    rw [shapedList_cons, Bool.and_eq_true] at h
    intro c hc
    rcases List.mem_cons.mp hc with rfl | hc
    · exact h.1
    · exact ih h.2 c hc

theorem isFresh_of_kind (e : Expression) (h : e.kind ≠ .VARIABLE) : e.isFresh = true := by
  obtain ⟨kind, type, value⟩ := e
  cases kind <;> first | rfl | exact absurd rfl h

theorem isFresh_scope (e : Expression) (h : (e.kind == .SCOPE) = true) : e.isFresh = true := by
  apply isFresh_of_kind
  have : e.kind = .SCOPE := by simpa using h
  rw [this]
  decide

/-- The validation of the children of a shaped value that are fresh is `Sound`, when that is
so for every shaped and fresh child. -/
theorem Proper_child (l : List Expression) (ih : ∀ c ∈ l, Proper c)
    (hl : Expression.shapedList l = true) (c : Expression) (hc : c ∈ l)
    (hf : c.isFresh = true) :
    ∀ self : Validator, Sound self._currentFunction.name (self.ValidateExpression c) :=
  ih c hc (shapedList_mem l hl c hc) hf

theorem ValidateLiteral_sound (self : Validator) (expression : Expression)
    (h : expression.type.isSome = true) :
    Sound self._currentFunction.name (self.ValidateLiteral expression) := by
  unfold Validator.ValidateLiteral
  apply Sound_bind_VERIFY_true _ _ _ _ _ h
  exact Sound_pure _ _ _ rfl

theorem ValidateVariable_sound (self : Validator) (type : Option Ty) (value : ExpressionValue)
    (h : (Expression.mk .VARIABLE type value).isFresh = true) :
    Sound self._currentFunction.name (self.ValidateVariable (.mk .VARIABLE type value)) := by
  simp only [Expression.isFresh, Bool.and_eq_true] at h
  unfold Validator.ValidateVariable
  apply Sound_bind_VERIFY_true _ _ _ _ _ h.1
  apply Sound_bind_VERIFY_true _ _ _ _ _ h.2
  apply Sound_bind_plain _ _ _ (getString_library _); intro _
  apply Sound_bind_VERIFY _ _ rfl _ _ _ (by decide); intro _
  apply Sound_bind_VERIFY _ _ rfl _ _ _ (by decide); intro _
  apply Sound_bind_plain _ _ _ (optional_value_library _); intro _
  exact Sound_pure _ _ _ rfl

theorem ValidateScopeLoop_sound (l : List Expression)
    (ih : ∀ c ∈ l, ∀ self : Validator,
      Sound self._currentFunction.name (self.ValidateExpression c)) :
    ∀ (name : String) (s1 : Validator), s1._currentFunction.name = name →
      Sound name (s1.ValidateScopeLoop l) := by
  induction l with
  | nil =>
    intro name s1 h
    rw [Validator.ValidateScopeLoop]
    exact Sound_ok name s1 _ h
  | cons c rest ihl =>
    intro name s1 h
    rw [Validator.ValidateScopeLoop]
    apply Sound_bind_next _ _ _ (Sound_at c (ih c (List.mem_cons_self _ _)) name s1 h)
    intro s2 c' h2
    apply Sound_bind_next _ _ _ (ihl (fun d hd => ih d (List.mem_cons_of_mem _ hd)) name s2 h2)
    intro s3 r' h3
    exact Sound_pure name s3 _ h3

theorem ValidateScope_sound (self : Validator) (kind : ExpressionKind) (type : Option Ty)
    (children : List Expression) (ht : (!type.isSome) = true)
    (ih : ∀ c ∈ children, ∀ self : Validator,
      Sound self._currentFunction.name (self.ValidateExpression c)) :
    Sound self._currentFunction.name
      (self.ValidateScope kind type (.ExpressionChildren children)) := by
  rw [Validator.ValidateScope]
  apply Sound_bind_VERIFY_true _ _ _ _ _ ht
  show Sound self._currentFunction.name
    (Validator.ValidateScopeLoop { self with _scopes := self._scopes ++ [{ vars := [] }] }
      children >>= _)
  apply Sound_bind_next _ _ _ (ValidateScopeLoop_sound children ih
    self._currentFunction.name { self with _scopes := self._scopes ++ [{ vars := [] }] } rfl)
  intro s2 out h2
  exact Sound_pure _ _ _ h2
theorem ValidateVariableAssignment_sound (self : Validator) (kind : ExpressionKind) (type : Option Ty)
    (a b : Expression)
    (ha : ∀ self : Validator, Sound self._currentFunction.name (self.ValidateExpression a))
    (hb : ∀ self : Validator, Sound self._currentFunction.name (self.ValidateExpression b)) :
    Sound self._currentFunction.name
      (self.ValidateVariableAssignment kind type (.ExpressionChildren [a, b])) := by
  have hself : self._currentFunction.name = self._currentFunction.name := rfl
  rw [Validator.ValidateVariableAssignment]
  repeat (first
    | (apply Sound_pure; assumption)
    | (apply Sound_bind_next _ _ _ (Sound_at _ (by assumption) _ _ (by assumption)); intro _ _ _)
    | (apply Sound_bind_VERIFY _ _ (by assumption) _ _ _ (by decide); intro _)
    | (apply Sound_bind_plain _ _ _ (optional_value_library _); intro _)
    | (apply Sound_bind_plain _ _ _ (TypeIsSame_library _ _); intro _))

theorem ValidateArithmetic_sound (self : Validator) (kind : ExpressionKind) (type : Option Ty)
    (a b : Expression)
    (ha : ∀ self : Validator, Sound self._currentFunction.name (self.ValidateExpression a))
    (hb : ∀ self : Validator, Sound self._currentFunction.name (self.ValidateExpression b)) :
    Sound self._currentFunction.name
      (self.ValidateArithmetic kind type (.ExpressionChildren [a, b])) := by
  have hself : self._currentFunction.name = self._currentFunction.name := rfl
  rw [Validator.ValidateArithmetic]
  repeat (first
    | (apply Sound_pure; assumption)
    | (apply Sound_bind_next _ _ _ (Sound_at _ (by assumption) _ _ (by assumption)); intro _ _ _)
    | (apply Sound_bind_VERIFY _ _ (by assumption) _ _ _ (by decide); intro _)
    | (apply Sound_bind_plain _ _ _ (optional_value_library _); intro _)
    | (apply Sound_bind_plain _ _ _ (TypeIsSame_library _ _); intro _)
    | split)

theorem ValidateComparison_sound (self : Validator) (kind : ExpressionKind) (type : Option Ty)
    (a b : Expression)
    (ha : ∀ self : Validator, Sound self._currentFunction.name (self.ValidateExpression a))
    (hb : ∀ self : Validator, Sound self._currentFunction.name (self.ValidateExpression b)) :
    Sound self._currentFunction.name
      (self.ValidateComparison kind type (.ExpressionChildren [a, b])) := by
  have hself : self._currentFunction.name = self._currentFunction.name := rfl
  rw [Validator.ValidateComparison]
  repeat (first
    | (apply Sound_pure; assumption)
    | (apply Sound_bind_next _ _ _ (Sound_at _ (by assumption) _ _ (by assumption)); intro _ _ _)
    | (apply Sound_bind_VERIFY _ _ (by assumption) _ _ _ (by decide); intro _)
    | (apply Sound_bind_plain _ _ _ (optional_value_library _); intro _)
    | (apply Sound_bind_plain _ _ _ (TypeIsSame_library _ _); intro _))

theorem ValidateLogical_sound (self : Validator) (kind : ExpressionKind) (type : Option Ty)
    (a b : Expression)
    (ha : ∀ self : Validator, Sound self._currentFunction.name (self.ValidateExpression a))
    (hb : ∀ self : Validator, Sound self._currentFunction.name (self.ValidateExpression b)) :
    Sound self._currentFunction.name
      (self.ValidateLogical kind type (.ExpressionChildren [a, b])) := by
  have hself : self._currentFunction.name = self._currentFunction.name := rfl
  rw [Validator.ValidateLogical]
  repeat (first
    | (apply Sound_pure; assumption)
    | (apply Sound_bind_next _ _ _ (Sound_at _ (by assumption) _ _ (by assumption)); intro _ _ _)
    | (apply Sound_bind_VERIFY _ _ (by assumption) _ _ _ (by decide); intro _)
    | (apply Sound_bind_plain _ _ _ (optional_value_library _); intro _)
    | (apply Sound_bind_plain _ _ _ (TypeIsSame_library _ _); intro _))

theorem ValidateArraySubscript_sound (self : Validator) (kind : ExpressionKind) (type : Option Ty)
    (a b : Expression)
    (ha : ∀ self : Validator, Sound self._currentFunction.name (self.ValidateExpression a))
    (hb : ∀ self : Validator, Sound self._currentFunction.name (self.ValidateExpression b)) :
    Sound self._currentFunction.name
      (self.ValidateArraySubscript kind type (.ExpressionChildren [a, b])) := by
  have hself : self._currentFunction.name = self._currentFunction.name := rfl
  rw [Validator.ValidateArraySubscript]
  repeat (first
    | (apply Sound_error_library; rfl)
    | (apply Sound_pure; assumption)
    | (apply Sound_bind_next _ _ _ (Sound_at _ (by assumption) _ _ (by assumption)); intro _ _ _)
    | (apply Sound_bind_VERIFY _ _ (by assumption) _ _ _ (by decide); intro _)
    | (apply Sound_bind_plain _ _ _ (optional_value_library _); intro _)
    | split)

theorem ValidatePostInc_sound (self : Validator) (kind : ExpressionKind) (type : Option Ty)
    (a : Expression)
    (ha : ∀ self : Validator, Sound self._currentFunction.name (self.ValidateExpression a)) :
    Sound self._currentFunction.name
      (self.ValidatePostInc kind type (.ExpressionChildren [a])) := by
  have hself : self._currentFunction.name = self._currentFunction.name := rfl
  rw [Validator.ValidatePostInc]
  repeat (first
    | (apply Sound_pure; assumption)
    | (apply Sound_bind_next _ _ _ (Sound_at _ (by assumption) _ _ (by assumption)); intro _ _ _)
    | (apply Sound_bind_VERIFY _ _ (by assumption) _ _ _ (by decide); intro _)
    | (apply Sound_bind_plain _ _ _ (optional_value_library _); intro _))

theorem ValidatePointerDereference_sound (self : Validator) (kind : ExpressionKind) (type : Option Ty)
    (a : Expression)
    (ha : ∀ self : Validator, Sound self._currentFunction.name (self.ValidateExpression a)) :
    Sound self._currentFunction.name
      (self.ValidatePointerDereference kind type (.ExpressionChildren [a])) := by
  have hself : self._currentFunction.name = self._currentFunction.name := rfl
  rw [Validator.ValidatePointerDereference]
  repeat (first
    | (apply Sound_error _ _ (by assumption) _ (by decide))
    | (apply Sound_pure; assumption)
    | (apply Sound_bind_next _ _ _ (Sound_at _ (by assumption) _ _ (by assumption)); intro _ _ _)
    | (apply Sound_bind_VERIFY _ _ (by assumption) _ _ _ (by decide); intro _)
    | (apply Sound_bind_plain _ _ _ (optional_value_library _); intro _)
    | split)

theorem ValidateNegate_sound (self : Validator) (kind : ExpressionKind) (type : Option Ty)
    (a : Expression)
    (ha : ∀ self : Validator, Sound self._currentFunction.name (self.ValidateExpression a)) :
    Sound self._currentFunction.name
      (self.ValidateNegate kind type (.ExpressionChildren [a])) := by
  have hself : self._currentFunction.name = self._currentFunction.name := rfl
  rw [Validator.ValidateNegate]
  repeat (first
    | (apply Sound_pure; assumption)
    | (apply Sound_bind_next _ _ _ (Sound_at _ (by assumption) _ _ (by assumption)); intro _ _ _)
    | (apply Sound_bind_VERIFY _ _ (by assumption) _ _ _ (by decide); intro _)
    | (apply Sound_bind_plain _ _ _ (optional_value_library _); intro _)
    | (apply Sound_bind_plain _ _ _ (getInt64_library _); intro _))

theorem ValidateAddressOf_sound (self : Validator) (kind : ExpressionKind) (type : Option Ty)
    (a : Expression)
    (ha : ∀ self : Validator, Sound self._currentFunction.name (self.ValidateExpression a)) :
    Sound self._currentFunction.name
      (self.ValidateAddressOf kind type (.ExpressionChildren [a])) := by
  have hself : self._currentFunction.name = self._currentFunction.name := rfl
  rw [Validator.ValidateAddressOf]
  repeat (first
    | (apply Sound_pure; assumption)
    | (apply Sound_bind_next _ _ _ (Sound_at _ (by assumption) _ _ (by assumption)); intro _ _ _)
    | (apply Sound_bind_VERIFY _ _ (by assumption) _ _ _ (by decide); intro _)
    | (apply Sound_bind_plain _ _ _ (optional_value_library _); intro _))

theorem ValidateMemberAccess_sound (self : Validator) (kind : ExpressionKind) (type : Option Ty)
    (a b : Expression)
    (ha : ∀ self : Validator, Sound self._currentFunction.name (self.ValidateExpression a)) :
    Sound self._currentFunction.name
      (self.ValidateMemberAccess kind type (.ExpressionChildren [a, b])) := by
  have hself : self._currentFunction.name = self._currentFunction.name := rfl
  rw [Validator.ValidateMemberAccess]
  repeat (first
    | (apply Sound_error _ _ (by assumption) _ (by decide))
    | (apply Sound_pure; assumption)
    | (apply Sound_bind_next _ _ _ (Sound_at _ (by assumption) _ _ (by assumption)); intro _ _ _)
    | (apply Sound_bind_VERIFY _ _ (by assumption) _ _ _ (by decide); intro _)
    | (apply Sound_bind_VERIFY_member _ _ (by assumption); intro _)
    | (apply Sound_bind_plain _ _ _ (optional_value_library _); intro _)
    | (apply Sound_bind_plain _ _ _ (getString_library _); intro _)
    | split)

theorem ValidateReturn_sound_none (self : Validator) (kind : ExpressionKind) (type : Option Ty) :
    Sound self._currentFunction.name
      (self.ValidateReturn kind type (.ExpressionChildren [])) := by
  have hself : self._currentFunction.name = self._currentFunction.name := rfl
  rw [Validator.ValidateReturn]
  repeat (first
    | (apply Sound_pure; assumption)
    | (apply Sound_bind_VERIFY _ _ (by assumption) _ _ _ (by decide); intro _))

theorem ValidateReturn_sound_one (self : Validator) (kind : ExpressionKind) (type : Option Ty)
    (a : Expression)
    (ha : ∀ self : Validator, Sound self._currentFunction.name (self.ValidateExpression a)) :
    Sound self._currentFunction.name
      (self.ValidateReturn kind type (.ExpressionChildren [a])) := by
  have hself : self._currentFunction.name = self._currentFunction.name := rfl
  rw [Validator.ValidateReturn]
  repeat (first
    | (apply Sound_pure; assumption)
    | (apply Sound_bind_next _ _ _ (Sound_at _ (by assumption) _ _ (by assumption)); intro _ _ _)
    | (apply Sound_bind_VERIFY _ _ (by assumption) _ _ _ (by decide); intro _)
    | (apply Sound_bind_plain _ _ _ (optional_value_library _); intro _)
    | (apply Sound_bind_plain _ _ _ (TypeIsSame_library _ _); intro _))

theorem ValidateVariableDeclaration_sound (self : Validator) (kind : ExpressionKind) (type : Option Ty)
    (a b : Expression)
    (hk : (a.kind == .VARIABLE) = true)
    (ht : a.type.isSome = true)
    (hb : ∀ self : Validator, Sound self._currentFunction.name (self.ValidateExpression b)) :
    Sound self._currentFunction.name
      (self.ValidateVariableDeclaration kind type (.ExpressionChildren [a, b])) := by
  have hself : self._currentFunction.name = self._currentFunction.name := rfl
  rw [Validator.ValidateVariableDeclaration]
  apply Sound_bind_VERIFY_true _ _ _ _ _ hk
  apply Sound_bind_VERIFY_true _ _ _ _ _ ht
  repeat (first
    | (apply Sound_pure; assumption)
    | (apply Sound_bind_next _ _ _ (Sound_at _ (by assumption) _ _ (by assumption)); intro _ _ _)
    | (apply Sound_bind_assign _ _ (by assumption); intro _ _)
    | (apply Sound_bind_VERIFY _ _ (by assumption) _ _ _ (by decide); intro _)
    | (apply Sound_bind_plain _ _ _ (optional_value_library _); intro _)
    | (apply Sound_bind_plain _ _ _ (TypeIsSame_library _ _); intro _)
    | (apply Sound_bind_plain _ _ _ (getString_library _); intro _))

theorem ValidateConditionalLoop_sound (l : List Expression) :
    branchesShaped l = true →
    (∀ c ∈ l, c.isFresh = true → ∀ self : Validator,
      Sound self._currentFunction.name (self.ValidateExpression c)) →
    ∀ (name : String) (s1 : Validator), s1._currentFunction.name = name →
      Sound name (s1.ValidateConditionalLoop l) := by
  induction l using list_two_step with
  | h0 =>
    intro _ _ name s1 h
    rw [Validator.ValidateConditionalLoop]
    exact Sound_ok name s1 _ h
  | h1 c =>
    intro hb ih name s1 h
    obtain ⟨k, t, v⟩ := c
    have hk : (k == .SCOPE) = true := by simpa [branchesShaped, Expression.kind] using hb
    rw [Validator.ValidateConditionalLoop]
    apply Sound_bind_VERIFY_true _ _ _ _ _ hk
    apply Sound_bind_next _ _ _
      (Sound_at_scope k t v (ih _ (List.mem_singleton_self _) (isFresh_scope _ hk)) hk name s1 h)
    intro s2 b h2
    exact Sound_pure name s2 _ h2
  | h2 c d rest ihl =>
    intro hb ih name s1 h
    obtain ⟨k, t, v⟩ := d
    simp only [branchesShaped, Expression.kind, Bool.and_eq_true] at hb
    obtain ⟨⟨hc, hk⟩, hrest⟩ := hb
    rw [Validator.ValidateConditionalLoop]
    apply Sound_bind_next _ _ _ (Sound_at c (ih c (List.mem_cons_self _ _) hc) name s1 h)
    intro s2 c' h2
    apply Sound_bind_VERIFY _ _ h2 _ _ _ (by decide); intro _
    apply Sound_bind_plain _ _ _ (optional_value_library _); intro _
    apply Sound_bind_VERIFY _ _ h2 _ _ _ (by decide); intro _
    apply Sound_bind_VERIFY_true _ _ _ _ _ hk
    apply Sound_bind_next _ _ _
      (Sound_at_scope k t v (ih _ (by simp) (isFresh_scope _ hk)) hk name s2 h2)
    intro s3 b h3
    apply Sound_bind_next _ _ _
      (ihl hrest (fun x hx => ih x (by simp [hx])) name s3 h3)
    intro s4 r h4
    exact Sound_pure name s4 _ h4

theorem ValidateConditional_sound (self : Validator) (kind : ExpressionKind) (type : Option Ty)
    (condition body : Expression) (rest : List Expression)
    (hc : condition.isFresh = true) (hk : (body.kind == .SCOPE) = true)
    (hrest : branchesShaped rest = true)
    (ih : ∀ c ∈ condition :: body :: rest, c.isFresh = true → ∀ self : Validator,
      Sound self._currentFunction.name (self.ValidateExpression c)) :
    Sound self._currentFunction.name
      (self.ValidateConditional kind type (.ExpressionChildren (condition :: body :: rest))) := by
  obtain ⟨k, t, v⟩ := body
  rw [Validator.ValidateConditional]
  apply Sound_bind_next _ _ _
    (Sound_at condition (ih condition (List.mem_cons_self _ _) hc) _ self rfl)
  intro s2 c' h2
  apply Sound_bind_VERIFY _ _ h2 _ _ _ (by decide); intro _
  apply Sound_bind_plain _ _ _ (optional_value_library _); intro _
  apply Sound_bind_VERIFY _ _ h2 _ _ _ (by decide); intro _
  apply Sound_bind_VERIFY_true _ _ _ _ _ hk
  apply Sound_bind_next _ _ _
    (Sound_at_scope k t v (ih _ (by simp) (isFresh_scope _ hk)) hk _ s2 h2)
  intro s3 b h3
  apply Sound_bind_next _ _ _
    (ValidateConditionalLoop_sound rest hrest (fun x hx => ih x (by simp [hx])) _ s3 h3)
  intro s4 r h4
  exact Sound_pure _ s4 _ h4

theorem ValidateFunctionCallLoop_sound (l : List Expression)
    (ih : ∀ c ∈ l, ∀ self : Validator,
      Sound self._currentFunction.name (self.ValidateExpression c)) :
    ∀ (parameters : List FunctionArgument) (name : String) (s1 : Validator),
      s1._currentFunction.name = name →
      Sound name (s1.ValidateFunctionCallLoop parameters l) := by
  induction l with
  | nil =>
    intro parameters name s1 h
    cases parameters with
    | nil => rw [Validator.ValidateFunctionCallLoop]; exact Sound_ok name s1 _ h
    | cons p ps =>
      rw [Validator.ValidateFunctionCallLoop]
      exact Sound_error_library name _ rfl
  | cons c rest ihl =>
    intro parameters name s1 h
    cases parameters with
    | nil => rw [Validator.ValidateFunctionCallLoop]; exact Sound_ok name s1 _ h
    | cons p ps =>
      rw [Validator.ValidateFunctionCallLoop]
      apply Sound_bind_next _ _ _ (Sound_at c (ih c (List.mem_cons_self _ _)) name s1 h)
      intro s2 c' h2
      apply Sound_bind_VERIFY _ _ h2 _ _ _ (by decide); intro _
      apply Sound_bind_plain _ _ _ (optional_value_library _); intro _
      apply Sound_bind_plain _ _ _ (TypeIsSame_library _ _); intro _
      apply Sound_bind_VERIFY _ _ h2 _ _ _ (by decide); intro _
      apply Sound_bind_next _ _ _
        (ihl (fun d hd => ih d (List.mem_cons_of_mem _ hd)) ps name s2 h2)
      intro s3 r h3
      exact Sound_pure name s3 _ h3

theorem ValidateFunctionCall_sound (self : Validator) (kind : ExpressionKind) (type : Option Ty)
    (callee : Expression) (arguments : List Expression)
    (hk : (callee.kind == .CALLEE) = true)
    (ih : ∀ c ∈ arguments, ∀ self : Validator,
      Sound self._currentFunction.name (self.ValidateExpression c)) :
    Sound self._currentFunction.name
      (self.ValidateFunctionCall kind type (.ExpressionChildren (callee :: arguments))) := by
  obtain ⟨k, t, v⟩ := callee
  have hk' : k = .CALLEE := by simpa [Expression.kind] using hk
  subst hk'
  rw [Validator.ValidateFunctionCall]
  have hcallee : Validator.ValidateExpression self (.mk .CALLEE t v) =
      .ok (self, .mk .CALLEE t v) := by rw [Validator.ValidateExpression]
  rw [hcallee]
  apply Sound_bind_state _ _ _ (Sound_ok _ self _ rfl)
  intro s1 b hb h1
  injection hb with hb
  injection hb with hs hb
  subst hs hb
  apply Sound_bind_VERIFY_true _ _ _ _ _ (by rfl)
  apply Sound_bind_plain _ _ _ (getString_library _); intro callee
  split
  · exact Sound_error _ _ rfl _ (by decide)
  · apply Sound_bind_VERIFY _ _ rfl _ _ _ (by decide); intro _
    apply Sound_bind_next _ _ _ (ValidateFunctionCallLoop_sound arguments ih _ _ self rfl)
    intro s2 r h2
    exact Sound_pure _ s2 _ h2

theorem ValidateForLoop_sound (self : Validator) (kind : ExpressionKind) (type : Option Ty)
    (a b c d : Expression) (hk : (d.kind == .SCOPE) = true)
    (ha : ∀ self : Validator, Sound self._currentFunction.name (self.ValidateExpression a))
    (hb : ∀ self : Validator, Sound self._currentFunction.name (self.ValidateExpression b))
    (hc : ∀ self : Validator, Sound self._currentFunction.name (self.ValidateExpression c))
    (hd : ∀ self : Validator, Sound self._currentFunction.name (self.ValidateExpression d)) :
    Sound self._currentFunction.name
      (self.ValidateForLoop kind type (.ExpressionChildren [a, b, c, d])) := by
  rw [Validator.ValidateForLoop]
  apply Sound_bind_next _ _ _ (Sound_at a ha _ self rfl)
  intro s2 a' h2
  apply Sound_bind_next _ _ _ (Sound_at b hb _ s2 h2)
  intro s3 b' h3
  apply Sound_bind_VERIFY _ _ h3 _ _ _ (by decide); intro _
  apply Sound_bind_plain _ _ _ (optional_value_library _); intro _
  apply Sound_bind_VERIFY _ _ h3 _ _ _ (by decide); intro _
  apply Sound_bind_next _ _ _ (Sound_at c hc _ s3 h3)
  intro s4 c' h4
  apply Sound_bind_state _ _ _ (Sound_at d hd _ s4 h4)
  intro s5 d' hd' h5
  have hkind : d'.kind = .SCOPE :=
    (ValidateExpression_scope_kind s4 s5 d d' hd').mpr (by simpa using hk)
  apply Sound_bind_VERIFY_true _ _ _ _ _ (by simp [KindIsIn, hkind])
  exact Sound_pure _ s5 _ h5

theorem shapeOf_children (kind : ExpressionKind) (type : Option Ty) (value : ExpressionValue)
    (h : shapeOf kind type value = true) (h1 : kind ≠ .LITERAL)
    (h2 : ¬ (kind = .VARIABLE ∨ kind = .CALLEE ∨ kind = .CONTINUE ∨ kind = .BREAK)) :
    ∃ children, value = .ExpressionChildren children ∧
      childrenShaped kind type children = true := by
  unfold shapeOf at h
  rw [if_neg h1, if_neg h2] at h
  cases value with
  | ExpressionChildren children => exact ⟨children, rfl, h⟩
  | _ => cases h

theorem Proper_node (kind : ExpressionKind) (type : Option Ty) (children : List Expression)
    (hlit : kind ≠ .LITERAL)
    (hleaf : ¬ (kind = .VARIABLE ∨ kind = .CALLEE ∨ kind = .CONTINUE ∨ kind = .BREAK))
    (hc : childrenShaped kind type children = true)
    (child : ∀ c ∈ children, c.isFresh = true → ∀ self : Validator,
      Sound self._currentFunction.name (self.ValidateExpression c))
    (self : Validator) :
    Sound self._currentFunction.name
      (self.ValidateExpression (.mk kind type (.ExpressionChildren children))) := by
  cases kind <;> rw [Validator.ValidateExpression]
  case LITERAL => exact absurd rfl hlit
  case VARIABLE => exact absurd (Or.inl rfl) hleaf
  case CALLEE => exact absurd (Or.inr (Or.inl rfl)) hleaf
  case CONTINUE => exact absurd (Or.inr (Or.inr (Or.inl rfl))) hleaf
  case BREAK => exact absurd (Or.inr (Or.inr (Or.inr rfl))) hleaf
  case SCOPE =>
    simp only [childrenShaped, Bool.and_eq_true, List.all_eq_true] at hc
    exact ValidateScope_sound _ _ _ _ hc.1 (fun c hcm => child c hcm (hc.2 c hcm))
  case RETURN =>
    simp only [childrenShaped, Bool.and_eq_true, List.all_eq_true, decide_eq_true_eq] at hc
    rcases children with _ | ⟨a, _ | ⟨b, rest⟩⟩
    · exact ValidateReturn_sound_none _ _ _
    · exact ValidateReturn_sound_one _ _ _ _
        (child a (List.mem_singleton_self _) (hc.2 a (List.mem_singleton_self _)))
    · exact absurd hc.1 (by simp)
  case VARIABLE_DECLARATION =>
    rcases children with _ | ⟨a, _ | ⟨b, _ | ⟨c, rest⟩⟩⟩ <;>
      simp only [childrenShaped, Bool.and_eq_true, Bool.false_eq_true] at hc
    exact ValidateVariableDeclaration_sound _ _ _ _ _ hc.1.1 hc.1.2 (child b (by simp) hc.2)
  case CONDITIONAL =>
    rcases children with _ | ⟨a, _ | ⟨b, rest⟩⟩ <;>
      simp only [childrenShaped, Bool.and_eq_true, Bool.false_eq_true] at hc
    exact ValidateConditional_sound _ _ _ _ _ _ hc.1.1 hc.1.2 hc.2 child
  case FOR_LOOP =>
    rcases children with _ | ⟨a, _ | ⟨b, _ | ⟨c, _ | ⟨d, _ | ⟨e, rest⟩⟩⟩⟩⟩ <;>
      simp only [childrenShaped, Bool.and_eq_true, Bool.false_eq_true] at hc
    exact ValidateForLoop_sound _ _ _ _ _ _ _ hc.2
      (child a (by simp) hc.1.1.1) (child b (by simp) hc.1.1.2) (child c (by simp) hc.1.2)
      (child d (by simp) (isFresh_scope _ hc.2))
  case FUNCTION_CALL =>
    rcases children with _ | ⟨a, arguments⟩ <;>
      simp only [childrenShaped, Bool.and_eq_true, Bool.false_eq_true, List.all_eq_true] at hc
    exact ValidateFunctionCall_sound _ _ _ _ _ hc.1
      (fun c hcm => child c (List.mem_cons_of_mem _ hcm) (hc.2 c hcm))
  case MEMBER_ACCESS =>
    rcases children with _ | ⟨a, _ | ⟨b, _ | ⟨c, rest⟩⟩⟩ <;>
      simp only [childrenShaped, Bool.false_eq_true] at hc
    exact ValidateMemberAccess_sound _ _ _ _ _ (child a (by simp) hc)
  case VARIABLE_ASSIGNMENT =>
    rcases children with _ | ⟨a, _ | ⟨b, _ | ⟨c, rest⟩⟩⟩ <;>
      simp only [childrenShaped, Bool.and_eq_true, Bool.false_eq_true] at hc
    exact ValidateVariableAssignment_sound _ _ _ _ _ (child a (by simp) hc.1) (child b (by simp) hc.2)
  case PLUS_OP =>
    rcases children with _ | ⟨a, _ | ⟨b, _ | ⟨c, rest⟩⟩⟩ <;>
      simp only [childrenShaped, Bool.and_eq_true, Bool.false_eq_true] at hc
    exact ValidateArithmetic_sound _ _ _ _ _ (child a (by simp) hc.1) (child b (by simp) hc.2)
  case MINUS_OP =>
    rcases children with _ | ⟨a, _ | ⟨b, _ | ⟨c, rest⟩⟩⟩ <;>
      simp only [childrenShaped, Bool.and_eq_true, Bool.false_eq_true] at hc
    exact ValidateArithmetic_sound _ _ _ _ _ (child a (by simp) hc.1) (child b (by simp) hc.2)
  case DIVIDE_OP =>
    rcases children with _ | ⟨a, _ | ⟨b, _ | ⟨c, rest⟩⟩⟩ <;>
      simp only [childrenShaped, Bool.and_eq_true, Bool.false_eq_true] at hc
    exact ValidateArithmetic_sound _ _ _ _ _ (child a (by simp) hc.1) (child b (by simp) hc.2)
  case MULTIPLY_OP =>
    rcases children with _ | ⟨a, _ | ⟨b, _ | ⟨c, rest⟩⟩⟩ <;>
      simp only [childrenShaped, Bool.and_eq_true, Bool.false_eq_true] at hc
    exact ValidateArithmetic_sound _ _ _ _ _ (child a (by simp) hc.1) (child b (by simp) hc.2)
  case GREATER_THAN_OP =>
    rcases children with _ | ⟨a, _ | ⟨b, _ | ⟨c, rest⟩⟩⟩ <;>
      simp only [childrenShaped, Bool.and_eq_true, Bool.false_eq_true] at hc
    exact ValidateComparison_sound _ _ _ _ _ (child a (by simp) hc.1) (child b (by simp) hc.2)
  case LESS_THAN_OP =>
    rcases children with _ | ⟨a, _ | ⟨b, _ | ⟨c, rest⟩⟩⟩ <;>
      simp only [childrenShaped, Bool.and_eq_true, Bool.false_eq_true] at hc
    exact ValidateComparison_sound _ _ _ _ _ (child a (by simp) hc.1) (child b (by simp) hc.2)
  case EQUAL_OP =>
    rcases children with _ | ⟨a, _ | ⟨b, _ | ⟨c, rest⟩⟩⟩ <;>
      simp only [childrenShaped, Bool.and_eq_true, Bool.false_eq_true] at hc
    exact ValidateComparison_sound _ _ _ _ _ (child a (by simp) hc.1) (child b (by simp) hc.2)
  case NOT_EQUAL_OP =>
    rcases children with _ | ⟨a, _ | ⟨b, _ | ⟨c, rest⟩⟩⟩ <;>
      simp only [childrenShaped, Bool.and_eq_true, Bool.false_eq_true] at hc
    exact ValidateComparison_sound _ _ _ _ _ (child a (by simp) hc.1) (child b (by simp) hc.2)
  case LOGICAL_AND =>
    rcases children with _ | ⟨a, _ | ⟨b, _ | ⟨c, rest⟩⟩⟩ <;>
      simp only [childrenShaped, Bool.and_eq_true, Bool.false_eq_true] at hc
    exact ValidateLogical_sound _ _ _ _ _ (child a (by simp) hc.1) (child b (by simp) hc.2)
  case LOGICAL_OR =>
    rcases children with _ | ⟨a, _ | ⟨b, _ | ⟨c, rest⟩⟩⟩ <;>
      simp only [childrenShaped, Bool.and_eq_true, Bool.false_eq_true] at hc
    exact ValidateLogical_sound _ _ _ _ _ (child a (by simp) hc.1) (child b (by simp) hc.2)
  case ARRAY_SUBSCRIPT =>
    rcases children with _ | ⟨a, _ | ⟨b, _ | ⟨c, rest⟩⟩⟩ <;>
      simp only [childrenShaped, Bool.and_eq_true, Bool.false_eq_true] at hc
    exact ValidateArraySubscript_sound _ _ _ _ _ (child a (by simp) hc.1) (child b (by simp) hc.2)
  case POST_INC_OP =>
    rcases children with _ | ⟨a, _ | ⟨b, rest⟩⟩ <;>
      simp only [childrenShaped, Bool.false_eq_true] at hc
    exact ValidatePostInc_sound _ _ _ _ (child a (by simp) hc)
  case POINTER_DEREFERENCE =>
    rcases children with _ | ⟨a, _ | ⟨b, rest⟩⟩ <;>
      simp only [childrenShaped, Bool.false_eq_true] at hc
    exact ValidatePointerDereference_sound _ _ _ _ (child a (by simp) hc)
  case NEGATE =>
    rcases children with _ | ⟨a, _ | ⟨b, rest⟩⟩ <;>
      simp only [childrenShaped, Bool.false_eq_true] at hc
    exact ValidateNegate_sound _ _ _ _ (child a (by simp) hc)
  case ADDRESS_OF =>
    rcases children with _ | ⟨a, _ | ⟨b, rest⟩⟩ <;>
      simp only [childrenShaped, Bool.false_eq_true] at hc
    exact ValidateAddressOf_sound _ _ _ _ (child a (by simp) hc)

/-- The validation of a shaped and fresh expression fails with no check of the shape but
the one of the index of a MemberAccess. -/
theorem all_Proper : ∀ e, Proper e := by
  apply Expression.induction
  intro kind type value ih hs hf self
  rw [shaped_mk, Bool.and_eq_true] at hs
  obtain ⟨hshape, hval⟩ := hs
  by_cases hlit : kind = .LITERAL
  · subst hlit
    rw [Validator.ValidateExpression]
    exact ValidateLiteral_sound _ _ (by simpa [shapeOf] using hshape)
  by_cases hleaf : kind = .VARIABLE ∨ kind = .CALLEE ∨ kind = .CONTINUE ∨ kind = .BREAK
  · rcases hleaf with rfl | rfl | rfl | rfl <;> rw [Validator.ValidateExpression]
    · exact ValidateVariable_sound _ _ _ hf
    · exact Sound_ok _ _ _ rfl
    · exact Sound_ok _ _ _ rfl
    · exact Sound_ok _ _ _ rfl
  obtain ⟨children, rfl, hc⟩ := shapeOf_children _ _ _ hshape hlit hleaf
  rw [shaped_of_children] at hval
  exact Proper_node kind type children hlit hleaf hc (Proper_child children ih hval) self

/-- The validation of a function whose body is a shaped Scope fails with no check of the
shape but the one of the index of a MemberAccess. -/
theorem ValidateFunction_sound (self : Validator) (function : Function)
    (hk : function.body.kind = .SCOPE) (hs : function.body.shaped = true) (ex : Exception)
    (h : self.ValidateFunction function = .error ex) :
    ShapeFailure function.prototype.name ex →
      ex = memberIndexReport function.prototype.name := by
  unfold Validator.ValidateFunction at h
  have hk' : (function.body.kind == .SCOPE) = true := by simp [hk]
  have step : Sound function.prototype.name
      (Validator.ValidateExpression
        { _currentFunction := function.prototype
          _scopes := self._scopes ++ [functionScopeOf function.prototype.arguments { vars := [] }]
          _definedFunctions :=
            self._definedFunctions.assign function.prototype.name function.prototype }
        function.body) :=
    Sound_at function.body
      (all_Proper function.body hs (isFresh_scope _ hk')) _ _ rfl
  simp only [hk', VERIFY_true, bind_ok, bind_eq_error, pure, Except.pure, Prod.exists] at h
  rcases h with h | ⟨s, body, -, h⟩
  · exact step.failure ex h
  · cases h

/-! ## The parser builds shaped trees -/

theorem Fueled.Builds_none {α : Type} (P : α → Prop) : Fueled.Builds P none :=
  ⟨fun _ h => by cases h⟩

theorem Fueled.Builds_throw {α : Type} (P : α → Prop) (e : Exception) :
    Fueled.Builds P (throw e) :=
  ⟨fun _ h => by cases h⟩

theorem Fueled.Builds_return {α : Type} {P : α → Prop} {a : α} (h : P a) :
    Fueled.Builds P (pure a) :=
  ⟨fun b e => by cases e; exact h⟩

theorem Fueled.Builds_bind {α β : Type} {P : α → Prop} (Q : β → Prop) {x : Fueled β}
    {f : β → Fueled α} (hx : Fueled.Builds Q x) (hf : ∀ b, Q b → Fueled.Builds P (f b)) :
    Fueled.Builds P (x >>= f) := by
  constructor
  intro a h
  rw [Fueled.ok_of_bind] at h
  obtain ⟨b, hb, ha⟩ := h
  exact (hf b (hx.out b hb)).out a ha

theorem Fueled.Builds_ite {α : Type} {P : α → Prop} {c : Prop} [Decidable c]
    {x y : Fueled α} (hx : Fueled.Builds P x) (hy : Fueled.Builds P y) :
    Fueled.Builds P (if c then x else y) := by
  split
  · exact hx
  · exact hy

theorem Fueled.Builds_lift {α : Type} {P : α → Prop} (x : Except Exception α)
    (hx : ∀ a, x = .ok a → P a) : Fueled.Builds P (liftM x) :=
  ⟨fun a h => hx a (Fueled.some_inj.mp h)⟩

theorem Fueled.Builds_bind_lift {α β : Type} {P : α → Prop}
    (x : Except Exception β) {f : β → Fueled α} (hf : ∀ b, Fueled.Builds P (f b)) :
    Fueled.Builds P (liftM x >>= f) := by
  constructor
  intro a h
  rw [Fueled.ok_of_bind] at h
  obtain ⟨b, -, ha⟩ := h
  exact (hf b).out a ha

theorem Fueled.Builds_bind_lift_of {α β : Type} {P : α → Prop} (Q : β → Prop)
    (x : Except Exception β) {f : β → Fueled α} (hx : ∀ b, x = .ok b → Q b)
    (hf : ∀ b, Q b → Fueled.Builds P (f b)) :
    Fueled.Builds P (liftM x >>= f) :=
  Fueled.Builds_bind Q (Fueled.Builds_lift x hx) hf

theorem shapedList_append (a b : List Expression) :
    Expression.shapedList (a ++ b) = (Expression.shapedList a && Expression.shapedList b) := by
  induction a with
  | nil => simp [shapedList_nil]
  | cons e rest ih => rw [List.cons_append, shapedList_cons, shapedList_cons, ih, Bool.and_assoc]

theorem branchesShaped_append : ∀ (l tail : List Expression), pairsShaped l = true →
    branchesShaped (l ++ tail) = branchesShaped tail := by
  intro l
  induction l using list_two_step with
  | h0 => intro tail _; rfl
  | h1 a => intro tail h; simp [pairsShaped] at h
  | h2 a b rest ih =>
    intro tail h
    simp only [pairsShaped, Bool.and_eq_true] at h
    rw [List.cons_append, List.cons_append, branchesShaped, ih tail h.2, h.1.1, h.1.2]
    rfl

theorem branchesShaped_of_pairs (l : List Expression) (h : pairsShaped l = true) :
    branchesShaped l = true := by
  have := branchesShaped_append l [] h
  rw [List.append_nil] at this
  rw [this]
  rfl

theorem good_iff (e : Expression) : e.good = true ↔ e.shaped = true ∧ e.isFresh = true := by
  rw [Expression.good, Bool.and_eq_true]

theorem goodList_iff (l : List Expression) :
    goodList l = true ↔ Expression.shapedList l = true ∧ ∀ e ∈ l, e.isFresh = true := by
  rw [goodList, Bool.and_eq_true, List.all_eq_true]

theorem isFresh_mk (kind : ExpressionKind) (type : Option Ty) (value : ExpressionValue)
    (h : kind ≠ .VARIABLE) : (Expression.mk kind type value).isFresh = true :=
  isFresh_of_kind _ h

/-- A node is `good` when it is no Variable, has the shape of its kind and its children are
shaped. -/
theorem good_node (kind : ExpressionKind) (type : Option Ty) (children : List Expression)
    (hk : kind ≠ .VARIABLE) (hs : shapeOf kind type (.ExpressionChildren children) = true)
    (hl : Expression.shapedList children = true) :
    (Expression.mk kind type (.ExpressionChildren children)).good = true := by
  rw [good_iff, shaped_mk, shaped_of_children, hs, hl]
  exact ⟨rfl, isFresh_mk _ _ _ hk⟩

theorem good_leaf (kind : ExpressionKind) (type : Option Ty) (value : ExpressionValue)
    (hk : kind ≠ .VARIABLE) (hs : shapeOf kind type value = true)
    (hv : value.shaped = true) :
    (Expression.mk kind type value).good = true := by
  rw [good_iff, shaped_mk, hs, hv]
  exact ⟨rfl, isFresh_mk _ _ _ hk⟩

theorem good_variable (name : String) :
    (Expression.mk .VARIABLE none (.string name)).good = true := by
  rw [good_iff, shaped_mk]
  exact ⟨rfl, rfl⟩

theorem good_pair (kind : ExpressionKind) (a b : Expression)
    (hk : childrenShaped kind none [a, b] = (a.isFresh && b.isFresh))
    (h1 : kind ≠ .VARIABLE) (h2 : kind ≠ .LITERAL)
    (h3 : ¬ (kind = .VARIABLE ∨ kind = .CALLEE ∨ kind = .CONTINUE ∨ kind = .BREAK))
    (ha : a.good = true) (hb : b.good = true) :
    (Expression.mk kind none (.ExpressionChildren [a, b])).good = true := by
  rw [good_iff] at ha hb
  apply good_node _ _ _ h1
  · rw [shapeOf, if_neg h2, if_neg h3]
    show childrenShaped kind none [a, b] = true
    rw [hk, ha.2, hb.2]
    rfl
  · rw [shapedList_cons, shapedList_cons, shapedList_nil, ha.1, hb.1]
    rfl

theorem good_single (kind : ExpressionKind) (a : Expression)
    (hk : childrenShaped kind none [a] = a.isFresh)
    (h1 : kind ≠ .VARIABLE) (h2 : kind ≠ .LITERAL)
    (h3 : ¬ (kind = .VARIABLE ∨ kind = .CALLEE ∨ kind = .CONTINUE ∨ kind = .BREAK))
    (ha : a.good = true) :
    (Expression.mk kind none (.ExpressionChildren [a])).good = true := by
  rw [good_iff] at ha
  apply good_node _ _ _ h1
  · rw [shapeOf, if_neg h2, if_neg h3]
    show childrenShaped kind none [a] = true
    rw [hk, ha.2]
  · rw [shapedList_cons, shapedList_nil, ha.1]
    rfl

theorem switch_good (op : TokenType) (LHS RHS : Expression) (hL : LHS.good = true)
    (hR : RHS.good = true) :
    ∀ e, Parser.ParseExpressionRHS.switch op LHS RHS = .ok e → e.good = true := by
  intro e h
  unfold Parser.ParseExpressionRHS.switch at h
  split at h <;> first
    | (simp only [Parser.BuildArithmeticExpression, Parser.BuildComparisonExpression,
        Parser.BuildLogicalExpression, Parser.BuildAssignmentExpression] at h
       cases h
       exact good_pair _ _ _ rfl (by decide) (by decide) (by decide) hL hR)
    | cases h

theorem applyPrefixes_good : ∀ (unaryPrefixes : List TokenType) (operand : Expression),
    operand.good = true →
    ∀ e, Parser.ParseUnary.applyPrefixes unaryPrefixes operand = .ok e → e.good = true := by
  intro unaryPrefixes
  induction unaryPrefixes with
  | nil =>
    intro operand h e he
    rw [Parser.ParseUnary.applyPrefixes] at he
    cases he
    exact h
  | cons op rest ih =>
    intro operand h e he
    rw [Parser.ParseUnary.applyPrefixes] at he
    split at he
    · exact ih _ (good_single .POINTER_DEREFERENCE operand rfl (by decide) (by decide)
        (by decide) h) e he
    · split at he
      · exact ih _ (good_single .NEGATE operand rfl (by decide) (by decide) (by decide) h) e he
      · split at he
        · exact ih _ (good_single .ADDRESS_OF operand rfl (by decide) (by decide)
            (by decide) h) e he
        · cases he

theorem applySuffix_good (front : TokenType ⊕ Expression)
    (unarySuffixes : List (TokenType ⊕ Expression)) (operand : Expression)
    (h : operand.good = true) (hl : goodEntries (front :: unarySuffixes) = true) :
    ∀ r, Parser.ParseUnary.applySuffix front unarySuffixes operand = .ok r →
      r.2.good = true ∧ goodEntries r.1 = true := by
  intro r hr
  unfold Parser.ParseUnary.applySuffix at hr
  split at hr
  · cases hr
  · rw [goodEntries] at hl
    split at hr
    · cases hr
      exact ⟨good_single _ _ rfl (by decide) (by decide) (by decide) h, hl⟩
    · split at hr
      · split at hr
        · cases hr
        · cases hr
        · split at hr
          · cases hr
          · cases hr
          · split at hr
            · cases hr
            · cases hr
              simp only [goodEntries, Bool.and_eq_true] at hl
              exact ⟨good_pair _ _ _ rfl (by decide) (by decide) (by decide) h hl.1, hl.2⟩
      · split at hr
        · split at hr
          · cases hr
          · cases hr
          · cases hr
            simp only [goodEntries, Bool.and_eq_true] at hl
            rw [good_iff] at h
            refine ⟨good_node _ _ _ (by decide) ?_ ?_, hl.2⟩
            · exact h.2
            · rw [shapedList_cons, shapedList_cons, shapedList_nil, h.1,
                ((good_iff _).mp hl.1).1]
              rfl
        · cases hr

theorem applySuffixes_good : ∀ (fuel : Nat) (unarySuffixes : List (TokenType ⊕ Expression))
    (operand : Expression), operand.good = true → goodEntries unarySuffixes = true →
    Fueled.Builds (fun e => e.good = true)
      (Parser.ParseUnary.applySuffixes fuel unarySuffixes operand) := by
  intro fuel
  induction fuel with
  | zero =>
    intro l operand _ _
    rw [Parser.ParseUnary.applySuffixes]
    exact Fueled.Builds_none _
  | succ fuel ih =>
    intro l operand h hl
    cases l with
    | nil =>
      rw [Parser.ParseUnary.applySuffixes]
      exact Fueled.Builds_return h
    | cons front rest =>
      rw [Parser.ParseUnary.applySuffixes]
      refine Fueled.Builds_bind_lift_of _ _ (applySuffix_good front rest operand h hl) ?_
      rintro ⟨rest', operand'⟩ ⟨h1, h2⟩
      exact ih rest' operand' h1 h2

theorem goodList_nil : goodList [] = true := rfl

theorem goodList_cons (e : Expression) (l : List Expression) (he : e.good = true)
    (hl : goodList l = true) : goodList (e :: l) = true := by
  rw [goodList_iff] at hl ⊢
  rw [good_iff] at he
  rw [shapedList_cons, he.1, hl.1]
  refine ⟨rfl, ?_⟩
  intro c hc
  rcases List.mem_cons.mp hc with rfl | hc
  · exact he.2
  · exact hl.2 c hc

theorem goodList_single (e : Expression) (he : e.good = true) : goodList [e] = true :=
  goodList_cons e [] he goodList_nil

theorem goodScope_iff (e : Expression) :
    e.goodScope = true ↔ e.shaped = true ∧ (e.kind == .SCOPE) = true ∧ e.type = none := by
  rw [Expression.goodScope, Bool.and_eq_true, Bool.and_eq_true]
  cases e.type <;> simp [and_assoc]

theorem good_of_goodScope (e : Expression) (h : e.goodScope = true) : e.good = true := by
  rw [goodScope_iff] at h
  rw [good_iff]
  exact ⟨h.1, isFresh_scope e h.2.1⟩

theorem good_scope_of (body : List Expression) (h : goodList body = true) :
    (Expression.mk .SCOPE none (.ExpressionChildren body)).goodScope = true := by
  rw [goodList_iff] at h
  rw [goodScope_iff, shaped_mk, shaped_of_children, h.1]
  refine ⟨?_, rfl, rfl⟩
  rw [Bool.and_true]
  show (true && body.all Expression.isFresh) = true
  rw [Bool.true_and, List.all_eq_true]
  exact h.2

theorem good_indent (scope : Expression) (h : scope.goodScope = true) :
    (Expression.mk .SCOPE scope.type (.ExpressionChildren [scope])).good = true := by
  have hg := good_of_goodScope scope h
  rw [goodScope_iff] at h
  rw [h.2.2]
  exact good_of_goodScope _ (good_scope_of [scope] (goodList_single scope hg))

theorem good_return_none :
    (Expression.mk .RETURN none (.ExpressionChildren [])).good = true := rfl

theorem good_return_one (e : Expression) (h : e.good = true) :
    (Expression.mk .RETURN none (.ExpressionChildren [e])).good = true := by
  rw [good_iff] at h
  apply good_node _ _ _ (by decide)
  · show (decide ([e].length ≤ 1) && [e].all Expression.isFresh) = true
    simp [h.2]
  · rw [shapedList_cons, shapedList_nil, h.1]
    rfl

theorem pairs_nil :
    Expression.shapedList [] = true ∧ pairsShaped [] = true := ⟨shapedList_nil, rfl⟩

theorem pairs_cons (c b : Expression) (rest : List Expression) (hc : c.good = true)
    (hb : b.goodScope = true)
    (hr : Expression.shapedList rest = true ∧ pairsShaped rest = true) :
    Expression.shapedList (c :: b :: rest) = true ∧ pairsShaped (c :: b :: rest) = true := by
  rw [good_iff] at hc
  rw [goodScope_iff] at hb
  rw [shapedList_cons, shapedList_cons, hc.1, hb.1, hr.1, pairsShaped, hc.2, hb.2.1, hr.2]
  exact ⟨rfl, rfl⟩

theorem good_conditional (c t : Expression) (elifs : List Expression) (hc : c.good = true)
    (ht : t.goodScope = true)
    (he : Expression.shapedList elifs = true ∧ pairsShaped elifs = true) :
    (Expression.mk .CONDITIONAL none (.ExpressionChildren (c :: t :: elifs))).good = true := by
  rw [good_iff] at hc
  rw [goodScope_iff] at ht
  apply good_node _ _ _ (by decide)
  · show (c.isFresh && t.kind == .SCOPE && branchesShaped elifs) = true
    rw [hc.2, ht.2.1, branchesShaped_of_pairs elifs he.2]
    rfl
  · rw [shapedList_cons, shapedList_cons, hc.1, ht.1, he.1]
    rfl

theorem good_conditional_else (c t : Expression) (elifs : List Expression)
    (elseBody : Expression) (hc : c.good = true) (ht : t.goodScope = true)
    (he : Expression.shapedList elifs = true ∧ pairsShaped elifs = true)
    (hb : elseBody.goodScope = true) :
    (Expression.mk .CONDITIONAL none
      (.ExpressionChildren (c :: t :: elifs ++ [elseBody]))).good = true := by
  rw [good_iff] at hc
  rw [goodScope_iff] at ht hb
  rw [List.cons_append, List.cons_append]
  apply good_node _ _ _ (by decide)
  · show (c.isFresh && t.kind == .SCOPE && branchesShaped (elifs ++ [elseBody])) = true
    rw [hc.2, ht.2.1, branchesShaped_append elifs _ he.2, branchesShaped, hb.2.1]
    rfl
  · rw [shapedList_cons, shapedList_cons, shapedList_append, shapedList_cons, shapedList_nil,
      hc.1, ht.1, he.1, hb.1]
    rfl

theorem good_for (a b c d : Expression) (ha : a.good = true) (hb : b.good = true)
    (hc : c.good = true) (hd : d.goodScope = true) :
    (Expression.mk .FOR_LOOP none (.ExpressionChildren [a, b, c, d])).good = true := by
  rw [good_iff] at ha hb hc
  rw [goodScope_iff] at hd
  apply good_node _ _ _ (by decide)
  · show (a.isFresh && b.isFresh && c.isFresh && d.kind == .SCOPE) = true
    rw [ha.2, hb.2, hc.2, hd.2.1]
    rfl
  · rw [shapedList_cons, shapedList_cons, shapedList_cons, shapedList_cons, shapedList_nil,
      ha.1, hb.1, hc.1, hd.1]
    rfl

theorem good_declaration (type : Ty) (name : String) (e : Expression) (h : e.good = true) :
    (Expression.mk .VARIABLE_DECLARATION none
      (.ExpressionChildren [Expression.mk .VARIABLE (some type) (.string name), e])).good =
        true := by
  rw [good_iff] at h
  apply good_node _ _ _ (by decide)
  · show ((Expression.mk .VARIABLE (some type) (.string name)).kind == .VARIABLE &&
      (Expression.mk .VARIABLE (some type) (.string name)).type.isSome && e.isFresh) = true
    rw [h.2]
    rfl
  · rw [shapedList_cons, shapedList_cons, shapedList_nil, h.1, shaped_mk]
    rfl

theorem good_call (callee : String) (arguments : List Expression)
    (h : goodList arguments = true) :
    (Expression.mk .FUNCTION_CALL none
      (.ExpressionChildren ([Expression.mk .CALLEE none (.string callee)] ++ arguments))).good =
        true := by
  rw [goodList_iff] at h
  rw [List.singleton_append]
  apply good_node _ _ _ (by decide)
  · show ((Expression.mk .CALLEE none (.string callee)).kind == .CALLEE &&
      arguments.all Expression.isFresh) = true
    rw [List.all_eq_true.mpr h.2]
    rfl
  · rw [shapedList_cons, h.1, shaped_mk]
    rfl

theorem good_call_none (callee : String) :
    (Expression.mk .FUNCTION_CALL none
      (.ExpressionChildren [Expression.mk .CALLEE none (.string callee)])).good = true :=
  good_call callee [] goodList_nil

theorem good_literal (type : Ty) (value : ExpressionValue) (h : value.shaped = true) :
    (Expression.mk .LITERAL (some type) value).good = true :=
  good_leaf _ _ _ (by decide) rfl h

theorem good_literal_list (type : Ty) (elements : List Expression)
    (h : goodList elements = true) :
    (Expression.mk .LITERAL (some type) (.ExpressionChildren elements)).good = true := by
  rw [goodList_iff] at h
  exact good_literal _ _ (by rw [shaped_of_children]; exact h.1)

theorem ParseIntegerLiteral_good (self : Parser) :
    ∀ r, self.ParseIntegerLiteral = .ok r → r.1.good = true := by
  rintro ⟨e, s⟩ h
  unfold Parser.ParseIntegerLiteral at h
  simp only [bind_eq_ok] at h
  obtain ⟨current, -, value, -, h⟩ := h
  split at h
  · cases h
  · split at h
    · simp only [bind_eq_ok, pure_eq_ok, Prod.mk.injEq] at h
      obtain ⟨s1, -, rfl, -⟩ := h
      exact good_literal _ _ rfl
    · cases h

theorem ParseUnsignedIntegerLiteral_good (self : Parser) :
    ∀ r, self.ParseUnsignedIntegerLiteral = .ok r → r.1.good = true := by
  rintro ⟨e, s⟩ h
  unfold Parser.ParseUnsignedIntegerLiteral at h
  simp only [bind_eq_ok] at h
  obtain ⟨current, -, value, -, h⟩ := h
  split at h
  · cases h
  · split at h
    · simp only [bind_eq_ok, pure_eq_ok, Prod.mk.injEq] at h
      obtain ⟨s1, -, rfl, -⟩ := h
      exact good_literal _ _ rfl
    · cases h

theorem ParseCharacterLiteral_good (self : Parser) :
    ∀ r, self.ParseCharacterLiteral = .ok r → r.1.good = true := by
  rintro ⟨e, s⟩ h
  unfold Parser.ParseCharacterLiteral at h
  simp only [bind_eq_ok] at h
  obtain ⟨current, -, value, -, s1, -, h⟩ := h
  split at h
  · cases h
  · simp only [pure_eq_ok, Prod.mk.injEq] at h
    obtain ⟨rfl, -⟩ := h
    exact good_literal _ _ rfl

theorem ParseStringLiteral_good (self : Parser) :
    ∀ r, self.ParseStringLiteral = .ok r → r.1.good = true := by
  rintro ⟨e, s⟩ h
  unfold Parser.ParseStringLiteral at h
  simp only [bind_eq_ok, pure_eq_ok, Prod.mk.injEq] at h
  obtain ⟨current, -, value, -, s1, -, rfl, -⟩ := h
  exact good_literal _ _ rfl

theorem ParseContinue_good (self : Parser) :
    ∀ r, self.ParseContinue = .ok r → r.1.good = true := by
  rintro ⟨e, s⟩ h
  unfold Parser.ParseContinue at h
  simp only [bind_eq_ok, pure_eq_ok, Prod.mk.injEq] at h
  obtain ⟨s1, -, rfl, -⟩ := h
  rfl

theorem ParseBreak_good (self : Parser) :
    ∀ r, self.ParseBreak = .ok r → r.1.good = true := by
  rintro ⟨e, s⟩ h
  unfold Parser.ParseBreak at h
  simp only [bind_eq_ok, pure_eq_ok, Prod.mk.injEq] at h
  obtain ⟨s1, -, rfl, -⟩ := h
  rfl

theorem ParseUnary_shapes (fuel : Nat) (self : Parser) (ih : Parser.Shapes fuel) :
    Fueled.Builds (fun r => r.1.good = true) (Parser.ParseUnary (fuel + 1) self) := by
  constructor
  rintro ⟨e, s⟩ h
  rw [Parser.ParseUnary] at h
  simp only [Fueled.ok_of_bind, Fueled.monadLift_eq, Fueled.some_inj, Fueled.pure_eq,
    Except.ok.injEq, Prod.mk.injEq] at h
  obtain ⟨⟨ps, toks⟩, hp, ⟨operand, s2⟩, hprimary, ⟨suffixes, s3⟩, hloop, o1, h1, o2, h2,
    rfl, -⟩ := h
  have g1 : operand.good = true := (ih.ParsePrimary _).out _ hprimary
  have g2 : goodEntries suffixes = true := (ih.ParseUnaryLoop _).out _ hloop
  have g3 : o1.good = true := (applySuffixes_good fuel suffixes operand g1 g2).out o1 h1
  exact applyPrefixes_good _ o1 g3 _ h2

theorem goodEntries_nil : goodEntries [] = true := rfl

theorem goodEntries_plain (op : TokenType) (rest : List (TokenType ⊕ Expression))
    (h : goodEntries rest = true) : goodEntries (.inl op :: rest) = true := by
  rw [goodEntries]
  exact h

theorem goodEntries_dot (op : TokenType) (field : Expression)
    (rest : List (TokenType ⊕ Expression)) (hf : field.good = true)
    (h : goodEntries rest = true) : goodEntries (.inl op :: .inr field :: rest) = true := by
  rw [goodEntries, goodEntries, hf, h]
  rfl

theorem goodEntries_bracket (op closing : TokenType) (index : Expression)
    (rest : List (TokenType ⊕ Expression)) (hi : index.good = true)
    (h : goodEntries rest = true) :
    goodEntries (.inl op :: .inr index :: .inl closing :: rest) = true := by
  rw [goodEntries, goodEntries, goodEntries, hi, h]
  rfl

theorem Fueled.Builds_any {α : Type} (x : Fueled α) : Fueled.Builds (fun _ => True) x :=
  ⟨fun _ _ => trivial⟩
/-- Every function of the parser returns shaped expressions, whatever the fuel. -/
theorem Parser.shapes (fuel : Nat) : Parser.Shapes fuel := by
  induction fuel with
  | zero =>
    constructor
    · intros
      rw [Parser.ParseScope]
      exact Fueled.Builds_none _
    · intros
      rw [Parser.ParseScopeLoop]
      exact Fueled.Builds_none _
    · intros
      rw [Parser.ParseReturn]
      exact Fueled.Builds_none _
    · intros
      rw [Parser.ParseConditional]
      exact Fueled.Builds_none _
    · intros
      rw [Parser.ParseConditionalLoop]
      exact Fueled.Builds_none _
    · intros
      rw [Parser.ParseForLoop]
      exact Fueled.Builds_none _
    · intros
      rw [Parser.ParseVariableDeclaration]
      exact Fueled.Builds_none _
    · intros
      rw [Parser.ParseIndent]
      exact Fueled.Builds_none _
    · intros
      rw [Parser.ParseExpression]
      exact Fueled.Builds_none _
    · intros
      rw [Parser.ParseExpressionRHS]
      exact Fueled.Builds_none _
    · intros
      rw [Parser.ParsePrimary]
      exact Fueled.Builds_none _
    · intros
      rw [Parser.ParseParenExpression]
      exact Fueled.Builds_none _
    · intros
      rw [Parser.ParseIdentifier]
      exact Fueled.Builds_none _
    · intros
      rw [Parser.ParseCallExpression]
      exact Fueled.Builds_none _
    · intros
      rw [Parser.ParseCallExpressionLoop]
      exact Fueled.Builds_none _
    · intros
      rw [Parser.ParseUnary]
      exact Fueled.Builds_none _
    · intros
      rw [Parser.ParseUnaryLoop]
      exact Fueled.Builds_none _
    · intros
      rw [Parser.ParseArrayLiteral]
      exact Fueled.Builds_none _
    · intros
      rw [Parser.ParseArrayLiteralLoop]
      exact Fueled.Builds_none _
    · intros
      rw [Parser.ParseStructLiteral]
      exact Fueled.Builds_none _
    · intros
      rw [Parser.ParseStructLiteralLoop]
      exact Fueled.Builds_none _
  | succ fuel ih =>
    constructor
    · intros
      rw [Parser.ParseScope]
      repeat (first
        | (refine Fueled.Builds_return ?_; dsimp only; first
            | exact good_scope_of _ (by assumption))
        | exact ih.ParseScopeLoop _
        | (refine Fueled.Builds_bind _ (ih.ParseScopeLoop _) ?_; intro p hp; cases p; dsimp only at hp ⊢)
        | (apply Fueled.Builds_bind_lift; intro p; try (cases p; dsimp only)))
    · intros
      rw [Parser.ParseScopeLoop]
      repeat (first
        | (refine Fueled.Builds_return ?_; dsimp only; first
            | exact goodList_nil
            | exact goodList_cons _ _ (by assumption) (by assumption))
        | exact ih.ParseConditional _
        | exact ih.ParseExpression _
        | exact ih.ParseForLoop _
        | exact ih.ParseIndent _
        | exact ih.ParseReturn _
        | exact ih.ParseScopeLoop _
        | exact ih.ParseVariableDeclaration _
        | (refine Fueled.Builds_bind _ (ih.ParseConditional _) ?_; intro p hp; cases p; dsimp only at hp ⊢)
        | (refine Fueled.Builds_bind _ (ih.ParseExpression _) ?_; intro p hp; cases p; dsimp only at hp ⊢)
        | (refine Fueled.Builds_bind _ (ih.ParseForLoop _) ?_; intro p hp; cases p; dsimp only at hp ⊢)
        | (refine Fueled.Builds_bind _ (ih.ParseIndent _) ?_; intro p hp; cases p; dsimp only at hp ⊢)
        | (refine Fueled.Builds_bind _ (ih.ParseReturn _) ?_; intro p hp; cases p; dsimp only at hp ⊢)
        | (refine Fueled.Builds_bind _ (ih.ParseScopeLoop _) ?_; intro p hp; cases p; dsimp only at hp ⊢)
        | (refine Fueled.Builds_bind _ (ih.ParseVariableDeclaration _) ?_; intro p hp; cases p; dsimp only at hp ⊢)
        | (refine Fueled.Builds_bind_lift_of (fun r => r.1.good = true) _ (ParseContinue_good _) ?_
           intro p hp; cases p; dsimp only at hp ⊢)
        | (refine Fueled.Builds_bind_lift_of (fun r => r.1.good = true) _ (ParseBreak_good _) ?_
           intro p hp; cases p; dsimp only at hp ⊢)
        | (apply Fueled.Builds_bind_lift; intro p; try (cases p; dsimp only))
        | apply Fueled.Builds_ite)
    · intros
      rw [Parser.ParseReturn]
      repeat (first
        | (refine Fueled.Builds_return ?_; dsimp only; first
            | exact good_return_none
            | exact good_return_one _ (by assumption))
        | exact ih.ParseExpression _
        | (refine Fueled.Builds_bind _ (ih.ParseExpression _) ?_; intro p hp; cases p; dsimp only at hp ⊢)
        | (apply Fueled.Builds_bind_lift; intro p; try (cases p; dsimp only))
        | apply Fueled.Builds_ite)
    · intros
      rw [Parser.ParseConditional]
      repeat (first
        | (refine Fueled.Builds_return ?_; dsimp only; first
            | exact good_conditional _ _ _ (by assumption) (by assumption) (by assumption)
            | exact good_conditional_else _ _ _ _ (by assumption) (by assumption) (by assumption) (by assumption))
        | exact ih.ParseConditionalLoop _
        | exact ih.ParseExpression _
        | exact ih.ParseScope _
        | (refine Fueled.Builds_bind _ (ih.ParseConditionalLoop _) ?_; intro p hp; cases p; dsimp only at hp ⊢)
        | (refine Fueled.Builds_bind _ (ih.ParseExpression _) ?_; intro p hp; cases p; dsimp only at hp ⊢)
        | (refine Fueled.Builds_bind _ (ih.ParseScope _) ?_; intro p hp; cases p; dsimp only at hp ⊢)
        | (apply Fueled.Builds_bind_lift; intro p; try (cases p; dsimp only))
        | apply Fueled.Builds_ite)
    · intros
      rw [Parser.ParseConditionalLoop]
      repeat (first
        | (refine Fueled.Builds_return ?_; dsimp only; first
            | exact pairs_nil
            | exact pairs_cons _ _ _ (by assumption) (by assumption) (by assumption))
        | exact ih.ParseConditionalLoop _
        | exact ih.ParseExpression _
        | exact ih.ParseScope _
        | (refine Fueled.Builds_bind _ (ih.ParseConditionalLoop _) ?_; intro p hp; cases p; dsimp only at hp ⊢)
        | (refine Fueled.Builds_bind _ (ih.ParseExpression _) ?_; intro p hp; cases p; dsimp only at hp ⊢)
        | (refine Fueled.Builds_bind _ (ih.ParseScope _) ?_; intro p hp; cases p; dsimp only at hp ⊢)
        | (apply Fueled.Builds_bind_lift; intro p; try (cases p; dsimp only))
        | apply Fueled.Builds_ite)
    · intros
      rw [Parser.ParseForLoop]
      repeat (first
        | (refine Fueled.Builds_return ?_; dsimp only; first
            | exact good_for _ _ _ _ (by assumption) (by assumption) (by assumption) (by assumption))
        | exact ih.ParseExpression _
        | exact ih.ParseScope _
        | exact ih.ParseVariableDeclaration _
        | (refine Fueled.Builds_bind _ (Fueled.Builds_ite (ih.ParseVariableDeclaration _)
            (ih.ParseExpression _)) ?_; intro p hp; cases p; dsimp only at hp ⊢)
        | (refine Fueled.Builds_bind _ (ih.ParseExpression _) ?_; intro p hp; cases p; dsimp only at hp ⊢)
        | (refine Fueled.Builds_bind _ (ih.ParseScope _) ?_; intro p hp; cases p; dsimp only at hp ⊢)
        | (apply Fueled.Builds_bind_lift; intro p; try (cases p; dsimp only))
        | apply Fueled.Builds_ite)
    · intros
      rw [Parser.ParseVariableDeclaration]
      repeat (first
        | (refine Fueled.Builds_return ?_; dsimp only; first
            | exact good_declaration _ _ _ (by assumption))
        | exact ih.ParseExpression _
        | (refine Fueled.Builds_bind _ (ih.ParseExpression _) ?_; intro p hp; cases p; dsimp only at hp ⊢)
        | (apply Fueled.Builds_bind_lift; intro p; try (cases p; dsimp only)))
    · intros
      rw [Parser.ParseIndent]
      repeat (first
        | (refine Fueled.Builds_return ?_; dsimp only; first
            | exact good_indent _ (by assumption))
        | exact ih.ParseScope _
        | (refine Fueled.Builds_bind _ (ih.ParseScope _) ?_; intro p hp; cases p; dsimp only at hp ⊢))
    · intros
      rw [Parser.ParseExpression]
      repeat (first
        | exact ih.ParseExpressionRHS _ _ _ (by assumption)
        | exact ih.ParseUnary _
        | (refine Fueled.Builds_bind _ (ih.ParseUnary _) ?_; intro p hp; cases p; dsimp only at hp ⊢))
    · intro LHS currentPrecedence self hLHS
      rw [Parser.ParseExpressionRHS]
      repeat (first
        | (refine Fueled.Builds_return ?_; dsimp only; first
            | assumption)
        | exact ih.ParseExpressionRHS _ _ _ (by assumption)
        | exact ih.ParseUnary _
        | (refine Fueled.Builds_bind _ (ih.ParseExpressionRHS _ _ _ (by assumption)) ?_; intro p hp; cases p; dsimp only at hp ⊢)
        | (refine Fueled.Builds_bind _ (ih.ParseUnary _) ?_; intro p hp; cases p; dsimp only at hp ⊢)
        | (refine Fueled.Builds_bind_lift_of (fun e => e.good = true) _
            (switch_good _ _ _ (by assumption) (by assumption)) ?_; intro p hp)
        | (apply Fueled.Builds_bind_lift; intro p; try (cases p; dsimp only))
        | apply Fueled.Builds_ite)
    · intros
      rw [Parser.ParsePrimary]
      repeat (first
        | exact Fueled.Builds_throw _ _
        | exact ih.ParseArrayLiteral _
        | exact ih.ParseIdentifier _
        | exact ih.ParseParenExpression _
        | exact ih.ParseStructLiteral _
        | exact Fueled.Builds_lift _ (ParseIntegerLiteral_good _)
        | exact Fueled.Builds_lift _ (ParseUnsignedIntegerLiteral_good _)
        | exact Fueled.Builds_lift _ (ParseCharacterLiteral_good _)
        | exact Fueled.Builds_lift _ (ParseStringLiteral_good _)
        | (apply Fueled.Builds_bind_lift; intro p; try (cases p; dsimp only))
        | apply Fueled.Builds_ite)
    · intros
      rw [Parser.ParseParenExpression]
      repeat (first
        | exact Fueled.Builds_throw _ _
        | (refine Fueled.Builds_return ?_; dsimp only; first
            | assumption)
        | exact ih.ParseExpression _
        | (refine Fueled.Builds_bind _ (ih.ParseExpression _) ?_; intro p hp; cases p; dsimp only at hp ⊢)
        | (apply Fueled.Builds_bind_lift; intro p; try (cases p; dsimp only))
        | apply Fueled.Builds_ite)
    · intros
      rw [Parser.ParseIdentifier]
      repeat (first
        | (refine Fueled.Builds_return ?_; dsimp only; first
            | exact good_literal _ _ rfl
            | exact good_variable _)
        | exact ih.ParseCallExpression _ _
        | (apply Fueled.Builds_bind_lift; intro p; try (cases p; dsimp only))
        | apply Fueled.Builds_ite)
    · intros
      rw [Parser.ParseCallExpression]
      repeat (first
        | (refine Fueled.Builds_return ?_; dsimp only; first
            | exact good_call _ _ (by assumption)
            | exact good_call_none _)
        | exact ih.ParseCallExpressionLoop _
        | (refine Fueled.Builds_bind _ (ih.ParseCallExpressionLoop _) ?_; intro p hp; cases p; dsimp only at hp ⊢)
        | (apply Fueled.Builds_bind_lift; intro p; try (cases p; dsimp only))
        | apply Fueled.Builds_ite)
    · intros
      rw [Parser.ParseCallExpressionLoop]
      repeat (first
        | (refine Fueled.Builds_return ?_; dsimp only; first
            | exact goodList_cons _ _ (by assumption) (by assumption)
            | exact goodList_single _ (by assumption))
        | exact ih.ParseCallExpressionLoop _
        | exact ih.ParseExpression _
        | (refine Fueled.Builds_bind _ (ih.ParseCallExpressionLoop _) ?_; intro p hp; cases p; dsimp only at hp ⊢)
        | (refine Fueled.Builds_bind _ (ih.ParseExpression _) ?_; intro p hp; cases p; dsimp only at hp ⊢)
        | (apply Fueled.Builds_bind_lift; intro p; try (cases p; dsimp only))
        | apply Fueled.Builds_ite)
    · intro self
      exact ParseUnary_shapes fuel self ih
    · intros
      rw [Parser.ParseUnaryLoop]
      repeat (first
        | exact Fueled.Builds_throw _ _
        | (refine Fueled.Builds_return ?_; dsimp only; first
            | exact goodEntries_nil
            | exact goodEntries_plain _ _ (by assumption)
            | exact goodEntries_dot _ _ _ (by assumption) (by assumption))
        | exact ih.ParseExpression _
        | exact ih.ParseUnary _
        | exact ih.ParseUnaryLoop _
        | (refine Fueled.Builds_bind _ (ih.ParseExpression _) ?_; intro p hp; cases p; dsimp only at hp ⊢)
        | (refine Fueled.Builds_bind _ (ih.ParseUnary _) ?_; intro p hp; cases p; dsimp only at hp ⊢)
        | (refine Fueled.Builds_bind _ (ih.ParseUnaryLoop _) ?_; intro p hp; cases p; dsimp only at hp ⊢)
        | (apply Fueled.Builds_bind_lift; intro p; try (cases p; dsimp only))
        | apply Fueled.Builds_ite)
    · intros
      rw [Parser.ParseArrayLiteral]
      repeat (first
        | exact Fueled.Builds_throw _ _
        | (refine Fueled.Builds_return ?_; dsimp only; first
            | exact good_literal_list _ _ (by assumption))
        | exact ih.ParseArrayLiteralLoop _
        | (refine Fueled.Builds_bind _ (ih.ParseArrayLiteralLoop _) ?_; intro p hp; cases p; dsimp only at hp ⊢)
        | (apply Fueled.Builds_bind_lift; intro p; try (cases p; dsimp only))
        | split)
    · intros
      rw [Parser.ParseArrayLiteralLoop]
      repeat (first
        | (refine Fueled.Builds_return ?_; dsimp only; first
            | exact goodList_cons _ _ (by assumption) (by assumption)
            | exact goodList_single _ (by assumption))
        | exact ih.ParseArrayLiteralLoop _
        | exact ih.ParseExpression _
        | (refine Fueled.Builds_bind _ (ih.ParseArrayLiteralLoop _) ?_; intro p hp; cases p; dsimp only at hp ⊢)
        | (refine Fueled.Builds_bind _ (ih.ParseExpression _) ?_; intro p hp; cases p; dsimp only at hp ⊢)
        | (apply Fueled.Builds_bind_lift; intro p; try (cases p; dsimp only))
        | apply Fueled.Builds_ite)
    · intros
      rw [Parser.ParseStructLiteral]
      repeat (first
        | exact Fueled.Builds_throw _ _
        | (refine Fueled.Builds_return ?_; dsimp only; first
            | exact good_literal_list _ _ (by assumption))
        | exact ih.ParseStructLiteralLoop _
        | (refine Fueled.Builds_bind _ (ih.ParseStructLiteralLoop _) ?_; intro p hp; obtain ⟨p1, p2, p3⟩ := p
           dsimp only at hp ⊢)
        | (apply Fueled.Builds_bind_lift; intro p; try (cases p; dsimp only)))
    · intros
      rw [Parser.ParseStructLiteralLoop]
      repeat (first
        | (refine Fueled.Builds_return ?_; dsimp only; first
            | exact goodList_cons _ _ (by assumption) (by assumption)
            | exact goodList_single _ (by assumption))
        | exact ih.ParseExpression _
        | exact ih.ParseStructLiteralLoop _
        | (refine Fueled.Builds_bind _ (ih.ParseExpression _) ?_; intro p hp; cases p; dsimp only at hp ⊢)
        | (refine Fueled.Builds_bind _ (ih.ParseStructLiteralLoop _) ?_; intro p hp; obtain ⟨p1, p2, p3⟩ := p
           dsimp only at hp ⊢)
        | (apply Fueled.Builds_bind_lift; intro p; try (cases p; dsimp only))
        | apply Fueled.Builds_ite)

theorem ParseFunction_shapes (fuel : Nat) (self : Parser) :
    Fueled.Builds (fun r => r.1.body.goodScope = true) (Parser.ParseFunction fuel self) := by
  unfold Parser.ParseFunction
  repeat (first
    | (refine Fueled.Builds_return ?_; dsimp only; assumption)
    | (refine Fueled.Builds_bind _ ((Parser.shapes fuel).ParseScope _) ?_
       intro p hp; cases p; dsimp only at hp ⊢)
    | (refine Fueled.Builds_bind _ (Fueled.Builds_any (Parser.ParseFunctionArguments _ _)) ?_
       intro p hp; cases p; dsimp only)
    | (apply Fueled.Builds_bind_lift; intro p; try (cases p; dsimp only)))

theorem ParseLoop_shapes : ∀ (fuel : Nat) (self : Parser),
    Fueled.Builds (fun r => ∀ function ∈ r.1, function.body.goodScope = true)
      (Parser.ParseLoop fuel self) := by
  intro fuel
  induction fuel with
  | zero =>
    intro self
    rw [Parser.ParseLoop]
    exact Fueled.Builds_none _
  | succ fuel ih =>
    intro self
    rw [Parser.ParseLoop]
    apply Fueled.Builds_bind_lift; intro current
    apply Fueled.Builds_ite
    · apply Fueled.Builds_bind_lift; intro s1
      refine Fueled.Builds_bind _ (ParseFunction_shapes fuel s1) ?_
      rintro ⟨function, s2⟩ hfunction
      refine Fueled.Builds_bind _ (ih s2) ?_
      rintro ⟨result, s3⟩ hresult
      refine Fueled.Builds_return ?_
      intro f hf
      rcases List.mem_cons.mp hf with rfl | hf
      · exact hfunction
      · exact hresult f hf
    · apply Fueled.Builds_ite
      · refine Fueled.Builds_bind _ (Fueled.Builds_any (Parser.ParseStruct _ _)) ?_
        rintro ⟨name, type, s1⟩ -
        exact ih _
      · apply Fueled.Builds_bind_lift; intro p
        refine Fueled.Builds_return ?_
        intro f hf
        cases hf

set_option maxRecDepth 4000 in
/-- The parse of `memberChainTokens`: the two records and the function `memberChain`. -/
theorem memberChain_parsed :
    Parser.Parse 23 Parser.new memberChainTokens =
      some (.ok ([memberChain],
        { tokens := [], _declaredFunctions := ["f"],
          _types := (Parser.new._types.emplace "T" innerRecord).emplace "S" outerRecord })) :=
  ParseLoop_struct 22 (parserAt memberChainTokens) (parserAt (memberChainTokens.drop 10)) _
    { file := "f", line := 1, type := .Struct, value := none } (memberChainTokens.drop 1)
    "T" [.mk "y" i64] [memberChain] rfl rfl rfl
    (ParseLoop_struct 21
      { parserAt (memberChainTokens.drop 10) with
        _types := Parser.new._types.emplace "T" innerRecord }
      { parserAt (memberChainTokens.drop 20) with
        _types := Parser.new._types.emplace "T" innerRecord } _
      { file := "f", line := 3, type := .Struct, value := none } (memberChainTokens.drop 11)
      "S" [.mk "x" innerRecord] [memberChain] rfl rfl rfl
      (ParseLoop_function 20
        { parserAt (memberChainTokens.drop 20) with
          _types := (Parser.new._types.emplace "T" innerRecord).emplace "S" outerRecord }
        { tokens := memberChainTokens.drop 40, _declaredFunctions := ["f"],
          _types := (Parser.new._types.emplace "T" innerRecord).emplace "S" outerRecord } _
        { file := "f", line := 5, type := .Function, value := none }
        (memberChainTokens.drop 21) memberChain [] rfl rfl
        (ParseFunction_parts 20
          { parserAt (memberChainTokens.drop 21) with
            _types := (Parser.new._types.emplace "T" innerRecord).emplace "S" outerRecord }
          { parserAt (memberChainTokens.drop 27) with
            _types := (Parser.new._types.emplace "T" innerRecord).emplace "S" outerRecord }
          { parserAt (memberChainTokens.drop 29) with
            _types := (Parser.new._types.emplace "T" innerRecord).emplace "S" outerRecord } _
          { file := "f", line := 5, type := .Identifier, value := some "f" }
          { file := "f", line := 5, type := .RightArrow, value := none }
          { file := "f", line := 5, type := .Colon, value := none }
          { file := "f", line := 5, type := .EndOfLine, value := none }
          (memberChainTokens.drop 22) (memberChainTokens.drop 28) (memberChainTokens.drop 31)
          "f" [{ name := "p", type := outerRecord }] i64 memberChain.body
          rfl rfl rfl rfl rfl rfl rfl rfl rfl rfl rfl)
        (ParseLoop_end 19 _ { file := "f", line := 6, type := .EndOfFile, value := none } []
          rfl rfl)))

/-- Claim C35 fails on `p.x.y`. Every function that `Parse` returns has the shape that the
claim lists: the body of the function is a Scope without type and every node of it is shaped
as `shapeOf` says: an arithmetic, comparison, logical, VariableAssignment, ArraySubscript or
MemberAccess node has two children, a PostIncrement, PointerDereference, AddressOf or Negate
node one, a VariableDeclaration two of which the first is a Variable with a type, a ForLoop
four of which the last is a Scope, a Conditional at least two with a Scope behind every
condition and possibly one more Scope at the end, the first child of a FunctionCall is a
Callee, a Literal has a type and a Scope none. In whatever state the validator is, the only
report of `shapeMessages` that `ValidateFunction` throws on such a function is
`Member access index is not a string`. That one it does throw on what the parser returns:
for `p.x.y` the parser builds the MemberAccess of `p` and of the MemberAccess of `x` and
`y`, whose second child is no Variable, while the MemberAccess of the MemberAccess of `p`
and `x` and of `y` validates. -/
theorem C35_member_index_check_fails_on_parser_output (fuel : Nat) (self s : Parser)
    (tokens : List Token) (functions : List Function)
    (h : Parser.Parse fuel self tokens = some (.ok (functions, s))) :
    (∀ function ∈ functions,
      function.body.kind = .SCOPE ∧ function.body.type = none ∧
      function.body.shaped = true ∧
      ∀ (validator : Validator) (ex : Exception),
        validator.ValidateFunction function = .error ex →
        ShapeFailure function.prototype.name ex →
        ex = .invalid_argument
          (function.prototype.name ++ ": " ++ "Member access index is not a string")) ∧
    Tokenizer.Tokenize memberChainSource "f" = .ok memberChainTokens ∧
    Fueled.Gives (Parser.Parse · Parser.new memberChainTokens)
      (.ok ([memberChain],
        { tokens := [], _declaredFunctions := ["f"],
          _types := (Parser.new._types.emplace "T" innerRecord).emplace "S" outerRecord })) ∧
    Validator.new.ValidateFunction memberChain =
      .error (.invalid_argument "f: Member access index is not a string") ∧
    "Member access index is not a string" ∈ shapeMessages ∧
    ShapeFailure "f" (.invalid_argument "f: Member access index is not a string") ∧
    (Validator.new.ValidateFunction memberChainLeft).toBool = true := by
  refine ⟨?_, by rfl, Parse_gives 23 memberChain_parsed, rfl, by decide,
    ⟨"Member access index is not a string", by decide, rfl⟩, rfl⟩
  intro function hfunction
  have hscope : function.body.goodScope = true :=
    (ParseLoop_shapes fuel (self.begin tokens)).out (functions, s) h function hfunction
  rw [goodScope_iff] at hscope
  have hkind : function.body.kind = .SCOPE := by simpa using hscope.2.1
  exact ⟨hkind, hscope.2.2, hscope.1,
    fun validator ex hex => ValidateFunction_sound validator function hkind hscope.1 ex hex⟩

/-- Claim C35 on the parse of `memberChainTokens`: the body of `memberChain` is shaped, and
the only report of `shapeMessages` on it is that of the index of a MemberAccess. -/
theorem C35_member_index_check_fails_on_parser_output_witness :
    Parser.Parse 23 Parser.new memberChainTokens =
      some (.ok ([memberChain],
        { tokens := [], _declaredFunctions := ["f"],
          _types := (Parser.new._types.emplace "T" innerRecord).emplace "S" outerRecord })) ∧
    ∀ function ∈ [memberChain],
      function.body.kind = .SCOPE ∧ function.body.type = none ∧
      function.body.shaped = true ∧
      ∀ (validator : Validator) (ex : Exception),
        validator.ValidateFunction function = .error ex →
        ShapeFailure function.prototype.name ex →
        ex = .invalid_argument
          (function.prototype.name ++ ": " ++ "Member access index is not a string") :=
  ⟨memberChain_parsed,
    (C35_member_index_check_fails_on_parser_output 23 Parser.new _ memberChainTokens _
      memberChain_parsed).1⟩

/-! ## Claim C40: the parser ends on every well-formed list of tokens -/

theorem wellFormed_cons (token : Token) (rest : List Token)
    (h : wellFormed (token :: rest) = true) (hne : token.type ≠ .EndOfFile) :
    token.sound = true ∧ wellFormed rest = true := by
  rw [wellFormed] at h
  split at h
  · exact absurd (by simpa using h) hne
  · simp only [Bool.and_eq_true] at h
    exact ⟨h.1.2, h.2⟩

theorem wellFormed_ne_nil (tokens : List Token) (h : wellFormed tokens = true) :
    ∃ current rest, tokens = current :: rest := by
  cases tokens with
  | nil => cases h
  | cons current rest => exact ⟨current, rest, rfl⟩

theorem wellFormed_length (tokens : List Token) (h : wellFormed tokens = true) :
    0 < tokens.length := by
  obtain ⟨current, rest, rfl⟩ := wellFormed_ne_nil tokens h
  exact Nat.succ_pos _

theorem wellFormed_of_cons (token : Token) (rest : List Token) (hne : token.type ≠ .EndOfFile)
    (hs : token.sound = true) (h : wellFormed rest = true) :
    wellFormed (token :: rest) = true := by
  obtain ⟨c, r, rfl⟩ := wellFormed_ne_nil rest h
  rw [wellFormed]
  simp [hne, hs, h]

theorem Parser.Inside.ready {self : Parser} (h : self.Inside) : self.Ready := by
  obtain ⟨current, rest, ht, hne, hs, hw⟩ := h
  unfold Parser.Ready
  rw [ht]
  exact wellFormed_of_cons current rest hne hs hw

theorem Parser.Inside.of_current {self : Parser} {current : Token} {rest : List Token}
    (hw : self.Ready) (ht : self.tokens = current :: rest) (hne : current.type ≠ .EndOfFile) :
    self.Inside := by
  unfold Parser.Ready at hw
  rw [ht] at hw
  obtain ⟨hs, hr⟩ := wellFormed_cons current rest hw hne
  exact ⟨current, rest, ht, hne, hs, hr⟩

theorem Parser.Shorter.notLonger {self s : Parser} (h : self.Shorter s) : self.NotLonger s :=
  ⟨h.1, Nat.le_of_lt h.2⟩

theorem Safe_ok {α : Type} {Q : α → Prop} {a : α} (h : Q a) : Safe Q (.ok a) := h

theorem Safe_error {α : Type} {Q : α → Prop} {e : Exception} (h : e.isUndefined = false) :
    Safe Q (.error e) := h

theorem Safe_mono {α : Type} {Q Q' : α → Prop} {x : Except Exception α} (h : Safe Q x)
    (hq : ∀ a, Q a → Q' a) : Safe Q' x := by
  cases x with
  | ok a => exact hq a h
  | error e => exact h

theorem Safe_bind {α β : Type} {Q : α → Prop} {Q' : β → Prop} {x : Except Exception β}
    {f : β → Except Exception α} (hx : Safe Q' x) (hf : ∀ b, Q' b → Safe Q (f b)) :
    Safe Q (x >>= f) := by
  cases x with
  | ok b => exact hf b hx
  | error e => exact hx

theorem Fueled.Ends_return {α : Type} {Q : α → Prop} {a : α} (h : Q a) :
    Fueled.Ends Q (pure a) :=
  ⟨.ok a, rfl, h⟩

theorem Fueled.Ends_throw {α : Type} {Q : α → Prop} {e : Exception}
    (h : e.isUndefined = false) : Fueled.Ends Q (throw e) :=
  ⟨.error e, rfl, h⟩

theorem Fueled.Ends_bind {α β : Type} {Q : α → Prop} {Q' : β → Prop} {x : Fueled β}
    {f : β → Fueled α} (hx : Fueled.Ends Q' x) (hf : ∀ b, Q' b → Fueled.Ends Q (f b)) :
    Fueled.Ends Q (x >>= f) := by
  obtain ⟨r, hr, hs⟩ := hx
  cases r with
  | ok b =>
    rw [Fueled.bind_of_ok hr]
    exact hf b hs
  | error e =>
    rw [Fueled.bind_of_error hr]
    exact ⟨.error e, rfl, hs⟩

theorem Fueled.Ends_lift {α : Type} {Q : α → Prop} {x : Except Exception α}
    (hx : Safe Q x) : Fueled.Ends Q (liftM x) :=
  ⟨x, rfl, hx⟩

theorem Fueled.Ends_bind_lift {α β : Type} {Q : α → Prop} {Q' : β → Prop}
    {x : Except Exception β} {f : β → Fueled α} (hx : Safe Q' x)
    (hf : ∀ b, Q' b → Fueled.Ends Q (f b)) : Fueled.Ends Q (liftM x >>= f) :=
  Fueled.Ends_bind (Fueled.Ends_lift hx) hf

theorem Fueled.Ends_mono {α : Type} {Q Q' : α → Prop} {x : Fueled α}
    (h : Fueled.Ends Q x) (hq : ∀ a, Q a → Q' a) : Fueled.Ends Q' x := by
  obtain ⟨r, hr, hs⟩ := h
  exact ⟨r, hr, Safe_mono hs hq⟩

theorem currentToken_safe (self : Parser) (h : self.Ready) :
    Safe (fun current => ∃ rest, self.tokens = current :: rest) self.currentToken := by
  obtain ⟨current, rest, ht⟩ := wellFormed_ne_nil _ h
  unfold Parser.currentToken
  rw [ht]
  exact ⟨rest, rfl⟩

theorem Advance_safe (self : Parser) (h : self.Inside) :
    Safe (fun s => wellFormed s.tokens = true ∧ s.tokens.length + 1 = self.tokens.length)
      self.Advance := by
  obtain ⟨current, rest, ht, hne, hs, hw⟩ := h
  unfold Parser.Advance
  rw [ht]
  exact ⟨hw, rfl⟩

theorem optional_value_safe {α : Type} (o : Option α) :
    Safe (fun _ => True) (optional_value o) := by
  cases o
  · exact (rfl : Exception.isUndefined .bad_optional_access = false)
  · trivial

theorem ExpectTokenType_safe (self : Parser) (type : TokenType) (h : self.Ready)
    (hne : type ≠ .EndOfFile) :
    Safe (fun r => wellFormed r.2.tokens = true ∧ r.2.tokens.length + 1 = self.tokens.length)
      (self.ExpectTokenType type) := by
  unfold Parser.ExpectTokenType
  refine Safe_bind (currentToken_safe self h) ?_
  rintro current ⟨rest, ht⟩
  split
  · rename_i hc
    refine Safe_bind (Advance_safe self
      (Parser.Inside.of_current h ht (by rw [hc]; exact hne))) ?_
    rintro s ⟨hw, hl⟩
    exact ⟨hw, hl⟩
  · rfl

theorem ParseIntegerLiteral_safe (self : Parser) (h : self.Ready) :
    Safe (fun r => wellFormed r.2.tokens = true ∧ r.2.tokens.length + 1 = self.tokens.length)
      self.ParseIntegerLiteral := by
  unfold Parser.ParseIntegerLiteral
  refine Safe_bind (currentToken_safe self h) ?_
  rintro current ⟨rest, ht⟩
  refine Safe_bind (optional_value_safe _) ?_
  intro tokenValue _
  split
  · rfl
  · split
    · rename_i hc
      refine Safe_bind (Advance_safe self
        (Parser.Inside.of_current h ht (by rw [hc]; decide))) ?_
      rintro s ⟨hw, hl⟩
      exact ⟨hw, hl⟩
    · rfl

theorem ParseUnsignedIntegerLiteral_safe (self : Parser) (h : self.Ready) :
    Safe (fun r => wellFormed r.2.tokens = true ∧ r.2.tokens.length + 1 = self.tokens.length)
      self.ParseUnsignedIntegerLiteral := by
  unfold Parser.ParseUnsignedIntegerLiteral
  refine Safe_bind (currentToken_safe self h) ?_
  rintro current ⟨rest, ht⟩
  refine Safe_bind (optional_value_safe _) ?_
  intro tokenValue _
  split
  · rfl
  · split
    · rename_i hc
      refine Safe_bind (Advance_safe self
        (Parser.Inside.of_current h ht (by rw [hc]; decide))) ?_
      rintro s ⟨hw, hl⟩
      exact ⟨hw, hl⟩
    · rfl

theorem optional_value_some {α : Type} (o : Option α) :
    Safe (fun a => o = some a) (optional_value o) := by
  cases o
  · exact (rfl : Exception.isUndefined .bad_optional_access = false)
  · rfl

theorem ParseCharacterLiteral_safe (self : Parser) (current : Token) (rest : List Token)
    (h : self.Ready) (ht : self.tokens = current :: rest)
    (hc : current.type = .CharacterLiteral) :
    Safe (fun r => wellFormed r.2.tokens = true ∧ r.2.tokens.length + 1 = self.tokens.length)
      self.ParseCharacterLiteral := by
  have hin : self.Inside := Parser.Inside.of_current h ht (by rw [hc]; decide)
  have hsound : current.sound = true := by
    obtain ⟨c, r, ht', -, hs, -⟩ := hin
    rw [ht] at ht'
    cases ht'
    exact hs
  unfold Parser.ParseCharacterLiteral
  have hcur : self.currentToken = .ok current := by
    unfold Parser.currentToken
    rw [ht]
  rw [hcur]
  show Safe _ (optional_value current.value >>= _)
  refine Safe_bind (optional_value_some _) ?_
  intro value hv
  refine Safe_bind (Advance_safe self hin) ?_
  rintro s ⟨hw, hl⟩
  split
  · rename_i hnil
    exfalso
    have : value = "" := by
      apply String.ext
      exact hnil
    subst this
    simp [Token.sound, hc, hv] at hsound
  · exact ⟨hw, hl⟩

theorem ParseStringLiteral_safe (self : Parser) (h : self.Inside) :
    Safe (fun r => wellFormed r.2.tokens = true ∧ r.2.tokens.length + 1 = self.tokens.length)
      self.ParseStringLiteral := by
  unfold Parser.ParseStringLiteral
  refine Safe_bind (currentToken_safe self h.ready) ?_
  rintro current ⟨rest, ht⟩
  refine Safe_bind (optional_value_safe _) ?_
  intro value _
  refine Safe_bind (Advance_safe self h) ?_
  rintro s ⟨hw, hl⟩
  exact ⟨hw, hl⟩

theorem ParseContinue_safe (self : Parser) (h : self.Inside) :
    Safe (fun r => wellFormed r.2.tokens = true ∧ r.2.tokens.length + 1 = self.tokens.length)
      self.ParseContinue := by
  unfold Parser.ParseContinue
  refine Safe_bind (Advance_safe self h) ?_
  rintro s ⟨hw, hl⟩
  exact ⟨hw, hl⟩

theorem ParseBreak_safe (self : Parser) (h : self.Inside) :
    Safe (fun r => wellFormed r.2.tokens = true ∧ r.2.tokens.length + 1 = self.tokens.length)
      self.ParseBreak := by
  unfold Parser.ParseBreak
  refine Safe_bind (Advance_safe self h) ?_
  rintro s ⟨hw, hl⟩
  exact ⟨hw, hl⟩

theorem GetBinaryOperatorPrecedence_safe (self : Parser) (h : self.Ready) :
    Safe (fun precedence => ∃ current rest, self.tokens = current :: rest ∧
        precedence = Parser.GetBinaryOperatorPrecedence.switch current.type)
      self.GetBinaryOperatorPrecedence := by
  unfold Parser.GetBinaryOperatorPrecedence
  refine Safe_bind (currentToken_safe self h) ?_
  rintro current ⟨rest, ht⟩
  exact ⟨current, rest, ht, rfl⟩

theorem IsUnarySuffix_safe (self : Parser) (h : self.Ready) :
    Safe (fun answer => ∃ current rest, self.tokens = current :: rest ∧
        answer = Parser.IsUnarySuffix.switch current.type)
      self.IsUnarySuffix := by
  unfold Parser.IsUnarySuffix
  refine Safe_bind (currentToken_safe self h) ?_
  rintro current ⟨rest, ht⟩
  exact ⟨current, rest, ht, rfl⟩

theorem prefixes_safe : ∀ (tokens : List Token), wellFormed tokens = true →
    Safe (fun r => wellFormed r.2 = true ∧ r.2.length ≤ tokens.length)
      (Parser.ParseUnary.prefixes tokens) := by
  intro tokens
  induction tokens with
  | nil => intro h; cases h
  | cons current rest ih =>
    intro h
    rw [Parser.ParseUnary.prefixes]
    split
    · rename_i hp
      have hne : current.type ≠ .EndOfFile := by
        intro he
        rw [he] at hp
        cases hp
      refine Safe_bind (ih (wellFormed_cons current rest h hne).2) ?_
      rintro ⟨ps, toks⟩ ⟨hw, hl⟩
      exact ⟨hw, Nat.le_succ_of_le hl⟩
    · exact ⟨h, Nat.le_refl _⟩

theorem switch_safe (op : TokenType) (LHS RHS : Expression) :
    Safe (fun _ => True) (Parser.ParseExpressionRHS.switch op LHS RHS) := by
  unfold Parser.ParseExpressionRHS.switch
  split <;> first
    | (simp only [Parser.BuildArithmeticExpression, Parser.BuildComparisonExpression,
        Parser.BuildLogicalExpression]
       trivial)
    | trivial

theorem applyPrefixes_safe : ∀ (unaryPrefixes : List TokenType) (operand : Expression),
    Safe (fun _ => True) (Parser.ParseUnary.applyPrefixes unaryPrefixes operand) := by
  intro unaryPrefixes
  induction unaryPrefixes with
  | nil =>
    intro operand
    rw [Parser.ParseUnary.applyPrefixes]
    trivial
  | cons op rest ih =>
    intro operand
    rw [Parser.ParseUnary.applyPrefixes]
    split
    · exact ih _
    · split
      · exact ih _
      · split
        · exact ih _
        · rfl

theorem getInt64_safe (value : ExpressionValue) : Safe (fun _ => True) value.getInt64 := by
  cases value <;> trivial

theorem ParseTypeTest_safe (self : Parser) (h : self.Ready) :
    Safe (fun _ => True) self.ParseTypeTest := by
  unfold Parser.ParseTypeTest
  refine Safe_bind (currentToken_safe self h) ?_
  intro current _
  trivial

theorem ParseTypeBody_safe (self : Parser) (returnType : Ty) (h : self.Ready) :
    Safe (fun r => wellFormed r.2.tokens = true ∧ r.2.tokens.length < self.tokens.length)
      (self.ParseTypeBody returnType) := by
  unfold Parser.ParseTypeBody
  refine Safe_bind (currentToken_safe self h) ?_
  rintro current ⟨rest, ht⟩
  split
  · refine Safe_bind (ExpectTokenType_safe self _ h (by decide)) ?_
    rintro ⟨t, s⟩ ⟨hw, hl⟩
    exact ⟨hw, by dsimp only at hl ⊢; omega⟩
  · refine Safe_bind (ExpectTokenType_safe self _ h (by decide)) ?_
    rintro ⟨t, s⟩ ⟨hw, hl⟩
    refine Safe_bind (currentToken_safe s hw) ?_
    rintro current' ⟨rest', ht'⟩
    split
    · rfl
    · refine Safe_bind (ParseIntegerLiteral_safe s hw) ?_
      rintro ⟨size, s2⟩ ⟨hw2, hl2⟩
      refine Safe_bind (ExpectTokenType_safe s2 _ hw2 (by decide)) ?_
      rintro ⟨t3, s3⟩ ⟨hw3, hl3⟩
      refine Safe_bind (getInt64_safe _) ?_
      intro n _
      exact ⟨hw3, by dsimp only at hl hl2 hl3 ⊢; omega⟩
  · rfl

theorem ParseTypeLoop_safe : ∀ (fuel : Nat) (self : Parser) (returnType : Ty),
    self.Ready → self.tokens.length ≤ fuel →
    ∃ r, Parser.ParseTypeLoop fuel self returnType = some r ∧
      Safe (fun r => wellFormed r.2.tokens = true ∧ r.2.tokens.length ≤ self.tokens.length)
        r := by
  intro fuel
  induction fuel with
  | zero =>
    intro self returnType h hl
    have := wellFormed_length _ h
    omega
  | succ fuel ih =>
    intro self returnType h hl
    rw [Parser.ParseTypeLoop]
    have htest := ParseTypeTest_safe self h
    cases hcase : self.ParseTypeTest with
    | error e =>
      rw [hcase] at htest
      exact ⟨_, rfl, htest⟩
    | ok continues =>
      cases continues with
      | false => exact ⟨_, rfl, h, Nat.le_refl _⟩
      | true =>
        simp only
        have hbody := ParseTypeBody_safe self returnType h
        cases hb : self.ParseTypeBody returnType with
        | error e =>
          rw [hb] at hbody
          exact ⟨_, rfl, hbody⟩
        | ok r =>
          obtain ⟨type, s⟩ := r
          rw [hb] at hbody
          obtain ⟨hw, hlt⟩ := hbody
          obtain ⟨r, hr, hs⟩ := ih s type hw (by dsimp only at hlt; omega)
          refine ⟨r, hr, Safe_mono hs ?_⟩
          rintro ⟨t, s2⟩ ⟨hw2, hl2⟩
          exact ⟨hw2, by dsimp only at hlt hl2 ⊢; omega⟩

theorem ParseType_safe (self : Parser) (h : self.Ready) :
    Safe (fun r => wellFormed r.2.tokens = true ∧ r.2.tokens.length < self.tokens.length)
      self.ParseType := by
  unfold Parser.ParseType
  refine Safe_bind (ExpectTokenType_safe self _ h (by decide)) ?_
  rintro ⟨token, s⟩ ⟨hw, hl⟩
  refine Safe_bind (optional_value_safe _) ?_
  intro type _
  split
  · rfl
  · obtain ⟨r, hr, hs⟩ := ParseTypeLoop_safe s.tokens.length s _ hw (Nat.le_refl _)
    rename_i returnType _
    rw [hr]
    refine Safe_mono hs ?_
    rintro ⟨t, s2⟩ ⟨hw2, hl2⟩
    exact ⟨hw2, by dsimp only at hl hl2 ⊢; omega⟩

theorem applySuffixes_ends : ∀ (entries : List (TokenType ⊕ Expression)), Entries entries →
    ∀ (fuel : Nat) (operand : Expression), entries.length + 1 ≤ fuel →
    Fueled.Ends (fun _ => True) (Parser.ParseUnary.applySuffixes fuel entries operand) := by
  intro entries h
  induction h with
  | nil =>
    intro fuel operand hf
    obtain ⟨fuel, rfl⟩ : ∃ n, fuel = n + 1 := ⟨fuel - 1, by omega⟩
    rw [Parser.ParseUnary.applySuffixes]
    exact Fueled.Ends_return trivial
  | plain op rest h1 h2 _ ih =>
    intro fuel operand hf
    obtain ⟨fuel, rfl⟩ : ∃ n, fuel = n + 1 := ⟨fuel - 1, by omega⟩
    rw [Parser.ParseUnary.applySuffixes]
    by_cases hop : op = .PlusPlusOp
    · have hstep : Parser.ParseUnary.applySuffix (.inl op) rest operand =
          .ok (rest, .mk .POST_INC_OP none (.ExpressionChildren [operand])) := by
        simp [Parser.ParseUnary.applySuffix, hop]
      rw [hstep]
      refine @Fueled.Ends_bind_lift _ _ _ (fun r => r.1 = rest) _ _ (Safe_ok rfl) ?_
      rintro ⟨rest', operand'⟩ hr
      dsimp only at hr
      subst hr
      exact ih fuel _ (by simp only [List.length_cons] at hf; omega)
    · have hstep : Parser.ParseUnary.applySuffix (.inl op) rest operand =
          .error (.invalid_argument Parser.ParseUnary.PRETTY_FUNCTION) := by
        simp [Parser.ParseUnary.applySuffix, hop, h1, h2]
      rw [hstep]
      exact ⟨_, rfl, (rfl : Exception.isUndefined (.invalid_argument _) = false)⟩
  | dot field rest _ ih =>
    intro fuel operand hf
    obtain ⟨fuel, rfl⟩ : ∃ n, fuel = n + 1 := ⟨fuel - 1, by omega⟩
    rw [Parser.ParseUnary.applySuffixes]
    have hstep : Parser.ParseUnary.applySuffix (.inl .Dot) (.inr field :: rest) operand =
        .ok (rest, .mk .MEMBER_ACCESS none (.ExpressionChildren [operand, field])) := by
      simp [Parser.ParseUnary.applySuffix]
    rw [hstep]
    refine @Fueled.Ends_bind_lift _ _ _ (fun r => r.1 = rest) _ _ (Safe_ok rfl) ?_
    rintro ⟨rest', operand'⟩ hr
    dsimp only at hr
    subst hr
    exact ih fuel _ (by simp only [List.length_cons] at hf; omega)
  | bracket index closing rest _ ih =>
    intro fuel operand hf
    obtain ⟨fuel, rfl⟩ : ∃ n, fuel = n + 1 := ⟨fuel - 1, by omega⟩
    rw [Parser.ParseUnary.applySuffixes]
    by_cases hc : closing = .RightBracket
    · have hstep : Parser.ParseUnary.applySuffix (.inl .LeftBracket)
          (.inr index :: .inl closing :: rest) operand =
          .ok (rest, .mk .ARRAY_SUBSCRIPT none (.ExpressionChildren [operand, index])) := by
        simp [Parser.ParseUnary.applySuffix, hc]
      rw [hstep]
      refine @Fueled.Ends_bind_lift _ _ _ (fun r => r.1 = rest) _ _ (Safe_ok rfl) ?_
      rintro ⟨rest', operand'⟩ hr
      dsimp only at hr
      subst hr
      exact ih fuel _ (by simp only [List.length_cons] at hf; omega)
    · have hstep : Parser.ParseUnary.applySuffix (.inl .LeftBracket)
          (.inr index :: .inl closing :: rest) operand =
          .error (.invalid_argument Parser.ParseUnary.PRETTY_FUNCTION) := by
        simp [Parser.ParseUnary.applySuffix, hc]
      rw [hstep]
      exact ⟨_, rfl, (rfl : Exception.isUndefined (.invalid_argument _) = false)⟩
theorem ParseScope_ends (fuel : Nat) (ih : Parser.Total fuel) (self : Parser)
    (h : self.Ready) (hf : 7 * self.tokens.length ≤ fuel + 1) :
    Fueled.Ends (fun r => self.Shorter r.2) (Parser.ParseScope (fuel + 1) self) := by
  rw [Parser.ParseScope]
  refine Fueled.Ends_bind_lift (ExpectTokenType_safe self _ h (by decide)) ?_
  rintro ⟨t, s1⟩ ⟨hw1, hl1⟩
  refine Fueled.Ends_bind (ih.ParseScopeLoop s1 hw1 (by (try dsimp only at *); omega)) ?_
  rintro ⟨body, s2⟩ ⟨hw2, hl2⟩
  refine Fueled.Ends_bind_lift (ExpectTokenType_safe s2 _ hw2 (by decide)) ?_
  rintro ⟨t3, s3⟩ ⟨hw3, hl3⟩
  exact Fueled.Ends_return ⟨hw3, (by (try dsimp only at *); omega)⟩

theorem ParseScopeLoop_ends (fuel : Nat) (ih : Parser.Total fuel) (self : Parser)
    (h : self.Ready) (hf : 7 * self.tokens.length + 5 ≤ fuel + 1) :
    Fueled.Ends (fun r => self.NotLonger r.2) (Parser.ParseScopeLoop (fuel + 1) self) := by
  rw [Parser.ParseScopeLoop]
  refine Fueled.Ends_bind_lift (currentToken_safe self h) ?_
  rintro current ⟨rest, ht⟩
  split
  · exact Fueled.Ends_return ⟨h, Nat.le_refl _⟩
  split
  · rename_i hc
    refine Fueled.Ends_bind_lift (Advance_safe self (Parser.Inside.of_current h ht (by rw [hc]; decide))) ?_
    rintro s1 ⟨hw1, hl1⟩
    exact Fueled.Ends_mono (ih.ParseScopeLoop s1 hw1 (by omega))
      (fun r hr => ⟨hr.1, (by omega)⟩)
  split
  · rename_i hc
    refine Fueled.Ends_bind (ih.ParseReturn self (Parser.Inside.of_current h ht (by rw [hc]; decide)) (by omega)) ?_
    rintro ⟨e, s1⟩ ⟨hw1, hl1⟩
    refine Fueled.Ends_bind (ih.ParseScopeLoop s1 hw1 (by (try dsimp only at *); omega)) ?_
    rintro ⟨body, s2⟩ ⟨hw2, hl2⟩
    exact Fueled.Ends_return ⟨hw2, (by (try dsimp only at *); omega)⟩
  split
  · rename_i hc
    refine Fueled.Ends_bind (ih.ParseConditional self (Parser.Inside.of_current h ht (by rw [hc]; decide)) (by omega)) ?_
    rintro ⟨e, s1⟩ ⟨hw1, hl1⟩
    refine Fueled.Ends_bind (ih.ParseScopeLoop s1 hw1 (by (try dsimp only at *); omega)) ?_
    rintro ⟨body, s2⟩ ⟨hw2, hl2⟩
    exact Fueled.Ends_return ⟨hw2, (by (try dsimp only at *); omega)⟩
  split
  · rename_i hc
    refine Fueled.Ends_bind (ih.ParseForLoop self (Parser.Inside.of_current h ht (by rw [hc]; decide)) (by omega)) ?_
    rintro ⟨e, s1⟩ ⟨hw1, hl1⟩
    refine Fueled.Ends_bind (ih.ParseScopeLoop s1 hw1 (by (try dsimp only at *); omega)) ?_
    rintro ⟨body, s2⟩ ⟨hw2, hl2⟩
    exact Fueled.Ends_return ⟨hw2, (by (try dsimp only at *); omega)⟩
  split
  · rename_i hc
    refine Fueled.Ends_bind_lift (ParseContinue_safe self (Parser.Inside.of_current h ht (by rw [hc]; decide))) ?_
    rintro ⟨e, s1⟩ ⟨hw1, hl1⟩
    refine Fueled.Ends_bind (ih.ParseScopeLoop s1 hw1 (by (try dsimp only at *); omega)) ?_
    rintro ⟨body, s2⟩ ⟨hw2, hl2⟩
    exact Fueled.Ends_return ⟨hw2, (by (try dsimp only at *); omega)⟩
  split
  · rename_i hc
    refine Fueled.Ends_bind_lift (ParseBreak_safe self (Parser.Inside.of_current h ht (by rw [hc]; decide))) ?_
    rintro ⟨e, s1⟩ ⟨hw1, hl1⟩
    refine Fueled.Ends_bind (ih.ParseScopeLoop s1 hw1 (by (try dsimp only at *); omega)) ?_
    rintro ⟨body, s2⟩ ⟨hw2, hl2⟩
    exact Fueled.Ends_return ⟨hw2, (by (try dsimp only at *); omega)⟩
  split
  · rename_i hc
    refine Fueled.Ends_bind (ih.ParseVariableDeclaration self (Parser.Inside.of_current h ht (by rw [hc]; decide)) (by omega)) ?_
    rintro ⟨e, s1⟩ ⟨hw1, hl1⟩
    refine Fueled.Ends_bind (ih.ParseScopeLoop s1 hw1 (by (try dsimp only at *); omega)) ?_
    rintro ⟨body, s2⟩ ⟨hw2, hl2⟩
    exact Fueled.Ends_return ⟨hw2, (by (try dsimp only at *); omega)⟩
  split
  · rename_i hc
    refine Fueled.Ends_bind (ih.ParseIndent self h (by omega)) ?_
    rintro ⟨e, s1⟩ ⟨hw1, hl1⟩
    refine Fueled.Ends_bind (ih.ParseScopeLoop s1 hw1 (by (try dsimp only at *); omega)) ?_
    rintro ⟨body, s2⟩ ⟨hw2, hl2⟩
    exact Fueled.Ends_return ⟨hw2, (by (try dsimp only at *); omega)⟩
  ·
    refine Fueled.Ends_bind (ih.ParseExpression self h (by omega)) ?_
    rintro ⟨e, s1⟩ ⟨hw1, hl1⟩
    refine Fueled.Ends_bind (ih.ParseScopeLoop s1 hw1 (by (try dsimp only at *); omega)) ?_
    rintro ⟨body, s2⟩ ⟨hw2, hl2⟩
    exact Fueled.Ends_return ⟨hw2, (by (try dsimp only at *); omega)⟩

theorem ParseReturn_ends (fuel : Nat) (ih : Parser.Total fuel) (self : Parser)
    (h : self.Inside) (hf : 7 * self.tokens.length ≤ fuel + 1) :
    Fueled.Ends (fun r => self.Shorter r.2) (Parser.ParseReturn (fuel + 1) self) := by
  rw [Parser.ParseReturn]
  refine Fueled.Ends_bind_lift (Advance_safe self h) ?_
  rintro s1 ⟨hw1, hl1⟩
  refine Fueled.Ends_bind_lift (currentToken_safe s1 hw1) ?_
  rintro current ⟨rest, ht⟩
  split
  · refine Fueled.Ends_bind (ih.ParseExpression s1 hw1 (by omega)) ?_
    rintro ⟨e, s2⟩ ⟨hw2, hl2⟩
    exact Fueled.Ends_return ⟨hw2, (by (try dsimp only at *); omega)⟩
  · exact Fueled.Ends_return ⟨hw1, (by (try dsimp only at *); omega)⟩

theorem ParseConditional_ends (fuel : Nat) (ih : Parser.Total fuel) (self : Parser)
    (h : self.Inside) (hf : 7 * self.tokens.length ≤ fuel + 1) :
    Fueled.Ends (fun r => self.Shorter r.2) (Parser.ParseConditional (fuel + 1) self) := by
  rw [Parser.ParseConditional]
  refine Fueled.Ends_bind_lift (Advance_safe self h) ?_
  rintro s1 ⟨hw1, hl1⟩
  refine Fueled.Ends_bind (ih.ParseExpression s1 hw1 (by omega)) ?_
  rintro ⟨e, s2⟩ ⟨hw2, hl2⟩
  refine Fueled.Ends_bind_lift (ExpectTokenType_safe s2 _ hw2 (by decide)) ?_
  rintro ⟨t3, s3⟩ ⟨hw3, hl3⟩
  refine Fueled.Ends_bind_lift (ExpectTokenType_safe s3 _ hw3 (by decide)) ?_
  rintro ⟨t4, s4⟩ ⟨hw4, hl4⟩
  refine Fueled.Ends_bind (ih.ParseScope s4 hw4 (by (try dsimp only at *); omega)) ?_
  rintro ⟨trueBody, s5⟩ ⟨hw5, hl5⟩
  refine Fueled.Ends_bind (ih.ParseConditionalLoop s5 hw5 (by (try dsimp only at *); omega)) ?_
  rintro ⟨elifs, s6⟩ ⟨hw6, hl6⟩
  refine Fueled.Ends_bind_lift (currentToken_safe s6 hw6) ?_
  rintro current ⟨rest, ht⟩
  split
  · rename_i hc
    refine Fueled.Ends_bind_lift (Advance_safe s6
      (Parser.Inside.of_current hw6 ht (by rw [hc]; decide))) ?_
    rintro s7 ⟨hw7, hl7⟩
    refine Fueled.Ends_bind_lift (ExpectTokenType_safe s7 _ hw7 (by decide)) ?_
    rintro ⟨t8, s8⟩ ⟨hw8, hl8⟩
    refine Fueled.Ends_bind_lift (ExpectTokenType_safe s8 _ hw8 (by decide)) ?_
    rintro ⟨t9, s9⟩ ⟨hw9, hl9⟩
    refine Fueled.Ends_bind (ih.ParseScope s9 hw9 (by (try dsimp only at *); omega)) ?_
    rintro ⟨elseBody, s10⟩ ⟨hw10, hl10⟩
    exact Fueled.Ends_return ⟨hw10, (by (try dsimp only at *); omega)⟩
  · exact Fueled.Ends_return ⟨hw6, (by (try dsimp only at *); omega)⟩

theorem ParseConditionalLoop_ends (fuel : Nat) (ih : Parser.Total fuel) (self : Parser)
    (h : self.Ready) (hf : 7 * self.tokens.length ≤ fuel + 1) :
    Fueled.Ends (fun r => self.NotLonger r.2) (Parser.ParseConditionalLoop (fuel + 1) self) := by
  rw [Parser.ParseConditionalLoop]
  refine Fueled.Ends_bind_lift (currentToken_safe self h) ?_
  rintro current ⟨rest, ht⟩
  split
  · rename_i hc
    refine Fueled.Ends_bind_lift (Advance_safe self (Parser.Inside.of_current h ht (by rw [hc]; decide))) ?_
    rintro s1 ⟨hw1, hl1⟩
    refine Fueled.Ends_bind (ih.ParseExpression s1 hw1 (by omega)) ?_
    rintro ⟨e, s2⟩ ⟨hw2, hl2⟩
    refine Fueled.Ends_bind_lift (ExpectTokenType_safe s2 _ hw2 (by decide)) ?_
    rintro ⟨t3, s3⟩ ⟨hw3, hl3⟩
    refine Fueled.Ends_bind_lift (ExpectTokenType_safe s3 _ hw3 (by decide)) ?_
    rintro ⟨t4, s4⟩ ⟨hw4, hl4⟩
    refine Fueled.Ends_bind (ih.ParseScope s4 hw4 (by (try dsimp only at *); omega)) ?_
    rintro ⟨elifBody, s5⟩ ⟨hw5, hl5⟩
    refine Fueled.Ends_bind (ih.ParseConditionalLoop s5 hw5 (by (try dsimp only at *); omega)) ?_
    rintro ⟨children, s6⟩ ⟨hw6, hl6⟩
    exact Fueled.Ends_return ⟨hw6, (by (try dsimp only at *); omega)⟩
  · exact Fueled.Ends_return ⟨h, Nat.le_refl _⟩

theorem ParseForLoop_ends (fuel : Nat) (ih : Parser.Total fuel) (self : Parser)
    (h : self.Inside) (hf : 7 * self.tokens.length ≤ fuel + 1) :
    Fueled.Ends (fun r => self.Shorter r.2) (Parser.ParseForLoop (fuel + 1) self) := by
  rw [Parser.ParseForLoop]
  refine Fueled.Ends_bind_lift (Advance_safe self h) ?_
  rintro s1 ⟨hw1, hl1⟩
  refine Fueled.Ends_bind_lift (currentToken_safe s1 hw1) ?_
  rintro current ⟨rest, ht⟩
  split
  · rename_i hc
    refine Fueled.Ends_bind (ih.ParseVariableDeclaration s1
      (Parser.Inside.of_current hw1 ht (by rw [hc]; decide)) (by omega)) ?_
    rintro ⟨initBlock, s2⟩ ⟨hw2, hl2⟩
    refine Fueled.Ends_bind_lift (ExpectTokenType_safe s2 _ hw2 (by decide)) ?_
    rintro ⟨t3, s3⟩ ⟨hw3, hl3⟩
    refine Fueled.Ends_bind (ih.ParseExpression s3 hw3 (by (try dsimp only at *); omega)) ?_
    rintro ⟨conditionBlock, s4⟩ ⟨hw4, hl4⟩
    refine Fueled.Ends_bind_lift (ExpectTokenType_safe s4 _ hw4 (by decide)) ?_
    rintro ⟨t5, s5⟩ ⟨hw5, hl5⟩
    refine Fueled.Ends_bind (ih.ParseExpression s5 hw5 (by (try dsimp only at *); omega)) ?_
    rintro ⟨postBlock, s6⟩ ⟨hw6, hl6⟩
    refine Fueled.Ends_bind_lift (ExpectTokenType_safe s6 _ hw6 (by decide)) ?_
    rintro ⟨t7, s7⟩ ⟨hw7, hl7⟩
    refine Fueled.Ends_bind_lift (ExpectTokenType_safe s7 _ hw7 (by decide)) ?_
    rintro ⟨t8, s8⟩ ⟨hw8, hl8⟩
    refine Fueled.Ends_bind (ih.ParseScope s8 hw8 (by (try dsimp only at *); omega)) ?_
    rintro ⟨forBody, s9⟩ ⟨hw9, hl9⟩
    exact Fueled.Ends_return ⟨hw9, (by (try dsimp only at *); omega)⟩
  · refine Fueled.Ends_bind (ih.ParseExpression s1 hw1 (by omega)) ?_
    rintro ⟨initBlock, s2⟩ ⟨hw2, hl2⟩
    refine Fueled.Ends_bind_lift (ExpectTokenType_safe s2 _ hw2 (by decide)) ?_
    rintro ⟨t3, s3⟩ ⟨hw3, hl3⟩
    refine Fueled.Ends_bind (ih.ParseExpression s3 hw3 (by (try dsimp only at *); omega)) ?_
    rintro ⟨conditionBlock, s4⟩ ⟨hw4, hl4⟩
    refine Fueled.Ends_bind_lift (ExpectTokenType_safe s4 _ hw4 (by decide)) ?_
    rintro ⟨t5, s5⟩ ⟨hw5, hl5⟩
    refine Fueled.Ends_bind (ih.ParseExpression s5 hw5 (by (try dsimp only at *); omega)) ?_
    rintro ⟨postBlock, s6⟩ ⟨hw6, hl6⟩
    refine Fueled.Ends_bind_lift (ExpectTokenType_safe s6 _ hw6 (by decide)) ?_
    rintro ⟨t7, s7⟩ ⟨hw7, hl7⟩
    refine Fueled.Ends_bind_lift (ExpectTokenType_safe s7 _ hw7 (by decide)) ?_
    rintro ⟨t8, s8⟩ ⟨hw8, hl8⟩
    refine Fueled.Ends_bind (ih.ParseScope s8 hw8 (by (try dsimp only at *); omega)) ?_
    rintro ⟨forBody, s9⟩ ⟨hw9, hl9⟩
    exact Fueled.Ends_return ⟨hw9, (by (try dsimp only at *); omega)⟩

theorem ParseVariableDeclaration_ends (fuel : Nat) (ih : Parser.Total fuel) (self : Parser)
    (h : self.Inside) (hf : 7 * self.tokens.length ≤ fuel + 1) :
    Fueled.Ends (fun r => self.Shorter r.2) (Parser.ParseVariableDeclaration (fuel + 1) self) := by
  rw [Parser.ParseVariableDeclaration]
  refine Fueled.Ends_bind_lift (Advance_safe self h) ?_
  rintro s1 ⟨hw1, hl1⟩
  refine Fueled.Ends_bind_lift (ExpectTokenType_safe s1 _ hw1 (by decide)) ?_
  rintro ⟨identifier, s2⟩ ⟨hw2, hl2⟩
  refine Fueled.Ends_bind_lift (ExpectTokenType_safe s2 _ hw2 (by decide)) ?_
  rintro ⟨t3, s3⟩ ⟨hw3, hl3⟩
  refine Fueled.Ends_bind_lift (ParseType_safe s3 hw3) ?_
  rintro ⟨type, s4⟩ ⟨hw4, hl4⟩
  refine Fueled.Ends_bind_lift (ExpectTokenType_safe s4 _ hw4 (by decide)) ?_
  rintro ⟨t5, s5⟩ ⟨hw5, hl5⟩
  refine Fueled.Ends_bind (ih.ParseExpression s5 hw5 (by (try dsimp only at *); omega)) ?_
  rintro ⟨expression, s6⟩ ⟨hw6, hl6⟩
  refine Fueled.Ends_bind_lift (optional_value_safe _) ?_
  intro name _
  exact Fueled.Ends_return ⟨hw6, (by (try dsimp only at *); omega)⟩

theorem ParseIndent_ends (fuel : Nat) (ih : Parser.Total fuel) (self : Parser)
    (h : self.Ready) (hf : 7 * self.tokens.length + 1 ≤ fuel + 1) :
    Fueled.Ends (fun r => self.Shorter r.2) (Parser.ParseIndent (fuel + 1) self) := by
  rw [Parser.ParseIndent]
  refine Fueled.Ends_bind (ih.ParseScope self h (by omega)) ?_
  rintro ⟨scope, s1⟩ ⟨hw1, hl1⟩
  exact Fueled.Ends_return ⟨hw1, (by (try dsimp only at *); omega)⟩

theorem ParseExpression_ends (fuel : Nat) (ih : Parser.Total fuel) (self : Parser)
    (h : self.Ready) (hf : 7 * self.tokens.length + 4 ≤ fuel + 1) :
    Fueled.Ends (fun r => self.Shorter r.2) (Parser.ParseExpression (fuel + 1) self) := by
  rw [Parser.ParseExpression]
  refine Fueled.Ends_bind (ih.ParseUnary self h (by omega)) ?_
  rintro ⟨LHS, s1⟩ ⟨hw1, hl1⟩
  exact Fueled.Ends_mono (ih.ParseExpressionRHS LHS 0 s1 hw1 (Int.le_refl 0) (by (try dsimp only at *); omega))
    (fun r hr => ⟨hr.1, (by (try dsimp only at *); omega)⟩)
theorem ParseExpressionRHS_ends (fuel : Nat) (ih : Parser.Total fuel) (LHS : Expression) (currentPrecedence : Int) (self : Parser)
    (h : self.Ready) (hp : 0 ≤ currentPrecedence) (hf : 7 * self.tokens.length ≤ fuel + 1) :
    Fueled.Ends (fun r => self.NotLonger r.2) (Parser.ParseExpressionRHS (fuel + 1) LHS currentPrecedence self) := by
  rw [Parser.ParseExpressionRHS]
  refine Fueled.Ends_bind_lift (GetBinaryOperatorPrecedence_safe self h) ?_
  rintro tokenPrecedence ⟨first, rest, ht, hprec⟩
  split
  · exact Fueled.Ends_return ⟨h, Nat.le_refl _⟩
  · rename_i hlt
    have hne : first.type ≠ .EndOfFile := by
      intro he
      rw [he] at hprec
      have : tokenPrecedence = -1 := hprec
      omega
    refine Fueled.Ends_bind_lift (currentToken_safe self h) ?_
    rintro current ⟨rest', ht'⟩
    refine Fueled.Ends_bind_lift (Advance_safe self (Parser.Inside.of_current h ht hne)) ?_
    rintro s1 ⟨hw1, hl1⟩
    refine Fueled.Ends_bind (ih.ParseUnary s1 hw1 (by omega)) ?_
    rintro ⟨RHS, s2⟩ ⟨hw2, hl2⟩
    refine Fueled.Ends_bind_lift (GetBinaryOperatorPrecedence_safe s2 hw2) ?_
    rintro nextTokenPrecedence -
    split
    · refine Fueled.Ends_bind (ih.ParseExpressionRHS RHS (tokenPrecedence + 1) s2 hw2
        (by omega) (by (try dsimp only at *); omega)) ?_
      rintro ⟨RHS', s3⟩ ⟨hw3, hl3⟩
      refine Fueled.Ends_bind_lift (switch_safe _ _ _) ?_
      intro LHS' _
      exact Fueled.Ends_mono (ih.ParseExpressionRHS _ currentPrecedence _ hw3 hp (by (try dsimp only at *); omega))
        (fun r hr => ⟨hr.1, (by (try dsimp only at *); omega)⟩)
    · refine Fueled.Ends_bind_lift (switch_safe _ _ _) ?_
      intro LHS' _
      exact Fueled.Ends_mono (ih.ParseExpressionRHS _ currentPrecedence _ hw2 hp (by (try dsimp only at *); omega))
        (fun r hr => ⟨hr.1, (by (try dsimp only at *); omega)⟩)

theorem ParsePrimary_ends (fuel : Nat) (ih : Parser.Total fuel) (self : Parser)
    (h : self.Ready) (hf : 7 * self.tokens.length + 2 ≤ fuel + 1) :
    Fueled.Ends (fun r => self.Shorter r.2) (Parser.ParsePrimary (fuel + 1) self) := by
  rw [Parser.ParsePrimary]
  refine Fueled.Ends_bind_lift (currentToken_safe self h) ?_
  rintro current ⟨rest, ht⟩
  split
  · exact Fueled.Ends_lift (Safe_mono (ParseIntegerLiteral_safe self h)
      (fun r hr => ⟨hr.1, (by omega)⟩))
  split
  · exact Fueled.Ends_lift (Safe_mono (ParseUnsignedIntegerLiteral_safe self h)
      (fun r hr => ⟨hr.1, (by omega)⟩))
  split
  · rename_i hc
    exact ih.ParseParenExpression self (Parser.Inside.of_current h ht (by rw [hc]; decide)) (by omega)
  split
  · rename_i hc
    exact ih.ParseIdentifier self (Parser.Inside.of_current h ht (by rw [hc]; decide)) (by omega)
  split
  · rename_i hc
    exact Fueled.Ends_lift (Safe_mono (ParseCharacterLiteral_safe self current rest h ht hc)
      (fun r hr => ⟨hr.1, (by omega)⟩))
  split
  · rename_i hc
    exact Fueled.Ends_lift (Safe_mono (ParseStringLiteral_safe self (Parser.Inside.of_current h ht (by rw [hc]; decide)))
      (fun r hr => ⟨hr.1, (by omega)⟩))
  split
  · rename_i hc
    exact ih.ParseArrayLiteral self (Parser.Inside.of_current h ht (by rw [hc]; decide)) (by omega)
  split
  · rename_i hc
    exact ih.ParseStructLiteral self (Parser.Inside.of_current h ht (by rw [hc]; decide)) (by omega)
  · exact Fueled.Ends_throw rfl

theorem ParseParenExpression_ends (fuel : Nat) (ih : Parser.Total fuel) (self : Parser)
    (h : self.Inside) (hf : 7 * self.tokens.length ≤ fuel + 1) :
    Fueled.Ends (fun r => self.Shorter r.2) (Parser.ParseParenExpression (fuel + 1) self) := by
  rw [Parser.ParseParenExpression]
  refine Fueled.Ends_bind_lift (Advance_safe self h) ?_
  rintro s1 ⟨hw1, hl1⟩
  refine Fueled.Ends_bind (ih.ParseExpression s1 hw1 (by omega)) ?_
  rintro ⟨expression, s2⟩ ⟨hw2, hl2⟩
  refine Fueled.Ends_bind_lift (currentToken_safe s2 hw2) ?_
  rintro current ⟨rest, ht⟩
  split
  · exact Fueled.Ends_throw rfl
  · rename_i hc
    have hc' : current.type = .RightParen := Decidable.of_not_not hc
    refine Fueled.Ends_bind_lift (Advance_safe s2
      (Parser.Inside.of_current hw2 ht (by rw [hc']; decide))) ?_
    rintro s3 ⟨hw3, hl3⟩
    exact Fueled.Ends_return ⟨hw3, (by (try dsimp only at *); omega)⟩

theorem ParseIdentifier_ends (fuel : Nat) (ih : Parser.Total fuel) (self : Parser)
    (h : self.Inside) (hf : 7 * self.tokens.length + 1 ≤ fuel + 1) :
    Fueled.Ends (fun r => self.Shorter r.2) (Parser.ParseIdentifier (fuel + 1) self) := by
  rw [Parser.ParseIdentifier]
  refine Fueled.Ends_bind_lift (currentToken_safe self h.ready) ?_
  rintro current ⟨rest, ht⟩
  refine Fueled.Ends_bind_lift (optional_value_safe _) ?_
  intro identifier _
  split
  · refine Fueled.Ends_bind_lift (Advance_safe self h) ?_
    rintro s1 ⟨hw1, hl1⟩
    exact Fueled.Ends_return ⟨hw1, (by (try dsimp only at *); omega)⟩
  split
  · exact ih.ParseCallExpression identifier self h (by omega)
  · refine Fueled.Ends_bind_lift (Advance_safe self h) ?_
    rintro s1 ⟨hw1, hl1⟩
    exact Fueled.Ends_return ⟨hw1, (by (try dsimp only at *); omega)⟩

theorem ParseCallExpression_ends (fuel : Nat) (ih : Parser.Total fuel) (callee : String) (self : Parser)
    (h : self.Inside) (hf : 7 * self.tokens.length ≤ fuel + 1) :
    Fueled.Ends (fun r => self.Shorter r.2) (Parser.ParseCallExpression (fuel + 1) callee self) := by
  rw [Parser.ParseCallExpression]
  refine Fueled.Ends_bind_lift (Advance_safe self h) ?_
  rintro s1 ⟨hw1, hl1⟩
  refine Fueled.Ends_bind_lift (ExpectTokenType_safe s1 _ hw1 (by decide)) ?_
  rintro ⟨t2, s2⟩ ⟨hw2, hl2⟩
  refine Fueled.Ends_bind_lift (currentToken_safe s2 hw2) ?_
  rintro current ⟨rest, ht⟩
  split
  · refine Fueled.Ends_bind (ih.ParseCallExpressionLoop s2 hw2 (by (try dsimp only at *); omega)) ?_
    rintro ⟨arguments, s3⟩ ⟨hw3, hl3⟩
    refine Fueled.Ends_bind_lift (ExpectTokenType_safe s3 _ hw3 (by decide)) ?_
    rintro ⟨t4, s4⟩ ⟨hw4, hl4⟩
    exact Fueled.Ends_return ⟨hw4, (by (try dsimp only at *); omega)⟩
  · refine Fueled.Ends_bind_lift (ExpectTokenType_safe s2 _ hw2 (by decide)) ?_
    rintro ⟨t4, s4⟩ ⟨hw4, hl4⟩
    exact Fueled.Ends_return ⟨hw4, (by (try dsimp only at *); omega)⟩

theorem ParseCallExpressionLoop_ends (fuel : Nat) (ih : Parser.Total fuel) (self : Parser)
    (h : self.Ready) (hf : 7 * self.tokens.length + 5 ≤ fuel + 1) :
    Fueled.Ends (fun r => self.Shorter r.2) (Parser.ParseCallExpressionLoop (fuel + 1) self) := by
  rw [Parser.ParseCallExpressionLoop]
  refine Fueled.Ends_bind (ih.ParseExpression self h (by omega)) ?_
  rintro ⟨argExpression, s1⟩ ⟨hw1, hl1⟩
  refine Fueled.Ends_bind_lift (currentToken_safe s1 hw1) ?_
  rintro current ⟨rest, ht⟩
  split
  · rename_i hc
    refine Fueled.Ends_bind_lift (Advance_safe s1
      (Parser.Inside.of_current hw1 ht (by rw [hc]; decide))) ?_
    rintro s2 ⟨hw2, hl2⟩
    refine Fueled.Ends_bind (ih.ParseCallExpressionLoop s2 hw2 (by (try dsimp only at *); omega)) ?_
    rintro ⟨arguments, s3⟩ ⟨hw3, hl3⟩
    exact Fueled.Ends_return ⟨hw3, (by (try dsimp only at *); omega)⟩
  · exact Fueled.Ends_return ⟨hw1, (by (try dsimp only at *); omega)⟩

theorem ParseUnary_ends (fuel : Nat) (ih : Parser.Total fuel) (self : Parser)
    (h : self.Ready) (hf : 7 * self.tokens.length + 3 ≤ fuel + 1) :
    Fueled.Ends (fun r => self.Shorter r.2) (Parser.ParseUnary (fuel + 1) self) := by
  rw [Parser.ParseUnary]
  refine Fueled.Ends_bind_lift (prefixes_safe self.tokens h) ?_
  rintro ⟨unaryPrefixes, tokens⟩ ⟨hw0, hl0⟩
  refine Fueled.Ends_bind (ih.ParsePrimary { self with tokens := tokens } hw0 (by (try dsimp only at *); omega)) ?_
  rintro ⟨operand, s1⟩ ⟨hw1, hl1⟩
  refine Fueled.Ends_bind (ih.ParseUnaryLoop s1 hw1 (by (try dsimp only at *); omega)) ?_
  rintro ⟨unarySuffixes, s2⟩ ⟨hentries, hw2, hl2⟩
  refine Fueled.Ends_bind (applySuffixes_ends unarySuffixes hentries fuel operand (by (try dsimp only at *); omega)) ?_
  intro operand' _
  refine Fueled.Ends_bind_lift (applyPrefixes_safe _ _) ?_
  intro wrapped _
  exact Fueled.Ends_return ⟨hw2, (by (try dsimp only at *); omega)⟩

theorem ParseUnaryLoop_ends (fuel : Nat) (ih : Parser.Total fuel) (self : Parser)
    (h : self.Ready) (hf : 7 * self.tokens.length ≤ fuel + 1) :
    Fueled.Ends (fun r => Entries r.1 ∧ wellFormed r.2.tokens = true ∧
      r.1.length + r.2.tokens.length ≤ self.tokens.length) (Parser.ParseUnaryLoop (fuel + 1) self) := by
  rw [Parser.ParseUnaryLoop]
  refine Fueled.Ends_bind_lift (IsUnarySuffix_safe self h) ?_
  rintro isUnarySuffix ⟨first, rest, ht, hsuffix⟩
  split
  · exact Fueled.Ends_return ⟨Entries.nil, h, by simp only [List.length_nil]; omega⟩
  · rename_i hyes
    have hne : first.type ≠ .EndOfFile := by
      intro he
      rw [he] at hsuffix
      exact hyes hsuffix
    have hin : self.Inside := Parser.Inside.of_current h ht hne
    refine Fueled.Ends_bind_lift (currentToken_safe self h) ?_
    rintro current ⟨rest', ht'⟩
    split
    · rename_i hc
      refine Fueled.Ends_bind_lift (Advance_safe self hin) ?_
      rintro s1 ⟨hw1, hl1⟩
      refine Fueled.Ends_bind (ih.ParseExpression s1 hw1 (by omega)) ?_
      rintro ⟨index, s2⟩ ⟨hw2, hl2⟩
      refine Fueled.Ends_bind_lift (currentToken_safe s2 hw2) ?_
      rintro closing ⟨rest2, ht2⟩
      split
      · exact Fueled.Ends_throw rfl
      · rename_i hclosing
        have hclosing' : closing.type = .RightBracket := Decidable.of_not_not hclosing
        refine Fueled.Ends_bind_lift (Advance_safe s2
          (Parser.Inside.of_current hw2 ht2 (by rw [hclosing']; decide))) ?_
        rintro s3 ⟨hw3, hl3⟩
        refine Fueled.Ends_bind (ih.ParseUnaryLoop s3 hw3 (by (try dsimp only at *); omega)) ?_
        rintro ⟨unarySuffixes, s4⟩ ⟨hentries, hw4, hl4⟩
        refine Fueled.Ends_return ⟨?_, hw4, ?_⟩
        · rw [hc]
          exact Entries.bracket _ _ _ hentries
        · simp only [List.length_cons]
          dsimp only at *
          omega
    split
    · rename_i hc
      refine Fueled.Ends_bind_lift (Advance_safe self hin) ?_
      rintro s1 ⟨hw1, hl1⟩
      refine Fueled.Ends_bind (ih.ParseUnary s1 hw1 (by omega)) ?_
      rintro ⟨field, s2⟩ ⟨hw2, hl2⟩
      refine Fueled.Ends_bind (ih.ParseUnaryLoop s2 hw2 (by (try dsimp only at *); omega)) ?_
      rintro ⟨unarySuffixes, s3⟩ ⟨hentries, hw3, hl3⟩
      refine Fueled.Ends_return ⟨?_, hw3, ?_⟩
      · rw [hc]
        exact Entries.dot _ _ hentries
      · simp only [List.length_cons]
        dsimp only at *
        omega
    · rename_i hdot hbracket
      refine Fueled.Ends_bind_lift (Advance_safe self hin) ?_
      rintro s1 ⟨hw1, hl1⟩
      refine Fueled.Ends_bind (ih.ParseUnaryLoop s1 hw1 (by omega)) ?_
      rintro ⟨unarySuffixes, s2⟩ ⟨hentries, hw2, hl2⟩
      refine Fueled.Ends_return ⟨Entries.plain _ _ hdot hbracket hentries, hw2, ?_⟩
      simp only [List.length_cons]
      dsimp only at *
      omega

theorem ParseArrayLiteral_ends (fuel : Nat) (ih : Parser.Total fuel) (self : Parser)
    (h : self.Inside) (hf : 7 * self.tokens.length + 1 ≤ fuel + 1) :
    Fueled.Ends (fun r => self.Shorter r.2) (Parser.ParseArrayLiteral (fuel + 1) self) := by
  rw [Parser.ParseArrayLiteral]
  refine Fueled.Ends_bind (ih.ParseArrayLiteralLoop self h (by omega)) ?_
  rintro ⟨elements, s1⟩ ⟨hne, hw1, hl1⟩
  refine Fueled.Ends_bind_lift (ExpectTokenType_safe s1 _ hw1 (by decide)) ?_
  rintro ⟨t2, s2⟩ ⟨hw2, hl2⟩
  dsimp only at hne ⊢
  split
  · exact absurd rfl hne
  · refine Fueled.Ends_bind_lift (optional_value_safe _) ?_
    intro elementType _
    exact Fueled.Ends_return ⟨hw2, (by (try dsimp only at *); omega)⟩

theorem ParseArrayLiteralLoop_ends (fuel : Nat) (ih : Parser.Total fuel) (self : Parser)
    (h : self.Inside) (hf : 7 * self.tokens.length ≤ fuel + 1) :
    Fueled.Ends (fun r => r.1 ≠ [] ∧ self.Shorter r.2) (Parser.ParseArrayLiteralLoop (fuel + 1) self) := by
  rw [Parser.ParseArrayLiteralLoop]
  refine Fueled.Ends_bind_lift (Advance_safe self h) ?_
  rintro s1 ⟨hw1, hl1⟩
  refine Fueled.Ends_bind (ih.ParseExpression s1 hw1 (by omega)) ?_
  rintro ⟨element, s2⟩ ⟨hw2, hl2⟩
  refine Fueled.Ends_bind_lift (currentToken_safe s2 hw2) ?_
  rintro current ⟨rest, ht⟩
  split
  · rename_i hc
    refine Fueled.Ends_bind (ih.ParseArrayLiteralLoop s2
      (Parser.Inside.of_current hw2 ht (by rw [hc]; decide)) (by (try dsimp only at *); omega)) ?_
    rintro ⟨elements, s3⟩ ⟨-, hw3, hl3⟩
    exact Fueled.Ends_return ⟨List.cons_ne_nil _ _, hw3, (by (try dsimp only at *); omega)⟩
  · exact Fueled.Ends_return ⟨List.cons_ne_nil _ _, hw2, (by (try dsimp only at *); omega)⟩

theorem ParseStructLiteral_ends (fuel : Nat) (ih : Parser.Total fuel) (self : Parser)
    (h : self.Inside) (hf : 7 * self.tokens.length + 1 ≤ fuel + 1) :
    Fueled.Ends (fun r => self.Shorter r.2) (Parser.ParseStructLiteral (fuel + 1) self) := by
  rw [Parser.ParseStructLiteral]
  refine Fueled.Ends_bind (ih.ParseStructLiteralLoop self h (by omega)) ?_
  rintro ⟨elements, fields, s1⟩ ⟨hw1, hl1⟩
  refine Fueled.Ends_bind_lift (ExpectTokenType_safe s1 _ hw1 (by decide)) ?_
  rintro ⟨t2, s2⟩ ⟨hw2, hl2⟩
  exact Fueled.Ends_return ⟨hw2, (by (try dsimp only at *); omega)⟩

theorem ParseStructLiteralLoop_ends (fuel : Nat) (ih : Parser.Total fuel) (self : Parser)
    (h : self.Inside) (hf : 7 * self.tokens.length ≤ fuel + 1) :
    Fueled.Ends (fun r => self.Shorter r.2.2) (Parser.ParseStructLiteralLoop (fuel + 1) self) := by
  rw [Parser.ParseStructLiteralLoop]
  refine Fueled.Ends_bind_lift (Advance_safe self h) ?_
  rintro s1 ⟨hw1, hl1⟩
  refine Fueled.Ends_bind (ih.ParseExpression s1 hw1 (by omega)) ?_
  rintro ⟨element, s2⟩ ⟨hw2, hl2⟩
  refine Fueled.Ends_bind_lift (optional_value_safe _) ?_
  intro elementType _
  refine Fueled.Ends_bind_lift (currentToken_safe s2 hw2) ?_
  rintro current ⟨rest, ht⟩
  split
  · rename_i hc
    refine Fueled.Ends_bind (ih.ParseStructLiteralLoop s2
      (Parser.Inside.of_current hw2 ht (by rw [hc]; decide)) (by (try dsimp only at *); omega)) ?_
    rintro ⟨elements, fields, s3⟩ ⟨hw3, hl3⟩
    exact Fueled.Ends_return ⟨hw3, (by (try dsimp only at *); omega)⟩
  · exact Fueled.Ends_return ⟨hw2, (by (try dsimp only at *); omega)⟩
/-- Every function of the parser ends with the fuel that `Parser.Total` names. -/
theorem Parser.total (fuel : Nat) : Parser.Total fuel := by
  induction fuel with
  | zero =>
    constructor
    · intro self h hf
      have := wellFormed_length _ h
      omega
    · intro self h hf
      have := wellFormed_length _ h
      omega
    · intro self h hf
      have := wellFormed_length _ h.ready
      omega
    · intro self h hf
      have := wellFormed_length _ h.ready
      omega
    · intro self h hf
      have := wellFormed_length _ h
      omega
    · intro self h hf
      have := wellFormed_length _ h.ready
      omega
    · intro self h hf
      have := wellFormed_length _ h.ready
      omega
    · intro self h hf
      have := wellFormed_length _ h
      omega
    · intro self h hf
      have := wellFormed_length _ h
      omega
    · intro LHS currentPrecedence self h hp hf
      have := wellFormed_length _ h
      omega
    · intro self h hf
      have := wellFormed_length _ h
      omega
    · intro self h hf
      have := wellFormed_length _ h.ready
      omega
    · intro self h hf
      have := wellFormed_length _ h.ready
      omega
    · intro callee self h hf
      have := wellFormed_length _ h.ready
      omega
    · intro self h hf
      have := wellFormed_length _ h
      omega
    · intro self h hf
      have := wellFormed_length _ h
      omega
    · intro self h hf
      have := wellFormed_length _ h
      omega
    · intro self h hf
      have := wellFormed_length _ h.ready
      omega
    · intro self h hf
      have := wellFormed_length _ h.ready
      omega
    · intro self h hf
      have := wellFormed_length _ h.ready
      omega
    · intro self h hf
      have := wellFormed_length _ h.ready
      omega
  | succ fuel ih =>
    constructor
    · intro self h hf
      exact ParseScope_ends fuel ih self h hf
    · intro self h hf
      exact ParseScopeLoop_ends fuel ih self h hf
    · intro self h hf
      exact ParseReturn_ends fuel ih self h hf
    · intro self h hf
      exact ParseConditional_ends fuel ih self h hf
    · intro self h hf
      exact ParseConditionalLoop_ends fuel ih self h hf
    · intro self h hf
      exact ParseForLoop_ends fuel ih self h hf
    · intro self h hf
      exact ParseVariableDeclaration_ends fuel ih self h hf
    · intro self h hf
      exact ParseIndent_ends fuel ih self h hf
    · intro self h hf
      exact ParseExpression_ends fuel ih self h hf
    · intro LHS currentPrecedence self h hp hf
      exact ParseExpressionRHS_ends fuel ih LHS currentPrecedence self h hp hf
    · intro self h hf
      exact ParsePrimary_ends fuel ih self h hf
    · intro self h hf
      exact ParseParenExpression_ends fuel ih self h hf
    · intro self h hf
      exact ParseIdentifier_ends fuel ih self h hf
    · intro callee self h hf
      exact ParseCallExpression_ends fuel ih callee self h hf
    · intro self h hf
      exact ParseCallExpressionLoop_ends fuel ih self h hf
    · intro self h hf
      exact ParseUnary_ends fuel ih self h hf
    · intro self h hf
      exact ParseUnaryLoop_ends fuel ih self h hf
    · intro self h hf
      exact ParseArrayLiteral_ends fuel ih self h hf
    · intro self h hf
      exact ParseArrayLiteralLoop_ends fuel ih self h hf
    · intro self h hf
      exact ParseStructLiteral_ends fuel ih self h hf
    · intro self h hf
      exact ParseStructLiteralLoop_ends fuel ih self h hf

theorem ParseFunctionArgument_safe (self : Parser) (h : self.Ready) :
    Safe (fun r => wellFormed r.2.tokens = true ∧ r.2.tokens.length < self.tokens.length)
      self.ParseFunctionArgument := by
  unfold Parser.ParseFunctionArgument
  refine Safe_bind (ExpectTokenType_safe self _ h (by decide)) ?_
  rintro ⟨token, s1⟩ ⟨hw1, hl1⟩
  refine Safe_bind (optional_value_safe _) ?_
  intro argName _
  refine Safe_bind (ExpectTokenType_safe s1 _ hw1 (by decide)) ?_
  rintro ⟨t2, s2⟩ ⟨hw2, hl2⟩
  refine Safe_bind (ParseType_safe s2 hw2) ?_
  rintro ⟨argType, s3⟩ ⟨hw3, hl3⟩
  exact ⟨hw3, by (try dsimp only at *); omega⟩

theorem ParseFunctionArgumentsLoop_ends : ∀ (fuel : Nat) (self : Parser), self.Ready →
    self.tokens.length + 1 ≤ fuel →
    Fueled.Ends (fun r => self.NotLonger r.2) (Parser.ParseFunctionArgumentsLoop fuel self) := by
  intro fuel
  induction fuel with
  | zero =>
    intro self h hf
    omega
  | succ fuel ih =>
    intro self h hf
    rw [Parser.ParseFunctionArgumentsLoop]
    refine Fueled.Ends_bind_lift (currentToken_safe self h) ?_
    rintro current ⟨rest, ht⟩
    split
    · refine Fueled.Ends_bind_lift (ParseFunctionArgument_safe self h) ?_
      rintro ⟨argument, s1⟩ ⟨hw1, hl1⟩
      refine Fueled.Ends_bind_lift (currentToken_safe s1 hw1) ?_
      rintro current' ⟨rest', ht'⟩
      split
      · rename_i hc
        refine Fueled.Ends_bind_lift (Advance_safe s1
          (Parser.Inside.of_current hw1 ht' (by rw [hc]; decide))) ?_
        rintro s2 ⟨hw2, hl2⟩
        refine Fueled.Ends_bind (ih s2 hw2 (by (try dsimp only at *); omega)) ?_
        rintro ⟨result, s3⟩ ⟨hw3, hl3⟩
        exact Fueled.Ends_return ⟨hw3, by (try dsimp only at *); omega⟩
      · split
        · exact Fueled.Ends_throw rfl
        · refine Fueled.Ends_bind (ih s1 hw1 (by (try dsimp only at *); omega)) ?_
          rintro ⟨result, s3⟩ ⟨hw3, hl3⟩
          exact Fueled.Ends_return ⟨hw3, by (try dsimp only at *); omega⟩
    · exact Fueled.Ends_return ⟨h, Nat.le_refl _⟩

theorem ParseFunctionArguments_ends (fuel : Nat) (self : Parser) (h : self.Ready)
    (hf : self.tokens.length ≤ fuel) :
    Fueled.Ends (fun r => self.Shorter r.2) (Parser.ParseFunctionArguments fuel self) := by
  unfold Parser.ParseFunctionArguments
  refine Fueled.Ends_bind_lift (ExpectTokenType_safe self _ h (by decide)) ?_
  rintro ⟨t1, s1⟩ ⟨hw1, hl1⟩
  refine Fueled.Ends_bind (ParseFunctionArgumentsLoop_ends fuel s1 hw1
    (by (try dsimp only at *); omega)) ?_
  rintro ⟨result, s2⟩ ⟨hw2, hl2⟩
  refine Fueled.Ends_bind_lift (ExpectTokenType_safe s2 _ hw2 (by decide)) ?_
  rintro ⟨t3, s3⟩ ⟨hw3, hl3⟩
  exact Fueled.Ends_return ⟨hw3, by (try dsimp only at *); omega⟩

theorem ParseFunction_ends (fuel : Nat) (self : Parser) (h : self.Ready)
    (hf : 7 * self.tokens.length ≤ fuel) :
    Fueled.Ends (fun r => self.Shorter r.2) (Parser.ParseFunction fuel self) := by
  unfold Parser.ParseFunction
  refine Fueled.Ends_bind_lift (ExpectTokenType_safe self _ h (by decide)) ?_
  rintro ⟨token, s1⟩ ⟨hw1, hl1⟩
  refine Fueled.Ends_bind_lift (optional_value_safe _) ?_
  intro name _
  refine Fueled.Ends_bind (ParseFunctionArguments_ends fuel s1 hw1
    (by (try dsimp only at *); omega)) ?_
  rintro ⟨arguments, s2⟩ ⟨hw2, hl2⟩
  refine Fueled.Ends_bind_lift (ExpectTokenType_safe s2 _ hw2 (by decide)) ?_
  rintro ⟨t3, s3⟩ ⟨hw3, hl3⟩
  refine Fueled.Ends_bind_lift (ParseType_safe s3 hw3) ?_
  rintro ⟨returnType, s4⟩ ⟨hw4, hl4⟩
  refine Fueled.Ends_bind_lift (ExpectTokenType_safe
    { s4 with _declaredFunctions := unordered_set_emplace s4._declaredFunctions name } _
    hw4 (by decide)) ?_
  rintro ⟨t5, s5⟩ ⟨hw5, hl5⟩
  refine Fueled.Ends_bind_lift (ExpectTokenType_safe s5 _ hw5 (by decide)) ?_
  rintro ⟨t6, s6⟩ ⟨hw6, hl6⟩
  refine Fueled.Ends_bind ((Parser.total fuel).ParseScope s6 hw6
    (by (try dsimp only at *); omega)) ?_
  rintro ⟨body, s7⟩ ⟨hw7, hl7⟩
  exact Fueled.Ends_return ⟨hw7, by (try dsimp only at *); omega⟩

theorem ParseStructLoop_ends : ∀ (fuel : Nat) (self : Parser), self.Ready →
    self.tokens.length + 1 ≤ fuel →
    Fueled.Ends (fun r => self.NotLonger r.2) (Parser.ParseStructLoop fuel self) := by
  intro fuel
  induction fuel with
  | zero =>
    intro self h hf
    omega
  | succ fuel ih =>
    intro self h hf
    rw [Parser.ParseStructLoop]
    refine Fueled.Ends_bind_lift (currentToken_safe self h) ?_
    rintro current ⟨rest, ht⟩
    split
    · split
      · exact Fueled.Ends_throw rfl
      · rename_i hc
        have hc' : current.type = .Identifier := Decidable.of_not_not hc
        refine Fueled.Ends_bind_lift (optional_value_safe _) ?_
        intro memberName _
        refine Fueled.Ends_bind_lift (Advance_safe self
          (Parser.Inside.of_current h ht (by rw [hc']; decide))) ?_
        rintro s1 ⟨hw1, hl1⟩
        refine Fueled.Ends_bind_lift (ExpectTokenType_safe s1 _ hw1 (by decide)) ?_
        rintro ⟨t2, s2⟩ ⟨hw2, hl2⟩
        refine Fueled.Ends_bind_lift (ParseType_safe s2 hw2) ?_
        rintro ⟨memberType, s3⟩ ⟨hw3, hl3⟩
        refine Fueled.Ends_bind_lift (ExpectTokenType_safe s3 _ hw3 (by decide)) ?_
        rintro ⟨t4, s4⟩ ⟨hw4, hl4⟩
        refine Fueled.Ends_bind (ih s4 hw4 (by (try dsimp only at *); omega)) ?_
        rintro ⟨fields, s5⟩ ⟨hw5, hl5⟩
        exact Fueled.Ends_return ⟨hw5, by (try dsimp only at *); omega⟩
    · exact Fueled.Ends_return ⟨h, Nat.le_refl _⟩

theorem ParseStruct_ends (fuel : Nat) (self : Parser) (h : self.Ready)
    (hf : self.tokens.length ≤ fuel) :
    Fueled.Ends (fun r => self.Shorter r.2.2) (Parser.ParseStruct fuel self) := by
  unfold Parser.ParseStruct
  refine Fueled.Ends_bind_lift (ExpectTokenType_safe self _ h (by decide)) ?_
  rintro ⟨t1, s1⟩ ⟨hw1, hl1⟩
  refine Fueled.Ends_bind_lift (currentToken_safe s1 hw1) ?_
  rintro current ⟨rest, ht⟩
  split
  · exact Fueled.Ends_throw rfl
  · rename_i hc
    have hc' : current.type = .Identifier := Decidable.of_not_not hc
    refine Fueled.Ends_bind_lift (optional_value_safe _) ?_
    intro name _
    refine Fueled.Ends_bind_lift (Advance_safe s1
      (Parser.Inside.of_current hw1 ht (by rw [hc']; decide))) ?_
    rintro s2 ⟨hw2, hl2⟩
    refine Fueled.Ends_bind_lift (ExpectTokenType_safe s2 _ hw2 (by decide)) ?_
    rintro ⟨t3, s3⟩ ⟨hw3, hl3⟩
    refine Fueled.Ends_bind_lift (ExpectTokenType_safe s3 _ hw3 (by decide)) ?_
    rintro ⟨t4, s4⟩ ⟨hw4, hl4⟩
    refine Fueled.Ends_bind_lift (ExpectTokenType_safe s4 _ hw4 (by decide)) ?_
    rintro ⟨t5, s5⟩ ⟨hw5, hl5⟩
    refine Fueled.Ends_bind (ParseStructLoop_ends fuel s5 hw5 (by (try dsimp only at *); omega)) ?_
    rintro ⟨fields, s6⟩ ⟨hw6, hl6⟩
    refine Fueled.Ends_bind_lift (ExpectTokenType_safe s6 _ hw6 (by decide)) ?_
    rintro ⟨t7, s7⟩ ⟨hw7, hl7⟩
    exact Fueled.Ends_return ⟨hw7, by (try dsimp only at *); omega⟩

theorem wellFormed_last (current : Token) (rest : List Token)
    (h : wellFormed (current :: rest) = true) (hc : current.type = .EndOfFile) : rest = [] := by
  rw [wellFormed] at h
  split at h
  · rename_i hempty
    exact List.isEmpty_iff.mp hempty
  · simp [hc] at h

theorem ExpectTokenType_end (self : Parser) (h : self.Ready) :
    Safe (fun r => r.2.tokens = []) (self.ExpectTokenType .EndOfFile) := by
  obtain ⟨current, rest, ht⟩ := wellFormed_ne_nil _ h
  unfold Parser.ExpectTokenType Parser.currentToken Parser.Advance
  rw [ht]
  show Safe _ (if current.type = .EndOfFile then _ else _)
  split
  · rename_i hc
    unfold Parser.Ready at h
    rw [ht] at h
    exact wellFormed_last current rest h hc
  · rfl

theorem ParseLoop_ends : ∀ (fuel : Nat) (self : Parser), self.Ready →
    7 * self.tokens.length + 1 ≤ fuel →
    Fueled.Ends (fun r => r.2.tokens = []) (Parser.ParseLoop fuel self) := by
  intro fuel
  induction fuel with
  | zero =>
    intro self h hf
    omega
  | succ fuel ih =>
    intro self h hf
    rw [Parser.ParseLoop]
    refine Fueled.Ends_bind_lift (currentToken_safe self h) ?_
    rintro current ⟨rest, ht⟩
    split
    · rename_i hc
      refine Fueled.Ends_bind_lift (Advance_safe self
        (Parser.Inside.of_current h ht (by rw [hc]; decide))) ?_
      rintro s1 ⟨hw1, hl1⟩
      refine Fueled.Ends_bind (ParseFunction_ends fuel s1 hw1 (by omega)) ?_
      rintro ⟨function, s2⟩ ⟨hw2, hl2⟩
      refine Fueled.Ends_bind (ih s2 hw2 (by (try dsimp only at *); omega)) ?_
      rintro ⟨result, s3⟩ hend
      exact Fueled.Ends_return hend
    · split
      · refine Fueled.Ends_bind (ParseStruct_ends fuel self h (by omega)) ?_
        rintro ⟨name, type, s1⟩ ⟨hw1, hl1⟩
        exact ih { s1 with _types := s1._types.emplace name (.Struct type) } hw1
          (by (try dsimp only at *); omega)
      · refine Fueled.Ends_bind_lift (ExpectTokenType_end self h) ?_
        rintro ⟨t, s1⟩ hend
        exact Fueled.Ends_return hend

theorem wellFormed_append (init : List Token) (last : Token) (hlast : last.type = .EndOfFile)
    (hinit : ∀ token ∈ init, token.type ≠ .EndOfFile ∧ token.sound = true) :
    wellFormed (init ++ [last]) = true := by
  induction init with
  | nil =>
    rw [List.nil_append, wellFormed]
    simp [hlast]
  | cons token rest ih =>
    rw [List.cons_append]
    exact wellFormed_of_cons token _ (hinit token (List.mem_cons_self _ _)).1
      (hinit token (List.mem_cons_self _ _)).2
      (ih (fun t ht => hinit t (List.mem_cons_of_mem _ ht)))

theorem Parse_ends (self : Parser) (tokens : List Token) (h : wellFormed tokens = true) :
    Fueled.Ends (fun r => r.2.tokens = [])
      (Parser.Parse (7 * tokens.length + 1) self tokens) :=
  ParseLoop_ends (7 * tokens.length + 1) (self.begin tokens) h (Nat.le_refl _)

/-- Claim C40. On every list of tokens whose last token is the one `EndOfFile` in it, and in
which no character literal has the empty lexeme, `Parse` ends: with fuel of seven units for
every token and one more, and with every greater fuel, it returns or throws, what it throws
is not undefined behaviour, so that no token is read behind the `EndOfFile`, and when it
returns it stands behind the `EndOfFile`. What it throws is not always a parse error: on the
tokens of `function f() -> i64:` with the body `return [x]` it throws
`std::bad_optional_access`. On a character literal with the empty lexeme the behaviour is
undefined (`front()` of the empty string). -/
theorem C40_parser_ends_on_well_formed_tokens :
    (∀ (self : Parser) (init : List Token) (last : Token), last.type = .EndOfFile →
      (∀ token ∈ init, token.type ≠ .EndOfFile ∧ token.sound = true) →
      ∃ r, Parser.Parse (7 * (init ++ [last]).length + 1) self (init ++ [last]) = some r ∧
        Fueled.Gives (Parser.Parse · self (init ++ [last])) r ∧
        (∀ e, r = .error e → e ≠ .undefined_behavior) ∧
        ∀ functions s, r = .ok (functions, s) → s.tokens = []) ∧
    (Tokenizer.Tokenize returnsArrayOfVariable "f" = .ok arrayOfVariableTokens ∧
      wellFormed arrayOfVariableTokens = true ∧
      Fueled.Gives (Parser.Parse · Parser.new arrayOfVariableTokens)
        (.error .bad_optional_access)) ∧
    (returnsEmptyCharacter.getLast? = some (tokenOf .EndOfFile none) ∧
      (∀ token ∈ returnsEmptyCharacter.dropLast, token.type ≠ .EndOfFile) ∧
      Fueled.Gives (Parser.Parse · Parser.new returnsEmptyCharacter)
        (.error .undefined_behavior)) := by
  refine ⟨?_, ⟨by rfl, by rfl, Parse_gives 113 (by rfl)⟩, rfl, by decide,
    Parse_gives 99 (by rfl)⟩
  intro self init last hlast hinit
  obtain ⟨r, hr, hs⟩ := Parse_ends self (init ++ [last]) (wellFormed_append init last hlast hinit)
  refine ⟨r, hr, Parse_gives _ hr, ?_, ?_⟩
  · rintro e rfl
    intro he
    rw [he] at hs
    cases hs
  · rintro functions s rfl
    exact hs

/-! ## Claims C4 and C6, when `TypeIsSame` throws -/

/-- Claim C4 fails on `var a: i64[1] = 1`. `ValidateVariableDeclaration` on
`VariableDeclaration[Variable(name, T), init]`, in a state with at least one scope, succeeds
iff `T` is present, is not void and `init` validates to a type structurally equal to `T`; on
success the node has type `T`, the innermost scope maps `name` to `T` and keeps its other
bindings, and the outer scopes, the depth, the current function and the function table are
unchanged. On a mismatch of the types the failure is the message
`Variable declaration types mismatch` behind the name of the current function when
`TypeIsSame` answers `false`, as in scenario S3, and it is `std::bad_variant_access` when
`TypeIsSame` throws, as for the declared type `i64[1]` and the initializer `1`. -/
theorem C4_declaration_mismatch_may_throw (self : Validator) (kind : ExpressionKind)
    (type T : Option Ty) (name : String) (init : Expression) (hne : self._scopes ≠ []) :
    ((∃ r, self.ValidateVariableDeclaration kind type
        (.ExpressionChildren [.mk .VARIABLE T (.string name), init]) = .ok r) ↔
      ∃ t s1 init' t', T = some t ∧ t ≠ .BuiltinType .void_t ∧
        self.ValidateExpression init = .ok (s1, init') ∧ init'.type = some t' ∧
        StructurallyEqual t t' = true) ∧
    (∀ s e, self.ValidateVariableDeclaration kind type
        (.ExpressionChildren [.mk .VARIABLE T (.string name), init]) = .ok (s, e) →
      ∃ t s1 init' back back', T = some t ∧
        self.ValidateExpression init = .ok (s1, init') ∧
        e = .mk kind (some t) (.ExpressionChildren [.mk .VARIABLE T (.string name), init']) ∧
        e.type = T ∧
        s1._scopes = self._scopes.dropLast ++ [back] ∧
        s._scopes = self._scopes.dropLast ++ [back'] ∧
        back'.vars.find name = some t ∧
        (∀ other, other ≠ name → back'.vars.find other = back.vars.find other) ∧
        s.FindVariable name = some t ∧
        s._scopes.length = self._scopes.length ∧
        s._currentFunction = self._currentFunction ∧
        s._definedFunctions = self._definedFunctions) ∧
    (∀ t s1 init' t', T = some t → t ≠ .BuiltinType .void_t →
      self.ValidateExpression init = .ok (s1, init') → init'.type = some t' →
      StructurallyEqual t t' = false →
      (TypeIsSame t t' = .ok false ∧
        self.ValidateVariableDeclaration kind type
          (.ExpressionChildren [.mk .VARIABLE T (.string name), init]) =
          .error (.invalid_argument
            (self._currentFunction.name ++ ": " ++ "Variable declaration types mismatch"))) ∨
      (TypeIsSame t t' = .error .bad_variant_access ∧
        self.ValidateVariableDeclaration kind type
          (.ExpressionChildren [.mk .VARIABLE T (.string name), init]) =
          .error .bad_variant_access)) ∧
    Validator.new.ValidateFunction S3 =
      .error (.invalid_argument "f: Variable declaration types mismatch") ∧
    oneScope.ValidateVariableDeclaration .VARIABLE_DECLARATION none
        (.ExpressionChildren [.mk .VARIABLE (some (.Array i64 1)) (.string "a"),
          intLiteral 1]) = .error .bad_variant_access := by
  obtain ⟨h1, h2, h3, h4⟩ := ValidateVariableDeclaration_spec self kind type T name init hne
  refine ⟨h1, h2, ?_, h4, rfl⟩
  intro t s1 init' t' hT hvoid hinit hinit' hdiff
  rcases TypeIsSame_ok_or_throws t t' with hsame | hsame
  · rw [hdiff] at hsame
    exact Or.inl ⟨hsame, h3 t s1 init' t' hT hvoid hinit hinit' hsame⟩
  · refine Or.inr ⟨hsame, ?_⟩
    rw [Validator.ValidateVariableDeclaration]
    simp only [Expression.kind_mk, Expression.type_mk, hT, beq_self_eq_true, Option.isSome_some,
      VERIFY_true, bind_ok, optional_value, (TypeIsBuiltinOf_void t).mpr hvoid, hinit, hinit',
      hsame, bind_error]

/-- Claim C4 at the declaration `var y: i64 = x + 1` of scenario S2, validated in the state
in which `ValidateFunction` validates the statements of the body of S2. -/
theorem C4_declaration_mismatch_may_throw_witness :
    (Validator.new.enter S2)._scopes ++ [{ vars := [] }] ≠ [] ∧
    ∃ s e, Validator.ValidateVariableDeclaration
        { Validator.new.enter S2 with
          _scopes := (Validator.new.enter S2)._scopes ++ [{ vars := [] }] }
        .VARIABLE_DECLARATION none
        (.ExpressionChildren [.mk .VARIABLE (some i64) (.string "y"),
          node .PLUS_OP [variableRef "x", intLiteral 1]]) = .ok (s, e) ∧
      e.type = some i64 ∧ s.FindVariable "y" = some i64 :=
  ⟨by simp, by
    have h := (C4_declaration_mismatch_may_throw
      { Validator.new.enter S2 with
        _scopes := (Validator.new.enter S2)._scopes ++ [{ vars := [] }] }
      .VARIABLE_DECLARATION none (some i64) "y" (node .PLUS_OP [variableRef "x", intLiteral 1])
      (by simp)).1.mpr ⟨i64, _, _, i64, rfl, by simp [i64], rfl, rfl, rfl⟩
    obtain ⟨⟨s, e⟩, hr⟩ := h
    obtain ⟨t, s1, init', back, back', hT, -, -, hty, -, -, -, -, hfind, -⟩ :=
      (C4_declaration_mismatch_may_throw _ _ _ _ _ _ (by simp)).2.1 s e hr
    cases hT
    exact ⟨s, e, hr, hty, hfind⟩⟩

theorem ValidateComparison_throws (self s1 s2 : Validator) (kind : ExpressionKind)
    (type : Option Ty) (LHS RHS LHS' RHS' : Expression) (lhsType rhsType : Ty)
    (ex : Exception)
    (hl : self.ValidateExpression LHS = .ok (s1, LHS'))
    (hr : s1.ValidateExpression RHS = .ok (s2, RHS'))
    (hlt : LHS'.type = some lhsType) (hrt : RHS'.type = some rhsType)
    (hsame : TypeIsSame lhsType rhsType = .error ex) :
    self.ValidateComparison kind type (.ExpressionChildren [LHS, RHS]) = .error ex := by
  rw [Validator.ValidateComparison]
  simp only [hl, hr, hlt, hrt, bind_ok, optional_value, hsame, bind_error]

/-- Claim C6 fails on `a == 1` with `a` of the type `i64[1]`. `ValidateComparison` on a node
with the operands `LHS` and `RHS` succeeds iff both operands validate (the second in the
state the first leaves) to structurally equal types and the type is comparable, that is
i32, i64, u64, char or a pointer; on success the node has type bool. When both operands
validate and the type of one of them is bool, void, an array or a record, the comparison is
rejected: with a `ValidatorError` whenever `TypeIsSame` returns an answer for the two types,
and with `std::bad_variant_access` when `TypeIsSame` throws, which it does for an array on
the left and an integer on the right and for `[[1]] == [1]`. -/
theorem C6_comparison_of_array_may_throw (self : Validator) (kind : ExpressionKind)
    (type : Option Ty) (LHS RHS : Expression) :
    ((∃ r, self.ValidateComparison kind type (.ExpressionChildren [LHS, RHS]) = .ok r) ↔
      ∃ s1 LHS' lhsType s2 RHS' rhsType,
        self.ValidateExpression LHS = .ok (s1, LHS') ∧
        s1.ValidateExpression RHS = .ok (s2, RHS') ∧
        LHS'.type = some lhsType ∧ RHS'.type = some rhsType ∧
        StructurallyEqual lhsType rhsType = true ∧
        (lhsType = .BuiltinType .i32 ∨ lhsType = .BuiltinType .i64 ∨
          lhsType = .BuiltinType .u64 ∨ lhsType = .BuiltinType .character ∨
          ∃ pointedType, lhsType = .Pointer pointedType)) ∧
    (∀ s e, self.ValidateComparison kind type (.ExpressionChildren [LHS, RHS]) = .ok (s, e) →
      e.type = some (.BuiltinType .boolean)) ∧
    (∀ s1 LHS' s2 RHS' lhsType rhsType,
      self.ValidateExpression LHS = .ok (s1, LHS') →
      s1.ValidateExpression RHS = .ok (s2, RHS') →
      LHS'.type = some lhsType → RHS'.type = some rhsType →
      (∃ t, (t = lhsType ∨ t = rhsType) ∧
        (t = .BuiltinType .boolean ∨ t = .BuiltinType .void_t ∨
        (∃ elementType size, t = .Array elementType size) ∨ ∃ fields, t = .Struct fields)) →
      (∃ exception,
        self.ValidateComparison kind type (.ExpressionChildren [LHS, RHS]) =
          .error exception) ∧
      (∀ answer, TypeIsSame lhsType rhsType = .ok answer →
        ∃ message,
          self.ValidateComparison kind type (.ExpressionChildren [LHS, RHS]) =
            .error (.invalid_argument (self._currentFunction.name ++ ": " ++ message))) ∧
      ((∀ answer, TypeIsSame lhsType rhsType ≠ .ok answer) →
        TypeIsSame lhsType rhsType = .error .bad_variant_access ∧
        self.ValidateComparison kind type (.ExpressionChildren [LHS, RHS]) =
          .error .bad_variant_access)) ∧
    (∀ value,
      self.ValidateExpression (.mk .LESS_THAN_OP type value) =
        self.ValidateComparison .LESS_THAN_OP type value ∧
      self.ValidateExpression (.mk .GREATER_THAN_OP type value) =
        self.ValidateComparison .GREATER_THAN_OP type value ∧
      self.ValidateExpression (.mk .EQUAL_OP type value) =
        self.ValidateComparison .EQUAL_OP type value ∧
      self.ValidateExpression (.mk .NOT_EQUAL_OP type value) =
        self.ValidateComparison .NOT_EQUAL_OP type value) ∧
    (Validator.new.ValidateFunction
      { prototype := { name := "f", arguments := [], returnType := bool }
        body := node .SCOPE [node .RETURN
          [node .LESS_THAN_OP [intLiteral 1, intLiteral 2]]] }).map (fun r => r.2.body) = .ok
      (.mk .SCOPE none (.ExpressionChildren [
        .mk .RETURN (some bool) (.ExpressionChildren [
          .mk .LESS_THAN_OP (some bool) (.ExpressionChildren [
            .mk .LITERAL (some i64) (.int64_t 1),
            .mk .LITERAL (some i64) (.int64_t 2)])])])) ∧
    Validator.new.ValidateFunction
      { prototype := { name := "f", arguments := [], returnType := bool }
        body := node .SCOPE [node .RETURN [node .EQUAL_OP
          [.mk .LITERAL (some bool) (.bool true), .mk .LITERAL (some bool) (.bool false)]]] } =
      .error (.invalid_argument "f: Comparison operand type is not comparable") ∧
    Validator.new.ValidateFunction comparesArray = .error .bad_variant_access ∧
    Validator.new.ValidateFunction comparesNestedArray = .error .bad_variant_access := by
  obtain ⟨h1, h2, h3, h4, h5, h6⟩ := ValidateComparison_spec self kind type LHS RHS
  refine ⟨h1, h2, ?_, h4, h5, h6, rfl, rfl⟩
  intro s1 LHS' s2 RHS' lhsType rhsType hl hr hlt hrt ht
  obtain ⟨ha, hb⟩ := h3 s1 LHS' s2 RHS' lhsType rhsType hl hr hlt hrt ht
  refine ⟨ha, hb, ?_⟩
  intro hno
  rcases TypeIsSame_ok_or_throws lhsType rhsType with hsame | hsame
  · exact absurd hsame (hno _)
  · exact ⟨hsame, ValidateComparison_throws self s1 s2 kind type LHS RHS LHS' RHS' lhsType
      rhsType _ hl hr hlt hrt hsame⟩

/-! ## Claim C29, on a comment line behind tabs -/

/-- Claim C29 fails on the three lines `a`, two tabs and `#`, and a tab and `b`. In an input
whose lines that begin with a tab are all significant, the tokens of `Tokenize` are those of
the specification: for every significant line, in order, the indentation tokens for its
level after the level before it (0 at the start), the content tokens of the line and one
`EndOfLine`, and at the end one `IndentMinus` for every level that is open and one
`EndOfFile`; and in every input the last token is the `EndOfFile`. A line of tabs and then
`#` is not significant, but the tokenizer gives it indentation tokens and an `EndOfLine` and
takes its level for the previous one: before `b` it emits an `IndentMinus` where the
specification has an `IndentPlus`, and at the end of `a`, tab `#` it emits an `IndentMinus`
although the last significant line has the level 0. -/
theorem C29_comment_line_sets_level :
    (∀ (input file : String),
      (∀ line ∈ getlines input.toList, line.head? = some charTab → significant line = true) →
      Tokenizer.Tokenize input file =
        indentedTokens file (getlines input.toList).length
          (significantLines 1 (getlines input.toList)) 0) ∧
    (∀ (input file : String) (tokens : List Token),
      Tokenizer.Tokenize input file = .ok tokens →
      tokens.getLast? = some { file := file, line := (getlines input.toList).length,
                               type := .EndOfFile, value := none }) ∧
    Tokenizer.Tokenize threeLines "f" =
      .ok [{ file := "f", line := 1, type := .Identifier, value := some "a" },
           { file := "f", line := 1, type := .EndOfLine, value := none },
           { file := "f", line := 2, type := .IndentPlus, value := none },
           { file := "f", line := 2, type := .Identifier, value := some "b" },
           { file := "f", line := 2, type := .EndOfLine, value := none },
           { file := "f", line := 3, type := .IndentMinus, value := none },
           { file := "f", line := 3, type := .Identifier, value := some "c" },
           { file := "f", line := 3, type := .EndOfLine, value := none },
           { file := "f", line := 3, type := .EndOfFile, value := none }] ∧
    significantLines 1 (getlines deepComment.toList) = [(1, ['a']), (3, [charTab, 'b'])] ∧
    indentedTokens "f" (getlines deepComment.toList).length
        (significantLines 1 (getlines deepComment.toList)) 0 =
      .ok [{ file := "f", line := 1, type := .Identifier, value := some "a" },
           { file := "f", line := 1, type := .EndOfLine, value := none },
           { file := "f", line := 3, type := .IndentPlus, value := none },
           { file := "f", line := 3, type := .Identifier, value := some "b" },
           { file := "f", line := 3, type := .EndOfLine, value := none },
           { file := "f", line := 3, type := .IndentMinus, value := none },
           { file := "f", line := 3, type := .EndOfFile, value := none }] ∧
    Tokenizer.Tokenize deepComment "f" =
      .ok [{ file := "f", line := 1, type := .Identifier, value := some "a" },
           { file := "f", line := 1, type := .EndOfLine, value := none },
           { file := "f", line := 2, type := .IndentPlus, value := none },
           { file := "f", line := 2, type := .IndentPlus, value := none },
           { file := "f", line := 2, type := .EndOfLine, value := none },
           { file := "f", line := 3, type := .IndentMinus, value := none },
           { file := "f", line := 3, type := .Identifier, value := some "b" },
           { file := "f", line := 3, type := .EndOfLine, value := none },
           { file := "f", line := 3, type := .IndentMinus, value := none },
           { file := "f", line := 3, type := .EndOfFile, value := none }] ∧
    significantLines 1 (getlines trailingComment.toList) = [(1, ['a'])] ∧
    indentedTokens "f" (getlines trailingComment.toList).length
        (significantLines 1 (getlines trailingComment.toList)) 0 =
      .ok [{ file := "f", line := 1, type := .Identifier, value := some "a" },
           { file := "f", line := 1, type := .EndOfLine, value := none },
           { file := "f", line := 2, type := .EndOfFile, value := none }] ∧
    Tokenizer.Tokenize trailingComment "f" =
      .ok [{ file := "f", line := 1, type := .Identifier, value := some "a" },
           { file := "f", line := 1, type := .EndOfLine, value := none },
           { file := "f", line := 2, type := .IndentPlus, value := none },
           { file := "f", line := 2, type := .EndOfLine, value := none },
           { file := "f", line := 2, type := .IndentMinus, value := none },
           { file := "f", line := 2, type := .EndOfFile, value := none }] := by
  refine ⟨?_, ?_, by rfl, by rfl, by rfl, by rfl, by rfl, by rfl, by rfl⟩
  · intro input file h
    have := TokenizeLoop_significant file (getlines input.toList) 0 0 h
    simpa using this
  · intro input file tokens ht
    have := TokenizeLoop_getLast file (getlines input.toList) 0 0 tokens ht
    simpa using this

/-! ## Claim C19: the record literal of the parser -/

/-- Every result of the loop of `ParseStructLiteral`: one field for every element, with the
empty name and the type of the element. -/
theorem ParseStructLiteralLoop_fields :
    ∀ (fuel : Nat) (self s' : Parser) (elements : List Expression)
      (fields : List StructField),
      Parser.ParseStructLiteralLoop fuel self = some (.ok (elements, fields, s')) →
      List.Forall₂ (fun element f => f.name = "" ∧ element.type = some f.fieldType)
        elements fields := by
  intro fuel
  induction fuel with
  | zero =>
    intro self s' elements fields h
    rw [Parser.ParseStructLiteralLoop] at h
    cases h
  | succ n ih =>
    intro self s' elements fields h
    rw [Parser.ParseStructLiteralLoop, Fueled.ok_of_bind] at h
    obtain ⟨s1, -, h⟩ := h
    rw [Fueled.ok_of_bind] at h
    obtain ⟨⟨element, s2⟩, -, h⟩ := h
    dsimp only at h
    rw [Fueled.ok_of_bind] at h
    obtain ⟨elementType, ht, h⟩ := h
    have ht : element.type = some elementType :=
      (optional_value_eq_ok _ _).mp (Fueled.some_inj.mp ht)
    rw [Fueled.ok_of_bind] at h
    obtain ⟨current, -, h⟩ := h
    split at h
    · rw [Fueled.ok_of_bind] at h
      obtain ⟨⟨elements', fields', s3⟩, hloop, h⟩ := h
      cases h
      exact List.Forall₂.cons ⟨rfl, ht⟩ (ih _ _ _ _ hloop)
    · cases h
      exact List.Forall₂.cons ⟨rfl, ht⟩ List.Forall₂.nil

/-- Every result of `ParseStructLiteral`: a Literal over the parsed elements, of the record
type of the fields of the loop. -/
theorem ParseStructLiteral_fields (fuel : Nat) (self s' : Parser) (literal : Expression)
    (h : Parser.ParseStructLiteral fuel self = some (.ok (literal, s'))) :
    ∃ elements fields,
      literal = .mk .LITERAL (some (.Struct fields)) (.ExpressionChildren elements) ∧
      List.Forall₂ (fun element f => f.name = "" ∧ element.type = some f.fieldType)
        elements fields := by
  cases fuel with
  | zero =>
    rw [Parser.ParseStructLiteral] at h
    cases h
  | succ n =>
    rw [Parser.ParseStructLiteral, Fueled.ok_of_bind] at h
    obtain ⟨⟨elements, fields, s1⟩, hloop, h⟩ := h
    dsimp only at h
    rw [Fueled.ok_of_bind] at h
    obtain ⟨⟨token, s2⟩, -, h⟩ := h
    cases h
    exact ⟨elements, fields, rfl, ParseStructLiteralLoop_fields n self s1 elements fields hloop⟩

/-- With enough fuel the loop of `ParseStructLiteral` returns the elements that it reads and,
when they have the types `types`, a field with the empty name of each of the types. -/
theorem ParseStructLiteralLoop_elements {s s' : Parser} {l : List Expression}
    (h : ReadsElements s l s') :
    ∀ types : List Ty, List.Forall₂ (fun element t => element.type = some t) l types →
      ∃ n, ∀ fuel, n ≤ fuel →
        Parser.ParseStructLiteralLoop fuel s =
          some (.ok (l, types.map (StructField.mk ""), s')) := by
  induction h with
  | last s s1 current next rest rest1 e ht he ht1 hn =>
    intro types htypes
    obtain ⟨k, he⟩ := he
    cases htypes with
    | cons hfirst hrest =>
      cases hrest
      refine ⟨k + 1, fun fuel hfuel => ?_⟩
      obtain ⟨m, rfl⟩ : ∃ m, fuel = m + 1 := ⟨fuel - 1, by omega⟩
      rw [Parser.ParseStructLiteralLoop]
      simp [Parser.currentToken, Parser.Advance, ht, Fueled.monadLift_eq, Fueled.ok_bind,
        Fueled.pure_eq, he m (by omega), ht1, hn, hfirst, optional_value]
  | more s s1 s' current comma rest rest1 e l ht he ht1 hc _ ih =>
    intro types htypes
    obtain ⟨k, he⟩ := he
    cases htypes with
    | cons hfirst hrest =>
      obtain ⟨n, ih⟩ := ih _ hrest
      refine ⟨n + k + 1, fun fuel hfuel => ?_⟩
      obtain ⟨m, rfl⟩ : ∃ m, fuel = m + 1 := ⟨fuel - 1, by omega⟩
      rw [Parser.ParseStructLiteralLoop]
      simp [Parser.currentToken, Parser.Advance, ht, Fueled.monadLift_eq, Fueled.ok_bind,
        Fueled.pure_eq, he m (by omega), ht1, hc, ih m (by omega), hfirst, optional_value]

theorem ParseStructLiteral_gives (fuel : Nat) {self : Parser}
    {r : Except Exception (Expression × Parser)}
    (h : Parser.ParseStructLiteral fuel self = some r) :
    Fueled.Gives (Parser.ParseStructLiteral · self) r :=
  Fueled.gives_of_eq (Parser.ParseStructLiteral · self)
    (fun n => (Parser.deeper n).ParseStructLiteral self) h

/-- The record literal whose elements have types. -/
theorem ParseStructLiteral_typed (s s1 : Parser) (elements : List Expression)
    (types : List Ty) (closing : Token) (rest : List Token)
    (h : ReadsElements s elements s1) (ht : s1.tokens = closing :: rest)
    (hc : closing.type = .RightBrace)
    (htypes : List.Forall₂ (fun element t => element.type = some t) elements types) :
    Fueled.Gives (Parser.ParseStructLiteral · s)
      (.ok (.mk .LITERAL (some (.Struct (types.map (StructField.mk ""))))
        (.ExpressionChildren elements), { s1 with tokens := rest })) := by
  obtain ⟨n, h⟩ := ParseStructLiteralLoop_elements h types htypes
  refine ⟨n + 1, fun fuel hfuel => ?_⟩
  obtain ⟨m, rfl⟩ : ∃ m, fuel = m + 1 := ⟨fuel - 1, by omega⟩
  show Parser.ParseStructLiteral (m + 1) s = _
  rw [Parser.ParseStructLiteral]
  simp [h m (by omega), Fueled.ok_bind, Parser.ExpectTokenType, Parser.currentToken,
    Parser.Advance, ht, hc, Fueled.monadLift_eq, Fueled.pure_eq, bind_ok, pure, Except.pure]

theorem TypeIsSame_positional (fa fb : List StructField)
    (h : List.Forall₂ (fun f g => TypeIsSame f.fieldType g.fieldType = .ok true) fa fb) :
    TypeIsSame (.Struct fa) (.Struct fb) = .ok true := by
  rw [TypeIsSame]
  simp only [h.length_eq, ne_eq, not_true_eq_false, if_false]
  exact TypeIsSameFields_of_forall₂ fa fb h

/-- C19. Record equality is positional and ignores field names: `TypeIsSame` returns
`true` on two records of the same number of fields whose field types are `TypeIsSame`
position by position, whatever the names of the fields. Whatever `ParseStructLiteral`
returns, with whatever fuel and from whatever state, is a Literal over the parsed elements
whose type is a record of one field with the empty name for each element, typed by the
elements in order, and that type is `TypeIsSame` to every record whose field types match
it by position, in both orders of the arguments. With enough fuel `ParseStructLiteral` does
return it, for elements that have types and are closed by a brace, as for `1` and `2` in
braces, whose Literal initializes a variable of the record type `P` of scenario S4. -/
theorem C19_record_literal_is_positional :
    (∀ fa fb : List StructField,
      List.Forall₂ (fun f g => TypeIsSame f.fieldType g.fieldType = .ok true) fa fb →
      TypeIsSame (.Struct fa) (.Struct fb) = .ok true) ∧
    (∀ (fuel : Nat) (self s' : Parser) (literal : Expression),
      Parser.ParseStructLiteral fuel self = some (.ok (literal, s')) →
      ∃ elements fields,
        literal = .mk .LITERAL (some (.Struct fields)) (.ExpressionChildren elements) ∧
        List.Forall₂ (fun element f => f.name = "" ∧ element.type = some f.fieldType)
          elements fields ∧
        ∀ declared : List StructField,
          (List.Forall₂ (fun f g => TypeIsSame f.fieldType g.fieldType = .ok true)
            fields declared →
            TypeIsSame (.Struct fields) (.Struct declared) = .ok true) ∧
          (List.Forall₂ (fun g f => TypeIsSame g.fieldType f.fieldType = .ok true)
            declared fields →
            TypeIsSame (.Struct declared) (.Struct fields) = .ok true)) ∧
    (∀ (s s1 : Parser) (elements : List Expression) (types : List Ty) (closing : Token)
      (rest : List Token), ReadsElements s elements s1 →
      s1.tokens = closing :: rest → closing.type = .RightBrace →
      List.Forall₂ (fun element t => element.type = some t) elements types →
      Fueled.Gives (Parser.ParseStructLiteral · s)
        (.ok (.mk .LITERAL (some (.Struct (types.map (StructField.mk ""))))
          (.ExpressionChildren elements), { s1 with tokens := rest }))) ∧
    Fueled.Gives (Parser.ParseStructLiteral · (parserAt recordLiteralTokens))
      (.ok (.mk .LITERAL (some (.Struct [.mk "" i64, .mk "" i64]))
        (.ExpressionChildren [intLiteral 1, intLiteral 2]),
        parserAt [tokenOf .EndOfLine none])) ∧
    Fueled.Gives (Parser.ParseStructLiteral · (parserAt recordOfVariableTokens))
      (.error .bad_optional_access) ∧
    TypeIsSame (.Struct [.mk "" i64, .mk "" i64]) S4_P = .ok true ∧
    TypeIsSame S4_P (.Struct [.mk "" i64, .mk "" i64]) = .ok true ∧
    (Validator.new.ValidateFunction recordLiteralFunction).toBool = true := by
  refine ⟨TypeIsSame_positional, ?_, ParseStructLiteral_typed, ParseStructLiteral_gives 8 rfl,
    ParseStructLiteral_gives 8 rfl, rfl, rfl, rfl⟩
  intro fuel self s' literal h
  obtain ⟨elements, fields, hl, hf⟩ := ParseStructLiteral_fields fuel self s' literal h
  exact ⟨elements, fields, hl, hf,
    fun declared => ⟨TypeIsSame_positional fields declared,
      TypeIsSame_positional declared fields⟩⟩

end YepLang
